import Mathlib

/-!
# Zeek script optimizer: reduction, use-defs and the ZAM peephole optimizer

A shallow embedding of the parts of `Expr.cc`, `UseDefs.cc` and
`script_opt/ZAM/AM-Opt.cc` that the specification's testable properties
talk about, followed by the theorems that settle them.
-/

set_option autoImplicit false

namespace ZAM

/-! ## Frame remapping (`AM-Opt.cc`, `ZAMCompiler::ReMapFrame` / `ReMapVar`) -/

/-- An identifier handle (an `ID*` of the source). -/
abbrev ID := Nat

/-- `FrameSharingInfo`: the identifiers that share one frame slot, the
instruction at which each of them starts, the end of scope of the last one
and whether the slot is managed. -/
structure FrameSharingInfo where
  ids : List ID
  id_start : List Int
  scope_end : Int
  is_managed : Bool
deriving Repr, DecidableEq

/-- The compiler state that the first loop of `ReMapFrame` only reads.
Instructions are named by their position in `insts1`.
`inst_beginnings i` is `none` when `inst_beginnings.count(insts1[i]) == 0`;
`denizen_ending slot` is the `inst_num` of `denizen_ending[slot]` (`none`
when the slot has no entry); `isManagedType id` stands for
`ZVal::IsManagedType(id->GetType())`. -/
structure FrameInfo where
  num_slots : Nat
  inst_beginnings : Nat → Option (List ID)
  frame_layout1 : ID → Nat
  denizen_ending : Nat → Option Int
  isManagedType : ID → Bool

/-- The compiler state that `ReMapVar` updates. -/
structure ReMapState where
  shared_frame_denizens : List FrameSharingInfo
  managed_slotsI : List Nat
  frame1_to_frame2 : List Int
deriving Repr, DecidableEq

/-- The search loop of `ReMapVar` (AM-Opt.cc 649-673): `i` is the index of
the head of the list, `apt` the candidate found so far (`none` for `-1`). -/
def aptSlotSearch (is_managed : Bool) (inst : Int) :
    List FrameSharingInfo → Nat → Option Nat → Option Nat
  | [], _, apt => apt
  | s :: rest, i, apt =>
    if s.scope_end ≤ inst ∧ s.is_managed = is_managed then
      if s.scope_end = inst then some i
      else if apt.isNone then aptSlotSearch is_managed inst rest (i + 1) (some i)
      else aptSlotSearch is_managed inst rest (i + 1) apt
    else aptSlotSearch is_managed inst rest (i + 1) apt

/-- Append an identifier and its start to the slot at position `k`, and set
the slot's end of scope (AM-Opt.cc 690-694). -/
def recordDenizen (id : ID) (inst scope_end : Int) :
    List FrameSharingInfo → Nat → List FrameSharingInfo
  | [], _ => []
  | s :: rest, 0 =>
    { s with ids := s.ids ++ [id], id_start := s.id_start ++ [inst],
             scope_end := scope_end } :: rest
  | s :: rest, k + 1 => s :: recordDenizen id inst scope_end rest k

/-- `ZAMCompiler::ReMapVar(id, slot, inst)` (AM-Opt.cc 633-697).  The caller
only calls it for slots that have a `denizen_ending` entry. -/
def ReMapVar (F : FrameInfo) (st : ReMapState) (id : ID) (slot : Nat) (inst : Int) :
    ReMapState :=
  match F.denizen_ending slot with
  | none => st
  | some scope_end =>
    let is_managed := F.isManagedType id
    match aptSlotSearch is_managed inst st.shared_frame_denizens 0 none with
    | none =>
      let apt_slot := st.shared_frame_denizens.length
      let info : FrameSharingInfo :=
        { ids := [], id_start := [], scope_end := -1, is_managed := is_managed }
      { shared_frame_denizens :=
          recordDenizen id inst scope_end (st.shared_frame_denizens ++ [info]) apt_slot
        managed_slotsI :=
          if is_managed then st.managed_slotsI ++ [apt_slot] else st.managed_slotsI
        frame1_to_frame2 := st.frame1_to_frame2.set slot (apt_slot : Int) }
    | some apt_slot =>
      { shared_frame_denizens :=
          recordDenizen id inst scope_end st.shared_frame_denizens apt_slot
        managed_slotsI := st.managed_slotsI
        frame1_to_frame2 := st.frame1_to_frame2.set slot (apt_slot : Int) }

/-- The inner loop of `ReMapFrame` over the variables that begin at
instruction `i` (AM-Opt.cc 461-468). -/
def ReMapFrame_vars (F : FrameInfo) (i : Nat) : List ID → ReMapState → ReMapState
  | [], st => st
  | v :: vs, st =>
    let slot := F.frame_layout1 v
    if (F.denizen_ending slot).isSome then
      ReMapFrame_vars F i vs (ReMapVar F st v slot (i : Int))
    else
      ReMapFrame_vars F i vs st

/-- One iteration of the outer loop of `ReMapFrame` (AM-Opt.cc 453-469). -/
def ReMapFrame_step (F : FrameInfo) (st : ReMapState) (i : Nat) : ReMapState :=
  match F.inst_beginnings i with
  | none => st
  | some vars => ReMapFrame_vars F i vars st

/-- The slot-assignment part of `ZAMCompiler::ReMapFrame` for a body of
`n` instructions (AM-Opt.cc 450-469), started, as the compiler does, with no
shared slot yet.  The rest of `ReMapFrame` rewrites the instructions and
leaves `shared_frame_denizens` alone. -/
def ReMapFrame_assign (F : FrameInfo) (n : Nat) : ReMapState :=
  (List.range n).foldl (ReMapFrame_step F)
    { shared_frame_denizens := []
      managed_slotsI := []
      frame1_to_frame2 := List.replicate F.num_slots (-1) }

/-- The lifetime end of an identifier: `denizen_ending[frame_layout1[id]]->inst_num`. -/
def lifetimeEnd (F : FrameInfo) (id : ID) : Option Int :=
  F.denizen_ending (F.frame_layout1 id)

/-- The pairs (identifier, start instruction) recorded in a shared slot, in
the order in which they were mapped. -/
def FrameSharingInfo.entries (s : FrameSharingInfo) : List (ID × Int) :=
  s.ids.zip s.id_start

/-- The earlier entry's lifetime has ended when the later one starts. -/
def EndsBefore (F : FrameInfo) (x y : ID × Int) : Prop :=
  ∃ e, lifetimeEnd F x.1 = some e ∧ e ≤ y.2

/-- The invariant of one shared slot while `ReMapFrame` is at instruction `b`. -/
structure SlotInv (F : FrameInfo) (b : Int) (s : FrameSharingInfo) : Prop where
  len : s.ids.length = s.id_start.length
  pw : s.entries.Pairwise (EndsBefore F)
  ends : ∀ x ∈ s.entries, ∃ e, lifetimeEnd F x.1 = some e ∧ (e ≤ s.scope_end ∨ e ≤ b)

end ZAM

namespace ZAM

/-! ## Instructions (`ZInst.cc`) and the peephole passes (`AM-Opt.cc`) -/

/-- `ZAMOpType`: how the operand fields of an instruction are used. -/
inductive ZAMOpType where
  | OP_X | OP_C | OP_V | OP_V_I1 | OP_VC_I1 | OP_VC
  | OP_VV | OP_VV_I2 | OP_VV_I1_I2 | OP_VV_FRAME
  | OP_VVC | OP_VVC_I2
  | OP_VVV | OP_VVV_I3 | OP_VVV_I2_I3
  | OP_VVVC | OP_VVVC_I3 | OP_VVVC_I2_I3 | OP_VVVC_I1_I2_I3
  | OP_VVVV | OP_VVVV_I4 | OP_VVVV_I3_I4 | OP_VVVV_I2_I3_I4
deriving Repr, DecidableEq

/-- `ZAMOp1Flavor`: how an instruction treats its first operand. -/
inductive ZAMOp1Flavor where
  | OP1_READ | OP1_WRITE | OP1_READ_WRITE | OP1_INTERNAL
deriving Repr, DecidableEq

/-- `ZOp`: the opcodes that the optimizer names, and `other n` for the rest
of the generated opcode list. -/
inductive ZOp where
  | OP_NOP
  | OP_GOTO_V
  | OP_RETURN_X | OP_RETURN_V | OP_RETURN_C
  | OP_HOOK_BREAK_X
  | OP_SYNC_GLOBALS_X
  | OP_DIRTY_GLOBAL_V
  | OP_NEXT_TABLE_ITER_VV | OP_NEXT_TABLE_ITER_VAL_VAR_VVV
  | OP_NEXT_TABLE_ITER_NO_VARS_VV | OP_NEXT_TABLE_ITER_VAL_VAR_NO_VARS_VVV
  | OP_NEXT_VECTOR_ITER_VVV | OP_NEXT_STRING_ITER_VVV
  | OP_INIT_TABLE_LOOP_VV | OP_INIT_TABLE_LOOP_RECURSIVE_VV
  | OP_INIT_VECTOR_LOOP_VV | OP_INIT_STRING_LOOP_VV
  | other (n : Nat)
deriving Repr, DecidableEq

/-- The auxiliary block of an instruction: `slots` (with `n` its length;
`none` when the pointer is null) and `loop_vars`. -/
structure ZInstAux where
  slots : Option (List Int)
  loop_vars : List Int
deriving Repr, DecidableEq

/-- `ZInstI`: an intermediary instruction.  Branch targets are positions in
`insts1`; a position at or beyond the end of `insts1` is `pending_inst`. -/
structure ZInstI where
  op : ZOp
  op_type : ZAMOpType
  v1 : Int
  v2 : Int
  v3 : Int
  v4 : Int
  live : Bool
  target : Option Nat
  target2 : Option Nat
  num_labels : Int
  loop_depth : Int
  aux : Option ZInstAux
deriving Repr, DecidableEq

/-- The generated per-opcode tables (`ZAM-Op1FlavorsDefs.h`,
`ZAM-OpSideEffects.h`, `ZAM-AssignFlavorsDefs.h`) and the two predicates of
`ZInst.h` whose definitions are not among the sources. -/
structure OpTables where
  op1_flavor : ZOp → ZAMOp1Flavor
  op_side_effects : ZOp → Bool
  assignmentless_op : ZOp → Option ZOp
  assignmentless_op_type : ZOp → ZAMOpType
  isLoad : ZOp → ZAMOpType → Bool
  isFrameStore : ZOp → ZAMOpType → Bool

/-- `ZInstI::DoesNotContinue` (ZInst.cc 457-470). -/
def ZInstI.DoesNotContinue (i : ZInstI) : Bool :=
  match i.op with
  | .OP_RETURN_X | .OP_RETURN_V | .OP_RETURN_C | .OP_GOTO_V | .OP_HOOK_BREAK_X => true
  | _ => false

/-- Modelled from the spec: `ZInstI::IsUnconditionalBranch` is declared in
`ZInst.h`, which is not among the sources.  The unconditional branch of the
specification's branch collapsing is the `OP_GOTO_V` instruction, the only
branch among the opcodes that `DoesNotContinue` lists. -/
def ZInstI.IsUnconditionalBranch (i : ZInstI) : Bool :=
  i.op = ZOp.OP_GOTO_V

/-- `ZInstI::HasSideEffects` (ZInst.cc 498-501). -/
def ZInstI.HasSideEffects (T : OpTables) (i : ZInstI) : Bool :=
  T.op_side_effects i.op

/-- `ZInstI::AssignsToSlot1` (ZInst.cc 503-537). -/
def ZInstI.AssignsToSlot1 (T : OpTables) (i : ZInstI) : Bool :=
  match i.op_type with
  | .OP_X | .OP_C | .OP_V_I1 | .OP_VC_I1 | .OP_VV_I1_I2 | .OP_VVVC_I1_I2_I3 => false
  | _ =>
    let fl := T.op1_flavor i.op
    fl = ZAMOp1Flavor.OP1_WRITE || fl = ZAMOp1Flavor.OP1_READ_WRITE

/-- `ZInstI::UsesSlot` (ZInst.cc 539-579). -/
def ZInstI.UsesSlot (T : OpTables) (i : ZInstI) (slot : Int) : Bool :=
  let fl := T.op1_flavor i.op
  let v1_relevant : Bool := fl = ZAMOp1Flavor.OP1_READ || fl = ZAMOp1Flavor.OP1_READ_WRITE
  let v1_match : Bool := v1_relevant && i.v1 = slot
  match i.op_type with
  | .OP_X | .OP_C | .OP_V_I1 | .OP_VC_I1 | .OP_VV_I1_I2 | .OP_VVVC_I1_I2_I3 => false
  | .OP_V | .OP_VC | .OP_VV_FRAME | .OP_VV_I2 | .OP_VVC_I2 | .OP_VVV_I2_I3
  | .OP_VVVC_I2_I3 | .OP_VVVV_I2_I3_I4 => v1_match
  | .OP_VV | .OP_VVC | .OP_VVV_I3 | .OP_VVVV_I3_I4 | .OP_VVVC_I3 =>
    v1_match || i.v2 = slot
  | .OP_VVV | .OP_VVVC | .OP_VVVV_I4 => v1_match || i.v2 = slot || i.v3 = slot
  | .OP_VVVV => v1_match || i.v2 = slot || i.v3 = slot || i.v4 = slot

/-- `ZInstI::IsLoad`, through the table parameter. -/
def ZInstI.IsLoad (T : OpTables) (i : ZInstI) : Bool := T.isLoad i.op i.op_type

/-- `ZInstI::IsFrameStore`, through the table parameter. -/
def ZInstI.IsFrameStore (T : OpTables) (i : ZInstI) : Bool := T.isFrameStore i.op i.op_type

/-- Apply `f` to the element at position `k` (an in-place update through a
pointer into `insts1`); positions outside the list name `pending_inst`,
which the list does not hold. -/
def updAt (f : ZInstI → ZInstI) : List ZInstI → Nat → List ZInstI
  | [], _ => []
  | x :: xs, 0 => f x :: xs
  | x :: xs, k + 1 => x :: updAt f xs k

/-- `--(t->num_labels)` for an optional target. -/
def decLabel (insts : List ZInstI) : Option Nat → List ZInstI
  | none => insts
  | some t => updAt (fun x => { x with num_labels := x.num_labels - 1 }) insts t

/-- `ZAMCompiler::KillInst` (AM-Opt.cc 924-931) on the instruction at position `i`. -/
def KillInst (insts : List ZInstI) (i : Nat) : List ZInstI :=
  match insts[i]? with
  | none => insts
  | some inst =>
    let insts1 := updAt (fun x => { x with live := false }) insts i
    let insts2 := decLabel insts1 inst.target
    decLabel insts2 inst.target2

/-- `ZAMCompiler::VarIsAssigned(slot, i)` (AM-Opt.cc 874-902). -/
def VarIsAssignedAt (T : OpTables) (slot : Int) (i : ZInstI) : Bool :=
  let iter : Bool := i.op = ZOp.OP_NEXT_TABLE_ITER_VAL_VAR_VVV || i.op = ZOp.OP_NEXT_TABLE_ITER_VV
  let iter_vars : List Int := match i.aux with
    | none => []
    | some a => a.loop_vars
  if iter && iter_vars.contains slot then true
  else if iter && i.op != ZOp.OP_NEXT_TABLE_ITER_VAL_VAR_VVV then false
  else if i.op_type = ZAMOpType.OP_VV_FRAME then false
  else i.AssignsToSlot1 T && i.v1 = slot

/-- `ZAMCompiler::VarIsAssigned(slot)` (AM-Opt.cc 862-872). -/
def VarIsAssigned (T : OpTables) (insts : List ZInstI) (slot : Int) : Bool :=
  insts.any (fun inst => inst.live && VarIsAssignedAt T slot inst)

/-- `ZAMCompiler::VarIsUsed` (AM-Opt.cc 904-922); the auxiliary slots are
looked at whether or not the instruction is live. -/
def VarIsUsed (T : OpTables) (insts : List ZInstI) (slot : Int) : Bool :=
  insts.any (fun inst =>
    (inst.live && inst.UsesSlot T slot) ||
    (match inst.aux with
     | some a => (match a.slots with
                  | some sl => sl.contains slot
                  | none => false)
     | none => false))

/-- The part of the compiler state that `PruneUnused` reads and writes:
the instructions and, per slot, the position in `insts1` of its
`denizen_ending` instruction. -/
structure PruneState where
  insts1 : List ZInstI
  denizen_ending : Int → Option Nat
  did_prune : Bool

/-- The first rule of the loop body of `PruneUnused` (AM-Opt.cc 242-246): a
frame store of a variable that is never assigned is killed. -/
def pruneFrameStore (T : OpTables) (st : PruneState) (i : Nat) (inst : ZInstI) : PruneState :=
  if inst.IsFrameStore T && !VarIsAssigned T st.insts1 inst.v1 then
    { st with insts1 := KillInst st.insts1 i, did_prune := true }
  else st

/-- The second rule (AM-Opt.cc 248-252): a load of a variable that is never
used is killed. -/
def pruneLoad (T : OpTables) (st : PruneState) (i : Nat) (inst : ZInstI) : PruneState :=
  if inst.IsLoad T && !VarIsUsed T st.insts1 inst.v1 then
    { st with insts1 := KillInst st.insts1 i, did_prune := true }
  else st

/-- The rest of the loop body (AM-Opt.cc 254-297): the assignment to a slot
without a lifetime end.  `isGlobal slot` stands for
`frame_denizens[slot]->IsGlobal()`.  `none` is the internal error raised when
an instruction with side effects has no assignment-less flavor. -/
def pruneAssignment (T : OpTables) (isGlobal : Int → Bool) (st : PruneState) (i : Nat)
    (inst : ZInstI) : Option PruneState :=
  if !inst.AssignsToSlot1 T then some st
  else
    let slot := inst.v1
    if (st.denizen_ending slot).isSome then some st
    else if isGlobal slot then
      some { st with
        denizen_ending := fun s =>
          if s = slot then some (st.insts1.length - 1) else st.denizen_ending s }
    else if !inst.HasSideEffects T then
      some { st with insts1 := KillInst st.insts1 i, did_prune := true }
    else
      match T.assignmentless_op inst.op with
      | none => none
      | some new_op =>
        some { st with
          insts1 := updAt (fun x =>
            { x with op_type := T.assignmentless_op_type inst.op, op := new_op,
                     v1 := x.v2, v2 := x.v3, v3 := x.v4 }) st.insts1 i
          did_prune := true }

/-- One iteration of the loop of `ZAMCompiler::PruneUnused` (AM-Opt.cc
235-298), for the instruction at position `i`. -/
def PruneUnused_at (T : OpTables) (isGlobal : Int → Bool) (st : PruneState) (i : Nat) :
    Option PruneState :=
  match st.insts1[i]? with
  | none => some st
  | some inst =>
    if !inst.live then some st
    else
      pruneAssignment T isGlobal (pruneLoad T (pruneFrameStore T st i inst) i inst) i inst

/-- The loop of `PruneUnused` over the positions `i, i+1, ..., i+k-1`. -/
def PruneUnused_loop (T : OpTables) (isGlobal : Int → Bool) :
    Nat → Nat → PruneState → Option PruneState
  | 0, _, st => some st
  | k + 1, i, st =>
    match PruneUnused_at T isGlobal st i with
    | none => none
    | some st' => PruneUnused_loop T isGlobal k (i + 1) st'

/-- `ZAMCompiler::PruneUnused` (AM-Opt.cc 231-301): the new instructions and
lifetime ends, and the returned `did_prune`. -/
def PruneUnused (T : OpTables) (isGlobal : Int → Bool) (insts1 : List ZInstI)
    (denizen_ending : Int → Option Nat) : Option PruneState :=
  PruneUnused_loop T isGlobal insts1.length 0
    { insts1 := insts1, denizen_ending := denizen_ending, did_prune := false }

end ZAM

namespace ZAM

/-- An instruction without its label count. -/
def ZInstI.core (x : ZInstI) : ZInstI := { x with num_labels := 0 }

/-- What a step of `PruneUnused` at position `k` leaves alone: the length,
every other instruction up to its label count, and the lifetime ends of the
slots that are not globals. -/
def PruneFrame (isGlobal : Int → Bool) (k : Nat) (st st' : PruneState) : Prop :=
  st'.insts1.length = st.insts1.length ∧
  (∀ j, j ≠ k → (st'.insts1[j]?).map ZInstI.core = (st.insts1[j]?).map ZInstI.core) ∧
  (∀ s, isGlobal s = false → st'.denizen_ending s = st.denizen_ending s)

/-- What `PruneUnused` is to have done to an instruction `x` whose
assignment is unused, `y` being the instruction afterwards. -/
def PrunedAssignment (T : OpTables) (x y : ZInstI) : Prop :=
  (x.HasSideEffects T = false → y.live = false) ∧
  (x.HasSideEffects T = true →
    y.live = true ∧ some y.op = T.assignmentless_op x.op ∧
    y.op_type = T.assignmentless_op_type x.op ∧
    y.v1 = x.v2 ∧ y.v2 = x.v3 ∧ y.v3 = x.v4)

/-- Opcode tables for a worked example: opcode `other 1` assigns to slot 1
and has side effects, its assignment-less flavor is `other 2` with operand
type `OP_V`; opcode `other 4` reads its first operand, has side effects and
no assignment-less flavor; every other opcode writes slot 1 without side
effects. -/
def exampleTables : OpTables where
  op1_flavor := fun op =>
    if op = ZOp.other 4 then ZAMOp1Flavor.OP1_READ else ZAMOp1Flavor.OP1_WRITE
  op_side_effects := fun op => decide (op = ZOp.other 1) || decide (op = ZOp.other 4)
  assignmentless_op := fun op => if op = ZOp.other 1 then some (ZOp.other 2) else none
  assignmentless_op_type := fun _ => ZAMOpType.OP_V
  isLoad := fun _ _ => false
  isFrameStore := fun _ _ => false

/-- A side-effecting instruction `slot 0 := other1(slot 5)` of the worked example. -/
def exampleCall : ZInstI :=
  { op := ZOp.other 1, op_type := ZAMOpType.OP_VV, v1 := 0, v2 := 5, v3 := 0, v4 := 0,
    live := true, target := none, target2 := none, num_labels := 0, loop_depth := 0,
    aux := none }

/-- An instruction `slot 1 := other3(slot 6)` without side effects. -/
def exampleCopy : ZInstI :=
  { exampleCall with op := ZOp.other 3, v1 := 1, v2 := 6 }

/-- A side-effecting instruction `other4(slot 5)` that assigns to nothing. -/
def exampleNotify : ZInstI :=
  { exampleCall with op := ZOp.other 4, op_type := ZAMOpType.OP_V, v1 := 5 }

end ZAM

namespace Zeek

/-! ## Values and types (`Expr.cc` works on `Val` and `BroType`) -/

/-- `TypeTag`. -/
inductive TypeTag where
  | TYPE_VOID | TYPE_BOOL | TYPE_INT | TYPE_COUNT | TYPE_COUNTER | TYPE_DOUBLE
  | TYPE_TIME | TYPE_INTERVAL | TYPE_STRING | TYPE_PATTERN | TYPE_ENUM | TYPE_TIMER
  | TYPE_PORT | TYPE_ADDR | TYPE_SUBNET | TYPE_ANY | TYPE_TABLE | TYPE_UNION
  | TYPE_RECORD | TYPE_LIST | TYPE_FUNC | TYPE_FILE | TYPE_VECTOR | TYPE_OPAQUE
  | TYPE_TYPE | TYPE_ERROR
deriving Repr, DecidableEq

open TypeTag

/-- `InternalTypeTag`. -/
inductive InternalTypeTag where
  | TYPE_INTERNAL_VOID | TYPE_INTERNAL_INT | TYPE_INTERNAL_UNSIGNED
  | TYPE_INTERNAL_DOUBLE | TYPE_INTERNAL_STRING | TYPE_INTERNAL_ADDR
  | TYPE_INTERNAL_SUBNET | TYPE_INTERNAL_OTHER | TYPE_INTERNAL_ERROR
deriving Repr, DecidableEq

open InternalTypeTag

/-- A `BroType`: a base type, a vector type with its yield type, or a table
type (`is_set` for sets). -/
inductive BroType where
  | base (tag : TypeTag)
  | vector (yield : BroType)
  | table (is_set : Bool)
deriving Repr, DecidableEq

/-- `BroType::Tag()`. -/
def BroType.Tag : BroType → TypeTag
  | .base t => t
  | .vector _ => TYPE_VECTOR
  | .table _ => TYPE_TABLE

/-- `BroType::IsSet()`. -/
def BroType.IsSet : BroType → Bool
  | .table s => s
  | _ => false

/-- The tag of `AsVectorType()->YieldType()`. -/
def BroType.YieldType : BroType → BroType
  | .vector y => y
  | t => t

/-- `base_type(tag)` and `error_type()`. -/
def base_type (t : TypeTag) : BroType := .base t

/-- Modelled from the spec: `BroType::InternalType()` lives in `Type.cc`, which
is not among the sources.  The specification names the internal
representations (signed, unsigned, double, string, address, subnet). -/
def InternalTypeOf : TypeTag → InternalTypeTag
  | TYPE_VOID => TYPE_INTERNAL_VOID
  | TYPE_BOOL | TYPE_INT | TYPE_ENUM => TYPE_INTERNAL_INT
  | TYPE_COUNT | TYPE_COUNTER | TYPE_PORT => TYPE_INTERNAL_UNSIGNED
  | TYPE_DOUBLE | TYPE_TIME | TYPE_INTERVAL => TYPE_INTERNAL_DOUBLE
  | TYPE_STRING => TYPE_INTERNAL_STRING
  | TYPE_ADDR => TYPE_INTERNAL_ADDR
  | TYPE_SUBNET => TYPE_INTERNAL_SUBNET
  | TYPE_ERROR => TYPE_INTERNAL_ERROR
  | _ => TYPE_INTERNAL_OTHER

/-- `BroType::InternalType()`. -/
def BroType.InternalType (t : BroType) : InternalTypeTag := InternalTypeOf t.Tag

/-- `IsVector(tag)`. -/
def IsVector (t : TypeTag) : Bool := t = TYPE_VECTOR

/-- Modelled from the spec: `IsIntegral` (`Type.h`, not among the sources). -/
def IsIntegral (t : TypeTag) : Bool := t = TYPE_INT || t = TYPE_COUNT || t = TYPE_COUNTER

/-- Modelled from the spec: `IsArithmetic` (`Type.h`, not among the sources):
the integral types and `double`. -/
def IsArithmetic (t : TypeTag) : Bool := IsIntegral t || t = TYPE_DOUBLE

/-- `BothArithmetic`. -/
def BothArithmetic (t1 t2 : TypeTag) : Bool := IsArithmetic t1 && IsArithmetic t2

/-- `EitherArithmetic`. -/
def EitherArithmetic (t1 t2 : TypeTag) : Bool := IsArithmetic t1 || IsArithmetic t2

/-- `BothIntegral`. -/
def BothIntegral (t1 t2 : TypeTag) : Bool := IsIntegral t1 && IsIntegral t2

/-- `BothString`. -/
def BothString (t1 t2 : TypeTag) : Bool := t1 = TYPE_STRING && t2 = TYPE_STRING

/-- `BothBool`. -/
def BothBool (t1 t2 : TypeTag) : Bool := t1 = TYPE_BOOL && t2 = TYPE_BOOL

/-- Modelled from the spec: `max_type` (`Type.cc`, not among the sources): the
wider of two arithmetic types. -/
def max_type (t1 t2 : TypeTag) : TypeTag :=
  if t1 = TYPE_INTERVAL || t2 = TYPE_INTERVAL then TYPE_INTERVAL
  else if t1 = TYPE_DOUBLE || t2 = TYPE_DOUBLE then TYPE_DOUBLE
  else if t1 = TYPE_INT || t2 = TYPE_INT then TYPE_INT
  else if t1 = TYPE_COUNT || t2 = TYPE_COUNT then TYPE_COUNT
  else TYPE_COUNTER

/-- The types whose internal representation is a signed integer. -/
inductive IntKind where
  | bool | int | enum
deriving Repr, DecidableEq

/-- The types of the values whose internal representation is an unsigned integer. -/
inductive UIntKind where
  | count | port
deriving Repr, DecidableEq

/-- What is known of a function value: its kind and purity. -/
structure FuncVal where
  handle : Nat
  is_builtin : Bool
  is_pure : Bool
  has_bodies : Bool
deriving Repr, DecidableEq

/-- A `Val`.  Signed values are `bro_int_t` (64 bits), unsigned ones
`bro_uint_t`; a string is its bytes; an address is the number of its 128
bits.  Floating-point values, patterns, tables and vectors are not modelled
beyond their type (`other`). -/
inductive Val where
  | intv (k : IntKind) (i : Int)
  | uintv (k : UIntKind) (u : Nat)
  | str (s : List Nat)
  | addr (a : Nat)
  | subnet (a : Nat) (width : Nat)
  | func (f : FuncVal)
  | other (t : BroType) (handle : Nat)
deriving Repr, DecidableEq

/-- `Val::Type()`. -/
def Val.Type : Val → BroType
  | .intv .bool _ => base_type TYPE_BOOL
  | .intv .int _ => base_type TYPE_INT
  | .intv .enum _ => base_type TYPE_ENUM
  | .uintv .count _ => base_type TYPE_COUNT
  | .uintv .port _ => base_type TYPE_PORT
  | .str _ => base_type TYPE_STRING
  | .addr _ => base_type TYPE_ADDR
  | .subnet _ _ => base_type TYPE_SUBNET
  | .func _ => base_type TYPE_FUNC
  | .other t _ => t

/-- A 64-bit two's complement result. -/
def wrapInt (i : Int) : Int := (i + 2 ^ 63) % 2 ^ 64 - 2 ^ 63

/-- A 64-bit unsigned result. -/
def wrapUInt (i : Int) : Nat := (i % 2 ^ 64).toNat

/-- `val_mgr->GetBool`. -/
def GetBool (b : Bool) : Val := .intv .bool (if b then 1 else 0)

/-- `val_mgr->GetInt`. -/
def GetInt (i : Int) : Val := .intv .int (wrapInt i)

/-- `val_mgr->GetCount`. -/
def GetCount (u : Int) : Val := .uintv .count (wrapUInt u)

/-- Modelled from the spec: `Val::IsZero` (`Val.cc`, not among the sources):
a numeric value equal to zero. -/
def Val.IsZero : Val → Bool
  | .intv _ i => i = 0
  | .uintv _ u => u = 0
  | _ => false

/-- Modelled from the spec: `Val::IsOne` (`Val.cc`, not among the sources):
a numeric value equal to one. -/
def Val.IsOne : Val → Bool
  | .intv _ i => i = 1
  | .uintv _ u => u = 1
  | _ => false

/-- Modelled from the spec: `is_atomic_val` (declared outside the sources):
values of an internal numeric, string, address or subnet type. -/
def is_atomic_val : Val → Bool
  | .intv _ _ | .uintv _ _ | .str _ | .addr _ | .subnet _ _ => true
  | _ => false

/-- Modelled from the spec: `same_atomic_val` (declared outside the sources):
equal atomic values of the same type. -/
def same_atomic_val (v1 v2 : Val) : Bool := v1 = v2

/-- Modelled from the spec: `is_atomic_type` (declared outside the sources). -/
def is_atomic_type (t : BroType) : Bool :=
  match t.InternalType with
  | TYPE_INTERNAL_INT | TYPE_INTERNAL_UNSIGNED | TYPE_INTERNAL_DOUBLE
  | TYPE_INTERNAL_STRING | TYPE_INTERNAL_ADDR | TYPE_INTERNAL_SUBNET => true
  | _ => false

/-- Modelled from the spec: `Bstr_cmp` (`BroString.cc`, not among the
sources): the three-way comparison of two byte strings in dictionary order. -/
def Bstr_cmp : List Nat → List Nat → Int
  | [], [] => 0
  | [], _ :: _ => -1
  | _ :: _, [] => 1
  | a :: as, b :: bs => if a < b then -1 else if b < a then 1 else Bstr_cmp as bs

/-- How a computation of the reducer or the interpreter can fail: a run-time
error (`RuntimeError`, an exception), an internal error (fatal), running out
of the fuel that bounds the recursion of the model, or reaching a node kind
that the model does not cover. -/
inductive Failure where
  | runtime (msg : String)
  | internal (msg : String)
  | fuel
  | unmodelled
deriving Repr, DecidableEq

end Zeek

namespace Zeek

open TypeTag InternalTypeTag

/-! ## Expression nodes (`Expr.h`) -/

/-- `BroExprTag`, in the order of `expr_name`. -/
inductive BroExprTag where
  | EXPR_NAME | EXPR_CONST | EXPR_CLONE | EXPR_INCR | EXPR_DECR | EXPR_NOT
  | EXPR_COMPLEMENT | EXPR_POSITIVE | EXPR_NEGATE | EXPR_ADD | EXPR_SUB | EXPR_ADD_TO
  | EXPR_APPEND_TO | EXPR_REMOVE_FROM | EXPR_TIMES | EXPR_DIVIDE | EXPR_MOD
  | EXPR_AND | EXPR_OR | EXPR_XOR | EXPR_AND_AND | EXPR_OR_OR
  | EXPR_LT | EXPR_LE | EXPR_EQ | EXPR_NE | EXPR_GE | EXPR_GT | EXPR_COND | EXPR_REF
  | EXPR_ASSIGN | EXPR_INDEX_ASSIGN | EXPR_FIELD_LHS_ASSIGN | EXPR_INDEX
  | EXPR_ANY_INDEX | EXPR_FIELD | EXPR_HAS_FIELD | EXPR_RECORD_CONSTRUCTOR
  | EXPR_TABLE_CONSTRUCTOR | EXPR_SET_CONSTRUCTOR | EXPR_VECTOR_CONSTRUCTOR
  | EXPR_FIELD_ASSIGN | EXPR_IN | EXPR_LIST | EXPR_CALL | EXPR_INLINE | EXPR_LAMBDA
  | EXPR_EVENT | EXPR_SCHEDULE | EXPR_ARITH_COERCE | EXPR_RECORD_COERCE
  | EXPR_TABLE_COERCE | EXPR_VECTOR_COERCE | EXPR_TO_ANY_COERCE
  | EXPR_FROM_ANY_COERCE | EXPR_SIZE | EXPR_CAST | EXPR_IS
  | EXPR_INDEX_SLICE_ASSIGN | EXPR_NOP
deriving Repr, DecidableEq

open BroExprTag

/-- An identifier (`ID`): its handle, whether it is global, constant,
redefinable (`ATTR_REDEF`), a temporary of the reducer, its type and, for
globals and constants, its value (`ID_Val()`). -/
structure ID where
  handle : Nat
  is_global : Bool
  is_const : Bool
  has_redef : Bool
  is_temp : Bool
  type : BroType
  val : Option Val
deriving Repr, DecidableEq

/-- An expression node.  A `ListExpr` is the chain `listCons e1 (listCons e2 ...
listNil)`; unary, binary and conditional nodes carry the type that their
constructor gave them; an assignment carries `is_temp`. -/
inductive Expr where
  | name (id : ID)
  | const (v : Val)
  | unary (tag : BroExprTag) (op : Expr) (type : BroType)
  | binary (tag : BroExprTag) (op1 op2 : Expr) (type : BroType)
  | cond (op1 op2 op3 : Expr) (type : BroType)
  | assign (op1 op2 : Expr) (is_temp : Bool) (type : BroType)
  | call (func args : Expr) (type : BroType)
  | listNil
  | listCons (e rest : Expr)
  | event (handler : Nat) (args : Expr)
  | schedule (when event : Expr) (type : BroType)
  | nop
deriving Repr, DecidableEq

/-- `Expr::Tag()`. -/
def Expr.Tag : Expr → BroExprTag
  | .name _ => EXPR_NAME
  | .const _ => EXPR_CONST
  | .unary t _ _ => t
  | .binary t _ _ _ => t
  | .cond _ _ _ _ => EXPR_COND
  | .assign _ _ _ _ => EXPR_ASSIGN
  | .call _ _ _ => EXPR_CALL
  | .listNil => EXPR_LIST
  | .listCons _ _ => EXPR_LIST
  | .event _ _ => EXPR_EVENT
  | .schedule _ _ _ => EXPR_SCHEDULE
  | .nop => EXPR_NOP

/-- `Expr::Type()`. -/
def Expr.Type : Expr → BroType
  | .name id => id.type
  | .const v => v.Type
  | .unary _ _ t => t
  | .binary _ _ _ t => t
  | .cond _ _ _ t => t
  | .assign _ _ _ t => t
  | .call _ _ t => t
  | .listNil => base_type TYPE_LIST
  | .listCons _ _ => base_type TYPE_LIST
  | .event _ _ => base_type TYPE_VOID
  | .schedule _ _ t => t
  | .nop => base_type TYPE_VOID

/-- `Expr::IsError()` (Expr.cc 553-556). -/
def Expr.IsError (e : Expr) : Bool := e.Type.Tag = TYPE_ERROR

/-- `Expr::IsConst()`. -/
def Expr.IsConst (e : Expr) : Bool := e.Tag = EXPR_CONST

/-- `Expr::IsZero()` (Expr.cc 577-580). -/
def Expr.IsZero : Expr → Bool
  | .const v => v.IsZero
  | _ => false

/-- `Expr::IsOne()` (Expr.cc 582-585). -/
def Expr.IsOne : Expr → Bool
  | .const v => v.IsOne
  | _ => false

/-- `GetOp1()`. -/
def Expr.GetOp1 : Expr → Option Expr
  | .unary _ op _ => some op
  | .binary _ op1 _ _ => some op1
  | .cond op1 _ _ _ => some op1
  | .assign op1 _ _ _ => some op1
  | _ => none

/-- `GetOp2()`. -/
def Expr.GetOp2 : Expr → Option Expr
  | .binary _ _ op2 _ => some op2
  | .cond _ op2 _ _ => some op2
  | .assign _ op2 _ _ => some op2
  | _ => none

/-- `GetOp3()`. -/
def Expr.GetOp3 : Expr → Option Expr
  | .cond _ _ op3 _ => some op3
  | _ => none

/-- `is_vector(Expr*)`. -/
def is_vector (e : Expr) : Bool := e.Type.Tag = TYPE_VECTOR

/-- The tag of an operand's type, looking through a vector (the `bt1`, `bt2`
of the constructors). -/
def baseTag (e : Expr) : TypeTag :=
  if IsVector e.Type.Tag then e.Type.YieldType.Tag else e.Type.Tag

/-- `expr_greater` (Expr.cc 8461-8464) compares the tags' positions. -/
def expr_greater (e1 e2 : Expr) : Bool := e1.Tag.toCtorIdx > e2.Tag.toCtorIdx

/-- `same_singletons` (Expr.cc 8432-8459). -/
def same_singletons : Expr → Expr → Bool
  | .const c1, .const c2 =>
    if !is_atomic_val c1 || !is_atomic_val c2 then false else same_atomic_val c1 c2
  | .name i1, .name i2 => i1 = i2
  | _, _ => false

/-- `HasConstantOps()` (Expr.h 238-244). -/
def Expr.HasConstantOps (e : Expr) : Bool :=
  match e.GetOp1 with
  | none => false
  | some o1 =>
    o1.IsConst &&
    (match e.GetOp2 with
     | none => true
     | some o2 =>
       o2.IsConst &&
       (match e.GetOp3 with
        | none => true
        | some o3 => o3.IsConst))

/-- A statement, as far as the reducer builds them: `NullStmt`, `ExprStmt`,
`StmtList`, `IfStmt`, and `CheckAnyLenStmt(e, expected_len)`. -/
inductive Stmt where
  | null
  | expr (e : Expr)
  | list (stmts : List Stmt)
  | ifStmt (cond : Expr) (s1 s2 : Stmt)
  | checkAnyLen (e : Expr) (expected_len : Nat)
deriving Repr

/-- `Expr::MergeStmts` (Expr.cc 478-494), the third statement being `none`
where the source leaves it out; a `StmtList` built from several statements
holds those that are not null. -/
def MergeStmts (s1 s2 s3 : Option Stmt) : Option Stmt :=
  let nums := s1.isSome.toNat + s2.isSome.toNat + s3.isSome.toNat
  if nums > 1 then some (Stmt.list (s1.toList ++ s2.toList ++ s3.toList))
  else if s1.isSome then s1
  else if s2.isSome then s2
  else if s3.isSome then s3
  else none

end Zeek

namespace Zeek

open TypeTag InternalTypeTag BroExprTag

/-! ## Folding and evaluation (`Expr.cc`) -/

/-- `BinaryExpr::StringFold` (Expr.cc 1377-1409). -/
def StringFold (tag : BroExprTag) (s1 s2 : List Nat) : Except Failure Val :=
  match tag with
  | EXPR_LT => .ok (GetBool (Bstr_cmp s1 s2 < 0))
  | EXPR_LE => .ok (GetBool (Bstr_cmp s1 s2 ≤ 0))
  | EXPR_EQ => .ok (GetBool (Bstr_cmp s1 s2 = 0))
  | EXPR_NE => .ok (GetBool (Bstr_cmp s1 s2 ≠ 0))
  | EXPR_GE => .ok (GetBool (Bstr_cmp s1 s2 ≥ 0))
  | EXPR_GT => .ok (GetBool (Bstr_cmp s1 s2 > 0))
  | EXPR_ADD | EXPR_ADD_TO => .ok (.str (s1 ++ s2))
  | _ => .error (.internal "BinaryExpr::StringFold")

/-- `BinaryExpr::AddrFold` (Expr.cc 1487-1519). -/
def AddrFold (tag : BroExprTag) (a1 a2 : Nat) : Except Failure Val :=
  match tag with
  | EXPR_LT => .ok (GetBool (a1 < a2))
  | EXPR_LE => .ok (GetBool (a1 < a2 || a1 = a2))
  | EXPR_EQ => .ok (GetBool (a1 = a2))
  | EXPR_NE => .ok (GetBool (a1 ≠ a2))
  | EXPR_GE => .ok (GetBool (!(decide (a1 < a2))))
  | EXPR_GT => .ok (GetBool (!(decide (a1 < a2)) && a1 ≠ a2))
  | _ => .error (.internal "BinaryExpr::AddrFold")

/-- `BinaryExpr::SubNetFold` (Expr.cc 1521-1532). -/
def SubNetFold (tag : BroExprTag) (n1 n2 : Nat × Nat) : Val :=
  let result : Bool := n1 = n2
  GetBool (if tag = EXPR_NE then !result else result)

/-- `DivideExpr::AddrFold` (Expr.cc 2658-2681); an address below `2^32` stands
for an IPv4 address. -/
def DivideExpr_AddrFold (a : Nat) (v2 : Val) : Except Failure Val :=
  match v2 with
  | .uintv _ u =>
    let mask := u % 2 ^ 32
    if a < 2 ^ 32 then
      if mask > 32 then .error (.runtime "bad IPv4 subnet prefix length")
      else .ok (.subnet a mask)
    else if mask > 128 then .error (.runtime "bad IPv6 subnet prefix length")
    else .ok (.subnet a mask)
  | .intv _ i =>
    let mask := (i % 2 ^ 32).toNat
    if a < 2 ^ 32 then
      if mask > 32 then .error (.runtime "bad IPv4 subnet prefix length")
      else .ok (.subnet a mask)
    else if mask > 128 then .error (.runtime "bad IPv6 subnet prefix length")
    else .ok (.subnet a mask)
  | _ => .error .unmodelled

/-- The `switch ( tag )` of `BinaryExpr::Fold` for signed operands (Expr.cc
1254-1358): the resulting `i3` (`u3` stays 0). -/
def foldInt (tag : BroExprTag) (i1 i2 : Int) : Except Failure Int :=
  match tag with
  | EXPR_ADD | EXPR_ADD_TO => .ok (wrapInt (i1 + i2))
  | EXPR_SUB | EXPR_REMOVE_FROM => .ok (wrapInt (i1 - i2))
  | EXPR_TIMES => .ok (wrapInt (i1 * i2))
  | EXPR_DIVIDE =>
    if i2 = 0 then .error (.runtime "division by zero") else .ok (wrapInt (Int.tdiv i1 i2))
  | EXPR_MOD =>
    if i2 = 0 then .error (.runtime "modulo by zero") else .ok (wrapInt (Int.tmod i1 i2))
  | EXPR_AND | EXPR_OR | EXPR_XOR => .error (.runtime "bad type in BinaryExpr::Fold")
  | EXPR_AND_AND => .ok (if i1 ≠ 0 ∧ i2 ≠ 0 then 1 else 0)
  | EXPR_OR_OR => .ok (if i1 ≠ 0 ∨ i2 ≠ 0 then 1 else 0)
  | EXPR_LT => .ok (if i1 < i2 then 1 else 0)
  | EXPR_LE => .ok (if i1 ≤ i2 then 1 else 0)
  | EXPR_EQ => .ok (if i1 = i2 then 1 else 0)
  | EXPR_NE => .ok (if i1 ≠ i2 then 1 else 0)
  | EXPR_GE => .ok (if i1 ≥ i2 then 1 else 0)
  | EXPR_GT => .ok (if i1 > i2 then 1 else 0)
  | _ => .error (.internal "BinaryExpr::Fold")

/-- The same `switch` for unsigned operands: the resulting pair `(i3, u3)`;
the comparisons store into `i3`, the other operators into `u3`. -/
def foldUInt (tag : BroExprTag) (u1 u2 : Nat) : Except Failure (Int × Nat) :=
  match tag with
  | EXPR_ADD | EXPR_ADD_TO => .ok (0, wrapUInt (u1 + u2))
  | EXPR_SUB | EXPR_REMOVE_FROM => .ok (0, wrapUInt ((u1 : Int) - u2))
  | EXPR_TIMES => .ok (0, wrapUInt (u1 * u2))
  | EXPR_DIVIDE =>
    if u2 = 0 then .error (.runtime "division by zero") else .ok (0, u1 / u2)
  | EXPR_MOD =>
    if u2 = 0 then .error (.runtime "modulo by zero") else .ok (0, u1 % u2)
  | EXPR_AND => .ok (0, u1 &&& u2)
  | EXPR_OR => .ok (0, u1 ||| u2)
  | EXPR_XOR => .ok (0, u1 ^^^ u2)
  | EXPR_AND_AND => .ok (0, if u1 ≠ 0 ∧ u2 ≠ 0 then 1 else 0)
  | EXPR_OR_OR => .ok (0, if u1 ≠ 0 ∨ u2 ≠ 0 then 1 else 0)
  | EXPR_LT => .ok (if u1 < u2 then 1 else 0, 0)
  | EXPR_LE => .ok (if u1 ≤ u2 then 1 else 0, 0)
  | EXPR_EQ => .ok (if u1 = u2 then 1 else 0, 0)
  | EXPR_NE => .ok (if u1 ≠ u2 then 1 else 0, 0)
  | EXPR_GE => .ok (if u1 ≥ u2 then 1 else 0, 0)
  | EXPR_GT => .ok (if u1 > u2 then 1 else 0, 0)
  | _ => .error (.internal "BinaryExpr::Fold")

/-- The end of `BinaryExpr::Fold` (Expr.cc 1360-1374): the value built from
`i3` and `u3` according to the node's type.  Results of interval and double
type are floating-point numbers, which the model does not cover. -/
def foldResult (type : BroType) (i3 : Int) (u3 : Nat) : Except Failure Val :=
  let ret_type := if IsVector type.Tag then type.YieldType else type
  if ret_type.Tag = TYPE_INTERVAL then .error .unmodelled
  else if ret_type.InternalType = TYPE_INTERNAL_DOUBLE then .error .unmodelled
  else if ret_type.InternalType = TYPE_INTERNAL_UNSIGNED then .ok (GetCount u3)
  else if ret_type.Tag = TYPE_BOOL then .ok (GetBool (i3 ≠ 0))
  else .ok (GetInt i3)

/-- `BinaryExpr::Fold` (Expr.cc 1209-1375) of the node with the given tag and
type, with `DivideExpr::AddrFold` in the place of `AddrFold` for a
`DivideExpr`.  Patterns, sets and floating-point operands are not modelled;
operands whose representations differ are not modelled either. -/
def Fold (tag : BroExprTag) (type : BroType) (v1 v2 : Val) : Except Failure Val :=
  match v1 with
  | .str s1 =>
    (match v2 with
     | .str s2 => StringFold tag s1 s2
     | _ => .error .unmodelled)
  | .addr a1 =>
    if tag = EXPR_DIVIDE then DivideExpr_AddrFold a1 v2
    else
      (match v2 with
       | .addr a2 => AddrFold tag a1 a2
       | _ => .error .unmodelled)
  | .subnet a1 w1 =>
    (match v2 with
     | .subnet a2 w2 => .ok (SubNetFold tag (a1, w1) (a2, w2))
     | _ => .error .unmodelled)
  | .intv _ i1 =>
    (match v2 with
     | .intv _ i2 =>
       (match foldInt tag i1 i2 with
        | .ok i3 => foldResult type i3 0
        | .error e => .error e)
     | _ => .error .unmodelled)
  | .uintv _ u1 =>
    (match v2 with
     | .uintv _ u2 =>
       (match foldUInt tag u1 u2 with
        | .ok (i3, u3) => foldResult type i3 u3
        | .error e => .error e)
     | _ => .error .unmodelled)
  | .func _ => .error (.runtime "bad type in BinaryExpr::Fold")
  | .other t _ =>
    if t.Tag = TYPE_PATTERN || t.IsSet || t.InternalType = TYPE_INTERNAL_DOUBLE then
      .error .unmodelled
    else .error (.runtime "bad type in BinaryExpr::Fold")

/-- Modelled from the spec: `Val::CoerceToInt` (`Val.cc`, not among the
sources): the signed reading of an integral value. -/
def CoerceToInt : Val → Option Int
  | .intv _ i => some i
  | .uintv _ u => some (wrapInt u)
  | _ => none

/-- The `Fold` of a unary node: `NotExpr::Fold` (Expr.cc 1916), `ComplementExpr::Fold`
(1879), `PosExpr::Fold` (1966), `NegExpr::Fold` (2025).  Floating-point operands
are not modelled. -/
def UnaryFold (tag : BroExprTag) (v : Val) : Except Failure Val :=
  match tag with
  | EXPR_NOT =>
    (match v with
     | .intv _ i => .ok (GetBool (i = 0))
     | _ => .error .unmodelled)
  | EXPR_COMPLEMENT =>
    (match v with
     | .uintv _ u => .ok (GetCount (2 ^ 64 - 1 - (u : Int)))
     | _ => .error .unmodelled)
  | EXPR_POSITIVE =>
    if v.Type.Tag = TYPE_INT then .ok v
    else (match CoerceToInt v with
          | some i => .ok (GetInt i)
          | none => .error .unmodelled)
  | EXPR_NEGATE =>
    (match CoerceToInt v with
     | some i => .ok (GetInt (-i))
     | none => .error .unmodelled)
  | _ => .error .unmodelled

/-- The tags of the binary nodes whose `Eval` is `BinaryExpr::Eval`: the
arithmetic, bitwise and comparison operators. -/
def isPlainBinary (tag : BroExprTag) : Bool :=
  match tag with
  | EXPR_ADD | EXPR_SUB | EXPR_TIMES | EXPR_DIVIDE | EXPR_MOD
  | EXPR_AND | EXPR_OR | EXPR_XOR
  | EXPR_LT | EXPR_LE | EXPR_EQ | EXPR_NE | EXPR_GE | EXPR_GT => true
  | _ => false

/-- `Eval` with a frame (`none` for `nullptr`): `ConstExpr::Eval` (Expr.cc
877-880), `NameExpr::Eval` (718-742), `BinaryExpr::Eval` (1052-1120) on scalar
operands, `BoolExpr::Eval` (2766-2857) on scalar operands, `UnaryExpr::Eval`
(898-941) for `!`, `~`, unary `+` and `-` on scalar operands, and the scalar
case of `CondExpr::Eval` (3414-3421).  Of `IncrExpr::Eval` (1668-1698),
`AssignExpr::Eval` (3952-3973) and `CallExpr::Eval` (7031-7034) the model has
what they do before they touch the frame or call a function.  `ok none` is
the null value; `CondExpr::Eval` dereferences the value of its condition
without a test, which the model does not follow when that value is null. -/
def Eval (f : Option (ID → Option Val)) : Expr → Except Failure (Option Val)
  | .const v => .ok (some v)
  | .name id =>
    let v : Option Val :=
      if id.is_global then id.val
      else match f with
        | some fr => fr id
        | none => none
    if !id.is_global && f.isNone then .ok none
    else match v with
      | some v => .ok (some v)
      | none => .error (.runtime "value used but not set")
  | .binary tag op1 op2 type =>
    if tag = EXPR_AND_AND || tag = EXPR_OR_OR then
      if type.Tag = TYPE_ERROR then .ok none
      else match Eval f op1 with
        | .error e => .error e
        | .ok none => .ok none
        | .ok (some v1) =>
          if is_vector op1 || is_vector op2 then .error .unmodelled
          else if tag = EXPR_AND_AND then
            (if v1.IsZero then .ok (some v1) else Eval f op2)
          else
            (if v1.IsZero then Eval f op2 else .ok (some v1))
    else if isPlainBinary tag then
      if type.Tag = TYPE_ERROR then .ok none
      else match Eval f op1 with
        | .error e => .error e
        | .ok none => .ok none
        | .ok (some v1) =>
          match Eval f op2 with
          | .error e => .error e
          | .ok none => .ok none
          | .ok (some v2) =>
            if v1.Type.Tag = TYPE_VECTOR || v2.Type.Tag = TYPE_VECTOR then .error .unmodelled
            else match Fold tag type v1 v2 with
              | .ok v => .ok (some v)
              | .error e => .error e
    else .error .unmodelled
  | .unary tag op type =>
    if tag = EXPR_INCR || tag = EXPR_DECR then
      match Eval f op with
      | .error e => .error e
      | .ok none => .ok none
      | .ok (some _) => .error .unmodelled
    else if tag = EXPR_NOT || tag = EXPR_COMPLEMENT || tag = EXPR_POSITIVE ||
        tag = EXPR_NEGATE then
      if type.Tag = TYPE_ERROR then .ok none
      else match Eval f op with
        | .error e => .error e
        | .ok none => .ok none
        | .ok (some v) =>
          if v.Type.Tag = TYPE_VECTOR then .error .unmodelled
          else match UnaryFold tag v with
            | .ok r => .ok (some r)
            | .error e => .error e
    else .error .unmodelled
  | .cond op1 op2 op3 _ =>
    if is_vector op1 then .error .unmodelled
    else match Eval f op1 with
      | .error e => .error e
      | .ok none => .error .unmodelled
      | .ok (some v1) => if v1.IsZero then Eval f op3 else Eval f op2
  | .assign _ op2 _ _ =>
    (match Eval f op2 with
     | .error e => .error e
     | .ok none => .ok none
     | .ok (some _) => .error .unmodelled)
  | .call _ _ type => if type.Tag = TYPE_ERROR then .ok none else .error .unmodelled
  | _ => .error .unmodelled

end Zeek

namespace Zeek

open TypeTag InternalTypeTag BroExprTag

/-! ## Node constructors (`Expr.cc`)

Each constructor computes the node's type; `ExprError` makes it the error
sentinel, which `SetType` never replaces. -/

/-- `error_type()`. -/
def error_type : BroType := base_type TYPE_ERROR

/-- The type set by `SetType(vector of t)` or `SetType(t)` according to
whether an operand is a vector. -/
def vecOrBase (is_vec : Bool) (t : BroType) : BroType :=
  if is_vec then .vector t else t

/-- `ArithCoerceExpr::ArithCoerceExpr` (Expr.cc 6075-6102); `IsBool(t)` is
`t == TYPE_BOOL`. -/
def mkArithCoerceExpr (op : Expr) (t : TypeTag) : Expr :=
  if op.IsError then .unary EXPR_ARITH_COERCE op error_type
  else
    let bt := op.Type.Tag
    let vbt := if IsVector bt then op.Type.YieldType.Tag else bt
    let ty := if IsVector bt then BroType.vector (base_type t) else base_type t
    let isBool := fun (x : TypeTag) => decide (x = TYPE_BOOL)
    if (decide (bt = TYPE_ENUM)) != (decide (t = TYPE_ENUM)) then
      .unary EXPR_ARITH_COERCE op error_type
    else if !IsArithmetic t && !isBool t && t != TYPE_TIME && t != TYPE_INTERVAL then
      .unary EXPR_ARITH_COERCE op error_type
    else if !IsArithmetic bt && !isBool bt && !IsArithmetic vbt && !isBool vbt then
      .unary EXPR_ARITH_COERCE op error_type
    else .unary EXPR_ARITH_COERCE op ty

/-- `BinaryExpr::PromoteOps` (Expr.cc 1541-1561): the two operands afterwards. -/
def PromoteOps (op1 op2 : Expr) (t : TypeTag) : Expr × Expr :=
  (if baseTag op1 != t then mkArithCoerceExpr op1 t else op1,
   if baseTag op2 != t then mkArithCoerceExpr op2 t else op2)

/-- `BinaryExpr::PromoteType` (Expr.cc 1563-1571) for the node with tag `tag`. -/
def PromoteType (tag : BroExprTag) (op1 op2 : Expr) (t : TypeTag) (is_vec : Bool) : Expr :=
  let ops := PromoteOps op1 op2 t
  .binary tag ops.1 ops.2 (vecOrBase is_vec (base_type t))

/-- `BinaryExpr::PromoteForInterval` (Expr.cc 1573-1582); `first` tells
whether the operand to promote is `op1`. -/
def PromoteForInterval (tag : BroExprTag) (op1 op2 : Expr) (first : Bool) : Expr :=
  let ty := vecOrBase (is_vector op1 || is_vector op2) (base_type TYPE_INTERVAL)
  let prom := fun (op : Expr) =>
    if op.Type.Tag != TYPE_DOUBLE then mkArithCoerceExpr op TYPE_DOUBLE else op
  if first then .binary tag (prom op1) op2 ty else .binary tag op1 (prom op2) ty

/-- `AddExpr::AddExpr` (Expr.cc 2086-2122). -/
def mkAddExpr (op1 op2 : Expr) : Expr :=
  if op1.IsError || op2.IsError then .binary EXPR_ADD op1 op2 error_type
  else
    let bt1 := baseTag op1
    let bt2 := baseTag op2
    let is_vec := is_vector op1 || is_vector op2
    if bt2 = TYPE_INTERVAL && (bt1 = TYPE_TIME || bt1 = TYPE_INTERVAL) then
      .binary EXPR_ADD op1 op2 (vecOrBase is_vec (base_type bt1))
    else if bt2 = TYPE_TIME && bt1 = TYPE_INTERVAL then
      .binary EXPR_ADD op1 op2 (vecOrBase is_vec (base_type bt2))
    else if BothArithmetic bt1 bt2 then PromoteType EXPR_ADD op1 op2 (max_type bt1 bt2) is_vec
    else if BothString bt1 bt2 then
      .binary EXPR_ADD op1 op2 (vecOrBase is_vec (base_type bt1))
    else .binary EXPR_ADD op1 op2 error_type

/-- `SubExpr::SubExpr` (Expr.cc 2365-2411); `same_type` on the model's types is
equality. -/
def mkSubExpr (op1 op2 : Expr) : Expr :=
  if op1.IsError || op2.IsError then .binary EXPR_SUB op1 op2 error_type
  else
    let bt1 := baseTag op1
    let bt2 := baseTag op2
    let is_vec := is_vector op1 || is_vector op2
    if bt2 = TYPE_INTERVAL && (bt1 = TYPE_TIME || bt1 = TYPE_INTERVAL) then
      .binary EXPR_SUB op1 op2 (vecOrBase is_vec (base_type bt1))
    else if bt1 = TYPE_TIME && bt2 = TYPE_TIME then
      .binary EXPR_SUB op1 op2 (base_type TYPE_INTERVAL)
    else if op1.Type.IsSet && op2.Type.IsSet then
      (if op1.Type = op2.Type then .binary EXPR_SUB op1 op2 op1.Type
       else .binary EXPR_SUB op1 op2 error_type)
    else if BothArithmetic bt1 bt2 then PromoteType EXPR_SUB op1 op2 (max_type bt1 bt2) is_vec
    else .binary EXPR_SUB op1 op2 error_type

/-- `is_vector(Val*)` of a constant operand, `false` for other operands
(the constructors only ask it of constants). -/
def constIsVector : Expr → Bool
  | .const v => v.Type.Tag = TYPE_VECTOR
  | _ => false

/-- `TimesExpr::TimesExpr` with `TimesExpr::Canonicize` (Expr.cc 2518-2554). -/
def mkTimesExpr (a1 a2 : Expr) : Expr :=
  if a1.IsError || a2.IsError then .binary EXPR_TIMES a1 a2 error_type
  else
    let swap : Bool := expr_greater a2 a1 || a2.Type.Tag = TYPE_INTERVAL ||
      (a2.IsConst && !constIsVector a2 && !a1.IsConst)
    let op1 := if swap then a2 else a1
    let op2 := if swap then a1 else a2
    let bt1 := baseTag op1
    let bt2 := baseTag op2
    let is_vec := is_vector op1 || is_vector op2
    if bt1 = TYPE_INTERVAL || bt2 = TYPE_INTERVAL then
      (if IsArithmetic bt1 || IsArithmetic bt2 then
         PromoteForInterval EXPR_TIMES op1 op2 (IsArithmetic bt1)
       else .binary EXPR_TIMES op1 op2 error_type)
    else if BothArithmetic bt1 bt2 then
      PromoteType EXPR_TIMES op1 op2 (max_type bt1 bt2) is_vec
    else .binary EXPR_TIMES op1 op2 error_type

/-- `DivideExpr::DivideExpr` (Expr.cc 2588-2633). -/
def mkDivideExpr (op1 op2 : Expr) : Expr :=
  if op1.IsError || op2.IsError then .binary EXPR_DIVIDE op1 op2 error_type
  else
    let bt1 := baseTag op1
    let bt2 := baseTag op2
    let is_vec := is_vector op1 || is_vector op2
    if bt1 = TYPE_INTERVAL || bt2 = TYPE_INTERVAL then
      (if IsArithmetic bt1 || IsArithmetic bt2 then
         PromoteForInterval EXPR_DIVIDE op1 op2 (IsArithmetic bt1)
       else if bt1 = TYPE_INTERVAL && bt2 = TYPE_INTERVAL then
         .binary EXPR_DIVIDE op1 op2 (vecOrBase is_vec (base_type TYPE_DOUBLE))
       else .binary EXPR_DIVIDE op1 op2 error_type)
    else if BothArithmetic bt1 bt2 then
      PromoteType EXPR_DIVIDE op1 op2 (max_type bt1 bt2) is_vec
    else if bt1 = TYPE_ADDR && !is_vector op2 && (bt2 = TYPE_COUNT || bt2 = TYPE_INT) then
      .binary EXPR_DIVIDE op1
        (if bt2 != TYPE_INT then mkArithCoerceExpr op2 TYPE_INT else op2)
        (base_type TYPE_SUBNET)
    else .binary EXPR_DIVIDE op1 op2 error_type

/-- `ModExpr::ModExpr` (Expr.cc 2683-2703). -/
def mkModExpr (op1 op2 : Expr) : Expr :=
  if op1.IsError || op2.IsError then .binary EXPR_MOD op1 op2 error_type
  else
    let bt1 := baseTag op1
    let bt2 := baseTag op2
    if BothIntegral bt1 bt2 then
      PromoteType EXPR_MOD op1 op2 (max_type bt1 bt2) (is_vector op1 || is_vector op2)
    else .binary EXPR_MOD op1 op2 error_type

/-- `BitExpr::BitExpr` (Expr.cc 3020-3071), for `tag` one of `&`, `|`, `^`. -/
def mkBitExpr (tag : BroExprTag) (op1 op2 : Expr) : Expr :=
  if op1.IsError || op2.IsError then .binary tag op1 op2 error_type
  else
    let bt1 := baseTag op1
    let bt2 := baseTag op2
    if (bt1 = TYPE_COUNT || bt1 = TYPE_COUNTER) && (bt2 = TYPE_COUNT || bt2 = TYPE_COUNTER) then
      (if bt1 = TYPE_COUNTER && bt2 = TYPE_COUNTER then .binary tag op1 op2 error_type
       else .binary tag op1 op2
         (vecOrBase (is_vector op1 || is_vector op2) (base_type TYPE_COUNT)))
    else if bt1 = TYPE_PATTERN then
      (if bt2 != TYPE_PATTERN then .binary tag op1 op2 error_type
       else if tag = EXPR_XOR then .binary tag op1 op2 error_type
       else .binary tag op1 op2 (base_type TYPE_PATTERN))
    else if op1.Type.IsSet && op2.Type.IsSet then
      (if op1.Type = op2.Type then .binary tag op1 op2 op1.Type
       else .binary tag op1 op2 error_type)
    else .binary tag op1 op2 error_type

end Zeek

namespace Zeek

open TypeTag InternalTypeTag BroExprTag

/-- `EqExpr::EqExpr` with `EqExpr::Canonicize` (Expr.cc 3130-3214), for `tag`
one of `==`, `!=`; enumeration types are not told apart. -/
def mkEqExpr (tag : BroExprTag) (a1 a2 : Expr) : Expr :=
  if a1.IsError || a2.IsError then .binary tag a1 a2 error_type
  else
    let swap : Bool :=
      if a2.Type.Tag = TYPE_PATTERN then true
      else if a1.Type.Tag = TYPE_PATTERN then false
      else expr_greater a2 a1
    let op1 := if swap then a2 else a1
    let op2 := if swap then a1 else a2
    let bt1 := baseTag op1
    let bt2 := baseTag op2
    let ty := vecOrBase (is_vector op1 || is_vector op2) (base_type TYPE_BOOL)
    if BothArithmetic bt1 bt2 then
      let ops := PromoteOps op1 op2 (max_type bt1 bt2)
      .binary tag ops.1 ops.2 ty
    else if EitherArithmetic bt1 bt2 &&
        ((bt1 = TYPE_TIME && op2.IsZero) || (bt2 = TYPE_TIME && op1.IsZero)) then
      let ops := PromoteOps op1 op2 TYPE_TIME
      .binary tag ops.1 ops.2 ty
    else if bt1 = bt2 then
      (match bt1 with
       | TYPE_BOOL | TYPE_TIME | TYPE_INTERVAL | TYPE_STRING | TYPE_PORT | TYPE_ADDR
       | TYPE_SUBNET | TYPE_ERROR | TYPE_ENUM => .binary tag op1 op2 ty
       | TYPE_TABLE =>
         if op1.Type.IsSet && op2.Type.IsSet then
           (if op1.Type = op2.Type then .binary tag op1 op2 ty
            else .binary tag op1 op2 error_type)
         else .binary tag op1 op2 error_type
       | _ => .binary tag op1 op2 error_type)
    else if bt1 = TYPE_PATTERN && bt2 = TYPE_STRING then .binary tag op1 op2 ty
    else .binary tag op1 op2 error_type

/-- `RelExpr::RelExpr` with `RelExpr::Canonicize` (Expr.cc 3257-3313), for
`tag` one of `<`, `<=`, `>=`, `>`. -/
def mkRelExpr (tag0 : BroExprTag) (a1 a2 : Expr) : Expr :=
  if a1.IsError || a2.IsError then .binary tag0 a1 a2 error_type
  else
    let swap : Bool := tag0 = EXPR_GT || tag0 = EXPR_GE
    let tag := if tag0 = EXPR_GT then EXPR_LT else if tag0 = EXPR_GE then EXPR_LE else tag0
    let op1 := if swap then a2 else a1
    let op2 := if swap then a1 else a2
    let bt1 := baseTag op1
    let bt2 := baseTag op2
    let ty := vecOrBase (is_vector op1 || is_vector op2) (base_type TYPE_BOOL)
    if BothArithmetic bt1 bt2 then
      let ops := PromoteOps op1 op2 (max_type bt1 bt2)
      .binary tag ops.1 ops.2 ty
    else if op1.Type.IsSet && op2.Type.IsSet then
      (if op1.Type = op2.Type then .binary tag op1 op2 ty
       else .binary tag op1 op2 error_type)
    else if bt1 != bt2 then .binary tag op1 op2 error_type
    else if bt1 != TYPE_TIME && bt1 != TYPE_INTERVAL && bt1 != TYPE_PORT &&
        bt1 != TYPE_ADDR && bt1 != TYPE_STRING then
      .binary tag op1 op2 error_type
    else .binary tag op1 op2 ty

/-- `BoolExpr::BoolExpr` (Expr.cc 2712-2742), for `tag` one of `&&`, `||`. -/
def mkBoolExpr (tag : BroExprTag) (op1 op2 : Expr) : Expr :=
  if op1.IsError || op2.IsError then .binary tag op1 op2 error_type
  else if BothBool (baseTag op1) (baseTag op2) then
    .binary tag op1 op2 (vecOrBase (is_vector op1 || is_vector op2) (base_type TYPE_BOOL))
  else .binary tag op1 op2 error_type

/-- `CondExpr::CondExpr` (Expr.cc 3352-3412); record types are not told apart. -/
def mkCondExpr (op1 a2 a3 : Expr) : Expr :=
  let bt1 := baseTag op1
  if op1.IsError || a2.IsError || a3.IsError then .cond op1 a2 a3 error_type
  else if bt1 != TYPE_BOOL then .cond op1 a2 a3 error_type
  else
    let bt2 := baseTag a2
    let bt3 := baseTag a3
    if is_vector op1 && !(is_vector a2 && is_vector a3) then .cond op1 a2 a3 error_type
    else if BothArithmetic bt2 bt3 then
      let t := max_type bt2 bt3
      let op2 := if bt2 != t then mkArithCoerceExpr a2 t else a2
      let op3 := if bt3 != t then mkArithCoerceExpr a3 t else a3
      .cond op1 op2 op3 (vecOrBase (is_vector op2) (base_type t))
    else if bt2 != bt3 then .cond op1 a2 a3 error_type
    else .cond op1 a2 a3 a2.Type

/-- The constructor of the binary node with the given tag, for the
arithmetic, bitwise and comparison operators. -/
def mkBinaryExpr (tag : BroExprTag) (op1 op2 : Expr) : Expr :=
  match tag with
  | EXPR_ADD => mkAddExpr op1 op2
  | EXPR_SUB => mkSubExpr op1 op2
  | EXPR_TIMES => mkTimesExpr op1 op2
  | EXPR_DIVIDE => mkDivideExpr op1 op2
  | EXPR_MOD => mkModExpr op1 op2
  | EXPR_AND | EXPR_OR | EXPR_XOR => mkBitExpr tag op1 op2
  | EXPR_EQ | EXPR_NE => mkEqExpr tag op1 op2
  | EXPR_LT | EXPR_LE | EXPR_GE | EXPR_GT => mkRelExpr tag op1 op2
  | _ => .binary tag op1 op2 error_type

/-! ## Purity and the reducer's view of a node -/

/-- `IsPure()`: `Expr::IsPure` (Expr.cc 241-244), `NameExpr::IsPure` (766-788),
`UnaryExpr::IsPure`, `IncrExpr::IsPure`, `BinaryExpr::IsPure`, `CondExpr::IsPure`,
`AssignExpr::IsPure`, `ListExpr::IsPure` and `CallExpr::IsPure` (6932-6957);
the value of a function name evaluated without a frame is that of a global. -/
def Expr.IsPure : Expr → Bool
  | .name id =>
    if !id.is_const then false
    else if id.type.Tag != TYPE_FUNC then true
    else if !id.is_global then false
    else match id.val with
      | some (.func f) => if !f.has_bodies then false else f.is_pure
      | _ => false
  | .const _ => true
  | .unary tag op _ => if tag = EXPR_INCR || tag = EXPR_DECR then false else op.IsPure
  | .binary _ op1 op2 _ => op1.IsPure && op2.IsPure
  | .cond op1 op2 op3 _ => op1.IsPure && op2.IsPure && op3.IsPure
  | .assign _ _ _ _ => false
  | .call func args type =>
    if type.Tag = TYPE_ERROR then true
    else if !func.IsPure then false
    else match func with
      | .name id =>
        (match (if id.is_global then id.val else none) with
         | some (.func f) => if f.is_builtin then f.is_pure && args.IsPure else false
         | _ => false)
      | _ => false
  | .listNil => true
  | .listCons e rest => e.IsPure && rest.IsPure
  | .event _ _ => true
  | .schedule _ _ _ => false
  | .nop => true

/-- `HasNoSideEffects()` (Expr.h 171, 458; Expr.cc 948, 1127, 1859, 4141). -/
def Expr.HasNoSideEffects : Expr → Bool
  | .name _ => true
  | .unary tag op _ =>
    if tag = EXPR_INCR || tag = EXPR_DECR then false else op.HasNoSideEffects
  | .binary _ op1 op2 _ => op1.HasNoSideEffects && op2.HasNoSideEffects
  | .assign _ _ _ _ => false
  | e => e.IsPure

end Zeek

namespace Zeek

open TypeTag InternalTypeTag BroExprTag

/-- Modelled from the spec: the `Reducer` class (`Reduce.h`, `Reduce.cc`) is not
among the sources.  Of it the model keeps: whether it is in optimizing mode;
which names count as reduced; the local that stands for a name that is not;
the rewriting of expressions in optimizing mode; the number of temporaries
introduced so far ("introducing temporaries and companion assignments as
needed"). -/
structure Reducer where
  optimizing : Bool
  name_is_reduced : ID → Bool
  new_local : ID → ID
  update_expr : Expr → Expr
  num_temps : Nat

/-- `Reducer::Optimizing()`. -/
def Reducer.Optimizing (c : Reducer) : Bool := c.optimizing

/-- Modelled from the spec: `Reducer::NameIsReduced`; the reducer's own
temporaries are reduced names. -/
def Reducer.NameIsReduced (c : Reducer) (id : ID) : Bool :=
  id.is_temp || c.name_is_reduced id

/-- Modelled from the spec: `Reducer::UpdateName`; "a singleton (bare name or
constant) is returned unchanged", another name is replaced by its local. -/
def Reducer.UpdateName (c : Reducer) (id : ID) : Expr :=
  if c.NameIsReduced id then .name id else .name (c.new_local id)

/-- `Reducer::UpdateExpr`, a parameter of the model. -/
def Reducer.UpdateExpr (c : Reducer) (e : Expr) : Expr := c.update_expr e

/-- Modelled from the spec: `Reducer::GenTemporaryExpr`: a name for a fresh
temporary of the given type, and the reducer afterwards. -/
def Reducer.GenTemporaryExpr (c : Reducer) (t : BroType) : Expr × Reducer :=
  (.name { handle := c.num_temps, is_global := false, is_const := false,
           has_redef := false, is_temp := true, type := t, val := none },
   { c with num_temps := c.num_temps + 1 })

/-- `NameExpr::FoldableGlobal` (Expr.cc 823-829). -/
def FoldableGlobal (id : ID) : Bool :=
  id.is_global && id.is_const && is_atomic_type id.type && not id.has_redef

/-- `FoldVal()` (Expr.h 236, 487; `NameExpr::FoldVal`, Expr.cc 709-716). -/
def Expr.FoldVal : Expr → Option Val
  | .const v => some v
  | .name id =>
    if !id.is_const || id.has_redef || id.type.Tag = TYPE_FUNC then none else id.val
  | _ => none

/-- `NameExpr::IsReduced` (Expr.cc 790-796). -/
def NameExpr_IsReduced (c : Reducer) (id : ID) : Bool :=
  !FoldableGlobal id && c.NameIsReduced id

/-- `Expr::IsSingleton` (Expr.h 226-229). -/
def IsSingleton (c : Reducer) : Expr → Bool
  | .name id => NameExpr_IsReduced c id
  | .const _ => true
  | _ => false

/-- All elements of a `ListExpr` satisfy `p`. -/
def listAll (p : Expr → Bool) : Expr → Bool
  | .listCons e rest => p e && listAll p rest
  | _ => true

mutual

/-- `IsReduced(c)`: `Expr::IsReduced` (Expr.cc 246-249), `NameExpr` (790-796),
`UnaryExpr` (953), `RefExpr` (3640-3646), `BinaryExpr` (1132), `AppendToExpr`
(2323), `CondExpr` (3473), `AssignExpr` (4146-4179), `CallExpr` (6959-6962),
`ListExpr` (7584-7595), `EventExpr` (7477), `ScheduleExpr` (6562);
`NonReduced` is `false`. -/
def IsReduced (c : Reducer) : Expr → Bool
  | .name id => NameExpr_IsReduced c id
  | .const _ => true
  | .unary tag op _ =>
    if tag = EXPR_REF then
      (match op with
       | .name id => NameExpr_IsReduced c id
       | _ => false)
    else false
  | .binary tag _ _ _ => tag = EXPR_APPEND_TO
  | .cond _ _ _ _ => false
  | .assign op1 op2 is_temp _ =>
    if op2.Tag = EXPR_ASSIGN then false
    else if (decide (op1.Type.Tag = TYPE_ANY)) != (decide (op2.Type.Tag = TYPE_ANY)) &&
        op2.Tag != EXPR_CONST then false
    else if op1.Tag = EXPR_REF && op2.HasConstantOps && op2.Tag != EXPR_TO_ANY_COERCE then
      false
    else if is_temp then true
    else if !HasReducedOps c op2 then false
    else if IsSingleton c op1 then true
    else if op1.Tag = EXPR_REF then IsReduced c op1
    else false
  | .call func args _ => IsSingleton c func && IsReduced c args
  | .listNil => true
  | .listCons e rest =>
    (IsSingleton c e || (e.Tag = EXPR_LIST && IsReduced c e)) && IsReduced c rest
  | .event _ args => IsReduced c args
  | .schedule w ev _ => IsReduced c w && IsReduced c ev
  | .nop => true

/-- `HasReducedOps(c)`: `Expr::HasReducedOps` (Expr.cc 251-254), `NameExpr`
(Expr.h 457), `UnaryExpr` (958), `RefExpr` (3648-3670), `BinaryExpr` (1137),
`CondExpr` (3478), `AssignExpr` (4181), `CallExpr` (6964), `ListExpr`
(7597-7612), `ScheduleExpr` (6567). -/
def HasReducedOps (c : Reducer) : Expr → Bool
  | .name id => NameExpr_IsReduced c id
  | .const _ => true
  | .unary tag op _ =>
    if tag = EXPR_REF then
      (match op with
       | .name id => NameExpr_IsReduced c id
       | .listNil => true
       | .listCons _ _ => IsReduced c op
       | _ => true)
    else IsSingleton c op
  | .binary _ op1 op2 _ => IsSingleton c op1 && IsSingleton c op2
  | .cond op1 op2 op3 _ =>
    IsSingleton c op1 && IsSingleton c op2 && IsSingleton c op3 && !op1.IsConst
  | .assign op1 op2 _ _ => IsReduced c op1 && IsSingleton c op2
  | .call func args _ => IsSingleton c func && listAll (IsSingleton c) args
  | .listNil => true
  | .listCons e rest => IsSingleton c e && listAll (IsSingleton c) rest
  | .event _ _ => true
  | .schedule w ev _ => IsSingleton c w && IsSingleton c ev
  | .nop => true

end

end Zeek

namespace Zeek

open TypeTag InternalTypeTag BroExprTag

/-! ## Reduction (`Expr.cc`) -/

/-- `RefExpr::RefExpr` (Expr.cc 3618-3628); every type is taken to be assignable. -/
def mkRefExpr (op : Expr) : Expr :=
  if op.IsError then .unary EXPR_REF op error_type else .unary EXPR_REF op op.Type

/-- `CoerceToAnyExpr::CoerceToAnyExpr` (Expr.cc 6483-6487). -/
def mkCoerceToAnyExpr (op : Expr) : Expr := .unary EXPR_TO_ANY_COERCE op (base_type TYPE_ANY)

/-- `CoerceFromAnyExpr::CoerceFromAnyExpr` (Expr.cc 6500-6505). -/
def mkCoerceFromAnyExpr (op : Expr) (to_type : BroType) : Expr :=
  .unary EXPR_FROM_ANY_COERCE op to_type

/-- `WillTransform(c)` (Expr.h 251 and the overrides in Expr.cc). -/
def WillTransform (c : Reducer) : Expr → Bool
  | .name id => !NameExpr_IsReduced c id
  | .unary tag op _ =>
    match tag with
    | EXPR_INCR | EXPR_DECR => true
    | EXPR_COMPLEMENT => op.Tag = EXPR_COMPLEMENT
    | EXPR_NOT => op.Tag = EXPR_NOT && op.Type.Tag = TYPE_BOOL
    | EXPR_POSITIVE => op.Type.Tag != TYPE_COUNT
    | EXPR_NEGATE => op.Tag = EXPR_NEGATE
    | EXPR_REF => op.Tag != EXPR_NAME
    | EXPR_ARITH_COERCE =>
      (match op with
       | .const v => IsArithmetic v.Type.Tag
       | _ => false)
    | _ => false
  | .binary tag op1 op2 type =>
    match tag with
    | EXPR_ADD =>
      op1.IsZero || op2.IsZero || op1.Tag = EXPR_NEGATE || op2.Tag = EXPR_NEGATE
    | EXPR_SUB =>
      op2.IsZero || op2.Tag = EXPR_NEGATE ||
        (type.Tag != TYPE_VECTOR && type.Tag != TYPE_TABLE &&
          (match op1, op2 with
           | .name i1, .name i2 => decide (i1 = i2)
           | _, _ => false))
    | EXPR_TIMES => op1.IsZero || op2.IsZero || op1.IsOne || op2.IsOne
    | EXPR_DIVIDE => type.Tag != TYPE_SUBNET && op2.IsOne
    | EXPR_AND | EXPR_OR | EXPR_XOR =>
      type.Tag = TYPE_COUNT &&
        (op1.IsZero || op2.IsZero || (same_singletons op1 op2 && op1.Tag = EXPR_NAME))
    | EXPR_AND_AND | EXPR_OR_OR => true
    | EXPR_EQ | EXPR_NE => type.Tag = TYPE_BOOL && same_singletons op1 op2
    | EXPR_LT | EXPR_LE | EXPR_GE | EXPR_GT => type.Tag = TYPE_BOOL && same_singletons op1 op2
    | EXPR_ADD_TO | EXPR_REMOVE_FROM => true
    | _ => false
  | .cond op1 op2 op3 _ =>
    !(IsSingleton c op1 && IsSingleton c op2 && IsSingleton c op3 && !op1.IsConst)
  | .assign _ _ _ _ => true
  | _ => false

/-- What a reduction returns: the expression, the companion statement
(`none` for a null `red_stmt`), and the reducer afterwards. -/
abbrev Red := Except Failure (Expr × Option Stmt × Reducer)

/-- `Expr::AssignToTemporary(e, c, red_stmt)` (Expr.cc 623-645) called on the
node `this`: the temporary, the merged companion statement, the reducer. -/
def AssignToTemporary (c : Reducer) (this e : Expr) (red_stmt : Option Stmt) :
    Expr × Option Stmt × Reducer :=
  let g := c.GenTemporaryExpr this.Type
  let lhs := mkRefExpr g.1
  let a_e := Expr.assign lhs e true (if lhs.IsError || e.IsError then error_type else lhs.Type)
  (g.1, MergeStmts red_stmt (some (Stmt.expr a_e)) none, g.2)

/-- The elements of a `ListExpr`. -/
def Expr.elems : Expr → List Expr
  | .listCons e rest => e :: rest.elems
  | _ => []

/-- The `ListExpr` of the given elements. -/
def Expr.ofElems : List Expr → Expr
  | [] => .listNil
  | e :: es => .listCons e (Expr.ofElems es)

/-- The loop of `ListExpr::Reduce` outside optimizing mode (Expr.cc 7930-7953)
and of `ListExpr::ReduceToSingletons` (7963-7980): `step` reduces an
element that is not a singleton. -/
def reduceElems (step : Reducer → Expr → Red) :
    List Expr → Reducer → Option Stmt → Except Failure (List Expr × Option Stmt × Reducer)
  | [], c, red_stmt => .ok ([], red_stmt, c)
  | e :: es, c, red_stmt =>
    if IsSingleton c e then
      (match reduceElems step es c red_stmt with
       | .ok (es', s, c') => .ok (e :: es', s, c')
       | .error x => .error x)
    else
      match step c e with
      | .error x => .error x
      | .ok (e', e_stmt, c1) =>
        let red1 := if e_stmt.isSome then MergeStmts red_stmt e_stmt none else red_stmt
        (match reduceElems step es c1 red1 with
         | .ok (es', s, c') => .ok (e' :: es', s, c')
         | .error x => .error x)

/-- `is_pattern_cascade` (Expr.cc 2868-2897) as far as `BoolExpr::Reduce` asks:
whether the node is a cascade over one identifier (`id` so far). -/
def is_pattern_cascade : Expr → Option ID → Option (Option ID)
  | .binary tag lhs rhs _, id =>
    if tag = EXPR_IN then
      (match lhs, rhs with
       | .const v, .name rhs_id =>
         if v.Type.Tag != TYPE_PATTERN then none
         else (match id with
               | some i => if rhs_id = i then some (some rhs_id) else none
               | none => some (some rhs_id))
       | _, _ => none)
    else if tag = EXPR_OR_OR then
      (match is_pattern_cascade lhs id with
       | none => none
       | some id1 => is_pattern_cascade rhs id1)
    else none
  | _, _ => none

end Zeek

namespace Zeek

open TypeTag InternalTypeTag BroExprTag

/-- Reduce an operand to a singleton unless it is one already (the pattern
`if ( ! op->IsSingleton(c) ) op = op->ReduceToSingleton(c, red_stmt)`). -/
def reduceOperand (toS : Reducer → Expr → Red) (c : Reducer) (op : Expr) : Red :=
  if !IsSingleton c op then toS c op else .ok (op, none, c)

/-- `UnaryExpr::Reduce` (Expr.cc 963-984) for the node `unary tag op type`;
`toS` is `ReduceToSingleton`. -/
def UnaryExpr_Reduce (toS : Reducer → Expr → Red) (c : Reducer) (tag : BroExprTag)
    (op : Expr) (type : BroType) : Red := do
  let op0 := if c.Optimizing then c.UpdateExpr op else op
  let (op1, red_stmt, c1) ← reduceOperand toS c op0
  match op1.FoldVal with
  | some v => do
    let fold ← UnaryFold tag v
    pure (.const fold, red_stmt, c1)
  | none =>
    if c1.Optimizing then pure (.unary tag op1 type, red_stmt, c1)
    else pure (AssignToTemporary c1 (.unary tag op1 type) (.unary tag op1 type) red_stmt)

/-- `BinaryExpr::Reduce` (Expr.cc 1142-1173) for the node `binary tag op1 op2 type`. -/
def BinaryExpr_Reduce (toS : Reducer → Expr → Red) (c : Reducer) (tag : BroExprTag)
    (op1 op2 : Expr) (type : BroType) : Red := do
  let a1 := if c.Optimizing then c.UpdateExpr op1 else op1
  let a2 := if c.Optimizing then c.UpdateExpr op2 else op2
  let (b1, red_stmt, c1) ← reduceOperand toS c a1
  let (b2, red2_stmt, c2) ← reduceOperand toS c1 a2
  let red := MergeStmts red_stmt red2_stmt none
  match b1.FoldVal, b2.FoldVal with
  | some v1, some v2 => do
    let fold ← Fold tag type v1 v2
    pure (.const fold, red, c2)
  | _, _ =>
    if c2.Optimizing then pure (.binary tag b1 b2 type, red, c2)
    else pure (AssignToTemporary c2 (.binary tag b1 b2 type) (.binary tag b1 b2 type) red)

/-- The operand of a unary node (`op->GetOp1()`), the node itself otherwise. -/
def operandOf (e : Expr) : Expr :=
  match e.GetOp1 with
  | some o => o
  | none => e

/-- `AddExpr::Reduce` (Expr.cc 2139-2154) with `AddExpr::BuildSub` (2163-2170). -/
def AddExpr_Reduce (toS : Reducer → Expr → Red) (c : Reducer) (op1 op2 : Expr)
    (type : BroType) : Red :=
  if op1.IsZero then toS c op2
  else if op2.IsZero then toS c op1
  else if op1.Tag = EXPR_NEGATE then toS c (mkSubExpr op2 (operandOf op1))
  else if op2.Tag = EXPR_NEGATE then toS c (mkSubExpr op1 (operandOf op2))
  else BinaryExpr_Reduce toS c EXPR_ADD op1 op2 type

/-- `Expr::MakeZero` (Expr.cc 531-545) for the types whose zero is not a
floating-point number. -/
def MakeZero (t : TypeTag) : Except Failure Val :=
  match t with
  | TYPE_BOOL => .ok (GetBool false)
  | TYPE_INT => .ok (GetInt 0)
  | TYPE_COUNT => .ok (GetCount 0)
  | TYPE_DOUBLE | TYPE_TIME | TYPE_INTERVAL => .error .unmodelled
  | _ => .error (.internal "bad call to MakeZero")

/-- `SubExpr::Reduce` (Expr.cc 2421-2453); `red` is `Reduce`. -/
def SubExpr_Reduce (toS red : Reducer → Expr → Red) (c : Reducer) (op1 op2 : Expr)
    (type : BroType) : Red :=
  if op2.IsZero then toS c op1
  else if op2.Tag = EXPR_NEGATE then red c (mkAddExpr op1 (operandOf op2))
  else
    let a1 := if c.Optimizing then c.UpdateExpr op1 else op1
    let a2 := if c.Optimizing then c.UpdateExpr op2 else op2
    let same : Bool :=
      type.Tag != TYPE_VECTOR && type.Tag != TYPE_TABLE &&
        (match a1, a2 with
         | .name i1, .name i2 => decide (i1 = i2)
         | _, _ => false)
    if same then
      (match MakeZero type.Tag with
       | .ok z => .ok (.const z, none, c)
       | .error x => .error x)
    else BinaryExpr_Reduce toS c EXPR_SUB a1 a2 type

/-- `TimesExpr::Reduce` (Expr.cc 2561-2579). -/
def TimesExpr_Reduce (toS : Reducer → Expr → Red) (c : Reducer) (op1 op2 : Expr)
    (type : BroType) : Red :=
  if op1.IsOne then toS c op2
  else if op2.IsOne then toS c op1
  else if (op1.IsZero || op2.IsZero) && type.Tag != TYPE_DOUBLE then
    (match (if op1.IsZero then op1 else op2) with
     | .const zero_val => .ok (.const zero_val, none, c)
     | _ => .error (.internal "TimesExpr::Reduce"))
  else BinaryExpr_Reduce toS c EXPR_TIMES op1 op2 type

/-- `DivideExpr::Reduce` (Expr.cc 2640-2649). -/
def DivideExpr_Reduce (toS : Reducer → Expr → Red) (c : Reducer) (op1 op2 : Expr)
    (type : BroType) : Red :=
  if type.Tag != TYPE_SUBNET && op2.IsOne then toS c op1
  else BinaryExpr_Reduce toS c EXPR_DIVIDE op1 op2 type

/-- `BitExpr::Reduce` (Expr.cc 3080-3121). -/
def BitExpr_Reduce (toS : Reducer → Expr → Red) (c : Reducer) (tag : BroExprTag)
    (op1 op2 : Expr) (type : BroType) : Red :=
  if type.Tag != TYPE_COUNT then BinaryExpr_Reduce toS c tag op1 op2 type
  else
    let zero1 := op1.IsZero
    let zero2 := op2.IsZero
    if zero1 && zero2 then toS c op1
    else if zero1 || zero2 then
      let zero_op := if zero1 then op1 else op2
      let non_zero_op := if zero1 then op2 else op1
      if tag = EXPR_AND then toS c zero_op else toS c non_zero_op
    else if same_singletons op1 op2 && op1.Tag = EXPR_NAME then
      if tag = EXPR_XOR then .ok (.const (GetCount 0), none, c)
      else toS c op1
    else BinaryExpr_Reduce toS c tag op1 op2 type

/-- `EqExpr::Reduce` (Expr.cc 3237-3248). -/
def EqExpr_Reduce (toS : Reducer → Expr → Red) (c : Reducer) (tag : BroExprTag)
    (op1 op2 : Expr) (type : BroType) : Red :=
  if type.Tag = TYPE_BOOL && same_singletons op1 op2 then
    .ok (.const (GetBool (tag = EXPR_EQ)), none, c)
  else BinaryExpr_Reduce toS c tag op1 op2 type

/-- `RelExpr::Reduce` (Expr.cc 3320-3343); the warnings go to the reporter and
leave the result alone. -/
def RelExpr_Reduce (toS : Reducer → Expr → Red) (c : Reducer) (tag : BroExprTag)
    (op1 op2 : Expr) (type : BroType) : Red :=
  if type.Tag = TYPE_BOOL && same_singletons op1 op2 then
    .ok (.const (GetBool (tag = EXPR_GE || tag = EXPR_LE)), none, c)
  else BinaryExpr_Reduce toS c tag op1 op2 type

/-- `BoolExpr::Reduce` (Expr.cc 2924-2992).  The rewriting of a cascade of
pattern tests into one `in` node is not modelled. -/
def BoolExpr_Reduce (toS : Reducer → Expr → Red) (c : Reducer) (tag : BroExprTag)
    (op1 op2 : Expr) (type : BroType) : Red :=
  if tag = EXPR_OR_OR && (is_pattern_cascade (.binary tag op1 op2 type) none).isSome then
    .error .unmodelled
  else
    let is_and : Bool := tag = EXPR_AND_AND
    if op1.IsOne then (if is_and then toS c op2 else toS c op1)
    else if op1.IsZero then (if is_and then toS c op1 else toS c op2)
    else if op1.HasNoSideEffects && op2.IsOne then
      (if is_and then toS c op1 else toS c op2)
    else if op1.HasNoSideEffects && op2.IsZero then
      (if is_and then toS c op2 else toS c op1)
    else
      let else_e := Expr.const (GetBool (!is_and))
      let cond := if is_and then mkCondExpr op1 op2 else_e else mkCondExpr op1 else_e op2
      toS c cond

end Zeek

namespace Zeek

open TypeTag InternalTypeTag BroExprTag

/-- `NameExpr::Reduce` (Expr.cc 798-813). -/
def NameExpr_Reduce (c : Reducer) (id : ID) : Red :=
  if c.Optimizing then .ok (.name id, none, c)
  else if FoldableGlobal id then
    (match id.val with
     | some v => .ok (.const v, none, c)
     | none => .error (.internal "ASSERT(v)"))
  else .ok (c.UpdateName id, none, c)

/-- `CondExpr::ReduceToSingletons` (Expr.cc 3553-3581): the node with its
operands replaced, and the statement. -/
def CondExpr_ReduceToSingletons (toS : Reducer → Expr → Red) (c : Reducer)
    (op1 op2 op3 : Expr) (type : BroType) : Red := do
  let (b1, red1_stmt, c1) ← reduceOperand toS c op1
  let (b2, red2_stmt, c2) ← reduceOperand toS c1 op2
  let (b3, red3_stmt, c3) ← reduceOperand toS c2 op3
  let if_else : Option Stmt :=
    if red2_stmt.isSome || red3_stmt.isSome then
      some (Stmt.ifStmt b1 (red2_stmt.getD Stmt.null) (red3_stmt.getD Stmt.null))
    else none
  pure (.cond b1 b2 b3 type, MergeStmts red1_stmt if_else none, c3)

/-- `CondExpr::Reduce` (Expr.cc 3489-3542); `red_stmt` is null on entry. -/
def CondExpr_Reduce (toS : Reducer → Expr → Red) (c : Reducer)
    (op1 op2 op3 : Expr) (type : BroType) : Red := do
  let a1 := if c.Optimizing then c.UpdateExpr op1 else op1
  let a2 := if c.Optimizing then c.UpdateExpr op2 else op2
  let a3 := if c.Optimizing then c.UpdateExpr op3 else op3
  let (b1, op1_red_stmt, c1) ← toS c a1
  match b1 with
  | .const v => do
    let (res, red_stmt, c2) ← (if v.IsOne then toS c1 a2 else toS c1 a3)
    pure (res, MergeStmts op1_red_stmt red_stmt none, c2)
  | _ =>
    if same_singletons a2 a3 then
      if b1.HasNoSideEffects && b1.Tag != EXPR_CONST && b1.Tag != EXPR_NAME then
        let t := AssignToTemporary c1 b1 b1 none
        pure (a2, MergeStmts op1_red_stmt t.2.1 none, t.2.2)
      else pure (a2, MergeStmts op1_red_stmt none none, c1)
    else if c1.Optimizing then pure (.cond b1 a2 a3 type, none, c1)
    else do
      let (this, red_stmt, c2) ← CondExpr_ReduceToSingletons toS c1 b1 a2 a3 type
      let t := AssignToTemporary c2 this this none
      pure (t.1, MergeStmts op1_red_stmt red_stmt t.2.1, t.2.2)

/-- `RefExpr::Reduce` (Expr.cc 3677-3685) for the node `unary EXPR_REF op type`. -/
def RefExpr_Reduce (red : Reducer → Expr → Red) (c : Reducer) (op : Expr)
    (type : BroType) : Red :=
  if op.Tag = EXPR_NAME then
    (match red c op with
     | .ok (op', red_stmt, c') => .ok (.unary EXPR_REF op' type, red_stmt, c')
     | .error x => .error x)
  else
    let this := Expr.unary EXPR_REF op type
    let t := AssignToTemporary c this this none
    .ok (.unary EXPR_REF t.1 type, t.2.1, t.2.2)

/-- `ListExpr::Reduce` (Expr.cc 7930-7953). -/
def ListExpr_Reduce (toS : Reducer → Expr → Red) (c : Reducer) (l : Expr) : Red :=
  if c.Optimizing then .ok (Expr.ofElems (l.elems.map c.UpdateExpr), none, c)
  else
    match reduceElems toS l.elems c none with
    | .ok (es, red_stmt, c') => .ok (Expr.ofElems es, red_stmt, c')
    | .error x => .error x

/-- `ListExpr::ReduceToSingletons` (Expr.cc 7963-7980). -/
def ListExpr_ReduceToSingletons (red : Reducer → Expr → Red) (c : Reducer) (l : Expr) : Red :=
  match reduceElems red l.elems c none with
  | .ok (es, red_stmt, c') => .ok (Expr.ofElems es, red_stmt, c')
  | .error x => .error x

/-- `CallExpr::Reduce` (Expr.cc 6972-7001). -/
def CallExpr_Reduce (toS : Reducer → Expr → Red) (c : Reducer) (func args : Expr)
    (type : BroType) : Red :=
  if c.Optimizing then .ok (.call (c.UpdateExpr func) (c.UpdateExpr args) type, none, c)
  else do
    let (f1, red_stmt, c1) ← reduceOperand toS c func
    let (a1, red2_stmt, c2) ← ListExpr_Reduce toS c1 args
    let red := MergeStmts red_stmt red2_stmt none
    if type.Tag = TYPE_VOID then pure (.call f1 a1 type, red, c2)
    else pure (AssignToTemporary c2 (.call f1 a1 type) (.call f1 a1 type) red)

/-- `CallExpr::ReduceToSingletons` (Expr.cc 7019-7029). -/
def CallExpr_ReduceToSingletons (red : Reducer → Expr → Red) (c : Reducer)
    (func args : Expr) (type : BroType) : Red := do
  let (f1, func_stmt, c1) ← (if !IsSingleton c func then red c func else .ok (func, none, c))
  let (a1, args_stmt, c2) ← ListExpr_ReduceToSingletons red c1 args
  pure (.call f1 a1 type, MergeStmts func_stmt args_stmt none, c2)

/-- `AssignExpr::Reduce` (Expr.cc 4186-4332) for an assignment whose left-hand
side is a reference to a name; assignments to an index, a field or a list
are not modelled.  `toSs` is `ReduceToSingletons`. -/
def AssignExpr_Reduce (red toS toSs : Reducer → Expr → Red) (c : Reducer)
    (op1 op2 : Expr) (is_temp : Bool) (type : BroType) : Red :=
  if c.Optimizing then .ok (.assign op1 (c.UpdateExpr op2) is_temp type, none, c)
  else if is_temp then .ok (.assign op1 op2 is_temp type, none, c)
  else do
    let lhs_is_any : Bool := op1.Type.Tag = TYPE_ANY
    let rhs_is_any : Bool := op2.Type.Tag = TYPE_ANY
    let (rhs, rhs_reduce, c1) ←
      (if lhs_is_any != rhs_is_any then
        (match toS c op2 with
         | .ok (red_rhs, s, c') =>
           if lhs_is_any then
             (if red_rhs.Tag = EXPR_CONST then .ok (red_rhs, s, c')
              else .ok (mkCoerceToAnyExpr red_rhs, s, c'))
           else .ok (mkCoerceFromAnyExpr red_rhs op1.Type, s, c')
         | .error x => .error x)
       else (.ok (op2, none, c) : Red))
    match op1 with
    | .unary EXPR_REF (.name lhs_id) ref_type =>
      if WillTransform c1 rhs then do
        let (rhs', xform_stmt, c2) ← toS c1 rhs
        pure (.assign op1 rhs' is_temp type, MergeStmts rhs_reduce xform_stmt none, c2)
      else do
        let (rhs1, red_stmt, c2) ← toSs c1 rhs
        let rhs2 ←
          (if rhs1.HasConstantOps && rhs1.Tag != EXPR_TO_ANY_COERCE then
            (match Eval none rhs1 with
             | .ok (some v) => (.ok (Expr.const v) : Except Failure Expr)
             | .ok none => .error .unmodelled
             | .error x => .error x)
           else .ok rhs1)
        if WillTransform c2 rhs2 then do
          let (rhs', xform_stmt, c3) ← toS c2 rhs2
          pure (.assign op1 rhs' is_temp type, MergeStmts rhs_reduce red_stmt xform_stmt, c3)
        else do
          let (lhs_name, lhs_stmt, c3) ← red c2 (.name lhs_id)
          let (rhs3, rhs_stmt, c4) ← toSs c3 rhs2
          pure (.assign (.unary EXPR_REF lhs_name ref_type) rhs3 is_temp type,
                MergeStmts (MergeStmts rhs_reduce red_stmt none) lhs_stmt rhs_stmt, c4)
    | _ => .error .unmodelled

/-- The three entry points of the reducer. -/
inductive RedKind where
  | reduce
  | toSingleton
  | toSingletons
deriving Repr, DecidableEq

end Zeek

namespace Zeek

open TypeTag InternalTypeTag BroExprTag

/-- The reducer on expressions: `Reduce` (`RedKind.reduce`),
`ReduceToSingleton` (`RedKind.toSingleton`) and `ReduceToSingletons`
(`RedKind.toSingletons`, which returns the node with its operands replaced).
The first argument bounds the depth of the recursion; every call of one
method by another takes one unit.  Node kinds outside the model give
`Failure.unmodelled`. -/
def red : Nat → RedKind → Reducer → Expr → Red
  | 0, _, _, _ => .error .fuel
  | n + 1, .toSingleton, c, e =>
    -- `Expr::ReduceToSingleton` (Expr.h 197-199) is `Reduce`; `AssignExpr` and
    -- `IncrExpr` override it
    match e with
    | .assign _ _ _ _ => .error .unmodelled
    | .unary tag _ _ =>
      if tag = EXPR_INCR || tag = EXPR_DECR then .error .unmodelled else red n .reduce c e
    | _ => red n .reduce c e
  | n + 1, .toSingletons, c, e =>
    match e with
    | .cond op1 op2 op3 type =>
      CondExpr_ReduceToSingletons (red n .toSingleton) c op1 op2 op3 type
    | .call func args type => CallExpr_ReduceToSingletons (red n .reduce) c func args type
    | .listNil => ListExpr_ReduceToSingletons (red n .reduce) c e
    | .listCons _ _ => ListExpr_ReduceToSingletons (red n .reduce) c e
    -- `Expr::ReduceToSingletons` (Expr.cc 366-384)
    | .unary tag op type =>
      (match reduceOperand (red n .toSingleton) c op with
       | .ok (op', red1_stmt, c') => .ok (.unary tag op' type, MergeStmts red1_stmt none none, c')
       | .error x => .error x)
    | .binary tag op1 op2 type =>
      (match reduceOperand (red n .toSingleton) c op1 with
       | .ok (b1, red1_stmt, c1) =>
         (match reduceOperand (red n .toSingleton) c1 op2 with
          | .ok (b2, red2_stmt, c2) =>
            .ok (.binary tag b1 b2 type, MergeStmts red1_stmt red2_stmt none, c2)
          | .error x => .error x)
       | .error x => .error x)
    | .assign op1 op2 is_temp type =>
      (match reduceOperand (red n .toSingleton) c op1 with
       | .ok (b1, red1_stmt, c1) =>
         (match reduceOperand (red n .toSingleton) c1 op2 with
          | .ok (b2, red2_stmt, c2) =>
            .ok (.assign b1 b2 is_temp type, MergeStmts red1_stmt red2_stmt none, c2)
          | .error x => .error x)
       | .error x => .error x)
    | _ => .ok (e, none, c)
  | n + 1, .reduce, c, e =>
    match e with
    | .name id => NameExpr_Reduce c id
    | .const _ => .ok (e, none, c)
    | .nop => .ok (e, none, c)
    | .unary tag op type =>
      (match tag with
       | EXPR_NOT =>
         if op.Tag = EXPR_NOT && op.Type.Tag = TYPE_BOOL then red n .reduce c op
         else UnaryExpr_Reduce (red n .toSingleton) c tag op type
       | EXPR_COMPLEMENT =>
         if op.Tag = EXPR_COMPLEMENT then red n .toSingleton c (operandOf op)
         else UnaryExpr_Reduce (red n .toSingleton) c tag op type
       | EXPR_POSITIVE =>
         if op.Type.Tag = TYPE_COUNT then UnaryExpr_Reduce (red n .toSingleton) c tag op type
         else red n .toSingleton c op
       | EXPR_NEGATE =>
         if op.Tag = EXPR_NEGATE then red n .toSingleton c (operandOf op)
         else UnaryExpr_Reduce (red n .toSingleton) c tag op type
       | EXPR_REF => RefExpr_Reduce (red n .reduce) c op type
       | _ => .error .unmodelled)
    | .binary tag op1 op2 type =>
      (match tag with
       | EXPR_ADD => AddExpr_Reduce (red n .toSingleton) c op1 op2 type
       | EXPR_SUB => SubExpr_Reduce (red n .toSingleton) (red n .reduce) c op1 op2 type
       | EXPR_TIMES => TimesExpr_Reduce (red n .toSingleton) c op1 op2 type
       | EXPR_DIVIDE => DivideExpr_Reduce (red n .toSingleton) c op1 op2 type
       | EXPR_MOD => BinaryExpr_Reduce (red n .toSingleton) c tag op1 op2 type
       | EXPR_AND | EXPR_OR | EXPR_XOR => BitExpr_Reduce (red n .toSingleton) c tag op1 op2 type
       | EXPR_AND_AND | EXPR_OR_OR =>
         BoolExpr_Reduce (red n .toSingleton) c tag op1 op2 type
       | EXPR_EQ | EXPR_NE => EqExpr_Reduce (red n .toSingleton) c tag op1 op2 type
       | EXPR_LT | EXPR_LE | EXPR_GE | EXPR_GT =>
         RelExpr_Reduce (red n .toSingleton) c tag op1 op2 type
       | _ => .error .unmodelled)
    | .cond op1 op2 op3 type => CondExpr_Reduce (red n .toSingleton) c op1 op2 op3 type
    | .assign op1 op2 is_temp type =>
      AssignExpr_Reduce (red n .reduce) (red n .toSingleton) (red n .toSingletons) c
        op1 op2 is_temp type
    | .call func args type => CallExpr_Reduce (red n .toSingleton) c func args type
    | .listNil => ListExpr_Reduce (red n .toSingleton) c e
    | .listCons _ _ => ListExpr_Reduce (red n .toSingleton) c e
    | .event h args =>
      -- `EventExpr::Reduce` (Expr.cc 7482-7498)
      if c.Optimizing then .ok (.event h (c.UpdateExpr args), none, c)
      else if !IsReduced c args then
        (match ListExpr_Reduce (red n .toSingleton) c args with
         | .ok (a1, red_stmt, c') => .ok (.event h a1, red_stmt, c')
         | .error x => .error x)
      else .ok (e, none, c)
    | .schedule _ _ _ => .error .unmodelled

/-- `Expr::Reduce(c, red_stmt)` with recursion depth at most `fuel`. -/
def Reduce (fuel : Nat) (c : Reducer) (e : Expr) : Red := red fuel .reduce c e

/-- `Expr::ReduceToSingleton(c, red_stmt)` with recursion depth at most `fuel`. -/
def ReduceToSingleton (fuel : Nat) (c : Reducer) (e : Expr) : Red := red fuel .toSingleton c e

/-- A reducer outside optimizing mode for which every name is reduced and
no temporary has been introduced yet. -/
def plainReducer : Reducer :=
  { optimizing := false, name_is_reduced := fun _ => true, new_local := fun id => id,
    update_expr := fun e => e, num_temps := 0 }

/-- The `count` constant `n`. -/
def countConst (n : Nat) : Expr := .const (.uintv .count n)

/-- A local variable of the given type. -/
def localVar (h : Nat) (t : TypeTag) : ID :=
  { handle := h, is_global := false, is_const := false, has_redef := false,
    is_temp := false, type := base_type t, val := none }

end Zeek

namespace Zeek

open TypeTag InternalTypeTag BroExprTag

/-- The statements of a companion statement: those of a `StmtList`, the
statement itself otherwise, none for a null companion. -/
def companions : Option Stmt → List Stmt
  | none => []
  | some (Stmt.list l) => l
  | some s => [s]

/-- The boolean constant `b`. -/
def boolConst (b : Bool) : Expr := .const (GetBool b)

/-- A global function of the worked examples: a built-in that is not pure. -/
def impureBuiltin : ID :=
  { handle := 9, is_global := true, is_const := true, has_redef := false, is_temp := false,
    type := base_type TYPE_FUNC,
    val := some (.func { handle := 1, is_builtin := true, is_pure := false,
                         has_bodies := true }) }

/-- The call `f()` of the impure built-in, of type `bool`. -/
def impureCall : Expr := .call (.name impureBuiltin) .listNil (base_type TYPE_BOOL)

end Zeek

namespace Zeek

open TypeTag InternalTypeTag BroExprTag

/-- A global constant of type `bool` whose value is true, without a
redefinition: a foldable global. -/
def trueGlobal : ID :=
  { handle := 7, is_global := true, is_const := true, has_redef := false, is_temp := false,
    type := base_type TYPE_BOOL, val := some (GetBool true) }

/-- The assignment of `e` to the first temporary of `plainReducer`, as
`AssignToTemporary` builds it. -/
def firstTempAssign (e : Expr) : Stmt :=
  Stmt.expr (.assign (mkRefExpr (plainReducer.GenTemporaryExpr e.Type).1) e true
    (mkRefExpr (plainReducer.GenTemporaryExpr e.Type).1).Type)

end Zeek

namespace Zeek

open TypeTag InternalTypeTag BroExprTag

/-- The values of signed-integer, unsigned-integer, string or address type,
the integers lying in the range of `bro_int_t` resp. `bro_uint_t`. -/
def Val.IsFoldScalar : Val → Bool
  | .intv _ i => decide (-(2 : Int) ^ 63 ≤ i) && decide (i < 2 ^ 63)
  | .uintv _ u => decide (u < 2 ^ 64)
  | .str _ => true
  | .addr _ => true
  | _ => false

/-- What the reducer returns for a folded node: the constant, a null
companion statement, the reducer unchanged; a failure stays one. -/
def foldedTo (c : Reducer) (r : Except Failure Val) : Red :=
  match r with
  | .ok v => .ok (.const v, none, c)
  | .error x => .error x

/-- What `Eval` returns for a folded node: the value; a failure stays one. -/
def evaluatedTo (r : Except Failure Val) : Except Failure (Option Val) :=
  match r with
  | .ok v => .ok (some v)
  | .error x => .error x

end Zeek

namespace ZAM

/-- A frame of the worked example: identifier 0 lives from instruction 0 to
instruction 1, identifier 1 from instruction 2 to instruction 3. -/
def exampleFrame : FrameInfo :=
  { num_slots := 2
    inst_beginnings := fun i => if i = 0 then some [0] else if i = 2 then some [1] else none
    frame_layout1 := fun id => id
    denizen_ending := fun slot => if slot = 0 then some 1 else if slot = 1 then some 3 else none
    isManagedType := fun _ => false }

end ZAM

namespace UseDefs

open Zeek Zeek.BroExprTag Zeek.TypeTag

/-! ## Use-def analysis (`UseDefs.cc`) -/

mutual

/-- A statement of a reduced body.  The first field of every node names the
node (it stands for the `Stmt*` that keys the maps of the analysis).
`exprLike` covers `STMT_EVENT`, `STMT_CHECK_ANY_LEN`, `STMT_ADD`, `STMT_DELETE`
and `STMT_RETURN`; `whileCond` is a `while` with a condition statement, its
`c_as_s` naming `ConditionAsStmt()`; `switch` stands for a `switch`
statement, which the model does not analyze; `other` is any statement kind
that a reduced body does not contain. -/
inductive Stmt where
  | null (l : Nat)
  | next (l : Nat)
  | brk (l : Nat)
  | fallthrough (l : Nat)
  | print (l : Nat) (args : Expr)
  | exprLike (l : Nat) (e : Option Expr)
  | expr (l : Nat) (e : Expr)
  | ifS (l : Nat) (cond : Expr) (s1 s2 : Stmt)
  | init (l : Nat) (inits : List ID)
  | whenS (l : Nat)
  | catchReturn (l : Nat) (block : Stmt)
  | list (l : Nat) (stmts : Stmts)
  | forS (l : Nat) (loop_vars : List ID) (value_var : Option ID) (loop_expr : Expr)
      (body : Stmt)
  | whileS (l : Nat) (cond : Expr) (body : Stmt)
  | whileCond (l : Nat) (cond : Expr) (cond_stmt : Stmt) (c_as_s : Nat) (body : Stmt)
  | switch (l : Nat)
  | other (l : Nat)

/-- The statements of a `StmtList`, in order. -/
inductive Stmts where
  | nil
  | cons (s : Stmt) (rest : Stmts)

end

/-- The name of a statement node. -/
def Stmt.label : Stmt → Nat
  | .null l | .next l | .brk l | .fallthrough l | .print l _ | .exprLike l _ | .expr l _
  | .ifS l _ _ _ | .init l _ | .whenS l | .catchReturn l _ | .list l _ | .forS l _ _ _ _
  | .whileS l _ _ | .whileCond l _ _ _ _ | .switch l | .other l => l

/-- The name of the first statement of a list, if it has one. -/
def Stmts.first : Stmts → Option Nat
  | .nil => none
  | .cons s _ => some s.label

/-- `UDs`: a pointer to a `UseDefSet`, `none` for `nullptr`.  The set is the
list of its identifiers in the order in which they were added. -/
abbrev UDs := Option (List ID)

/-- `UseDefSet::Add`. -/
def UD_add (s : List ID) (id : ID) : List ID := if id ∈ s then s else s ++ [id]

/-- Add every identifier of `more` (the loops over `IterateOver()`). -/
def UD_addAll (s more : List ID) : List ID := more.foldl UD_add s

/-- `UseDefs::UD_Union` (UseDefs.cc 623-640); a `nullptr` argument adds nothing. -/
def UD_Union (u1 u2 u3 : UDs) : UDs :=
  some (UD_addAll (UD_addAll (u1.getD []) (u2.getD [])) (u3.getD []))

/-- `UseDefs::FoldInUDs` (UseDefs.cc 583-600): the new value of `main_UDs`. -/
def FoldInUDs (main_UDs u1 u2 : UDs) : UDs :=
  some (UD_addAll (UD_addAll (main_UDs.getD []) (u1.getD [])) (u2.getD []))

/-- `UseDefs::RemoveID` (UseDefs.cc 563-575). -/
def RemoveID (id : ID) (uds : UDs) : UDs :=
  uds.map fun s => s.filter fun u => u ≠ id

/-- `UseDefs::RemoveUDFrom` (UseDefs.cc 577-581): the set afterwards. -/
def RemoveUDFrom (uds : UDs) (id : ID) : UDs :=
  uds.map fun s => s.filter fun u => u ≠ id

/-- `UseDefs::AddInExprUDs` (UseDefs.cc 516-556): the set afterwards.  `AsRefExpr`
on an operand of `++` / `--` that is not a reference is not modelled. -/
def AddInExprUDs : List ID → Expr → Except Failure (List ID)
  | uds, .name id => .ok (UD_add uds id)
  | uds, .listNil => .ok uds
  | uds, .listCons e rest =>
    (match AddInExprUDs uds e with
     | .ok u => AddInExprUDs u rest
     | .error x => .error x)
  | uds, .event _ args => AddInExprUDs uds args
  | uds, .unary tag op _ =>
    if tag = EXPR_INCR || tag = EXPR_DECR then
      (match op with
       | .unary _ inner _ => if op.Tag = EXPR_REF then AddInExprUDs uds inner
                             else .error .unmodelled
       | _ => .error .unmodelled)
    else if tag = EXPR_FIELD_ASSIGN || tag = EXPR_FIELD then AddInExprUDs uds op
    else .error (.internal "bad tag in UseDefs::AddInExprUDs")
  | uds, .assign op1 op2 _ _ =>
    (match AddInExprUDs uds op1 with
     | .ok u => AddInExprUDs u op2
     | .error x => .error x)
  | uds, .const _ => .ok uds
  | _, _ => .error (.internal "bad tag in UseDefs::AddInExprUDs")

/-- `UseDefs::ExprUDs` (UseDefs.cc 447-514); lambdas are not modelled. -/
def ExprUDs : Expr → Except Failure (List ID)
  | .name id => AddInExprUDs [] (.name id)
  | .const _ => .ok []
  | .call func args _ =>
    (match AddInExprUDs [] func with
     | .ok u => AddInExprUDs u args
     | .error x => .error x)
  | .listNil => .ok []
  | .listCons e rest => AddInExprUDs [] (.listCons e rest)
  | .unary tag op _ =>
    if tag = EXPR_INCR || tag = EXPR_DECR then
      (match op with
       | .unary _ inner _ => if op.Tag = EXPR_REF then AddInExprUDs [] inner
                             else .error .unmodelled
       | _ => .error .unmodelled)
    else if tag = EXPR_LAMBDA then .error .unmodelled
    else AddInExprUDs [] op
  | .binary tag op1 op2 _ =>
    if tag = EXPR_FIELD_LHS_ASSIGN then
      (match AddInExprUDs [] op1, ExprUDs op2 with
       | .ok u, .ok rhs_UDs => .ok (UD_addAll u rhs_UDs)
       | .error x, _ => .error x
       | _, .error x => .error x)
    else
      (match AddInExprUDs [] op1 with
       | .ok u => AddInExprUDs u op2
       | .error x => .error x)
  | .cond op1 op2 op3 _ =>
    (match AddInExprUDs [] op1 with
     | .ok u =>
       (match AddInExprUDs u op2 with
        | .ok u2 => AddInExprUDs u2 op3
        | .error x => .error x)
     | .error x => .error x)
  | .assign op1 op2 _ _ =>
    (match AddInExprUDs [] op1 with
     | .ok u => AddInExprUDs u op2
     | .error x => .error x)
  | .event _ args => AddInExprUDs [] args
  | .schedule w ev _ =>
    (match AddInExprUDs [] w with
     | .ok u => AddInExprUDs u ev
     | .error x => .error x)
  | .nop => .error (.internal "expression inconsistency in UseDefs::ExprUDs")

end UseDefs

namespace UseDefs

open Zeek Zeek.BroExprTag Zeek.TypeTag

/-- The maps of the `UseDefs` object.  A statement is named by its label;
`use_defs_map l = none` means that the map has no entry for `l`, and
`successor l = some none` that the entry is `nullptr`.  `stmts` lists the
statements in the order in which the first pass met them.
(`UDs_are_copies` only serves `Dump` and `UpdateUDs` and is left out.) -/
structure State where
  use_defs_map : Nat → Option UDs
  stmts : List Stmt
  successor : Nat → Option (Option Nat)
  successor2 : Nat → Option (Option Nat)

/-- The state after `Analyze` has cleared the maps. -/
def State.empty : State :=
  { use_defs_map := fun _ => none, stmts := [], successor := fun _ => none,
    successor2 := fun _ => none }

/-- `UseDefs::UseUDs` and `UseDefs::CreateUDs` (UseDefs.cc 642-665), which
differ in `UDs_are_copies` only: `use_defs_map[s] = uds`. -/
def setUDs (st : State) (l : Nat) (uds : UDs) : State :=
  { st with use_defs_map := fun k => if k = l then some uds else st.use_defs_map k }

/-- `successor[s] = succ_stmt`. -/
def setSuccessor (st : State) (l : Nat) (succ : Option Nat) : State :=
  { st with successor := fun k => if k = l then some succ else st.successor k }

/-- `successor2[s] = succ_stmt`. -/
def setSuccessor2 (st : State) (l : Nat) (succ : Option Nat) : State :=
  { st with successor2 := fun k => if k = l then some succ else st.successor2 k }

/-- `UseDefs::CreateExprUDs` (UseDefs.cc 650-656). -/
def CreateExprUDs (st : State) (l : Nat) (e : Expr) (uds : UDs) :
    Except Failure (UDs × State) :=
  match ExprUDs e with
  | .ok e_UDs =>
    let new_UDs := UD_Union uds (some e_UDs) none
    .ok (new_UDs, setUDs st l new_UDs)
  | .error x => .error x

/-- `stmts.push_back(s)` in the first pass. -/
def noteStmt (st : State) (s : Stmt) (second_pass : Bool) : State :=
  if second_pass then st else { st with stmts := st.stmts ++ [s] }

mutual

/-- `UseDefs::PropagateUDs(s, succ_UDs, succ_stmt, second_pass)` (UseDefs.cc
182-415): the `UDs` returned and the state afterwards.  `switch` statements
are not modelled. -/
def PropagateUDs : Stmt → UDs → Option Nat → Bool → State → Except Failure (UDs × State)
  | .list l ss, succ_UDs, succ_stmt, second_pass, st0 =>
    let st := noteStmt st0 (.list l ss) second_pass
    (match PropagateList l succ_stmt second_pass ss succ_UDs st with
     | .ok (uds, st1) => .ok (uds, setUDs st1 l uds)
     | .error x => .error x)
  | .catchReturn l block, succ_UDs, succ_stmt, second_pass, st0 =>
    let st := noteStmt st0 (.catchReturn l block) second_pass
    (match PropagateUDs block succ_UDs succ_stmt second_pass st with
     | .ok (uds, st1) => .ok (uds, setUDs st1 l uds)
     | .error x => .error x)
  | .null l, succ_UDs, _, second_pass, st0 =>
    .ok (succ_UDs, setUDs (noteStmt st0 (.null l) second_pass) l succ_UDs)
  | .next l, succ_UDs, _, second_pass, st0 =>
    .ok (succ_UDs, setUDs (noteStmt st0 (.next l) second_pass) l succ_UDs)
  | .brk l, succ_UDs, _, second_pass, st0 =>
    .ok (succ_UDs, setUDs (noteStmt st0 (.brk l) second_pass) l succ_UDs)
  | .fallthrough l, succ_UDs, _, second_pass, st0 =>
    .ok (succ_UDs, setUDs (noteStmt st0 (.fallthrough l) second_pass) l succ_UDs)
  | .print l args, succ_UDs, _, second_pass, st0 =>
    CreateExprUDs (noteStmt st0 (.print l args) second_pass) l args succ_UDs
  | .exprLike l e, succ_UDs, _, second_pass, st0 =>
    let st := noteStmt st0 (.exprLike l e) second_pass
    (match e with
     | some e => CreateExprUDs st l e succ_UDs
     | none => .ok (succ_UDs, setUDs st l succ_UDs))
  | .expr l e, succ_UDs, succ_stmt, second_pass, st0 =>
    let st := noteStmt st0 (.expr l e) second_pass
    (match e with
     | .assign lhs_ref rhs _ _ =>
       if lhs_ref.Tag ≠ EXPR_REF then
         .error (.internal "lhs inconsistency in UseDefs::ExprUDs")
       else
         (match lhs_ref.GetOp1 with
          | some (.name lhs_id) =>
            (match ExprUDs rhs with
             | .ok rhs_UDs =>
               let uds := UD_Union (RemoveID lhs_id succ_UDs) (some rhs_UDs) none
               let st1 := if second_pass then st else setSuccessor st l succ_stmt
               .ok (uds, setUDs st1 l uds)
             | .error x => .error x)
          | _ => .error .unmodelled)
     | _ => CreateExprUDs st l e succ_UDs)
  | .ifS l cond s1 s2, succ_UDs, succ_stmt, second_pass, st0 =>
    let st := noteStmt st0 (.ifS l cond s1 s2) second_pass
    (match ExprUDs cond with
     | .error x => .error x
     | .ok cond_UDs =>
       (match PropagateUDs s1 succ_UDs succ_stmt second_pass st with
        | .error x => .error x
        | .ok (true_UDs, st1) =>
          (match PropagateUDs s2 succ_UDs succ_stmt second_pass st1 with
           | .error x => .error x
           | .ok (false_UDs, st2) =>
             let uds := UD_Union (some cond_UDs) true_UDs false_UDs
             .ok (uds, setUDs st2 l uds))))
  | .init l inits, succ_UDs, succ_stmt, second_pass, st0 =>
    let st := noteStmt st0 (.init l inits) second_pass
    let st1 := if second_pass then st else setSuccessor st l succ_stmt
    .ok (succ_UDs, setUDs st1 l succ_UDs)
  | .whenS l, succ_UDs, _, second_pass, st0 =>
    .ok (succ_UDs, setUDs (noteStmt st0 (.whenS l) second_pass) l succ_UDs)
  | .switch _, _, _, _, _ => .error .unmodelled
  | .forS l loop_vars value_var loop_expr body, succ_UDs, succ_stmt, second_pass, st0 =>
    let st := noteStmt st0 (.forS l loop_vars value_var loop_expr body) second_pass
    let st1 := setSuccessor2 st body.label succ_stmt
    (match PropagateUDs body succ_UDs (some body.label) second_pass st1 with
     | .error x => .error x
     | .ok (body_UDs, st2) =>
       (match ExprUDs loop_expr with
        | .error x => .error x
        | .ok e_UDs =>
          let f_UDs := FoldInUDs (some e_UDs) body_UDs none
          let bottom_UDs := UD_Union f_UDs succ_UDs none
          (match PropagateUDs body bottom_UDs (some body.label) true st2 with
           | .error x => .error x
           | .ok (_, st3) =>
             let f_UDs1 := loop_vars.foldl RemoveUDFrom f_UDs
             let f_UDs2 :=
               match value_var with
               | some v => RemoveUDFrom f_UDs1 v
               | none => f_UDs1
             let f_UDs3 := FoldInUDs f_UDs2 succ_UDs none
             .ok (f_UDs3, setUDs st3 l f_UDs3))))
  | .whileS l cond body, succ_UDs, succ_stmt, second_pass, st0 =>
    let st := noteStmt st0 (.whileS l cond body) second_pass
    let succ := some body.label
    let st1 := setSuccessor2 st body.label succ_stmt
    (match PropagateUDs body succ_UDs succ second_pass st1 with
     | .error x => .error x
     | .ok (body_UDs, st2) =>
       (match ExprUDs cond with
        | .error x => .error x
        | .ok cond_UDs =>
          let w_UDs := FoldInUDs (UD_Union (some cond_UDs) body_UDs none) body_UDs none
          let bottom_UDs := UD_Union w_UDs succ_UDs none
          (match PropagateUDs body bottom_UDs succ true st2 with
           | .error x => .error x
           | .ok (_, st3) =>
             let w_UDs1 := FoldInUDs w_UDs succ_UDs none
             .ok (w_UDs1, setUDs st3 l w_UDs1))))
  | .whileCond l cond cond_stmt c_as_s body, succ_UDs, succ_stmt, second_pass, st0 =>
    let st := noteStmt st0 (.whileCond l cond cond_stmt c_as_s body) second_pass
    let succ := some cond_stmt.label
    let st1 := setSuccessor2 st body.label succ_stmt
    (match PropagateUDs body succ_UDs succ second_pass st1 with
     | .error x => .error x
     | .ok (body_UDs, st2) =>
       (match ExprUDs cond with
        | .error x => .error x
        | .ok cond_UDs =>
          let w_UDs := FoldInUDs (UD_Union (some cond_UDs) body_UDs none) body_UDs none
          let st3 := setUDs st2 c_as_s w_UDs
          (match PropagateUDs cond_stmt w_UDs (some c_as_s) second_pass st3 with
           | .error x => .error x
           | .ok (w_UDs1, st4) =>
             let bottom_UDs := UD_Union w_UDs1 succ_UDs none
             (match PropagateUDs body bottom_UDs succ true st4 with
              | .error x => .error x
              | .ok (_, st5) =>
                let w_UDs2 := FoldInUDs w_UDs1 succ_UDs none
                .ok (w_UDs2, setUDs st5 l w_UDs2)))))
  | .other _, _, _, _, _ =>
    .error (.internal "non-reduced statement in use-def analysis")

/-- The loop of the `STMT_LIST` case (UseDefs.cc 191-212) over the statements
from `ss` on, the last one first; `l` names the list statement. -/
def PropagateList : Nat → Option Nat → Bool → Stmts → UDs → State →
    Except Failure (UDs × State)
  | _, _, _, .nil, succ_UDs, st => .ok (succ_UDs, st)
  | l, succ_stmt, second_pass, .cons s_i rest, succ_UDs, st =>
    (match PropagateList l succ_stmt second_pass rest succ_UDs st with
     | .error x => .error x
     | .ok (uds, st1) =>
       (match rest.first with
        | some next => PropagateUDs s_i uds (some next) second_pass st1
        | none =>
          let st2 :=
            match st1.successor2 l with
            | some v => setSuccessor2 st1 s_i.label v
            | none => st1
          PropagateUDs s_i uds succ_stmt second_pass st2))

end

/-- `UseDefs::Analyze` (UseDefs.cc 28-38). -/
def Analyze (body : Stmt) : Except Failure State :=
  match PropagateUDs body none none false State.empty with
  | .ok (_, st) => .ok st
  | .error x => .error x

end UseDefs

namespace UseDefs

open Zeek Zeek.BroExprTag Zeek.TypeTag

/-- `UseDefs::FindUsage` (UseDefs.cc 417-425). -/
def FindUsage (st : State) (l : Nat) : Except Failure UDs :=
  match st.use_defs_map l with
  | none => .error (.internal "missing use-defs")
  | some uds => .ok uds

/-- `UseDefs::FindSuccUsage` (UseDefs.cc 427-445).  The source compares the
result of `successor2.find(s)` with `successor.end()`; the model takes a
statement without an entry in `successor2` to have no second successor. -/
def FindSuccUsage (st : State) (l : Nat) : Except Failure UDs :=
  let uds : Except Failure UDs :=
    match st.successor l with
    | some (some succ) => FindUsage st succ
    | _ => .ok none
  let uds2 : Except Failure UDs :=
    match st.successor2 l with
    | some (some succ2) => FindUsage st succ2
    | _ => .ok none
  match uds, uds2 with
  | .error x, _ => .error x
  | _, .error x => .error x
  | .ok (some u), .ok (some u2) => .ok (UD_Union (some u) (some u2) none)
  | .ok (some u), .ok none => .ok (some u)
  | .ok none, .ok u2 => .ok u2

/-- `UseDefs::CheckIfUnused` (UseDefs.cc 162-180); the warning goes to the
reporter and leaves the result alone. -/
def CheckIfUnused (st : State) (l : Nat) (id : ID) : Except Failure Bool :=
  if id.is_global then .ok false
  else
    match FindSuccUsage st l with
    | .error x => .error x
    | .ok none => .ok true
    | .ok (some uds) => .ok (decide (id ∉ uds))

/-- What `RemoveUnused(iter)` has told the reducer so far: the statements
given to `AddStmtToOmit`, those given to `AddStmtToReplace` with the
identifiers of the new `InitStmt`, and `did_omission`. -/
structure Altered where
  to_omit : List Stmt
  to_replace : List (Stmt × List ID)
  did_omission : Bool

/-- What one iteration of the loop of `RemoveUnused(iter)` does with its
statement: nothing (`continue`), `AddStmtToOmit` for an `InitStmt` (which
leaves `did_omission` alone), `AddStmtToReplace`, or `AddStmtToOmit` for an
assignment together with `did_omission = true`. -/
inductive Verdict where
  | keep
  | omitInit
  | replaceInit (used_ids : List ID)
  | omitAssign
deriving Repr, DecidableEq

/-- The identifiers of an `InitStmt` that stay (UseDefs.cc 86-90). -/
def usedInits (st : State) (l : Nat) : List ID → Except Failure (List ID)
  | [] => .ok []
  | id :: ids =>
    match usedInits st l ids with
    | .error x => .error x
    | .ok rest =>
      if is_atomic_type id.type then .ok (id :: rest)
      else
        match CheckIfUnused st l id with
        | .error x => .error x
        | .ok unused => if unused then .ok rest else .ok (id :: rest)

/-- The test for a degenerate assignment (UseDefs.cc 148-149):
`rt == EXPR_NAME && id == rhs->AsNameExpr()->Id()`. -/
def isDegenerate (id : ID) (rhs : Expr) : Bool :=
  match rhs with
  | .name rhs_id => decide (id = rhs_id)
  | _ => false

/-- The body of the loop of `UseDefs::RemoveUnused(int iter)` (UseDefs.cc
81-157) for the statement `s`: what it tells the reducer. -/
def RemoveUnused_verdict (st : State) (s : Stmt) : Except Failure Verdict :=
  match s with
  | .init l inits =>
    (match usedInits st l inits with
     | .error x => .error x
     | .ok used_ids =>
       if used_ids.length < inits.length then
         if used_ids.length = 0 then .ok .omitInit
         else .ok (.replaceInit used_ids)
       else .ok .keep)
  | .expr l e =>
    (match e with
     | .assign r rhs _ _ =>
       if r.Tag ≠ EXPR_REF then
         .error (.internal "lhs ref inconsistency in UseDefs::FindUnused")
       else
         (match r.GetOp1 with
          | some (.name id) =>
            let rt := rhs.Tag
            if rt = EXPR_CALL && !rhs.IsPure then .ok .keep
            else if rt = EXPR_EVENT || rt = EXPR_SCHEDULE then .ok .keep
            else
              let degen : Bool := isDegenerate id rhs
              (match CheckIfUnused st l id with
               | .error x => .error x
               | .ok unused => if unused || degen then .ok .omitAssign else .ok .keep)
          | _ => .error (.internal "lhs name inconsistency in UseDefs::FindUnused"))
     | _ => .ok .keep)
  | _ => .ok .keep

/-- The calls of the reducer that go with a verdict. -/
def Altered.note (acc : Altered) (s : Stmt) : Verdict → Altered
  | .keep => acc
  | .omitInit => { acc with to_omit := acc.to_omit ++ [s] }
  | .replaceInit used_ids => { acc with to_replace := acc.to_replace ++ [(s, used_ids)] }
  | .omitAssign => { acc with to_omit := acc.to_omit ++ [s], did_omission := true }

/-- The loop of `UseDefs::RemoveUnused(int iter)` over the statements `ss`. -/
def RemoveUnused_loop (st : State) : List Stmt → Altered → Except Failure Altered
  | [], acc => .ok acc
  | s :: ss, acc =>
    match RemoveUnused_verdict st s with
    | .error x => .error x
    | .ok v => RemoveUnused_loop st ss (acc.note s v)

/-- `UseDefs::RemoveUnused(int iter)` (UseDefs.cc 75-160); `iter` only decides
whether warnings are reported. -/
def RemoveUnused (st : State) : Except Failure Altered :=
  RemoveUnused_loop st st.stmts { to_omit := [], to_replace := [], did_omission := false }

end UseDefs

namespace UseDefs

open Zeek Zeek.BroExprTag Zeek.TypeTag

/-- The assignment statement `id = rhs` named `l`. -/
def assignStmt (l : Nat) (id : ID) (rhs : Expr) : Stmt :=
  .expr l (.assign (mkRefExpr (.name id)) rhs false id.type)

/-- The body of the worked example, over the locals `x` (1), `v` (2), `c` (3)
and the loop variable `i` (4):

    for ( i in v ) { x = 1; if ( c ) break; x = 2; }
    print x;

The statements are named 0 (the body), 1 (the loop), 2 (the loop body), 3
(`x = 1`), 4 (the `if`), 5 (`break`), 6 (the empty else branch), 7 (`x = 2`)
and 8 (`print x`). -/
def breakBody : Stmt :=
  .list 0
    (.cons
      (.forS 1 [localVar 4 TYPE_COUNT] none (.name (localVar 2 TYPE_TABLE))
        (.list 2
          (.cons (assignStmt 3 (localVar 1 TYPE_COUNT) (countConst 1))
          (.cons (.ifS 4 (.name (localVar 3 TYPE_BOOL)) (.brk 5) (.null 6))
          (.cons (assignStmt 7 (localVar 1 TYPE_COUNT) (countConst 2)) .nil)))))
    (.cons (.print 8 (.listCons (.name (localVar 1 TYPE_COUNT)) .listNil)) .nil))

end UseDefs

namespace UseDefs

open Zeek Zeek.BroExprTag Zeek.TypeTag

/-- The state that `Analyze` leaves for a body (the cleared state if the
analysis fails). -/
def analysisOf (body : Stmt) : State :=
  match Analyze body with
  | .ok st => st
  | .error _ => State.empty

end UseDefs

namespace UseDefs

open Zeek Zeek.BroExprTag Zeek.TypeTag

/-- What `RemoveUnused(iter)` tells the reducer for the worked example: the
statement `x = 1` is to be omitted. -/
def breakBodyAltered : Altered :=
  { to_omit := [assignStmt 3 (localVar 1 TYPE_COUNT) (countConst 1)], to_replace := [],
    did_omission := true }

end UseDefs

namespace ZAM

open Zeek (Failure)

/-! ## Dead code and branch collapsing (`AM-Opt.cc`) -/

/-- The loops `while ( j < insts1.size() && ! insts1[j]->live )` of
`RemoveDeadCode` and `CollapseGoTos`, over the instructions from position `j`
on: the position of the first live one (the size of `insts1` if there is
none), and whether `target` was among the dead ones passed. -/
def scanDead (target : Option Nat) : List ZInstI → Nat → Bool → Nat × Bool
  | [], j, saw => (j, saw)
  | x :: xs, j, saw =>
    if x.live then (j, saw) else scanDead target xs (j + 1) (saw || target == some j)

/-- The first live instruction after position `i`. -/
def firstLiveAfter (insts : List ZInstI) (target : Option Nat) (i : Nat) : Nat × Bool :=
  scanDead target (insts.drop (i + 1)) (i + 1) false

/-- The body of the loop of `ZAMCompiler::RemoveDeadCode` (AM-Opt.cc 123-159) at
position `i`: the instructions afterwards and whether one was killed;
`none` for `break`. -/
def RemoveDeadCode_at (insts : List ZInstI) (i : Nat) : Option (List ZInstI × Bool) :=
  match insts[i]? with
  | none => none
  | some i0 =>
    if !i0.live then some (insts, false)
    else
      let r := firstLiveAfter insts i0.target i
      match insts[r.1]? with
      | none => none
      | some i1 =>
        let unreachable : Bool :=
          i0.DoesNotContinue && !r.2 && i0.target != some r.1 && i1.num_labels == 0
        let insts1 := if unreachable then KillInst insts r.1 else insts
        let redundant : Bool :=
          i0.op == ZOp.OP_SYNC_GLOBALS_X && i1.op == ZOp.OP_SYNC_GLOBALS_X
        let insts2 := if redundant then KillInst insts1 i else insts1
        some (insts2, unreachable || redundant)

/-- The loop of `RemoveDeadCode` from position `i` on, for at most `n` more
positions. -/
def RemoveDeadCode_loop : Nat → Nat → List ZInstI → Bool → List ZInstI × Bool
  | 0, _, insts, did_removal => (insts, did_removal)
  | n + 1, i, insts, did_removal =>
    match RemoveDeadCode_at insts i with
    | none => (insts, did_removal)
    | some r => RemoveDeadCode_loop n (i + 1) r.1 (did_removal || r.2)

/-- `ZAMCompiler::RemoveDeadCode` (AM-Opt.cc 114-163): the instructions
afterwards and `did_removal`. -/
def RemoveDeadCode (insts : List ZInstI) : List ZInstI × Bool :=
  if insts.length = 0 then (insts, false)
  else RemoveDeadCode_loop (insts.length - 1) 0 insts false

/-- `while ( RemoveDeadCode() )` (AM-Opt.cc 87-88), for at most `fuel` calls;
`none` when the calls are used up. -/
def RemoveDeadCode_fix : Nat → List ZInstI → Option (List ZInstI)
  | 0, _ => none
  | fuel + 1, insts =>
    if (RemoveDeadCode insts).2 then RemoveDeadCode_fix fuel (RemoveDeadCode insts).1
    else some (RemoveDeadCode insts).1

/-- `++(t->num_labels)`; a position outside the list names `pending_inst`. -/
def incLabel (insts : List ZInstI) (t : Nat) : List ZInstI :=
  updAt (fun x => { x with num_labels := x.num_labels + 1 }) insts t

/-- Whether the instruction at position `t` is an unconditional branch. -/
def isUncondAt (insts : List ZInstI) (t : Nat) : Bool :=
  match insts[t]? with
  | some x => x.IsUnconditionalBranch
  | none => false

/-- The `do ... while ( t->IsUnconditionalBranch() )` loop of `CollapseGoTos`
(AM-Opt.cc 182-193) for the branch at position `i`, entered with `t` an
unconditional branch: the instructions and the final target.  `fuel` bounds
the number of iterations; a branch without a target is not modelled. -/
def collapseChain : Nat → List ZInstI → Nat → Nat → Except Failure (List ZInstI × Nat)
  | 0, _, _, _ => .error .fuel
  | fuel + 1, insts, i, t =>
    match insts[t]? with
    | none => .error .unmodelled
    | some ti =>
      if !ti.live then .error (.internal "ASSERT(t->live)")
      else
        match ti.target with
        | none => .error .unmodelled
        | some t1 =>
          let insts1 := decLabel insts (some t)
          let insts2 := updAt (fun x => { x with target := some t1 }) insts1 i
          let insts3 := incLabel insts2 t1
          if isUncondAt insts3 t1 then collapseChain fuel insts3 i t1
          else .ok (insts3, t1)

/-- The body of the loop of `ZAMCompiler::CollapseGoTos` (AM-Opt.cc 169-225) at
position `i`: the instructions afterwards and whether a branch to a branch
was collapsed. -/
def CollapseGoTos_at (fuel : Nat) (insts : List ZInstI) (i : Nat) :
    Except Failure (List ZInstI × Bool) :=
  match insts[i]? with
  | none => .ok (insts, false)
  | some i0 =>
    match i0.target with
    | none => .ok (insts, false)
    | some t0 =>
      if !i0.live then .ok (insts, false)
      else
        let chain : Except Failure (List ZInstI × Nat) :=
          if isUncondAt insts t0 then collapseChain fuel insts i t0 else .ok (insts, t0)
        match chain with
        | .error x => .error x
        | .ok (insts1, t) =>
          let did_collapse := isUncondAt insts t0
          let r := firstLiveAfter insts1 (some t) i
          let j := r.1
          if r.2 || (decide (j < insts1.length) && t == j) ||
              (decide (j = insts1.length) && decide (insts1.length ≤ t)) then
            let insts2 := decLabel insts1 (some t)
            if i0.IsUnconditionalBranch then
              .ok (updAt (fun x => { x with live := false }) insts2 i, did_collapse)
            else if j < insts1.length then
              .ok (incLabel (updAt (fun x => { x with target := some j }) insts2 i) j,
                   did_collapse)
            else .ok (insts2, did_collapse)
          else .ok (insts1, did_collapse)

/-- The loop of `CollapseGoTos` from position `i` on, for `n` more positions. -/
def CollapseGoTos_loop (fuel : Nat) :
    Nat → Nat → List ZInstI → Bool → Except Failure (List ZInstI × Bool)
  | 0, _, insts, did_collapse => .ok (insts, did_collapse)
  | n + 1, i, insts, did_collapse =>
    match CollapseGoTos_at fuel insts i with
    | .error x => .error x
    | .ok r => CollapseGoTos_loop fuel n (i + 1) r.1 (did_collapse || r.2)

/-- `ZAMCompiler::CollapseGoTos` (AM-Opt.cc 165-229). -/
def CollapseGoTos (fuel : Nat) (insts : List ZInstI) : Except Failure (List ZInstI × Bool) :=
  CollapseGoTos_loop fuel insts.length 0 insts false

/-- `while ( CollapseGoTos() )` (AM-Opt.cc 90-91), for at most `fuel` calls. -/
def CollapseGoTos_fix : Nat → List ZInstI → Except Failure (List ZInstI)
  | 0, _ => .error .fuel
  | fuel + 1, insts =>
    match CollapseGoTos (fuel + 1) insts with
    | .error x => .error x
    | .ok r => if r.2 then CollapseGoTos_fix fuel r.1 else .ok r.1

/-- How the dispatch loop resolves a branch: a conditional branch is taken
or not; a switch jumps to the target of one of its cases. -/
inductive Choice where
  | branch (taken : Bool)
  | case (target : Nat)
deriving Repr, DecidableEq

/-- Modelled from the spec: the dispatch loop over `insts1` (the final
instruction array is built in `Compile.cc`, which is not among the sources):
"instructions are ... marked dead, never physically deleted, until a final
remap".  `Trace switches insts pc choices tr` says that, started at position
`pc`, with the conditional branches and switches resolved in turn as
`choices` tells, the loop executes the live non-branch instructions at the
positions `tr`, in this order, and possibly more afterwards.  A dead
instruction is passed over; an unconditional branch is followed; an
instruction with a target that is not an unconditional branch is a
conditional branch; an instruction that `DoesNotContinue` ends the
execution.  `switches` stands for the case tables (`int_casesI` and its
three siblings): a pair `(p, t)` is a case with target `t` in the map
`cases[z.v2]` that the switch instruction `z` at position `p` consults
(`SWITCH_BODY`, ZBody.cc 317-325: `pc = t[v]`); the default target of a
switch is the `target` of the instruction. -/
inductive Trace (switches : List (Nat × Nat)) (insts : List ZInstI) :
    Nat → List Choice → List Nat → Prop
  | stop (pc : Nat) (cs : List Choice) : Trace switches insts pc cs []
  | dead (pc : Nat) (cs : List Choice) (tr : List Nat) (x : ZInstI) :
      insts[pc]? = some x → x.live = false → Trace switches insts (pc + 1) cs tr →
      Trace switches insts pc cs tr
  | goto (pc : Nat) (cs : List Choice) (tr : List Nat) (x : ZInstI) (t : Nat) :
      insts[pc]? = some x → x.live = true → x.IsUnconditionalBranch = true →
      x.target = some t → Trace switches insts t cs tr → Trace switches insts pc cs tr
  | taken (pc : Nat) (cs : List Choice) (tr : List Nat) (x : ZInstI) (t : Nat) :
      insts[pc]? = some x → x.live = true → x.IsUnconditionalBranch = false →
      x.target = some t → Trace switches insts t cs tr →
      Trace switches insts pc (Choice.branch true :: cs) tr
  | notTaken (pc : Nat) (cs : List Choice) (tr : List Nat) (x : ZInstI) (t : Nat) :
      insts[pc]? = some x → x.live = true → x.IsUnconditionalBranch = false →
      x.target = some t → x.DoesNotContinue = false → Trace switches insts (pc + 1) cs tr →
      Trace switches insts pc (Choice.branch false :: cs) tr
  | exec (pc : Nat) (cs : List Choice) (tr : List Nat) (x : ZInstI) :
      insts[pc]? = some x → x.live = true → x.target = none → x.DoesNotContinue = false →
      Trace switches insts (pc + 1) cs tr → Trace switches insts pc cs (pc :: tr)
  | last (pc : Nat) (cs : List Choice) (x : ZInstI) :
      insts[pc]? = some x → x.live = true → x.target = none → x.DoesNotContinue = true →
      Trace switches insts pc cs [pc]
  | switch (pc : Nat) (cs : List Choice) (tr : List Nat) (x : ZInstI) (t : Nat) :
      insts[pc]? = some x → x.live = true → x.IsUnconditionalBranch = false →
      (pc, t) ∈ switches → Trace switches insts t cs tr →
      Trace switches insts pc (Choice.case t :: cs) tr

/-- An instruction of the worked examples: live, without targets or labels. -/
def plainInst (op : ZOp) : ZInstI :=
  { op := op, op_type := .OP_X, v1 := 0, v2 := 0, v3 := 0, v4 := 0, live := true,
    target := none, target2 := none, num_labels := 0, loop_depth := 0, aux := none }

end ZAM

namespace ZAM

/-- The positions of the shared slots whose `is_managed` flag is set, the
first slot of the list being at position `i`. -/
def managedFrom : List FrameSharingInfo → Nat → List Nat
  | [], _ => []
  | s :: rest, i => if s.is_managed then i :: managedFrom rest (i + 1) else managedFrom rest (i + 1)

/-- The identifiers of a slot agree with the slot on being managed. -/
def SlotManaged (F : FrameInfo) (s : FrameSharingInfo) : Prop :=
  ∀ id ∈ s.ids, F.isManagedType id = s.is_managed

/-- The invariant of `ReMapVar` about managed slots. -/
def ManagedInv (F : FrameInfo) (st : ReMapState) : Prop :=
  (∀ s ∈ st.shared_frame_denizens, SlotManaged F s) ∧
  st.managed_slotsI = managedFrom st.shared_frame_denizens 0

/-- A frame of the worked example: identifier 0, of a managed type, lives
from instruction 0 to instruction 1; identifier 1, of a type that is not
managed, from instruction 2 to instruction 3. -/
def mixedFrame : FrameInfo :=
  { num_slots := 2
    inst_beginnings := fun i => if i = 0 then some [0] else if i = 2 then some [1] else none
    frame_layout1 := fun id => id
    denizen_ending := fun slot => if slot = 0 then some 1 else if slot = 1 then some 3 else none
    isManagedType := fun id => decide (id = 0) }

end ZAM

namespace Zeek

open TypeTag InternalTypeTag BroExprTag

/-- The call `f()` of the impure built-in, of type `count`. -/
def impureCountCall : Expr := .call (.name impureBuiltin) .listNil (base_type TYPE_COUNT)

/-- A local variable of type `vector of count`. -/
def countVector : ID :=
  { handle := 3, is_global := false, is_const := false, has_redef := false,
    is_temp := false, type := .vector (base_type TYPE_COUNT), val := none }

end Zeek

namespace ZAM

/-! ## Execution of a compiled body (`ZBody.cc`) -/

/-- Modelled from the spec: a frame value, `ZVal` (`ZVal.h` is not among the
sources), as the integer in its storage; `ClearManagedVal` stores 0, the
null pointer. -/
abbrev ZVal := Int

/-- Modelled from the spec: what the evaluation of one instruction does to the
state of `DoExec` (the cases of the `switch` come from `ZAM-OpsEvalDefs.h`, a
generated file that is not among the sources): the frame afterwards, the
program counter of the next iteration of the loop (`pc + 1` for a case that
ends in `break`, the target for `BRANCH`, `end_pc` for a return), and
whether `ZAM_error` is set. -/
structure Step where
  frame : List ZVal
  pc : Nat
  ZAM_error : Bool
deriving Repr, DecidableEq

/-- The members of `ZBody` (ZBody.h 76-93) that `DoExec` uses: the
instructions (`ninst` is their number), the size of the frame, the managed
slots, and the frame allocated in the constructor for a non-recursive
function (ZBody.cc 173-179), `none` for a null `fixed_frame`. -/
structure ZBody (ι : Type) where
  insts : List ι
  frame_size : Nat
  managed_slots : List Nat
  fixed_frame : Option (List ZVal)

/-- `ClearManagedVal` on each managed slot (ZBody.cc 354-355). -/
def clearManaged (frame : List ZVal) (managed_slots : List Nat) : List ZVal :=
  managed_slots.foldl (fun fr s => fr.set s 0) frame

/-- The frame that `DoExec` works on (ZBody.cc 343-360): the fixed frame if
there is one, otherwise a newly allocated array, `alloc` being the content
of the new memory, with its managed slots cleared. -/
def ZBody.frame {ι : Type} (b : ZBody ι) (alloc : List ZVal) : List ZVal :=
  match b.fixed_frame with
  | some fr => fr
  | none => clearManaged alloc b.managed_slots

/-- The loop of `DoExec` (ZBody.cc 364-398), `while ( pc < end_pc && !
ZAM_error )`, with at most `fuel` iterations: the frame at the end and the
instruction numbers executed, in order. -/
def DoExec_loop {ι : Type} (ev : ι → List ZVal → Nat → Step) (insts : List ι) (end_pc : Nat) :
    Nat → List ZVal → Nat → Bool → List Nat → Except Zeek.Failure (List ZVal × List Nat)
  | 0, _, _, _, _ => .error .fuel
  | fuel + 1, frame, pc, ZAM_error, executed =>
    if pc < end_pc && !ZAM_error then
      match insts[pc]? with
      | none => .error (.internal "bad ZAM opcode")
      | some z =>
        DoExec_loop ev insts end_pc fuel (ev z frame pc).frame (ev z frame pc).pc
          (ev z frame pc).ZAM_error (executed ++ [pc])
    else .ok (frame, executed)

/-- What an execution leaves: the instruction numbers executed, the frame at
the end of the loop, and the body afterwards. -/
structure ExecResult (ι : Type) where
  executed : List Nat
  frame : List ZVal
  body : ZBody ι

/-- `ZBody::DoExec(f, start_pc, flow)` (ZBody.cc 281-424).  A fixed frame
stays with the body; a frame allocated for this execution is deleted at the
end.  The return value, the iterators and the state of the globals are not
modelled. -/
def ZBody.DoExec {ι : Type} (b : ZBody ι) (ev : ι → List ZVal → Nat → Step) (fuel : Nat)
    (alloc : List ZVal) (start_pc : Nat) (ZAM_error : Bool) : Except Zeek.Failure (ExecResult ι) :=
  match DoExec_loop ev b.insts b.insts.length fuel (b.frame alloc) start_pc ZAM_error [] with
  | .error e => .error e
  | .ok (frame, executed) =>
    .ok { executed := executed, frame := frame,
          body := if b.fixed_frame.isSome then { b with fixed_frame := some frame } else b }

/-- `ZBody::Exec` (ZBody.cc 265-279). -/
def ZBody.Exec {ι : Type} (b : ZBody ι) (ev : ι → List ZVal → Nat → Step) (fuel : Nat)
    (alloc : List ZVal) (ZAM_error : Bool) : Except Zeek.Failure (ExecResult ι) :=
  b.DoExec ev fuel alloc 0 ZAM_error

/-- `ZAMResumption` (ZBody.h 115-135). -/
structure ZAMResumption (ι : Type) where
  am : ZBody ι
  xfer_pc : Nat

/-- `ZAMResumption::Exec` (ZBody.cc 1258-1261). -/
def ZAMResumption.Exec {ι : Type} (r : ZAMResumption ι) (ev : ι → List ZVal → Nat → Step)
    (fuel : Nat) (alloc : List ZVal) (ZAM_error : Bool) : Except Zeek.Failure (ExecResult ι) :=
  r.am.DoExec ev fuel alloc r.xfer_pc ZAM_error

/-- Instructions of the worked example: store a value in a slot, copy one
slot to another, leave the loop. -/
inductive DemoOp where
  | store (slot : Nat) (v : ZVal)
  | copy (dst src : Nat)
  | leave
deriving Repr, DecidableEq

/-- The evaluation of the instructions of the worked example; `leave` sets
the program counter to the end of its three-instruction body. -/
def demoEval : DemoOp → List ZVal → Nat → Step
  | .store slot v, frame, pc => { frame := frame.set slot v, pc := pc + 1, ZAM_error := false }
  | .copy dst src, frame, pc =>
    { frame := frame.set dst (frame.getD src 0), pc := pc + 1, ZAM_error := false }
  | .leave, frame, _ => { frame := frame, pc := 3, ZAM_error := false }

/-- The body of the worked example: `slot0 = 7; leave; slot1 = slot0`, with a
frame of two slots, none of them managed. -/
def demoBody (fixed_frame : Option (List ZVal)) : ZBody DemoOp :=
  { insts := [.store 0 7, .leave, .copy 1 0], frame_size := 2, managed_slots := [],
    fixed_frame := fixed_frame }

end ZAM

namespace ZAM

open Zeek (Failure)

/-! ## Frame lifetimes (`AM-Opt.cc`, `ZAMCompiler::ComputeFrameLifetimes`) -/

/-- What the compiler knows of the frame denizens: their number, and per
slot whether `reducer->IsTemporary(frame_denizens[slot])` and whether
`frame_denizens[slot]->IsGlobal()`. -/
structure FrameDenizens where
  size : Nat
  isTemporary : Int → Bool
  isGlobal : Int → Bool

/-- The four maps that `ComputeFrameLifetimes` fills.  Instructions are named
by their position in `insts1` (their `inst_num`), identifiers by their slot. -/
structure Lifetimes where
  denizen_beginning : Int → Option Nat
  denizen_ending : Int → Option Nat
  inst_beginnings : Nat → List Int
  inst_endings : Nat → List Int

/-- The maps after the four `clear()` (AM-Opt.cc 306-310). -/
def Lifetimes.empty : Lifetimes :=
  { denizen_beginning := fun _ => none, denizen_ending := fun _ => none,
    inst_beginnings := fun _ => [], inst_endings := fun _ => [] }

/-- The `loop_depth` of the instruction at position `i`. -/
def loopDepthAt (insts : List ZInstI) (i : Nat) : Int :=
  match insts[i]? with
  | some x => x.loop_depth
  | none => 0

/-- Whether the instruction at position `i` is live. -/
def liveAt (insts : List ZInstI) (i : Nat) : Bool :=
  match insts[i]? with
  | some x => x.live
  | none => false

/-- The first loop of `BeginningOfLoop` (AM-Opt.cc 828-829), entered with
`i = k - 1`: the value of `i + 1` when it ends. -/
def scanLoopBack (insts : List ZInstI) (depth : Int) : Nat → Nat
  | 0 => 0
  | i + 1 => if loopDepthAt insts i ≥ depth then scanLoopBack insts depth i else i + 1

/-- The second loop of `BeginningOfLoop` (AM-Opt.cc 837-838), with at most
`k` steps. -/
def skipDeadFwd (insts : List ZInstI) (i0 : Nat) : Nat → Nat → Nat
  | 0, i => i
  | k + 1, i => if i ≠ i0 && !liveAt insts i then skipDeadFwd insts i0 k (i + 1) else i

/-- `ZAMCompiler::BeginningOfLoop(inst, depth)` (AM-Opt.cc 824-841) for the
instruction at position `i0`. -/
def BeginningOfLoop (insts : List ZInstI) (i0 : Nat) (depth : Int) : Nat :=
  let j := scanLoopBack insts depth (i0 + 1)
  if j = i0 + 1 then i0 else skipDeadFwd insts i0 (i0 - j) j

/-- The first loop of `EndOfLoop` (AM-Opt.cc 847-848), with at most `k` steps. -/
def scanLoopFwd (insts : List ZInstI) (depth : Int) : Nat → Nat → Nat
  | 0, i => i
  | k + 1, i =>
    if i < insts.length && loopDepthAt insts i ≥ depth then scanLoopFwd insts depth k (i + 1)
    else i

/-- The second loop of `EndOfLoop` (AM-Opt.cc 856-857), entered at `i`. -/
def skipDeadBack (insts : List ZInstI) (i0 : Nat) : Nat → Nat
  | 0 => 0
  | i + 1 => if i + 1 ≠ i0 && !liveAt insts (i + 1) then skipDeadBack insts i0 i else i + 1

/-- `ZAMCompiler::EndOfLoop(inst, depth)` (AM-Opt.cc 843-860) for the
instruction at position `i0`. -/
def EndOfLoop (insts : List ZInstI) (i0 : Nat) (depth : Int) : Nat :=
  let j := scanLoopFwd insts depth (insts.length - i0) i0
  if j = i0 then i0 else skipDeadBack insts i0 (j - 1)

/-- `ZAMCompiler::SetLifetimeStart(slot, inst)` (AM-Opt.cc 713-736). -/
def SetLifetimeStart (L : Lifetimes) (slot : Int) (inst : Nat) : Except Failure Lifetimes :=
  match L.denizen_beginning slot with
  | some b =>
    if b ≤ inst then .ok L
    else .error (.internal "ASSERT(denizen_beginning[slot]->inst_num <= inst->inst_num)")
  | none =>
    .ok { L with
      denizen_beginning := fun s => if s = slot then some inst else L.denizen_beginning s
      inst_beginnings := fun i =>
        if i = inst then L.inst_beginnings i ++ [slot] else L.inst_beginnings i }

/-- `ZAMCompiler::CheckSlotAssignment(slot, inst)` (AM-Opt.cc 699-711). -/
def CheckSlotAssignment (D : FrameDenizens) (insts : List ZInstI) (L : Lifetimes)
    (slot : Int) (inst : Nat) : Except Failure Lifetimes :=
  if slot < 0 ∨ (D.size : Int) ≤ slot then
    .error (.internal "ASSERT(slot >= 0 && slot < frame_denizens.size())")
  else
    SetLifetimeStart L slot
      (if !D.isTemporary slot then BeginningOfLoop insts inst 1 else inst)

/-- `ZAMCompiler::ExtendLifetime(slot, inst)` (AM-Opt.cc 770-822). -/
def ExtendLifetime (D : FrameDenizens) (insts : List ZInstI) (L : Lifetimes)
    (slot : Int) (inst : Nat) : Except Failure Lifetimes :=
  match L.denizen_ending slot with
  | some old_inst =>
    if loopDepthAt insts inst > 0 && D.isTemporary slot && decide (old_inst ≥ inst) then .ok L
    else if ¬ (old_inst ≤ inst ∨ loopDepthAt insts inst > 1) then
      .error (.internal "ASSERT(old_inst->inst_num <= inst->inst_num || inst->loop_depth > 1)")
    else if old_inst < inst then
      .ok { L with
        inst_endings := fun i =>
          if i = inst then L.inst_endings i ++ [slot]
          else if i = old_inst then (L.inst_endings i).erase slot
          else L.inst_endings i
        denizen_ending := fun s => if s = slot then some inst else L.denizen_ending s }
    else .ok L
  | none =>
    .ok { L with
      denizen_ending := fun s => if s = slot then some inst else L.denizen_ending s
      inst_endings := fun i =>
        if i = inst then L.inst_endings i ++ [slot] else L.inst_endings i }

/-- `ZAMCompiler::CheckSlotUse(slot, inst)` (AM-Opt.cc 738-768).  The report
`value used but not set` goes to the reporter and leaves the maps alone. -/
def CheckSlotUse (D : FrameDenizens) (insts : List ZInstI) (L : Lifetimes)
    (slot : Int) (inst : Nat) : Except Failure Lifetimes :=
  if slot < 0 then .ok L
  else if (D.size : Int) ≤ slot then .error (.internal "ASSERT(slot < frame_denizens.size())")
  else if D.isTemporary slot then
    match L.denizen_beginning slot with
    | none => .error (.internal "ASSERT(denizen_beginning.count(slot) > 0)")
    | some b =>
      if loopDepthAt insts inst > loopDepthAt insts b then
        ExtendLifetime D insts L slot (EndOfLoop insts inst (loopDepthAt insts inst))
      else ExtendLifetime D insts L slot inst
  else ExtendLifetime D insts L slot (EndOfLoop insts inst 1)

/-- `ZInstI::UsesSlots(s1, s2, s3, s4)` (ZInst.cc 581-644): the four slots
(`-1` for none). -/
def ZInstI.UsesSlots (T : OpTables) (i : ZInstI) : Option (Int × Int × Int × Int) :=
  let fl := T.op1_flavor i.op
  let v1_relevant : Bool := fl = ZAMOp1Flavor.OP1_READ || fl = ZAMOp1Flavor.OP1_READ_WRITE
  match i.op_type with
  | .OP_X | .OP_C | .OP_V_I1 | .OP_VC_I1 | .OP_VV_I1_I2 | .OP_VVVC_I1_I2_I3 => none
  | .OP_V | .OP_VC | .OP_VV_FRAME | .OP_VV_I2 | .OP_VVC_I2 | .OP_VVV_I2_I3
  | .OP_VVVC_I2_I3 | .OP_VVVV_I2_I3_I4 =>
    if !v1_relevant then none else some (i.v1, -1, -1, -1)
  | .OP_VV | .OP_VVC | .OP_VVV_I3 | .OP_VVVV_I3_I4 | .OP_VVVC_I3 =>
    some (i.v2, if v1_relevant then i.v1 else -1, -1, -1)
  | .OP_VVV | .OP_VVVC | .OP_VVVV_I4 =>
    some (i.v2, i.v3, if v1_relevant then i.v1 else -1, -1)
  | .OP_VVVV => some (i.v2, i.v3, i.v4, if v1_relevant then i.v1 else -1)

/-- Run `f` over a list of slots, threading the maps. -/
def forSlots (f : Lifetimes → Int → Except Failure Lifetimes) :
    List Int → Lifetimes → Except Failure Lifetimes
  | [], L => .ok L
  | s :: rest, L =>
    match f L s with
    | .error e => .error e
    | .ok L1 => forSlots f rest L1

/-- The end of the loop body of `ComputeFrameLifetimes` (AM-Opt.cc 432-440):
the uses of the instruction's own slots. -/
def checkUses (T : OpTables) (D : FrameDenizens) (insts : List ZInstI) (L : Lifetimes)
    (i : Nat) (inst : ZInstI) : Except Failure Lifetimes :=
  match inst.UsesSlots T with
  | none => .ok L
  | some (s1, s2, s3, s4) =>
    forSlots (fun L1 s => CheckSlotUse D insts L1 s i) [s1, s2, s3, s4] L

/-- The `switch` of the loop body of `ComputeFrameLifetimes` (AM-Opt.cc 323-430):
the maps afterwards, and whether the body goes on to the uses (`false` for
the `continue` of the loop initializers).  `modified_globals` holds the
slots `frame_layout1[g]` of the modified globals. -/
def specialCases (D : FrameDenizens) (modified_globals : List Int) (insts : List ZInstI)
    (L : Lifetimes) (i : Nat) (inst : ZInstI) : Except Failure (Lifetimes × Bool) :=
  match inst.op with
  | .OP_NEXT_TABLE_ITER_VV | .OP_NEXT_TABLE_ITER_VAL_VAR_VVV =>
    (match inst.aux with
     | none => .error .unmodelled
     | some aux =>
       match forSlots (fun L1 v =>
           match CheckSlotAssignment D insts L1 v i with
           | .error e => .error e
           | .ok L2 => ExtendLifetime D insts L2 v (EndOfLoop insts i inst.loop_depth))
           aux.loop_vars L with
       | .error e => .error e
       | .ok L1 =>
         if inst.op = .OP_NEXT_TABLE_ITER_VAL_VAR_VVV then
           (match ExtendLifetime D insts L1 inst.v1 (EndOfLoop insts i inst.loop_depth) with
            | .error e => .error e
            | .ok L2 => .ok (L2, true))
         else .ok (L1, true))
  | .OP_NEXT_TABLE_ITER_NO_VARS_VV => .ok (L, true)
  | .OP_NEXT_TABLE_ITER_VAL_VAR_NO_VARS_VVV =>
    (match ExtendLifetime D insts L inst.v1 (EndOfLoop insts i inst.loop_depth) with
     | .error e => .error e
     | .ok L1 => .ok (L1, true))
  | .OP_NEXT_VECTOR_ITER_VVV | .OP_NEXT_STRING_ITER_VVV =>
    (match ExtendLifetime D insts L inst.v1 (EndOfLoop insts i inst.loop_depth) with
     | .error e => .error e
     | .ok L1 => .ok (L1, true))
  | .OP_SYNC_GLOBALS_X =>
    (match forSlots (fun L1 gs =>
        if (L1.denizen_beginning gs).isNone then .ok L1
        else ExtendLifetime D insts L1 gs (EndOfLoop insts i 1)) modified_globals L with
     | .error e => .error e
     | .ok L1 => .ok (L1, true))
  | .OP_INIT_TABLE_LOOP_VV | .OP_INIT_TABLE_LOOP_RECURSIVE_VV
  | .OP_INIT_VECTOR_LOOP_VV | .OP_INIT_STRING_LOOP_VV =>
    if ¬ (i + 1 < insts.length) then .error (.internal "ASSERT(i < insts1.size() - 1)")
    else if !liveAt insts (i + 1) then .error (.internal "ASSERT(succ->live)")
    else
      (match ExtendLifetime D insts L inst.v2
          (EndOfLoop insts (i + 1) (loopDepthAt insts (i + 1))) with
       | .error e => .error e
       | .ok L1 => .ok (L1, false))
  | _ =>
    (match inst.aux with
     | none => .ok (L, true)
     | some aux =>
       match aux.slots with
       | none => .ok (L, true)
       | some slots =>
         match forSlots (fun L1 s =>
             if s < 0 then .ok L1 else ExtendLifetime D insts L1 s (EndOfLoop insts i 1))
             slots L with
         | .error e => .error e
         | .ok L1 => .ok (L1, true))

/-- The body of the loop of `ComputeFrameLifetimes` (AM-Opt.cc 312-441) for
the instruction at position `i`. -/
def ComputeFrameLifetimes_at (T : OpTables) (D : FrameDenizens) (modified_globals : List Int)
    (insts : List ZInstI) (L : Lifetimes) (i : Nat) : Except Failure Lifetimes :=
  match insts[i]? with
  | none => .ok L
  | some inst =>
    if !inst.live then .ok L
    else
      match (if inst.AssignsToSlot1 T then CheckSlotAssignment D insts L inst.v1 i
             else .ok L) with
      | .error e => .error e
      | .ok L1 =>
        match specialCases D modified_globals insts L1 i inst with
        | .error e => .error e
        | .ok (L2, true) => checkUses T D insts L2 i inst
        | .ok (L2, false) => .ok L2

/-- The loop of `ComputeFrameLifetimes` over the positions `i, ..., i+k-1`. -/
def ComputeFrameLifetimes_loop (T : OpTables) (D : FrameDenizens) (modified_globals : List Int)
    (insts : List ZInstI) : Nat → Nat → Lifetimes → Except Failure Lifetimes
  | 0, _, L => .ok L
  | k + 1, i, L =>
    match ComputeFrameLifetimes_at T D modified_globals insts L i with
    | .error e => .error e
    | .ok L1 => ComputeFrameLifetimes_loop T D modified_globals insts k (i + 1) L1

/-- `ZAMCompiler::ComputeFrameLifetimes` (AM-Opt.cc 303-442). -/
def ComputeFrameLifetimes (T : OpTables) (D : FrameDenizens) (modified_globals : List Int)
    (insts : List ZInstI) : Except Failure Lifetimes :=
  ComputeFrameLifetimes_loop T D modified_globals insts insts.length 0 Lifetimes.empty

/-- The accounting for targeted statements at the start of `OptimizeInsts`
(AM-Opt.cc 69-76). -/
def tallyTargets (insts : List ZInstI) : List ZInstI :=
  insts.foldl (fun acc i =>
    let acc1 := match i.target with
      | some t => if liveAt acc t then incLabel acc t else acc
      | none => acc
    match i.target2 with
    | some t => if liveAt acc1 t then incLabel acc1 t else acc1
    | none => acc1) insts

/-- What the loop of `OptimizeInsts` leaves: the instructions and the
lifetimes of the last round. -/
structure Optimized where
  insts1 : List ZInstI
  lifetimes : Lifetimes

/-- The `do ... while ( something_changed )` loop of `ZAMCompiler::OptimizeInsts`
(AM-Opt.cc 85-101), for at most `fuel` rounds; the two inner `while` loops
make at most `inner` calls each. -/
def OptimizeInsts_loop (T : OpTables) (D : FrameDenizens) (modified_globals : List Int)
    (inner : Nat) : Nat → List ZInstI → Except Failure Optimized
  | 0, _ => .error .fuel
  | fuel + 1, insts =>
    match RemoveDeadCode_fix inner insts with
    | none => .error .fuel
    | some a =>
      match CollapseGoTos_fix inner a with
      | .error e => .error e
      | .ok b =>
        match ComputeFrameLifetimes T D modified_globals b with
        | .error e => .error e
        | .ok L =>
          match PruneUnused T D.isGlobal b L.denizen_ending with
          | none =>
            .error (.internal "inconsistency in re-flavoring instruction with side effects")
          | some st =>
            let collapsed : Bool := match CollapseGoTos inner a with
              | .ok r => r.2
              | .error _ => false
            if (RemoveDeadCode insts).2 || collapsed || st.did_prune then
              OptimizeInsts_loop T D modified_globals inner fuel st.insts1
            else
              .ok { insts1 := st.insts1
                    lifetimes := { L with denizen_ending := st.denizen_ending } }

/-- `ZAMCompiler::OptimizeInsts` (AM-Opt.cc 67-104) up to the call of
`ReMapFrame`; `switch_targets` lists the targets of the four case maps. -/
def OptimizeInsts (T : OpTables) (D : FrameDenizens) (modified_globals : List Int)
    (switch_targets : List Nat) (inner fuel : Nat) (insts : List ZInstI) :
    Except Failure Optimized :=
  OptimizeInsts_loop T D modified_globals inner fuel
    (switch_targets.foldl incLabel (tallyTargets insts))

/-- The lifetimes as `ReMapFrame` reads them, every identifier being named
by its slot. -/
def Lifetimes.toFrameInfo (L : Lifetimes) (num_slots : Nat) (isManagedType : ID → Bool) :
    FrameInfo :=
  { num_slots := num_slots
    inst_beginnings := fun i =>
      if (L.inst_beginnings i).isEmpty then none
      else some ((L.inst_beginnings i).map Int.toNat)
    frame_layout1 := fun id => id
    denizen_ending := fun slot => (L.denizen_ending (slot : Int)).map Int.ofNat
    isManagedType := isManagedType }

/-- Opcode tables of the worked example: `OP_RETURN_V` reads its operand,
every other opcode writes its first operand; no opcode has side effects. -/
def lifetimeTables : OpTables where
  op1_flavor := fun op =>
    if op = ZOp.OP_RETURN_V then ZAMOp1Flavor.OP1_READ else ZAMOp1Flavor.OP1_WRITE
  op_side_effects := fun _ => false
  assignmentless_op := fun _ => none
  assignmentless_op_type := fun _ => ZAMOpType.OP_X
  isLoad := fun _ _ => false
  isFrameStore := fun _ _ => false

/-- Three local variables `x`, `y`, `z` in the slots 0, 1, 2. -/
def threeLocals : FrameDenizens :=
  { size := 3, isTemporary := fun _ => false, isGlobal := fun _ => false }

/-- The body `x = c; y = f(x); x = c; z = f(y); return z`. -/
def staleStore : List ZInstI :=
  [{ plainInst (.other 3) with op_type := .OP_VC, v1 := 0 },
   { plainInst (.other 4) with op_type := .OP_VV, v1 := 1, v2 := 0 },
   { plainInst (.other 3) with op_type := .OP_VC, v1 := 0 },
   { plainInst (.other 4) with op_type := .OP_VV, v1 := 2, v2 := 1 },
   { plainInst .OP_RETURN_V with op_type := .OP_V, v1 := 2 }]

end ZAM

namespace Zeek

open TypeTag InternalTypeTag BroExprTag

/-! ## Reduced form: operands are singletons -/

/-- A name or a constant. -/
def Expr.isNameOrConst : Expr → Bool
  | .name _ => true
  | .const _ => true
  | _ => false

/-- The operator expressions: names, constants, unary nodes other than
references, increments and decrements, binary and conditional nodes, over
operator expressions; and calls of non-void type, whatever their arguments. -/
def Expr.isOperatorExpr : Expr → Bool
  | .name _ => true
  | .const _ => true
  | .unary tag op _ =>
    tag != EXPR_REF && tag != EXPR_INCR && tag != EXPR_DECR && op.isOperatorExpr
  | .binary _ op1 op2 _ => op1.isOperatorExpr && op2.isOperatorExpr
  | .cond op1 op2 op3 _ => op1.isOperatorExpr && op2.isOperatorExpr && op3.isOperatorExpr
  | .call _ _ type => type.Tag != TYPE_VOID
  | _ => false

/-- A reduction method leaves the reducer's mode alone. -/
def KeepsMode (f : Reducer → Expr → Red) : Prop :=
  ∀ c e r, f c e = .ok r → r.2.2.optimizing = c.optimizing

/-- A reduction method leaves the reducer's mode alone and, outside
optimizing mode, turns an operator expression into a name or a constant. -/
def ToSingleton (f : Reducer → Expr → Red) : Prop :=
  ∀ c e r, f c e = .ok r →
    r.2.2.optimizing = c.optimizing ∧
    (c.optimizing = false → e.isOperatorExpr = true → r.1.isNameOrConst = true)

end Zeek

namespace ZAM

/-! ## What the dispatch loop sees of an instruction array -/

/-- What the dispatch loop looks at in an instruction: whether it is live,
its opcode and its branch target. -/
def ZInstI.flow (x : ZInstI) : Bool × ZOp × Option Nat := (x.live, x.op, x.target)

/-- The number of live instructions that name position `m` as `target`, plus
the number of those that name it as `target2`. -/
def refs (insts : List ZInstI) (m : Nat) : Nat :=
  insts.countP (fun x => x.live && x.target == some m) +
    insts.countP (fun x => x.live && x.target2 == some m)

/-- The arrays have the same length and agree, position by position, on what
the dispatch loop sees, at the positions that satisfy `S`. -/
def AgreeOn (S : Nat → Prop) (insts insts' : List ZInstI) : Prop :=
  ∀ pc : Nat, S pc → (insts'[pc]?).map ZInstI.flow = (insts[pc]?).map ZInstI.flow

/-- The two arrays execute the same sequences from every position. -/
def SameTraces (switches : List (Nat × Nat)) (insts insts' : List ZInstI) : Prop :=
  ∀ pc cs tr, Trace switches insts' pc cs tr ↔ Trace switches insts pc cs tr

/-- One step of the dispatch loop at position `pc`, the rest of the
execution being described by `Q`: the rules of `Trace` with `Q` in the place
of the premises. -/
def TraceStep (switches : List (Nat × Nat)) (insts : List ZInstI)
    (Q : Nat → List Choice → List Nat → Prop) (pc : Nat)
    (cs : List Choice) (tr : List Nat) : Prop :=
  tr = [] ∨ ∃ x, insts[pc]? = some x ∧
    ((x.live = false ∧ Q (pc + 1) cs tr) ∨
     (x.live = true ∧ x.IsUnconditionalBranch = true ∧ ∃ t, x.target = some t ∧ Q t cs tr) ∨
     (x.live = true ∧ x.IsUnconditionalBranch = false ∧
        ∃ t cs', x.target = some t ∧ cs = Choice.branch true :: cs' ∧ Q t cs' tr) ∨
     (x.live = true ∧ x.IsUnconditionalBranch = false ∧ x.DoesNotContinue = false ∧
        ∃ t cs', x.target = some t ∧ cs = Choice.branch false :: cs' ∧ Q (pc + 1) cs' tr) ∨
     (x.live = true ∧ x.target = none ∧ x.DoesNotContinue = false ∧
        ∃ tr', tr = pc :: tr' ∧ Q (pc + 1) cs tr') ∨
     (x.live = true ∧ x.target = none ∧ x.DoesNotContinue = true ∧ tr = [pc]) ∨
     (x.live = true ∧ x.IsUnconditionalBranch = false ∧
        ∃ t cs', (pc, t) ∈ switches ∧ cs = Choice.case t :: cs' ∧ Q t cs' tr))

end ZAM

namespace ZAM

end ZAM

namespace UseDefs

open Zeek Zeek.BroExprTag Zeek.TypeTag

/-! ## Loops in the use-def analysis -/

mutual

/-- The names of the statements that `PropagateUDs` records a set for when it
is given the statement: the statement itself and the statements inside it
(for a `while` with a condition statement also `ConditionAsStmt()`). -/
def Stmt.labels : Stmt → List Nat
  | .null l => [l]
  | .next l => [l]
  | .brk l => [l]
  | .fallthrough l => [l]
  | .print l _ => [l]
  | .exprLike l _ => [l]
  | .expr l _ => [l]
  | .ifS l _ s1 s2 => l :: (s1.labels ++ s2.labels)
  | .init l _ => [l]
  | .whenS l => [l]
  | .catchReturn l block => l :: block.labels
  | .list l ss => l :: ss.labels
  | .forS l _ _ _ body => l :: body.labels
  | .whileS l _ body => l :: body.labels
  | .whileCond l _ cond_stmt c_as_s body => l :: c_as_s :: (cond_stmt.labels ++ body.labels)
  | .switch l => [l]
  | .other l => [l]

/-- The names of the statements of a list and of the statements inside them. -/
def Stmts.labels : Stmts → List Nat
  | .nil => []
  | .cons s rest => s.labels ++ rest.labels

end

/-- The removal of the loop variables and of the value variable from the
set of a `for` loop (UseDefs.cc 368-374). -/
def removeLoopVars (loop_vars : List ID) (value_var : Option ID) (f_UDs : UDs) : UDs :=
  match value_var with
  | some v => RemoveUDFrom (loop_vars.foldl RemoveUDFrom f_UDs) v
  | none => loop_vars.foldl RemoveUDFrom f_UDs

/-- Whether `x` is among the identifiers that `ExprUDs` finds in `e`. -/
def readBy (x : ID) (e : Expr) : Bool :=
  match ExprUDs e with
  | .ok uds => decide (x ∈ uds)
  | .error _ => false

/-- Whether the statement reads `x` at its top, before any assignment: the
first thing it evaluates is an expression that reads `x`. -/
def readsAtTop (x : ID) : Stmt → Bool
  | .print _ args => readBy x args
  | .exprLike _ (some e) => readBy x e
  | .expr _ (.assign _ rhs _ _) => readBy x rhs
  | .expr _ e => readBy x e
  | .ifS _ cond _ _ => readBy x cond
  | .catchReturn _ block => readsAtTop x block
  | .list _ (.cons s _) => readsAtTop x s
  | _ => false

mutual

/-- Whether the assignment statement named `la` assigns to `x` at the bottom
of the statement: it is the statement itself, the last statement of a list,
the block of a `catch-return`, or at the bottom of a branch of an `if`. -/
def assignsAtBottom (x : ID) (la : Nat) : Stmt → Bool
  | .expr l (.assign lhs_ref _ _ _) =>
    decide (l = la) && decide (lhs_ref.Tag = EXPR_REF) &&
      decide (lhs_ref.GetOp1 = some (.name x))
  | .catchReturn _ block => assignsAtBottom x la block
  | .ifS _ _ s1 s2 => assignsAtBottom x la s1 || assignsAtBottom x la s2
  | .list _ ss => assignsAtBottomOf x la ss
  | _ => false

/-- The same for the last statement of a list. -/
def assignsAtBottomOf (x : ID) (la : Nat) : Stmts → Bool
  | .nil => false
  | .cons s .nil => assignsAtBottom x la s
  | .cons _ (.cons s rest) => assignsAtBottomOf x la (.cons s rest)

end

end UseDefs

namespace UseDefs

/-- The state `st'` differs from `st` in its recorded sets and successors at
most at the statements named in `K`, and in no successor if `sp` is set. -/
def Untouched (K : List Nat) (sp : Bool) (st st' : State) : Prop :=
  (∀ k, k ∉ K →
    st'.use_defs_map k = st.use_defs_map k ∧ st'.successor k = st.successor k) ∧
  (sp = true → st'.successor = st.successor)

end UseDefs

namespace UseDefs

open Zeek Zeek.BroExprTag Zeek.TypeTag

mutual

/-- Whether the statement hands the liveness of `x` on from its bottom to its
top along some path without an assignment to `x`: an assignment does if it
assigns to another identifier, an `if` if one of its branches does, a list if
all of its statements do; a loop may not execute at all. -/
def handsOn (x : ID) : Stmt → Bool
  | .expr _ (.assign lhs_ref _ _ _) =>
    decide (lhs_ref.Tag = EXPR_REF) &&
      (match lhs_ref.GetOp1 with
       | some (.name id) => decide (id ≠ x)
       | _ => false)
  | .ifS _ _ s1 s2 => handsOn x s1 || handsOn x s2
  | .catchReturn _ block => handsOn x block
  | .list _ ss => handsOnAll x ss
  | _ => true

/-- The same for all the statements of a list. -/
def handsOnAll (x : ID) : Stmts → Bool
  | .nil => true
  | .cons s rest => handsOn x s && handsOnAll x rest

end

end UseDefs

namespace UseDefs

open Zeek Zeek.BroExprTag Zeek.TypeTag

/-- The loop body `{ print x; x = 1; }` over the local `x` (1): the
statements are named 2 (the body), 3 (`print x`) and 4 (`x = 1`). -/
def readThenAssign : Stmt :=
  .list 2
    (.cons (.print 3 (.listCons (.name (localVar 1 TYPE_COUNT)) .listNil))
    (.cons (assignStmt 4 (localVar 1 TYPE_COUNT) (countConst 1)) .nil))

/-- The loop `for ( i in v ) { print x; x = 1; }`, named 1, over the loop
variable `i` (4) and the table `v` (2). -/
def forReadThenAssign : Stmt :=
  .forS 1 [localVar 4 TYPE_COUNT] none (.name (localVar 2 TYPE_TABLE)) readThenAssign

/-- The loop `while ( t ) { print x; x = 1; }`, named 1, with the condition
statement `t = c` (named 5, `ConditionAsStmt()` being named 6) over the
locals `t` (3) and `c` (5). -/
def whileReadThenAssign : Stmt :=
  .whileCond 1 (.name (localVar 3 TYPE_BOOL))
    (assignStmt 5 (localVar 3 TYPE_BOOL) (.name (localVar 5 TYPE_BOOL))) 6 readThenAssign

end UseDefs

namespace UseDefs

open Zeek Zeek.BroExprTag Zeek.TypeTag

/-! ## The loop of `RemoveUnused()` -/

mutual

/-- The statement and the statements inside it. -/
def Stmt.subStmts : Stmt → List Stmt
  | .null l => [.null l]
  | .next l => [.next l]
  | .brk l => [.brk l]
  | .fallthrough l => [.fallthrough l]
  | .print l a => [.print l a]
  | .exprLike l e => [.exprLike l e]
  | .expr l e => [.expr l e]
  | .ifS l c s1 s2 => .ifS l c s1 s2 :: (s1.subStmts ++ s2.subStmts)
  | .init l i => [.init l i]
  | .whenS l => [.whenS l]
  | .catchReturn l block => .catchReturn l block :: block.subStmts
  | .list l ss => .list l ss :: ss.subStmts
  | .forS l lv vv e body => .forS l lv vv e body :: body.subStmts
  | .whileS l c body => .whileS l c body :: body.subStmts
  | .whileCond l c cs k body => .whileCond l c cs k body :: (cs.subStmts ++ body.subStmts)
  | .switch l => [.switch l]
  | .other l => [.other l]

/-- The statements of a list and the statements inside them. -/
def Stmts.subStmts : Stmts → List Stmt
  | .nil => []
  | .cons s rest => s.subStmts ++ rest.subStmts

end

/-- Whether the statement is an expression statement with an assignment. -/
def Stmt.isAssign : Stmt → Bool
  | .expr _ (.assign _ _ _ _) => true
  | _ => false

/-- The number of assignment statements in a body. -/
def countAssign (body : Stmt) : Nat := body.subStmts.countP Stmt.isAssign

mutual

/-- Modelled from the spec: `rc->Reduce(body)` in the loop of
`RemoveUnused()`; the reducer and the `Reduce` methods of the statements are
not among the sources.  "A local assignment ... is scheduled for removal; ...
the tree is re-reduced ... each iteration removes at least one statement":
the statements given to `AddStmtToOmit` (named in `om`) become null
statements, and a statement given to `AddStmtToReplace` (named in `repl`
with the identifiers of the new `InitStmt`) becomes its replacement. -/
def omitStmts (om : List Nat) (repl : List (Nat × List ID)) : Stmt → Stmt
  | .expr l e => if l ∈ om then .null l else .expr l e
  | .init l inits =>
    if l ∈ om then .null l
    else
      match repl.lookup l with
      | some used_ids => .init l used_ids
      | none => .init l inits
  | .ifS l c s1 s2 => .ifS l c (omitStmts om repl s1) (omitStmts om repl s2)
  | .catchReturn l block => .catchReturn l (omitStmts om repl block)
  | .list l ss => .list l (omitStmtsOf om repl ss)
  | .forS l lv vv e body => .forS l lv vv e (omitStmts om repl body)
  | .whileS l c body => .whileS l c (omitStmts om repl body)
  | .whileCond l c cs k body =>
    .whileCond l c (omitStmts om repl cs) k (omitStmts om repl body)
  | s => s

/-- The same for the statements of a list. -/
def omitStmtsOf (om : List Nat) (repl : List (Nat × List ID)) : Stmts → Stmts
  | .nil => .nil
  | .cons s rest => .cons (omitStmts om repl s) (omitStmtsOf om repl rest)

end

/-- `UseDefs::RemoveUnused()` (UseDefs.cc 41-52) for at most `fuel` calls of
`RemoveUnused(iter)`, from the body and the state that the last `Analyze` left;
`none` when the calls are used up.  An internal error ends the loop, as does a
reported error. -/
def RemoveUnused_all : Nat → Stmt → State → Option (Except Failure (Stmt × State))
  | 0, _, _ => none
  | fuel + 1, body, st =>
    match RemoveUnused st with
    | .error e => some (.error e)
    | .ok alt =>
      if alt.did_omission then
        let body1 := omitStmts (alt.to_omit.map Stmt.label)
          (alt.to_replace.map fun p => (p.1.label, p.2)) body
        match Analyze body1 with
        | .error e => some (.error e)
        | .ok st1 => RemoveUnused_all fuel body1 st1
      else some (.ok (body, st))

end UseDefs

namespace ZAM

open Zeek (Failure)

/-! ## Label counts -/

/-- The label counts are exact: each instruction's `num_labels` is the number
of live instructions that name it as `target`, plus the number of those that
name it as `target2`, plus the number of switch-case entries that point to
it. -/
def LabelsExact (switch_targets : List Nat) (insts : List ZInstI) : Prop :=
  ∀ (m : Nat) (y : ZInstI), insts[m]? = some y →
    y.num_labels = (refs insts m : Int) + (switch_targets.count m : Int)

/-- A conditional branch over two assignments to the slots 0 and 1, which no
instruction reads; the branch targets the second assignment. -/
def deadTail : List ZInstI :=
  [{ plainInst (.other 5) with target := some 2 },
   { plainInst (.other 3) with op_type := .OP_VC, v1 := 0 },
   { plainInst (.other 3) with op_type := .OP_VC, v1 := 1 }]

/-- An unconditional branch whose target is itself, with its label counted. -/
def selfGoto : List ZInstI :=
  [{ plainInst .OP_GOTO_V with target := some 0, num_labels := 1 }]

end ZAM

namespace ZAM

open Zeek (Failure)

/-! ## Chains of unconditional branches -/

/-- `Chain insts t path t'`: from position `t` the live unconditional
branches at the positions `path` (the first one being `t`) lead, each to the
next one, to the position `t'`, which is not an unconditional branch. -/
inductive Chain (insts : List ZInstI) : Nat → List Nat → Nat → Prop
  | last (t t' : Nat) (x : ZInstI) :
      insts[t]? = some x → x.live = true → x.IsUnconditionalBranch = true →
      x.target = some t' → isUncondAt insts t' = false → Chain insts t [t] t'
  | more (t t1 t' : Nat) (x : ZInstI) (path : List Nat) :
      insts[t]? = some x → x.live = true → x.IsUnconditionalBranch = true →
      x.target = some t1 → isUncondAt insts t1 = true → Chain insts t1 path t' →
      Chain insts t (t :: path) t'

/-- The condition under which `CollapseGoTos` treats the branch at position
`i` with target `t` as a branch to the next statement (AM-Opt.cc 208-210). -/
def branchesToNext (insts : List ZInstI) (i t : Nat) : Bool :=
  (firstLiveAfter insts (some t) i).2 ||
    (decide ((firstLiveAfter insts (some t) i).1 < insts.length) &&
      t == (firstLiveAfter insts (some t) i).1) ||
    (decide ((firstLiveAfter insts (some t) i).1 = insts.length) &&
      decide (insts.length ≤ t))

/-- A loop: the unconditional branch 0 enters at the branch 3 at the bottom,
which jumps back to the conditional branch 1 at the top; the label counts are
exact. -/
def loopBack : List ZInstI :=
  [{ plainInst .OP_GOTO_V with target := some 3 },
   { plainInst (.other 5) with target := some 4, num_labels := 1 },
   plainInst (.other 6),
   { plainInst .OP_GOTO_V with target := some 1, num_labels := 1 },
   { plainInst .OP_RETURN_X with num_labels := 1 }]

/-- A conditional branch to an unconditional branch that leads to another
unconditional branch; the label counts are exact. -/
def twoGotos : List ZInstI :=
  [{ plainInst (.other 5) with target := some 2 },
   plainInst .OP_RETURN_X,
   { plainInst .OP_GOTO_V with target := some 4, num_labels := 1 },
   plainInst .OP_RETURN_X,
   { plainInst .OP_GOTO_V with target := some 6, num_labels := 1 },
   plainInst .OP_RETURN_X,
   { plainInst (.other 7) with num_labels := 1 },
   plainInst .OP_RETURN_X]

end ZAM

namespace ZAM

/-- An unconditional branch to the next instruction, which is itself an
unconditional branch; the label counts are exact. -/
def gotoToGoto : List ZInstI :=
  [{ plainInst .OP_GOTO_V with target := some 1 },
   { plainInst .OP_GOTO_V with target := some 3, num_labels := 1 },
   plainInst (.other 6),
   { plainInst .OP_RETURN_X with num_labels := 1 }]

/-- An unconditional branch over a dead instruction to the next live one, and
a conditional branch to a dead instruction before the next live one; the
label counts are exact. -/
def toNext : List ZInstI :=
  [{ plainInst .OP_GOTO_V with target := some 2 },
   { plainInst (.other 6) with live := false },
   { plainInst (.other 5) with target := some 3, num_labels := 1 },
   { plainInst (.other 7) with live := false, num_labels := 1 },
   plainInst .OP_RETURN_X]

end ZAM

namespace ZAM

/-- The position of the first element of a list of shared slots that
satisfies `p` (`none` when no element does). -/
def lowestIndex (p : FrameSharingInfo → Bool) : List FrameSharingInfo → Option Nat
  | [] => none
  | s :: rest => if p s then some 0 else (lowestIndex p rest).map (· + 1)

/-- Three shared slots: an unmanaged one that ended at instruction 2, a
managed one that ends at 5, an unmanaged one that ends at 5. -/
def threeShared : ReMapState :=
  { shared_frame_denizens :=
      [ { ids := [10], id_start := [0], scope_end := 2, is_managed := false },
        { ids := [11], id_start := [1], scope_end := 5, is_managed := true },
        { ids := [12], id_start := [3], scope_end := 5, is_managed := false } ]
    managed_slotsI := [1]
    frame1_to_frame2 := [0, 1, 2, -1] }

/-- A frame whose fourth slot holds the unmanaged identifier 13, last used
at instruction 9. -/
def fourthSlotFrame : FrameInfo :=
  { num_slots := 4
    inst_beginnings := fun _ => none
    frame_layout1 := fun id => id - 10
    denizen_ending := fun slot => if slot = 3 then some 9 else none
    isManagedType := fun id => decide (id = 11) }

end ZAM

namespace ZAM

open Zeek (Failure)

/-! ## The rewriting of the instructions (`AM-Opt.cc`, second half of `ReMapFrame`) -/

/-- The element `m[v]` of a vector of integers; `none` where `v` is not an
index of the vector. -/
def slotAt (m : List Int) (v : Int) : Option Int :=
  if v < 0 then none else m[v.toNat]?

/-- The two sets of generated opcodes that the rewriting loop of
`ReMapFrame` asks about: the thirteen `OP_ASSIGN_VVi*` opcodes that
`ZInstI::IsDirectAssignment` lists, and the global loads of
`ZInstI::IsGlobalLoad` (`OP_LOAD_GLOBAL_TYPE_VV` and the assignment flavors
of `OP_LOAD_GLOBAL_VV`). -/
structure ReMapTables where
  isAssignVVi : ZOp → Bool
  isGlobalLoadOp : ZOp → Bool

/-- `ZInstI::IsDirectAssignment` (ZInst.cc 472-496). -/
def ZInstI.IsDirectAssignment (R : ReMapTables) (i : ZInstI) : Bool :=
  if i.op_type ≠ ZAMOpType.OP_VV then false else R.isAssignVVi i.op

/-- `ZInstI::IsGlobalLoad` (ZInst.cc 696-719). -/
def ZInstI.IsGlobalLoad (R : ReMapTables) (i : ZInstI) : Bool :=
  R.isGlobalLoadOp i.op

/-- The end of `ZInstI::UpdateSlots` (ZInst.cc 688-693): operand 1 is mapped
when the opcode reads it. -/
def remapRead1 (T : OpTables) (slot_mapping : List Int) (i : ZInstI) : Except Failure ZInstI :=
  if T.op1_flavor i.op = ZAMOp1Flavor.OP1_READ then
    match slotAt slot_mapping i.v1 with
    | none => .error .unmodelled
    | some a => .ok { i with v1 := a }
  else .ok i

/-- `ZInstI::UpdateSlots(slot_mapping)` (ZInst.cc 646-694).  An operand that
is not an index of `slot_mapping` is an access outside the vector, which the
model does not follow. -/
def ZInstI.UpdateSlots (T : OpTables) (slot_mapping : List Int) (i : ZInstI) :
    Except Failure ZInstI :=
  match i.op_type with
  | .OP_X | .OP_C | .OP_V_I1 | .OP_VC_I1 | .OP_VV_I1_I2 | .OP_VVVC_I1_I2_I3 => .ok i
  | .OP_V | .OP_VC | .OP_VV_FRAME | .OP_VV_I2 | .OP_VVC_I2 | .OP_VVV_I2_I3
  | .OP_VVVC_I2_I3 | .OP_VVVV_I2_I3_I4 => remapRead1 T slot_mapping i
  | .OP_VV | .OP_VVC | .OP_VVV_I3 | .OP_VVVV_I3_I4 | .OP_VVVC_I3 =>
    (match slotAt slot_mapping i.v2 with
     | none => .error .unmodelled
     | some a => remapRead1 T slot_mapping { i with v2 := a })
  | .OP_VVV | .OP_VVVC | .OP_VVVV_I4 =>
    (match slotAt slot_mapping i.v2, slotAt slot_mapping i.v3 with
     | some a, some b => remapRead1 T slot_mapping { i with v2 := a, v3 := b }
     | _, _ => .error .unmodelled)
  | .OP_VVVV =>
    (match slotAt slot_mapping i.v2, slotAt slot_mapping i.v3, slotAt slot_mapping i.v4 with
     | some a, some b, some c => remapRead1 T slot_mapping { i with v2 := a, v3 := b, v4 := c }
     | _, _, _ => .error .unmodelled)

/-- The loop over `globalsI` (AM-Opt.cc 494-505), over the slots of the
globals, with `used` the size of `used_globals` so far: the slots of
`used_globals` and `remapped_globals`. -/
def remapGlobals (frame1_to_frame2 : List Int) :
    List Int → Nat → Except Failure (List Int × List Int)
  | [], _ => .ok ([], [])
  | gslot :: rest, used =>
    match slotAt frame1_to_frame2 gslot with
    | none => .error .unmodelled
    | some s =>
      if s ≥ 0 then
        match remapGlobals frame1_to_frame2 rest (used + 1) with
        | .error e => .error e
        | .ok (ug, rg) => .ok (s :: ug, (used : Int) :: rg)
      else
        match remapGlobals frame1_to_frame2 rest used with
        | .error e => .error e
        | .ok (ug, rg) => .ok (ug, (-1) :: rg)

/-- The rewriting of the iteration variables (AM-Opt.cc 536-540). -/
def remapLoopVars (frame1_to_frame2 : List Int) : List Int → Except Failure (List Int)
  | [] => .ok []
  | v :: rest =>
    match slotAt frame1_to_frame2 v with
    | none => .error (.internal "ASSERT(v >= 0 && v < n1_slots)")
    | some w =>
      match remapLoopVars frame1_to_frame2 rest with
      | .error e => .error e
      | .ok ws => .ok (w :: ws)

/-- The rewriting of the auxiliary slots (AM-Opt.cc 564-582); a negative
slot stands for a constant and stays.  The report `value used but not set`
goes to the reporter, and the new slot is stored all the same. -/
def remapAuxSlots (frame1_to_frame2 : List Int) : List Int → Except Failure (List Int)
  | [] => .ok []
  | slot :: rest =>
    match (if slot < 0 then some slot else slotAt frame1_to_frame2 slot) with
    | none => .error .unmodelled
    | some w =>
      match remapAuxSlots frame1_to_frame2 rest with
      | .error e => .error e
      | .ok ws => .ok (w :: ws)

/-- An index into `globals[]` through `remapped_globals` (AM-Opt.cc 548-550
and 590-592). -/
def remapGlobalIndex (remapped_globals : List Int) (g : Int) : Except Failure Int :=
  match slotAt remapped_globals g with
  | none => .error .unmodelled
  | some w =>
    if w ≥ 0 then .ok w else .error (.internal "ASSERT(remapped_globals[g] >= 0)")

/-- The `switch` of the rewriting loop (AM-Opt.cc 530-584): the instruction
afterwards, and whether the body goes on (`false` for the `continue` of
`OP_DIRTY_GLOBAL_V`). -/
def remapSpecial (frame1_to_frame2 remapped_globals : List Int) (inst : ZInstI) :
    Except Failure (ZInstI × Bool) :=
  match inst.op with
  | .OP_NEXT_TABLE_ITER_VV | .OP_NEXT_TABLE_ITER_VAL_VAR_VVV =>
    (match inst.aux with
     | none => .error .unmodelled
     | some aux =>
       match remapLoopVars frame1_to_frame2 aux.loop_vars with
       | .error e => .error e
       | .ok vs => .ok ({ inst with aux := some { aux with loop_vars := vs } }, true))
  | .OP_DIRTY_GLOBAL_V =>
    (match remapGlobalIndex remapped_globals inst.v1 with
     | .error e => .error e
     | .ok w => .ok ({ inst with v1 := w }, false))
  | _ =>
    (match inst.aux with
     | none => .ok (inst, true)
     | some aux =>
       match aux.slots with
       | none => .ok (inst, true)
       | some slots =>
         match remapAuxSlots frame1_to_frame2 slots with
         | .error e => .error e
         | .ok sl => .ok ({ inst with aux := some { aux with slots := some sl } }, true))

/-- The body of the rewriting loop for a live instruction (AM-Opt.cc
522-603): the instruction afterwards, and whether `KillInst` is called. -/
def remapInst (T : OpTables) (R : ReMapTables) (frame1_to_frame2 remapped_globals : List Int)
    (inst : ZInstI) : Except Failure (ZInstI × Bool) :=
  match (if inst.AssignsToSlot1 T then
           match slotAt frame1_to_frame2 inst.v1 with
           | none => .error (.internal "ASSERT(v1 >= 0 && v1 < n1_slots)")
           | some w => .ok { inst with v1 := w }
         else .ok inst : Except Failure ZInstI) with
  | .error e => .error e
  | .ok i1 =>
    match remapSpecial frame1_to_frame2 remapped_globals i1 with
    | .error e => .error e
    | .ok (i2, false) => .ok (i2, false)
    | .ok (i2, true) =>
      if i2.IsGlobalLoad R then
        match remapGlobalIndex remapped_globals i2.v2 with
        | .error e => .error e
        | .ok w => .ok ({ i2 with v2 := w }, false)
      else
        match i2.UpdateSlots T frame1_to_frame2 with
        | .error e => .error e
        | .ok i3 => .ok (i3, i3.IsDirectAssignment R && decide (i3.v1 = i3.v2))

/-- One iteration of the rewriting loop (AM-Opt.cc 515-604), for the
instruction at position `i`. -/
def ReMapFrame_rewrite_at (T : OpTables) (R : ReMapTables)
    (frame1_to_frame2 remapped_globals : List Int) (insts : List ZInstI) (i : Nat) :
    Except Failure (List ZInstI) :=
  match insts[i]? with
  | none => .ok insts
  | some inst =>
    if !inst.live then .ok insts
    else
      match remapInst T R frame1_to_frame2 remapped_globals inst with
      | .error e => .error e
      | .ok (inst', kill) =>
        let insts1 := updAt (fun _ => inst') insts i
        .ok (if kill then KillInst insts1 i else insts1)

/-- The rewriting loop over the positions `i, ..., i+k-1`. -/
def ReMapFrame_rewrite_loop (T : OpTables) (R : ReMapTables)
    (frame1_to_frame2 remapped_globals : List Int) :
    Nat → Nat → List ZInstI → Except Failure (List ZInstI)
  | 0, _, insts => .ok insts
  | k + 1, i, insts =>
    match ReMapFrame_rewrite_at T R frame1_to_frame2 remapped_globals insts i with
    | .error e => .error e
    | .ok insts1 => ReMapFrame_rewrite_loop T R frame1_to_frame2 remapped_globals k (i + 1) insts1

/-- What `ReMapFrame` leaves: the instructions, the slots of the globals
that are used, the frame map, the shared slots and the frame size. -/
structure ReMapped where
  insts1 : List ZInstI
  globalsI : List Int
  frame1_to_frame2 : List Int
  shared_frame_denizens : List FrameSharingInfo
  managed_slotsI : List Nat
  frame_sizeI : Nat

/-- `ZAMCompiler::ReMapFrame` (AM-Opt.cc 444-607): the assignment of the
shared slots, the pruning of the globals, the rewriting of the
instructions.  `globalsI` lists the slots of the globals. -/
def ReMapFrame (T : OpTables) (R : ReMapTables) (F : FrameInfo) (globalsI : List Int)
    (insts : List ZInstI) : Except Failure ReMapped :=
  let st := ReMapFrame_assign F insts.length
  match remapGlobals st.frame1_to_frame2 globalsI 0 with
  | .error e => .error e
  | .ok (used_globals, remapped_globals) =>
    match ReMapFrame_rewrite_loop T R st.frame1_to_frame2 remapped_globals insts.length 0
        insts with
    | .error e => .error e
    | .ok insts1 =>
      .ok { insts1 := insts1
            globalsI := used_globals
            frame1_to_frame2 := st.frame1_to_frame2
            shared_frame_denizens := st.shared_frame_denizens
            managed_slotsI := st.managed_slotsI
            frame_sizeI := st.shared_frame_denizens.length }

end ZAM

namespace ZAM

open Zeek (Failure)

/-- Operand `k` of an instruction (`v1` to `v4`). -/
def ZInstI.field (i : ZInstI) : Nat → Int
  | 1 => i.v1
  | 2 => i.v2
  | 3 => i.v3
  | _ => i.v4

/-- Whether operand `k` of the instruction denotes a frame slot: operand 1
when `AssignsToSlot1` holds, and every operand that `UsesSlot` looks at
(found by asking `UsesSlot` about the instruction with each operand replaced
by its own number). -/
def ZInstI.isSlotField (T : OpTables) (i : ZInstI) (k : Nat) : Bool :=
  (decide (k = 1) && i.AssignsToSlot1 T) ||
    ({ i with v1 := 1, v2 := 2, v3 := 3, v4 := 4 } : ZInstI).UsesSlot T (k : Int)

/-- The iteration variables of the auxiliary block (none without a block). -/
def ZInstI.loopVars (i : ZInstI) : List Int :=
  match i.aux with
  | some a => a.loop_vars
  | none => []

/-- The auxiliary slots (none without a block or without slots). -/
def ZInstI.auxSlots (i : ZInstI) : List Int :=
  match i.aux with
  | some a => a.slots.getD []
  | none => []

/-- The two table-iteration opcodes whose loop variables `ReMapFrame`
rewrites. -/
def isTableIter (op : ZOp) : Bool :=
  op = ZOp.OP_NEXT_TABLE_ITER_VV || op = ZOp.OP_NEXT_TABLE_ITER_VAL_VAR_VVV

/-- Spec side: `b` is `a` with every frame-slot operand replaced by its
entry in the frame map `f`, every index into `globals[]` by its entry in
`g`, and every other operand as it was.  The frame-slot operands are the
operands `isSlotField` names (for a global load operand 1 only, operand 2
being the index of the global; for `OP_DIRTY_GLOBAL_V` none, operand 1 being
the index of the global), the loop variables of the two table-iteration
opcodes, and the auxiliary slots that are not negative of the opcodes other
than these two and `OP_DIRTY_GLOBAL_V`. -/
def Rewritten (T : OpTables) (R : ReMapTables) (f g : List Int) (a b : ZInstI) : Prop :=
  b.op = a.op ∧ b.op_type = a.op_type ∧
  (a.op ≠ ZOp.OP_DIRTY_GLOBAL_V → a.IsGlobalLoad R = false →
    ∀ k, 1 ≤ k → k ≤ 4 →
      if a.isSlotField T k then slotAt f (a.field k) = some (b.field k)
      else b.field k = a.field k) ∧
  (a.op ≠ ZOp.OP_DIRTY_GLOBAL_V → a.IsGlobalLoad R = true →
    (if a.AssignsToSlot1 T then slotAt f a.v1 = some b.v1 else b.v1 = a.v1) ∧
    slotAt g a.v2 = some b.v2 ∧ b.v3 = a.v3 ∧ b.v4 = a.v4) ∧
  (a.op = ZOp.OP_DIRTY_GLOBAL_V → a.AssignsToSlot1 T = false →
    slotAt g a.v1 = some b.v1 ∧ b.v2 = a.v2 ∧ b.v3 = a.v3 ∧ b.v4 = a.v4) ∧
  (if isTableIter a.op then
     List.Forall₂ (fun v w => slotAt f v = some w) a.loopVars b.loopVars
   else b.loopVars = a.loopVars) ∧
  (if isTableIter a.op || a.op = ZOp.OP_DIRTY_GLOBAL_V then b.auxSlots = a.auxSlots
   else
     List.Forall₂ (fun s w => if s < 0 then w = s else slotAt f s = some w)
       a.auxSlots b.auxSlots)

/-- Every entry of the frame map is `-1` or the position of a shared slot. -/
def MapInRange (st : ReMapState) : Prop :=
  ∀ v ∈ st.frame1_to_frame2, v = -1 ∨ (0 ≤ v ∧ v < (st.shared_frame_denizens.length : Int))

/-- The frame information of a body of unmanaged local variables: the
lifetimes that `ComputeFrameLifetimes` computes for it (none if it fails). -/
def frameInfoOf (T : OpTables) (D : FrameDenizens) (insts : List ZInstI) : FrameInfo :=
  match ComputeFrameLifetimes T D [] insts with
  | .ok L => L.toFrameInfo D.size (fun _ => false)
  | .error _ => Lifetimes.empty.toFrameInfo D.size (fun _ => false)

/-- No direct assignment and no global load among the opcodes. -/
def noReMapOps : ReMapTables :=
  { isAssignVVi := fun _ => false, isGlobalLoadOp := fun _ => false }

/-- The body `x = f(y); return x`, in which `y` (slot 1) is never set. -/
def useUnset : List ZInstI :=
  [{ plainInst (.other 4) with op_type := .OP_VV, v1 := 0, v2 := 1 },
   { plainInst .OP_RETURN_V with op_type := .OP_V, v1 := 0 }]

end ZAM

namespace ZAM

open Zeek (Failure)

/-- The maps `L2` carry on from `L1`: a recorded lifetime start stays, a
recorded lifetime end stays or moves to a later instruction. -/
def Extends (L1 L2 : Lifetimes) : Prop :=
  (∀ s b, L1.denizen_beginning s = some b → L2.denizen_beginning s = some b) ∧
  (∀ s e, L1.denizen_ending s = some e → ∃ e', L2.denizen_ending s = some e' ∧ e ≤ e')

/-- The lifetime of slot `s` starts at or before instruction `i`. -/
def BeginsBy (L : Lifetimes) (i : Nat) (s : Int) : Prop :=
  ∃ b, L.denizen_beginning s = some b ∧ b ≤ i

/-- The lifetime of slot `s` ends at or after instruction `t`. -/
def EndsFrom (L : Lifetimes) (t : Nat) (s : Int) : Prop :=
  ∃ e, L.denizen_ending s = some e ∧ t ≤ e

/-- The four loop initializers, for which `ComputeFrameLifetimes` records
the use of the aggregate `v2` and skips the analysis of `UsesSlots`. -/
def isLoopInit (op : ZOp) : Bool :=
  match op with
  | .OP_INIT_TABLE_LOOP_VV | .OP_INIT_TABLE_LOOP_RECURSIVE_VV
  | .OP_INIT_VECTOR_LOOP_VV | .OP_INIT_STRING_LOOP_VV => true
  | _ => false

/-- The opcodes of the `default` case of the `switch` of
`ComputeFrameLifetimes`, whose auxiliary slots are looked at. -/
def isDefaultOp (op : ZOp) : Bool :=
  match op with
  | .OP_NEXT_TABLE_ITER_VV | .OP_NEXT_TABLE_ITER_VAL_VAR_VVV
  | .OP_NEXT_TABLE_ITER_NO_VARS_VV | .OP_NEXT_TABLE_ITER_VAL_VAR_NO_VARS_VVV
  | .OP_NEXT_VECTOR_ITER_VVV | .OP_NEXT_STRING_ITER_VVV
  | .OP_SYNC_GLOBALS_X
  | .OP_INIT_TABLE_LOOP_VV | .OP_INIT_TABLE_LOOP_RECURSIVE_VV
  | .OP_INIT_VECTOR_LOOP_VV | .OP_INIT_STRING_LOOP_VV => false
  | _ => true

/-- The instruction assigns to slot `s`: it assigns to its operand 1, which
is `s`, or it is one of the two table iterations with loop variables and `s`
is among them. -/
def ZInstI.assignsSlot (T : OpTables) (i : ZInstI) (s : Int) : Bool :=
  (i.AssignsToSlot1 T && decide (i.v1 = s)) || (isTableIter i.op && i.loopVars.contains s)

/-- The instruction uses slot `s`: `UsesSlot` says so, or `s` is one of the
auxiliary slots of an opcode of the `default` case. -/
def ZInstI.usesSlot (T : OpTables) (i : ZInstI) (s : Int) : Bool :=
  i.UsesSlot T s || (isDefaultOp i.op && i.auxSlots.contains s)

/-- The iteration variables of a loop, at its iteration instruction: the
loop variables of a table iteration and the variable in operand 1 of the
iterations that have one. -/
def ZInstI.iterVars (i : ZInstI) : List Int :=
  match i.op with
  | .OP_NEXT_TABLE_ITER_VV => i.loopVars
  | .OP_NEXT_TABLE_ITER_VAL_VAR_VVV => i.loopVars ++ [i.v1]
  | .OP_NEXT_TABLE_ITER_VAL_VAR_NO_VARS_VVV => [i.v1]
  | .OP_NEXT_VECTOR_ITER_VVV | .OP_NEXT_STRING_ITER_VVV => [i.v1]
  | _ => []

/-- No use before set: a slot that a live instruction uses is assigned by a
live instruction at or before it. -/
def NoUseBeforeSet (T : OpTables) (insts : List ZInstI) : Prop :=
  ∀ (i : Nat) (inst : ZInstI) (s : Int), insts[i]? = some inst → inst.live = true →
    0 ≤ s → inst.usesSlot T s = true →
    ∃ (j : Nat) (inst' : ZInstI), j ≤ i ∧ insts[j]? = some inst' ∧ inst'.live = true ∧
      inst'.assignsSlot T s = true

/-- A live loop initializer reads no slot but the aggregate in `v2`. -/
def InitReadsAggregate (T : OpTables) (insts : List ZInstI) : Prop :=
  ∀ (i : Nat) (inst : ZInstI) (s : Int), insts[i]? = some inst → inst.live = true →
    isLoopInit inst.op = true → inst.UsesSlot T s = true → s = inst.v2

/-- What `ComputeFrameLifetimes` has recorded for the instruction at
position `i` once it has gone through it. -/
def RecordedAt (T : OpTables) (insts : List ZInstI) (L : Lifetimes) (i : Nat)
    (inst : ZInstI) : Prop :=
  (∀ s, inst.assignsSlot T s = true → BeginsBy L i s) ∧
  (∀ s, 0 ≤ s → inst.usesSlot T s = true → (isLoopInit inst.op = true → s = inst.v2) →
    EndsFrom L i s) ∧
  (∀ s ∈ inst.iterVars, EndsFrom L (EndOfLoop insts i inst.loop_depth) s)

end ZAM

namespace ZAM

/-- The body `x = c; for ( z in x ) x = f(z); return x`: the initializer of
the loop over `x` (slot 0) with its iteration information in slot 1, the
iteration that sets `z` (slot 2), the loop body and the branch back at loop
depth 1, and the return. -/
def vectorLoop : List ZInstI :=
  [{ plainInst (.other 3) with op_type := .OP_VC, v1 := 0 },
   { plainInst .OP_INIT_VECTOR_LOOP_VV with op_type := .OP_VV, v1 := 1, v2 := 0 },
   { plainInst .OP_NEXT_VECTOR_ITER_VVV with
     op_type := .OP_VVV_I3, v1 := 2, v2 := 1, v3 := 5, loop_depth := 1, target := some 5 },
   { plainInst (.other 4) with op_type := .OP_VV, v1 := 0, v2 := 2, loop_depth := 1 },
   { plainInst .OP_GOTO_V with
     op_type := .OP_V_I1, v1 := 2, loop_depth := 1, target := some 2 },
   { plainInst .OP_RETURN_V with op_type := .OP_V, v1 := 0 }]

end ZAM

namespace Zeek

open TypeTag InternalTypeTag BroExprTag

/-! ## Indexing and increments (`Expr.cc`) -/

/-- The value of a C `int` (32 bits, two's complement) after a conversion or
an overflow. -/
def wrapInt32 (i : Int) : Int := (i + 2 ^ 31) % 2 ^ 32 - 2 ^ 31

/-- `get_slice_index` (Expr.cc 29-37) on C `int`s.  `abs` of the least `int`
has no representable result; it is taken to give the least `int` back, as it
does on two's complement machines. -/
def get_slice_index (idx len : Int) : Int :=
  if wrapInt32 (Int.natAbs idx) > len then
    (if idx > 0 then len else 0)
  else if idx < 0 then wrapInt32 (idx + len)
  else idx

/-- `IncrExpr::DoSingleEval` (Expr.cc 1642-1665) for the node with tag `tag`
(`EXPR_INCR` or `EXPR_DECR`) and type `type`; `++k` and `--k` on the
`bro_int_t` wrap. -/
def IncrExpr_DoSingleEval (tag : BroExprTag) (type : BroType) (v : Val) :
    Except Failure Val :=
  match CoerceToInt v with
  | none => .error .unmodelled
  | some k0 =>
    let k := if tag = EXPR_INCR then wrapInt (k0 + 1) else wrapInt (k0 - 1)
    if tag != EXPR_INCR && decide (k < 0) &&
        v.Type.InternalType = TYPE_INTERNAL_UNSIGNED then
      .error (.runtime "count underflow")
    else
      let ret_type := if IsVector type.Tag then type.YieldType else type
      if ret_type.Tag = TYPE_INT then .ok (GetInt k) else .ok (GetCount k)

/-- Modelled from the spec: `VectorVal::Size`, `VectorVal::Lookup` and
`VectorVal::Assign` (`Val.cc`, not among the sources).  A vector is the list
of its elements, `none` for a null element; `Lookup` gives null beyond the
end. -/
def VectorVal_Lookup {α : Type} (v : List (Option α)) (index : Nat) : Option α :=
  (v[index]?).join

/-- Modelled from the spec: `VectorVal::Assign(index, element)` (`Val.cc`, not
among the sources) writes position `index` and, when that lies beyond the
end, first grows the vector with null elements up to it.  Expr.cc relies on
both: `BinaryExpr::Eval` (1081-1093) fills a fresh vector with `Assign(i, …)`
for `i = 0, 1, …`, and `AddToExpr::Eval` (2234) appends with
`Assign(vv->Size(), v2)`. -/
def VectorVal_Assign {α : Type} (v : List (Option α)) (index : Nat) (element : Option α) :
    List (Option α) :=
  if index < v.length then v.set index element
  else v ++ List.replicate (index - v.length) none ++ [element]

/-- The loop of `vector_bool_select` (Expr.cc 4895-4903): `n` iterations from
index `i` on, with `v_result` so far.  A null element of `v2` is
dereferenced by the code. -/
def vector_bool_select_loop {α : Type} (v1 : List (Option α)) (v2 : List (Option Bool)) :
    Nat → Nat → List (Option α) → Except Failure (List (Option α))
  | 0, _, v_result => .ok v_result
  | n + 1, i, v_result =>
    match VectorVal_Lookup v2 i with
    | none => .error .unmodelled
    | some true =>
      vector_bool_select_loop v1 v2 n (i + 1)
        (VectorVal_Assign v_result (v_result.length + 1) (VectorVal_Lookup v1 i))
    | some false => vector_bool_select_loop v1 v2 n (i + 1) v_result

/-- `vector_bool_select` (Expr.cc 4890-4906). -/
def vector_bool_select {α : Type} (v1 : List (Option α)) (v2 : List (Option Bool)) :
    Except Failure (List (Option α)) :=
  vector_bool_select_loop v1 v2 v2.length 0 []

end Zeek

namespace Zeek

open TypeTag InternalTypeTag BroExprTag

/-- `Expr::SetType` (Expr.cc 660-664) on the `type` field of a node, `none`
for a null pointer: the field afterwards. -/
def SetType (type : Option BroType) (t : BroType) : Option BroType :=
  match type with
  | none => some t
  | some ty => if ty.Tag != TYPE_ERROR then some t else some ty

/-- The sum `1 + T` of a count and a bool, which `AddExpr::AddExpr` marks
with the error sentinel. -/
def countPlusBool : Expr := mkAddExpr (countConst 1) (boolConst true)

end Zeek

namespace Zeek

open TypeTag InternalTypeTag BroExprTag

/-- The messages that `RelExpr::Reduce` (Expr.cc 3320-3343) passes to `Warn`,
in order, for the node `binary tag op1 op2 type`.  `Warn` reports the
message and returns; unlike `ExprError` it does not call `SetError`, so the
node keeps its type. -/
def RelExpr_Reduce_warnings (tag : BroExprTag) (op1 op2 : Expr) (type : BroType) :
    List String :=
  if type.Tag = TYPE_BOOL then
    if same_singletons op1 op2 then []
    else
      (if op1.IsZero && op2.Type.Tag = TYPE_COUNT && (tag = EXPR_LE || tag = EXPR_GT) then
        ["degenerate comparison"] else []) ++
      (if op2.IsZero && op1.Type.Tag = TYPE_COUNT && (tag = EXPR_LT || tag = EXPR_GE) then
        ["degenerate comparison"] else [])
  else []

end Zeek

namespace Zeek

open TypeTag InternalTypeTag BroExprTag

/-! ## Simplification versus generic reduction

The `Reduce` methods of the arithmetic, bitwise and comparison nodes once
more, with the value of their final call `BinaryExpr::Reduce(c, red_stmt)`
as the parameter `generic`; it receives the two operands as they are at the
time of the call. -/

/-- `AddExpr::Reduce` (Expr.cc 2139-2154). -/
def AddExpr_Reduce_or (generic : Expr → Expr → Red) (toS : Reducer → Expr → Red)
    (c : Reducer) (op1 op2 : Expr) : Red :=
  if op1.IsZero then toS c op2
  else if op2.IsZero then toS c op1
  else if op1.Tag = EXPR_NEGATE then toS c (mkSubExpr op2 (operandOf op1))
  else if op2.Tag = EXPR_NEGATE then toS c (mkSubExpr op1 (operandOf op2))
  else generic op1 op2

/-- `SubExpr::Reduce` (Expr.cc 2421-2453). -/
def SubExpr_Reduce_or (generic : Expr → Expr → Red) (toS red : Reducer → Expr → Red)
    (c : Reducer) (op1 op2 : Expr) (type : BroType) : Red :=
  if op2.IsZero then toS c op1
  else if op2.Tag = EXPR_NEGATE then red c (mkAddExpr op1 (operandOf op2))
  else
    let a1 := if c.Optimizing then c.UpdateExpr op1 else op1
    let a2 := if c.Optimizing then c.UpdateExpr op2 else op2
    let same : Bool :=
      type.Tag != TYPE_VECTOR && type.Tag != TYPE_TABLE &&
        (match a1, a2 with
         | .name i1, .name i2 => decide (i1 = i2)
         | _, _ => false)
    if same then
      (match MakeZero type.Tag with
       | .ok z => .ok (.const z, none, c)
       | .error x => .error x)
    else generic a1 a2

/-- `TimesExpr::Reduce` (Expr.cc 2561-2579). -/
def TimesExpr_Reduce_or (generic : Expr → Expr → Red) (toS : Reducer → Expr → Red)
    (c : Reducer) (op1 op2 : Expr) (type : BroType) : Red :=
  if op1.IsOne then toS c op2
  else if op2.IsOne then toS c op1
  else if (op1.IsZero || op2.IsZero) && type.Tag != TYPE_DOUBLE then
    (match (if op1.IsZero then op1 else op2) with
     | .const zero_val => .ok (.const zero_val, none, c)
     | _ => .error (.internal "TimesExpr::Reduce"))
  else generic op1 op2

/-- `DivideExpr::Reduce` (Expr.cc 2640-2649). -/
def DivideExpr_Reduce_or (generic : Expr → Expr → Red) (toS : Reducer → Expr → Red)
    (c : Reducer) (op1 op2 : Expr) (type : BroType) : Red :=
  if type.Tag != TYPE_SUBNET && op2.IsOne then toS c op1
  else generic op1 op2

/-- `BitExpr::Reduce` (Expr.cc 3080-3121). -/
def BitExpr_Reduce_or (generic : Expr → Expr → Red) (toS : Reducer → Expr → Red)
    (c : Reducer) (tag : BroExprTag) (op1 op2 : Expr) (type : BroType) : Red :=
  if type.Tag != TYPE_COUNT then generic op1 op2
  else
    let zero1 := op1.IsZero
    let zero2 := op2.IsZero
    if zero1 && zero2 then toS c op1
    else if zero1 || zero2 then
      let zero_op := if zero1 then op1 else op2
      let non_zero_op := if zero1 then op2 else op1
      if tag = EXPR_AND then toS c zero_op else toS c non_zero_op
    else if same_singletons op1 op2 && op1.Tag = EXPR_NAME then
      if tag = EXPR_XOR then .ok (.const (GetCount 0), none, c)
      else toS c op1
    else generic op1 op2

/-- `EqExpr::Reduce` (Expr.cc 3237-3248). -/
def EqExpr_Reduce_or (generic : Expr → Expr → Red) (c : Reducer) (tag : BroExprTag)
    (op1 op2 : Expr) (type : BroType) : Red :=
  if type.Tag = TYPE_BOOL && same_singletons op1 op2 then
    .ok (.const (GetBool (tag = EXPR_EQ)), none, c)
  else generic op1 op2

/-- `RelExpr::Reduce` (Expr.cc 3320-3343). -/
def RelExpr_Reduce_or (generic : Expr → Expr → Red) (c : Reducer) (tag : BroExprTag)
    (op1 op2 : Expr) (type : BroType) : Red :=
  if type.Tag = TYPE_BOOL && same_singletons op1 op2 then
    .ok (.const (GetBool (tag = EXPR_GE || tag = EXPR_LE)), none, c)
  else generic op1 op2

/-- The tags of `AddExpr`, `SubExpr`, `TimesExpr`, `DivideExpr`, `BitExpr`,
`EqExpr` and `RelExpr` nodes. -/
def isSimplifiable (tag : BroExprTag) : Bool :=
  match tag with
  | EXPR_ADD | EXPR_SUB | EXPR_TIMES | EXPR_DIVIDE
  | EXPR_AND | EXPR_OR | EXPR_XOR
  | EXPR_LT | EXPR_LE | EXPR_EQ | EXPR_NE | EXPR_GE | EXPR_GT => true
  | _ => false

/-- `Reduce` of the node `binary tag op1 op2 type` of one of these classes,
with `generic` for the call of `BinaryExpr::Reduce`. -/
def Reduce_or (generic : Expr → Expr → Red) (toS red : Reducer → Expr → Red)
    (c : Reducer) (tag : BroExprTag) (op1 op2 : Expr) (type : BroType) : Red :=
  match tag with
  | EXPR_ADD => AddExpr_Reduce_or generic toS c op1 op2
  | EXPR_SUB => SubExpr_Reduce_or generic toS red c op1 op2 type
  | EXPR_TIMES => TimesExpr_Reduce_or generic toS c op1 op2 type
  | EXPR_DIVIDE => DivideExpr_Reduce_or generic toS c op1 op2 type
  | EXPR_AND | EXPR_OR | EXPR_XOR => BitExpr_Reduce_or generic toS c tag op1 op2 type
  | EXPR_EQ | EXPR_NE => EqExpr_Reduce_or generic c tag op1 op2 type
  | EXPR_LT | EXPR_LE | EXPR_GE | EXPR_GT => RelExpr_Reduce_or generic c tag op1 op2 type
  | _ => .error .unmodelled

/-- The node's `Reduce` falls through to generic binary reduction: whatever
`BinaryExpr::Reduce` returns on some two operands is what `Reduce`
returns. -/
def FallsThrough (toS red : Reducer → Expr → Red) (c : Reducer) (tag : BroExprTag)
    (op1 op2 : Expr) (type : BroType) : Prop :=
  ∃ a1 a2 : Expr, ∀ generic : Expr → Expr → Red,
    Reduce_or generic toS red c tag op1 op2 type = generic a1 a2

/-- The node's `Reduce` applies one of its simplifications: what it returns
does not depend on `BinaryExpr::Reduce`. -/
def Simplifies (toS red : Reducer → Expr → Red) (c : Reducer) (tag : BroExprTag)
    (op1 op2 : Expr) (type : BroType) : Prop :=
  ∀ g g' : Expr → Expr → Red,
    Reduce_or g toS red c tag op1 op2 type = Reduce_or g' toS red c tag op1 op2 type

/-- A reducer in optimizing mode whose `UpdateExpr` expands the alias `y`
(local 2) to `x` (local 1). -/
def aliasReducer : Reducer :=
  { optimizing := true, name_is_reduced := fun _ => true, new_local := fun id => id,
    update_expr := fun e =>
      if e = .name (localVar 2 TYPE_COUNT) then .name (localVar 1 TYPE_COUNT) else e,
    num_temps := 0 }

end Zeek

namespace Zeek

open TypeTag InternalTypeTag BroExprTag

/-! ## Assignment to a list of identifiers (`AssignExpr::Reduce`, Expr.cc 4271-4297) -/

mutual

/-- The statements that a statement executes, in order: a `StmtList` gives
way to those of its elements. -/
def Stmt.flat : Stmt → List Stmt
  | .list l => Stmt.flatList l
  | .null => [.null]
  | .expr e => [.expr e]
  | .ifStmt c s1 s2 => [.ifStmt c s1 s2]
  | .checkAnyLen e n => [.checkAnyLen e n]

/-- The statements that a list of statements executes, in order. -/
def Stmt.flatList : List Stmt → List Stmt
  | [] => []
  | s :: rest => s.flat ++ Stmt.flatList rest

end

/-- The statements that a companion statement executes, in order; none for a
null companion. -/
def flatCompanions : Option Stmt → List Stmt
  | none => []
  | some s => s.flat

/-- `AnyIndexExpr::AnyIndexExpr(op, index)` (Expr.cc 5004-5009): a unary node
with tag `EXPR_ANY_INDEX`, the field `index`, and the type of `op`.  The
model's unary nodes have no place for the field; the node is written as a
binary node that has the index as its second operand. -/
def mkAnyIndexExpr (op : Expr) (index : Nat) : Expr :=
  .binary EXPR_ANY_INDEX op (countConst index) op.Type

/-- `AssignExpr::AssignExpr(op1, op2, false, nullptr, nullptr, false)` (Expr.cc
3710-3741) for a name `op1`, which `NameExpr::MakeLvalue` (744-756) wraps in a
`RefExpr`; without `typecheck` the type is that of the left side. -/
def mkAssignExpr (op1 op2 : Expr) : Expr :=
  let lhs := mkRefExpr op1
  .assign lhs op2 false (if lhs.IsError || op2.IsError then error_type else lhs.Type)

/-- The first step of `AssignExpr::Reduce` outside optimizing mode (Expr.cc
4202-4225): the right-hand side `op2` afterwards, the statement `rhs_reduce`
and the reducer. -/
def AssignExpr_coerceAny (toS : Reducer → Expr → Red) (c : Reducer) (op1 op2 : Expr) : Red :=
  let lhs_is_any : Bool := op1.Type.Tag = TYPE_ANY
  let rhs_is_any : Bool := op2.Type.Tag = TYPE_ANY
  if lhs_is_any != rhs_is_any then
    (match toS c op2 with
     | .ok (red_rhs, s, c') =>
       if lhs_is_any then
         (if red_rhs.Tag = EXPR_CONST then .ok (red_rhs, s, c')
          else .ok (mkCoerceToAnyExpr red_rhs, s, c'))
       else .ok (mkCoerceFromAnyExpr red_rhs op1.Type, s, c')
     | .error x => .error x)
  else .ok (op2, none, c)

/-- The loop over the identifiers of the list (Expr.cc 4284-4294), from
element `i` on, `red_stmt` being the companion statement so far.
`NameExpr::MakeLvalue` reports an error for a constant (and for a type name
or an option, which the model does not tell apart from variables); that is
outside the model, as is an element that is not a name. -/
def assignListElems (rhs_e : Expr) : List Expr → Nat → Option Stmt → Except Failure (Option Stmt)
  | [], _, red_stmt => .ok red_stmt
  | lhs :: rest, i, red_stmt =>
    match lhs with
    | .name id =>
      if id.is_const then .error .unmodelled
      else
        let rhs := mkAnyIndexExpr rhs_e i
        let assign := mkAssignExpr (.name id) rhs
        assignListElems rhs_e rest (i + 1) (MergeStmts red_stmt (some (Stmt.expr assign)) none)
    | _ => .error .unmodelled

/-- `AssignExpr::Reduce` (Expr.cc 4186-4332) for an assignment whose left-hand
side is a reference to a list (4271-4297); `red` is `Reduce`, `toS` is
`ReduceToSingleton`.  `TransformMe` (647-658) returns the `NopExpr` as it
is. -/
def AssignExpr_Reduce_list (red toS : Reducer → Expr → Red) (c : Reducer)
    (op1 op2 : Expr) (is_temp : Bool) (type : BroType) : Red :=
  if c.Optimizing then .ok (.assign op1 (c.UpdateExpr op2) is_temp type, none, c)
  else if is_temp then .ok (.assign op1 op2 is_temp type, none, c)
  else do
    let (rhs, rhs_reduce, c1) ← AssignExpr_coerceAny toS c op1 op2
    match op1 with
    | .unary EXPR_REF lhs_expr _ =>
      if lhs_expr.Tag = EXPR_LIST then do
        let lhs_list := lhs_expr.elems
        let (rhs_e, rhs_stmt, c2) ← red c1 rhs
        let len := lhs_list.length
        let check_stmt := Stmt.checkAnyLen rhs_e len
        let red_stmt ← assignListElems rhs_e lhs_list 0
          (MergeStmts rhs_reduce rhs_stmt (some check_stmt))
        pure (.nop, red_stmt, c2)
      else .error .unmodelled
    | _ => .error .unmodelled

/-- `Reduce` with depth at most `fuel + 1`, extended to the nodes
`CoerceToAnyExpr` and `CoerceFromAnyExpr`: neither class overrides `Reduce`
(Expr.h 1298-1316), so theirs is `UnaryExpr::Reduce`. -/
def Reduce_coercion (fuel : Nat) (c : Reducer) (e : Expr) : Red :=
  match e with
  | .unary tag op type =>
    if tag = EXPR_TO_ANY_COERCE || tag = EXPR_FROM_ANY_COERCE then
      UnaryExpr_Reduce (ReduceToSingleton fuel) c tag op type
    else Reduce (fuel + 1) c e
  | _ => Reduce (fuel + 1) c e

/-- The reducer of the worked examples in optimizing mode. -/
def optimizingReducer : Reducer := { plainReducer with optimizing := true }

/-- The list assignment `[a, b] = x` for locals `a` (count), `b` (string) and
`x` (any). -/
def listAssign : Expr :=
  .assign
    (.unary EXPR_REF (Expr.ofElems [.name (localVar 1 TYPE_COUNT), .name (localVar 2 TYPE_STRING)])
      (base_type TYPE_LIST))
    (.name (localVar 3 TYPE_ANY)) false (base_type TYPE_LIST)

end Zeek

namespace ZAM

/-- Opcode tables of the worked example with a call: as `lifetimeTables`,
and opcode `other 5`, a call that assigns its result to its first operand,
has side effects; its assignment-less flavor is `other 6`. -/
def callTables : OpTables :=
  { lifetimeTables with
    op_side_effects := fun op => decide (op = ZOp.other 5)
    assignmentless_op := fun op => if op = ZOp.other 5 then some (ZOp.other 6) else none }

/-- The body `x = g(); y = f(x); x = g(); z = f(y); return z`, where the
call of `g` has side effects.  `UseDefs::RemoveUnused` keeps the second
`x = g()` although `x` is not read afterwards: an assignment whose right-hand
side is a call that is not pure is never omitted. -/
def staleCall : List ZInstI :=
  [{ plainInst (.other 5) with op_type := .OP_V, v1 := 0 },
   { plainInst (.other 4) with op_type := .OP_VV, v1 := 1, v2 := 0 },
   { plainInst (.other 5) with op_type := .OP_V, v1 := 0 },
   { plainInst (.other 4) with op_type := .OP_VV, v1 := 2, v2 := 1 },
   { plainInst .OP_RETURN_V with op_type := .OP_V, v1 := 2 }]

end ZAM

/-! # Theorems -/

namespace ZAM

theorem SlotInv.mono {F : FrameInfo} {b b' : Int} {s : FrameSharingInfo}
    (h : SlotInv F b s) (hb : b ≤ b') : SlotInv F b' s := by
  refine ⟨h.len, h.pw, ?_⟩
  intro x hx
  obtain ⟨e, he, hle⟩ := h.ends x hx
  exact ⟨e, he, hle.imp id (fun h1 => le_trans h1 hb)⟩

/-- What the search loop of `ReMapVar` returns is either the candidate it
started with or the position of a compatible slot. -/
theorem aptSlotSearch_spec (m : Bool) (inst : Int) :
    ∀ (l : List FrameSharingInfo) (i : Nat) (apt : Option Nat) (k : Nat),
      aptSlotSearch m inst l i apt = some k →
      apt = some k ∨
        ∃ s, i ≤ k ∧ l[k - i]? = some s ∧ s.scope_end ≤ inst ∧ s.is_managed = m := by
  intro l
  induction l with
  | nil => intro i apt k h; left; simpa [aptSlotSearch] using h
  | cons s rest ih =>
    intro i apt k h
    have shift : ∀ apt', aptSlotSearch m inst rest (i + 1) apt' = some k →
        apt' = some k ∨
          ∃ s', i ≤ k ∧ (s :: rest)[k - i]? = some s' ∧ s'.scope_end ≤ inst ∧
            s'.is_managed = m := by
      intro apt' h'
      rcases ih (i + 1) apt' k h' with h1 | ⟨s', hik, hs', h2, h3⟩
      · exact Or.inl h1
      · refine Or.inr ⟨s', by omega, ?_, h2, h3⟩
        have : k - i = (k - (i + 1)) + 1 := by omega
        rw [this]; simpa using hs'
    unfold aptSlotSearch at h
    by_cases hc : s.scope_end ≤ inst ∧ s.is_managed = m
    · rw [if_pos hc] at h
      by_cases he : s.scope_end = inst
      · rw [if_pos he] at h
        have hik : i = k := by simpa using h
        subst hik
        exact Or.inr ⟨s, le_refl _, by simp, hc.1, hc.2⟩
      · rw [if_neg he] at h
        by_cases hn : apt.isNone
        · rw [if_pos hn] at h
          rcases shift (some i) h with h1 | h1
          · have hik : i = k := by simpa using h1
            subst hik
            exact Or.inr ⟨s, le_refl _, by simp, hc.1, hc.2⟩
          · exact Or.inr h1
        · rw [if_neg hn] at h
          exact shift apt h
    · rw [if_neg hc] at h
      exact shift apt h

theorem recordDenizen_inv (F : FrameInfo) (id : ID) (inst scope_end b : Int)
    (hb : b ≤ inst) (hend : lifetimeEnd F id = some scope_end) :
    ∀ (l : List FrameSharingInfo) (k : Nat) (s0 : FrameSharingInfo),
      (∀ s ∈ l, SlotInv F b s) → l[k]? = some s0 → s0.scope_end ≤ inst →
      ∀ s ∈ recordDenizen id inst scope_end l k, SlotInv F inst s := by
  intro l
  induction l with
  | nil => intro k s0 _ hk; simp at hk
  | cons t rest ih =>
    intro k s0 hall hk hs0 s hs
    cases k with
    | zero =>
      simp only [List.getElem?_cons_zero, Option.some.injEq] at hk
      subst hk
      simp only [recordDenizen, List.mem_cons] at hs
      rcases hs with rfl | hs
      · have ht := hall t (List.mem_cons_self _ _)
        have hz : (t.ids ++ [id]).zip (t.id_start ++ [inst]) =
            t.ids.zip t.id_start ++ [(id, inst)] := by
          rw [List.zip_append ht.len]; rfl
        refine ⟨by simp [ht.len], ?_, ?_⟩
        · show ((t.ids ++ [id]).zip (t.id_start ++ [inst])).Pairwise (EndsBefore F)
          rw [hz, List.pairwise_append]
          refine ⟨ht.pw, List.pairwise_singleton _ _, ?_⟩
          intro x hx y hy
          simp only [List.mem_singleton] at hy
          subst hy
          obtain ⟨e, he, hle⟩ := ht.ends x hx
          refine ⟨e, he, ?_⟩
          rcases hle with h1 | h1
          · exact le_trans h1 hs0
          · exact le_trans h1 hb
        · intro x hx
          change x ∈ (t.ids ++ [id]).zip (t.id_start ++ [inst]) at hx
          rw [hz, List.mem_append] at hx
          rcases hx with hx | hx
          · obtain ⟨e, he, hle⟩ := ht.ends x hx
            refine ⟨e, he, Or.inr ?_⟩
            rcases hle with h1 | h1
            · exact le_trans h1 hs0
            · exact le_trans h1 hb
          · simp only [List.mem_singleton] at hx
            subst hx
            exact ⟨scope_end, hend, Or.inl (le_refl _)⟩
      · exact (hall s (List.mem_cons_of_mem _ hs)).mono hb
    | succ k =>
      simp only [List.getElem?_cons_succ] at hk
      simp only [recordDenizen, List.mem_cons] at hs
      rcases hs with rfl | hs
      · exact (hall s (List.mem_cons_self _ _)).mono hb
      · exact ih k s0 (fun s hs => hall s (List.mem_cons_of_mem _ hs)) hk hs0 s hs

theorem ReMapVar_inv (F : FrameInfo) (st : ReMapState) (id : ID) (inst b : Int)
    (hb : b ≤ inst) (hall : ∀ s ∈ st.shared_frame_denizens, SlotInv F b s) :
    ∀ s ∈ (ReMapVar F st id (F.frame_layout1 id) inst).shared_frame_denizens,
      SlotInv F inst s := by
  unfold ReMapVar
  cases hend : F.denizen_ending (F.frame_layout1 id) with
  | none => exact fun s hs => (hall s hs).mono hb
  | some scope_end =>
    simp only
    cases hsearch : aptSlotSearch (F.isManagedType id) inst st.shared_frame_denizens 0 none with
    | none =>
      simp only
      let info : FrameSharingInfo :=
        { ids := [], id_start := [], scope_end := -1, is_managed := F.isManagedType id }
      have hinfo : SlotInv F b { info with scope_end := inst } :=
        ⟨rfl, by simp [FrameSharingInfo.entries, info],
          by simp [FrameSharingInfo.entries, info]⟩
      -- the fresh slot is recorded with an arbitrary compatible end of scope
      have key : ∀ (l : List FrameSharingInfo), (∀ s ∈ l, SlotInv F b s) →
          ∀ s ∈ recordDenizen id inst scope_end (l ++ [info]) l.length,
            SlotInv F inst s := by
        intro l
        induction l with
        | nil =>
          intro _ s hs
          simp only [List.nil_append, List.length_nil, recordDenizen,
            List.mem_singleton] at hs
          subst hs
          refine ⟨rfl, by simp [FrameSharingInfo.entries, info], ?_⟩
          intro x hx
          simp only [FrameSharingInfo.entries, info, List.nil_append, List.zip_cons_cons,
            List.zip_nil_right, List.mem_singleton] at hx
          subst hx
          exact ⟨scope_end, hend, Or.inl (le_refl _)⟩
        | cons t rest ih =>
          intro hl s hs
          simp only [List.cons_append, List.length_cons, recordDenizen, List.mem_cons] at hs
          rcases hs with rfl | hs
          · exact (hl s (List.mem_cons_self _ _)).mono hb
          · exact ih (fun s hs => hl s (List.mem_cons_of_mem _ hs)) s hs
      exact key _ hall
    | some apt_slot =>
      simp only
      rcases aptSlotSearch_spec _ _ _ _ _ _ hsearch with h1 | ⟨s0, _, hs0, hle, _⟩
      · simp at h1
      · simp only [Nat.sub_zero] at hs0
        exact recordDenizen_inv F id inst scope_end b hb hend _ _ s0 hall hs0 hle

theorem ReMapFrame_vars_inv (F : FrameInfo) (i : Nat) :
    ∀ (vars : List ID) (st : ReMapState) (b : Int), b ≤ (i : Int) →
      (∀ s ∈ st.shared_frame_denizens, SlotInv F b s) →
      ∀ s ∈ (ReMapFrame_vars F i vars st).shared_frame_denizens, SlotInv F (i : Int) s := by
  intro vars
  induction vars with
  | nil => intro st b hb hall s hs; exact (hall s hs).mono hb
  | cons v vs ih =>
    intro st b hb hall
    simp only [ReMapFrame_vars]
    split
    · exact ih _ (i : Int) (le_refl _) (ReMapVar_inv F st v (i : Int) b hb hall)
    · exact ih st b hb hall

theorem ReMapFrame_step_inv (F : FrameInfo) (i : Nat) (st : ReMapState) (b : Int)
    (hb : b ≤ (i : Int)) (hall : ∀ s ∈ st.shared_frame_denizens, SlotInv F b s) :
    ∀ s ∈ (ReMapFrame_step F st i).shared_frame_denizens, SlotInv F (i : Int) s := by
  unfold ReMapFrame_step
  split
  · exact fun s hs => (hall s hs).mono hb
  · exact ReMapFrame_vars_inv F i _ st b hb hall

theorem ReMapFrame_assign_inv (F : FrameInfo) (n : Nat) :
    ∀ s ∈ (ReMapFrame_assign F n).shared_frame_denizens, SlotInv F (n : Int) s := by
  unfold ReMapFrame_assign
  induction n with
  | zero => intro s hs; simp at hs
  | succ n ih =>
    rw [List.range_succ, List.foldl_append]
    simp only [List.foldl_cons, List.foldl_nil]
    intro s hs
    exact (ReMapFrame_step_inv F n _ (n : Int) (le_refl _) ih s hs).mono (by push_cast; omega)

/-- C2: after the slot assignment of `ReMapFrame`, in every shared frame slot
the identifiers and their start instructions are recorded in step, and for any
two identifiers of the slot the one mapped earlier (position `j`) has its
lifetime end (the `inst_num` of its `denizen_ending` instruction) at or before
the instruction at which the one mapped later (position `k`) starts: live
ranges of identifiers that share a slot do not overlap. -/
theorem ReMapFrame_shared_slot_lifetimes_disjoint (F : FrameInfo) (n : Nat) :
    ∀ s ∈ (ReMapFrame_assign F n).shared_frame_denizens,
      s.ids.length = s.id_start.length ∧
      ∀ (j k : Nat) (a : ID) (start_k : Int), j < k →
        s.ids[j]? = some a → s.id_start[k]? = some start_k →
        ∃ e, lifetimeEnd F a = some e ∧ e ≤ start_k := by
  intro s hs
  have inv := ReMapFrame_assign_inv F n s hs
  refine ⟨inv.len, ?_⟩
  intro j k a start_k hjk ha hk
  obtain ⟨hk', hkv⟩ := List.getElem?_eq_some.1 hk
  obtain ⟨hj', hjv⟩ := List.getElem?_eq_some.1 ha
  have hlen : s.entries.length = s.ids.length := by
    simp [FrameSharingInfo.entries, inv.len]
  have hjl : j < s.entries.length := by omega
  have hkl : k < s.entries.length := by rw [hlen, inv.len]; exact hk'
  have := List.pairwise_iff_getElem.1 inv.pw j k hjl hkl hjk
  obtain ⟨e, he, hle⟩ := this
  have e1 : (s.entries[j]).1 = a := by
    simp [FrameSharingInfo.entries, hjv]
  have e2 : (s.entries[k]).2 = start_k := by
    simp [FrameSharingInfo.entries, hkv]
  rw [e1] at he; rw [e2] at hle
  exact ⟨e, he, hle⟩

/-- In the example frame both identifiers share one slot; the first one's
lifetime ends (at 1) before the second one starts (at 2). -/
theorem ReMapFrame_shared_slot_lifetimes_disjoint_witness :
    (ReMapFrame_assign exampleFrame 4).shared_frame_denizens =
      [{ ids := [0, 1], id_start := [0, 2], scope_end := 3, is_managed := false }] ∧
    ∃ e, lifetimeEnd exampleFrame 0 = some e ∧ e ≤ 2 :=
  ⟨by decide,
   (ReMapFrame_shared_slot_lifetimes_disjoint exampleFrame 4
      { ids := [0, 1], id_start := [0, 2], scope_end := 3, is_managed := false }
      (by decide)).2 0 1 0 2 (by decide) rfl rfl⟩

end ZAM

namespace ZAM

/-! ## `PruneUnused` -/

theorem updAt_length (f : ZInstI → ZInstI) :
    ∀ (l : List ZInstI) (k : Nat), (updAt f l k).length = l.length := by
  intro l
  induction l with
  | nil => intro k; rfl
  | cons x xs ih => intro k; cases k <;> simp [updAt, ih]

theorem getElem?_updAt (f : ZInstI → ZInstI) :
    ∀ (l : List ZInstI) (k j : Nat),
      (updAt f l k)[j]? = if j = k then (l[j]?).map f else l[j]? := by
  intro l
  induction l with
  | nil => intro k j; simp [updAt]
  | cons x xs ih =>
    intro k j
    cases k with
    | zero => cases j <;> simp [updAt]
    | succ k => cases j <;> simp [updAt, ih]

theorem decLabel_length (l : List ZInstI) (t : Option Nat) :
    (decLabel l t).length = l.length := by
  cases t <;> simp [decLabel, updAt_length]

theorem decLabel_core (l : List ZInstI) (t : Option Nat) (j : Nat) :
    ((decLabel l t)[j]?).map ZInstI.core = (l[j]?).map ZInstI.core := by
  cases t with
  | none => rfl
  | some t =>
    simp only [decLabel, getElem?_updAt]
    split
    · cases l[j]? <;> simp [ZInstI.core]
    · rfl

theorem KillInst_length (l : List ZInstI) (i : Nat) : (KillInst l i).length = l.length := by
  unfold KillInst
  cases l[i]? <;> simp [decLabel_length, updAt_length]

theorem KillInst_core_other (l : List ZInstI) (i j : Nat) (h : j ≠ i) :
    ((KillInst l i)[j]?).map ZInstI.core = (l[j]?).map ZInstI.core := by
  unfold KillInst
  cases l[i]? with
  | none => rfl
  | some inst =>
    simp only [decLabel_core, getElem?_updAt, if_neg h]

theorem KillInst_core_self (l : List ZInstI) (i : Nat) :
    ((KillInst l i)[i]?).map ZInstI.core =
      (l[i]?).map (fun x => ZInstI.core { x with live := false }) := by
  unfold KillInst
  cases h : l[i]? with
  | none => simp [h]
  | some inst =>
    simp only [decLabel_core, getElem?_updAt, if_true, h, Option.map_some']

theorem PruneFrame.refl (isGlobal : Int → Bool) (k : Nat) (st : PruneState) :
    PruneFrame isGlobal k st st := ⟨rfl, fun _ _ => rfl, fun _ _ => rfl⟩

theorem PruneFrame.trans {isGlobal : Int → Bool} {k : Nat} {a b c : PruneState}
    (h1 : PruneFrame isGlobal k a b) (h2 : PruneFrame isGlobal k b c) :
    PruneFrame isGlobal k a c :=
  ⟨h2.1.trans h1.1, fun j hj => (h2.2.1 j hj).trans (h1.2.1 j hj),
    fun s hs => (h2.2.2 s hs).trans (h1.2.2 s hs)⟩

theorem PruneFrame_kill (isGlobal : Int → Bool) (k : Nat) (st : PruneState) :
    PruneFrame isGlobal k st { st with insts1 := KillInst st.insts1 k, did_prune := true } :=
  ⟨KillInst_length _ _, fun _ hj => KillInst_core_other _ _ _ hj, fun _ _ => rfl⟩

theorem pruneFrameStore_frame (T : OpTables) (isGlobal : Int → Bool) (st : PruneState)
    (k : Nat) (inst : ZInstI) : PruneFrame isGlobal k st (pruneFrameStore T st k inst) := by
  unfold pruneFrameStore
  split
  · exact PruneFrame_kill isGlobal k st
  · exact PruneFrame.refl _ _ _

theorem pruneLoad_frame (T : OpTables) (isGlobal : Int → Bool) (st : PruneState)
    (k : Nat) (inst : ZInstI) : PruneFrame isGlobal k st (pruneLoad T st k inst) := by
  unfold pruneLoad
  split
  · exact PruneFrame_kill isGlobal k st
  · exact PruneFrame.refl _ _ _

theorem pruneAssignment_frame (T : OpTables) (isGlobal : Int → Bool) (st st' : PruneState)
    (k : Nat) (inst : ZInstI) (h : pruneAssignment T isGlobal st k inst = some st') :
    PruneFrame isGlobal k st st' := by
  unfold pruneAssignment at h
  split at h
  · simp only [Option.some.injEq] at h; subst h; exact PruneFrame.refl _ _ _
  simp only at h
  split at h
  · simp only [Option.some.injEq] at h; subst h; exact PruneFrame.refl _ _ _
  split at h
  · rename_i hg
    simp only [Option.some.injEq] at h; subst h
    refine ⟨rfl, fun _ _ => rfl, fun s hs => ?_⟩
    have : s ≠ inst.v1 := by intro e; rw [e, hg] at hs; exact absurd hs (by simp)
    simp only [if_neg this]
  split at h
  · simp only [Option.some.injEq] at h; subst h
    exact PruneFrame_kill isGlobal k st
  · cases ha : T.assignmentless_op inst.op with
    | none => simp [ha] at h
    | some new_op =>
      simp only [ha, Option.some.injEq] at h; subst h
      refine ⟨by simp [updAt_length], fun j hj => ?_, fun _ _ => rfl⟩
      simp only [getElem?_updAt, if_neg hj]

theorem PruneUnused_at_other (T : OpTables) (isGlobal : Int → Bool) (st st' : PruneState)
    (k : Nat) (h : PruneUnused_at T isGlobal st k = some st') :
    PruneFrame isGlobal k st st' := by
  unfold PruneUnused_at at h
  cases hk : st.insts1[k]? with
  | none => simp only [hk, Option.some.injEq] at h; subst h; exact PruneFrame.refl _ _ _
  | some inst =>
    simp only [hk] at h
    split at h
    · simp only [Option.some.injEq] at h; subst h; exact PruneFrame.refl _ _ _
    · exact ((pruneFrameStore_frame T isGlobal st k inst).trans
        (pruneLoad_frame T isGlobal _ k inst)).trans
        (pruneAssignment_frame T isGlobal _ _ k inst h)

theorem core_eq_elim {x y : ZInstI} (h : x.core = y.core) :
    ∃ n, y = { x with num_labels := n } := by
  refine ⟨y.num_labels, ?_⟩
  cases x; cases y
  simp only [ZInstI.core, ZInstI.mk.injEq] at h ⊢
  tauto

theorem getElem?_of_core_eq {l l' : List ZInstI} {i : Nat} {x : ZInstI}
    (h : (l'[i]?).map ZInstI.core = (l[i]?).map ZInstI.core) (hx : l[i]? = some x) :
    ∃ n, l'[i]? = some { x with num_labels := n } := by
  rw [hx] at h
  cases h' : l'[i]? with
  | none => simp [h'] at h
  | some y =>
    simp only [h', Option.map_some', Option.some.injEq] at h
    obtain ⟨n, hn⟩ := core_eq_elim h.symm
    exact ⟨n, by rw [hn]⟩

/-- The loop of `PruneUnused` over positions that do not include `i` changes
at most the label count of the instruction at `i`. -/
theorem PruneUnused_loop_other (T : OpTables) (isGlobal : Int → Bool) (i : Nat) :
    ∀ (k i0 : Nat) (st st' : PruneState), (i < i0 ∨ i0 + k ≤ i) →
      PruneUnused_loop T isGlobal k i0 st = some st' →
      (st'.insts1[i]?).map ZInstI.core = (st.insts1[i]?).map ZInstI.core := by
  intro k
  induction k with
  | zero =>
    intro i0 st st' _ h
    simp only [PruneUnused_loop, Option.some.injEq] at h
    subst h; rfl
  | succ k ih =>
    intro i0 st st' hi h
    simp only [PruneUnused_loop] at h
    cases h1 : PruneUnused_at T isGlobal st i0 with
    | none => simp [h1] at h
    | some st1 =>
      simp only [h1] at h
      rw [ih (i0 + 1) st1 st' (by omega) h]
      exact (PruneUnused_at_other T isGlobal st st1 i0 h1).2.1 i (by omega)

theorem pruneAssignment_total (T : OpTables) (isGlobal : Int → Bool) (st : PruneState)
    (k : Nat) (inst : ZInstI)
    (hfl : inst.AssignsToSlot1 T = true → st.denizen_ending inst.v1 = none →
      isGlobal inst.v1 = false → inst.HasSideEffects T = true →
      (T.assignmentless_op inst.op).isSome = true) :
    ∃ st', pruneAssignment T isGlobal st k inst = some st' := by
  unfold pruneAssignment
  split
  · exact ⟨_, rfl⟩
  rename_i ha
  simp only
  split
  · exact ⟨_, rfl⟩
  rename_i hd
  split
  · exact ⟨_, rfl⟩
  rename_i hg
  split
  · exact ⟨_, rfl⟩
  · rename_i hse
    have := hfl (by simpa using ha) (by simpa using hd) (by simpa using hg)
      (by simpa using hse)
    cases ha' : T.assignmentless_op inst.op with
    | none => simp [ha'] at this
    | some o => exact ⟨_, rfl⟩

/-- One iteration of `PruneUnused` raises no internal error when the
instruction at hand, if it is a live assignment with side effects to a slot
that is not a global's and has no lifetime end, has an assignment-less
flavor. -/
theorem PruneUnused_at_total (T : OpTables) (isGlobal : Int → Bool) (st : PruneState)
    (i0 : Nat)
    (hfl : ∀ z, st.insts1[i0]? = some z → z.live = true → z.AssignsToSlot1 T = true →
      st.denizen_ending z.v1 = none → isGlobal z.v1 = false → z.HasSideEffects T = true →
      (T.assignmentless_op z.op).isSome = true) :
    ∃ st1, PruneUnused_at T isGlobal st i0 = some st1 := by
  unfold PruneUnused_at
  cases hk : st.insts1[i0]? with
  | none => exact ⟨_, rfl⟩
  | some inst =>
    simp only
    split
    · exact ⟨_, rfl⟩
    · rename_i hl
      apply pruneAssignment_total
      intro ha hd hg hse
      have hf := (pruneFrameStore_frame T isGlobal st i0 inst).trans
        (pruneLoad_frame T isGlobal _ i0 inst)
      rw [hf.2.2 _ hg] at hd
      exact hfl inst hk (by simpa using hl) ha hd hg hse

/-- The condition under which the rest of the loop raises no internal error
carries over one iteration: the instructions still to come and the lifetime
ends of their slots are as before. -/
theorem PruneUnused_flavors_step (T : OpTables) (isGlobal : Int → Bool)
    (st st1 : PruneState) (i0 : Nat) (hother : PruneFrame isGlobal i0 st st1)
    (hfl : ∀ j z, i0 ≤ j → st.insts1[j]? = some z → z.live = true →
      z.AssignsToSlot1 T = true → st.denizen_ending z.v1 = none → isGlobal z.v1 = false →
      z.HasSideEffects T = true → (T.assignmentless_op z.op).isSome = true) :
    ∀ j z, i0 + 1 ≤ j → st1.insts1[j]? = some z → z.live = true →
      z.AssignsToSlot1 T = true → st1.denizen_ending z.v1 = none → isGlobal z.v1 = false →
      z.HasSideEffects T = true → (T.assignmentless_op z.op).isSome = true := by
  intro j z hj hz hl ha hd hg hse
  obtain ⟨m, hm⟩ := getElem?_of_core_eq (hother.2.1 j (by omega)).symm hz
  rw [hother.2.2 _ hg] at hd
  exact hfl j { z with num_labels := m } (by omega) hm hl ha hd hg hse

/-- The loop of `PruneUnused` raises no internal error when every live
assignment with side effects that it has yet to visit, to a slot that is not
a global's and has no lifetime end, has an assignment-less flavor. -/
theorem PruneUnused_loop_total (T : OpTables) (isGlobal : Int → Bool) :
    ∀ (k i0 : Nat) (st : PruneState),
      (∀ j z, i0 ≤ j → st.insts1[j]? = some z → z.live = true →
        z.AssignsToSlot1 T = true → st.denizen_ending z.v1 = none → isGlobal z.v1 = false →
        z.HasSideEffects T = true → (T.assignmentless_op z.op).isSome = true) →
      ∃ st', PruneUnused_loop T isGlobal k i0 st = some st' := by
  intro k
  induction k with
  | zero => intro i0 st _; exact ⟨st, rfl⟩
  | succ k ih =>
    intro i0 st hfl
    obtain ⟨st1, h1⟩ := PruneUnused_at_total T isGlobal st i0
      (fun z hz => hfl i0 z (le_refl _) hz)
    have hother := PruneUnused_at_other T isGlobal st st1 i0 h1
    obtain ⟨st', h'⟩ := ih (i0 + 1) st1
      (PruneUnused_flavors_step T isGlobal st st1 i0 hother hfl)
    exact ⟨st', by simp only [PruneUnused_loop, h1, h']⟩

/-- The step of `PruneUnused` at an instruction whose slot-1 assignment is
unused. -/
theorem PruneUnused_at_self (T : OpTables) (isGlobal : Int → Bool) (st : PruneState)
    (i : Nat) (x : ZInstI) (hx : st.insts1[i]? = some x) (hlive : x.live = true)
    (hassign : x.AssignsToSlot1 T = true) (hnoend : st.denizen_ending x.v1 = none)
    (hlocal : isGlobal x.v1 = false)
    (hfl : x.HasSideEffects T = true → (T.assignmentless_op x.op).isSome = true)
    (hload : x.HasSideEffects T = true → x.IsLoad T = false ∧ x.IsFrameStore T = false) :
    ∃ st' y, PruneUnused_at T isGlobal st i = some st' ∧ st'.insts1[i]? = some y ∧
      PrunedAssignment T x y := by
  unfold PruneUnused_at
  simp only [hx, hlive, Bool.not_true, Bool.false_eq_true, if_false]
  by_cases hse : x.HasSideEffects T = true
  · obtain ⟨hl, hs⟩ := hload hse
    have e1 : pruneFrameStore T st i x = st := by simp [pruneFrameStore, hs]
    have e2 : pruneLoad T st i x = st := by simp [pruneLoad, hl]
    rw [e1, e2]
    have := hfl hse
    cases ha : T.assignmentless_op x.op with
    | none => simp [ha] at this
    | some o =>
      have hpa : pruneAssignment T isGlobal st i x = some { st with
          insts1 := updAt (fun z =>
            { z with op_type := T.assignmentless_op_type x.op, op := o,
                     v1 := z.v2, v2 := z.v3, v3 := z.v4 }) st.insts1 i
          did_prune := true } := by
        simp only [pruneAssignment, hassign, hnoend, hlocal, hse, ha, Bool.not_true,
          Bool.false_eq_true, if_false, Option.isSome_none]
      refine ⟨_, { x with op_type := T.assignmentless_op_type x.op, op := o,
                          v1 := x.v2, v2 := x.v3, v3 := x.v4 }, hpa, ?_, ?_⟩
      · simp [getElem?_updAt, hx]
      · refine ⟨fun h => absurd (hse.symm.trans h) (by simp), fun _ => ?_⟩
        simp [hlive, ha]
  · simp only [Bool.not_eq_true] at hse
    have hf := (pruneFrameStore_frame T isGlobal st i x).trans
      (pruneLoad_frame T isGlobal (pruneFrameStore T st i x) i x)
    generalize pruneLoad T (pruneFrameStore T st i x) i x = st2 at hf
    have hd : st2.denizen_ending x.v1 = none := by rw [hf.2.2 _ hlocal]; exact hnoend
    have hi : i < st2.insts1.length := by
      rw [hf.1]; exact (List.getElem?_eq_some.1 hx).1
    have hfin := KillInst_core_self st2.insts1 i
    rw [List.getElem?_eq_getElem hi] at hfin
    cases hk : (KillInst st2.insts1 i)[i]? with
    | none => simp [hk] at hfin
    | some y =>
      simp only [hk, Option.map_some', Option.some.injEq] at hfin
      have hpa : pruneAssignment T isGlobal st2 i x =
          some { st2 with insts1 := KillInst st2.insts1 i, did_prune := true } := by
        simp only [pruneAssignment, hassign, hd, hlocal, hse, Bool.not_true, Bool.not_false,
          Bool.false_eq_true, if_false, if_true, Option.isSome_none]
      refine ⟨_, y, hpa, hk, fun _ => ?_, fun h => absurd (hse.symm.trans h) (by simp)⟩
      have := congrArg ZInstI.live hfin
      simpa [ZInstI.core] using this

theorem PrunedAssignment_core {T : OpTables} {x y : ZInstI} (n m : Int)
    (h : PrunedAssignment T { x with num_labels := n } y) :
    PrunedAssignment T x { y with num_labels := m } := h

/-- The loop of `PruneUnused`, once it reaches position `i`, has done to the
instruction there what `PrunedAssignment` says. -/
theorem PruneUnused_loop_self (T : OpTables) (isGlobal : Int → Bool)
    (i : Nat) (x : ZInstI) (hlive : x.live = true) (hassign : x.AssignsToSlot1 T = true)
    (hlocal : isGlobal x.v1 = false)
    (hloads : x.HasSideEffects T = true → x.IsLoad T = false ∧ x.IsFrameStore T = false) :
    ∀ (k i0 : Nat) (st : PruneState), i0 ≤ i → i < i0 + k →
      (∃ n, st.insts1[i]? = some { x with num_labels := n }) →
      st.denizen_ending x.v1 = none →
      (∀ j z, i0 ≤ j → st.insts1[j]? = some z → z.live = true →
        z.AssignsToSlot1 T = true → st.denizen_ending z.v1 = none → isGlobal z.v1 = false →
        z.HasSideEffects T = true → (T.assignmentless_op z.op).isSome = true) →
      ∃ st' y, PruneUnused_loop T isGlobal k i0 st = some st' ∧ st'.insts1[i]? = some y ∧
        PrunedAssignment T x y := by
  intro k
  induction k with
  | zero => intro i0 st h1 h2; omega
  | succ k ih =>
    intro i0 st h1 h2 ⟨n, hx⟩ hnoend hfl
    by_cases he : i0 = i
    · subst he
      obtain ⟨st1, y, hs1, hy, hp⟩ := PruneUnused_at_self T isGlobal st i0
        { x with num_labels := n } hx hlive hassign hnoend hlocal
        (hfl i0 _ (le_refl _) hx hlive hassign hnoend hlocal) hloads
      have hother := PruneUnused_at_other T isGlobal st st1 i0 hs1
      obtain ⟨st', h'⟩ := PruneUnused_loop_total T isGlobal k (i0 + 1) st1
        (PruneUnused_flavors_step T isGlobal st st1 i0 hother hfl)
      have hc := PruneUnused_loop_other T isGlobal i0 k (i0 + 1) st1 st' (Or.inl (by omega)) h'
      obtain ⟨m, hm⟩ := getElem?_of_core_eq hc hy
      exact ⟨st', _, by simp only [PruneUnused_loop, hs1, h'], hm,
        PrunedAssignment_core n m hp⟩
    · obtain ⟨st1, hs1⟩ := PruneUnused_at_total T isGlobal st i0
        (fun z hz => hfl i0 z (le_refl _) hz)
      have hother := PruneUnused_at_other T isGlobal st st1 i0 hs1
      obtain ⟨m, hm⟩ := getElem?_of_core_eq (hother.2.1 i (by omega)) hx
      have hnoend1 : st1.denizen_ending x.v1 = none := by
        rw [hother.2.2 _ hlocal]; exact hnoend
      obtain ⟨st', y, h', hy, hp⟩ := ih (i0 + 1) st1 (by omega) (by omega) ⟨m, hm⟩ hnoend1
        (PruneUnused_flavors_step T isGlobal st st1 i0 hother hfl)
      exact ⟨st', y, by simp only [PruneUnused_loop, hs1, h'], hy, hp⟩

/-- C9: let `x` be a live instruction of `insts1` that assigns to slot 1,
where the slot belongs to a non-global identifier and has no lifetime end.
`PruneUnused` returns, and afterwards the instruction at that position is
dead when `x` has no side effects; when `x` has side effects it is live, its
opcode and operand type are the assignment-less flavor of `x`'s opcode, and
its operands `v1, v2, v3` are `x`'s `v2, v3, v4`.  The generated opcode
tables are parameters.  Taken of them is what the code itself consults: the
instructions for which `PruneUnused` looks up the assignment-less flavor
(the live assignments with side effects to a slot that is not a global's and
has no lifetime end) have one, as otherwise `PruneUnused` raises its
internal error and returns nothing; and `x`, when it has side effects, is
neither a load nor a frame store, which the two earlier rules of the loop
body handle. -/
theorem PruneUnused_unused_assignment (T : OpTables) (isGlobal : Int → Bool)
    (insts1 : List ZInstI) (denizen_ending : Int → Option Nat) (i : Nat) (x : ZInstI)
    (hflavors : ∀ z ∈ insts1, z.live = true → z.AssignsToSlot1 T = true →
      denizen_ending z.v1 = none → isGlobal z.v1 = false → z.HasSideEffects T = true →
      (T.assignmentless_op z.op).isSome = true)
    (hloads : x.HasSideEffects T = true → x.IsLoad T = false ∧ x.IsFrameStore T = false)
    (hx : insts1[i]? = some x) (hlive : x.live = true)
    (hassign : x.AssignsToSlot1 T = true) (hnoend : denizen_ending x.v1 = none)
    (hlocal : isGlobal x.v1 = false) :
    ∃ st' y, PruneUnused T isGlobal insts1 denizen_ending = some st' ∧
      st'.insts1[i]? = some y ∧
      (x.HasSideEffects T = false → y.live = false) ∧
      (x.HasSideEffects T = true →
        y.live = true ∧ some y.op = T.assignmentless_op x.op ∧
        y.op_type = T.assignmentless_op_type x.op ∧
        y.v1 = x.v2 ∧ y.v2 = x.v3 ∧ y.v3 = x.v4) := by
  have hi : i < insts1.length := (List.getElem?_eq_some.1 hx).1
  exact PruneUnused_loop_self T isGlobal i x hlive hassign hlocal hloads insts1.length 0
    { insts1 := insts1, denizen_ending := denizen_ending, did_prune := false }
    (Nat.zero_le _) (by omega) ⟨x.num_labels, hx⟩ hnoend
    (fun j z _ hz => hflavors z (List.getElem?_mem hz))

/-- The array `[notify, copy, call]` of the worked example: `notify` has side
effects, assigns to nothing and has no assignment-less flavor; `PruneUnused`
returns, and the unused assignment of the side-effecting `call` at position
2 is re-flavored. -/
theorem PruneUnused_unused_assignment_witness :
    ∃ st' y, PruneUnused exampleTables (fun _ => false)
        [exampleNotify, exampleCopy, exampleCall] (fun _ => none) = some st' ∧
      st'.insts1[2]? = some y ∧
      (exampleCall.HasSideEffects exampleTables = false → y.live = false) ∧
      (exampleCall.HasSideEffects exampleTables = true →
        y.live = true ∧ some y.op = exampleTables.assignmentless_op exampleCall.op ∧
        y.op_type = exampleTables.assignmentless_op_type exampleCall.op ∧
        y.v1 = exampleCall.v2 ∧ y.v2 = exampleCall.v3 ∧ y.v3 = exampleCall.v4) :=
  PruneUnused_unused_assignment exampleTables (fun _ => false)
    [exampleNotify, exampleCopy, exampleCall]
    (fun _ => none) 2 exampleCall (by decide) (fun _ => ⟨rfl, rfl⟩) rfl rfl rfl rfl rfl

end ZAM

namespace Zeek

open TypeTag InternalTypeTag BroExprTag

/-! ## Algebraic simplifications of `Reduce` -/

/-- C10: `Reduce` of an `AddExpr` with a constant-zero operand, of a `SubExpr`
with a constant-zero second operand, of a `TimesExpr` with a constant-one
operand and of a `DivideExpr` that is not of subnet type with a constant-one
second operand is exactly `ReduceToSingleton` of the other operand (so
nothing is emitted for the node itself); and `1 + 0` reduces to the constant
`1` with no companion statement. -/
theorem Reduce_identity_operand (n : Nat) (c : Reducer) (op1 op2 : Expr) (type : BroType) :
    (op1.IsZero = true →
      Reduce (n + 1) c (.binary EXPR_ADD op1 op2 type) = ReduceToSingleton n c op2) ∧
    (op2.IsZero = true → op1.IsZero = false →
      Reduce (n + 1) c (.binary EXPR_ADD op1 op2 type) = ReduceToSingleton n c op1) ∧
    (op2.IsZero = true →
      Reduce (n + 1) c (.binary EXPR_SUB op1 op2 type) = ReduceToSingleton n c op1) ∧
    (op1.IsOne = true →
      Reduce (n + 1) c (.binary EXPR_TIMES op1 op2 type) = ReduceToSingleton n c op2) ∧
    (op2.IsOne = true → op1.IsOne = false →
      Reduce (n + 1) c (.binary EXPR_TIMES op1 op2 type) = ReduceToSingleton n c op1) ∧
    (type.Tag ≠ TYPE_SUBNET → op2.IsOne = true →
      Reduce (n + 1) c (.binary EXPR_DIVIDE op1 op2 type) = ReduceToSingleton n c op1) ∧
    Reduce (n + 3) c (mkAddExpr (countConst 1) (countConst 0)) =
      .ok (countConst 1, none, c) := by
  refine ⟨?_, ?_, ?_, ?_, ?_, ?_, ?_⟩
  · intro h; simp [Reduce, ReduceToSingleton, red, AddExpr_Reduce, h]
  · intro h2 h1; simp [Reduce, ReduceToSingleton, red, AddExpr_Reduce, h1, h2]
  · intro h; simp [Reduce, ReduceToSingleton, red, SubExpr_Reduce, h]
  · intro h; simp [Reduce, ReduceToSingleton, red, TimesExpr_Reduce, h]
  · intro h2 h1; simp [Reduce, ReduceToSingleton, red, TimesExpr_Reduce, h1, h2]
  · intro ht h; simp [Reduce, ReduceToSingleton, red, DivideExpr_Reduce, h, ht]
  · rfl

/-- `0 + x` for a local `x` reduces as `x` does. -/
theorem Reduce_identity_operand_witness :
    Reduce 3 plainReducer
        (.binary EXPR_ADD (countConst 0) (.name (localVar 1 TYPE_COUNT)) (base_type TYPE_COUNT)) =
      ReduceToSingleton 2 plainReducer (.name (localVar 1 TYPE_COUNT)) :=
  (Reduce_identity_operand 2 plainReducer (countConst 0) (.name (localVar 1 TYPE_COUNT))
    (base_type TYPE_COUNT)).1 rfl

end Zeek

namespace Zeek

open TypeTag InternalTypeTag BroExprTag

/-! ## `BoolExpr::Reduce` -/

theorem IsOne_of_not_const {e : Expr} (h : e.IsConst = false) : e.IsOne = false := by
  cases e <;> simp_all [Expr.IsOne, Expr.IsConst, Expr.Tag]

theorem IsZero_of_not_const {e : Expr} (h : e.IsConst = false) : e.IsZero = false := by
  cases e <;> simp_all [Expr.IsZero, Expr.IsConst, Expr.Tag]

theorem not_cascade_const_left (tag : BroExprTag) (v : Val) (e : Expr) (type : BroType) :
    (is_pattern_cascade (.binary tag (.const v) e type) none).isSome = false ∨
      tag ≠ EXPR_OR_OR := by
  by_cases h : tag = EXPR_OR_OR
  · left; subst h; simp [is_pattern_cascade]
  · right; exact h

theorem not_cascade_const_right (tag : BroExprTag) (v : Val) (e : Expr) (type : BroType) :
    (is_pattern_cascade (.binary tag e (.const v) type) none).isSome = false ∨
      tag ≠ EXPR_OR_OR := by
  by_cases h : tag = EXPR_OR_OR
  · left; subst h
    simp only [is_pattern_cascade]
    cases is_pattern_cascade e none <;> simp [is_pattern_cascade]
  · right; exact h

theorem red_toSingleton_const (n : Nat) (c : Reducer) (v : Val) :
    red (n + 2) .toSingleton c (.const v) = .ok (.const v, none, c) := by
  simp [red]

theorem red_reduce_bool (n : Nat) (c : Reducer) (tag : BroExprTag) (op1 op2 : Expr)
    (type : BroType) (htag : tag = EXPR_AND_AND ∨ tag = EXPR_OR_OR) :
    red (n + 1) .reduce c (.binary tag op1 op2 type) =
      BoolExpr_Reduce (red n .toSingleton) c tag op1 op2 type := by
  rcases htag with rfl | rfl <;> rfl

/-- `BoolExpr::Reduce` when the first operand is the boolean constant `b`. -/
theorem BoolExpr_Reduce_const_first (n : Nat) (c : Reducer) (tag : BroExprTag) (e : Expr)
    (b : Bool) (type : BroType) (htag : tag = EXPR_AND_AND ∨ tag = EXPR_OR_OR) :
    Reduce (n + 3) c (.binary tag (boolConst b) e type) =
      if decide (tag = EXPR_AND_AND) = b then ReduceToSingleton (n + 2) c e
      else .ok (boolConst b, none, c) := by
  have hc := not_cascade_const_left tag (GetBool b) e type
  rw [Reduce, red_reduce_bool _ _ _ _ _ _ htag, ReduceToSingleton]
  rcases htag with rfl | rfl <;> cases b <;>
    simp [BoolExpr_Reduce, boolConst, GetBool, Expr.IsOne, red_toSingleton_const,
      Expr.IsZero, Val.IsOne, Val.IsZero, is_pattern_cascade]

/-- `BoolExpr::Reduce` when the second operand is the boolean constant `b` and
the first, not a constant, has no side effects. -/
theorem BoolExpr_Reduce_const_second (n : Nat) (c : Reducer) (tag : BroExprTag) (e : Expr)
    (b : Bool) (type : BroType) (htag : tag = EXPR_AND_AND ∨ tag = EXPR_OR_OR)
    (he : e.IsConst = false) (hpure : e.HasNoSideEffects = true) :
    Reduce (n + 3) c (.binary tag e (boolConst b) type) =
      if decide (tag = EXPR_AND_AND) = b then ReduceToSingleton (n + 2) c e
      else .ok (boolConst b, none, c) := by
  have h1 := IsOne_of_not_const he
  have h0 := IsZero_of_not_const he
  have hc := not_cascade_const_right tag (GetBool b) e type
  rw [Reduce, red_reduce_bool _ _ _ _ _ _ htag, ReduceToSingleton]
  rcases htag with rfl | rfl <;> cases b <;>
    simp_all [BoolExpr_Reduce, boolConst, GetBool, Expr.IsOne, red_toSingleton_const,
      Expr.IsZero, Val.IsOne, Val.IsZero]

/-- `BoolExpr::Reduce` when the second operand is the boolean constant `b` and
the first has side effects: the node is lowered to a conditional. -/
theorem BoolExpr_Reduce_effects_first (n : Nat) (c : Reducer) (tag : BroExprTag) (e : Expr)
    (b : Bool) (type : BroType) (htag : tag = EXPR_AND_AND ∨ tag = EXPR_OR_OR)
    (he : e.IsConst = false) (heff : e.HasNoSideEffects = false) :
    Reduce (n + 2) c (.binary tag e (boolConst b) type) =
      ReduceToSingleton (n + 1) c
        (if tag = EXPR_AND_AND then mkCondExpr e (boolConst b) (boolConst false)
         else mkCondExpr e (boolConst true) (boolConst b)) := by
  have h1 := IsOne_of_not_const he
  have h0 := IsZero_of_not_const he
  have hc := not_cascade_const_right tag (GetBool b) e type
  rw [Reduce, ReduceToSingleton]
  rcases htag with rfl | rfl
  · rw [red_reduce_bool _ _ _ _ _ _ (Or.inl rfl)]
    cases b <;> simp_all [BoolExpr_Reduce, boolConst, GetBool, Expr.IsOne,
      Expr.IsZero, Val.IsOne, Val.IsZero]
  · rw [red_reduce_bool _ _ _ _ _ _ (Or.inr rfl)]
    cases b <;> simp_all [BoolExpr_Reduce, boolConst, GetBool, Expr.IsOne,
      Expr.IsZero, Val.IsOne, Val.IsZero]

end Zeek
namespace Zeek

open TypeTag InternalTypeTag BroExprTag

theorem reduceElems_singletons (step : Reducer → Expr → Red) (c : Reducer) (s : Option Stmt) :
    ∀ es : List Expr, (∀ a ∈ es, IsSingleton c a = true) →
      reduceElems step es c s = .ok (es, s, c)
  | [], _ => rfl
  | e :: es, h => by
    have he : IsSingleton c e = true := h e (List.mem_cons_self _ _)
    have hes := reduceElems_singletons step c s es (fun a ha => h a (List.mem_cons_of_mem _ ha))
    simp [reduceElems, he, hes]

/-- `CallExpr::Reduce` outside optimizing mode, for a call of non-void type
whose function and arguments are singletons: the call is assigned to a new
temporary. -/
theorem CallExpr_Reduce_singletons (toS : Reducer → Expr → Red) (c : Reducer)
    (func args : Expr) (type : BroType) (hopt : c.Optimizing = false)
    (hf : IsSingleton c func = true) (hargs : ∀ a ∈ args.elems, IsSingleton c a = true)
    (hlist : Expr.ofElems args.elems = args) (hvoid : type.Tag ≠ TYPE_VOID) :
    CallExpr_Reduce toS c func args type =
      .ok (AssignToTemporary c (.call func args type) (.call func args type) none) := by
  have hl : ListExpr_Reduce toS c args = .ok (args, none, c) := by
    simp [ListExpr_Reduce, hopt, reduceElems_singletons toS c none _ hargs, hlist]
  simp only [CallExpr_Reduce, hopt, reduceOperand, hf]
  simp [hl, hvoid, MergeStmts, bind, Except.bind, pure, Except.pure]

theorem red_reduce_call (n : Nat) (c : Reducer) (func args : Expr) (type : BroType) :
    red (n + 1) .reduce c (.call func args type) =
      CallExpr_Reduce (red n .toSingleton) c func args type := rfl

theorem red_toSingleton_call (n : Nat) (c : Reducer) (func args : Expr) (type : BroType) :
    red (n + 1) .toSingleton c (.call func args type) =
      red n .reduce c (.call func args type) := rfl

theorem red_reduce_cond (n : Nat) (c : Reducer) (op1 op2 op3 : Expr) (type : BroType) :
    red (n + 1) .reduce c (.cond op1 op2 op3 type) =
      CondExpr_Reduce (red n .toSingleton) c op1 op2 op3 type := rfl

theorem red_toSingleton_cond (n : Nat) (c : Reducer) (op1 op2 op3 : Expr) (type : BroType) :
    red (n + 1) .toSingleton c (.cond op1 op2 op3 type) =
      red n .reduce c (.cond op1 op2 op3 type) := rfl

theorem mkCondExpr_boolConst (e : Expr) (x y : Bool) :
    ∃ ty, mkCondExpr e (boolConst x) (boolConst y) = .cond e (boolConst x) (boolConst y) ty := by
  unfold mkCondExpr
  have hb : ∀ z, baseTag (boolConst z) = TYPE_BOOL := by intro z; cases z <;> rfl
  simp only [hb]
  split_ifs <;> first | exact ⟨_, rfl⟩ | (exfalso; revert ‹BothArithmetic _ _ = true›; decide)

/-- The conditional `call ? x : y` over boolean constants, outside optimizing
mode, for a non-void call with singleton function and arguments. -/
theorem CondExpr_Reduce_call_eq (n : Nat) (c : Reducer) (func args : Expr) (type ty : BroType)
    (x y : Bool) (hopt : c.Optimizing = false)
    (hf : IsSingleton c func = true) (hargs : ∀ a ∈ args.elems, IsSingleton c a = true)
    (hlist : Expr.ofElems args.elems = args) (hvoid : type.Tag ≠ TYPE_VOID) :
    red (n + 3) .reduce c (.cond (.call func args type) (boolConst x) (boolConst y) ty) =
      .ok (if x = y then
             (boolConst x,
              (AssignToTemporary c (.call func args type) (.call func args type) none).2.1,
              (AssignToTemporary c (.call func args type) (.call func args type) none).2.2)
           else
             AssignToTemporary
               (AssignToTemporary c (.call func args type) (.call func args type) none).2.2
               (.cond (AssignToTemporary c (.call func args type) (.call func args type) none).1
                 (boolConst x) (boolConst y) ty)
               (.cond (AssignToTemporary c (.call func args type) (.call func args type) none).1
                 (boolConst x) (boolConst y) ty)
               (AssignToTemporary c (.call func args type) (.call func args type) none).2.1) := by
  have hcall := CallExpr_Reduce_singletons (red n .toSingleton) c func args type hopt hf hargs
    hlist hvoid
  have htoS : red (n + 2) .toSingleton c (.call func args type) =
      .ok (AssignToTemporary c (.call func args type) (.call func args type) none) := by
    rw [red_toSingleton_call, red_reduce_call, hcall]
  have hopt' : c.optimizing = false := hopt
  rw [red_reduce_cond]
  cases x <;> cases y <;>
    simp [CondExpr_Reduce, hopt, htoS, AssignToTemporary, Reducer.GenTemporaryExpr, bind,
      Except.bind, pure, Except.pure, boolConst, GetBool, same_singletons, is_atomic_val,
      same_atomic_val, Val.Type, MergeStmts, Expr.HasNoSideEffects, Expr.Tag,
      CondExpr_ReduceToSingletons, reduceOperand, IsSingleton, NameExpr_IsReduced,
      FoldableGlobal, Reducer.NameIsReduced, Reducer.Optimizing, hopt']

theorem mem_companions_MergeStmts_left (x : Expr) (s2 s3 : Option Stmt) :
    Stmt.expr x ∈ companions (MergeStmts (some (Stmt.expr x)) s2 s3) := by
  cases s2 <;> cases s3 <;> simp [MergeStmts, companions]

theorem AssignToTemporary_stmt (c : Reducer) (this e : Expr) :
    ∃ lhs ty, (AssignToTemporary c this e none).2.1 = some (Stmt.expr (.assign lhs e true ty)) :=
  ⟨_, _, rfl⟩

/-- In the situation of `CondExpr_Reduce_call_eq` the assignment of the call to
its temporary is among the companion statements. -/
theorem CondExpr_Reduce_call (n : Nat) (c : Reducer) (func args : Expr) (type ty : BroType)
    (x y : Bool) (hopt : c.Optimizing = false)
    (hf : IsSingleton c func = true) (hargs : ∀ a ∈ args.elems, IsSingleton c a = true)
    (hlist : Expr.ofElems args.elems = args) (hvoid : type.Tag ≠ TYPE_VOID) :
    ∃ r s c' lhs ty',
      red (n + 3) .reduce c (.cond (.call func args type) (boolConst x) (boolConst y) ty) =
        .ok (r, s, c') ∧
      Stmt.expr (.assign lhs (.call func args type) true ty') ∈ companions s := by
  rw [CondExpr_Reduce_call_eq n c func args type ty x y hopt hf hargs hlist hvoid]
  obtain ⟨lhs, ty', hs⟩ := AssignToTemporary_stmt c (.call func args type) (.call func args type)
  by_cases hxy : x = y
  · rw [if_pos hxy]
    exact ⟨_, _, _, lhs, ty', rfl, by simp [hs, companions]⟩
  · rw [if_neg hxy]
    refine ⟨_, _, _, lhs, ty', rfl, ?_⟩
    show Stmt.expr _ ∈ companions (MergeStmts
      (AssignToTemporary c (.call func args type) (.call func args type) none).2.1 _ none)
    rw [hs]
    exact mem_companions_MergeStmts_left _ _ _

end Zeek

namespace Zeek

open TypeTag InternalTypeTag BroExprTag

/-- C7, counterexample: in `g && f()` and in `(1 == 1) && f()`, with `g` a
foldable global constant and `f` an impure built-in, neither operand is a
constant node, yet the first operand reduces to a constant; the reduction is
then that of `f()` alone, whose companion statement `tmp = f()` stands by
itself and not inside the branch of any conditional. -/
theorem BoolExpr_Reduce_folded_first_operand :
    (Expr.name trueGlobal).IsConst = false ∧
    (mkEqExpr EXPR_EQ (countConst 1) (countConst 1)).IsConst = false ∧
    impureCall.IsConst = false ∧
    Reduce 6 plainReducer (mkBoolExpr EXPR_AND_AND (.name trueGlobal) impureCall) =
      .ok ((plainReducer.GenTemporaryExpr impureCall.Type).1,
           some (firstTempAssign impureCall),
           (plainReducer.GenTemporaryExpr impureCall.Type).2) ∧
    Reduce 6 plainReducer
        (mkBoolExpr EXPR_AND_AND (mkEqExpr EXPR_EQ (countConst 1) (countConst 1)) impureCall) =
      .ok ((plainReducer.GenTemporaryExpr impureCall.Type).1,
           some (firstTempAssign impureCall),
           (plainReducer.GenTemporaryExpr impureCall.Type).2) := by
  refine ⟨rfl, rfl, rfl, ?_, ?_⟩ <;> rfl

end Zeek
namespace Zeek

open TypeTag InternalTypeTag BroExprTag

theorem same_singletons_const_right {a : Expr} (v : Val) (h : a.IsConst = false) :
    same_singletons a (.const v) = false := by
  cases a <;> simp_all [same_singletons, Expr.IsConst, Expr.Tag]

theorem same_singletons_const_left {a : Expr} (v : Val) (h : a.IsConst = false) :
    same_singletons (.const v) a = false := by
  cases a <;> simp_all [same_singletons, Expr.IsConst, Expr.Tag]

theorem BothArithmetic_bool_right (t : TypeTag) : BothArithmetic t TYPE_BOOL = false := by
  simp [BothArithmetic, IsArithmetic, IsIntegral]

theorem BothArithmetic_bool_left (t : TypeTag) : BothArithmetic TYPE_BOOL t = false := by
  simp [BothArithmetic, IsArithmetic, IsIntegral]

theorem mkCondExpr_bool_right (e a : Expr) (y : Bool) :
    mkCondExpr e a (boolConst y) =
      .cond e a (boolConst y) (mkCondExpr e a (boolConst y)).Type := by
  have hb : baseTag (boolConst y) = TYPE_BOOL := by cases y <;> rfl
  unfold mkCondExpr
  simp only [hb, BothArithmetic_bool_right]
  split_ifs <;> first | rfl | contradiction

theorem mkCondExpr_bool_left (e a : Expr) (y : Bool) :
    mkCondExpr e (boolConst y) a =
      .cond e (boolConst y) a (mkCondExpr e (boolConst y) a).Type := by
  have hb : baseTag (boolConst y) = TYPE_BOOL := by cases y <;> rfl
  unfold mkCondExpr
  simp only [hb, BothArithmetic_bool_left]
  split_ifs <;> first | rfl | contradiction

/-- `CondExpr::Reduce` outside optimizing mode when the condition reduces to
a singleton that is not a constant and the alternatives are not the same
singleton. -/
theorem CondExpr_Reduce_general (toS : Reducer → Expr → Red) (c : Reducer)
    (op1 a2 a3 : Expr) (ty : BroType) (hopt : c.Optimizing = false)
    (b1 : Expr) (s1 : Option Stmt) (c1 : Reducer) (hr1 : toS c op1 = .ok (b1, s1, c1))
    (hb1 : b1.IsConst = false) (hs1 : IsSingleton c1 b1 = true)
    (hopt1 : c1.Optimizing = false) (hsame : same_singletons a2 a3 = false)
    (b2 : Expr) (s2 : Option Stmt) (c2 : Reducer)
    (hr2 : reduceOperand toS c1 a2 = .ok (b2, s2, c2))
    (b3 : Expr) (s3 : Option Stmt) (c3 : Reducer)
    (hr3 : reduceOperand toS c2 a3 = .ok (b3, s3, c3)) :
    CondExpr_Reduce toS c op1 a2 a3 ty =
      .ok ((AssignToTemporary c3 (.cond b1 b2 b3 ty) (.cond b1 b2 b3 ty) none).1,
           MergeStmts s1
             (MergeStmts none
               (if s2.isSome || s3.isSome then
                  some (Stmt.ifStmt b1 (s2.getD Stmt.null) (s3.getD Stmt.null))
                else none) none)
             (AssignToTemporary c3 (.cond b1 b2 b3 ty) (.cond b1 b2 b3 ty) none).2.1,
           (AssignToTemporary c3 (.cond b1 b2 b3 ty) (.cond b1 b2 b3 ty) none).2.2) := by
  have h1 : reduceOperand toS c1 b1 = .ok (b1, none, c1) := by simp [reduceOperand, hs1]
  have hrs : CondExpr_ReduceToSingletons toS c1 b1 a2 a3 ty =
      .ok (.cond b1 b2 b3 ty,
           MergeStmts none
             (if s2.isSome || s3.isSome then
                some (Stmt.ifStmt b1 (s2.getD Stmt.null) (s3.getD Stmt.null))
              else none) none, c3) := by
    simp [CondExpr_ReduceToSingletons, h1, hr2, hr3, bind, Except.bind, pure, Except.pure]
  cases b1 <;>
    simp_all [CondExpr_Reduce, bind, Except.bind, pure, Except.pure, Expr.IsConst, Expr.Tag,
      IsSingleton]

end Zeek
namespace Zeek

open TypeTag InternalTypeTag BroExprTag

theorem MergeStmts_none_none (x : Option Stmt) : MergeStmts none x none = x := by
  cases x <;> rfl

theorem reduceOperand_const (toS : Reducer → Expr → Red) (c : Reducer) (v : Val) :
    reduceOperand toS c (.const v) = .ok (.const v, none, c) := rfl

/-- C7 (amended): a `&&` / `||` node with no constant operand (and not a
pattern cascade), outside optimizing mode, whose first operand reduces to a
singleton `b1` that is not a constant.  `BoolExpr::Reduce` returns a
temporary assigned the conditional `b1 ? b2 : F` (resp. `b1 ? T : b2`), and
the companion statement `s2` of reducing the second operand, when there is
one, is the then-branch (resp. the else-branch) of an `if` on `b1`, placed
between the statement of the first operand and the assignment. -/
theorem BoolExpr_Reduce_lowering (n : Nat) (c : Reducer) (tag : BroExprTag) (op1 op2 : Expr)
    (type : BroType) (h1 : op1.IsConst = false) (h2 : op2.IsConst = false)
    (hcas : (is_pattern_cascade (.binary tag op1 op2 type) none).isSome = false)
    (hopt : c.Optimizing = false)
    (b1 : Expr) (s1 : Option Stmt) (c1 : Reducer)
    (hr1 : ReduceToSingleton n c op1 = .ok (b1, s1, c1))
    (hb1 : b1.IsConst = false) (hs1 : IsSingleton c1 b1 = true)
    (hopt1 : c1.Optimizing = false)
    (b2 : Expr) (s2 : Option Stmt) (c2 : Reducer)
    (hr2 : reduceOperand (ReduceToSingleton n) c1 op2 = .ok (b2, s2, c2)) :
    (tag = EXPR_AND_AND → ∀ cond t,
      cond = Expr.cond b1 b2 (boolConst false) (mkCondExpr op1 op2 (boolConst false)).Type →
      t = AssignToTemporary c2 cond cond none →
      Reduce (n + 3) c (.binary tag op1 op2 type) =
        .ok (t.1, MergeStmts s1 (s2.map fun st => Stmt.ifStmt b1 st Stmt.null) t.2.1, t.2.2)) ∧
    (tag = EXPR_OR_OR → ∀ cond t,
      cond = Expr.cond b1 (boolConst true) b2 (mkCondExpr op1 (boolConst true) op2).Type →
      t = AssignToTemporary c2 cond cond none →
      Reduce (n + 3) c (.binary tag op1 op2 type) =
        .ok (t.1, MergeStmts s1 (s2.map fun st => Stmt.ifStmt b1 Stmt.null st) t.2.1, t.2.2)) := by
  have i1 := IsOne_of_not_const h1
  have z1 := IsZero_of_not_const h1
  have i2 := IsOne_of_not_const h2
  have z2 := IsZero_of_not_const h2
  constructor
  · rintro rfl cond t rfl rfl
    have hb : BoolExpr_Reduce (red (n + 2) .toSingleton) c EXPR_AND_AND op1 op2 type =
        red (n + 2) .toSingleton c (mkCondExpr op1 op2 (boolConst false)) := by
      simp [BoolExpr_Reduce, i1, z1, i2, z2, boolConst]
    rw [Reduce, red_reduce_bool _ _ _ _ _ _ (Or.inl rfl), hb, mkCondExpr_bool_right,
      red_toSingleton_cond, red_reduce_cond,
      CondExpr_Reduce_general (red n .toSingleton) c op1 op2 (boolConst false) _ hopt b1 s1 c1
        hr1 hb1 hs1 hopt1 (same_singletons_const_right _ h2) b2 s2 c2 hr2
        (boolConst false) none c2 (reduceOperand_const _ _ _)]
    cases s2 <;> simp [MergeStmts_none_none, Expr.Type]
  · rintro rfl cond t rfl rfl
    have hb : BoolExpr_Reduce (red (n + 2) .toSingleton) c EXPR_OR_OR op1 op2 type =
        red (n + 2) .toSingleton c (mkCondExpr op1 (boolConst true) op2) := by
      simp [BoolExpr_Reduce, i1, z1, i2, z2, boolConst, hcas]
    rw [Reduce, red_reduce_bool _ _ _ _ _ _ (Or.inr rfl), hb, mkCondExpr_bool_left,
      red_toSingleton_cond, red_reduce_cond,
      CondExpr_Reduce_general (red n .toSingleton) c op1 (boolConst true) op2 _ hopt b1 s1 c1
        hr1 hb1 hs1 hopt1 (same_singletons_const_left _ h2)
        (boolConst true) none c1 (reduceOperand_const _ _ _) b2 s2 c2 hr2]
    cases s2 <;> simp [MergeStmts_none_none, Expr.Type]

/-- The node `a && f()` for a local `a` and the impure built-in `f`: the
assignment `tmp0 = f()` is the then-branch of `if ( a )`. -/
theorem BoolExpr_Reduce_lowering_witness :
    Reduce 5 plainReducer (.binary EXPR_AND_AND (.name (localVar 1 TYPE_BOOL)) impureCall
        (base_type TYPE_BOOL)) =
      .ok ((AssignToTemporary (plainReducer.GenTemporaryExpr impureCall.Type).2
              (.cond (.name (localVar 1 TYPE_BOOL))
                (plainReducer.GenTemporaryExpr impureCall.Type).1 (boolConst false)
                (base_type TYPE_BOOL))
              (.cond (.name (localVar 1 TYPE_BOOL))
                (plainReducer.GenTemporaryExpr impureCall.Type).1 (boolConst false)
                (base_type TYPE_BOOL)) none).1,
           MergeStmts none
             (some (Stmt.ifStmt (.name (localVar 1 TYPE_BOOL)) (firstTempAssign impureCall)
               Stmt.null))
             (AssignToTemporary (plainReducer.GenTemporaryExpr impureCall.Type).2
              (.cond (.name (localVar 1 TYPE_BOOL))
                (plainReducer.GenTemporaryExpr impureCall.Type).1 (boolConst false)
                (base_type TYPE_BOOL))
              (.cond (.name (localVar 1 TYPE_BOOL))
                (plainReducer.GenTemporaryExpr impureCall.Type).1 (boolConst false)
                (base_type TYPE_BOOL)) none).2.1,
           (AssignToTemporary (plainReducer.GenTemporaryExpr impureCall.Type).2
              (.cond (.name (localVar 1 TYPE_BOOL))
                (plainReducer.GenTemporaryExpr impureCall.Type).1 (boolConst false)
                (base_type TYPE_BOOL))
              (.cond (.name (localVar 1 TYPE_BOOL))
                (plainReducer.GenTemporaryExpr impureCall.Type).1 (boolConst false)
                (base_type TYPE_BOOL)) none).2.2) :=
  (BoolExpr_Reduce_lowering 2 plainReducer EXPR_AND_AND (.name (localVar 1 TYPE_BOOL))
    impureCall (base_type TYPE_BOOL) rfl rfl rfl rfl
    (.name (localVar 1 TYPE_BOOL)) none plainReducer rfl rfl rfl rfl
    (plainReducer.GenTemporaryExpr impureCall.Type).1 (some (firstTempAssign impureCall))
    (plainReducer.GenTemporaryExpr impureCall.Type).2 rfl).1 rfl _ _ rfl rfl

end Zeek

namespace Zeek

open TypeTag InternalTypeTag BroExprTag

/-! ## Reduction of reduced expressions -/

/-- C5, counterexample: the call `f()` of type `bool`, with `f` a singleton
and no arguments, is reduced according to `IsReduced`, yet `Reduce` returns a
new temporary with the companion assignment `tmp = f()`.  Likewise the
assignment `x = y + 0` is reduced according to `IsReduced`, yet `Reduce`
returns the different assignment `x = y`. -/
theorem Reduce_of_reduced_not_fixed :
    IsReduced plainReducer impureCall = true ∧
    Reduce 3 plainReducer impureCall =
      .ok ((plainReducer.GenTemporaryExpr impureCall.Type).1,
           some (firstTempAssign impureCall),
           (plainReducer.GenTemporaryExpr impureCall.Type).2) ∧
    IsReduced plainReducer
      (.assign (mkRefExpr (.name (localVar 1 TYPE_COUNT)))
        (mkAddExpr (.name (localVar 2 TYPE_COUNT)) (countConst 0)) false
        (base_type TYPE_COUNT)) = true ∧
    Reduce 5 plainReducer
      (.assign (mkRefExpr (.name (localVar 1 TYPE_COUNT)))
        (mkAddExpr (.name (localVar 2 TYPE_COUNT)) (countConst 0)) false
        (base_type TYPE_COUNT)) =
      .ok (.assign (mkRefExpr (.name (localVar 1 TYPE_COUNT)))
             (.name (localVar 2 TYPE_COUNT)) false (base_type TYPE_COUNT),
           none, plainReducer) := by
  refine ⟨?_, ?_, ?_, ?_⟩ <;> rfl

end Zeek
namespace Zeek

open TypeTag InternalTypeTag BroExprTag

theorem NameExpr_Reduce_reduced (c : Reducer) (id : ID) (h : NameExpr_IsReduced c id = true) :
    NameExpr_Reduce c id = .ok (.name id, none, c) := by
  simp only [NameExpr_IsReduced, Bool.and_eq_true, Bool.not_eq_true'] at h
  by_cases ho : c.Optimizing = true
  · simp [NameExpr_Reduce, ho]
  · simp [NameExpr_Reduce, ho, h.1, Reducer.UpdateName, h.2]

theorem red_reduce_name (n : Nat) (c : Reducer) (id : ID) :
    red (n + 1) .reduce c (.name id) = NameExpr_Reduce c id := rfl

theorem red_reduce_assign (n : Nat) (c : Reducer) (op1 op2 : Expr) (t : Bool)
    (type : BroType) :
    red (n + 1) .reduce c (.assign op1 op2 t type) =
      AssignExpr_Reduce (red n .reduce) (red n .toSingleton) (red n .toSingletons) c
        op1 op2 t type := rfl

/-- `ReduceToSingletons` leaves a name, a constant, and a unary (other than
a reference) or binary node with singleton operands as it is. -/
theorem red_toSingletons_fixed (n : Nat) (c : Reducer) (rhs : Expr)
    (hshape : (∃ id, rhs = .name id) ∨ (∃ v, rhs = .const v) ∨
      (∃ tag a b ty, rhs = .binary tag a b ty) ∨
      (∃ tag a ty, rhs = .unary tag a ty ∧ tag ≠ EXPR_REF))
    (hro : HasReducedOps c rhs = true) :
    red (n + 1) .toSingletons c rhs = .ok (rhs, none, c) := by
  rcases hshape with ⟨id, rfl⟩ | ⟨v, rfl⟩ | ⟨tag, a, b, ty, rfl⟩ | ⟨tag, a, ty, rfl, htag⟩
  · rfl
  · rfl
  · simp only [HasReducedOps, Bool.and_eq_true] at hro
    simp [red, reduceOperand, hro.1, hro.2, MergeStmts]
  · simp only [HasReducedOps, htag, if_false] at hro
    simp [red, reduceOperand, hro, MergeStmts]

/-- `AssignExpr::Reduce`, outside optimizing mode, of a reduced assignment to
a name whose right-hand side will not transform, agrees with the left-hand
side on being of type `any`, and is left as it is by `ReduceToSingletons`. -/
theorem AssignExpr_Reduce_fixed (n : Nat) (c : Reducer) (id : ID) (rt : BroType) (rhs : Expr)
    (type : BroType) (hopt : c.Optimizing = false)
    (hred : IsReduced c (.assign (.unary EXPR_REF (.name id) rt) rhs false type) = true)
    (hwt : WillTransform c rhs = false)
    (hany : decide (rt.Tag = TYPE_ANY) = decide (rhs.Type.Tag = TYPE_ANY))
    (hS : red (n + 1) .toSingletons c rhs = .ok (rhs, none, c)) :
    red (n + 2) .reduce c (.assign (.unary EXPR_REF (.name id) rt) rhs false type) =
      .ok (.assign (.unary EXPR_REF (.name id) rt) rhs false type, none, c) := by
  have hname : NameExpr_IsReduced c id = true := by
    simp only [IsReduced, IsSingleton, Expr.Tag] at hred
    split_ifs at hred <;> first | exact hred | contradiction
  have hconst : (rhs.HasConstantOps && rhs.Tag != EXPR_TO_ANY_COERCE) = false := by
    simp only [IsReduced, Expr.Tag] at hred
    split_ifs at hred with h1 h2 h3 <;>
      first | contradiction | simpa using h3
  rw [red_reduce_assign]
  simp [AssignExpr_Reduce, hopt, Expr.Type, hany, hwt, hS,
    red_reduce_name, NameExpr_Reduce_reduced c id hname, hconst, bind, Except.bind, pure,
    Except.pure, MergeStmts]

end Zeek
namespace Zeek

open TypeTag InternalTypeTag BroExprTag

/-- C5 (amended): `Reduce` returns the expression itself with a null
companion statement and an unchanged reducer for a constant; for a reduced
name; and, outside optimizing mode, for a call of type `void` whose function
and arguments are singletons, for an assignment to a temporary, and for a
reduced assignment to a name whose right-hand side (a name, a constant, or a
unary or binary node with singleton operands) will not transform and agrees
with the left-hand side on being of type `any`. -/
theorem Reduce_of_reduced_fixed (n : Nat) (c : Reducer) :
    (∀ v, Reduce (n + 1) c (.const v) = .ok (.const v, none, c)) ∧
    (∀ id, IsReduced c (.name id) = true →
      Reduce (n + 1) c (.name id) = .ok (.name id, none, c)) ∧
    (c.Optimizing = false → ∀ func args type, IsSingleton c func = true →
      (∀ a ∈ args.elems, IsSingleton c a = true) → Expr.ofElems args.elems = args →
      type.Tag = TYPE_VOID →
      Reduce (n + 1) c (.call func args type) = .ok (.call func args type, none, c)) ∧
    (c.Optimizing = false → ∀ op1 op2 type,
      Reduce (n + 1) c (.assign op1 op2 true type) = .ok (.assign op1 op2 true type, none, c)) ∧
    (c.Optimizing = false → ∀ id rt rhs type,
      IsReduced c (.assign (.unary EXPR_REF (.name id) rt) rhs false type) = true →
      WillTransform c rhs = false →
      decide (rt.Tag = TYPE_ANY) = decide (rhs.Type.Tag = TYPE_ANY) →
      ((∃ i, rhs = .name i) ∨ (∃ v, rhs = .const v) ∨
        (∃ tag a b ty, rhs = .binary tag a b ty) ∨
        (∃ tag a ty, rhs = .unary tag a ty ∧ tag ≠ EXPR_REF)) →
      Reduce (n + 2) c (.assign (.unary EXPR_REF (.name id) rt) rhs false type) =
        .ok (.assign (.unary EXPR_REF (.name id) rt) rhs false type, none, c)) := by
  refine ⟨fun v => rfl, ?_, ?_, ?_, ?_⟩
  · intro id h
    exact NameExpr_Reduce_reduced c id h
  · intro hopt func args type hf hargs hlist hvoid
    have hl : ListExpr_Reduce (red n .toSingleton) c args = .ok (args, none, c) := by
      simp [ListExpr_Reduce, hopt, reduceElems_singletons _ c none _ hargs, hlist]
    rw [Reduce, red_reduce_call]
    simp only [CallExpr_Reduce, hopt, reduceOperand, hf]
    simp [hl, hvoid, MergeStmts, bind, Except.bind, pure, Except.pure]
  · intro hopt op1 op2 type
    rw [Reduce, red_reduce_assign]
    simp [AssignExpr_Reduce, hopt]
  · intro hopt id rt rhs type hred hwt hany hshape
    have hro : HasReducedOps c rhs = true := by
      simp only [IsReduced, Expr.Tag] at hred
      split_ifs at hred <;> first | contradiction | simp_all
    exact AssignExpr_Reduce_fixed n c id rt rhs type hopt hred hwt hany
      (red_toSingletons_fixed n c rhs hshape hro)

/-- The reduced assignment `x = y + z` over locals of type `count` reduces to
itself. -/
theorem Reduce_of_reduced_fixed_witness :
    Reduce 2 plainReducer
      (.assign (.unary EXPR_REF (.name (localVar 1 TYPE_COUNT)) (base_type TYPE_COUNT))
        (.binary EXPR_ADD (.name (localVar 2 TYPE_COUNT)) (.name (localVar 3 TYPE_COUNT))
          (base_type TYPE_COUNT)) false (base_type TYPE_COUNT)) =
      .ok (.assign (.unary EXPR_REF (.name (localVar 1 TYPE_COUNT)) (base_type TYPE_COUNT))
        (.binary EXPR_ADD (.name (localVar 2 TYPE_COUNT)) (.name (localVar 3 TYPE_COUNT))
          (base_type TYPE_COUNT)) false (base_type TYPE_COUNT), none, plainReducer) :=
  (Reduce_of_reduced_fixed 0 plainReducer).2.2.2.2 rfl (localVar 1 TYPE_COUNT)
    (base_type TYPE_COUNT)
    (.binary EXPR_ADD (.name (localVar 2 TYPE_COUNT)) (.name (localVar 3 TYPE_COUNT))
      (base_type TYPE_COUNT))
    (base_type TYPE_COUNT) rfl rfl rfl (Or.inr (Or.inr (Or.inl ⟨_, _, _, _, rfl⟩)))

end Zeek

namespace Zeek

open TypeTag InternalTypeTag BroExprTag

/-! ## Folding at reduction time and evaluation -/

/-- C1, counterexample: the node `T < F` carries the error sentinel (`bool` is
not ordered); `RelExpr::Reduce` folds it to the constant `0` of type `int`,
while `BinaryExpr::Eval` returns the null value for it. -/
theorem Reduce_fold_error_node :
    (mkRelExpr EXPR_LT (boolConst true) (boolConst false)) =
      .binary EXPR_LT (boolConst true) (boolConst false) error_type ∧
    Reduce 3 plainReducer (mkRelExpr EXPR_LT (boolConst true) (boolConst false)) =
      .ok (.const (.intv .int 0), none, plainReducer) ∧
    Eval none (mkRelExpr EXPR_LT (boolConst true) (boolConst false)) = .ok none := by
  refine ⟨rfl, rfl, rfl⟩

theorem Bstr_cmp_self : ∀ s : List Nat, Bstr_cmp s s = 0
  | [] => rfl
  | a :: s => by simp [Bstr_cmp, Bstr_cmp_self s]

/-- `BinaryExpr::Reduce` on two constants folds them. -/
theorem BinaryExpr_Reduce_consts (toS : Reducer → Expr → Red) (c : Reducer) (tag : BroExprTag)
    (v1 v2 : Val) (type : BroType) (hupd : ∀ v, c.UpdateExpr (.const v) = .const v) :
    BinaryExpr_Reduce toS c tag (.const v1) (.const v2) type =
      foldedTo c (Fold tag type v1 v2) := by
  simp only [BinaryExpr_Reduce, hupd, ite_self, reduceOperand_const, Expr.FoldVal, bind,
    Except.bind, pure, Except.pure, MergeStmts_none_none, foldedTo]
  cases Fold tag type v1 v2 <;> rfl

theorem IsFoldScalar_not_vector (v : Val) (h : v.IsFoldScalar = true) :
    v.Type.Tag ≠ TYPE_VECTOR := by
  rcases v with ⟨k, _⟩ | ⟨k, _⟩ | _ | _ | _ | _ | _
  · cases k <;> simp [Val.Type, base_type, BroType.Tag]
  · cases k <;> simp [Val.Type, base_type, BroType.Tag]
  · simp [Val.Type, base_type, BroType.Tag]
  · simp [Val.Type, base_type, BroType.Tag]
  · simp [Val.IsFoldScalar] at h
  · simp [Val.IsFoldScalar] at h
  · simp [Val.IsFoldScalar] at h

/-- `BinaryExpr::Eval` on two scalar constants of a node without the error
sentinel folds them. -/
theorem Eval_consts (f : Option (ID → Option Val)) (tag : BroExprTag) (v1 v2 : Val)
    (type : BroType) (hplain : isPlainBinary tag = true) (hty : type.Tag ≠ TYPE_ERROR)
    (h1 : v1.IsFoldScalar = true) (h2 : v2.IsFoldScalar = true) :
    Eval f (.binary tag (.const v1) (.const v2) type) = evaluatedTo (Fold tag type v1 v2) := by
  have hb : (tag = EXPR_AND_AND || tag = EXPR_OR_OR) = false := by
    cases tag <;> simp_all [isPlainBinary]
  have hv1 := IsFoldScalar_not_vector v1 h1
  have hv2 := IsFoldScalar_not_vector v2 h2
  simp only [Eval, hb, hplain, hty, hv1, hv2, evaluatedTo]
  cases Fold tag type v1 v2 <;> simp

end Zeek
namespace Zeek

open TypeTag InternalTypeTag BroExprTag

theorem wrapInt_eq {i : Int} (h : -9223372036854775808 ≤ i ∧ i < 9223372036854775808) :
    wrapInt i = i := by
  unfold wrapInt
  norm_num
  omega

theorem wrapUInt_eq {u : Nat} (h : u < 18446744073709551616) : wrapUInt (u : Int) = u := by
  unfold wrapUInt
  norm_num
  omega

theorem GetInt_of_range {i : Int} (h : -9223372036854775808 ≤ i ∧ i < 9223372036854775808) :
    GetInt i = .intv .int i := by
  rw [GetInt, wrapInt_eq h]

theorem GetCount_of_range {u : Nat} (h : u < 18446744073709551616) :
    GetCount (u : Int) = .uintv .count u := by
  rw [GetCount, wrapUInt_eq h]

/-- `AddExpr::Reduce` over two constants agrees with `Fold`. -/
theorem AddExpr_Reduce_consts (n : Nat) (c : Reducer) (v1 v2 : Val) (type : BroType)
    (hnode : mkAddExpr (.const v1) (.const v2) = .binary EXPR_ADD (.const v1) (.const v2) type)
    (hty : type.Tag ≠ TYPE_ERROR)
    (h1 : v1.IsFoldScalar = true) (h2 : v2.IsFoldScalar = true)
    (hupd : ∀ v, c.UpdateExpr (.const v) = .const v) :
    AddExpr_Reduce (red (n + 2) .toSingleton) c (.const v1) (.const v2) type =
      foldedTo c (Fold EXPR_ADD type v1 v2) := by
  rcases v1 with ⟨k1, i1⟩ | ⟨k1, u1⟩ | s1 | a1 | _ | _ | _ <;>
  rcases v2 with ⟨k2, i2⟩ | ⟨k2, u2⟩ | s2 | a2 | _ | _ | _ <;>
  simp [Val.IsFoldScalar] at h1 h2 <;>
  (try cases k1) <;> (try cases k2) <;>
  simp [mkAddExpr, Expr.IsError, Expr.Type, Val.Type, base_type, BroType.Tag, baseTag, IsVector,
    BroType.YieldType, is_vector, BothArithmetic, IsArithmetic, IsIntegral, BothString,
    BothIntegral, EitherArithmetic, PromoteType, PromoteOps, PromoteForInterval, max_type,
    vecOrBase, mkArithCoerceExpr, error_type, BroType.IsSet, expr_greater, Expr.Tag,
    Expr.IsConst, constIsVector, Expr.IsZero, Val.IsZero] at hnode <;>
  (try subst hnode) <;>
  first
  | exact absurd rfl hty
  | (simp only [AddExpr_Reduce, Expr.IsZero, Expr.IsOne, Val.IsZero, Val.IsOne, Expr.Tag,
      red_toSingleton_const, BinaryExpr_Reduce_consts _ _ _ _ _ _ hupd, hupd, ite_self,
      same_singletons, is_atomic_val, same_atomic_val, BroType.Tag]
     first
     | (have e1 := wrapInt_eq h1
        have e2 := wrapInt_eq h2
        have e0 : wrapInt 0 = 0 := rfl
        clear h1 h2
        simp only [Fold, foldInt, foldResult, foldedTo, IsVector, BroType.Tag,
          BroType.InternalType, InternalTypeOf, GetInt]
        by_cases z1 : i1 = 0 <;> by_cases z2 : i2 = 0 <;> (try subst z1) <;> (try subst z2) <;>
          simp_all)
     | (have e1 := wrapUInt_eq h1
        have e2 := wrapUInt_eq h2
        have e0 : wrapUInt 0 = 0 := rfl
        clear h1 h2
        simp only [Fold, foldUInt, foldResult, foldedTo, IsVector, BroType.Tag,
          BroType.InternalType, InternalTypeOf, GetCount]
        by_cases z1 : u1 = 0 <;> by_cases z2 : u2 = 0 <;> (try subst z1) <;> (try subst z2) <;>
          simp_all)
     | simp [Fold, StringFold, foldedTo])

/-- `SubExpr::Reduce` over two constants agrees with `Fold`. -/
theorem SubExpr_Reduce_consts (n : Nat) (c : Reducer) (v1 v2 : Val) (type : BroType)
    (hnode : mkSubExpr (.const v1) (.const v2) = .binary EXPR_SUB (.const v1) (.const v2) type)
    (hty : type.Tag ≠ TYPE_ERROR)
    (h1 : v1.IsFoldScalar = true) (h2 : v2.IsFoldScalar = true)
    (hupd : ∀ v, c.UpdateExpr (.const v) = .const v) :
    SubExpr_Reduce (red (n + 2) .toSingleton) (red (n + 2) .reduce) c (.const v1) (.const v2) type =
      foldedTo c (Fold EXPR_SUB type v1 v2) := by
  rcases v1 with ⟨k1, i1⟩ | ⟨k1, u1⟩ | s1 | a1 | _ | _ | _ <;>
  rcases v2 with ⟨k2, i2⟩ | ⟨k2, u2⟩ | s2 | a2 | _ | _ | _ <;>
  simp [Val.IsFoldScalar] at h1 h2 <;>
  (try cases k1) <;> (try cases k2) <;>
  simp [mkSubExpr, Expr.IsError, Expr.Type, Val.Type, base_type, BroType.Tag, baseTag, IsVector,
    BroType.YieldType, is_vector, BothArithmetic, IsArithmetic, IsIntegral, BothString,
    BothIntegral, EitherArithmetic, PromoteType, PromoteOps, PromoteForInterval, max_type,
    vecOrBase, mkArithCoerceExpr, error_type, BroType.IsSet, expr_greater, Expr.Tag,
    Expr.IsConst, constIsVector, Expr.IsZero, Val.IsZero] at hnode <;>
  (try subst hnode) <;>
  first
  | exact absurd rfl hty
  | (simp only [SubExpr_Reduce, Expr.IsZero, Expr.IsOne, Val.IsZero, Val.IsOne, Expr.Tag,
      red_toSingleton_const, BinaryExpr_Reduce_consts _ _ _ _ _ _ hupd, hupd, ite_self,
      same_singletons, is_atomic_val, same_atomic_val, BroType.Tag]
     first
     | (have e1 := wrapInt_eq h1
        have e2 := wrapInt_eq h2
        have e0 : wrapInt 0 = 0 := rfl
        clear h1 h2
        simp only [Fold, foldInt, foldResult, foldedTo, IsVector, BroType.Tag,
          BroType.InternalType, InternalTypeOf, GetInt]
        by_cases z1 : i1 = 0 <;> by_cases z2 : i2 = 0 <;> (try subst z1) <;> (try subst z2) <;>
          simp_all)
     | (have e1 := wrapUInt_eq h1
        have e2 := wrapUInt_eq h2
        have e0 : wrapUInt 0 = 0 := rfl
        clear h1 h2
        simp only [Fold, foldUInt, foldResult, foldedTo, IsVector, BroType.Tag,
          BroType.InternalType, InternalTypeOf, GetCount]
        by_cases z1 : u1 = 0 <;> by_cases z2 : u2 = 0 <;> (try subst z1) <;> (try subst z2) <;>
          simp_all))

/-- `TimesExpr::Reduce` over two constants agrees with `Fold`. -/
theorem TimesExpr_Reduce_consts (n : Nat) (c : Reducer) (v1 v2 : Val) (type : BroType)
    (hnode : mkTimesExpr (.const v1) (.const v2) = .binary EXPR_TIMES (.const v1) (.const v2) type)
    (hty : type.Tag ≠ TYPE_ERROR)
    (h1 : v1.IsFoldScalar = true) (h2 : v2.IsFoldScalar = true)
    (hupd : ∀ v, c.UpdateExpr (.const v) = .const v) :
    TimesExpr_Reduce (red (n + 2) .toSingleton) c (.const v1) (.const v2) type =
      foldedTo c (Fold EXPR_TIMES type v1 v2) := by
  rcases v1 with ⟨k1, i1⟩ | ⟨k1, u1⟩ | s1 | a1 | _ | _ | _ <;>
  rcases v2 with ⟨k2, i2⟩ | ⟨k2, u2⟩ | s2 | a2 | _ | _ | _ <;>
  simp [Val.IsFoldScalar] at h1 h2 <;>
  (try cases k1) <;> (try cases k2) <;>
  simp [mkTimesExpr, Expr.IsError, Expr.Type, Val.Type, base_type, BroType.Tag, baseTag, IsVector,
    BroType.YieldType, is_vector, BothArithmetic, IsArithmetic, IsIntegral, BothString,
    BothIntegral, EitherArithmetic, PromoteType, PromoteOps, PromoteForInterval, max_type,
    vecOrBase, mkArithCoerceExpr, error_type, BroType.IsSet, expr_greater, Expr.Tag,
    Expr.IsConst, constIsVector, Expr.IsZero, Val.IsZero] at hnode <;>
  (try subst hnode) <;>
  first
  | exact absurd rfl hty
  | (simp only [TimesExpr_Reduce, Expr.IsZero, Expr.IsOne, Val.IsZero, Val.IsOne, Expr.Tag,
      red_toSingleton_const, BinaryExpr_Reduce_consts _ _ _ _ _ _ hupd, hupd, ite_self,
      same_singletons, is_atomic_val, same_atomic_val, BroType.Tag]
     first
     | (have e1 := wrapInt_eq h1
        have e2 := wrapInt_eq h2
        have e0 : wrapInt 0 = 0 := rfl
        clear h1 h2
        simp only [Fold, foldInt, foldResult, foldedTo, IsVector, BroType.Tag,
          BroType.InternalType, InternalTypeOf, GetInt]
        by_cases z1 : i1 = 0 <;> by_cases z2 : i2 = 0 <;> by_cases o1 : i1 = 1 <;>
          by_cases o2 : i2 = 1 <;> (try subst z1) <;> (try subst z2) <;> (try subst o1) <;>
          (try subst o2) <;> simp_all)
     | (have e1 := wrapUInt_eq h1
        have e2 := wrapUInt_eq h2
        have e0 : wrapUInt 0 = 0 := rfl
        clear h1 h2
        simp only [Fold, foldUInt, foldResult, foldedTo, IsVector, BroType.Tag,
          BroType.InternalType, InternalTypeOf, GetCount]
        by_cases z1 : u1 = 0 <;> by_cases z2 : u2 = 0 <;> by_cases o1 : u1 = 1 <;>
          by_cases o2 : u2 = 1 <;> (try subst z1) <;> (try subst z2) <;> (try subst o1) <;>
          (try subst o2) <;> simp_all))

/-- `DivideExpr::Reduce` over two constants agrees with `Fold`. -/
theorem DivideExpr_Reduce_consts (n : Nat) (c : Reducer) (v1 v2 : Val) (type : BroType)
    (hnode : mkDivideExpr (.const v1) (.const v2) = .binary EXPR_DIVIDE (.const v1) (.const v2) type)
    (hty : type.Tag ≠ TYPE_ERROR)
    (h1 : v1.IsFoldScalar = true) (h2 : v2.IsFoldScalar = true)
    (hupd : ∀ v, c.UpdateExpr (.const v) = .const v) :
    DivideExpr_Reduce (red (n + 2) .toSingleton) c (.const v1) (.const v2) type =
      foldedTo c (Fold EXPR_DIVIDE type v1 v2) := by
  rcases v1 with ⟨k1, i1⟩ | ⟨k1, u1⟩ | s1 | a1 | _ | _ | _ <;>
  rcases v2 with ⟨k2, i2⟩ | ⟨k2, u2⟩ | s2 | a2 | _ | _ | _ <;>
  simp [Val.IsFoldScalar] at h1 h2 <;>
  (try cases k1) <;> (try cases k2) <;>
  simp [mkDivideExpr, Expr.IsError, Expr.Type, Val.Type, base_type, BroType.Tag, baseTag, IsVector,
    BroType.YieldType, is_vector, BothArithmetic, IsArithmetic, IsIntegral, BothString,
    BothIntegral, EitherArithmetic, PromoteType, PromoteOps, PromoteForInterval, max_type,
    vecOrBase, mkArithCoerceExpr, error_type, BroType.IsSet, expr_greater, Expr.Tag,
    Expr.IsConst, constIsVector, Expr.IsZero, Val.IsZero] at hnode <;>
  (try subst hnode) <;>
  first
  | exact absurd rfl hty
  | (simp only [DivideExpr_Reduce, Expr.IsZero, Expr.IsOne, Val.IsZero, Val.IsOne, Expr.Tag,
      red_toSingleton_const, BinaryExpr_Reduce_consts _ _ _ _ _ _ hupd, hupd, ite_self,
      same_singletons, is_atomic_val, same_atomic_val, BroType.Tag]
     first
     | (have e1 := wrapInt_eq h1
        have e2 := wrapInt_eq h2
        have e0 : wrapInt 0 = 0 := rfl
        clear h1 h2
        simp only [Fold, foldInt, foldResult, foldedTo, IsVector, BroType.Tag,
          BroType.InternalType, InternalTypeOf, GetInt]
        by_cases o2 : i2 = 1 <;> (try subst o2) <;> simp_all)
     | (have e1 := wrapUInt_eq h1
        have e2 := wrapUInt_eq h2
        have e0 : wrapUInt 0 = 0 := rfl
        clear h1 h2
        simp only [Fold, foldUInt, foldResult, foldedTo, IsVector, BroType.Tag,
          BroType.InternalType, InternalTypeOf, GetCount]
        by_cases o2 : u2 = 1 <;> (try subst o2) <;> simp_all)
     | simp [Fold, foldedTo])

end Zeek
namespace Zeek

open TypeTag InternalTypeTag BroExprTag

/-- `BitExpr::Reduce` over two constants agrees with `Fold`. -/
theorem BitExpr_Reduce_consts (n : Nat) (c : Reducer) (tag : BroExprTag)
    (htag : tag = EXPR_AND ∨ tag = EXPR_OR ∨ tag = EXPR_XOR) (v1 v2 : Val) (type : BroType)
    (hnode : mkBitExpr tag (.const v1) (.const v2) = .binary tag (.const v1) (.const v2) type)
    (hty : type.Tag ≠ TYPE_ERROR)
    (h1 : v1.IsFoldScalar = true) (h2 : v2.IsFoldScalar = true)
    (hupd : ∀ v, c.UpdateExpr (.const v) = .const v) :
    BitExpr_Reduce (red (n + 2) .toSingleton) c tag (.const v1) (.const v2) type =
      foldedTo c (Fold tag type v1 v2) := by
  rcases htag with rfl | rfl | rfl <;>
  rcases v1 with ⟨k1, i1⟩ | ⟨k1, u1⟩ | s1 | a1 | _ | _ | _ <;>
  rcases v2 with ⟨k2, i2⟩ | ⟨k2, u2⟩ | s2 | a2 | _ | _ | _ <;>
  simp [Val.IsFoldScalar] at h1 h2 <;>
  (try cases k1) <;> (try cases k2) <;>
  simp [mkBitExpr, Expr.IsError, Expr.Type, Val.Type, base_type, BroType.Tag, baseTag, IsVector,
    BroType.YieldType, is_vector, BothArithmetic, IsArithmetic, IsIntegral, BothString,
    BothIntegral, EitherArithmetic, PromoteType, PromoteOps, PromoteForInterval, max_type,
    vecOrBase, mkArithCoerceExpr, error_type, BroType.IsSet, expr_greater, Expr.Tag,
    Expr.IsConst, constIsVector, Expr.IsZero, Val.IsZero] at hnode <;>
  (try subst hnode) <;>
  first
  | exact absurd rfl hty
  | (simp only [BitExpr_Reduce, Expr.IsZero, Expr.IsOne, Val.IsZero, Val.IsOne, Expr.Tag,
      red_toSingleton_const, BinaryExpr_Reduce_consts _ _ _ _ _ _ hupd, hupd, ite_self,
      same_singletons, is_atomic_val, same_atomic_val, BroType.Tag]
     first
     | (have e1 := wrapUInt_eq h1
        have e2 := wrapUInt_eq h2
        have e0 : wrapUInt 0 = 0 := rfl
        clear h1 h2
        simp only [Fold, foldUInt, foldResult, foldedTo, IsVector, BroType.Tag,
          BroType.InternalType, InternalTypeOf, GetCount]
        by_cases z1 : u1 = 0 <;> by_cases z2 : u2 = 0 <;> (try subst z1) <;> (try subst z2) <;>
          simp_all [red_toSingleton_const]))

/-- `EqExpr::Reduce` over two constants agrees with `Fold`. -/
theorem EqExpr_Reduce_consts (n : Nat) (c : Reducer) (tag : BroExprTag)
    (htag : tag = EXPR_EQ ∨ tag = EXPR_NE) (v1 v2 : Val) (type : BroType)
    (hnode : mkEqExpr tag (.const v1) (.const v2) = .binary tag (.const v1) (.const v2) type)
    (hty : type.Tag ≠ TYPE_ERROR)
    (h1 : v1.IsFoldScalar = true) (h2 : v2.IsFoldScalar = true)
    (hupd : ∀ v, c.UpdateExpr (.const v) = .const v) :
    EqExpr_Reduce (red (n + 2) .toSingleton) c tag (.const v1) (.const v2) type =
      foldedTo c (Fold tag type v1 v2) := by
  rcases htag with rfl | rfl <;>
  rcases v1 with ⟨k1, i1⟩ | ⟨k1, u1⟩ | s1 | a1 | _ | _ | _ <;>
  rcases v2 with ⟨k2, i2⟩ | ⟨k2, u2⟩ | s2 | a2 | _ | _ | _ <;>
  simp [Val.IsFoldScalar] at h1 h2 <;>
  (try cases k1) <;> (try cases k2) <;>
  simp [mkEqExpr, Expr.IsError, Expr.Type, Val.Type, base_type, BroType.Tag, baseTag, IsVector,
    BroType.YieldType, is_vector, BothArithmetic, IsArithmetic, IsIntegral, BothString,
    BothIntegral, EitherArithmetic, PromoteType, PromoteOps, PromoteForInterval, max_type,
    vecOrBase, mkArithCoerceExpr, error_type, BroType.IsSet, expr_greater, Expr.Tag,
    Expr.IsConst, constIsVector, Expr.IsZero, Val.IsZero] at hnode <;>
  (try subst hnode) <;>
  first
  | exact absurd rfl hty
  | (simp only [EqExpr_Reduce, Expr.IsZero, Expr.IsOne, Val.IsZero, Val.IsOne, Expr.Tag,
      red_toSingleton_const, BinaryExpr_Reduce_consts _ _ _ _ _ _ hupd, hupd, ite_self,
      same_singletons, is_atomic_val, same_atomic_val, BroType.Tag]
     first
     | (have e1 := wrapInt_eq h1
        have e2 := wrapInt_eq h2
        have e0 : wrapInt 0 = 0 := rfl
        clear h1 h2
        simp only [Fold, foldInt, foldResult, foldedTo, IsVector, BroType.Tag,
          BroType.InternalType, InternalTypeOf, GetInt]
        by_cases q : i1 = i2 <;> (try subst q) <;> simp_all [GetBool])
     | (have e1 := wrapUInt_eq h1
        have e2 := wrapUInt_eq h2
        have e0 : wrapUInt 0 = 0 := rfl
        clear h1 h2
        simp only [Fold, foldUInt, foldResult, foldedTo, IsVector, BroType.Tag,
          BroType.InternalType, InternalTypeOf, GetCount]
        by_cases q : u1 = u2 <;> (try subst q) <;> simp_all [GetBool])
     | (first
        | (by_cases q : s1 = s2 <;> (try subst q) <;>
            simp_all [Fold, StringFold, foldedTo, GetBool, Bstr_cmp_self])
        | (by_cases q : a1 = a2 <;> (try subst q) <;>
            simp_all [Fold, AddrFold, foldedTo, GetBool])))

/-- `RelExpr::Reduce` over two constants agrees with `Fold`. -/
theorem RelExpr_Reduce_consts (n : Nat) (c : Reducer) (tag : BroExprTag)
    (htag : tag = EXPR_LT ∨ tag = EXPR_LE ∨ tag = EXPR_GE ∨ tag = EXPR_GT) (v1 v2 : Val) (type : BroType)
    (hnode : mkRelExpr tag (.const v1) (.const v2) = .binary tag (.const v1) (.const v2) type)
    (hty : type.Tag ≠ TYPE_ERROR)
    (h1 : v1.IsFoldScalar = true) (h2 : v2.IsFoldScalar = true)
    (hupd : ∀ v, c.UpdateExpr (.const v) = .const v) :
    RelExpr_Reduce (red (n + 2) .toSingleton) c tag (.const v1) (.const v2) type =
      foldedTo c (Fold tag type v1 v2) := by
  rcases htag with rfl | rfl | rfl | rfl <;>
  rcases v1 with ⟨k1, i1⟩ | ⟨k1, u1⟩ | s1 | a1 | _ | _ | _ <;>
  rcases v2 with ⟨k2, i2⟩ | ⟨k2, u2⟩ | s2 | a2 | _ | _ | _ <;>
  simp [Val.IsFoldScalar] at h1 h2 <;>
  (try cases k1) <;> (try cases k2) <;>
  simp [mkRelExpr, Expr.IsError, Expr.Type, Val.Type, base_type, BroType.Tag, baseTag, IsVector,
    BroType.YieldType, is_vector, BothArithmetic, IsArithmetic, IsIntegral, BothString,
    BothIntegral, EitherArithmetic, PromoteType, PromoteOps, PromoteForInterval, max_type,
    vecOrBase, mkArithCoerceExpr, error_type, BroType.IsSet, expr_greater, Expr.Tag,
    Expr.IsConst, constIsVector, Expr.IsZero, Val.IsZero] at hnode <;>
  (try subst hnode) <;>
  first
  | exact absurd rfl hty
  | (simp only [RelExpr_Reduce, Expr.IsZero, Expr.IsOne, Val.IsZero, Val.IsOne, Expr.Tag,
      red_toSingleton_const, BinaryExpr_Reduce_consts _ _ _ _ _ _ hupd, hupd, ite_self,
      same_singletons, is_atomic_val, same_atomic_val, BroType.Tag]
     first
     | (have e1 := wrapInt_eq h1
        have e2 := wrapInt_eq h2
        have e0 : wrapInt 0 = 0 := rfl
        clear h1 h2
        simp only [Fold, foldInt, foldResult, foldedTo, IsVector, BroType.Tag,
          BroType.InternalType, InternalTypeOf, GetInt]
        by_cases q : i1 = i2 <;> (try subst q) <;> simp_all [GetBool])
     | (have e1 := wrapUInt_eq h1
        have e2 := wrapUInt_eq h2
        have e0 : wrapUInt 0 = 0 := rfl
        clear h1 h2
        simp only [Fold, foldUInt, foldResult, foldedTo, IsVector, BroType.Tag,
          BroType.InternalType, InternalTypeOf, GetCount]
        by_cases q : u1 = u2 <;> (try subst q) <;> simp_all [GetBool])
     | (first
        | (by_cases q : s1 = s2 <;> (try subst q) <;>
            simp_all [Fold, StringFold, foldedTo, GetBool, Bstr_cmp_self])
        | (by_cases q : a1 = a2 <;> (try subst q) <;>
            simp_all [Fold, AddrFold, foldedTo, GetBool])))

end Zeek
namespace Zeek

open TypeTag InternalTypeTag BroExprTag

/-- `Reduce` of a binary node over two scalar constants, built by its
constructor and without the error sentinel, is the fold of the constants. -/
theorem Reduce_consts_eq_fold (n : Nat) (c : Reducer) (tag : BroExprTag) (v1 v2 : Val)
    (type : BroType) (hplain : isPlainBinary tag = true)
    (hnode : mkBinaryExpr tag (.const v1) (.const v2) =
      .binary tag (.const v1) (.const v2) type)
    (hty : type.Tag ≠ TYPE_ERROR)
    (h1 : v1.IsFoldScalar = true) (h2 : v2.IsFoldScalar = true)
    (hupd : ∀ v, c.UpdateExpr (.const v) = .const v) :
    Reduce (n + 3) c (.binary tag (.const v1) (.const v2) type) =
      foldedTo c (Fold tag type v1 v2) := by
  have hcase : tag = EXPR_ADD ∨ tag = EXPR_SUB ∨ tag = EXPR_TIMES ∨ tag = EXPR_DIVIDE ∨
      tag = EXPR_MOD ∨ (tag = EXPR_AND ∨ tag = EXPR_OR ∨ tag = EXPR_XOR) ∨
      (tag = EXPR_EQ ∨ tag = EXPR_NE) ∨
      (tag = EXPR_LT ∨ tag = EXPR_LE ∨ tag = EXPR_GE ∨ tag = EXPR_GT) := by
    clear hnode
    cases tag <;> first | exact absurd hplain (by decide) | simp
  rcases hcase with rfl | rfl | rfl | rfl | rfl | hb | he | hr
  · exact AddExpr_Reduce_consts n c v1 v2 type hnode hty h1 h2 hupd
  · exact SubExpr_Reduce_consts n c v1 v2 type hnode hty h1 h2 hupd
  · exact TimesExpr_Reduce_consts n c v1 v2 type hnode hty h1 h2 hupd
  · exact DivideExpr_Reduce_consts n c v1 v2 type hnode hty h1 h2 hupd
  · exact BinaryExpr_Reduce_consts _ c EXPR_MOD v1 v2 type hupd
  · have hm : mkBitExpr tag (.const v1) (.const v2) =
        .binary tag (.const v1) (.const v2) type := by
      rcases hb with rfl | rfl | rfl <;> exact hnode
    have hred : Reduce (n + 3) c (.binary tag (.const v1) (.const v2) type) =
        BitExpr_Reduce (red (n + 2) .toSingleton) c tag (.const v1) (.const v2) type := by
      rcases hb with rfl | rfl | rfl <;> rfl
    rw [hred]
    exact BitExpr_Reduce_consts n c tag hb v1 v2 type hm hty h1 h2 hupd
  · have hm : mkEqExpr tag (.const v1) (.const v2) =
        .binary tag (.const v1) (.const v2) type := by
      rcases he with rfl | rfl <;> exact hnode
    have hred : Reduce (n + 3) c (.binary tag (.const v1) (.const v2) type) =
        EqExpr_Reduce (red (n + 2) .toSingleton) c tag (.const v1) (.const v2) type := by
      rcases he with rfl | rfl <;> rfl
    rw [hred]
    exact EqExpr_Reduce_consts n c tag he v1 v2 type hm hty h1 h2 hupd
  · have hm : mkRelExpr tag (.const v1) (.const v2) =
        .binary tag (.const v1) (.const v2) type := by
      rcases hr with rfl | rfl | rfl | rfl <;> exact hnode
    have hred : Reduce (n + 3) c (.binary tag (.const v1) (.const v2) type) =
        RelExpr_Reduce (red (n + 2) .toSingleton) c tag (.const v1) (.const v2) type := by
      rcases hr with rfl | rfl | rfl | rfl <;> rfl
    rw [hred]
    exact RelExpr_Reduce_consts n c tag hr v1 v2 type hm hty h1 h2 hupd

/-- C1 (amended): for a binary operator node (add, subtract, multiply, divide,
modulo, bitwise, comparison) as its constructor builds it over two constants
of signed-integer, unsigned-integer, string or address type, which does not
carry the error sentinel: `BinaryExpr::Eval` never returns the null value;
when it returns a value, reduction (`BinaryExpr::Reduce` or the operator's
override) returns that constant with a null companion statement; when it
raises an error, reduction raises the same error.  (`>` and `>=` nodes are
built as `<` and `<=` nodes with the operands exchanged.) -/
theorem Reduce_fold_sound (n : Nat) (c : Reducer) (f : Option (ID → Option Val))
    (tag : BroExprTag) (v1 v2 : Val) (type : BroType)
    (hplain : isPlainBinary tag = true)
    (hnode : mkBinaryExpr tag (.const v1) (.const v2) =
      .binary tag (.const v1) (.const v2) type)
    (hty : type.Tag ≠ TYPE_ERROR)
    (h1 : v1.IsFoldScalar = true) (h2 : v2.IsFoldScalar = true)
    (hupd : ∀ v, c.UpdateExpr (.const v) = .const v) :
    Eval f (.binary tag (.const v1) (.const v2) type) ≠ .ok none ∧
    (∀ v, Eval f (.binary tag (.const v1) (.const v2) type) = .ok (some v) →
      Reduce (n + 3) c (.binary tag (.const v1) (.const v2) type) = .ok (.const v, none, c)) ∧
    (∀ x, Eval f (.binary tag (.const v1) (.const v2) type) = .error x →
      Reduce (n + 3) c (.binary tag (.const v1) (.const v2) type) = .error x) ∧
    (∀ e s c', Reduce (n + 3) c (.binary tag (.const v1) (.const v2) type) = .ok (e, s, c') →
      ∃ v, e = .const v ∧ s = none ∧ c' = c ∧
        Eval f (.binary tag (.const v1) (.const v2) type) = .ok (some v)) := by
  rw [Reduce_consts_eq_fold n c tag v1 v2 type hplain hnode hty h1 h2 hupd,
    Eval_consts f tag v1 v2 type hplain hty h1 h2]
  cases Fold tag type v1 v2 <;> simp [foldedTo, evaluatedTo]

/-- The node `7 / 2` over `count` constants: evaluation gives `3`, and so does
reduction. -/
theorem Reduce_fold_sound_witness :
    Reduce 3 plainReducer (.binary EXPR_DIVIDE (countConst 7) (countConst 2)
      (base_type TYPE_COUNT)) = .ok (countConst 3, none, plainReducer) :=
  (Reduce_fold_sound 0 plainReducer none EXPR_DIVIDE (.uintv .count 7) (.uintv .count 2)
    (base_type TYPE_COUNT) rfl rfl (by decide) (by simp [Val.IsFoldScalar])
    (by simp [Val.IsFoldScalar]) (fun _ => rfl)).2.1 (.uintv .count 3) rfl

end Zeek

namespace UseDefs

open Zeek Zeek.BroExprTag Zeek.TypeTag

/-! ## `UseDefs::RemoveUnused` -/

theorem mem_UD_add {s : List ID} {id x : ID} : x ∈ UD_add s id ↔ x ∈ s ∨ x = id := by
  unfold UD_add
  split_ifs with h
  · constructor
    · exact Or.inl
    · rintro (h1 | rfl)
      · exact h1
      · exact h
  · simp

theorem mem_UD_addAll (x : ID) : ∀ (more s : List ID), x ∈ UD_addAll s more ↔ x ∈ s ∨ x ∈ more
  | [], s => by simp [UD_addAll]
  | m :: more, s => by
    have ih := mem_UD_addAll x more (UD_add s m)
    simp only [UD_addAll, List.foldl_cons] at ih ⊢
    rw [ih, mem_UD_add]
    simp only [List.mem_cons]
    tauto

/-- The live set of one successor entry lacks `x`. -/
theorem succUsage_absent (st : State) (o : Option (Option Nat)) (x : ID) (u : UDs)
    (h : (match o with
          | some (some succ) => FindUsage st succ
          | _ => .ok none) = .ok u) :
    (∀ set, u = some set → x ∉ set) ↔
      ∀ succ set, o = some (some succ) → st.use_defs_map succ = some (some set) → x ∉ set := by
  rcases o with _ | _ | succ
  · simp only [Except.ok.injEq] at h; subst h; simp
  · simp only [Except.ok.injEq] at h; subst h; simp
  · simp only [FindUsage] at h
    rcases e : st.use_defs_map succ with _ | u'
    · simp [e] at h
    · simp only [e, Except.ok.injEq] at h
      subst h
      constructor
      · intro hx succ' set hs hm
        simp only [Option.some.injEq] at hs
        subst hs
        rw [e] at hm
        exact hx set (Option.some.inj hm)
      · intro hx set hu
        exact hx succ set rfl (by rw [e, hu])

/-- `FindSuccUsage`, when it returns, returns a set without `x` (or no set)
exactly when `x` is in the set of neither successor. -/
theorem FindSuccUsage_absent (st : State) (l : Nat) (x : ID) (uds : UDs)
    (h : FindSuccUsage st l = .ok uds) :
    (∀ set, uds = some set → x ∉ set) ↔
      ((∀ succ set, st.successor l = some (some succ) →
          st.use_defs_map succ = some (some set) → x ∉ set) ∧
       (∀ succ2 set, st.successor2 l = some (some succ2) →
          st.use_defs_map succ2 = some (some set) → x ∉ set)) := by
  unfold FindSuccUsage at h
  simp only at h
  rcases h1 : (match st.successor l with
      | some (some succ) => FindUsage st succ
      | _ => .ok none) with x1 | u1
  · simp [h1] at h
  rcases h2 : (match st.successor2 l with
      | some (some succ2) => FindUsage st succ2
      | _ => .ok none) with x2 | u2
  · rw [h1, h2] at h
    cases u1 <;> simp at h
  rw [← succUsage_absent st _ x u1 h1, ← succUsage_absent st _ x u2 h2]
  rw [h1, h2] at h
  rcases u1 with _ | s1 <;> rcases u2 with _ | s2 <;>
    simp only [Except.ok.injEq] at h <;> subst h <;>
    simp [UD_Union, mem_UD_addAll]

end UseDefs
namespace UseDefs

open Zeek Zeek.BroExprTag Zeek.TypeTag

theorem CheckIfUnused_iff (st : State) (l : Nat) (x : ID) (b : Bool)
    (h : CheckIfUnused st l x = .ok b) :
    b = true ↔ (x.is_global = false ∧
      (∀ succ set, st.successor l = some (some succ) →
          st.use_defs_map succ = some (some set) → x ∉ set) ∧
      (∀ succ2 set, st.successor2 l = some (some succ2) →
          st.use_defs_map succ2 = some (some set) → x ∉ set)) := by
  unfold CheckIfUnused at h
  by_cases hg : x.is_global = true
  · simp only [hg, if_true, Except.ok.injEq] at h
    subst h
    simp [hg]
  · have hg' : x.is_global = false := by simpa using hg
    simp only [hg', Bool.false_eq_true, if_false] at h
    rcases hf : FindSuccUsage st l with e | uds
    · simp [hf] at h
    · rw [← FindSuccUsage_absent st l x uds hf]
      rcases uds with _ | set
      · simp only [hf, Except.ok.injEq] at h
        subst h
        simp [hg]
      · simp only [hf, Except.ok.injEq] at h
        subst h
        simp [hg]

theorem degenerate_iff (x : ID) (rhs : Expr) :
    isDegenerate x rhs = true ↔ rhs = .name x := by
  cases rhs <;> simp [isDegenerate]
  exact eq_comm

theorem Tag_unary (t : BroExprTag) (op : Expr) (ty : BroType) :
    (Expr.unary t op ty).Tag = t := rfl

theorem GetOp1_unary (t : BroExprTag) (op : Expr) (ty : BroType) :
    (Expr.unary t op ty).GetOp1 = some op := rfl

/-- The verdict of the loop body of `RemoveUnused(iter)` on an assignment
statement. -/
theorem RemoveUnused_verdict_assign (st : State) (l : Nat) (x : ID) (rt : BroType)
    (rhs : Expr) (it : Bool) (ty : BroType) (v : Verdict)
    (h : RemoveUnused_verdict st (.expr l (.assign (.unary EXPR_REF (.name x) rt) rhs it ty)) =
      .ok v) :
    v ≠ .omitInit ∧
    (v = .omitAssign ↔
      (¬(rhs.Tag = EXPR_CALL ∧ rhs.IsPure = false) ∧ rhs.Tag ≠ EXPR_EVENT ∧
        rhs.Tag ≠ EXPR_SCHEDULE ∧
        ((x.is_global = false ∧
          (∀ succ set, st.successor l = some (some succ) →
              st.use_defs_map succ = some (some set) → x ∉ set) ∧
          (∀ succ2 set, st.successor2 l = some (some succ2) →
              st.use_defs_map succ2 = some (some set) → x ∉ set)) ∨
         rhs = .name x))) := by
  simp only [RemoveUnused_verdict, Tag_unary, GetOp1_unary, ne_eq, not_true_eq_false,
    if_false] at h
  by_cases hc : rhs.Tag = EXPR_CALL ∧ rhs.IsPure = false
  · have hc' : (decide (rhs.Tag = EXPR_CALL) && !rhs.IsPure) = true := by simp [hc.1, hc.2]
    simp only [hc', if_true, Except.ok.injEq] at h
    subst h
    refine ⟨by simp, ⟨fun h0 => Verdict.noConfusion h0, fun h0 => absurd hc h0.1⟩⟩
  · have hc' : (decide (rhs.Tag = EXPR_CALL) && !rhs.IsPure) = false := by
      by_cases h1 : rhs.Tag = EXPR_CALL
      · have : rhs.IsPure = true := by
          by_contra h2
          exact hc ⟨h1, by simpa using h2⟩
        simp [this]
      · simp [h1]
    simp only [hc', Bool.false_eq_true, if_false] at h
    by_cases he : rhs.Tag = EXPR_EVENT ∨ rhs.Tag = EXPR_SCHEDULE
    · have he' : (decide (rhs.Tag = EXPR_EVENT) || decide (rhs.Tag = EXPR_SCHEDULE)) = true := by
        rcases he with h1 | h1 <;> simp [h1]
      simp only [he', if_true, Except.ok.injEq] at h
      subst h
      refine ⟨by simp, ⟨fun h0 => Verdict.noConfusion h0, ?_⟩⟩
      rintro ⟨-, h1, h2, -⟩
      rcases he with h3 | h3
      · exact absurd h3 h1
      · exact absurd h3 h2
    · simp only [not_or] at he
      have he' : (decide (rhs.Tag = EXPR_EVENT) || decide (rhs.Tag = EXPR_SCHEDULE)) = false := by
        simp [he.1, he.2]
      simp only [he', Bool.false_eq_true, if_false] at h
      rcases hu : CheckIfUnused st l x with e | unused
      · simp [hu] at h
      · have hiff := CheckIfUnused_iff st l x unused hu
        have hd := degenerate_iff x rhs
        simp only [hu] at h
        by_cases hb : (unused || isDegenerate x rhs) = true
        · rw [if_pos hb] at h
          simp only [Except.ok.injEq] at h
          subst h
          refine ⟨by simp, ⟨fun _ => ⟨hc, he.1, he.2, ?_⟩, fun _ => rfl⟩⟩
          rcases Bool.or_eq_true_iff.1 hb with h1 | h1
          · exact Or.inl (hiff.1 h1)
          · exact Or.inr (hd.1 h1)
        · rw [if_neg hb] at h
          simp only [Except.ok.injEq] at h
          subst h
          refine ⟨by simp, ⟨fun h0 => Verdict.noConfusion h0, ?_⟩⟩
          rintro ⟨-, -, -, h1 | h1⟩
          · exact absurd (by rw [hiff.2 h1]; rfl) hb
          · exact absurd (by rw [hd.2 h1]; simp) hb

end UseDefs
namespace UseDefs

open Zeek Zeek.BroExprTag Zeek.TypeTag

/-- The loop of `RemoveUnused(iter)`, when it returns, has asked every
statement for its verdict and omits, besides what was omitted before, the
statements whose verdict says so. -/
theorem RemoveUnused_loop_to_omit (st : State) :
    ∀ (ss : List Stmt) (acc alt : Altered), RemoveUnused_loop st ss acc = .ok alt →
      ∀ t, t ∈ alt.to_omit ↔
        (t ∈ acc.to_omit ∨
          (t ∈ ss ∧ (RemoveUnused_verdict st t = .ok .omitInit ∨
            RemoveUnused_verdict st t = .ok .omitAssign)))
  | [], acc, alt, h => by
    simp only [RemoveUnused_loop, Except.ok.injEq] at h
    subst h
    simp
  | s :: ss, acc, alt, h => by
    simp only [RemoveUnused_loop] at h
    rcases hv : RemoveUnused_verdict st s with e | v
    · simp [hv] at h
    · simp only [hv] at h
      have ih := RemoveUnused_loop_to_omit st ss (acc.note s v) alt h
      intro t
      rw [ih t]
      cases v <;> simp only [Altered.note, List.mem_append, List.mem_cons, List.not_mem_nil,
        or_false]
      · constructor
        · rintro (h1 | ⟨h1, h2⟩)
          · exact Or.inl h1
          · exact Or.inr ⟨Or.inr h1, h2⟩
        · rintro (h1 | ⟨h1 | h1, h2⟩)
          · exact Or.inl h1
          · subst h1
            rw [hv] at h2
            rcases h2 with h2 | h2 <;> cases h2
          · exact Or.inr ⟨h1, h2⟩
      · constructor
        · rintro ((h1 | h1) | ⟨h1, h2⟩)
          · exact Or.inl h1
          · subst h1
            exact Or.inr ⟨Or.inl rfl, Or.inl hv⟩
          · exact Or.inr ⟨Or.inr h1, h2⟩
        · rintro (h1 | ⟨h1 | h1, h2⟩)
          · exact Or.inl (Or.inl h1)
          · exact Or.inl (Or.inr h1)
          · exact Or.inr ⟨h1, h2⟩
      · constructor
        · rintro (h1 | ⟨h1, h2⟩)
          · exact Or.inl h1
          · exact Or.inr ⟨Or.inr h1, h2⟩
        · rintro (h1 | ⟨h1 | h1, h2⟩)
          · exact Or.inl h1
          · subst h1
            rw [hv] at h2
            rcases h2 with h2 | h2 <;> cases h2
          · exact Or.inr ⟨h1, h2⟩
      · constructor
        · rintro ((h1 | h1) | ⟨h1, h2⟩)
          · exact Or.inl h1
          · subst h1
            exact Or.inr ⟨Or.inl rfl, Or.inr hv⟩
          · exact Or.inr ⟨Or.inr h1, h2⟩
        · rintro (h1 | ⟨h1 | h1, h2⟩)
          · exact Or.inl (Or.inl h1)
          · exact Or.inl (Or.inr h1)
          · exact Or.inr ⟨h1, h2⟩

theorem RemoveUnused_loop_verdicts (st : State) :
    ∀ (ss : List Stmt) (acc alt : Altered), RemoveUnused_loop st ss acc = .ok alt →
      ∀ t ∈ ss, ∃ v, RemoveUnused_verdict st t = .ok v
  | [], _, _, _ => by simp
  | s :: ss, acc, alt, h => by
    simp only [RemoveUnused_loop] at h
    rcases hv : RemoveUnused_verdict st s with e | v
    · simp [hv] at h
    · simp only [hv] at h
      have ih := RemoveUnused_loop_verdicts st ss (acc.note s v) alt h
      intro t ht
      rcases List.mem_cons.1 ht with rfl | ht
      · exact ⟨v, hv⟩
      · exact ih t ht

/-- C8: when `RemoveUnused(iter)` returns, an expression statement `x = rhs`
of the body is among the statements scheduled for omission if and only if
`rhs` is neither a call that is not pure, nor an event expression, nor a
schedule expression, and either `x` is not a global and is in the live set
of neither successor of the statement (the entries of `successor` and
`successor2`), or the assignment is the degenerate `x = x`. -/
theorem RemoveUnused_schedules_iff (st : State) (alt : Altered)
    (h : RemoveUnused st = .ok alt) (l : Nat) (x : ID) (rt : BroType) (rhs : Expr)
    (it : Bool) (ty : BroType)
    (hs : Stmt.expr l (.assign (.unary EXPR_REF (.name x) rt) rhs it ty) ∈ st.stmts) :
    Stmt.expr l (.assign (.unary EXPR_REF (.name x) rt) rhs it ty) ∈ alt.to_omit ↔
      (¬(rhs.Tag = EXPR_CALL ∧ rhs.IsPure = false) ∧ rhs.Tag ≠ EXPR_EVENT ∧
        rhs.Tag ≠ EXPR_SCHEDULE ∧
        ((x.is_global = false ∧
          (∀ succ set, st.successor l = some (some succ) →
              st.use_defs_map succ = some (some set) → x ∉ set) ∧
          (∀ succ2 set, st.successor2 l = some (some succ2) →
              st.use_defs_map succ2 = some (some set) → x ∉ set)) ∨
         rhs = .name x)) := by
  obtain ⟨v, hv⟩ := RemoveUnused_loop_verdicts st _ _ _ h _ hs
  have hva := RemoveUnused_verdict_assign st l x rt rhs it ty v hv
  rw [RemoveUnused_loop_to_omit st _ _ _ h, ← hva.2, hv]
  constructor
  · rintro (h1 | ⟨-, h1 | h1⟩)
    · cases h1
    · exact absurd (Except.ok.inj h1) hva.1
    · exact Except.ok.inj h1
  · intro h1
    exact Or.inr ⟨hs, Or.inr (by rw [h1])⟩

/-- In the worked example `x = 1` is scheduled for omission; by the theorem,
`x` is then in the live set of no successor of that statement. -/
theorem RemoveUnused_schedules_iff_witness :
    RemoveUnused (analysisOf breakBody) = .ok breakBodyAltered ∧
    (assignStmt 3 (localVar 1 TYPE_COUNT) (countConst 1) ∈ breakBodyAltered.to_omit ↔
      (¬((countConst 1).Tag = EXPR_CALL ∧ (countConst 1).IsPure = false) ∧
        (countConst 1).Tag ≠ EXPR_EVENT ∧ (countConst 1).Tag ≠ EXPR_SCHEDULE ∧
        (((localVar 1 TYPE_COUNT).is_global = false ∧
          (∀ succ set, (analysisOf breakBody).successor 3 = some (some succ) →
              (analysisOf breakBody).use_defs_map succ = some (some set) →
              localVar 1 TYPE_COUNT ∉ set) ∧
          (∀ succ2 set, (analysisOf breakBody).successor2 3 = some (some succ2) →
              (analysisOf breakBody).use_defs_map succ2 = some (some set) →
              localVar 1 TYPE_COUNT ∉ set)) ∨
         countConst 1 = .name (localVar 1 TYPE_COUNT)))) :=
  ⟨rfl, RemoveUnused_schedules_iff (analysisOf breakBody) breakBodyAltered rfl 3
    (localVar 1 TYPE_COUNT) (base_type TYPE_COUNT) (countConst 1) false (base_type TYPE_COUNT)
    (List.getElem?_mem (show (analysisOf breakBody).stmts[8]? = some _ from rfl))⟩

end UseDefs
namespace UseDefs

open Zeek Zeek.BroExprTag Zeek.TypeTag

/-- C3, the analysis of the body

    for ( i in v ) { x = 1; if ( c ) break; x = 2; }
    print x;

succeeds; the only recorded successor of `x = 1` (statement 3) is the `if`
(statement 4), whose live set is `{c, v}`: the `break` (statement 5) received
the live set of the statement that follows the `if` in the text, `{v, c}`,
and not that of `print x` (statement 8), `{x}`, to which it jumps.
`RemoveUnused(iter)` therefore schedules `x = 1` for omission, although the
path `x = 1`; `if ( c )`; `break`; `print x` reads `x` with no assignment in
between. -/
theorem RemoveUnused_omits_assignment_read_after_break :
    (∃ st, Analyze breakBody = .ok st) ∧
    (analysisOf breakBody).successor 3 = some (some 4) ∧
    (analysisOf breakBody).successor2 3 = none ∧
    (analysisOf breakBody).use_defs_map 4 =
      some (some [localVar 3 TYPE_BOOL, localVar 2 TYPE_TABLE]) ∧
    (analysisOf breakBody).use_defs_map 5 =
      some (some [localVar 2 TYPE_TABLE, localVar 3 TYPE_BOOL]) ∧
    (analysisOf breakBody).use_defs_map 8 = some (some [localVar 1 TYPE_COUNT]) ∧
    (∃ alt, RemoveUnused (analysisOf breakBody) = .ok alt ∧
      alt.to_omit = [assignStmt 3 (localVar 1 TYPE_COUNT) (countConst 1)] ∧
      alt.did_omission = true) :=
  ⟨⟨_, rfl⟩, rfl, rfl, rfl, rfl, rfl, ⟨_, rfl, rfl, rfl⟩⟩

end UseDefs

namespace Zeek

open TypeTag InternalTypeTag BroExprTag

/-! ## `SubExpr::Reduce` on `x - x` -/

/-- C11: for a local `s` of type `string` the node `s - s` that the
constructor builds carries the error sentinel, a type that is neither vector
nor table, and its two operands are names of the same identifier.
`SubExpr::Reduce` does not return a constant zero for it: it calls
`MakeZero` on the tag of the error type, which `MakeZero` does not list, and
so ends in the internal error "bad call to MakeZero". -/
theorem SubExpr_Reduce_same_name_error_type :
    mkSubExpr (.name (localVar 1 TYPE_STRING)) (.name (localVar 1 TYPE_STRING)) =
      .binary EXPR_SUB (.name (localVar 1 TYPE_STRING)) (.name (localVar 1 TYPE_STRING))
        error_type ∧
    error_type.Tag ≠ TYPE_VECTOR ∧ error_type.Tag ≠ TYPE_TABLE ∧
    Reduce 3 plainReducer
        (mkSubExpr (.name (localVar 1 TYPE_STRING)) (.name (localVar 1 TYPE_STRING))) =
      .error (.internal "bad call to MakeZero") := by
  refine ⟨rfl, by decide, by decide, rfl⟩

theorem red_reduce_sub (n : Nat) (c : Reducer) (op1 op2 : Expr) (type : BroType) :
    red (n + 1) .reduce c (.binary EXPR_SUB op1 op2 type) =
      SubExpr_Reduce (red n .toSingleton) (red n .reduce) c op1 op2 type := rfl

/-- `SubExpr::Reduce` on a node whose two operands are names of the same
identifier (in optimizing mode: whose two operands are updated to such
names).  If the node's type is neither vector nor table, `Reduce` returns
what `MakeZeroExpr` builds for the type's tag, with a null companion
statement and no temporary: the constants `F`, `0`, `0` for `bool`, `int`,
`count`; for the tag of the error type `MakeZero` raises its internal error.
If the type is vector or table, `Reduce` is `BinaryExpr::Reduce` of the
node. -/
theorem SubExpr_Reduce_same_name (n : Nat) (c : Reducer) (id id1 : ID) (type : BroType)
    (hupd : (if c.Optimizing then c.UpdateExpr (.name id) else .name id) = .name id1) :
    (type.Tag ≠ TYPE_VECTOR → type.Tag ≠ TYPE_TABLE →
      Reduce (n + 1) c (.binary EXPR_SUB (.name id) (.name id) type) =
        match MakeZero type.Tag with
        | .ok z => .ok (.const z, none, c)
        | .error x => .error x) ∧
    (type.Tag = TYPE_BOOL →
      Reduce (n + 1) c (.binary EXPR_SUB (.name id) (.name id) type) =
        .ok (.const (GetBool false), none, c)) ∧
    (type.Tag = TYPE_INT →
      Reduce (n + 1) c (.binary EXPR_SUB (.name id) (.name id) type) =
        .ok (.const (GetInt 0), none, c)) ∧
    (type.Tag = TYPE_COUNT →
      Reduce (n + 1) c (.binary EXPR_SUB (.name id) (.name id) type) =
        .ok (.const (GetCount 0), none, c)) ∧
    (type.Tag = TYPE_ERROR →
      Reduce (n + 1) c (.binary EXPR_SUB (.name id) (.name id) type) =
        .error (.internal "bad call to MakeZero")) ∧
    (type.Tag = TYPE_VECTOR ∨ type.Tag = TYPE_TABLE →
      Reduce (n + 1) c (.binary EXPR_SUB (.name id) (.name id) type) =
        BinaryExpr_Reduce (ReduceToSingleton n) c EXPR_SUB (.name id1) (.name id1) type) := by
  have hgen : ∀ same : Bool,
      (type.Tag != TYPE_VECTOR && type.Tag != TYPE_TABLE) = same →
      Reduce (n + 1) c (.binary EXPR_SUB (.name id) (.name id) type) =
        if same then
          (match MakeZero type.Tag with
           | .ok z => .ok (.const z, none, c)
           | .error x => .error x)
        else BinaryExpr_Reduce (ReduceToSingleton n) c EXPR_SUB (.name id1) (.name id1) type := by
    intro same hs
    rw [Reduce, red_reduce_sub]
    simp only [SubExpr_Reduce, Expr.IsZero, Expr.Tag, hupd]
    simp [hs]
    rfl
  refine ⟨?_, ?_, ?_, ?_, ?_, ?_⟩
  · intro h1 h2
    rw [hgen true (by simp [h1, h2])]; rfl
  · intro h; rw [hgen true (by simp [h]), h]; rfl
  · intro h; rw [hgen true (by simp [h]), h]; rfl
  · intro h; rw [hgen true (by simp [h]), h]; rfl
  · intro h; rw [hgen true (by simp [h]), h]; rfl
  · intro h
    rw [hgen false (by rcases h with h | h <;> simp [h])]; rfl

/-- The node `x - x` for a local `x` of type `count` reduces to the constant `0`. -/
theorem SubExpr_Reduce_same_name_witness :
    Reduce 1 plainReducer (.binary EXPR_SUB (.name (localVar 1 TYPE_COUNT))
      (.name (localVar 1 TYPE_COUNT)) (base_type TYPE_COUNT)) =
      .ok (.const (GetCount 0), none, plainReducer) :=
  (SubExpr_Reduce_same_name 0 plainReducer (localVar 1 TYPE_COUNT) (localVar 1 TYPE_COUNT)
    (base_type TYPE_COUNT) rfl).2.2.2.1 rfl

end Zeek
namespace ZAM

/-! ## Managed slots -/

theorem managedFrom_append (x : FrameSharingInfo) :
    ∀ (l : List FrameSharingInfo) (i : Nat),
      managedFrom (l ++ [x]) i =
        managedFrom l i ++ (if x.is_managed then [i + l.length] else [])
  | [], i => by simp [managedFrom]
  | s :: rest, i => by
    have ih := managedFrom_append x rest (i + 1)
    have e : i + 1 + rest.length = i + (rest.length + 1) := by omega
    by_cases hs : s.is_managed = true <;>
      simp [managedFrom, hs, ih, e]

theorem managedFrom_recordDenizen (id : ID) (inst scope_end : Int) :
    ∀ (l : List FrameSharingInfo) (k i : Nat),
      managedFrom (recordDenizen id inst scope_end l k) i = managedFrom l i
  | [], k, i => by cases k <;> rfl
  | s :: rest, 0, i => by simp [recordDenizen, managedFrom]
  | s :: rest, k + 1, i => by
    simp [recordDenizen, managedFrom, managedFrom_recordDenizen id inst scope_end rest k (i + 1)]

theorem mem_managedFrom (k : Nat) :
    ∀ (l : List FrameSharingInfo) (i : Nat),
      k ∈ managedFrom l i ↔ ∃ s, i ≤ k ∧ l[k - i]? = some s ∧ s.is_managed = true
  | [], i => by simp [managedFrom]
  | s :: rest, i => by
    have ih := mem_managedFrom k rest (i + 1)
    have hstep : (k ∈ managedFrom rest (i + 1)) ↔
        ∃ s', i < k ∧ (s :: rest)[k - i]? = some s' ∧ s'.is_managed = true := by
      rw [ih]
      constructor
      · rintro ⟨s', h1, h2, h3⟩
        refine ⟨s', by omega, ?_, h3⟩
        have : k - i = (k - (i + 1)) + 1 := by omega
        rw [this]; simpa using h2
      · rintro ⟨s', h1, h2, h3⟩
        refine ⟨s', by omega, ?_, h3⟩
        have : k - i = (k - (i + 1)) + 1 := by omega
        rw [this] at h2; simpa using h2
    by_cases hs : s.is_managed = true
    · simp only [managedFrom, hs, if_true, List.mem_cons, hstep]
      constructor
      · rintro (rfl | ⟨s', h1, h2, h3⟩)
        · exact ⟨s, le_refl _, by simp, hs⟩
        · exact ⟨s', by omega, h2, h3⟩
      · rintro ⟨s', h1, h2, h3⟩
        by_cases hk : k = i
        · exact Or.inl hk
        · exact Or.inr ⟨s', by omega, h2, h3⟩
    · have hs' : s.is_managed = false := by simpa using hs
      simp only [managedFrom, hs', Bool.false_eq_true, if_false, hstep]
      constructor
      · rintro ⟨s', h1, h2, h3⟩
        exact ⟨s', by omega, h2, h3⟩
      · rintro ⟨s', h1, h2, h3⟩
        by_cases hk : k = i
        · subst hk
          simp only [Nat.sub_self, List.getElem?_cons_zero, Option.some.injEq] at h2
          subst h2
          exact absurd h3 hs
        · exact ⟨s', by omega, h2, h3⟩

theorem recordDenizen_managed (F : FrameInfo) (id : ID) (inst scope_end : Int) :
    ∀ (l : List FrameSharingInfo) (k : Nat),
      (∀ s ∈ l, SlotManaged F s) →
      (∀ s0, l[k]? = some s0 → s0.is_managed = F.isManagedType id) →
      ∀ s ∈ recordDenizen id inst scope_end l k, SlotManaged F s
  | [], k, _, _ => by cases k <;> simp [recordDenizen]
  | t :: rest, 0, hall, hk => by
    intro s hs
    simp only [recordDenizen, List.mem_cons] at hs
    rcases hs with rfl | hs
    · intro x hx
      simp only [List.mem_append, List.mem_singleton] at hx
      rcases hx with hx | rfl
      · exact hall t (List.mem_cons_self _ _) x hx
      · exact (hk t (by simp)).symm
    · exact hall s (List.mem_cons_of_mem _ hs)
  | t :: rest, k + 1, hall, hk => by
    intro s hs
    simp only [recordDenizen, List.mem_cons] at hs
    rcases hs with rfl | hs
    · exact hall s (List.mem_cons_self _ _)
    · exact recordDenizen_managed F id inst scope_end rest k
        (fun s' hs' => hall s' (List.mem_cons_of_mem _ hs'))
        (fun s0 h0 => hk s0 (by simpa using h0)) s hs

theorem ReMapVar_managed (F : FrameInfo) (st : ReMapState) (id : ID) (slot : Nat) (inst : Int)
    (h : ManagedInv F st) : ManagedInv F (ReMapVar F st id slot inst) := by
  unfold ReMapVar
  cases hend : F.denizen_ending slot with
  | none => exact h
  | some scope_end =>
    simp only
    cases hsearch : aptSlotSearch (F.isManagedType id) inst st.shared_frame_denizens 0 none with
    | none =>
      simp only
      constructor
      · refine recordDenizen_managed F id inst scope_end _ _ ?_ ?_
        · intro s hs
          rcases List.mem_append.1 hs with hs | hs
          · exact h.1 s hs
          · simp only [List.mem_singleton] at hs
            subst hs
            intro x hx
            simp at hx
        · intro s0 h0
          rw [List.getElem?_append_right (le_refl _)] at h0
          simp only [Nat.sub_self, List.getElem?_cons_zero, Option.some.injEq] at h0
          subst h0
          rfl
      · rw [managedFrom_recordDenizen, managedFrom_append, ← h.2]
        by_cases hm : F.isManagedType id = true <;> simp [hm]
    | some apt =>
      simp only
      constructor
      · refine recordDenizen_managed F id inst scope_end _ _ h.1 ?_
        intro s0 h0
        rcases aptSlotSearch_spec _ _ _ _ _ _ hsearch with h1 | ⟨s, _, hs, _, hm⟩
        · cases h1
        · simp only [Nat.sub_zero] at hs
          rw [h0] at hs
          cases hs
          exact hm
      · rw [managedFrom_recordDenizen]
        exact h.2

theorem ReMapFrame_vars_managed (F : FrameInfo) (i : Nat) :
    ∀ (vars : List ID) (st : ReMapState), ManagedInv F st →
      ManagedInv F (ReMapFrame_vars F i vars st)
  | [], st, h => h
  | v :: vs, st, h => by
    simp only [ReMapFrame_vars]
    split
    · exact ReMapFrame_vars_managed F i vs _ (ReMapVar_managed F st v _ _ h)
    · exact ReMapFrame_vars_managed F i vs st h

theorem ReMapFrame_assign_managed (F : FrameInfo) (n : Nat) :
    ManagedInv F (ReMapFrame_assign F n) := by
  unfold ReMapFrame_assign
  induction n with
  | zero => exact ⟨by simp, rfl⟩
  | succ n ih =>
    rw [List.range_succ, List.foldl_append]
    simp only [List.foldl_cons, List.foldl_nil]
    unfold ReMapFrame_step
    split
    · exact ih
    · exact ReMapFrame_vars_managed F n _ _ ih

/-- C12: after the slot assignment of `ReMapFrame`, every identifier recorded
in a shared frame slot is of a managed type exactly when the slot's
`is_managed` flag is set, and `managed_slotsI` lists, in increasing order and
once each, exactly the positions of the shared slots whose flag is set. -/
theorem ReMapFrame_managed_slots (F : FrameInfo) (n : Nat) :
    (∀ s ∈ (ReMapFrame_assign F n).shared_frame_denizens,
      ∀ id ∈ s.ids, F.isManagedType id = s.is_managed) ∧
    (ReMapFrame_assign F n).managed_slotsI =
      managedFrom (ReMapFrame_assign F n).shared_frame_denizens 0 ∧
    (∀ k, k ∈ (ReMapFrame_assign F n).managed_slotsI ↔
      ∃ s, (ReMapFrame_assign F n).shared_frame_denizens[k]? = some s ∧
        s.is_managed = true) := by
  have h := ReMapFrame_assign_managed F n
  refine ⟨h.1, h.2, ?_⟩
  intro k
  rw [h.2, mem_managedFrom]
  simp

/-- In the mixed frame the identifier 0, of a managed type, sits in a slot
whose flag is set. -/
theorem ReMapFrame_managed_slots_witness :
    mixedFrame.isManagedType 0 =
      ({ ids := [0], id_start := [0], scope_end := 1, is_managed := true } :
        FrameSharingInfo).is_managed :=
  (ReMapFrame_managed_slots mixedFrame 4).1
    { ids := [0], id_start := [0], scope_end := 1, is_managed := true } (by decide) 0
    (by decide)

end ZAM
namespace ZAM

/-! ## Sharing a slot between two temporaries -/

/-- C13, counterexample: in the mixed frame the only denizens are the
identifiers 0 and 1, and the lifetime of 0 ends (at 1) before 1 is first
assigned (at 2); 0 is of a managed type and 1 is not, and `ReMapFrame` maps
them to the different slots 0 and 1. -/
theorem ReMapFrame_mixed_not_shared :
    lifetimeEnd mixedFrame 0 = some 1 ∧
    mixedFrame.inst_beginnings 2 = some [1] ∧
    (ReMapFrame_assign mixedFrame 4).frame1_to_frame2 = [0, 1] ∧
    (ReMapFrame_assign mixedFrame 4).shared_frame_denizens =
      [{ ids := [0], id_start := [0], scope_end := 1, is_managed := true },
       { ids := [1], id_start := [2], scope_end := 3, is_managed := false }] := by
  refine ⟨rfl, rfl, ?_, ?_⟩ <;> decide

end ZAM
namespace ZAM

theorem ReMapFrame_assign_succ (F : FrameInfo) (n : Nat) :
    ReMapFrame_assign F (n + 1) = ReMapFrame_step F (ReMapFrame_assign F n) n := by
  unfold ReMapFrame_assign
  rw [List.range_succ, List.foldl_append]
  rfl

/-- The state of `ReMapFrame` along a body in which exactly two identifiers
begin, `t1` at instruction `b1` and `t2` at the later instruction `b2`. -/
theorem ReMapFrame_assign_two (F : FrameInfo) (t1 t2 : ID) (b1 b2 : Nat) (e1 e2 : Int)
    (hb : b1 < b2)
    (hbeg1 : F.inst_beginnings b1 = some [t1]) (hbeg2 : F.inst_beginnings b2 = some [t2])
    (honly : ∀ i, i ≠ b1 → i ≠ b2 → F.inst_beginnings i = none)
    (hend1 : F.denizen_ending (F.frame_layout1 t1) = some e1)
    (hend2 : F.denizen_ending (F.frame_layout1 t2) = some e2) :
    ∀ n, ReMapFrame_assign F n =
      if n ≤ b1 then ReMapFrame_assign F 0
      else if n ≤ b2 then
        ReMapVar F (ReMapFrame_assign F 0) t1 (F.frame_layout1 t1) (b1 : Int)
      else
        ReMapVar F (ReMapVar F (ReMapFrame_assign F 0) t1 (F.frame_layout1 t1) (b1 : Int))
          t2 (F.frame_layout1 t2) (b2 : Int) := by
  intro n
  induction n with
  | zero => simp
  | succ n ih =>
    rw [ReMapFrame_assign_succ, ih]
    by_cases h1 : n = b1
    · subst h1
      have : ¬ (n + 1 ≤ n) := by omega
      simp only [le_refl, if_true, this, if_false, show n + 1 ≤ b2 from hb]
      simp [ReMapFrame_step, hbeg1, ReMapFrame_vars, hend1]
    · by_cases h2 : n = b2
      · subst h2
        have a1 : ¬ (n ≤ b1) := by omega
        have a2 : ¬ (n + 1 ≤ b1) := by omega
        have a3 : ¬ (n + 1 ≤ n) := by omega
        simp only [a1, a2, a3, le_refl, if_true, if_false]
        simp [ReMapFrame_step, hbeg2, ReMapFrame_vars, hend2]
      · have hn := honly n h1 h2
        simp only [ReMapFrame_step, hn]
        by_cases c1 : n ≤ b1
        · have : n + 1 ≤ b1 := by omega
          simp [c1, this]
        · by_cases c2 : n ≤ b2
          · have a1 : ¬ (n + 1 ≤ b1) := by omega
            have a2 : n + 1 ≤ b2 := by omega
            simp [c1, c2, a1, a2]
          · have a1 : ¬ (n + 1 ≤ b1) := by omega
            have a2 : ¬ (n + 1 ≤ b2) := by omega
            simp [c1, c2, a1, a2]

/-- C13 (amended): in a body of `n` instructions in which exactly two
identifiers begin, `t1` at instruction `b1` and `t2` at the later instruction
`b2`, where the lifetime of `t1` ends at or before `b2` and both are of a
managed type or both are not, `ReMapFrame` puts both in the shared slot 0:
`frame1_to_frame2` maps the slots of both to 0. -/
theorem ReMapFrame_two_temporaries_share (F : FrameInfo) (t1 t2 : ID) (b1 b2 n : Nat)
    (e1 e2 : Int) (hb : b1 < b2) (hn : b2 < n)
    (hbeg1 : F.inst_beginnings b1 = some [t1]) (hbeg2 : F.inst_beginnings b2 = some [t2])
    (honly : ∀ i, i ≠ b1 → i ≠ b2 → F.inst_beginnings i = none)
    (hend1 : F.denizen_ending (F.frame_layout1 t1) = some e1)
    (hend2 : F.denizen_ending (F.frame_layout1 t2) = some e2)
    (hlast : e1 ≤ (b2 : Int))
    (hmanaged : F.isManagedType t1 = F.isManagedType t2)
    (hs1 : F.frame_layout1 t1 < F.num_slots) (hs2 : F.frame_layout1 t2 < F.num_slots) :
    (ReMapFrame_assign F n).shared_frame_denizens =
      [{ ids := [t1, t2], id_start := [(b1 : Int), (b2 : Int)], scope_end := e2,
         is_managed := F.isManagedType t1 }] ∧
    (ReMapFrame_assign F n).frame1_to_frame2[F.frame_layout1 t1]? = some 0 ∧
    (ReMapFrame_assign F n).frame1_to_frame2[F.frame_layout1 t2]? = some 0 := by
  rw [ReMapFrame_assign_two F t1 t2 b1 b2 e1 e2 hb hbeg1 hbeg2 honly hend1 hend2 n]
  have a1 : ¬ (n ≤ b1) := by omega
  have a2 : ¬ (n ≤ b2) := by omega
  simp only [a1, a2, if_false]
  have hS1 : ReMapVar F (ReMapFrame_assign F 0) t1 (F.frame_layout1 t1) (b1 : Int) =
      { shared_frame_denizens :=
          [{ ids := [t1], id_start := [(b1 : Int)], scope_end := e1,
             is_managed := F.isManagedType t1 }]
        managed_slotsI := if F.isManagedType t1 then [0] else []
        frame1_to_frame2 :=
          (List.replicate F.num_slots (-1)).set (F.frame_layout1 t1) 0 } := by
    simp [ReMapVar, hend1, ReMapFrame_assign, aptSlotSearch, recordDenizen]
  have hsearch : aptSlotSearch (F.isManagedType t2) (b2 : Int)
      [{ ids := [t1], id_start := [(b1 : Int)], scope_end := e1,
         is_managed := F.isManagedType t1 }] 0 none = some 0 := by
    simp only [aptSlotSearch, hlast, hmanaged, and_self, if_true]
    split <;> simp [aptSlotSearch]
  rw [hS1]
  simp only [ReMapVar, hend2, hsearch, recordDenizen, List.cons_append, List.nil_append]
  refine ⟨trivial, ?_, ?_⟩
  · by_cases he : F.frame_layout1 t1 = F.frame_layout1 t2
    · rw [he]; simp [List.getElem?_set, hs2]
    · have he' : ¬ F.frame_layout1 t2 = F.frame_layout1 t1 := fun h => he h.symm
      simp [List.getElem?_set, hs1, he, he', List.getElem_set]
  · simp [List.getElem?_set, hs2]

/-- The example frame: the identifiers 0 and 1, neither of a managed type,
share slot 0. -/
theorem ReMapFrame_two_temporaries_share_witness :
    (ReMapFrame_assign exampleFrame 4).frame1_to_frame2[exampleFrame.frame_layout1 0]? =
        some 0 ∧
    (ReMapFrame_assign exampleFrame 4).frame1_to_frame2[exampleFrame.frame_layout1 1]? =
        some 0 :=
  (ReMapFrame_two_temporaries_share exampleFrame 0 1 0 2 4 1 3 (by decide) (by decide) rfl rfl
    (by intro i h1 h2; simp [exampleFrame, h1, h2]) rfl rfl (by decide) rfl (by decide)
    (by decide)).2

end ZAM
namespace Zeek

open TypeTag InternalTypeTag BroExprTag

/-! ## `Eval` of nodes that carry the error sentinel -/

/-- C14: the conditional `1 ? 2 : 3` over `count` constants carries the error
sentinel (its condition is not a `bool`), yet `CondExpr::Eval`, which has no
`IsError` test, evaluates the condition and then the second operand and
returns the value `2` instead of the null value; with a condition that
cannot be evaluated (a global without a value) it raises that operand's
run-time error.  Unary, binary, boolean and call nodes with the error
sentinel return the null value whatever their operands are. -/
theorem Eval_error_sentinel_conditional :
    (mkCondExpr (countConst 1) (countConst 2) (countConst 3)).IsError = true ∧
    Eval none (mkCondExpr (countConst 1) (countConst 2) (countConst 3)) =
      .ok (some (.uintv .count 2)) ∧
    (mkCondExpr (.name { localVar 1 TYPE_COUNT with is_global := true }) (countConst 2)
      (countConst 3)).IsError = true ∧
    Eval none (mkCondExpr (.name { localVar 1 TYPE_COUNT with is_global := true })
      (countConst 2) (countConst 3)) = .error (.runtime "value used but not set") ∧
    (∀ f op1 op2, Eval f (.binary EXPR_ADD op1 op2 error_type) = .ok none) ∧
    (∀ f op1 op2, Eval f (.binary EXPR_AND_AND op1 op2 error_type) = .ok none) ∧
    (∀ f op, Eval f (.unary EXPR_NOT op error_type) = .ok none) ∧
    (∀ f func args, Eval f (.call func args error_type) = .ok none) :=
  ⟨rfl, rfl, rfl, rfl, fun _ _ _ => rfl, fun _ _ _ => rfl, fun _ _ => rfl, fun _ _ _ => rfl⟩

end Zeek

namespace Zeek

open TypeTag InternalTypeTag BroExprTag

/-! ## `BinaryExpr::Fold` on division and remainder -/

/-- The truncating quotient of a 64-bit integer is a 64-bit integer, except
for the smallest integer divided by `-1`. -/
theorem tdiv_range {a b : Int}
    (ha : -9223372036854775808 ≤ a ∧ a < 9223372036854775808)
    (hov : ¬ (a = -9223372036854775808 ∧ b = -1)) :
    -9223372036854775808 ≤ Int.tdiv a b ∧ Int.tdiv a b < 9223372036854775808 := by
  rcases a with m | m <;> rcases b with k | k
  · have h := Nat.div_le_self m k
    change _ ≤ (m : Int) ∧ (m : Int) < _ at ha
    change _ ≤ ((m / k : Nat) : Int) ∧ ((m / k : Nat) : Int) < _
    generalize m / k = q at h ⊢
    omega
  · have h := Nat.div_le_self m (k + 1)
    change _ ≤ (m : Int) ∧ (m : Int) < _ at ha
    change _ ≤ -((m / (k + 1) : Nat) : Int) ∧ -((m / (k + 1) : Nat) : Int) < _
    generalize m / (k + 1) = q at h ⊢
    omega
  · have h := Nat.div_le_self (m + 1) k
    rw [Int.negSucc_eq] at ha
    change _ ≤ -(((m + 1) / k : Nat) : Int) ∧ -(((m + 1) / k : Nat) : Int) < _
    generalize (m + 1) / k = q at h ⊢
    omega
  · have h := Nat.div_le_self (m + 1) (k + 1)
    rw [Int.negSucc_eq] at ha
    rw [Int.negSucc_eq, Int.negSucc_eq] at hov
    change _ ≤ (((m + 1) / (k + 1) : Nat) : Int) ∧ (((m + 1) / (k + 1) : Nat) : Int) < _
    by_cases hk : k = 0
    · subst hk
      simp only [Nat.zero_add, Nat.div_one] at h ⊢
      omega
    · have h2 : (m + 1) / (k + 1) < m + 1 := Nat.div_lt_self (by omega) (by omega)
      generalize (m + 1) / (k + 1) = q at h h2 ⊢
      omega

/-- The remainder of a truncating division of a 64-bit integer is a 64-bit
integer. -/
theorem tmod_range {a : Int} (b : Int)
    (ha : -9223372036854775808 ≤ a ∧ a < 9223372036854775808) :
    -9223372036854775808 ≤ Int.tmod a b ∧ Int.tmod a b < 9223372036854775808 := by
  rcases a with m | m <;> rcases b with k | k
  · have h := Nat.mod_le m k
    change _ ≤ (m : Int) ∧ (m : Int) < _ at ha
    change _ ≤ ((m % k : Nat) : Int) ∧ ((m % k : Nat) : Int) < _
    generalize m % k = q at h ⊢
    omega
  · have h := Nat.mod_le m (k + 1)
    change _ ≤ (m : Int) ∧ (m : Int) < _ at ha
    change _ ≤ ((m % (k + 1) : Nat) : Int) ∧ ((m % (k + 1) : Nat) : Int) < _
    generalize m % (k + 1) = q at h ⊢
    omega
  · have h := Nat.mod_le (m + 1) k
    rw [Int.negSucc_eq] at ha
    change _ ≤ -(((m + 1) % k : Nat) : Int) ∧ -(((m + 1) % k : Nat) : Int) < _
    generalize (m + 1) % k = q at h ⊢
    omega
  · have h := Nat.mod_le (m + 1) (k + 1)
    rw [Int.negSucc_eq] at ha
    change _ ≤ -(((m + 1) % (k + 1) : Nat) : Int) ∧ -(((m + 1) % (k + 1) : Nat) : Int) < _
    generalize (m + 1) % (k + 1) = q at h ⊢
    omega

end Zeek
namespace Zeek

open TypeTag InternalTypeTag BroExprTag

/-- `BinaryExpr::Fold` of a division or remainder node over two signed
operands (node of type `int`, or vector of `int`) or two unsigned operands
(node of type `count`), away from the quotient of the smallest `int` by
`-1`: the result is a run-time error exactly when the second operand is
zero, and otherwise the truncating quotient, respectively the remainder, of
the two operands.  The operands are 64-bit values. -/
theorem Fold_divide_mod_integral (itype utype : BroType) (k1 k2 : IntKind) (i1 i2 : Int)
    (j1 j2 : UIntKind) (u1 u2 : Nat)
    (hitype : (if IsVector itype.Tag then itype.YieldType else itype).Tag = TYPE_INT)
    (hutype : (if IsVector utype.Tag then utype.YieldType else utype).Tag = TYPE_COUNT)
    (hi1 : -9223372036854775808 ≤ i1 ∧ i1 < 9223372036854775808)
    (hu1 : u1 < 18446744073709551616)
    (hov : ¬ (i1 = -9223372036854775808 ∧ i2 = -1)) :
    Fold EXPR_DIVIDE itype (.intv k1 i1) (.intv k2 i2) =
      (if i2 = 0 then .error (.runtime "division by zero")
       else .ok (.intv .int (Int.tdiv i1 i2))) ∧
    Fold EXPR_MOD itype (.intv k1 i1) (.intv k2 i2) =
      (if i2 = 0 then .error (.runtime "modulo by zero")
       else .ok (.intv .int (Int.tmod i1 i2))) ∧
    Fold EXPR_DIVIDE utype (.uintv j1 u1) (.uintv j2 u2) =
      (if u2 = 0 then .error (.runtime "division by zero")
       else .ok (.uintv .count (u1 / u2))) ∧
    Fold EXPR_MOD utype (.uintv j1 u1) (.uintv j2 u2) =
      (if u2 = 0 then .error (.runtime "modulo by zero")
       else .ok (.uintv .count (u1 % u2))) := by
  have hq := wrapInt_eq (tdiv_range hi1 hov)
  have hr := wrapInt_eq (tmod_range i2 hi1)
  have hd : u1 / u2 < 18446744073709551616 := lt_of_le_of_lt (Nat.div_le_self u1 u2) hu1
  have hm : u1 % u2 < 18446744073709551616 := lt_of_le_of_lt (Nat.mod_le u1 u2) hu1
  have hd' := wrapUInt_eq hd
  have hm' := wrapUInt_eq hm
  push_cast at hd' hm'
  clear hi1 hu1 hov hd hm
  have hI : ∀ i3 : Int, foldResult itype i3 0 = .ok (GetInt i3) := by
    intro i3
    simp [foldResult, hitype, BroType.InternalType, InternalTypeOf]
  have hU : ∀ (i3 : Int) (u3 : Nat), foldResult utype i3 u3 = .ok (GetCount u3) := by
    intro i3 u3
    simp [foldResult, hutype, BroType.InternalType, InternalTypeOf]
  refine ⟨?_, ?_, ?_, ?_⟩
  · by_cases h : i2 = 0
    · simp [Fold, foldInt, h]
    · simp [Fold, foldInt, h, hI, GetInt, hq]
  · by_cases h : i2 = 0
    · simp [Fold, foldInt, h]
    · simp [Fold, foldInt, h, hI, GetInt, hr]
  · by_cases h : u2 = 0
    · simp [Fold, foldUInt, h]
    · simp [Fold, foldUInt, h, hU, GetCount, hd']
  · by_cases h : u2 = 0
    · simp [Fold, foldUInt, h]
    · simp [Fold, foldUInt, h, hU, GetCount, hm']

/-- The quotients and remainders `7 / -2`, `7 % -2` over `int` and `7 / 2`,
`7 % 2` over `count`. -/
theorem Fold_divide_mod_integral_witness :
    Fold EXPR_DIVIDE (base_type TYPE_INT) (.intv .int 7) (.intv .int (-2)) =
      .ok (.intv .int (-3)) ∧
    Fold EXPR_MOD (base_type TYPE_INT) (.intv .int 7) (.intv .int (-2)) =
      .ok (.intv .int 1) ∧
    Fold EXPR_DIVIDE (base_type TYPE_COUNT) (.uintv .count 7) (.uintv .count 2) =
      .ok (.uintv .count 3) ∧
    Fold EXPR_MOD (base_type TYPE_COUNT) (.uintv .count 7) (.uintv .count 2) =
      .ok (.uintv .count 1) :=
  Fold_divide_mod_integral (base_type TYPE_INT) (base_type TYPE_COUNT) .int .int 7 (-2)
    .count .count 7 2 rfl rfl (by decide) (by decide) (by decide)

/-- C15: the smallest `int` divided by `-1`.  The second operand is not zero,
so `Fold` raises no run-time error and goes on to compute `i1 / i2`.  The
truncating quotient of the two operands is `2^63`, which is not an `int`:
the division overflows (undefined in C++), and what `Fold` returns, here the
operand `-2^63` itself under two's-complement wrap-around, is not the
quotient. -/
theorem Fold_divide_least_int_by_minus_one :
    Fold EXPR_DIVIDE (base_type TYPE_INT) (.intv .int (-9223372036854775808))
        (.intv .int (-1)) = .ok (.intv .int (-9223372036854775808)) ∧
    Int.tdiv (-9223372036854775808) (-1) = 9223372036854775808 ∧
    ¬ ((-9223372036854775808 : Int) ≤ Int.tdiv (-9223372036854775808) (-1) ∧
       Int.tdiv (-9223372036854775808) (-1) < 9223372036854775808) := by
  refine ⟨by rfl, by decide, by decide⟩

end Zeek
namespace Zeek

open TypeTag InternalTypeTag BroExprTag

/-! ## Double complement, negation and logical not -/

/-- C18: `NotExpr::Reduce` of `!!x` returns the reduction of its operand `!x`,
not that of `x`: for a local `x` of type `bool` the result is a new temporary
with the companion assignment `tmp = !x`, so one logical-not remains and the
result has the opposite value of `x`.  `ComplementExpr::Reduce` and
`NegExpr::Reduce` return the reduction to a singleton of the inner operand:
`~~x` and `-(-x)` reduce to `x`. -/
theorem NotExpr_Reduce_double_not :
    (∀ (n : Nat) (c : Reducer) (x : Expr) (t : BroType),
      Reduce (n + 1) c (.unary EXPR_NOT (.unary EXPR_NOT x (base_type TYPE_BOOL)) t) =
        Reduce n c (.unary EXPR_NOT x (base_type TYPE_BOOL))) ∧
    Reduce 3 plainReducer
        (.unary EXPR_NOT (.unary EXPR_NOT (.name (localVar 1 TYPE_BOOL)) (base_type TYPE_BOOL))
          (base_type TYPE_BOOL)) =
      .ok ((plainReducer.GenTemporaryExpr (base_type TYPE_BOOL)).1,
           some (firstTempAssign
             (.unary EXPR_NOT (.name (localVar 1 TYPE_BOOL)) (base_type TYPE_BOOL))),
           (plainReducer.GenTemporaryExpr (base_type TYPE_BOOL)).2) ∧
    (∀ (n : Nat) (c : Reducer) (x : Expr) (t1 t2 : BroType),
      Reduce (n + 1) c (.unary EXPR_COMPLEMENT (.unary EXPR_COMPLEMENT x t1) t2) =
        ReduceToSingleton n c x) ∧
    (∀ (n : Nat) (c : Reducer) (x : Expr) (t1 t2 : BroType),
      Reduce (n + 1) c (.unary EXPR_NEGATE (.unary EXPR_NEGATE x t1) t2) =
        ReduceToSingleton n c x) ∧
    Reduce 3 plainReducer
        (.unary EXPR_COMPLEMENT
          (.unary EXPR_COMPLEMENT (.name (localVar 1 TYPE_COUNT)) (base_type TYPE_COUNT))
          (base_type TYPE_COUNT)) =
      .ok (.name (localVar 1 TYPE_COUNT), none, plainReducer) ∧
    Reduce 3 plainReducer
        (.unary EXPR_NEGATE
          (.unary EXPR_NEGATE (.name (localVar 1 TYPE_INT)) (base_type TYPE_INT))
          (base_type TYPE_INT)) =
      .ok (.name (localVar 1 TYPE_INT), none, plainReducer) :=
  ⟨fun _ _ _ _ => rfl, rfl, fun _ _ _ _ _ => rfl, fun _ _ _ _ _ => rfl, rfl, rfl⟩

end Zeek
namespace Zeek

open TypeTag InternalTypeTag BroExprTag

/-! ## Multiplication by the constant zero -/

/-- C19: `TimesExpr::Reduce` of a product with a constant-zero operand returns
that constant with a null companion statement and leaves the other operand
out.  For `f() * 0`, with `f` an impure built-in, nothing of the call
remains, whereas `f() + 0` reduces to a temporary whose companion statement
performs the call.  For `v * 0`, with `v` a `vector of count`, the result is
the `count` constant `0`, not a value of the node's vector type. -/
theorem TimesExpr_Reduce_zero_drops_operand :
    impureCountCall.HasNoSideEffects = false ∧
    mkTimesExpr impureCountCall (countConst 0) =
      .binary EXPR_TIMES (countConst 0) impureCountCall (base_type TYPE_COUNT) ∧
    Reduce 2 plainReducer (mkTimesExpr impureCountCall (countConst 0)) =
      .ok (countConst 0, none, plainReducer) ∧
    Reduce 4 plainReducer (mkAddExpr impureCountCall (countConst 0)) =
      .ok ((plainReducer.GenTemporaryExpr (base_type TYPE_COUNT)).1,
           some (firstTempAssign impureCountCall),
           (plainReducer.GenTemporaryExpr (base_type TYPE_COUNT)).2) ∧
    (mkTimesExpr (.name countVector) (countConst 0)).Type = .vector (base_type TYPE_COUNT) ∧
    Reduce 2 plainReducer (mkTimesExpr (.name countVector) (countConst 0)) =
      .ok (countConst 0, none, plainReducer) := by
  refine ⟨rfl, rfl, rfl, rfl, rfl, rfl⟩

end Zeek

namespace ZAM

/-! ## Resuming a compiled body -/

/-- The loop of `DoExec` only appends to the list of executed instructions. -/
theorem DoExec_loop_executed {ι : Type} (ev : ι → List ZVal → Nat → Step) (insts : List ι)
    (end_pc : Nat) :
    ∀ (fuel : Nat) (frame : List ZVal) (pc : Nat) (err : Bool) (tr : List Nat)
      (res : List ZVal × List Nat),
      DoExec_loop ev insts end_pc fuel frame pc err tr = .ok res → tr <+: res.2 := by
  intro fuel
  induction fuel with
  | zero => intro frame pc err tr res h; simp [DoExec_loop] at h
  | succ n ih =>
    intro frame pc err tr res h
    rw [DoExec_loop] at h
    split at h
    · cases hz : insts[pc]? with
      | none => rw [hz] at h; simp at h
      | some z =>
        rw [hz] at h
        have := ih _ _ _ _ _ h
        exact (List.prefix_append tr [pc]).trans this
    · cases h
      exact List.prefix_refl tr

/-- C16, counterexample: the body `slot0 = 7; leave; slot1 = slot0` without a
fixed frame.  `ZBody::Exec` executes the instructions 0 and 1 and leaves on a
frame whose slot 0 holds 7; a `ZAMResumption` at instruction 2 then executes
on a newly allocated frame, reads 0 from slot 0 and ends with the frame
`[0, 0]`. -/
theorem ZAMResumption_Exec_new_frame :
    ∃ r1 r2 : ExecResult DemoOp,
      (demoBody none).Exec demoEval 3 [0, 0] false = .ok r1 ∧
      r1.executed = [0, 1] ∧ r1.frame = [7, 0] ∧
      (ZAMResumption.mk r1.body 2).Exec demoEval 2 [0, 0] false = .ok r2 ∧
      r2.executed = [2] ∧ r2.frame = [0, 0] :=
  ⟨_, _, rfl, rfl, rfl, rfl, rfl, rfl⟩

/-- C16 (amended): `ZBody::Exec` is `DoExec` from instruction 0 and
`ZAMResumption::Exec` is `DoExec` from `xfer_pc`.  For a body with a fixed
frame (a non-recursive function), after an execution of the body that has
returned, a resumption of the body left by it first evaluates the instruction
at `xfer_pc`, on the frame as that execution left it; the instructions it
executes begin with `xfer_pc`. -/
theorem ZAMResumption_Exec_resumes {ι : Type} (ev : ι → List ZVal → Nat → Step)
    (b : ZBody ι) (fr0 : List ZVal) (fuel1 fuel2 : Nat) (alloc1 alloc2 : List ZVal)
    (r1 : ExecResult ι) (xfer_pc : Nat) (z : ι)
    (hfixed : b.fixed_frame = some fr0)
    (hrun : b.Exec ev fuel1 alloc1 false = .ok r1)
    (hz : b.insts[xfer_pc]? = some z) :
    b.Exec ev fuel1 alloc1 false = b.DoExec ev fuel1 alloc1 0 false ∧
    (ZAMResumption.mk r1.body xfer_pc).Exec ev (fuel2 + 1) alloc2 false =
      r1.body.DoExec ev (fuel2 + 1) alloc2 xfer_pc false ∧
    r1.body.insts = b.insts ∧ r1.body.fixed_frame = some r1.frame ∧
    (ZAMResumption.mk r1.body xfer_pc).Exec ev (fuel2 + 1) alloc2 false =
      (match DoExec_loop ev b.insts b.insts.length fuel2 (ev z r1.frame xfer_pc).frame
          (ev z r1.frame xfer_pc).pc (ev z r1.frame xfer_pc).ZAM_error [xfer_pc] with
       | .error e => .error e
       | .ok (frame, executed) =>
         .ok { executed := executed, frame := frame,
               body := { r1.body with fixed_frame := some frame } }) ∧
    (∀ r2, (ZAMResumption.mk r1.body xfer_pc).Exec ev (fuel2 + 1) alloc2 false = .ok r2 →
      r2.executed.head? = some xfer_pc) := by
  have hlt : xfer_pc < b.insts.length := by
    rcases Nat.lt_or_ge xfer_pc b.insts.length with h | h
    · exact h
    · rw [List.getElem?_eq_none h] at hz; cases hz
  have hbody : r1.body.insts = b.insts ∧ r1.body.fixed_frame = some r1.frame := by
    simp only [ZBody.Exec, ZBody.DoExec] at hrun
    split at hrun
    · cases hrun
    · cases hrun
      simp [hfixed]
  obtain ⟨hi, hf⟩ := hbody
  have hexec : (ZAMResumption.mk r1.body xfer_pc).Exec ev (fuel2 + 1) alloc2 false =
      (match DoExec_loop ev b.insts b.insts.length fuel2 (ev z r1.frame xfer_pc).frame
          (ev z r1.frame xfer_pc).pc (ev z r1.frame xfer_pc).ZAM_error [xfer_pc] with
       | .error e => .error e
       | .ok (frame, executed) =>
         .ok { executed := executed, frame := frame,
               body := { r1.body with fixed_frame := some frame } }) := by
    simp only [ZAMResumption.Exec, ZBody.DoExec, ZBody.frame, hi, hf, DoExec_loop, hlt, hz,
      decide_True, Bool.not_false, Bool.and_self, if_true, List.nil_append, Option.isSome_some]
  refine ⟨rfl, rfl, hi, hf, hexec, ?_⟩
  intro r2 h2
  rw [hexec] at h2
  cases hl : DoExec_loop ev b.insts b.insts.length fuel2 (ev z r1.frame xfer_pc).frame
      (ev z r1.frame xfer_pc).pc (ev z r1.frame xfer_pc).ZAM_error [xfer_pc] with
  | error e => rw [hl] at h2; cases h2
  | ok res =>
    rw [hl] at h2
    have hp := DoExec_loop_executed ev _ _ _ _ _ _ _ _ hl
    obtain ⟨t, ht⟩ := hp
    cases h2
    simp [← ht]

/-- C16 on the body `slot0 = 7; leave; slot1 = slot0` with a fixed frame: the
resumption at instruction 2 reads the 7 that the first execution stored. -/
theorem ZAMResumption_Exec_resumes_witness :
    ∃ r1 r2 : ExecResult DemoOp,
      (demoBody (some [0, 0])).Exec demoEval 3 [0, 0] false = .ok r1 ∧
      r1.frame = [7, 0] ∧
      (ZAMResumption.mk r1.body 2).Exec demoEval 2 [0, 0] false = .ok r2 ∧
      r2.frame = [7, 7] ∧ r2.executed.head? = some 2 :=
  ⟨_, _, rfl, rfl, rfl, rfl,
    (ZAMResumption_Exec_resumes demoEval (demoBody (some [0, 0])) [0, 0] 3 1 [0, 0] [0, 0]
      _ 2 (.copy 1 0) rfl rfl rfl).2.2.2.2.2 _ rfl⟩

end ZAM

namespace ZAM

open Zeek (Failure)

/-! ## Assignments and lifetime ends after the optimization loop -/

/-- C17: the body `x = g(); y = f(x); x = g(); z = f(y); return z`, the call
of `g` having side effects.  One round of the loop of `OptimizeInsts` changes
nothing, so the body is at its fixpoint.  The lifetime of `x` (slot 0) ends
at instruction 1, its last use, and the live instruction 2 assigns to slot
0: a live assignment after the recorded lifetime end of its slot.  `y` lives
from instruction 1 to instruction 3, and `ReMapFrame` puts `x`, `y` and `z`
into the one shared slot 0: the store of instruction 2 writes into the slot
that `y` occupies, before `y` is read at instruction 3. -/
theorem OptimizeInsts_call_after_lifetime_end :
    ∃ R : Optimized,
      OptimizeInsts callTables threeLocals [] [] 1 1 staleCall = .ok R ∧
      R.insts1 = staleCall ∧
      R.lifetimes.denizen_ending 0 = some 1 ∧
      (R.insts1[2]?).map (fun x => (x.live, x.AssignsToSlot1 callTables, x.v1,
          x.HasSideEffects callTables)) = some (true, true, 0, true) ∧
      R.lifetimes.denizen_beginning 1 = some 1 ∧ R.lifetimes.denizen_ending 1 = some 3 ∧
      (R.insts1[3]?).map (fun x => x.UsesSlot callTables 1) = some true ∧
      (ReMapFrame_assign (R.lifetimes.toFrameInfo 3 (fun _ => false)) 5).frame1_to_frame2 =
        [0, 0, 0] :=
  ⟨_, rfl, rfl, rfl, rfl, rfl, rfl, rfl, by decide⟩

end ZAM
namespace ZAM

open Zeek (Failure)

theorem pruneFrameStore_kept (T : OpTables) (st : PruneState) (i : Nat) (inst : ZInstI)
    (h : (pruneFrameStore T st i inst).did_prune = false) :
    pruneFrameStore T st i inst = st := by
  unfold pruneFrameStore at h ⊢
  split
  · rename_i hc
    rw [if_pos hc] at h
    cases h
  · rfl

theorem pruneLoad_kept (T : OpTables) (st : PruneState) (i : Nat) (inst : ZInstI)
    (h : (pruneLoad T st i inst).did_prune = false) :
    pruneLoad T st i inst = st := by
  unfold pruneLoad at h ⊢
  split
  · rename_i hc
    rw [if_pos hc] at h
    cases h
  · rfl

theorem pruneAssignment_kept (T : OpTables) (isGlobal : Int → Bool) (st st' : PruneState)
    (i : Nat) (inst : ZInstI) (h : pruneAssignment T isGlobal st i inst = some st')
    (hd : st'.did_prune = false) :
    st.did_prune = false ∧ st'.insts1 = st.insts1 ∧
    (∀ s, (st.denizen_ending s).isSome = true → (st'.denizen_ending s).isSome = true) ∧
    (inst.AssignsToSlot1 T = true → (st'.denizen_ending inst.v1).isSome = true) := by
  unfold pruneAssignment at h
  by_cases ha : inst.AssignsToSlot1 T = true
  · simp only [ha, Bool.not_true, Bool.false_eq_true, if_false] at h
    by_cases he : (st.denizen_ending inst.v1).isSome = true
    · simp only [he, if_true] at h
      cases h
      exact ⟨hd, rfl, fun _ hs => hs, fun _ => he⟩
    · simp only [he, Bool.false_eq_true, if_false] at h
      by_cases hg : isGlobal inst.v1 = true
      · simp only [hg, if_true] at h
        cases h
        refine ⟨hd, rfl, ?_, ?_⟩
        · intro s hs
          by_cases hss : s = inst.v1
          · simp [hss]
          · simpa [hss] using hs
        · intro _; simp
      · simp only [hg, Bool.false_eq_true, if_false] at h
        by_cases hse : inst.HasSideEffects T = true
        · simp only [hse, Bool.not_true, Bool.false_eq_true, if_false] at h
          cases hop : T.assignmentless_op inst.op with
          | none => rw [hop] at h; cases h
          | some o =>
            rw [hop] at h
            cases h
            simp at hd
        · have hse' : inst.HasSideEffects T = false := by simpa using hse
          simp only [hse', Bool.not_false, if_true] at h
          cases h
          simp at hd
  · have ha' : inst.AssignsToSlot1 T = false := by simpa using ha
    simp only [ha', Bool.not_false, if_true] at h
    cases h
    exact ⟨hd, rfl, fun _ hs => hs, fun hc => absurd hc ha⟩

theorem PruneUnused_at_kept (T : OpTables) (isGlobal : Int → Bool) (st st' : PruneState)
    (i : Nat) (h : PruneUnused_at T isGlobal st i = some st') (hd : st'.did_prune = false) :
    st.did_prune = false ∧ st'.insts1 = st.insts1 ∧
    (∀ s, (st.denizen_ending s).isSome = true → (st'.denizen_ending s).isSome = true) ∧
    (∀ x : ZInstI, st.insts1[i]? = some x → x.live = true → x.AssignsToSlot1 T = true →
      (st'.denizen_ending x.v1).isSome = true) := by
  unfold PruneUnused_at at h
  cases hx : st.insts1[i]? with
  | none =>
    rw [hx] at h
    cases h
    exact ⟨hd, rfl, fun _ hs => hs, fun x hc => by cases hc⟩
  | some inst =>
    rw [hx] at h
    simp only at h
    by_cases hl : inst.live = true
    · simp only [hl, Bool.not_true, Bool.false_eq_true, if_false] at h
      obtain ⟨h1, h2, h3, h4⟩ := pruneAssignment_kept T isGlobal _ st' i inst h hd
      have e1 := pruneLoad_kept T _ i inst h1
      rw [e1] at h1 h2 h3
      have e2 := pruneFrameStore_kept T st i inst h1
      rw [e2] at h1 h2 h3
      refine ⟨h1, h2, h3, ?_⟩
      intro x hxx _ hass
      cases hxx
      exact h4 hass
    · have hl' : inst.live = false := by simpa using hl
      simp only [hl', Bool.not_false, if_true] at h
      cases h
      refine ⟨hd, rfl, fun _ hs => hs, ?_⟩
      intro x hxx hlx _
      cases hxx
      rw [hl'] at hlx
      cases hlx

theorem PruneUnused_loop_kept (T : OpTables) (isGlobal : Int → Bool) :
    ∀ (k i : Nat) (st st' : PruneState), PruneUnused_loop T isGlobal k i st = some st' →
      st'.did_prune = false →
      st.did_prune = false ∧ st'.insts1 = st.insts1 ∧
      (∀ s, (st.denizen_ending s).isSome = true → (st'.denizen_ending s).isSome = true) ∧
      (∀ (j : Nat) (x : ZInstI), i ≤ j → j < i + k → st.insts1[j]? = some x → x.live = true →
        x.AssignsToSlot1 T = true → (st'.denizen_ending x.v1).isSome = true) := by
  intro k
  induction k with
  | zero =>
    intro i st st' h hd
    simp only [PruneUnused_loop] at h
    cases h
    exact ⟨hd, rfl, fun _ hs => hs, fun j x h1 h2 => by omega⟩
  | succ k ih =>
    intro i st st' h hd
    simp only [PruneUnused_loop] at h
    cases h1 : PruneUnused_at T isGlobal st i with
    | none => rw [h1] at h; cases h
    | some st1 =>
      rw [h1] at h
      obtain ⟨a1, a2, a3, a4⟩ := ih (i + 1) st1 st' h hd
      obtain ⟨b1, b2, b3, b4⟩ := PruneUnused_at_kept T isGlobal st st1 i h1 a1
      refine ⟨b1, a2.trans b2, fun s hs => a3 s (b3 s hs), ?_⟩
      intro j x hj1 hj2 hx hl ha
      by_cases hji : j = i
      · subst hji
        exact a3 _ (b4 x hx hl ha)
      · exact a4 j x (by omega) (by omega) (by rw [b2]; exact hx) hl ha

/-- When `PruneUnused` returns false it has left the instructions alone, and
every live instruction that assigns to slot 1 assigns to a slot with a
lifetime end. -/
theorem PruneUnused_kept (T : OpTables) (isGlobal : Int → Bool) (insts1 : List ZInstI)
    (denizen_ending : Int → Option Nat) (st : PruneState)
    (h : PruneUnused T isGlobal insts1 denizen_ending = some st)
    (hd : st.did_prune = false) :
    st.insts1 = insts1 ∧
    ∀ (i : Nat) (x : ZInstI), insts1[i]? = some x → x.live = true →
      x.AssignsToSlot1 T = true → (st.denizen_ending x.v1).isSome = true := by
  obtain ⟨_, a2, _, a4⟩ := PruneUnused_loop_kept T isGlobal _ _ _ _ h hd
  refine ⟨a2, ?_⟩
  intro i x hx hl ha
  have hi : i < insts1.length := (List.getElem?_eq_some.1 hx).1
  exact a4 i x (Nat.zero_le _) (by simpa using hi) hx hl ha

/-- The result of the loop of `OptimizeInsts` is the result of a call of
`PruneUnused` that returned false. -/
theorem OptimizeInsts_loop_last (T : OpTables) (D : FrameDenizens) (modified_globals : List Int)
    (inner : Nat) :
    ∀ (fuel : Nat) (insts : List ZInstI) (R : Optimized),
      OptimizeInsts_loop T D modified_globals inner fuel insts = .ok R →
      ∃ b de st, PruneUnused T D.isGlobal b de = some st ∧ st.did_prune = false ∧
        R.insts1 = st.insts1 ∧ R.lifetimes.denizen_ending = st.denizen_ending := by
  intro fuel
  induction fuel with
  | zero => intro insts R h; simp [OptimizeInsts_loop] at h
  | succ n ih =>
    intro insts R h
    rw [OptimizeInsts_loop] at h
    split at h
    · cases h
    · split at h
      · cases h
      · split at h
        · cases h
        · split at h
          · cases h
          · rename_i st hst
            dsimp only at h
            split at h
            · exact ih _ _ h
            · rename_i hc
              cases h
              refine ⟨_, _, st, hst, ?_, rfl, rfl⟩
              simp only [Bool.or_eq_true, not_or] at hc
              simpa using hc.2

/-- What `PruneUnused` does ensure: when the loop of `OptimizeInsts` has ended,
every live instruction that assigns to a frame slot assigns to a slot that
has a recorded lifetime end.  Whether the assignment lies before that end is
not looked at. -/
theorem OptimizeInsts_assignments_have_lifetime_end (T : OpTables) (D : FrameDenizens)
    (modified_globals : List Int) (switch_targets : List Nat) (inner fuel : Nat)
    (insts : List ZInstI) (R : Optimized)
    (h : OptimizeInsts T D modified_globals switch_targets inner fuel insts = .ok R)
    (i : Nat) (x : ZInstI) (hx : R.insts1[i]? = some x) (hlive : x.live = true)
    (hassign : x.AssignsToSlot1 T = true) :
    (R.lifetimes.denizen_ending x.v1).isSome = true := by
  obtain ⟨b, de, st, hst, hd, e1, e2⟩ := OptimizeInsts_loop_last T D modified_globals inner _ _ _ h
  obtain ⟨hb, hall⟩ := PruneUnused_kept T D.isGlobal b de st hst hd
  rw [e2]
  rw [e1, hb] at hx
  exact hall i x hx hlive hassign

/-- The body `x = c; y = f(x); x = c; z = f(y); return z`: the slot of `x`,
which instruction 2 assigns, has a lifetime end. -/
theorem OptimizeInsts_assignments_have_lifetime_end_witness :
    ∃ R : Optimized,
      OptimizeInsts lifetimeTables threeLocals [] [] 1 1 staleStore = .ok R ∧
      (R.lifetimes.denizen_ending 0).isSome = true :=
  ⟨_, rfl, OptimizeInsts_assignments_have_lifetime_end lifetimeTables threeLocals [] [] 1 1
    staleStore _ rfl 2 { plainInst (.other 3) with op_type := .OP_VC, v1 := 0 } rfl rfl rfl⟩

end ZAM

namespace Zeek

open TypeTag InternalTypeTag BroExprTag

/-! ## Reduction yields singletons -/

theorem bind_ok {α β : Type} (x : Except Failure α) (f : α → Except Failure β) (r : β)
    (h : (x >>= f) = .ok r) : ∃ a, x = .ok a ∧ f a = .ok r := by
  cases x with
  | error e => cases h
  | ok a => exact ⟨a, rfl, h⟩

theorem ToSingleton.keeps {f : Reducer → Expr → Red} (h : ToSingleton f) : KeepsMode f :=
  fun c e r hr => (h c e r hr).1

theorem AssignToTemporary_singleton (c : Reducer) (this e : Expr) (s : Option Stmt) :
    (AssignToTemporary c this e s).1.isNameOrConst = true ∧
    (AssignToTemporary c this e s).2.2.optimizing = c.optimizing :=
  ⟨rfl, rfl⟩

theorem isNameOrConst_of_IsSingleton {c : Reducer} {e : Expr} (h : IsSingleton c e = true) :
    e.isNameOrConst = true := by
  cases e <;> simp_all [IsSingleton, Expr.isNameOrConst]

theorem reduceOperand_keeps {toS : Reducer → Expr → Red} (hk : KeepsMode toS)
    (c : Reducer) (op : Expr) (r : Expr × Option Stmt × Reducer)
    (h : reduceOperand toS c op = .ok r) : r.2.2.optimizing = c.optimizing := by
  unfold reduceOperand at h
  split at h
  · exact hk c op r h
  · cases h; rfl

theorem reduceOperand_singleton {toS : Reducer → Expr → Red} (hs : ToSingleton toS)
    (c : Reducer) (op : Expr) (r : Expr × Option Stmt × Reducer)
    (h : reduceOperand toS c op = .ok r) (hc : c.optimizing = false)
    (hop : op.isOperatorExpr = true) : r.1.isNameOrConst = true := by
  unfold reduceOperand at h
  split at h
  · exact (hs c op r h).2 hc hop
  · rename_i hsing
    cases h
    exact isNameOrConst_of_IsSingleton (by simpa using hsing)

theorem UnaryExpr_Reduce_sound {toS : Reducer → Expr → Red} (hs : ToSingleton toS)
    (c : Reducer) (tag : BroExprTag) (op : Expr) (type : BroType)
    (r : Expr × Option Stmt × Reducer)
    (h : UnaryExpr_Reduce toS c tag op type = .ok r) :
    r.2.2.optimizing = c.optimizing ∧ (c.optimizing = false → r.1.isNameOrConst = true) := by
  unfold UnaryExpr_Reduce at h
  obtain ⟨⟨op1, s1, c1⟩, h1, h⟩ := bind_ok _ _ _ h
  have k1 := reduceOperand_keeps hs.keeps _ _ _ h1
  simp only at h k1
  split at h
  · obtain ⟨v, _, h⟩ := bind_ok _ _ _ h
    cases h
    exact ⟨k1, fun _ => rfl⟩
  · split at h
    · rename_i ho
      cases h
      refine ⟨k1, fun hc => ?_⟩
      simp only [Reducer.Optimizing] at ho
      rw [k1, hc] at ho
      cases ho
    · cases h
      exact ⟨k1, fun _ => rfl⟩

theorem BinaryExpr_Reduce_sound {toS : Reducer → Expr → Red} (hs : ToSingleton toS)
    (c : Reducer) (tag : BroExprTag) (op1 op2 : Expr) (type : BroType)
    (r : Expr × Option Stmt × Reducer)
    (h : BinaryExpr_Reduce toS c tag op1 op2 type = .ok r) :
    r.2.2.optimizing = c.optimizing ∧ (c.optimizing = false → r.1.isNameOrConst = true) := by
  unfold BinaryExpr_Reduce at h
  obtain ⟨⟨b1, s1, c1⟩, h1, h⟩ := bind_ok _ _ _ h
  obtain ⟨⟨b2, s2, c2⟩, h2, h⟩ := bind_ok _ _ _ h
  have k1 := reduceOperand_keeps hs.keeps _ _ _ h1
  have k2 := reduceOperand_keeps hs.keeps _ _ _ h2
  simp only at h k1 k2
  have k : c2.optimizing = c.optimizing := k2.trans k1
  split at h
  · obtain ⟨v, _, h⟩ := bind_ok _ _ _ h
    cases h
    exact ⟨k, fun _ => rfl⟩
  · split at h
    · rename_i ho
      cases h
      refine ⟨k, fun hc => ?_⟩
      simp only [Reducer.Optimizing] at ho
      rw [k, hc] at ho
      cases ho
    · cases h
      exact ⟨k, fun _ => rfl⟩

end Zeek
namespace Zeek

open TypeTag InternalTypeTag BroExprTag

theorem isOperatorExpr_operandOf {e : Expr} (h : e.isOperatorExpr = true) :
    (operandOf e).isOperatorExpr = true := by
  cases e <;> simp_all [operandOf, Expr.GetOp1, Expr.isOperatorExpr]

theorem mkArithCoerceExpr_shape (a : Expr) (t : TypeTag) :
    ∃ ty, mkArithCoerceExpr a t = .unary EXPR_ARITH_COERCE a ty := by
  unfold mkArithCoerceExpr
  simp only []
  split_ifs <;> exact ⟨_, rfl⟩

theorem isOperatorExpr_mkArithCoerceExpr (a : Expr) (t : TypeTag) :
    (mkArithCoerceExpr a t).isOperatorExpr = a.isOperatorExpr := by
  obtain ⟨ty, h⟩ := mkArithCoerceExpr_shape a t
  rw [h]
  simp [Expr.isOperatorExpr]

theorem isOperatorExpr_PromoteType (tag : BroExprTag) (a b : Expr) (t : TypeTag) (v : Bool)
    (ha : a.isOperatorExpr = true) (hb : b.isOperatorExpr = true) :
    (PromoteType tag a b t v).isOperatorExpr = true := by
  simp only [PromoteType, PromoteOps, Expr.isOperatorExpr, Bool.and_eq_true]
  constructor
  · split
    · rw [isOperatorExpr_mkArithCoerceExpr]; exact ha
    · exact ha
  · split
    · rw [isOperatorExpr_mkArithCoerceExpr]; exact hb
    · exact hb

theorem isOperatorExpr_mkSubExpr (a b : Expr)
    (ha : a.isOperatorExpr = true) (hb : b.isOperatorExpr = true) :
    (mkSubExpr a b).isOperatorExpr = true := by
  unfold mkSubExpr
  have hp := fun t v => isOperatorExpr_PromoteType EXPR_SUB a b t v ha hb
  simp only []
  repeat' split
  all_goals first
    | exact hp _ _
    | simp [Expr.isOperatorExpr, ha, hb]

theorem isOperatorExpr_mkAddExpr (a b : Expr)
    (ha : a.isOperatorExpr = true) (hb : b.isOperatorExpr = true) :
    (mkAddExpr a b).isOperatorExpr = true := by
  unfold mkAddExpr
  have hp := fun t v => isOperatorExpr_PromoteType EXPR_ADD a b t v ha hb
  simp only []
  repeat' split
  all_goals first
    | exact hp _ _
    | simp [Expr.isOperatorExpr, ha, hb]

theorem isOperatorExpr_mkCondExpr (a b d : Expr)
    (ha : a.isOperatorExpr = true) (hb : b.isOperatorExpr = true)
    (hd : d.isOperatorExpr = true) :
    (mkCondExpr a b d).isOperatorExpr = true := by
  unfold mkCondExpr
  simp only []
  repeat' split
  all_goals
    simp [Expr.isOperatorExpr, ha, hb, hd, isOperatorExpr_mkArithCoerceExpr]

end Zeek
namespace Zeek

open TypeTag InternalTypeTag BroExprTag

theorem AddExpr_Reduce_sound {toS : Reducer → Expr → Red} (hs : ToSingleton toS)
    (c : Reducer) (op1 op2 : Expr) (type : BroType) (r : Expr × Option Stmt × Reducer)
    (h : AddExpr_Reduce toS c op1 op2 type = .ok r) :
    r.2.2.optimizing = c.optimizing ∧
    (c.optimizing = false → op1.isOperatorExpr = true → op2.isOperatorExpr = true →
      r.1.isNameOrConst = true) := by
  unfold AddExpr_Reduce at h
  split at h
  · exact ⟨(hs _ _ _ h).1, fun hc _ h2 => (hs _ _ _ h).2 hc h2⟩
  · split at h
    · exact ⟨(hs _ _ _ h).1, fun hc h1 _ => (hs _ _ _ h).2 hc h1⟩
    · split at h
      · exact ⟨(hs _ _ _ h).1, fun hc h1 h2 =>
          (hs _ _ _ h).2 hc (isOperatorExpr_mkSubExpr _ _ h2 (isOperatorExpr_operandOf h1))⟩
      · split at h
        · exact ⟨(hs _ _ _ h).1, fun hc h1 h2 =>
            (hs _ _ _ h).2 hc (isOperatorExpr_mkSubExpr _ _ h1 (isOperatorExpr_operandOf h2))⟩
        · have := BinaryExpr_Reduce_sound hs _ _ _ _ _ _ h
          exact ⟨this.1, fun hc _ _ => this.2 hc⟩

theorem SubExpr_Reduce_sound {toS red : Reducer → Expr → Red} (hs : ToSingleton toS)
    (hr : ToSingleton red)
    (c : Reducer) (op1 op2 : Expr) (type : BroType) (r : Expr × Option Stmt × Reducer)
    (h : SubExpr_Reduce toS red c op1 op2 type = .ok r) :
    r.2.2.optimizing = c.optimizing ∧
    (c.optimizing = false → op1.isOperatorExpr = true → op2.isOperatorExpr = true →
      r.1.isNameOrConst = true) := by
  unfold SubExpr_Reduce at h
  split at h
  · exact ⟨(hs _ _ _ h).1, fun hc h1 _ => (hs _ _ _ h).2 hc h1⟩
  · split at h
    · exact ⟨(hr _ _ _ h).1, fun hc h1 h2 =>
        (hr _ _ _ h).2 hc (isOperatorExpr_mkAddExpr _ _ h1 (isOperatorExpr_operandOf h2))⟩
    · have key : ∀ (same : Bool) (a1 a2 : Expr),
          (if same = true then
            (match MakeZero type.Tag with
             | .ok z => (.ok (.const z, none, c) : Red)
             | .error x => .error x)
           else BinaryExpr_Reduce toS c EXPR_SUB a1 a2 type) = .ok r →
          r.2.2.optimizing = c.optimizing ∧
          (c.optimizing = false → r.1.isNameOrConst = true) := by
        intro same a1 a2 h
        split at h
        · split at h
          · cases h; exact ⟨rfl, fun _ => rfl⟩
          · cases h
        · exact BinaryExpr_Reduce_sound hs _ _ _ _ _ _ h
      have := key _ _ _ h
      exact ⟨this.1, fun hc _ _ => this.2 hc⟩

theorem TimesExpr_Reduce_sound {toS : Reducer → Expr → Red} (hs : ToSingleton toS)
    (c : Reducer) (op1 op2 : Expr) (type : BroType) (r : Expr × Option Stmt × Reducer)
    (h : TimesExpr_Reduce toS c op1 op2 type = .ok r) :
    r.2.2.optimizing = c.optimizing ∧
    (c.optimizing = false → op1.isOperatorExpr = true → op2.isOperatorExpr = true →
      r.1.isNameOrConst = true) := by
  unfold TimesExpr_Reduce at h
  split at h
  · exact ⟨(hs _ _ _ h).1, fun hc _ h2 => (hs _ _ _ h).2 hc h2⟩
  · split at h
    · exact ⟨(hs _ _ _ h).1, fun hc h1 _ => (hs _ _ _ h).2 hc h1⟩
    · split at h
      · split at h
        · cases h; exact ⟨rfl, fun _ _ _ => rfl⟩
        · cases h
      · have := BinaryExpr_Reduce_sound hs _ _ _ _ _ _ h
        exact ⟨this.1, fun hc _ _ => this.2 hc⟩

theorem DivideExpr_Reduce_sound {toS : Reducer → Expr → Red} (hs : ToSingleton toS)
    (c : Reducer) (op1 op2 : Expr) (type : BroType) (r : Expr × Option Stmt × Reducer)
    (h : DivideExpr_Reduce toS c op1 op2 type = .ok r) :
    r.2.2.optimizing = c.optimizing ∧
    (c.optimizing = false → op1.isOperatorExpr = true → op2.isOperatorExpr = true →
      r.1.isNameOrConst = true) := by
  unfold DivideExpr_Reduce at h
  split at h
  · exact ⟨(hs _ _ _ h).1, fun hc h1 _ => (hs _ _ _ h).2 hc h1⟩
  · have := BinaryExpr_Reduce_sound hs _ _ _ _ _ _ h
    exact ⟨this.1, fun hc _ _ => this.2 hc⟩

theorem BitExpr_Reduce_sound {toS : Reducer → Expr → Red} (hs : ToSingleton toS)
    (c : Reducer) (tag : BroExprTag) (op1 op2 : Expr) (type : BroType)
    (r : Expr × Option Stmt × Reducer)
    (h : BitExpr_Reduce toS c tag op1 op2 type = .ok r) :
    r.2.2.optimizing = c.optimizing ∧
    (c.optimizing = false → op1.isOperatorExpr = true → op2.isOperatorExpr = true →
      r.1.isNameOrConst = true) := by
  have hb := fun (h : BinaryExpr_Reduce toS c tag op1 op2 type = .ok r) =>
    BinaryExpr_Reduce_sound hs _ _ _ _ _ _ h
  unfold BitExpr_Reduce at h
  simp only [] at h
  split at h
  · exact ⟨(hb h).1, fun hc _ _ => (hb h).2 hc⟩
  · split at h
    · exact ⟨(hs _ _ _ h).1, fun hc h1 _ => (hs _ _ _ h).2 hc h1⟩
    · split at h
      · split at h
        · refine ⟨(hs _ _ _ h).1, fun hc h1 h2 => (hs _ _ _ h).2 hc ?_⟩
          split <;> assumption
        · refine ⟨(hs _ _ _ h).1, fun hc h1 h2 => (hs _ _ _ h).2 hc ?_⟩
          split <;> assumption
      · split at h
        · split at h
          · cases h; exact ⟨rfl, fun _ _ _ => rfl⟩
          · exact ⟨(hs _ _ _ h).1, fun hc h1 _ => (hs _ _ _ h).2 hc h1⟩
        · exact ⟨(hb h).1, fun hc _ _ => (hb h).2 hc⟩

theorem EqExpr_Reduce_sound {toS : Reducer → Expr → Red} (hs : ToSingleton toS)
    (c : Reducer) (tag : BroExprTag) (op1 op2 : Expr) (type : BroType)
    (r : Expr × Option Stmt × Reducer)
    (h : EqExpr_Reduce toS c tag op1 op2 type = .ok r) :
    r.2.2.optimizing = c.optimizing ∧ (c.optimizing = false → r.1.isNameOrConst = true) := by
  unfold EqExpr_Reduce at h
  split at h
  · cases h; exact ⟨rfl, fun _ => rfl⟩
  · exact BinaryExpr_Reduce_sound hs _ _ _ _ _ _ h

theorem RelExpr_Reduce_sound {toS : Reducer → Expr → Red} (hs : ToSingleton toS)
    (c : Reducer) (tag : BroExprTag) (op1 op2 : Expr) (type : BroType)
    (r : Expr × Option Stmt × Reducer)
    (h : RelExpr_Reduce toS c tag op1 op2 type = .ok r) :
    r.2.2.optimizing = c.optimizing ∧ (c.optimizing = false → r.1.isNameOrConst = true) := by
  unfold RelExpr_Reduce at h
  split at h
  · cases h; exact ⟨rfl, fun _ => rfl⟩
  · exact BinaryExpr_Reduce_sound hs _ _ _ _ _ _ h

theorem BoolExpr_Reduce_sound {toS : Reducer → Expr → Red} (hs : ToSingleton toS)
    (c : Reducer) (tag : BroExprTag) (op1 op2 : Expr) (type : BroType)
    (r : Expr × Option Stmt × Reducer)
    (h : BoolExpr_Reduce toS c tag op1 op2 type = .ok r) :
    r.2.2.optimizing = c.optimizing ∧
    (c.optimizing = false → op1.isOperatorExpr = true → op2.isOperatorExpr = true →
      r.1.isNameOrConst = true) := by
  unfold BoolExpr_Reduce at h
  split at h
  · cases h
  · simp only [] at h
    have hconst : ∀ b : Bool, (Expr.const (GetBool b)).isOperatorExpr = true := fun _ => rfl
    repeat' split at h
    all_goals
      refine ⟨(hs _ _ _ h).1, fun hc h1 h2 => (hs _ _ _ h).2 hc ?_⟩
      first
        | exact h1
        | exact h2
        | exact isOperatorExpr_mkCondExpr _ _ _ h1 h2 (hconst _)
        | exact isOperatorExpr_mkCondExpr _ _ _ h1 (hconst _) h2

end Zeek
namespace Zeek

open TypeTag InternalTypeTag BroExprTag

theorem NameExpr_Reduce_sound (c : Reducer) (id : ID) (r : Expr × Option Stmt × Reducer)
    (h : NameExpr_Reduce c id = .ok r) :
    r.2.2.optimizing = c.optimizing ∧ r.1.isNameOrConst = true := by
  unfold NameExpr_Reduce at h
  split at h
  · cases h; exact ⟨rfl, rfl⟩
  · split at h
    · split at h
      · cases h; exact ⟨rfl, rfl⟩
      · cases h
    · cases h
      refine ⟨rfl, ?_⟩
      simp only [Reducer.UpdateName]
      split <;> rfl

theorem isNameOrConst_of_same_singletons {a b : Expr} (h : same_singletons a b = true) :
    a.isNameOrConst = true := by
  cases a <;> cases b <;> simp_all [same_singletons, Expr.isNameOrConst]

theorem CondExpr_ReduceToSingletons_keeps {toS : Reducer → Expr → Red} (hk : KeepsMode toS)
    (c : Reducer) (op1 op2 op3 : Expr) (type : BroType) (r : Expr × Option Stmt × Reducer)
    (h : CondExpr_ReduceToSingletons toS c op1 op2 op3 type = .ok r) :
    r.2.2.optimizing = c.optimizing := by
  unfold CondExpr_ReduceToSingletons at h
  obtain ⟨⟨b1, s1, c1⟩, h1, h⟩ := bind_ok _ _ _ h
  obtain ⟨⟨b2, s2, c2⟩, h2, h⟩ := bind_ok _ _ _ h
  obtain ⟨⟨b3, s3, c3⟩, h3, h⟩ := bind_ok _ _ _ h
  have k1 := reduceOperand_keeps hk _ _ _ h1
  have k2 := reduceOperand_keeps hk _ _ _ h2
  have k3 := reduceOperand_keeps hk _ _ _ h3
  cases h
  exact k3.trans (k2.trans k1)

theorem CondExpr_Reduce_sound {toS : Reducer → Expr → Red} (hs : ToSingleton toS)
    (c : Reducer) (op1 op2 op3 : Expr) (type : BroType) (r : Expr × Option Stmt × Reducer)
    (h : CondExpr_Reduce toS c op1 op2 op3 type = .ok r) :
    r.2.2.optimizing = c.optimizing ∧
    (c.optimizing = false → op1.isOperatorExpr = true → op2.isOperatorExpr = true →
      op3.isOperatorExpr = true → r.1.isNameOrConst = true) := by
  unfold CondExpr_Reduce at h
  simp only [] at h
  have hop : ∀ (x : Expr), c.optimizing = false → x.isOperatorExpr = true →
      (if c.Optimizing = true then c.UpdateExpr x else x).isOperatorExpr = true := by
    intro x hc hx
    simp [Reducer.Optimizing, hc, hx]
  have hop1 := hop op1
  have hop2 := hop op2
  have hop3 := hop op3
  generalize (if c.Optimizing = true then c.UpdateExpr op1 else op1) = a1 at h hop1
  generalize (if c.Optimizing = true then c.UpdateExpr op2 else op2) = a2 at h hop2
  generalize (if c.Optimizing = true then c.UpdateExpr op3 else op3) = a3 at h hop3
  obtain ⟨⟨b1, s1, c1⟩, h1, h⟩ := bind_ok _ _ _ h
  have k1 := (hs _ _ _ h1).1
  simp only at h k1
  split at h
  · obtain ⟨⟨res, s2, c2⟩, h2, h⟩ := bind_ok _ _ _ h
    cases h
    split at h2
    · have := hs _ _ _ h2
      exact ⟨this.1.trans k1, fun hc _ q2 _ => this.2 (k1.trans hc) (hop2 hc q2)⟩
    · have := hs _ _ _ h2
      exact ⟨this.1.trans k1, fun hc _ _ q3 => this.2 (k1.trans hc) (hop3 hc q3)⟩
  · split at h
    · rename_i hsame
      split at h
      · simp only [pure, Except.pure] at h
        cases h
        exact ⟨k1, fun _ _ _ _ => isNameOrConst_of_same_singletons hsame⟩
      · simp only [pure, Except.pure] at h
        cases h
        exact ⟨k1, fun _ _ _ _ => isNameOrConst_of_same_singletons hsame⟩
    · split at h
      · rename_i ho
        simp only [pure, Except.pure] at h
        cases h
        refine ⟨k1, fun hc => ?_⟩
        simp only [Reducer.Optimizing] at ho
        rw [k1, hc] at ho
        cases ho
      · obtain ⟨⟨this, s2, c2⟩, h2, h⟩ := bind_ok _ _ _ h
        have k2 := CondExpr_ReduceToSingletons_keeps hs.keeps _ _ _ _ _ _ h2
        simp only [pure, Except.pure] at h
        cases h
        exact ⟨k2.trans k1, fun _ _ _ _ => rfl⟩

theorem reduceElems_keeps {step : Reducer → Expr → Red} (hk : KeepsMode step) :
    ∀ (es : List Expr) (c : Reducer) (s : Option Stmt)
      (r : List Expr × Option Stmt × Reducer),
      reduceElems step es c s = .ok r → r.2.2.optimizing = c.optimizing := by
  intro es
  induction es with
  | nil => intro c s r h; simp only [reduceElems] at h; cases h; rfl
  | cons e es ih =>
    intro c s r h
    simp only [reduceElems] at h
    split at h
    · split at h
      · rename_i heq
        cases h
        have := ih _ _ _ heq
        exact this
      · cases h
    · split at h
      · cases h
      · rename_i e1 s1 c1 hstep
        split at h
        · rename_i heq
          cases h
          have := ih _ _ _ heq
          exact this.trans (hk _ _ _ hstep)
        · cases h

theorem ListExpr_Reduce_keeps {toS : Reducer → Expr → Red} (hk : KeepsMode toS)
    (c : Reducer) (l : Expr) (r : Expr × Option Stmt × Reducer)
    (h : ListExpr_Reduce toS c l = .ok r) : r.2.2.optimizing = c.optimizing := by
  unfold ListExpr_Reduce at h
  split at h
  · cases h; rfl
  · split at h
    · rename_i heq
      cases h
      exact reduceElems_keeps hk _ _ _ _ heq
    · cases h

theorem ListExpr_ReduceToSingletons_keeps {red : Reducer → Expr → Red} (hk : KeepsMode red)
    (c : Reducer) (l : Expr) (r : Expr × Option Stmt × Reducer)
    (h : ListExpr_ReduceToSingletons red c l = .ok r) : r.2.2.optimizing = c.optimizing := by
  unfold ListExpr_ReduceToSingletons at h
  split at h
  · rename_i heq
    cases h
    exact reduceElems_keeps hk _ _ _ _ heq
  · cases h

theorem CallExpr_Reduce_sound {toS : Reducer → Expr → Red} (hk : KeepsMode toS)
    (c : Reducer) (func args : Expr) (type : BroType) (r : Expr × Option Stmt × Reducer)
    (h : CallExpr_Reduce toS c func args type = .ok r) :
    r.2.2.optimizing = c.optimizing ∧
    (c.optimizing = false → type.Tag ≠ TYPE_VOID → r.1.isNameOrConst = true) := by
  unfold CallExpr_Reduce at h
  split at h
  · rename_i ho
    cases h
    refine ⟨rfl, fun hc => ?_⟩
    simp only [Reducer.Optimizing] at ho
    rw [hc] at ho
    cases ho
  · obtain ⟨⟨f1, s1, c1⟩, h1, h⟩ := bind_ok _ _ _ h
    obtain ⟨⟨a1, s2, c2⟩, h2, h⟩ := bind_ok _ _ _ h
    have k1 := reduceOperand_keeps hk _ _ _ h1
    have k2 := ListExpr_Reduce_keeps hk _ _ _ h2
    simp only at h k1 k2
    split at h
    · rename_i hv
      cases h
      exact ⟨k2.trans k1, fun _ hnv => absurd hv hnv⟩
    · cases h
      exact ⟨k2.trans k1, fun _ _ => rfl⟩

theorem CallExpr_ReduceToSingletons_keeps {red : Reducer → Expr → Red} (hk : KeepsMode red)
    (c : Reducer) (func args : Expr) (type : BroType) (r : Expr × Option Stmt × Reducer)
    (h : CallExpr_ReduceToSingletons red c func args type = .ok r) :
    r.2.2.optimizing = c.optimizing := by
  unfold CallExpr_ReduceToSingletons at h
  obtain ⟨⟨f1, s1, c1⟩, h1, h⟩ := bind_ok _ _ _ h
  obtain ⟨⟨a1, s2, c2⟩, h2, h⟩ := bind_ok _ _ _ h
  have k2 := ListExpr_ReduceToSingletons_keeps hk _ _ _ h2
  cases h
  refine k2.trans ?_
  split at h1
  · exact hk _ _ _ h1
  · cases h1; rfl

theorem RefExpr_Reduce_keeps {red : Reducer → Expr → Red} (hk : KeepsMode red)
    (c : Reducer) (op : Expr) (type : BroType) (r : Expr × Option Stmt × Reducer)
    (h : RefExpr_Reduce red c op type = .ok r) : r.2.2.optimizing = c.optimizing := by
  unfold RefExpr_Reduce at h
  split at h
  · split at h
    · rename_i heq
      cases h
      have := hk _ _ _ heq
      exact this
    · cases h
  · cases h; rfl

end Zeek
namespace Zeek

open TypeTag InternalTypeTag BroExprTag

theorem AssignExpr_Reduce_keeps {red toS toSs : Reducer → Expr → Red} (hr : KeepsMode red)
    (hs : KeepsMode toS) (hss : KeepsMode toSs)
    (c : Reducer) (op1 op2 : Expr) (t : Bool) (type : BroType)
    (r : Expr × Option Stmt × Reducer)
    (h : AssignExpr_Reduce red toS toSs c op1 op2 t type = .ok r) :
    r.2.2.optimizing = c.optimizing := by
  unfold AssignExpr_Reduce at h
  split at h
  · cases h; rfl
  · split at h
    · cases h; rfl
    · simp only [] at h
      obtain ⟨⟨rhs, s0, c1⟩, h1, h⟩ := bind_ok _ _ _ h
      have k1 : c1.optimizing = c.optimizing := by
        split at h1
        · split at h1
          · rename_i heq
            have k := hs _ _ _ heq
            split at h1
            · split at h1 <;> (cases h1; exact k)
            · cases h1; exact k
          · cases h1
        · cases h1; rfl
      simp only at h
      split at h
      · split at h
        · obtain ⟨⟨rhs1, s1, c2⟩, h2, h⟩ := bind_ok _ _ _ h
          simp only [pure, Except.pure] at h
          cases h
          exact (hs _ _ _ h2).trans k1
        · obtain ⟨⟨rhs1, s1, c2⟩, h2, h⟩ := bind_ok _ _ _ h
          obtain ⟨rhs2, _, h⟩ := bind_ok _ _ _ h
          have k2 := hss _ _ _ h2
          simp only at h k2
          split at h
          · obtain ⟨⟨rhs3, s3, c3⟩, h3, h⟩ := bind_ok _ _ _ h
            simp only [pure, Except.pure] at h
            cases h
            exact (hs _ _ _ h3).trans (k2.trans k1)
          · obtain ⟨⟨l, s3, c3⟩, h3, h⟩ := bind_ok _ _ _ h
            obtain ⟨⟨rhs3, s4, c4⟩, h4, h⟩ := bind_ok _ _ _ h
            simp only [pure, Except.pure] at h
            cases h
            exact (hss _ _ _ h4).trans ((hr _ _ _ h3).trans (k2.trans k1))
      · cases h

end Zeek
namespace Zeek

open TypeTag InternalTypeTag BroExprTag

theorem red_toSingleton_succ (n : Nat) (c : Reducer) (e : Expr) :
    red (n + 1) .toSingleton c e =
      match e with
      | .assign _ _ _ _ => .error .unmodelled
      | .unary tag _ _ =>
        if tag = EXPR_INCR || tag = EXPR_DECR then .error .unmodelled else red n .reduce c e
      | _ => red n .reduce c e := by
  cases e <;> rfl

theorem red_toSingletons_succ (n : Nat) (c : Reducer) (e : Expr) :
    red (n + 1) .toSingletons c e =
      match e with
      | .cond op1 op2 op3 type =>
        CondExpr_ReduceToSingletons (red n .toSingleton) c op1 op2 op3 type
      | .call func args type => CallExpr_ReduceToSingletons (red n .reduce) c func args type
      | .listNil => ListExpr_ReduceToSingletons (red n .reduce) c e
      | .listCons _ _ => ListExpr_ReduceToSingletons (red n .reduce) c e
      | .unary tag op type =>
        (match reduceOperand (red n .toSingleton) c op with
         | .ok (op', red1_stmt, c') =>
           .ok (.unary tag op' type, MergeStmts red1_stmt none none, c')
         | .error x => .error x)
      | .binary tag op1 op2 type =>
        (match reduceOperand (red n .toSingleton) c op1 with
         | .ok (b1, red1_stmt, c1) =>
           (match reduceOperand (red n .toSingleton) c1 op2 with
            | .ok (b2, red2_stmt, c2) =>
              .ok (.binary tag b1 b2 type, MergeStmts red1_stmt red2_stmt none, c2)
            | .error x => .error x)
         | .error x => .error x)
      | .assign op1 op2 is_temp type =>
        (match reduceOperand (red n .toSingleton) c op1 with
         | .ok (b1, red1_stmt, c1) =>
           (match reduceOperand (red n .toSingleton) c1 op2 with
            | .ok (b2, red2_stmt, c2) =>
              .ok (.assign b1 b2 is_temp type, MergeStmts red1_stmt red2_stmt none, c2)
            | .error x => .error x)
         | .error x => .error x)
      | _ => .ok (e, none, c) := by
  cases e <;> rfl

theorem red_reduce_unary (n : Nat) (c : Reducer) (tag : BroExprTag) (op : Expr)
    (type : BroType) :
    red (n + 1) .reduce c (.unary tag op type) =
      match tag with
      | EXPR_NOT =>
        if op.Tag = EXPR_NOT && op.Type.Tag = TYPE_BOOL then red n .reduce c op
        else UnaryExpr_Reduce (red n .toSingleton) c tag op type
      | EXPR_COMPLEMENT =>
        if op.Tag = EXPR_COMPLEMENT then red n .toSingleton c (operandOf op)
        else UnaryExpr_Reduce (red n .toSingleton) c tag op type
      | EXPR_POSITIVE =>
        if op.Type.Tag = TYPE_COUNT then UnaryExpr_Reduce (red n .toSingleton) c tag op type
        else red n .toSingleton c op
      | EXPR_NEGATE =>
        if op.Tag = EXPR_NEGATE then red n .toSingleton c (operandOf op)
        else UnaryExpr_Reduce (red n .toSingleton) c tag op type
      | EXPR_REF => RefExpr_Reduce (red n .reduce) c op type
      | _ => .error .unmodelled := rfl

theorem red_reduce_binary (n : Nat) (c : Reducer) (tag : BroExprTag) (op1 op2 : Expr)
    (type : BroType) :
    red (n + 1) .reduce c (.binary tag op1 op2 type) =
      match tag with
      | EXPR_ADD => AddExpr_Reduce (red n .toSingleton) c op1 op2 type
      | EXPR_SUB => SubExpr_Reduce (red n .toSingleton) (red n .reduce) c op1 op2 type
      | EXPR_TIMES => TimesExpr_Reduce (red n .toSingleton) c op1 op2 type
      | EXPR_DIVIDE => DivideExpr_Reduce (red n .toSingleton) c op1 op2 type
      | EXPR_MOD => BinaryExpr_Reduce (red n .toSingleton) c tag op1 op2 type
      | EXPR_AND | EXPR_OR | EXPR_XOR => BitExpr_Reduce (red n .toSingleton) c tag op1 op2 type
      | EXPR_AND_AND | EXPR_OR_OR =>
        BoolExpr_Reduce (red n .toSingleton) c tag op1 op2 type
      | EXPR_EQ | EXPR_NE => EqExpr_Reduce (red n .toSingleton) c tag op1 op2 type
      | EXPR_LT | EXPR_LE | EXPR_GE | EXPR_GT =>
        RelExpr_Reduce (red n .toSingleton) c tag op1 op2 type
      | _ => .error .unmodelled := rfl

theorem red_reduce_listNil (n : Nat) (c : Reducer) :
    red (n + 1) .reduce c .listNil = ListExpr_Reduce (red n .toSingleton) c .listNil := rfl

theorem red_reduce_listCons (n : Nat) (c : Reducer) (e rest : Expr) :
    red (n + 1) .reduce c (.listCons e rest) =
      ListExpr_Reduce (red n .toSingleton) c (.listCons e rest) := rfl

theorem red_reduce_event (n : Nat) (c : Reducer) (hd : Nat) (args : Expr) :
    red (n + 1) .reduce c (.event hd args) =
      if c.Optimizing then .ok (.event hd (c.UpdateExpr args), none, c)
      else if !IsReduced c args then
        (match ListExpr_Reduce (red n .toSingleton) c args with
         | .ok (a1, red_stmt, c') => .ok (.event hd a1, red_stmt, c')
         | .error x => .error x)
      else .ok (.event hd args, none, c) := rfl

end Zeek
namespace Zeek

open TypeTag InternalTypeTag BroExprTag

theorem red_reduce_sound_step (n : Nat) (hr : ToSingleton (red n .reduce))
    (hs : ToSingleton (red n .toSingleton)) (hss : KeepsMode (red n .toSingletons)) :
    ToSingleton (red (n + 1) .reduce) := by
  intro c e r h
  cases e with
  | name id =>
    rw [red_reduce_name] at h
    have := NameExpr_Reduce_sound c id r h
    exact ⟨this.1, fun _ _ => this.2⟩
  | const v => cases h; exact ⟨rfl, fun _ _ => rfl⟩
  | nop => cases h; exact ⟨rfl, fun _ hv => by cases hv⟩
  | unary tag op type =>
    rw [red_reduce_unary] at h
    have hu := fun (h : UnaryExpr_Reduce (red n .toSingleton) c tag op type = .ok r) =>
      UnaryExpr_Reduce_sound hs c tag op type r h
    have hop : (Expr.unary tag op type).isOperatorExpr = true → op.isOperatorExpr = true := by
      intro hv
      simp only [Expr.isOperatorExpr, Bool.and_eq_true] at hv
      exact hv.2
    split at h
    · split at h
      · exact ⟨(hr _ _ _ h).1, fun hc hv => (hr _ _ _ h).2 hc (hop hv)⟩
      · exact ⟨(hu h).1, fun hc _ => (hu h).2 hc⟩
    · split at h
      · exact ⟨(hs _ _ _ h).1, fun hc hv =>
          (hs _ _ _ h).2 hc (isOperatorExpr_operandOf (hop hv))⟩
      · exact ⟨(hu h).1, fun hc _ => (hu h).2 hc⟩
    · split at h
      · exact ⟨(hu h).1, fun hc _ => (hu h).2 hc⟩
      · exact ⟨(hs _ _ _ h).1, fun hc hv => (hs _ _ _ h).2 hc (hop hv)⟩
    · split at h
      · exact ⟨(hs _ _ _ h).1, fun hc hv =>
          (hs _ _ _ h).2 hc (isOperatorExpr_operandOf (hop hv))⟩
      · exact ⟨(hu h).1, fun hc _ => (hu h).2 hc⟩
    · refine ⟨RefExpr_Reduce_keeps hr.keeps _ _ _ _ h, fun _ hv => ?_⟩
      simp [Expr.isOperatorExpr] at hv
    · cases h
  | binary tag op1 op2 type =>
    rw [red_reduce_binary] at h
    have hop : (Expr.binary tag op1 op2 type).isOperatorExpr = true →
        op1.isOperatorExpr = true ∧ op2.isOperatorExpr = true := by
      intro hv
      simpa only [Expr.isOperatorExpr, Bool.and_eq_true] using hv
    split at h
    · have := AddExpr_Reduce_sound hs _ _ _ _ _ h
      exact ⟨this.1, fun hc hv => this.2 hc (hop hv).1 (hop hv).2⟩
    · have := SubExpr_Reduce_sound hs hr _ _ _ _ _ h
      exact ⟨this.1, fun hc hv => this.2 hc (hop hv).1 (hop hv).2⟩
    · have := TimesExpr_Reduce_sound hs _ _ _ _ _ h
      exact ⟨this.1, fun hc hv => this.2 hc (hop hv).1 (hop hv).2⟩
    · have := DivideExpr_Reduce_sound hs _ _ _ _ _ h
      exact ⟨this.1, fun hc hv => this.2 hc (hop hv).1 (hop hv).2⟩
    · have := BinaryExpr_Reduce_sound hs _ _ _ _ _ _ h
      exact ⟨this.1, fun hc _ => this.2 hc⟩
    · have := BitExpr_Reduce_sound hs _ _ _ _ _ _ h
      exact ⟨this.1, fun hc hv => this.2 hc (hop hv).1 (hop hv).2⟩
    · have := BitExpr_Reduce_sound hs _ _ _ _ _ _ h
      exact ⟨this.1, fun hc hv => this.2 hc (hop hv).1 (hop hv).2⟩
    · have := BitExpr_Reduce_sound hs _ _ _ _ _ _ h
      exact ⟨this.1, fun hc hv => this.2 hc (hop hv).1 (hop hv).2⟩
    · have := BoolExpr_Reduce_sound hs _ _ _ _ _ _ h
      exact ⟨this.1, fun hc hv => this.2 hc (hop hv).1 (hop hv).2⟩
    · have := BoolExpr_Reduce_sound hs _ _ _ _ _ _ h
      exact ⟨this.1, fun hc hv => this.2 hc (hop hv).1 (hop hv).2⟩
    · have := EqExpr_Reduce_sound hs _ _ _ _ _ _ h
      exact ⟨this.1, fun hc _ => this.2 hc⟩
    · have := EqExpr_Reduce_sound hs _ _ _ _ _ _ h
      exact ⟨this.1, fun hc _ => this.2 hc⟩
    · have := RelExpr_Reduce_sound hs _ _ _ _ _ _ h
      exact ⟨this.1, fun hc _ => this.2 hc⟩
    · have := RelExpr_Reduce_sound hs _ _ _ _ _ _ h
      exact ⟨this.1, fun hc _ => this.2 hc⟩
    · have := RelExpr_Reduce_sound hs _ _ _ _ _ _ h
      exact ⟨this.1, fun hc _ => this.2 hc⟩
    · have := RelExpr_Reduce_sound hs _ _ _ _ _ _ h
      exact ⟨this.1, fun hc _ => this.2 hc⟩
    · cases h
  | cond op1 op2 op3 type =>
    rw [red_reduce_cond] at h
    have := CondExpr_Reduce_sound hs _ _ _ _ _ _ h
    refine ⟨this.1, fun hc hv => ?_⟩
    simp only [Expr.isOperatorExpr, Bool.and_eq_true] at hv
    exact this.2 hc hv.1.1 hv.1.2 hv.2
  | assign op1 op2 t type =>
    rw [red_reduce_assign] at h
    exact ⟨AssignExpr_Reduce_keeps hr.keeps hs.keeps hss _ _ _ _ _ _ h, fun _ hv => by cases hv⟩
  | call func args type =>
    rw [red_reduce_call] at h
    have := CallExpr_Reduce_sound hs.keeps _ _ _ _ _ h
    refine ⟨this.1, fun hc hv => this.2 hc ?_⟩
    simpa [Expr.isOperatorExpr] using hv
  | listNil =>
    rw [red_reduce_listNil] at h
    exact ⟨ListExpr_Reduce_keeps hs.keeps _ _ _ h, fun _ hv => by cases hv⟩
  | listCons e rest =>
    rw [red_reduce_listCons] at h
    exact ⟨ListExpr_Reduce_keeps hs.keeps _ _ _ h, fun _ hv => by cases hv⟩
  | event hd args =>
    rw [red_reduce_event] at h
    refine ⟨?_, fun _ hv => by cases hv⟩
    split at h
    · cases h; rfl
    · split at h
      · split at h
        · rename_i heq
          cases h
          have := ListExpr_Reduce_keeps hs.keeps _ _ _ heq
          exact this
        · cases h
      · cases h; rfl
  | schedule w ev t => cases h

theorem red_toSingleton_sound_step (n : Nat) (hr : ToSingleton (red n .reduce)) :
    ToSingleton (red (n + 1) .toSingleton) := by
  intro c e r h
  rw [red_toSingleton_succ] at h
  split at h
  · cases h
  · split at h
    · cases h
    · exact hr _ _ _ h
  · exact hr _ _ _ h

theorem red_toSingletons_keeps_step (n : Nat) (hr : KeepsMode (red n .reduce))
    (hs : KeepsMode (red n .toSingleton)) :
    KeepsMode (red (n + 1) .toSingletons) := by
  intro c e r h
  rw [red_toSingletons_succ] at h
  split at h
  · exact CondExpr_ReduceToSingletons_keeps hs _ _ _ _ _ _ h
  · exact CallExpr_ReduceToSingletons_keeps hr _ _ _ _ _ h
  · exact ListExpr_ReduceToSingletons_keeps hr _ _ _ h
  · exact ListExpr_ReduceToSingletons_keeps hr _ _ _ h
  · split at h
    · rename_i heq
      cases h
      have := reduceOperand_keeps hs _ _ _ heq
      exact this
    · cases h
  · split at h
    · rename_i heq1
      split at h
      · rename_i heq2
        cases h
        have k1 := reduceOperand_keeps hs _ _ _ heq1
        have k2 := reduceOperand_keeps hs _ _ _ heq2
        exact k2.trans k1
      · cases h
    · cases h
  · split at h
    · rename_i heq1
      split at h
      · rename_i heq2
        cases h
        have k1 := reduceOperand_keeps hs _ _ _ heq1
        have k2 := reduceOperand_keeps hs _ _ _ heq2
        exact k2.trans k1
      · cases h
    · cases h
  · cases h; rfl

/-- Every reduction method leaves the reducer's mode alone; `Reduce` and
`ReduceToSingleton` turn an operator expression, outside optimizing mode,
into a name or a constant. -/
theorem red_sound (n : Nat) :
    ToSingleton (red n .reduce) ∧ ToSingleton (red n .toSingleton) ∧
      KeepsMode (red n .toSingletons) := by
  induction n with
  | zero =>
    refine ⟨?_, ?_, ?_⟩ <;> intro c e r h <;> cases h
  | succ n ih =>
    obtain ⟨hr, hs, hss⟩ := ih
    exact ⟨red_reduce_sound_step n hr hs hss, red_toSingleton_sound_step n hr,
      red_toSingletons_keeps_step n hr.keeps hs.keeps⟩

end Zeek
namespace Zeek

open TypeTag InternalTypeTag BroExprTag

theorem isPlainBinary_cases {tag : BroExprTag} (h : isPlainBinary tag = true) :
    tag = EXPR_ADD ∨ tag = EXPR_SUB ∨ tag = EXPR_TIMES ∨ tag = EXPR_DIVIDE ∨ tag = EXPR_MOD ∨
    tag = EXPR_AND ∨ tag = EXPR_OR ∨ tag = EXPR_XOR ∨ tag = EXPR_LT ∨ tag = EXPR_LE ∨
    tag = EXPR_EQ ∨ tag = EXPR_NE ∨ tag = EXPR_GE ∨ tag = EXPR_GT := by
  cases tag <;> first | (exact absurd h (by decide)) | simp

/-- Outside optimizing mode a binary arithmetic, bitwise or comparison node
that `WillTransform` does not flag is reduced by `BinaryExpr::Reduce`. -/
theorem red_reduce_generic_binary (n : Nat) (c : Reducer) (tag : BroExprTag) (op1 op2 : Expr)
    (type : BroType) (hopt : c.optimizing = false) (htag : isPlainBinary tag = true)
    (hwt : WillTransform c (.binary tag op1 op2 type) = false) :
    red (n + 1) .reduce c (.binary tag op1 op2 type) =
      BinaryExpr_Reduce (red n .toSingleton) c tag op1 op2 type := by
  rw [red_reduce_binary]
  rcases isPlainBinary_cases htag with h | h | h | h | h | h | h | h | h | h | h | h | h | h <;>
    subst h <;> simp only []
  · unfold AddExpr_Reduce
    repeat' split
    all_goals first | rfl | (exfalso; simp_all [WillTransform])
  · unfold SubExpr_Reduce
    simp only [Reducer.Optimizing, hopt, Bool.false_eq_true, if_false]
    repeat' split
    all_goals first | rfl | (exfalso; simp_all [WillTransform])
  · unfold TimesExpr_Reduce
    repeat' split
    all_goals first | rfl | (exfalso; simp_all [WillTransform])
  · unfold DivideExpr_Reduce
    repeat' split
    all_goals first | rfl | (exfalso; simp_all [WillTransform])
  · unfold BitExpr_Reduce
    simp only []
    repeat' split
    all_goals first | rfl | (exfalso; simp_all [WillTransform])
  · unfold BitExpr_Reduce
    simp only []
    repeat' split
    all_goals first | rfl | (exfalso; simp_all [WillTransform])
  · unfold BitExpr_Reduce
    simp only []
    repeat' split
    all_goals first | rfl | (exfalso; simp_all [WillTransform])
  · unfold RelExpr_Reduce
    repeat' split
    all_goals first | rfl | (exfalso; simp_all [WillTransform])
  · unfold RelExpr_Reduce
    repeat' split
    all_goals first | rfl | (exfalso; simp_all [WillTransform])
  · unfold EqExpr_Reduce
    repeat' split
    all_goals first | rfl | (exfalso; simp_all [WillTransform])
  · unfold EqExpr_Reduce
    repeat' split
    all_goals first | rfl | (exfalso; simp_all [WillTransform])
  · unfold RelExpr_Reduce
    repeat' split
    all_goals first | rfl | (exfalso; simp_all [WillTransform])
  · unfold RelExpr_Reduce
    repeat' split
    all_goals first | rfl | (exfalso; simp_all [WillTransform])

/-- Outside optimizing mode a unary `!`, `~`, `+` or `-` node that
`WillTransform` does not flag is reduced by `UnaryExpr::Reduce`. -/
theorem red_reduce_generic_unary (n : Nat) (c : Reducer) (tag : BroExprTag) (op : Expr)
    (type : BroType)
    (htag : tag = EXPR_NOT ∨ tag = EXPR_COMPLEMENT ∨ tag = EXPR_POSITIVE ∨ tag = EXPR_NEGATE)
    (hwt : WillTransform c (.unary tag op type) = false) :
    red (n + 1) .reduce c (.unary tag op type) =
      UnaryExpr_Reduce (red n .toSingleton) c tag op type := by
  rw [red_reduce_unary]
  rcases htag with h | h | h | h <;> subst h <;> simp only [WillTransform] at hwt
  · simp only []; rw [if_neg]; simpa using hwt
  · simp only []; rw [if_neg]; simpa using hwt
  · simp only []; rw [if_pos]; simpa using hwt
  · simp only []; rw [if_neg]; simpa using hwt

theorem companions_getLast (red : Option Stmt) (a : Expr) :
    (companions (MergeStmts red (some (Stmt.expr a)) none)).getLast? = some (Stmt.expr a) := by
  cases red <;> simp [MergeStmts, companions]

end Zeek
namespace Zeek

open TypeTag InternalTypeTag BroExprTag

/-- C20, counterexample: for a local `x` of type `int` the node `+x` is
reduced outside optimizing mode to `x` itself, with no companion statement:
the result is not a new temporary and nothing is assigned.  Its operand `x`
does not fold to a constant. -/
theorem Reduce_positive_no_temporary :
    (Expr.name (localVar 1 TYPE_INT)).FoldVal = none ∧
    Reduce 3 plainReducer (.unary EXPR_POSITIVE (.name (localVar 1 TYPE_INT))
        (base_type TYPE_INT)) =
      .ok (.name (localVar 1 TYPE_INT), none, plainReducer) ∧
    (localVar 1 TYPE_INT).is_temp = false :=
  ⟨rfl, rfl, rfl⟩

/-- C20 (amended): outside optimizing mode, let a binary arithmetic, bitwise
or comparison node, or a unary `!`, `~`, `+`, `-` node, over operator
expressions be one that `WillTransform` does not flag, let the reduction of
its operands to singletons have returned (`b1`, `b2` resp. `b`), and let not
all of them fold to constants.  Then `Reduce` returns the name of a new
temporary, which is a singleton; the last companion statement is the
assignment to that temporary of the node over the reduced operands; and
each reduced operand is a name or a constant. -/
theorem Reduce_operator_to_temporary (n : Nat) (c : Reducer) (type : BroType)
    (hopt : c.optimizing = false) :
    (∀ (tag : BroExprTag) (op1 op2 b1 b2 : Expr) (s1 s2 : Option Stmt) (c1 c2 : Reducer),
      isPlainBinary tag = true →
      WillTransform c (.binary tag op1 op2 type) = false →
      op1.isOperatorExpr = true → op2.isOperatorExpr = true →
      reduceOperand (ReduceToSingleton n) c op1 = .ok (b1, s1, c1) →
      reduceOperand (ReduceToSingleton n) c1 op2 = .ok (b2, s2, c2) →
      (b1.FoldVal = none ∨ b2.FoldVal = none) →
      ∃ (ty : BroType) (red_stmt : Option Stmt),
        Reduce (n + 1) c (.binary tag op1 op2 type) =
          .ok ((c2.GenTemporaryExpr type).1, red_stmt, (c2.GenTemporaryExpr type).2) ∧
        IsSingleton (c2.GenTemporaryExpr type).2 (c2.GenTemporaryExpr type).1 = true ∧
        (companions red_stmt).getLast? =
          some (Stmt.expr (.assign (mkRefExpr (c2.GenTemporaryExpr type).1)
            (.binary tag b1 b2 type) true ty)) ∧
        b1.isNameOrConst = true ∧ b2.isNameOrConst = true) ∧
    (∀ (tag : BroExprTag) (op b : Expr) (s1 : Option Stmt) (c1 : Reducer),
      (tag = EXPR_NOT ∨ tag = EXPR_COMPLEMENT ∨ tag = EXPR_POSITIVE ∨ tag = EXPR_NEGATE) →
      WillTransform c (.unary tag op type) = false →
      op.isOperatorExpr = true →
      reduceOperand (ReduceToSingleton n) c op = .ok (b, s1, c1) →
      b.FoldVal = none →
      ∃ (ty : BroType) (red_stmt : Option Stmt),
        Reduce (n + 1) c (.unary tag op type) =
          .ok ((c1.GenTemporaryExpr type).1, red_stmt, (c1.GenTemporaryExpr type).2) ∧
        IsSingleton (c1.GenTemporaryExpr type).2 (c1.GenTemporaryExpr type).1 = true ∧
        (companions red_stmt).getLast? =
          some (Stmt.expr (.assign (mkRefExpr (c1.GenTemporaryExpr type).1)
            (.unary tag b type) true ty)) ∧
        b.isNameOrConst = true) := by
  have hs := (red_sound n).2.1
  constructor
  · intro tag op1 op2 b1 b2 s1 s2 c1 c2 htag hwt hv1 hv2 h1 h2 hfold
    have k1 := reduceOperand_keeps hs.keeps _ _ _ h1
    have k2 := reduceOperand_keeps hs.keeps _ _ _ h2
    simp only at k1 k2
    have q1 := reduceOperand_singleton hs _ _ _ h1 hopt hv1
    have q2 := reduceOperand_singleton hs _ _ _ h2 (k1.trans hopt) hv2
    have ho2 : c2.Optimizing = false := k2.trans (k1.trans hopt)
    refine ⟨if (mkRefExpr (c2.GenTemporaryExpr type).1).IsError ||
          (Expr.binary tag b1 b2 type).IsError then error_type
        else (mkRefExpr (c2.GenTemporaryExpr type).1).Type,
      (AssignToTemporary c2 (.binary tag b1 b2 type) (.binary tag b1 b2 type)
        (MergeStmts s1 s2 none)).2.1,
      ?_, rfl, companions_getLast (MergeStmts s1 s2 none) _, q1, q2⟩
    rw [Reduce, red_reduce_generic_binary n c tag op1 op2 type hopt htag hwt]
    show BinaryExpr_Reduce (ReduceToSingleton n) c tag op1 op2 type = _
    simp only [BinaryExpr_Reduce, Reducer.Optimizing, hopt, Bool.false_eq_true, if_false, h1,
      h2, bind, Except.bind]
    simp only [Reducer.Optimizing] at ho2
    rcases hfold with hf | hf
    · simp only [hf, ho2, Bool.false_eq_true, if_false, pure, Except.pure]
      rfl
    · cases hb1 : b1.FoldVal <;>
        simp only [hf, ho2, Bool.false_eq_true, if_false, pure, Except.pure] <;> rfl
  · intro tag op b s1 c1 htag hwt hv h1 hfold
    have k1 := reduceOperand_keeps hs.keeps _ _ _ h1
    simp only at k1
    have q1 := reduceOperand_singleton hs _ _ _ h1 hopt hv
    have ho1 : c1.optimizing = false := k1.trans hopt
    refine ⟨if (mkRefExpr (c1.GenTemporaryExpr type).1).IsError ||
          (Expr.unary tag b type).IsError then error_type
        else (mkRefExpr (c1.GenTemporaryExpr type).1).Type,
      (AssignToTemporary c1 (.unary tag b type) (.unary tag b type) s1).2.1,
      ?_, rfl, companions_getLast s1 _, q1⟩
    rw [Reduce, red_reduce_generic_unary n c tag op type htag hwt]
    show UnaryExpr_Reduce (ReduceToSingleton n) c tag op type = _
    simp only [UnaryExpr_Reduce, Reducer.Optimizing, hopt, Bool.false_eq_true, if_false, h1,
      bind, Except.bind, hfold, ho1, pure, Except.pure]
    rfl

end Zeek
namespace Zeek

open TypeTag InternalTypeTag BroExprTag

/-- C20 on `(x + y) % z` over `count` locals and on `-x` over an `int` local:
`(x + y) % z` reduces to the second temporary, the last companion statement
being `tmp1 = tmp0 % z`, with `tmp0` the temporary of `x + y`; `-x` reduces
to a temporary assigned `-x`. -/
theorem Reduce_operator_to_temporary_witness :
    (∃ (ty : BroType) (red_stmt : Option Stmt),
      Reduce 4 plainReducer
          (.binary EXPR_MOD
            (mkAddExpr (.name (localVar 1 TYPE_COUNT)) (.name (localVar 2 TYPE_COUNT)))
            (.name (localVar 3 TYPE_COUNT)) (base_type TYPE_COUNT)) =
        .ok (((plainReducer.GenTemporaryExpr (base_type TYPE_COUNT)).2.GenTemporaryExpr
                (base_type TYPE_COUNT)).1, red_stmt,
             ((plainReducer.GenTemporaryExpr (base_type TYPE_COUNT)).2.GenTemporaryExpr
                (base_type TYPE_COUNT)).2) ∧
      IsSingleton
          ((plainReducer.GenTemporaryExpr (base_type TYPE_COUNT)).2.GenTemporaryExpr
            (base_type TYPE_COUNT)).2
          ((plainReducer.GenTemporaryExpr (base_type TYPE_COUNT)).2.GenTemporaryExpr
            (base_type TYPE_COUNT)).1 = true ∧
      (companions red_stmt).getLast? =
        some (Stmt.expr (.assign
          (mkRefExpr ((plainReducer.GenTemporaryExpr (base_type TYPE_COUNT)).2.GenTemporaryExpr
            (base_type TYPE_COUNT)).1)
          (.binary EXPR_MOD (plainReducer.GenTemporaryExpr (base_type TYPE_COUNT)).1
            (.name (localVar 3 TYPE_COUNT)) (base_type TYPE_COUNT)) true ty)) ∧
      (plainReducer.GenTemporaryExpr (base_type TYPE_COUNT)).1.isNameOrConst = true ∧
      (Expr.name (localVar 3 TYPE_COUNT)).isNameOrConst = true) ∧
    (∃ (ty : BroType) (red_stmt : Option Stmt),
      Reduce 4 plainReducer (.unary EXPR_NEGATE (.name (localVar 1 TYPE_INT))
          (base_type TYPE_INT)) =
        .ok ((plainReducer.GenTemporaryExpr (base_type TYPE_INT)).1, red_stmt,
             (plainReducer.GenTemporaryExpr (base_type TYPE_INT)).2) ∧
      IsSingleton (plainReducer.GenTemporaryExpr (base_type TYPE_INT)).2
          (plainReducer.GenTemporaryExpr (base_type TYPE_INT)).1 = true ∧
      (companions red_stmt).getLast? =
        some (Stmt.expr (.assign (mkRefExpr (plainReducer.GenTemporaryExpr (base_type TYPE_INT)).1)
          (.unary EXPR_NEGATE (.name (localVar 1 TYPE_INT)) (base_type TYPE_INT)) true ty)) ∧
      (Expr.name (localVar 1 TYPE_INT)).isNameOrConst = true) :=
  ⟨(Reduce_operator_to_temporary 3 plainReducer (base_type TYPE_COUNT) rfl).1 EXPR_MOD
      (mkAddExpr (.name (localVar 1 TYPE_COUNT)) (.name (localVar 2 TYPE_COUNT)))
      (.name (localVar 3 TYPE_COUNT))
      (plainReducer.GenTemporaryExpr (base_type TYPE_COUNT)).1
      (.name (localVar 3 TYPE_COUNT))
      (some (firstTempAssign
        (mkAddExpr (.name (localVar 1 TYPE_COUNT)) (.name (localVar 2 TYPE_COUNT)))))
      none
      (plainReducer.GenTemporaryExpr (base_type TYPE_COUNT)).2
      (plainReducer.GenTemporaryExpr (base_type TYPE_COUNT)).2
      rfl rfl rfl rfl rfl rfl (Or.inl rfl),
   (Reduce_operator_to_temporary 3 plainReducer (base_type TYPE_INT) rfl).2 EXPR_NEGATE
      (.name (localVar 1 TYPE_INT)) (.name (localVar 1 TYPE_INT)) none plainReducer
      (Or.inr (Or.inr (Or.inr rfl))) rfl rfl rfl rfl⟩

end Zeek

namespace ZAM

open Zeek (Failure)

/-! ## Dead code removal and branch collapsing keep the executed sequences -/

theorem flow_eq {x y : ZInstI} (h : x.flow = y.flow) :
    x.live = y.live ∧ x.op = y.op ∧ x.target = y.target ∧
    x.IsUnconditionalBranch = y.IsUnconditionalBranch ∧
    x.DoesNotContinue = y.DoesNotContinue := by
  simp only [ZInstI.flow, Prod.mk.injEq] at h
  obtain ⟨h1, h2, h3⟩ := h
  refine ⟨h1, h2, h3, ?_, ?_⟩
  · simp [ZInstI.IsUnconditionalBranch, h2]
  · simp [ZInstI.DoesNotContinue, h2]

theorem AgreeOn.symm {S : Nat → Prop} {insts insts' : List ZInstI}
    (h : AgreeOn S insts insts') : AgreeOn S insts' insts :=
  fun pc hS => (h pc hS).symm

theorem SameTraces_trans {sw : List (Nat × Nat)}
    {a b c : List ZInstI} (h1 : SameTraces sw a b) (h2 : SameTraces sw b c) :
    SameTraces sw a c :=
  fun pc cs tr => (h2 pc cs tr).trans (h1 pc cs tr)

theorem flow_of_core {l l' : List ZInstI} {j : Nat}
    (h : (l'[j]?).map ZInstI.core = (l[j]?).map ZInstI.core) :
    (l'[j]?).map ZInstI.flow = (l[j]?).map ZInstI.flow := by
  cases h1 : l[j]? with
  | none => rw [h1] at h; cases h2 : l'[j]? with
    | none => rfl
    | some y => rw [h2] at h; cases h
  | some x =>
    rw [h1] at h
    cases h2 : l'[j]? with
    | none => rw [h2] at h; cases h
    | some y =>
      rw [h2] at h
      simp only [Option.map_some', Option.some.injEq] at h ⊢
      have e1 : y.core.live = x.core.live := congrArg ZInstI.live h
      have e2 : y.core.op = x.core.op := congrArg ZInstI.op h
      have e3 : y.core.target = x.core.target := congrArg ZInstI.target h
      simp only [ZInstI.core] at e1 e2 e3
      simp [ZInstI.flow, e1, e2, e3]

end ZAM

namespace ZAM

open Zeek (Failure)

/-- What the loop over the dead instructions finds: it stops at a position
`j` that is not before its start, every position passed holds a dead
instruction, and the instruction at `j`, if there is one, is live. -/
theorem scanDead_spec (target : Option Nat) :
    ∀ (l : List ZInstI) (j0 : Nat) (saw : Bool),
      j0 ≤ (scanDead target l j0 saw).1 ∧
      (scanDead target l j0 saw).1 ≤ j0 + l.length ∧
      (∀ p, j0 ≤ p → p < (scanDead target l j0 saw).1 →
        ∃ x, l[p - j0]? = some x ∧ x.live = false) ∧
      (∀ x, l[(scanDead target l j0 saw).1 - j0]? = some x → x.live = true) ∧
      ((scanDead target l j0 saw).2 = true →
        saw = true ∨ ∃ p, j0 ≤ p ∧ p < (scanDead target l j0 saw).1 ∧ target = some p) := by
  intro l
  induction l with
  | nil =>
    intro j0 saw
    simp only [scanDead]
    refine ⟨Nat.le_refl _, by simp, fun p h1 h2 => by omega, fun x hx => by simp at hx,
      fun h => Or.inl h⟩
  | cons x xs ih =>
    intro j0 saw
    simp only [scanDead]
    by_cases hl : x.live = true
    · simp only [hl, if_true]
      refine ⟨Nat.le_refl _, by simp, fun p h1 h2 => by omega, ?_, fun h => Or.inl h⟩
      intro y hy
      simp at hy
      rw [← hy]; exact hl
    · have hl' : x.live = false := by simpa using hl
      simp only [hl', Bool.false_eq_true, if_false]
      obtain ⟨a1, a2, a3, a4, a5⟩ := ih (j0 + 1) (saw || target == some j0)
      refine ⟨by omega, by simp only [List.length_cons]; omega, ?_, ?_, ?_⟩
      · intro p h1 h2
        by_cases hp : p = j0
        · subst hp
          exact ⟨x, by simp, hl'⟩
        · obtain ⟨y, hy, hyl⟩ := a3 p (by omega) h2
          refine ⟨y, ?_, hyl⟩
          have e : p - j0 = (p - (j0 + 1)) + 1 := by omega
          rw [e]
          simpa using hy
      · intro y hy
        apply a4 y
        have e : (scanDead target xs (j0 + 1) (saw || target == some j0)).1 - j0 =
            ((scanDead target xs (j0 + 1) (saw || target == some j0)).1 - (j0 + 1)) + 1 := by
          omega
        rw [e] at hy
        simpa using hy
      · intro h
        rcases a5 h with h' | ⟨p, p1, p2, p3⟩
        · simp only [Bool.or_eq_true, beq_iff_eq] at h'
          rcases h' with h' | h'
          · exact Or.inl h'
          · exact Or.inr ⟨j0, Nat.le_refl _, by omega, h'⟩
        · exact Or.inr ⟨p, by omega, p2, p3⟩

/-- The first live instruction after position `i`, in terms of the array. -/
theorem firstLiveAfter_spec (insts : List ZInstI) (target : Option Nat) (i : Nat) :
    i < (firstLiveAfter insts target i).1 ∧
    (∀ p, i < p → p < (firstLiveAfter insts target i).1 →
      ∃ x, insts[p]? = some x ∧ x.live = false) ∧
    (∀ x, insts[(firstLiveAfter insts target i).1]? = some x → x.live = true) ∧
    ((firstLiveAfter insts target i).2 = true →
      ∃ p, i < p ∧ p < (firstLiveAfter insts target i).1 ∧ target = some p) := by
  obtain ⟨a1, _, a3, a4, a5⟩ := scanDead_spec target (insts.drop (i + 1)) (i + 1) false
  unfold firstLiveAfter
  refine ⟨by omega, ?_, ?_, ?_⟩
  · intro p h1 h2
    obtain ⟨x, hx, hl⟩ := a3 p (by omega) h2
    refine ⟨x, ?_, hl⟩
    rw [List.getElem?_drop] at hx
    have e : i + 1 + (p - (i + 1)) = p := by omega
    rw [e] at hx
    exact hx
  · intro x hx
    apply a4 x
    rw [List.getElem?_drop]
    have e : i + 1 + ((scanDead target (insts.drop (i + 1)) (i + 1) false).1 - (i + 1)) =
        (scanDead target (insts.drop (i + 1)) (i + 1) false).1 := by omega
    rw [e]
    exact hx
  · intro h
    rcases a5 h with h' | ⟨p, p1, p2, p3⟩
    · cases h'
    · exact ⟨p, by omega, p2, p3⟩

end ZAM

namespace ZAM

open Zeek (Failure)

theorem getElem?_decLabel (l : List ZInstI) (t : Option Nat) (m : Nat) :
    (decLabel l t)[m]? =
      (l[m]?).map (fun z => if t = some m then { z with num_labels := z.num_labels - 1 } else z) := by
  cases t with
  | none => simp [decLabel]
  | some t =>
    simp only [decLabel, getElem?_updAt]
    by_cases h : m = t
    · subst h; simp
    · have h' : ¬ (some t = some m) := fun e => h (Option.some.inj e).symm
      simp [h, h']

end ZAM

namespace ZAM

open Zeek (Failure)

end ZAM

namespace ZAM

open Zeek (Failure)

end ZAM

namespace ZAM

open Zeek (Failure)

theorem Trace_of_TraceStep {sw : List (Nat × Nat)}
    {insts : List ZInstI} {pc : Nat} {cs : List Choice} {tr : List Nat}
    (h : TraceStep sw insts (Trace sw insts) pc cs tr) : Trace sw insts pc cs tr := by
  rcases h with h | ⟨x, hx, h⟩
  · subst h; exact Trace.stop pc cs
  · rcases h with ⟨hl, q⟩ | ⟨hl, hu, t, ht, q⟩ | ⟨hl, hu, t, cs', ht, hc, q⟩ |
      ⟨hl, hu, hd, t, cs', ht, hc, q⟩ | ⟨hl, ht, hd, tr', he, q⟩ | ⟨hl, ht, hd, he⟩ |
      ⟨hl, hu, t, cs', ht, hc, q⟩
    · exact Trace.dead pc cs tr x hx hl q
    · exact Trace.goto pc cs tr x t hx hl hu ht q
    · subst hc; exact Trace.taken pc cs' tr x t hx hl hu ht q
    · subst hc; exact Trace.notTaken pc cs' tr x t hx hl hu ht hd q
    · subst he; exact Trace.exec pc cs tr' x hx hl ht hd q
    · subst he; exact Trace.last pc cs x hx hl ht hd
    · subst hc; exact Trace.switch pc cs' tr x t hx hl hu ht q

theorem TraceStep_mono {sw : List (Nat × Nat)}
    {insts : List ZInstI} {Q Q' : Nat → List Choice → List Nat → Prop}
    (hq : ∀ a b c, Q a b c → Q' a b c) {pc : Nat} {cs : List Choice} {tr : List Nat}
    (h : TraceStep sw insts Q pc cs tr) : TraceStep sw insts Q' pc cs tr := by
  rcases h with h | ⟨x, hx, h⟩
  · exact Or.inl h
  · refine Or.inr ⟨x, hx, ?_⟩
    rcases h with ⟨hl, q⟩ | ⟨hl, hu, t, ht, q⟩ | ⟨hl, hu, t, cs', ht, hc, q⟩ |
      ⟨hl, hu, hd, t, cs', ht, hc, q⟩ | ⟨hl, ht, hd, tr', he, q⟩ | ⟨hl, ht, hd, he⟩ |
      ⟨hl, hu, t, cs', ht, hc, q⟩
    · exact Or.inl ⟨hl, hq _ _ _ q⟩
    · exact Or.inr (Or.inl ⟨hl, hu, t, ht, hq _ _ _ q⟩)
    · exact Or.inr (Or.inr (Or.inl ⟨hl, hu, t, cs', ht, hc, hq _ _ _ q⟩))
    · exact Or.inr (Or.inr (Or.inr (Or.inl ⟨hl, hu, hd, t, cs', ht, hc, hq _ _ _ q⟩)))
    · exact Or.inr (Or.inr (Or.inr (Or.inr (Or.inl ⟨hl, ht, hd, tr', he, hq _ _ _ q⟩))))
    · exact Or.inr (Or.inr (Or.inr (Or.inr (Or.inr (Or.inl ⟨hl, ht, hd, he⟩)))))
    · exact Or.inr (Or.inr (Or.inr (Or.inr (Or.inr (Or.inr
        ⟨hl, hu, t, cs', ht, hc, hq _ _ _ q⟩)))))

theorem TraceStep_flow {sw : List (Nat × Nat)}
    {insts insts' : List ZInstI} {Q : Nat → List Choice → List Nat → Prop}
    {pc : Nat} (hf : (insts'[pc]?).map ZInstI.flow = (insts[pc]?).map ZInstI.flow)
    {cs : List Choice} {tr : List Nat} (h : TraceStep sw insts Q pc cs tr) : TraceStep sw insts' Q pc cs tr := by
  rcases h with h | ⟨x, hx, h⟩
  · exact Or.inl h
  · rw [hx] at hf
    cases hx' : insts'[pc]? with
    | none => rw [hx'] at hf; cases hf
    | some x' =>
      rw [hx'] at hf
      simp only [Option.map_some', Option.some.injEq] at hf
      obtain ⟨e1, _, e3, e4, e5⟩ := flow_eq hf
      refine Or.inr ⟨x', hx', ?_⟩
      rw [e1, e3, e4, e5]
      exact h

/-- Induction over a trace, one step of the dispatch loop at a time. -/
theorem Trace_induction {sw : List (Nat × Nat)}
    {insts : List ZInstI} {P : Nat → List Choice → List Nat → Prop}
    (hstep : ∀ pc cs tr,
      TraceStep sw insts (fun a b c => Trace sw insts a b c ∧ P a b c) pc cs tr → P pc cs tr) :
    ∀ pc cs tr, Trace sw insts pc cs tr → P pc cs tr := by
  intro pc cs tr h
  induction h with
  | stop pc cs => exact hstep _ _ _ (Or.inl rfl)
  | dead pc cs tr x hx hl h ih =>
    exact hstep _ _ _ (Or.inr ⟨x, hx, Or.inl ⟨hl, h, ih⟩⟩)
  | goto pc cs tr x t hx hl hu ht h ih =>
    exact hstep _ _ _ (Or.inr ⟨x, hx, Or.inr (Or.inl ⟨hl, hu, t, ht, h, ih⟩)⟩)
  | taken pc cs tr x t hx hl hu ht h ih =>
    exact hstep _ _ _ (Or.inr ⟨x, hx, Or.inr (Or.inr (Or.inl ⟨hl, hu, t, cs, ht, rfl, h, ih⟩))⟩)
  | notTaken pc cs tr x t hx hl hu ht hd h ih =>
    exact hstep _ _ _ (Or.inr ⟨x, hx,
      Or.inr (Or.inr (Or.inr (Or.inl ⟨hl, hu, hd, t, cs, ht, rfl, h, ih⟩)))⟩)
  | exec pc cs tr x hx hl ht hd h ih =>
    exact hstep _ _ _ (Or.inr ⟨x, hx,
      Or.inr (Or.inr (Or.inr (Or.inr (Or.inl ⟨hl, ht, hd, tr, rfl, h, ih⟩))))⟩)
  | last pc cs x hx hl ht hd =>
    exact hstep _ _ _ (Or.inr ⟨x, hx,
      Or.inr (Or.inr (Or.inr (Or.inr (Or.inr (Or.inl ⟨hl, ht, hd, rfl⟩)))))⟩)
  | switch pc cs tr x t hx hl hu ht h ih =>
    exact hstep _ _ _ (Or.inr ⟨x, hx,
      Or.inr (Or.inr (Or.inr (Or.inr (Or.inr (Or.inr ⟨hl, hu, t, cs, ht, rfl, h, ih⟩)))))⟩)

theorem TraceStep_of_Trace {sw : List (Nat × Nat)}
    {insts : List ZInstI} {pc : Nat} {cs : List Choice} {tr : List Nat}
    (h : Trace sw insts pc cs tr) : TraceStep sw insts (Trace sw insts) pc cs tr := by
  revert h
  refine Trace_induction (P := fun pc cs tr => TraceStep sw insts (Trace sw insts) pc cs tr) ?_ pc cs tr
  intro pc cs tr h
  exact TraceStep_mono (fun _ _ _ q => q.1) h

/-- Two arrays that differ only at position `i`: if every step of the first at
`i` is matched by a trace of the second, every trace of the first is a trace
of the second. -/
theorem Trace_change_at {sw : List (Nat × Nat)} {insts insts' : List ZInstI} (i : Nat)
    (hother : ∀ pc : Nat, pc ≠ i →
      (insts'[pc]?).map ZInstI.flow = (insts[pc]?).map ZInstI.flow)
    (hat : ∀ cs tr, TraceStep sw insts (Trace sw insts') i cs tr → Trace sw insts' i cs tr) :
    ∀ pc cs tr, Trace sw insts pc cs tr → Trace sw insts' pc cs tr := by
  refine Trace_induction ?_
  intro pc cs tr h
  have h' : TraceStep sw insts (Trace sw insts') pc cs tr := TraceStep_mono (fun _ _ _ q => q.2) h
  by_cases hp : pc = i
  · subst hp
    exact hat cs tr h'
  · exact Trace_of_TraceStep (TraceStep_flow (hother pc hp) h')

end ZAM

namespace ZAM

open Zeek (Failure)

theorem Trace_goto_inv {sw : List (Nat × Nat)}
    {insts : List ZInstI} {pc t : Nat} {x : ZInstI} {cs : List Choice}
    {tr : List Nat} (hx : insts[pc]? = some x) (hl : x.live = true)
    (hu : x.IsUnconditionalBranch = true) (ht : x.target = some t)
    (h : Trace sw insts pc cs tr) : Trace sw insts t cs tr := by
  rcases TraceStep_of_Trace h with h | ⟨x', hx', h⟩
  · subst h; exact Trace.stop _ _
  · rw [hx] at hx'
    cases hx'
    rcases h with ⟨hl', _⟩ | ⟨_, _, t', ht', q⟩ | ⟨_, hu', _⟩ | ⟨_, hu', _⟩ | ⟨_, ht', _⟩ |
      ⟨_, ht', _⟩ | ⟨_, hu', _⟩
    · rw [hl] at hl'; cases hl'
    · rw [ht] at ht'; cases ht'; exact q
    · rw [hu] at hu'; cases hu'
    · rw [hu] at hu'; cases hu'
    · rw [ht] at ht'; cases ht'
    · rw [ht] at ht'; cases ht'
    · rw [hu] at hu'; cases hu'

theorem flow_get {insts : List ZInstI} {i : Nat} {f : Bool × ZOp × Option Nat}
    (h : (insts[i]?).map ZInstI.flow = some f) : ∃ x, insts[i]? = some x ∧ x.flow = f := by
  cases hx : insts[i]? with
  | none => rw [hx] at h; cases h
  | some x => rw [hx] at h; exact ⟨x, rfl, by simpa using h⟩

/-- Replacing the branch target `t` of the instruction at `i` by `t1` keeps
the traces when, in the new array, a trace from `t` is a trace from `t1` and,
in the old one, a trace from `t1` is a trace from `t`. -/
theorem SameTraces_retarget {sw : List (Nat × Nat)}
    {insts insts' : List ZInstI} (i t t1 : Nat) (x : ZInstI)
    (hx : insts[i]? = some x) (ht : x.target = some t)
    (hother : ∀ pc : Nat, pc ≠ i →
      (insts'[pc]?).map ZInstI.flow = (insts[pc]?).map ZInstI.flow)
    (hi : (insts'[i]?).map ZInstI.flow = some (x.live, x.op, some t1))
    (hF : ∀ cs tr, Trace sw insts' t cs tr → Trace sw insts' t1 cs tr)
    (hB : ∀ cs tr, Trace sw insts t1 cs tr → Trace sw insts t cs tr) :
    SameTraces sw insts insts' := by
  obtain ⟨x', hx', hf⟩ := flow_get hi
  simp only [ZInstI.flow, Prod.mk.injEq] at hf
  obtain ⟨f1, f2, f3⟩ := hf
  have fu : x'.IsUnconditionalBranch = x.IsUnconditionalBranch := by
    simp [ZInstI.IsUnconditionalBranch, f2]
  have fd : x'.DoesNotContinue = x.DoesNotContinue := by
    simp [ZInstI.DoesNotContinue, f2]
  intro pc cs tr
  constructor
  · refine Trace_change_at i (fun pc hp => (hother pc hp).symm) ?_ pc cs tr
    intro cs tr h
    rcases h with h | ⟨y, hy, h⟩
    · subst h; exact Trace.stop _ _
    · rw [hx'] at hy
      cases hy
      rcases h with ⟨hl, q⟩ | ⟨hl, hu, t', ht', q⟩ | ⟨hl, hu, t', cs', ht', hc, q⟩ |
        ⟨hl, hu, hd, t', cs', ht', hc, q⟩ | ⟨hl, ht', hd, tr', he, q⟩ | ⟨hl, ht', hd, he⟩ |
        ⟨hl, hu, t', cs', ht', hc, q⟩
      · exact Trace.dead _ _ _ x hx (f1 ▸ hl) q
      · rw [f3] at ht'; cases ht'
        exact Trace.goto _ _ _ x t hx (f1 ▸ hl) (fu ▸ hu) ht (hB _ _ q)
      · rw [f3] at ht'; cases ht'
        subst hc
        exact Trace.taken _ _ _ x t hx (f1 ▸ hl) (fu ▸ hu) ht (hB _ _ q)
      · subst hc
        exact Trace.notTaken _ _ _ x t hx (f1 ▸ hl) (fu ▸ hu) ht (fd ▸ hd) q
      · rw [f3] at ht'; cases ht'
      · rw [f3] at ht'; cases ht'
      · subst hc
        exact Trace.switch _ _ _ x t' hx (f1 ▸ hl) (fu ▸ hu) ht' q
  · refine Trace_change_at i hother ?_ pc cs tr
    intro cs tr h
    rcases h with h | ⟨y, hy, h⟩
    · subst h; exact Trace.stop _ _
    · rw [hx] at hy
      cases hy
      rcases h with ⟨hl, q⟩ | ⟨hl, hu, t', ht', q⟩ | ⟨hl, hu, t', cs', ht', hc, q⟩ |
        ⟨hl, hu, hd, t', cs', ht', hc, q⟩ | ⟨hl, ht', hd, tr', he, q⟩ | ⟨hl, ht', hd, he⟩ |
        ⟨hl, hu, t', cs', ht', hc, q⟩
      · exact Trace.dead _ _ _ x' hx' (f1.trans hl) q
      · rw [ht] at ht'; cases ht'
        exact Trace.goto _ _ _ x' t1 hx' (f1.trans hl) (fu.trans hu) f3 (hF _ _ q)
      · rw [ht] at ht'; cases ht'
        subst hc
        exact Trace.taken _ _ _ x' t1 hx' (f1.trans hl) (fu.trans hu) f3 (hF _ _ q)
      · subst hc
        exact Trace.notTaken _ _ _ x' t1 hx' (f1.trans hl) (fu.trans hu) f3 (fd.trans hd) q
      · rw [ht] at ht'; cases ht'
      · rw [ht] at ht'; cases ht'
      · subst hc
        exact Trace.switch _ _ _ x' t' hx' (f1.trans hl) (fu.trans hu) ht' q

end ZAM

namespace ZAM

open Zeek (Failure)

theorem flow_updAt (f : ZInstI → ZInstI) (l : List ZInstI) (k pc : Nat) :
    ((updAt f l k)[pc]?).map ZInstI.flow =
      if pc = k then (l[pc]?).map (fun x => (f x).flow) else (l[pc]?).map ZInstI.flow := by
  rw [getElem?_updAt]
  split
  · cases l[pc]? <;> rfl
  · rfl

theorem flow_decLabel (l : List ZInstI) (t : Option Nat) (pc : Nat) :
    ((decLabel l t)[pc]?).map ZInstI.flow = (l[pc]?).map ZInstI.flow :=
  flow_of_core (decLabel_core l t pc)

theorem flow_incLabel (l : List ZInstI) (t pc : Nat) :
    ((incLabel l t)[pc]?).map ZInstI.flow = (l[pc]?).map ZInstI.flow := by
  unfold incLabel
  rw [flow_updAt]
  split
  · cases l[pc]? <;> rfl
  · rfl

theorem incLabel_length (l : List ZInstI) (t : Nat) : (incLabel l t).length = l.length :=
  updAt_length _ l t

/-- The array after one retargeting of the branch at `i`: labels aside, only
the target of the instruction at `i` has changed. -/
theorem flow_retargeted (l : List ZInstI) (i t t1 pc : Nat) :
    ((incLabel (updAt (fun x => { x with target := some t1 }) (decLabel l (some t)) i)
        t1)[pc]?).map ZInstI.flow =
      if pc = i then (l[pc]?).map (fun x => (x.live, x.op, some t1))
      else (l[pc]?).map ZInstI.flow := by
  rw [flow_incLabel, flow_updAt]
  split
  · rename_i h
    have := decLabel_core l (some t) pc
    cases h1 : l[pc]? with
    | none =>
      rw [h1] at this
      cases h2 : (decLabel l (some t))[pc]? with
      | none => rfl
      | some y => rw [h2] at this; cases this
    | some x =>
      rw [h1] at this
      cases h2 : (decLabel l (some t))[pc]? with
      | none => rw [h2] at this; cases this
      | some y =>
        rw [h2] at this
        simp only [Option.map_some', Option.some.injEq] at this ⊢
        have e1 : y.core.live = x.core.live := congrArg ZInstI.live this
        have e2 : y.core.op = x.core.op := congrArg ZInstI.op this
        simp only [ZInstI.core] at e1 e2
        simp [ZInstI.flow, e1, e2]
  · exact flow_decLabel l (some t) pc

theorem isUncondAt_get {insts : List ZInstI} {t : Nat} (h : isUncondAt insts t = true) :
    ∃ ti, insts[t]? = some ti ∧ ti.IsUnconditionalBranch = true := by
  unfold isUncondAt at h
  cases ht : insts[t]? with
  | none => rw [ht] at h; cases h
  | some ti => rw [ht] at h; exact ⟨ti, rfl, h⟩

/-- The `do ... while` loop of `CollapseGoTos` keeps the traces; labels
aside, it changes only the target of the branch at `i`, to the position that
it returns. -/
theorem collapseChain_sound {sw : List (Nat × Nat)} :
    ∀ (fuel : Nat) (insts : List ZInstI) (i t : Nat) (x : ZInstI) (insts' : List ZInstI)
      (t' : Nat),
      insts[i]? = some x → x.target = some t → isUncondAt insts t = true →
      collapseChain fuel insts i t = .ok (insts', t') →
      SameTraces sw insts insts' ∧
      (∀ pc : Nat, pc ≠ i → (insts'[pc]?).map ZInstI.flow = (insts[pc]?).map ZInstI.flow) ∧
      (insts'[i]?).map ZInstI.flow = some (x.live, x.op, some t') ∧
      insts'.length = insts.length := by
  intro fuel
  induction fuel with
  | zero => intro insts i t x insts' t' _ _ _ h; cases h
  | succ n ih =>
    intro insts i t x insts' t' hx ht hu h
    obtain ⟨ti, hti, htu⟩ := isUncondAt_get hu
    simp only [collapseChain, hti] at h
    by_cases hl : ti.live = true
    · simp only [hl, Bool.not_true, Bool.false_eq_true, if_false] at h
      cases ht1 : ti.target with
      | none => rw [ht1] at h; cases h
      | some t1 =>
        rw [ht1] at h
        simp only [] at h
        have hfl := flow_retargeted insts i t t1
        have hlen : (incLabel (updAt (fun x => { x with target := some t1 })
            (decLabel insts (some t)) i) t1).length = insts.length := by
          rw [incLabel_length, updAt_length, decLabel_length]
        generalize incLabel (updAt (fun x => { x with target := some t1 })
          (decLabel insts (some t)) i) t1 = insts3 at h hfl hlen
        have hother : ∀ pc : Nat, pc ≠ i →
            (insts3[pc]?).map ZInstI.flow = (insts[pc]?).map ZInstI.flow := by
          intro pc hp
          rw [hfl pc, if_neg hp]
        have hi3 : (insts3[i]?).map ZInstI.flow = some (x.live, x.op, some t1) := by
          rw [hfl i, if_pos rfl, hx]
          rfl
        have hsame : SameTraces sw insts insts3 := by
          refine SameTraces_retarget i t t1 x hx ht hother hi3 ?_ ?_
          · intro cs tr hT
            by_cases hti' : t = i
            · subst hti'
              rw [hx] at hti
              cases hti
              obtain ⟨g, hg, hgf⟩ := flow_get hi3
              simp only [ZInstI.flow, Prod.mk.injEq] at hgf
              obtain ⟨g1, g2, g3⟩ := hgf
              exact Trace_goto_inv hg (g1.trans hl)
                (by simpa [ZInstI.IsUnconditionalBranch, g2] using htu) g3 hT
            · have := hother t hti'
              rw [hti] at this
              obtain ⟨g, hg, hgf⟩ := flow_get this
              obtain ⟨g1, _, g3, g4, _⟩ := flow_eq hgf
              exact Trace_goto_inv hg (g1.trans hl) (g4.trans htu) (g3.trans ht1) hT
          · intro cs tr hT
            exact Trace.goto _ _ _ ti t1 hti hl htu ht1 hT
        obtain ⟨x3, hx3, hx3f⟩ := flow_get hi3
        simp only [ZInstI.flow, Prod.mk.injEq] at hx3f
        obtain ⟨y1, y2, y3⟩ := hx3f
        by_cases hu3 : isUncondAt insts3 t1 = true
        · simp only [hu3, if_true] at h
          obtain ⟨a1, a2, a3, a4⟩ := ih insts3 i t1 x3 insts' t' hx3 y3 hu3 h
          refine ⟨SameTraces_trans hsame a1, fun pc hp => (a2 pc hp).trans (hother pc hp), ?_,
            a4.trans hlen⟩
          rw [a3, y1, y2]
        · simp only [hu3, Bool.false_eq_true, if_false] at h
          cases h
          exact ⟨hsame, hother, hi3, hlen⟩
    · have hl' : ti.live = false := by simpa using hl
      simp only [hl', Bool.not_false, if_true] at h
      cases h

end ZAM

namespace ZAM

open Zeek (Failure)

theorem flow_killed (l : List ZInstI) (i t pc : Nat) :
    ((updAt (fun x => { x with live := false }) (decLabel l (some t)) i)[pc]?).map
        ZInstI.flow =
      if pc = i then (l[pc]?).map (fun x => (false, x.op, x.target))
      else (l[pc]?).map ZInstI.flow := by
  rw [flow_updAt]
  split
  · have := decLabel_core l (some t) pc
    cases h1 : l[pc]? with
    | none =>
      rw [h1] at this
      cases h2 : (decLabel l (some t))[pc]? with
      | none => rfl
      | some y => rw [h2] at this; cases this
    | some x =>
      rw [h1] at this
      cases h2 : (decLabel l (some t))[pc]? with
      | none => rw [h2] at this; cases this
      | some y =>
        rw [h2] at this
        simp only [Option.map_some', Option.some.injEq] at this ⊢
        have e2 : y.core.op = x.core.op := congrArg ZInstI.op this
        have e3 : y.core.target = x.core.target := congrArg ZInstI.target this
        simp only [ZInstI.core] at e2 e3
        simp [ZInstI.flow, e2, e3]
  · exact flow_decLabel l (some t) pc

end ZAM

namespace ZAM

open Zeek (Failure)

end ZAM

namespace ZAM

open Zeek (Failure)

end ZAM

namespace ZAM

open Zeek (Failure)

end ZAM

namespace UseDefs

open Zeek Zeek.BroExprTag Zeek.TypeTag

theorem PropagateUDs_assign (l : Nat) (lhs_ref rhs : Expr) (b : Bool) (t : BroType) (x : ID)
    (S : UDs) (succ : Option Nat) (sp : Bool) (st : State)
    (href : lhs_ref.Tag = EXPR_REF) (hx : lhs_ref.GetOp1 = some (.name x)) :
    PropagateUDs (.expr l (.assign lhs_ref rhs b t)) S succ sp st =
      (match ExprUDs rhs with
       | .ok rhs_UDs =>
         .ok (UD_Union (RemoveID x S) (some rhs_UDs) none,
              setUDs (if sp then noteStmt st (.expr l (.assign lhs_ref rhs b t)) sp
                      else setSuccessor (noteStmt st (.expr l (.assign lhs_ref rhs b t)) sp)
                        l succ)
                l (UD_Union (RemoveID x S) (some rhs_UDs) none))
       | .error e => .error e) := by
  rw [PropagateUDs]
  simp only [href, hx, ne_eq, not_true_eq_false, if_false]

theorem PropagateUDs_if (l : Nat) (cond : Expr) (s1 s2 : Stmt)
    (S : UDs) (succ : Option Nat) (sp : Bool) (st : State) :
    PropagateUDs (.ifS l cond s1 s2) S succ sp st =
      (match ExprUDs cond with
       | .error x => .error x
       | .ok cond_UDs =>
         (match PropagateUDs s1 S succ sp (noteStmt st (.ifS l cond s1 s2) sp) with
          | .error x => .error x
          | .ok (true_UDs, st1) =>
            (match PropagateUDs s2 S succ sp st1 with
             | .error x => .error x
             | .ok (false_UDs, st2) =>
               .ok (UD_Union (some cond_UDs) true_UDs false_UDs,
                    setUDs st2 l (UD_Union (some cond_UDs) true_UDs false_UDs))))) := by
  rw [PropagateUDs]

end UseDefs

namespace UseDefs

open Zeek Zeek.BroExprTag Zeek.TypeTag

theorem mem_UD_Union (x : ID) (u1 u2 u3 : UDs) :
    x ∈ (UD_Union u1 u2 u3).getD [] ↔
      x ∈ u1.getD [] ∨ x ∈ u2.getD [] ∨ x ∈ u3.getD [] := by
  simp only [UD_Union, Option.getD_some, mem_UD_addAll, or_assoc]

theorem mem_FoldInUDs (x : ID) (u1 u2 u3 : UDs) :
    x ∈ (FoldInUDs u1 u2 u3).getD [] ↔
      x ∈ u1.getD [] ∨ x ∈ u2.getD [] ∨ x ∈ u3.getD [] := by
  simp only [FoldInUDs, Option.getD_some, mem_UD_addAll, or_assoc]

theorem mem_RemoveID (x id : ID) (S : UDs) :
    x ∈ (RemoveID id S).getD [] ↔ x ∈ S.getD [] ∧ x ≠ id := by
  cases S with
  | none => simp [RemoveID]
  | some s => simp [RemoveID, List.mem_filter]

/-- C22: for an assignment statement `x = rhs` with successor live set `S`,
`PropagateUDs` returns and records for the statement the set that holds an
identifier exactly if it is in `S` and is not `x`, or is read by `rhs`
(`ExprUDs`); for an `if` statement it returns and records the set that holds
an identifier exactly if the condition reads it or it is in the set returned
for the true branch or in the set returned for the false branch, both
branches being propagated against `S`. -/
theorem PropagateUDs_assignment_and_if (l : Nat) (S : UDs) (succ_stmt : Option Nat)
    (second_pass : Bool) (st : State) :
    (∀ (lhs_ref rhs : Expr) (b : Bool) (t : BroType) (x : ID) (rhs_UDs : List ID),
      lhs_ref.Tag = EXPR_REF → lhs_ref.GetOp1 = some (.name x) →
      ExprUDs rhs = .ok rhs_UDs →
      ∃ R st', PropagateUDs (.expr l (.assign lhs_ref rhs b t)) S succ_stmt second_pass st =
          .ok (some R, st') ∧
        st'.use_defs_map l = some (some R) ∧
        ∀ id, id ∈ R ↔ (id ∈ S.getD [] ∧ id ≠ x) ∨ id ∈ rhs_UDs) ∧
    (∀ (cond : Expr) (s1 s2 : Stmt) (cond_UDs : List ID) (true_UDs false_UDs : UDs)
        (st1 st2 : State),
      ExprUDs cond = .ok cond_UDs →
      PropagateUDs s1 S succ_stmt second_pass (noteStmt st (.ifS l cond s1 s2) second_pass) =
        .ok (true_UDs, st1) →
      PropagateUDs s2 S succ_stmt second_pass st1 = .ok (false_UDs, st2) →
      ∃ R st', PropagateUDs (.ifS l cond s1 s2) S succ_stmt second_pass st =
          .ok (some R, st') ∧
        st'.use_defs_map l = some (some R) ∧
        ∀ id, id ∈ R ↔ id ∈ cond_UDs ∨ id ∈ true_UDs.getD [] ∨ id ∈ false_UDs.getD []) := by
  constructor
  · intro lhs_ref rhs b t x rhs_UDs href hx hrhs
    rw [PropagateUDs_assign l lhs_ref rhs b t x S succ_stmt second_pass st href hx, hrhs]
    refine ⟨UD_addAll (UD_addAll ((RemoveID x S).getD []) rhs_UDs) [], _, rfl, ?_, ?_⟩
    · simp [setUDs, UD_Union]
    · intro id
      have := mem_UD_Union id (RemoveID x S) (some rhs_UDs) none
      simp only [UD_Union, Option.getD_some, Option.getD_none, List.not_mem_nil, or_false,
        mem_RemoveID] at this
      exact this
  · intro cond s1 s2 cond_UDs true_UDs false_UDs st1 st2 hc h1 h2
    rw [PropagateUDs_if, hc]
    simp only [h1, h2]
    refine ⟨UD_addAll (UD_addAll cond_UDs (true_UDs.getD [])) (false_UDs.getD []), _, rfl,
      ?_, ?_⟩
    · simp [setUDs, UD_Union]
    · intro id
      have := mem_UD_Union id (some cond_UDs) true_UDs false_UDs
      simp only [UD_Union, Option.getD_some] at this
      exact this

/-- Witness for C22: `x = y` (statement 3) with successor live set `{x, z}`
records `{z, y}`, and `if ( c ) x = y; else ;` (statement 1) records
`{c, z, y, x}`. -/
theorem PropagateUDs_assignment_and_if_witness :
    (∃ R st', PropagateUDs
          (.expr 3 (.assign (.unary EXPR_REF (.name (localVar 1 TYPE_COUNT)) (base_type TYPE_COUNT))
            (.name (localVar 2 TYPE_COUNT)) false (base_type TYPE_COUNT)))
          (some [localVar 1 TYPE_COUNT, localVar 5 TYPE_COUNT]) (some 9) false State.empty =
          .ok (some R, st') ∧
        st'.use_defs_map 3 = some (some R) ∧
        ∀ id, id ∈ R ↔
          (id ∈ [localVar 1 TYPE_COUNT, localVar 5 TYPE_COUNT] ∧ id ≠ localVar 1 TYPE_COUNT) ∨
            id ∈ [localVar 2 TYPE_COUNT]) ∧
    (∃ R st', PropagateUDs
          (.ifS 3 (.name (localVar 4 TYPE_BOOL))
            (.expr 6 (.assign
              (.unary EXPR_REF (.name (localVar 1 TYPE_COUNT)) (base_type TYPE_COUNT))
              (.name (localVar 2 TYPE_COUNT)) false (base_type TYPE_COUNT)))
            (.null 7))
          (some [localVar 1 TYPE_COUNT, localVar 5 TYPE_COUNT]) (some 9) false State.empty =
          .ok (some R, st') ∧
        st'.use_defs_map 3 = some (some R) ∧
        ∀ id, id ∈ R ↔ id ∈ [localVar 4 TYPE_BOOL] ∨
          id ∈ [localVar 5 TYPE_COUNT, localVar 2 TYPE_COUNT] ∨
          id ∈ [localVar 1 TYPE_COUNT, localVar 5 TYPE_COUNT]) :=
  ⟨(PropagateUDs_assignment_and_if 3 (some [localVar 1 TYPE_COUNT, localVar 5 TYPE_COUNT])
      (some 9) false State.empty).1 _ _ false _ (localVar 1 TYPE_COUNT)
      [localVar 2 TYPE_COUNT] rfl rfl rfl,
   (PropagateUDs_assignment_and_if 3 (some [localVar 1 TYPE_COUNT, localVar 5 TYPE_COUNT])
      (some 9) false State.empty).2 _ _ _ [localVar 4 TYPE_BOOL]
      (some [localVar 5 TYPE_COUNT, localVar 2 TYPE_COUNT])
      (some [localVar 1 TYPE_COUNT, localVar 5 TYPE_COUNT]) _ _ rfl rfl rfl⟩

end UseDefs

namespace UseDefs

open Zeek Zeek.BroExprTag Zeek.TypeTag

theorem Except_ok_pair {α β ε : Type} {a a' : α} {b b' : β}
    (h : (Except.ok (a, b) : Except ε (α × β)) = .ok (a', b')) : a = a' ∧ b = b' := by
  cases h; exact ⟨rfl, rfl⟩

/-- The set that `PropagateUDs` returns for a statement is the set that it
records for it. -/
theorem PropagateUDs_records (s : Stmt) (S : UDs) (succ : Option Nat) (sp : Bool)
    (st : State) (r : UDs) (st' : State) (h : PropagateUDs s S succ sp st = .ok (r, st')) :
    st'.use_defs_map s.label = some r := by
  cases s <;> simp only [PropagateUDs, CreateExprUDs] at h <;> (repeat' split at h) <;>
    first
    | (cases h; done)
    | (cases h; simp [setUDs, Stmt.label])

/-! ### The cases of `PropagateUDs` that recurse -/

theorem PropagateUDs_list (l : Nat) (ss : Stmts) (S : UDs) (succ : Option Nat) (sp : Bool)
    (st : State) :
    PropagateUDs (.list l ss) S succ sp st =
      (match PropagateList l succ sp ss S (noteStmt st (.list l ss) sp) with
       | .ok (uds, st1) => .ok (uds, setUDs st1 l uds)
       | .error x => .error x) := by
  rw [PropagateUDs]

theorem PropagateUDs_catchReturn (l : Nat) (block : Stmt) (S : UDs) (succ : Option Nat)
    (sp : Bool) (st : State) :
    PropagateUDs (.catchReturn l block) S succ sp st =
      (match PropagateUDs block S succ sp (noteStmt st (.catchReturn l block) sp) with
       | .ok (uds, st1) => .ok (uds, setUDs st1 l uds)
       | .error x => .error x) := by
  rw [PropagateUDs]

theorem PropagateUDs_for (l : Nat) (loop_vars : List ID) (value_var : Option ID)
    (loop_expr : Expr) (body : Stmt) (S : UDs) (succ : Option Nat) (sp : Bool) (st : State) :
    PropagateUDs (.forS l loop_vars value_var loop_expr body) S succ sp st =
      (match PropagateUDs body S (some body.label) sp
          (setSuccessor2 (noteStmt st (.forS l loop_vars value_var loop_expr body) sp)
            body.label succ) with
       | .error x => .error x
       | .ok (body_UDs, st2) =>
         (match ExprUDs loop_expr with
          | .error x => .error x
          | .ok e_UDs =>
            (match PropagateUDs body
                (UD_Union (FoldInUDs (some e_UDs) body_UDs none) S none)
                (some body.label) true st2 with
             | .error x => .error x
             | .ok (_, st3) =>
               .ok (FoldInUDs (removeLoopVars loop_vars value_var
                      (FoldInUDs (some e_UDs) body_UDs none)) S none,
                    setUDs st3 l (FoldInUDs (removeLoopVars loop_vars value_var
                      (FoldInUDs (some e_UDs) body_UDs none)) S none))))) := by
  rw [PropagateUDs]
  cases value_var <;> rfl

theorem PropagateUDs_while (l : Nat) (cond : Expr) (body : Stmt) (S : UDs)
    (succ : Option Nat) (sp : Bool) (st : State) :
    PropagateUDs (.whileS l cond body) S succ sp st =
      (match PropagateUDs body S (some body.label) sp
          (setSuccessor2 (noteStmt st (.whileS l cond body) sp) body.label succ) with
       | .error x => .error x
       | .ok (body_UDs, st2) =>
         (match ExprUDs cond with
          | .error x => .error x
          | .ok cond_UDs =>
            (match PropagateUDs body
                (UD_Union (FoldInUDs (UD_Union (some cond_UDs) body_UDs none) body_UDs none)
                  S none)
                (some body.label) true st2 with
             | .error x => .error x
             | .ok (_, st3) =>
               .ok (FoldInUDs
                      (FoldInUDs (UD_Union (some cond_UDs) body_UDs none) body_UDs none) S none,
                    setUDs st3 l (FoldInUDs
                      (FoldInUDs (UD_Union (some cond_UDs) body_UDs none) body_UDs none)
                      S none))))) := by
  rw [PropagateUDs]

theorem PropagateUDs_whileCond (l : Nat) (cond : Expr) (cond_stmt : Stmt) (c_as_s : Nat)
    (body : Stmt) (S : UDs) (succ : Option Nat) (sp : Bool) (st : State) :
    PropagateUDs (.whileCond l cond cond_stmt c_as_s body) S succ sp st =
      (match PropagateUDs body S (some cond_stmt.label) sp
          (setSuccessor2 (noteStmt st (.whileCond l cond cond_stmt c_as_s body) sp)
            body.label succ) with
       | .error x => .error x
       | .ok (body_UDs, st2) =>
         (match ExprUDs cond with
          | .error x => .error x
          | .ok cond_UDs =>
            (match PropagateUDs cond_stmt
                (FoldInUDs (UD_Union (some cond_UDs) body_UDs none) body_UDs none)
                (some c_as_s) sp
                (setUDs st2 c_as_s
                  (FoldInUDs (UD_Union (some cond_UDs) body_UDs none) body_UDs none)) with
             | .error x => .error x
             | .ok (w_UDs1, st4) =>
               (match PropagateUDs body (UD_Union w_UDs1 S none) (some cond_stmt.label)
                   true st4 with
                | .error x => .error x
                | .ok (_, st5) =>
                  .ok (FoldInUDs w_UDs1 S none, setUDs st5 l (FoldInUDs w_UDs1 S none)))))) := by
  rw [PropagateUDs]

theorem PropagateList_nil (l : Nat) (succ : Option Nat) (sp : Bool) (S : UDs) (st : State) :
    PropagateList l succ sp .nil S st = .ok (S, st) := by
  rw [PropagateList]

theorem PropagateList_cons (l : Nat) (succ : Option Nat) (sp : Bool) (s_i : Stmt)
    (rest : Stmts) (S : UDs) (st : State) :
    PropagateList l succ sp (.cons s_i rest) S st =
      (match PropagateList l succ sp rest S st with
       | .error x => .error x
       | .ok (uds, st1) =>
         (match rest.first with
          | some next => PropagateUDs s_i uds (some next) sp st1
          | none =>
            PropagateUDs s_i uds succ sp
              (match st1.successor2 l with
               | some v => setSuccessor2 st1 s_i.label v
               | none => st1))) := by
  rw [PropagateList]

end UseDefs

namespace UseDefs

open Zeek Zeek.BroExprTag Zeek.TypeTag

/-! ### What a successful call of `PropagateUDs` went through -/

theorem PropagateUDs_list_inv {l : Nat} {ss : Stmts} {S : UDs} {succ : Option Nat} {sp : Bool}
    {st : State} {r : UDs} {st' : State}
    (h : PropagateUDs (.list l ss) S succ sp st = .ok (r, st')) :
    ∃ st1, PropagateList l succ sp ss S (noteStmt st (.list l ss) sp) = .ok (r, st1) ∧
      st' = setUDs st1 l r := by
  rw [PropagateUDs_list] at h
  split at h
  · rename_i uds st1 h1
    cases h
    exact ⟨st1, h1, rfl⟩
  · cases h

theorem PropagateUDs_catchReturn_inv {l : Nat} {block : Stmt} {S : UDs} {succ : Option Nat}
    {sp : Bool} {st : State} {r : UDs} {st' : State}
    (h : PropagateUDs (.catchReturn l block) S succ sp st = .ok (r, st')) :
    ∃ st1, PropagateUDs block S succ sp (noteStmt st (.catchReturn l block) sp) = .ok (r, st1) ∧
      st' = setUDs st1 l r := by
  rw [PropagateUDs_catchReturn] at h
  split at h
  · rename_i uds st1 h1
    cases h
    exact ⟨st1, h1, rfl⟩
  · cases h

theorem PropagateUDs_if_inv {l : Nat} {cond : Expr} {s1 s2 : Stmt} {S : UDs}
    {succ : Option Nat} {sp : Bool} {st : State} {r : UDs} {st' : State}
    (h : PropagateUDs (.ifS l cond s1 s2) S succ sp st = .ok (r, st')) :
    ∃ cond_UDs true_UDs st1 false_UDs st2, ExprUDs cond = .ok cond_UDs ∧
      PropagateUDs s1 S succ sp (noteStmt st (.ifS l cond s1 s2) sp) = .ok (true_UDs, st1) ∧
      PropagateUDs s2 S succ sp st1 = .ok (false_UDs, st2) ∧
      r = UD_Union (some cond_UDs) true_UDs false_UDs ∧ st' = setUDs st2 l r := by
  rw [PropagateUDs_if] at h
  split at h
  · cases h
  · rename_i cond_UDs hc
    split at h
    · cases h
    · rename_i true_UDs st1 h1
      split at h
      · cases h
      · rename_i false_UDs st2 h2
        cases h
        exact ⟨cond_UDs, true_UDs, st1, false_UDs, st2, hc, h1, h2, rfl, rfl⟩

theorem PropagateUDs_for_inv {l : Nat} {loop_vars : List ID} {value_var : Option ID}
    {loop_expr : Expr} {body : Stmt} {S : UDs} {succ : Option Nat} {sp : Bool} {st : State}
    {r : UDs} {st' : State}
    (h : PropagateUDs (.forS l loop_vars value_var loop_expr body) S succ sp st = .ok (r, st')) :
    ∃ body_UDs st2 e_UDs top2 st3,
      PropagateUDs body S (some body.label) sp
          (setSuccessor2 (noteStmt st (.forS l loop_vars value_var loop_expr body) sp)
            body.label succ) = .ok (body_UDs, st2) ∧
      ExprUDs loop_expr = .ok e_UDs ∧
      PropagateUDs body (UD_Union (FoldInUDs (some e_UDs) body_UDs none) S none)
          (some body.label) true st2 = .ok (top2, st3) ∧
      r = FoldInUDs (removeLoopVars loop_vars value_var
            (FoldInUDs (some e_UDs) body_UDs none)) S none ∧
      st' = setUDs st3 l r := by
  rw [PropagateUDs_for] at h
  split at h
  · cases h
  · rename_i body_UDs st2 h1
    split at h
    · cases h
    · rename_i e_UDs he
      split at h
      · cases h
      · rename_i top2 st3 h2
        cases h
        exact ⟨body_UDs, st2, e_UDs, top2, st3, h1, he, h2, rfl, rfl⟩

theorem PropagateUDs_while_inv {l : Nat} {cond : Expr} {body : Stmt} {S : UDs}
    {succ : Option Nat} {sp : Bool} {st : State} {r : UDs} {st' : State}
    (h : PropagateUDs (.whileS l cond body) S succ sp st = .ok (r, st')) :
    ∃ body_UDs st2 cond_UDs top2 st3,
      PropagateUDs body S (some body.label) sp
          (setSuccessor2 (noteStmt st (.whileS l cond body) sp) body.label succ) =
        .ok (body_UDs, st2) ∧
      ExprUDs cond = .ok cond_UDs ∧
      PropagateUDs body
          (UD_Union (FoldInUDs (UD_Union (some cond_UDs) body_UDs none) body_UDs none) S none)
          (some body.label) true st2 = .ok (top2, st3) ∧
      r = FoldInUDs (FoldInUDs (UD_Union (some cond_UDs) body_UDs none) body_UDs none) S none ∧
      st' = setUDs st3 l r := by
  rw [PropagateUDs_while] at h
  split at h
  · cases h
  · rename_i body_UDs st2 h1
    split at h
    · cases h
    · rename_i cond_UDs he
      split at h
      · cases h
      · rename_i top2 st3 h2
        cases h
        exact ⟨body_UDs, st2, cond_UDs, top2, st3, h1, he, h2, rfl, rfl⟩

theorem PropagateUDs_whileCond_inv {l : Nat} {cond : Expr} {cond_stmt : Stmt} {c_as_s : Nat}
    {body : Stmt} {S : UDs} {succ : Option Nat} {sp : Bool} {st : State}
    {r : UDs} {st' : State}
    (h : PropagateUDs (.whileCond l cond cond_stmt c_as_s body) S succ sp st = .ok (r, st')) :
    ∃ body_UDs st2 cond_UDs w_UDs1 st4 top2 st5,
      PropagateUDs body S (some cond_stmt.label) sp
          (setSuccessor2 (noteStmt st (.whileCond l cond cond_stmt c_as_s body) sp)
            body.label succ) = .ok (body_UDs, st2) ∧
      ExprUDs cond = .ok cond_UDs ∧
      PropagateUDs cond_stmt
          (FoldInUDs (UD_Union (some cond_UDs) body_UDs none) body_UDs none) (some c_as_s) sp
          (setUDs st2 c_as_s
            (FoldInUDs (UD_Union (some cond_UDs) body_UDs none) body_UDs none)) =
        .ok (w_UDs1, st4) ∧
      PropagateUDs body (UD_Union w_UDs1 S none) (some cond_stmt.label) true st4 =
        .ok (top2, st5) ∧
      r = FoldInUDs w_UDs1 S none ∧ st' = setUDs st5 l r := by
  rw [PropagateUDs_whileCond] at h
  split at h
  · cases h
  · rename_i body_UDs st2 h1
    split at h
    · cases h
    · rename_i cond_UDs he
      split at h
      · cases h
      · rename_i w_UDs1 st4 h3
        split at h
        · cases h
        · rename_i top2 st5 h2
          cases h
          exact ⟨body_UDs, st2, cond_UDs, w_UDs1, st4, top2, st5, h1, he, h3, h2, rfl, rfl⟩

theorem PropagateList_cons_inv {l : Nat} {succ : Option Nat} {sp : Bool} {s_i : Stmt}
    {rest : Stmts} {S : UDs} {st : State} {r : UDs} {st' : State}
    (h : PropagateList l succ sp (.cons s_i rest) S st = .ok (r, st')) :
    ∃ uds st1, PropagateList l succ sp rest S st = .ok (uds, st1) ∧
      ((∃ next, rest.first = some next ∧
          PropagateUDs s_i uds (some next) sp st1 = .ok (r, st')) ∨
       (rest.first = none ∧
          PropagateUDs s_i uds succ sp
            (match st1.successor2 l with
             | some v => setSuccessor2 st1 s_i.label v
             | none => st1) = .ok (r, st'))) := by
  rw [PropagateList_cons] at h
  split at h
  · cases h
  · rename_i uds st1 h1
    refine ⟨uds, st1, h1, ?_⟩
    split at h
    · rename_i next hn
      exact Or.inl ⟨next, hn, h⟩
    · rename_i hn
      exact Or.inr ⟨hn, h⟩

end UseDefs

namespace UseDefs

open Zeek Zeek.BroExprTag Zeek.TypeTag

/-! ### What `PropagateUDs` leaves alone -/

theorem noteStmt_use_defs_map (st : State) (s : Stmt) (sp : Bool) :
    (noteStmt st s sp).use_defs_map = st.use_defs_map := by
  unfold noteStmt; split <;> rfl

theorem noteStmt_successor (st : State) (s : Stmt) (sp : Bool) :
    (noteStmt st s sp).successor = st.successor := by
  unfold noteStmt; split <;> rfl

theorem noteStmt_successor2 (st : State) (s : Stmt) (sp : Bool) :
    (noteStmt st s sp).successor2 = st.successor2 := by
  unfold noteStmt; split <;> rfl

theorem setUDs_successor (st : State) (l : Nat) (u : UDs) :
    (setUDs st l u).successor = st.successor := rfl

theorem setUDs_use_defs_map (st : State) (l : Nat) (u : UDs) (k : Nat) :
    (setUDs st l u).use_defs_map k = if k = l then some u else st.use_defs_map k := rfl

theorem setSuccessor2_use_defs_map (st : State) (l : Nat) (v : Option Nat) :
    (setSuccessor2 st l v).use_defs_map = st.use_defs_map := rfl

theorem setSuccessor2_successor (st : State) (l : Nat) (v : Option Nat) :
    (setSuccessor2 st l v).successor = st.successor := rfl

theorem setSuccessor_use_defs_map (st : State) (l : Nat) (v : Option Nat) :
    (setSuccessor st l v).use_defs_map = st.use_defs_map := rfl

theorem setSuccessor_successor (st : State) (l : Nat) (v : Option Nat) (k : Nat) :
    (setSuccessor st l v).successor k = if k = l then some v else st.successor k := rfl

theorem lastSucc2_use_defs_map (st1 : State) (l k : Nat) :
    (match st1.successor2 l with
     | some v => setSuccessor2 st1 k v
     | none => st1).use_defs_map = st1.use_defs_map := by
  split <;> rfl

theorem lastSucc2_successor (st1 : State) (l k : Nat) :
    (match st1.successor2 l with
     | some v => setSuccessor2 st1 k v
     | none => st1).successor = st1.successor := by
  split <;> rfl

/-- A statement without statements inside it: `PropagateUDs` touches the
entries of the statement only, and no successor in a second pass. -/
theorem PropagateUDs_frame_leaf (s : Stmt)
    (hs : match s with
      | .ifS _ _ _ _ | .catchReturn _ _ | .list _ _ | .forS _ _ _ _ _ | .whileS _ _ _
      | .whileCond _ _ _ _ _ => False
      | _ => True)
    (S : UDs) (succ : Option Nat) (sp : Bool) (st : State) (r : UDs) (st' : State)
    (h : PropagateUDs s S succ sp st = .ok (r, st')) :
    (∀ k, k ≠ s.label →
      st'.use_defs_map k = st.use_defs_map k ∧ st'.successor k = st.successor k) ∧
    (sp = true → st'.successor = st.successor) := by
  cases s <;> simp only [PropagateUDs, CreateExprUDs] at h <;>
    first
    | exact hs.elim
    | ((repeat' split at h) <;>
        first
        | (cases h; done)
        | (cases h
           refine ⟨fun k hk => ⟨?_, ?_⟩, fun hsp => ?_⟩
           · simp [setUDs_use_defs_map, Stmt.label] at hk ⊢
             simp [hk, noteStmt_use_defs_map, setSuccessor_use_defs_map]
           · simp [Stmt.label] at hk
             simp [setUDs_successor, noteStmt_successor, setSuccessor_successor, hk]
           · subst hsp
             first
             | contradiction
             | simp [setUDs_successor, noteStmt_successor]))

end UseDefs

namespace UseDefs

open Zeek Zeek.BroExprTag Zeek.TypeTag

theorem Untouched.same (K : List Nat) (sp : Bool) (st : State) : Untouched K sp st st :=
  ⟨fun _ _ => ⟨rfl, rfl⟩, fun _ => rfl⟩

theorem Untouched.chain {K1 K2 K : List Nat} {sp : Bool} {a b c : State}
    (h1 : Untouched K1 sp a b) (h2 : Untouched K2 sp b c)
    (s1 : ∀ k, k ∈ K1 → k ∈ K) (s2 : ∀ k, k ∈ K2 → k ∈ K) : Untouched K sp a c := by
  refine ⟨fun k hk => ?_, fun hsp => (h2.2 hsp).trans (h1.2 hsp)⟩
  have a1 := h1.1 k (fun hc => hk (s1 k hc))
  have a2 := h2.1 k (fun hc => hk (s2 k hc))
  exact ⟨a2.1.trans a1.1, a2.2.trans a1.2⟩

theorem Untouched.weaken {K : List Nat} {sp : Bool} {a b : State}
    (h : Untouched K true a b) : Untouched K sp a b :=
  ⟨h.1, fun _ => h.2 rfl⟩

theorem Untouched_setUDs (K : List Nat) (sp : Bool) (st : State) (l : Nat) (u : UDs)
    (hl : l ∈ K) : Untouched K sp st (setUDs st l u) := by
  refine ⟨fun k hk => ⟨?_, rfl⟩, fun _ => rfl⟩
  have : k ≠ l := fun hc => hk (hc ▸ hl)
  simp [setUDs_use_defs_map, this]

theorem Untouched_noteStmt (K : List Nat) (sp sp' : Bool) (st : State) (s : Stmt) :
    Untouched K sp st (noteStmt st s sp') :=
  ⟨fun k _ => ⟨by rw [noteStmt_use_defs_map], by rw [noteStmt_successor]⟩,
   fun _ => noteStmt_successor st s sp'⟩

theorem Untouched_setSuccessor2 (K : List Nat) (sp : Bool) (st : State) (l : Nat)
    (v : Option Nat) : Untouched K sp st (setSuccessor2 st l v) :=
  ⟨fun _ _ => ⟨rfl, rfl⟩, fun _ => rfl⟩

theorem Untouched_lastSucc2 (K : List Nat) (sp : Bool) (st1 : State) (l k : Nat) :
    Untouched K sp st1
      (match st1.successor2 l with
       | some v => setSuccessor2 st1 k v
       | none => st1) :=
  ⟨fun _ _ => ⟨by rw [lastSucc2_use_defs_map], by rw [lastSucc2_successor]⟩,
   fun _ => lastSucc2_successor st1 l k⟩

theorem Untouched_leaf (s : Stmt)
    (hs : match s with
      | .ifS _ _ _ _ | .catchReturn _ _ | .list _ _ | .forS _ _ _ _ _ | .whileS _ _ _
      | .whileCond _ _ _ _ _ => False
      | _ => True)
    (hl : s.labels = [s.label])
    (S : UDs) (succ : Option Nat) (sp : Bool) (st : State) (r : UDs) (st' : State)
    (h : PropagateUDs s S succ sp st = .ok (r, st')) : Untouched s.labels sp st st' := by
  have := PropagateUDs_frame_leaf s hs S succ sp st r st' h
  refine ⟨fun k hk => this.1 k ?_, this.2⟩
  rw [hl] at hk
  simpa using hk

mutual

/-- The call `PropagateUDs(s, ...)` changes the recorded sets and successors
of the statements of `s` only, and no successor in a second pass. -/
theorem PropagateUDs_frame : ∀ (s : Stmt) (S : UDs) (succ : Option Nat) (sp : Bool)
    (st : State) (r : UDs) (st' : State), PropagateUDs s S succ sp st = .ok (r, st') →
    Untouched s.labels sp st st'
  | .null l, S, succ, sp, st, r, st', h => Untouched_leaf (Stmt.null l) trivial rfl S succ sp st r st' h
  | .next l, S, succ, sp, st, r, st', h => Untouched_leaf (Stmt.next l) trivial rfl S succ sp st r st' h
  | .brk l, S, succ, sp, st, r, st', h => Untouched_leaf (Stmt.brk l) trivial rfl S succ sp st r st' h
  | .fallthrough l, S, succ, sp, st, r, st', h =>
    Untouched_leaf (Stmt.fallthrough l) trivial rfl S succ sp st r st' h
  | .print l a, S, succ, sp, st, r, st', h => Untouched_leaf (Stmt.print l a) trivial rfl S succ sp st r st' h
  | .exprLike l a, S, succ, sp, st, r, st', h =>
    Untouched_leaf (Stmt.exprLike l a) trivial rfl S succ sp st r st' h
  | .expr l a, S, succ, sp, st, r, st', h => Untouched_leaf (Stmt.expr l a) trivial rfl S succ sp st r st' h
  | .init l a, S, succ, sp, st, r, st', h => Untouched_leaf (Stmt.init l a) trivial rfl S succ sp st r st' h
  | .whenS l, S, succ, sp, st, r, st', h => Untouched_leaf (Stmt.whenS l) trivial rfl S succ sp st r st' h
  | .switch l, S, succ, sp, st, r, st', h => Untouched_leaf (Stmt.switch l) trivial rfl S succ sp st r st' h
  | .other l, S, succ, sp, st, r, st', h => Untouched_leaf (Stmt.other l) trivial rfl S succ sp st r st' h
  | .list l ss, S, succ, sp, st, r, st', h => by
    obtain ⟨st1, h1, rfl⟩ := PropagateUDs_list_inv h
    have a := PropagateList_frame ss l S succ sp _ r st1 h1
    have b := Untouched_noteStmt (l :: ss.labels) sp sp st (.list l ss)
    have c := Untouched_setUDs (l :: ss.labels) sp st1 l r (List.mem_cons_self _ _)
    exact (b.chain (a.chain c (fun k hk => List.mem_cons_of_mem _ hk) (fun _ hk => hk))
      (fun _ hk => hk) (fun _ hk => hk))
  | .catchReturn l block, S, succ, sp, st, r, st', h => by
    obtain ⟨st1, h1, rfl⟩ := PropagateUDs_catchReturn_inv h
    have a := PropagateUDs_frame block S succ sp _ r st1 h1
    have b := Untouched_noteStmt (l :: block.labels) sp sp st (.catchReturn l block)
    have c := Untouched_setUDs (l :: block.labels) sp st1 l r (List.mem_cons_self _ _)
    exact (b.chain (a.chain c (fun k hk => List.mem_cons_of_mem _ hk) (fun _ hk => hk))
      (fun _ hk => hk) (fun _ hk => hk))
  | .ifS l cond s1 s2, S, succ, sp, st, r, st', h => by
    obtain ⟨cond_UDs, t, st1, f, st2, -, h1, h2, -, rfl⟩ := PropagateUDs_if_inv h
    have a1 := PropagateUDs_frame s1 S succ sp _ t st1 h1
    have a2 := PropagateUDs_frame s2 S succ sp _ f st2 h2
    have b := Untouched_noteStmt (l :: (s1.labels ++ s2.labels)) sp sp st (.ifS l cond s1 s2)
    have c := Untouched_setUDs (l :: (s1.labels ++ s2.labels)) sp st2 l r
      (List.mem_cons_self _ _)
    have a12 : Untouched (l :: (s1.labels ++ s2.labels)) sp _ st2 :=
      a1.chain a2 (fun k hk => by simp [hk]) (fun k hk => by simp [hk])
    exact (b.chain (a12.chain c (fun _ hk => hk) (fun _ hk => hk))
      (fun _ hk => hk) (fun _ hk => hk))
  | .forS l loop_vars value_var loop_expr body, S, succ, sp, st, r, st', h => by
    obtain ⟨body_UDs, st2, e_UDs, top2, st3, h1, -, h2, -, rfl⟩ := PropagateUDs_for_inv h
    have a1 := PropagateUDs_frame body S _ sp _ body_UDs st2 h1
    have a2 : Untouched body.labels sp st2 st3 :=
      (PropagateUDs_frame body _ _ true _ top2 st3 h2).weaken
    have b := Untouched_noteStmt (l :: body.labels) sp sp st
      (.forS l loop_vars value_var loop_expr body)
    have b2 := Untouched_setSuccessor2 (l :: body.labels) sp
      (noteStmt st (.forS l loop_vars value_var loop_expr body) sp) body.label succ
    have c := Untouched_setUDs (l :: body.labels) sp st3 l r (List.mem_cons_self _ _)
    have a12 : Untouched (l :: body.labels) sp _ st3 :=
      a1.chain a2 (fun k hk => by simp [hk]) (fun k hk => by simp [hk])
    exact ((b.chain b2 (fun _ hk => hk) (fun _ hk => hk)).chain
      (a12.chain c (fun _ hk => hk) (fun _ hk => hk)) (fun _ hk => hk) (fun _ hk => hk))
  | .whileS l cond body, S, succ, sp, st, r, st', h => by
    obtain ⟨body_UDs, st2, e_UDs, top2, st3, h1, -, h2, -, rfl⟩ := PropagateUDs_while_inv h
    have a1 := PropagateUDs_frame body S _ sp _ body_UDs st2 h1
    have a2 : Untouched body.labels sp st2 st3 :=
      (PropagateUDs_frame body _ _ true _ top2 st3 h2).weaken
    have b := Untouched_noteStmt (l :: body.labels) sp sp st (.whileS l cond body)
    have b2 := Untouched_setSuccessor2 (l :: body.labels) sp
      (noteStmt st (.whileS l cond body) sp) body.label succ
    have c := Untouched_setUDs (l :: body.labels) sp st3 l r (List.mem_cons_self _ _)
    have a12 : Untouched (l :: body.labels) sp _ st3 :=
      a1.chain a2 (fun k hk => by simp [hk]) (fun k hk => by simp [hk])
    exact ((b.chain b2 (fun _ hk => hk) (fun _ hk => hk)).chain
      (a12.chain c (fun _ hk => hk) (fun _ hk => hk)) (fun _ hk => hk) (fun _ hk => hk))
  | .whileCond l cond cond_stmt c_as_s body, S, succ, sp, st, r, st', h => by
    obtain ⟨body_UDs, st2, cond_UDs, w1, st4, top2, st5, h1, -, h3, h2, -, rfl⟩ :=
      PropagateUDs_whileCond_inv h
    have a1 := PropagateUDs_frame body S _ sp _ body_UDs st2 h1
    have a3 := PropagateUDs_frame cond_stmt _ _ sp _ w1 st4 h3
    have a2 : Untouched body.labels sp st4 st5 :=
      (PropagateUDs_frame body _ _ true _ top2 st5 h2).weaken
    have b := Untouched_noteStmt (l :: c_as_s :: (cond_stmt.labels ++ body.labels)) sp sp st
      (.whileCond l cond cond_stmt c_as_s body)
    have b2 := Untouched_setSuccessor2 (l :: c_as_s :: (cond_stmt.labels ++ body.labels)) sp
      (noteStmt st (.whileCond l cond cond_stmt c_as_s body) sp) body.label succ
    have d := Untouched_setUDs (l :: c_as_s :: (cond_stmt.labels ++ body.labels)) sp st2 c_as_s
      (FoldInUDs (UD_Union (some cond_UDs) body_UDs none) body_UDs none) (by simp)
    have c := Untouched_setUDs (l :: c_as_s :: (cond_stmt.labels ++ body.labels)) sp st5 l r
      (List.mem_cons_self _ _)
    have e1 : Untouched (l :: c_as_s :: (cond_stmt.labels ++ body.labels)) sp _ st2 :=
      (b.chain b2 (fun _ hk => hk) (fun _ hk => hk)).chain a1 (fun _ hk => hk)
        (fun k hk => by simp [hk])
    have e2 : Untouched (l :: c_as_s :: (cond_stmt.labels ++ body.labels)) sp _ st4 :=
      (e1.chain d (fun _ hk => hk) (fun _ hk => hk)).chain a3 (fun _ hk => hk)
        (fun k hk => by simp [hk])
    exact (e2.chain a2 (fun _ hk => hk) (fun k hk => by simp [hk])).chain c
      (fun _ hk => hk) (fun _ hk => hk)

/-- The same for the loop over the statements of a list. -/
theorem PropagateList_frame : ∀ (ss : Stmts) (l : Nat) (S : UDs) (succ : Option Nat)
    (sp : Bool) (st : State) (r : UDs) (st' : State),
    PropagateList l succ sp ss S st = .ok (r, st') → Untouched ss.labels sp st st'
  | .nil, l, S, succ, sp, st, r, st', h => by
    rw [PropagateList_nil] at h
    cases h
    exact Untouched.same _ _ _
  | .cons s_i rest, l, S, succ, sp, st, r, st', h => by
    obtain ⟨uds, st1, h1, h2⟩ := PropagateList_cons_inv h
    have a := PropagateList_frame rest l S succ sp st uds st1 h1
    show Untouched (s_i.labels ++ rest.labels) sp st st'
    rcases h2 with ⟨next, -, h2⟩ | ⟨-, h2⟩
    · have b := PropagateUDs_frame s_i uds _ sp st1 r st' h2
      exact a.chain b (fun k hk => List.mem_append_right _ hk)
        (fun k hk => List.mem_append_left _ hk)
    · have b := PropagateUDs_frame s_i uds _ sp _ r st' h2
      have c := Untouched_lastSucc2 (s_i.labels ++ rest.labels) sp st1 l s_i.label
      exact (a.chain c (fun k hk => List.mem_append_right _ hk) (fun _ hk => hk)).chain b
        (fun _ hk => hk) (fun k hk => List.mem_append_left _ hk)

end

end UseDefs

namespace UseDefs

open Zeek Zeek.BroExprTag Zeek.TypeTag

/-! ### The sets that `PropagateUDs` returns and records depend on the
statement and on the exit set only -/

theorem PropagateUDs_leaf_result (s : Stmt)
    (hs : match s with
      | .ifS _ _ _ _ | .catchReturn _ _ | .list _ _ | .forS _ _ _ _ _ | .whileS _ _ _
      | .whileCond _ _ _ _ _ => False
      | _ => True)
    (S : UDs) (succ succ0 : Option Nat) (sp sp0 : Bool) (st st0 : State) :
    (PropagateUDs s S succ sp st).map Prod.fst = (PropagateUDs s S succ0 sp0 st0).map Prod.fst := by
  cases s <;> simp only [PropagateUDs, CreateExprUDs] <;>
    first
    | exact hs.elim
    | ((repeat' split) <;> rfl)

theorem PropagateUDs_leaf_det (s : Stmt)
    (hs : match s with
      | .ifS _ _ _ _ | .catchReturn _ _ | .list _ _ | .forS _ _ _ _ _ | .whileS _ _ _
      | .whileCond _ _ _ _ _ => False
      | _ => True)
    (hl : s.labels = [s.label])
    (S : UDs) (succ succ0 : Option Nat) (sp sp0 : Bool) (st st0 : State) (r r0 : UDs)
    (st' st0' : State) (h : PropagateUDs s S succ sp st = .ok (r, st'))
    (h0 : PropagateUDs s S succ0 sp0 st0 = .ok (r0, st0')) :
    r = r0 ∧ ∀ k ∈ s.labels, st'.use_defs_map k = st0'.use_defs_map k := by
  have e := PropagateUDs_leaf_result s hs S succ succ0 sp sp0 st st0
  rw [h, h0] at e
  have e' : r = r0 := by
    simp only [Except.map] at e
    exact Except.ok.inj e
  subst e'
  refine ⟨rfl, fun k hk => ?_⟩
  rw [hl] at hk
  simp only [List.mem_singleton] at hk
  subst hk
  rw [PropagateUDs_records s S succ sp st r st' h, PropagateUDs_records s S succ0 sp0 st0 r st0' h0]

theorem agree_step {K1 K2 : List Nat} {sp sp0 : Bool} {a a0 b b0 : State}
    (h1 : ∀ k ∈ K1, a.use_defs_map k = a0.use_defs_map k)
    (u : Untouched K2 sp a b) (u0 : Untouched K2 sp0 a0 b0)
    (h2 : ∀ k ∈ K2, b.use_defs_map k = b0.use_defs_map k) (k : Nat)
    (hk : k ∈ K1 ∨ k ∈ K2) : b.use_defs_map k = b0.use_defs_map k := by
  by_cases hk2 : k ∈ K2
  · exact h2 k hk2
  · rcases hk with hk | hk
    · rw [(u.1 k hk2).1, (u0.1 k hk2).1]
      exact h1 k hk
    · exact absurd hk hk2

theorem agree_setUDs {K : List Nat} {a a0 : State} (l : Nat) (r : UDs)
    (h1 : ∀ k ∈ K, a.use_defs_map k = a0.use_defs_map k) (k : Nat) (hk : k = l ∨ k ∈ K) :
    (setUDs a l r).use_defs_map k = (setUDs a0 l r).use_defs_map k := by
  rw [setUDs_use_defs_map, setUDs_use_defs_map]
  by_cases hkl : k = l
  · simp [hkl]
  · simp only [hkl, if_false]
    rcases hk with hk | hk
    · exact absurd hk hkl
    · exact h1 k hk

theorem ok_inj_left {ε α : Type} {a b : α} (h1 : (Except.ok a : Except ε α) = .ok b) : a = b :=
  Except.ok.inj h1

mutual

/-- Two calls of `PropagateUDs` for the same statement with the same exit set
return the same set and record the same sets for the statements of `s`,
whatever the state, the successor and the pass. -/
theorem PropagateUDs_det : ∀ (s : Stmt) (S : UDs) (succ succ0 : Option Nat) (sp sp0 : Bool)
    (st st0 : State) (r r0 : UDs) (st' st0' : State),
    PropagateUDs s S succ sp st = .ok (r, st') →
    PropagateUDs s S succ0 sp0 st0 = .ok (r0, st0') →
    r = r0 ∧ ∀ k ∈ s.labels, st'.use_defs_map k = st0'.use_defs_map k
  | .null l, S, succ, succ0, sp, sp0, st, st0, r, r0, st', st0', h, h0 =>
    PropagateUDs_leaf_det (Stmt.null l) trivial rfl S succ succ0 sp sp0 st st0 r r0 st' st0' h h0
  | .next l, S, succ, succ0, sp, sp0, st, st0, r, r0, st', st0', h, h0 =>
    PropagateUDs_leaf_det (Stmt.next l) trivial rfl S succ succ0 sp sp0 st st0 r r0 st' st0' h h0
  | .brk l, S, succ, succ0, sp, sp0, st, st0, r, r0, st', st0', h, h0 =>
    PropagateUDs_leaf_det (Stmt.brk l) trivial rfl S succ succ0 sp sp0 st st0 r r0 st' st0' h h0
  | .fallthrough l, S, succ, succ0, sp, sp0, st, st0, r, r0, st', st0', h, h0 =>
    PropagateUDs_leaf_det (Stmt.fallthrough l) trivial rfl S succ succ0 sp sp0 st st0 r r0 st'
      st0' h h0
  | .print l a, S, succ, succ0, sp, sp0, st, st0, r, r0, st', st0', h, h0 =>
    PropagateUDs_leaf_det (Stmt.print l a) trivial rfl S succ succ0 sp sp0 st st0 r r0 st'
      st0' h h0
  | .exprLike l a, S, succ, succ0, sp, sp0, st, st0, r, r0, st', st0', h, h0 =>
    PropagateUDs_leaf_det (Stmt.exprLike l a) trivial rfl S succ succ0 sp sp0 st st0 r r0 st'
      st0' h h0
  | .expr l a, S, succ, succ0, sp, sp0, st, st0, r, r0, st', st0', h, h0 =>
    PropagateUDs_leaf_det (Stmt.expr l a) trivial rfl S succ succ0 sp sp0 st st0 r r0 st'
      st0' h h0
  | .init l a, S, succ, succ0, sp, sp0, st, st0, r, r0, st', st0', h, h0 =>
    PropagateUDs_leaf_det (Stmt.init l a) trivial rfl S succ succ0 sp sp0 st st0 r r0 st'
      st0' h h0
  | .whenS l, S, succ, succ0, sp, sp0, st, st0, r, r0, st', st0', h, h0 =>
    PropagateUDs_leaf_det (Stmt.whenS l) trivial rfl S succ succ0 sp sp0 st st0 r r0 st' st0' h h0
  | .switch l, S, succ, succ0, sp, sp0, st, st0, r, r0, st', st0', h, h0 =>
    PropagateUDs_leaf_det (Stmt.switch l) trivial rfl S succ succ0 sp sp0 st st0 r r0 st' st0'
      h h0
  | .other l, S, succ, succ0, sp, sp0, st, st0, r, r0, st', st0', h, h0 =>
    PropagateUDs_leaf_det (Stmt.other l) trivial rfl S succ succ0 sp sp0 st st0 r r0 st' st0' h h0
  | .list l ss, S, succ, succ0, sp, sp0, st, st0, r, r0, st', st0', h, h0 => by
    obtain ⟨st1, h1, rfl⟩ := PropagateUDs_list_inv h
    obtain ⟨st10, h10, rfl⟩ := PropagateUDs_list_inv h0
    obtain ⟨e, a⟩ := PropagateList_det ss l l S succ succ0 sp sp0 _ _ r r0 st1 st10 h1 h10
    subst e
    exact ⟨rfl, fun k hk => agree_setUDs l r a k (by simpa [Stmt.labels] using hk)⟩
  | .catchReturn l block, S, succ, succ0, sp, sp0, st, st0, r, r0, st', st0', h, h0 => by
    obtain ⟨st1, h1, rfl⟩ := PropagateUDs_catchReturn_inv h
    obtain ⟨st10, h10, rfl⟩ := PropagateUDs_catchReturn_inv h0
    obtain ⟨e, a⟩ := PropagateUDs_det block S succ succ0 sp sp0 _ _ r r0 st1 st10 h1 h10
    subst e
    exact ⟨rfl, fun k hk => agree_setUDs l r a k (by simpa [Stmt.labels] using hk)⟩
  | .ifS l cond s1 s2, S, succ, succ0, sp, sp0, st, st0, r, r0, st', st0', h, h0 => by
    obtain ⟨c, t, st1, f, st2, hc, h1, h2, rfl, rfl⟩ := PropagateUDs_if_inv h
    obtain ⟨c0, t0, st10, f0, st20, hc0, h10, h20, rfl, rfl⟩ := PropagateUDs_if_inv h0
    obtain ⟨e1, a1⟩ := PropagateUDs_det s1 S succ succ0 sp sp0 _ _ t t0 st1 st10 h1 h10
    subst e1
    obtain ⟨e2, a2⟩ := PropagateUDs_det s2 S succ succ0 sp sp0 _ _ f f0 st2 st20 h2 h20
    subst e2
    have ec : c = c0 := ok_inj_left (hc.symm.trans hc0)
    subst ec
    have g := agree_step a1 (PropagateUDs_frame s2 _ _ _ _ _ _ h2)
      (PropagateUDs_frame s2 _ _ _ _ _ _ h20) a2
    have g' : ∀ k ∈ s1.labels ++ s2.labels, st2.use_defs_map k = st20.use_defs_map k :=
      fun k hk => g k (List.mem_append.1 hk)
    exact ⟨rfl, fun k hk => agree_setUDs l _ g' k (by simpa [Stmt.labels] using hk)⟩
  | .forS l loop_vars value_var loop_expr body, S, succ, succ0, sp, sp0, st, st0, r, r0, st',
      st0', h, h0 => by
    obtain ⟨b, st2, c, t, st3, h1, hc, h2, rfl, rfl⟩ := PropagateUDs_for_inv h
    obtain ⟨b0, st20, c0, t0, st30, h10, hc0, h20, rfl, rfl⟩ := PropagateUDs_for_inv h0
    obtain ⟨e1, -⟩ := PropagateUDs_det body S _ _ sp sp0 _ _ b b0 st2 st20 h1 h10
    subst e1
    have ec : c = c0 := ok_inj_left (hc.symm.trans hc0)
    subst ec
    obtain ⟨-, a2⟩ := PropagateUDs_det body _ _ _ true true _ _ t t0 st3 st30 h2 h20
    exact ⟨rfl, fun k hk => agree_setUDs l _ a2 k (by simpa [Stmt.labels] using hk)⟩
  | .whileS l cond body, S, succ, succ0, sp, sp0, st, st0, r, r0, st', st0', h, h0 => by
    obtain ⟨b, st2, c, t, st3, h1, hc, h2, rfl, rfl⟩ := PropagateUDs_while_inv h
    obtain ⟨b0, st20, c0, t0, st30, h10, hc0, h20, rfl, rfl⟩ := PropagateUDs_while_inv h0
    obtain ⟨e1, -⟩ := PropagateUDs_det body S _ _ sp sp0 _ _ b b0 st2 st20 h1 h10
    subst e1
    have ec : c = c0 := ok_inj_left (hc.symm.trans hc0)
    subst ec
    obtain ⟨-, a2⟩ := PropagateUDs_det body _ _ _ true true _ _ t t0 st3 st30 h2 h20
    exact ⟨rfl, fun k hk => agree_setUDs l _ a2 k (by simpa [Stmt.labels] using hk)⟩
  | .whileCond l cond cond_stmt c_as_s body, S, succ, succ0, sp, sp0, st, st0, r, r0, st',
      st0', h, h0 => by
    obtain ⟨b, st2, c, w, st4, t, st5, h1, hc, h3, h2, rfl, rfl⟩ :=
      PropagateUDs_whileCond_inv h
    obtain ⟨b0, st20, c0, w0, st40, t0, st50, h10, hc0, h30, h20, rfl, rfl⟩ :=
      PropagateUDs_whileCond_inv h0
    obtain ⟨e1, -⟩ := PropagateUDs_det body S _ _ sp sp0 _ _ b b0 st2 st20 h1 h10
    subst e1
    have ec : c = c0 := ok_inj_left (hc.symm.trans hc0)
    subst ec
    obtain ⟨e3, a3⟩ := PropagateUDs_det cond_stmt _ _ _ sp sp0 _ _ w w0 st4 st40 h3 h30
    subst e3
    obtain ⟨-, a2⟩ := PropagateUDs_det body _ _ _ true true _ _ t t0 st5 st50 h2 h20
    have g1 : ∀ k ∈ [c_as_s],
        (setUDs st2 c_as_s
          (FoldInUDs (UD_Union (some c) b none) b none)).use_defs_map k =
        (setUDs st20 c_as_s
          (FoldInUDs (UD_Union (some c) b none) b none)).use_defs_map k := by
      intro k hk
      simp only [List.mem_singleton] at hk
      subst hk
      simp [setUDs_use_defs_map]
    have g2 := agree_step g1 (PropagateUDs_frame cond_stmt _ _ _ _ _ _ h3)
      (PropagateUDs_frame cond_stmt _ _ _ _ _ _ h30) a3
    have g3 : ∀ k ∈ c_as_s :: cond_stmt.labels,
        st4.use_defs_map k = st40.use_defs_map k :=
      fun k hk => g2 k (by simpa using hk)
    have g4 := agree_step g3 (PropagateUDs_frame body _ _ _ _ _ _ h2)
      (PropagateUDs_frame body _ _ _ _ _ _ h20) a2
    have g5 : ∀ k ∈ c_as_s :: (cond_stmt.labels ++ body.labels),
        st5.use_defs_map k = st50.use_defs_map k :=
      fun k hk => g4 k (by
        simp only [List.mem_cons, List.mem_append] at hk ⊢
        tauto)
    exact ⟨rfl, fun k hk => agree_setUDs l _ g5 k (by simpa [Stmt.labels] using hk)⟩

/-- The same for the loop over the statements of a list. -/
theorem PropagateList_det : ∀ (ss : Stmts) (l l0 : Nat) (S : UDs) (succ succ0 : Option Nat)
    (sp sp0 : Bool) (st st0 : State) (r r0 : UDs) (st' st0' : State),
    PropagateList l succ sp ss S st = .ok (r, st') →
    PropagateList l0 succ0 sp0 ss S st0 = .ok (r0, st0') →
    r = r0 ∧ ∀ k ∈ ss.labels, st'.use_defs_map k = st0'.use_defs_map k
  | .nil, l, l0, S, succ, succ0, sp, sp0, st, st0, r, r0, st', st0', h, h0 => by
    rw [PropagateList_nil] at h h0
    cases h
    cases h0
    exact ⟨rfl, fun k hk => by simp [Stmts.labels] at hk⟩
  | .cons s_i rest, l, l0, S, succ, succ0, sp, sp0, st, st0, r, r0, st', st0', h, h0 => by
    obtain ⟨uds, st1, h1, h2⟩ := PropagateList_cons_inv h
    obtain ⟨uds0, st10, h10, h20⟩ := PropagateList_cons_inv h0
    obtain ⟨e, a⟩ := PropagateList_det rest l l0 S succ succ0 sp sp0 st st0 uds uds0 st1 st10
      h1 h10
    subst e
    have key : ∀ (succ1 succ2 : Option Nat) (x x0 : State),
        (∀ k ∈ rest.labels, x.use_defs_map k = x0.use_defs_map k) →
        PropagateUDs s_i uds succ1 sp x = .ok (r, st') →
        PropagateUDs s_i uds succ2 sp0 x0 = .ok (r0, st0') →
        r = r0 ∧ ∀ k ∈ (Stmts.cons s_i rest).labels,
          st'.use_defs_map k = st0'.use_defs_map k := by
      intro succ1 succ2 x x0 hx g g0
      obtain ⟨e, b⟩ := PropagateUDs_det s_i uds succ1 succ2 sp sp0 x x0 r r0 st' st0' g g0
      refine ⟨e, fun k hk => agree_step hx (PropagateUDs_frame s_i _ _ _ _ _ _ g)
        (PropagateUDs_frame s_i _ _ _ _ _ _ g0) b k ?_⟩
      simp only [Stmts.labels, List.mem_append] at hk
      tauto
    have a' : ∀ (k1 k2 : Nat), ∀ k ∈ rest.labels,
        (match st1.successor2 l with
         | some v => setSuccessor2 st1 k1 v
         | none => st1).use_defs_map k =
        (match st10.successor2 l0 with
         | some v => setSuccessor2 st10 k2 v
         | none => st10).use_defs_map k := by
      intro k1 k2 k hk
      rw [lastSucc2_use_defs_map, lastSucc2_use_defs_map]
      exact a k hk
    rcases h2 with ⟨next, hn, h2⟩ | ⟨hn, h2⟩ <;> rcases h20 with ⟨next0, hn0, h20⟩ | ⟨hn0, h20⟩
    · exact key _ _ _ _ a h2 h20
    · rw [hn] at hn0; cases hn0
    · rw [hn] at hn0; cases hn0
    · exact key _ _ _ _ (a' _ _) h2 h20

end

end UseDefs

namespace UseDefs

open Zeek Zeek.BroExprTag Zeek.TypeTag

/-! ### A read at the top, an assignment at the bottom -/

theorem readBy_iff (x : ID) (e : Expr) :
    readBy x e = true ↔ ∃ uds, ExprUDs e = .ok uds ∧ x ∈ uds := by
  unfold readBy
  split
  · rename_i uds h
    simp [h]
  · rename_i e h
    simp [h]

theorem CreateExprUDs_reads (x : ID) (st : State) (l : Nat) (e : Expr) (S r : UDs)
    (st' : State) (hx : readBy x e = true) (h : CreateExprUDs st l e S = .ok (r, st')) :
    x ∈ r.getD [] := by
  obtain ⟨uds, he, hxu⟩ := (readBy_iff x e).1 hx
  simp only [CreateExprUDs, he] at h
  cases h
  rw [mem_UD_Union]
  exact Or.inr (Or.inl hxu)

/-- An identifier that a statement reads at its top is in the set that
`PropagateUDs` returns for the statement. -/
theorem PropagateUDs_readsAtTop (x : ID) : ∀ (s : Stmt) (S : UDs) (succ : Option Nat)
    (sp : Bool) (st : State) (r : UDs) (st' : State), readsAtTop x s = true →
    PropagateUDs s S succ sp st = .ok (r, st') → x ∈ r.getD []
  | .print l args, S, succ, sp, st, r, st', hx, h => by
    rw [PropagateUDs] at h
    exact CreateExprUDs_reads x _ l args S r st' (by simpa [readsAtTop] using hx) h
  | .exprLike l (some e), S, succ, sp, st, r, st', hx, h => by
    rw [PropagateUDs] at h
    exact CreateExprUDs_reads x _ l e S r st' (by simpa [readsAtTop] using hx) h
  | .exprLike l none, S, succ, sp, st, r, st', hx, h => by simp [readsAtTop] at hx
  | .expr l e, S, succ, sp, st, r, st', hx, h => by
    cases e with
    | assign lhs_ref rhs b t =>
      have hx' : readBy x rhs = true := by simpa [readsAtTop] using hx
      obtain ⟨uds, he, hxu⟩ := (readBy_iff x rhs).1 hx'
      simp only [PropagateUDs] at h
      split at h
      · cases h
      · split at h
        · simp only [he] at h
          cases h
          rw [mem_UD_Union]
          exact Or.inr (Or.inl hxu)
        · cases h
    | _ =>
      rw [PropagateUDs] at h
      · exact CreateExprUDs_reads x _ l _ S r st' (by simpa [readsAtTop] using hx) h
      · intro _ _ _ _ hc
        cases hc
  | .ifS l cond s1 s2, S, succ, sp, st, r, st', hx, h => by
    obtain ⟨c, t, st1, f, st2, hc, -, -, rfl, -⟩ := PropagateUDs_if_inv h
    have hx' : readBy x cond = true := by simpa [readsAtTop] using hx
    obtain ⟨uds, he, hxu⟩ := (readBy_iff x cond).1 hx'
    rw [hc] at he
    cases he
    rw [mem_UD_Union]
    exact Or.inl hxu
  | .catchReturn l block, S, succ, sp, st, r, st', hx, h => by
    obtain ⟨st1, h1, -⟩ := PropagateUDs_catchReturn_inv h
    exact PropagateUDs_readsAtTop x block S succ sp _ r st1 (by simpa [readsAtTop] using hx) h1
  | .list l (.cons s rest), S, succ, sp, st, r, st', hx, h => by
    obtain ⟨st1, h1, -⟩ := PropagateUDs_list_inv h
    obtain ⟨uds, st0, -, h2⟩ := PropagateList_cons_inv h1
    have hx' : readsAtTop x s = true := by simpa [readsAtTop] using hx
    rcases h2 with ⟨next, -, h2⟩ | ⟨-, h2⟩
    · exact PropagateUDs_readsAtTop x s uds _ sp _ r st1 hx' h2
    · exact PropagateUDs_readsAtTop x s uds _ sp _ r st1 hx' h2
  | .list l .nil, S, succ, sp, st, r, st', hx, h => by simp [readsAtTop] at hx
  | .null l, S, succ, sp, st, r, st', hx, h => by simp [readsAtTop] at hx
  | .next l, S, succ, sp, st, r, st', hx, h => by simp [readsAtTop] at hx
  | .brk l, S, succ, sp, st, r, st', hx, h => by simp [readsAtTop] at hx
  | .fallthrough l, S, succ, sp, st, r, st', hx, h => by simp [readsAtTop] at hx
  | .init l _, S, succ, sp, st, r, st', hx, h => by simp [readsAtTop] at hx
  | .whenS l, S, succ, sp, st, r, st', hx, h => by simp [readsAtTop] at hx
  | .switch l, S, succ, sp, st, r, st', hx, h => by simp [readsAtTop] at hx
  | .other l, S, succ, sp, st, r, st', hx, h => by simp [readsAtTop] at hx
  | .forS l _ _ _ _, S, succ, sp, st, r, st', hx, h => by simp [readsAtTop] at hx
  | .whileS l _ _, S, succ, sp, st, r, st', hx, h => by simp [readsAtTop] at hx
  | .whileCond l _ _ _ _, S, succ, sp, st, r, st', hx, h => by simp [readsAtTop] at hx

end UseDefs

namespace UseDefs

open Zeek Zeek.BroExprTag Zeek.TypeTag

mutual

theorem assignsAtBottom_mem (x : ID) (la : Nat) : ∀ (s : Stmt),
    assignsAtBottom x la s = true → la ∈ s.labels
  | .expr l e, h => by
    cases e <;> simp [assignsAtBottom] at h
    simp [Stmt.labels, h.1.1]
  | .catchReturn l block, h => by
    have := assignsAtBottom_mem x la block (by simpa [assignsAtBottom] using h)
    simp [Stmt.labels, this]
  | .ifS l c s1 s2, h => by
    simp only [assignsAtBottom, Bool.or_eq_true] at h
    rcases h with h | h
    · have := assignsAtBottom_mem x la s1 h
      simp [Stmt.labels, this]
    · have := assignsAtBottom_mem x la s2 h
      simp [Stmt.labels, this]
  | .list l ss, h => by
    have := assignsAtBottomOf_mem x la ss (by simpa [assignsAtBottom] using h)
    simp [Stmt.labels, this]
  | .null l, h => by simp [assignsAtBottom] at h
  | .next l, h => by simp [assignsAtBottom] at h
  | .brk l, h => by simp [assignsAtBottom] at h
  | .fallthrough l, h => by simp [assignsAtBottom] at h
  | .print l _, h => by simp [assignsAtBottom] at h
  | .exprLike l _, h => by simp [assignsAtBottom] at h
  | .init l _, h => by simp [assignsAtBottom] at h
  | .whenS l, h => by simp [assignsAtBottom] at h
  | .switch l, h => by simp [assignsAtBottom] at h
  | .other l, h => by simp [assignsAtBottom] at h
  | .forS l _ _ _ _, h => by simp [assignsAtBottom] at h
  | .whileS l _ _, h => by simp [assignsAtBottom] at h
  | .whileCond l _ _ _ _, h => by simp [assignsAtBottom] at h

theorem assignsAtBottomOf_mem (x : ID) (la : Nat) : ∀ (ss : Stmts),
    assignsAtBottomOf x la ss = true → la ∈ ss.labels
  | .nil, h => by simp [assignsAtBottomOf] at h
  | .cons s .nil, h => by
    have := assignsAtBottom_mem x la s (by simpa [assignsAtBottomOf] using h)
    simp [Stmts.labels, this]
  | .cons s0 (.cons s rest), h => by
    have := assignsAtBottomOf_mem x la (.cons s rest) (by simpa [assignsAtBottomOf] using h)
    rw [Stmts.labels]
    exact List.mem_append_right _ this

end

mutual

/-- In a first pass, `PropagateUDs` records for an assignment at the bottom
of a statement the successor that the statement was given. -/
theorem PropagateUDs_bottom (x : ID) (la : Nat) : ∀ (s : Stmt) (S : UDs) (succ : Option Nat)
    (st : State) (r : UDs) (st' : State), assignsAtBottom x la s = true → s.labels.Nodup →
    PropagateUDs s S succ false st = .ok (r, st') → st'.successor la = some succ
  | .expr l e, S, succ, st, r, st', hb, hn, h => by
    cases e <;> simp [assignsAtBottom] at hb
    rename_i lhs_ref rhs b t
    obtain ⟨⟨rfl, href⟩, hx⟩ := hb
    rw [PropagateUDs_assign l lhs_ref rhs b t x S succ false st href hx] at h
    split at h
    · cases h
      simp [setUDs_successor, setSuccessor_successor]
    · cases h
  | .catchReturn l block, S, succ, st, r, st', hb, hn, h => by
    obtain ⟨st1, h1, rfl⟩ := PropagateUDs_catchReturn_inv h
    rw [setUDs_successor]
    exact PropagateUDs_bottom x la block S succ _ r st1 (by simpa [assignsAtBottom] using hb)
      (by simp only [Stmt.labels, List.nodup_cons] at hn; exact hn.2) h1
  | .ifS l c s1 s2, S, succ, st, r, st', hb, hn, h => by
    obtain ⟨cu, t, st1, f, st2, -, h1, h2, -, rfl⟩ := PropagateUDs_if_inv h
    rw [setUDs_successor]
    simp only [Stmt.labels, List.nodup_cons, List.nodup_append] at hn
    obtain ⟨-, n1, n2, dj⟩ := hn
    simp only [assignsAtBottom, Bool.or_eq_true] at hb
    rcases hb with hb | hb
    · have a := PropagateUDs_bottom x la s1 S succ _ t st1 hb n1 h1
      have m := assignsAtBottom_mem x la s1 hb
      have fr := PropagateUDs_frame s2 S succ false st1 f st2 h2
      rw [(fr.1 la (fun hc => dj m hc)).2]
      exact a
    · exact PropagateUDs_bottom x la s2 S succ _ f st2 hb n2 h2
  | .list l ss, S, succ, st, r, st', hb, hn, h => by
    obtain ⟨st1, h1, rfl⟩ := PropagateUDs_list_inv h
    rw [setUDs_successor]
    exact PropagateList_bottom x la ss l S succ _ r st1 (by simpa [assignsAtBottom] using hb)
      (by simp only [Stmt.labels, List.nodup_cons] at hn; exact hn.2) h1
  | .null l, S, succ, st, r, st', hb, hn, h => by simp [assignsAtBottom] at hb
  | .next l, S, succ, st, r, st', hb, hn, h => by simp [assignsAtBottom] at hb
  | .brk l, S, succ, st, r, st', hb, hn, h => by simp [assignsAtBottom] at hb
  | .fallthrough l, S, succ, st, r, st', hb, hn, h => by simp [assignsAtBottom] at hb
  | .print l _, S, succ, st, r, st', hb, hn, h => by simp [assignsAtBottom] at hb
  | .exprLike l _, S, succ, st, r, st', hb, hn, h => by simp [assignsAtBottom] at hb
  | .init l _, S, succ, st, r, st', hb, hn, h => by simp [assignsAtBottom] at hb
  | .whenS l, S, succ, st, r, st', hb, hn, h => by simp [assignsAtBottom] at hb
  | .switch l, S, succ, st, r, st', hb, hn, h => by simp [assignsAtBottom] at hb
  | .other l, S, succ, st, r, st', hb, hn, h => by simp [assignsAtBottom] at hb
  | .forS l _ _ _ _, S, succ, st, r, st', hb, hn, h => by simp [assignsAtBottom] at hb
  | .whileS l _ _, S, succ, st, r, st', hb, hn, h => by simp [assignsAtBottom] at hb
  | .whileCond l _ _ _ _, S, succ, st, r, st', hb, hn, h => by simp [assignsAtBottom] at hb

/-- The same for the last statement of a list. -/
theorem PropagateList_bottom (x : ID) (la : Nat) : ∀ (ss : Stmts) (l : Nat) (S : UDs)
    (succ : Option Nat) (st : State) (r : UDs) (st' : State),
    assignsAtBottomOf x la ss = true → ss.labels.Nodup →
    PropagateList l succ false ss S st = .ok (r, st') → st'.successor la = some succ
  | .nil, l, S, succ, st, r, st', hb, hn, h => by simp [assignsAtBottomOf] at hb
  | .cons s .nil, l, S, succ, st, r, st', hb, hn, h => by
    obtain ⟨uds, st1, h1, h2⟩ := PropagateList_cons_inv h
    have hn' : s.labels.Nodup := by simpa [Stmts.labels] using hn
    rcases h2 with ⟨next, hf, h2⟩ | ⟨-, h2⟩
    · simp [Stmts.first] at hf
    · exact PropagateUDs_bottom x la s uds succ _ r st'
        (by simpa [assignsAtBottomOf] using hb) hn' h2
  | .cons s0 (.cons s rest), l, S, succ, st, r, st', hb, hn, h => by
    obtain ⟨uds, st1, h1, h2⟩ := PropagateList_cons_inv h
    rw [Stmts.labels, List.nodup_append] at hn
    obtain ⟨n0, n1, dj⟩ := hn
    have hb' : assignsAtBottomOf x la (.cons s rest) = true := by
      simpa [assignsAtBottomOf] using hb
    have a := PropagateList_bottom x la (.cons s rest) l S succ st uds st1 hb' n1 h1
    have m := assignsAtBottomOf_mem x la (.cons s rest) hb'
    rcases h2 with ⟨next, -, h2⟩ | ⟨hf, h2⟩
    · have fr := PropagateUDs_frame s0 uds _ false st1 r st' h2
      rw [(fr.1 la (fun hc => dj hc m)).2]
      exact a
    · simp [Stmts.first] at hf

end

end UseDefs

namespace UseDefs

open Zeek Zeek.BroExprTag Zeek.TypeTag

theorem label_mem_labels (s : Stmt) : s.label ∈ s.labels := by
  cases s <;> simp [Stmt.label, Stmt.labels]

theorem not_unused_of_live_successor (st : State) (la sl : Nat) (x : ID) (R : List ID)
    (hs : st.successor la = some (some sl)) (hm : st.use_defs_map sl = some (some R))
    (hx : x ∈ R) (b : Bool) (h : CheckIfUnused st la x = .ok b) : b = false := by
  cases b with
  | false => rfl
  | true =>
    have := (CheckIfUnused_iff st la x true h).1 rfl
    exact absurd hx (this.2.1 sl R hs hm)

/-- What the two propagations of a loop body leave, the first one ending in
`st2` with the set `body_UDs`, the second one being run with the exit set
`exit2` and the loop statement `l` being recorded last. -/
theorem loop_two_passes (l : Nat) (body : Stmt) (S exit2 : UDs) (sp : Bool)
    (st1 st2 st3 : State) (body_UDs top2 r : UDs)
    (hl : l ∉ body.labels) (hn : body.labels.Nodup)
    (h1 : PropagateUDs body S (some body.label) sp st1 = .ok (body_UDs, st2))
    (h2 : PropagateUDs body exit2 (some body.label) true st2 = .ok (top2, st3)) :
    (∀ k ∈ body.labels, (setUDs st3 l r).use_defs_map k = st3.use_defs_map k) ∧
    (∀ (succ0 : Option Nat) (sp0 : Bool) (st0 : State) (r0 : UDs) (st0' : State),
      PropagateUDs body exit2 succ0 sp0 st0 = .ok (r0, st0') →
      ∀ k ∈ body.labels, (setUDs st3 l r).use_defs_map k = st0'.use_defs_map k) ∧
    (sp = false → ∀ (x : ID) (la : Nat), readsAtTop x body = true →
      assignsAtBottom x la body = true →
      (setUDs st3 l r).successor la = some (some body.label) ∧
      ∃ R2, (setUDs st3 l r).use_defs_map body.label = some (some R2) ∧ x ∈ R2 ∧
        ∀ b, CheckIfUnused (setUDs st3 l r) la x = .ok b → b = false) := by
  have keep : ∀ k ∈ body.labels, (setUDs st3 l r).use_defs_map k = st3.use_defs_map k := by
    intro k hk
    have : k ≠ l := fun hc => hl (hc ▸ hk)
    simp [setUDs_use_defs_map, this]
  refine ⟨keep, ?_, ?_⟩
  · intro succ0 sp0 st0 r0 st0' h0 k hk
    rw [keep k hk]
    exact (PropagateUDs_det body exit2 _ succ0 true sp0 st2 st0 top2 r0 st3 st0' h2 h0).2 k hk
  · intro hsp x la hr hb
    subst hsp
    have s1 := PropagateUDs_bottom x la body S (some body.label) st1 body_UDs st2 hb hn h1
    have s2 := (PropagateUDs_frame body exit2 _ true st2 top2 st3 h2).2 rfl
    have hsucc : (setUDs st3 l r).successor la = some (some body.label) := by
      rw [setUDs_successor, s2]
      exact s1
    have hx := PropagateUDs_readsAtTop x body exit2 _ true st2 top2 st3 hr h2
    have hrec := PropagateUDs_records body exit2 _ true st2 top2 st3 h2
    cases top2 with
    | none => simp at hx
    | some R2 =>
      have hm : (setUDs st3 l r).use_defs_map body.label = some (some R2) := by
        rw [keep _ (label_mem_labels body)]
        exact hrec
      exact ⟨hsucc, R2, hm, hx, fun b hb' =>
        not_unused_of_live_successor _ la body.label x R2 hsucc hm hx b hb'⟩

end UseDefs

namespace UseDefs

open Zeek Zeek.BroExprTag Zeek.TypeTag

theorem CreateExprUDs_hands_on (x : ID) (st : State) (l : Nat) (e : Expr) (S r : UDs)
    (st' : State) (hx : x ∈ S.getD []) (h : CreateExprUDs st l e S = .ok (r, st')) :
    x ∈ r.getD [] := by
  simp only [CreateExprUDs] at h
  split at h
  · cases h
    rw [mem_UD_Union]
    exact Or.inl hx
  · cases h

mutual

/-- A statement that hands `x` on returns a set with `x` when its exit set
holds `x`. -/
theorem PropagateUDs_hands_on (x : ID) : ∀ (s : Stmt) (S : UDs) (succ : Option Nat)
    (sp : Bool) (st : State) (r : UDs) (st' : State), handsOn x s = true → x ∈ S.getD [] →
    PropagateUDs s S succ sp st = .ok (r, st') → x ∈ r.getD []
  | .null l, S, succ, sp, st, r, st', hk, hx, h => by
    rw [PropagateUDs] at h; cases h; exact hx
  | .next l, S, succ, sp, st, r, st', hk, hx, h => by
    rw [PropagateUDs] at h; cases h; exact hx
  | .brk l, S, succ, sp, st, r, st', hk, hx, h => by
    rw [PropagateUDs] at h; cases h; exact hx
  | .fallthrough l, S, succ, sp, st, r, st', hk, hx, h => by
    rw [PropagateUDs] at h; cases h; exact hx
  | .init l a, S, succ, sp, st, r, st', hk, hx, h => by
    rw [PropagateUDs] at h; cases h; exact hx
  | .whenS l, S, succ, sp, st, r, st', hk, hx, h => by
    rw [PropagateUDs] at h; cases h; exact hx
  | .switch l, S, succ, sp, st, r, st', hk, hx, h => by
    rw [PropagateUDs] at h; cases h
  | .other l, S, succ, sp, st, r, st', hk, hx, h => by
    rw [PropagateUDs] at h; cases h
  | .print l args, S, succ, sp, st, r, st', hk, hx, h => by
    rw [PropagateUDs] at h
    exact CreateExprUDs_hands_on x _ l args S r st' hx h
  | .exprLike l (some e), S, succ, sp, st, r, st', hk, hx, h => by
    rw [PropagateUDs] at h
    exact CreateExprUDs_hands_on x _ l e S r st' hx h
  | .exprLike l none, S, succ, sp, st, r, st', hk, hx, h => by
    rw [PropagateUDs] at h; cases h; exact hx
  | .expr l e, S, succ, sp, st, r, st', hk, hx, h => by
    cases e with
    | assign lhs_ref rhs b t =>
      simp only [handsOn, Bool.and_eq_true, decide_eq_true_eq] at hk
      obtain ⟨href, hk⟩ := hk
      split at hk
      · rename_i id hid
        have hne : id ≠ x := by simpa using hk
        rw [PropagateUDs_assign l lhs_ref rhs b t id S succ sp st href hid] at h
        split at h
        · cases h
          rw [mem_UD_Union, mem_RemoveID]
          exact Or.inl ⟨hx, fun hc => hne hc.symm⟩
        · cases h
      · cases hk
    | _ =>
      rw [PropagateUDs] at h
      · exact CreateExprUDs_hands_on x _ l _ S r st' hx h
      · intro _ _ _ _ hc
        cases hc
  | .ifS l cond s1 s2, S, succ, sp, st, r, st', hk, hx, h => by
    obtain ⟨c, t, st1, f, st2, -, h1, h2, rfl, -⟩ := PropagateUDs_if_inv h
    simp only [handsOn, Bool.or_eq_true] at hk
    rw [mem_UD_Union]
    rcases hk with hk | hk
    · exact Or.inr (Or.inl (PropagateUDs_hands_on x s1 S succ sp _ t st1 hk hx h1))
    · exact Or.inr (Or.inr (PropagateUDs_hands_on x s2 S succ sp _ f st2 hk hx h2))
  | .catchReturn l block, S, succ, sp, st, r, st', hk, hx, h => by
    obtain ⟨st1, h1, -⟩ := PropagateUDs_catchReturn_inv h
    exact PropagateUDs_hands_on x block S succ sp _ r st1 (by simpa [handsOn] using hk) hx h1
  | .list l ss, S, succ, sp, st, r, st', hk, hx, h => by
    obtain ⟨st1, h1, -⟩ := PropagateUDs_list_inv h
    exact PropagateList_hands_on x ss l S succ sp _ r st1 (by simpa [handsOn] using hk) hx h1
  | .forS l lv vv le body, S, succ, sp, st, r, st', hk, hx, h => by
    obtain ⟨b, st2, c, t, st3, -, -, -, rfl, -⟩ := PropagateUDs_for_inv h
    rw [mem_FoldInUDs]
    exact Or.inr (Or.inl hx)
  | .whileS l cond body, S, succ, sp, st, r, st', hk, hx, h => by
    obtain ⟨b, st2, c, t, st3, -, -, -, rfl, -⟩ := PropagateUDs_while_inv h
    rw [mem_FoldInUDs]
    exact Or.inr (Or.inl hx)
  | .whileCond l cond cs c_as_s body, S, succ, sp, st, r, st', hk, hx, h => by
    obtain ⟨b, st2, c, w, st4, t, st5, -, -, -, -, rfl, -⟩ := PropagateUDs_whileCond_inv h
    rw [mem_FoldInUDs]
    exact Or.inr (Or.inl hx)

/-- The same for the loop over the statements of a list. -/
theorem PropagateList_hands_on (x : ID) : ∀ (ss : Stmts) (l : Nat) (S : UDs)
    (succ : Option Nat) (sp : Bool) (st : State) (r : UDs) (st' : State),
    handsOnAll x ss = true → x ∈ S.getD [] →
    PropagateList l succ sp ss S st = .ok (r, st') → x ∈ r.getD []
  | .nil, l, S, succ, sp, st, r, st', hk, hx, h => by
    rw [PropagateList_nil] at h
    cases h
    exact hx
  | .cons s rest, l, S, succ, sp, st, r, st', hk, hx, h => by
    obtain ⟨uds, st1, h1, h2⟩ := PropagateList_cons_inv h
    simp only [handsOnAll, Bool.and_eq_true] at hk
    have a := PropagateList_hands_on x rest l S succ sp st uds st1 hk.2 hx h1
    rcases h2 with ⟨next, -, h2⟩ | ⟨-, h2⟩
    · exact PropagateUDs_hands_on x s uds _ sp _ r st' hk.1 a h2
    · exact PropagateUDs_hands_on x s uds _ sp _ r st' hk.1 a h2

end

end UseDefs

namespace UseDefs

open Zeek Zeek.BroExprTag Zeek.TypeTag

theorem FoldInUDs_contains (main S : UDs) :
    ∃ R, FoldInUDs main S none = some R ∧ ∀ id ∈ S.getD [], id ∈ R := by
  refine ⟨_, rfl, fun id hid => ?_⟩
  have := (mem_FoldInUDs id main S none).2 (Or.inr (Or.inl hid))
  simpa [FoldInUDs] using this

/-- The two propagations of the body of a `while` loop with a condition
statement, the condition statement being propagated in between. -/
theorem whileCond_two_passes (l c_as_s : Nat) (cond_stmt body : Stmt) (S W w1 : UDs)
    (sp : Bool) (st1 st2 st4 st5 : State) (body_UDs top2 r : UDs)
    (hn : (l :: c_as_s :: (cond_stmt.labels ++ body.labels)).Nodup)
    (hW : ∀ x, x ∈ body_UDs.getD [] → x ∈ W.getD [])
    (h1 : PropagateUDs body S (some cond_stmt.label) sp st1 = .ok (body_UDs, st2))
    (h3 : PropagateUDs cond_stmt W (some c_as_s) sp (setUDs st2 c_as_s W) = .ok (w1, st4))
    (h2 : PropagateUDs body (UD_Union w1 S none) (some cond_stmt.label) true st4 =
      .ok (top2, st5)) :
    (∀ k ∈ body.labels, (setUDs st5 l r).use_defs_map k = st5.use_defs_map k) ∧
    (∀ (succ0 : Option Nat) (sp0 : Bool) (st0 : State) (r0 : UDs) (st0' : State),
      PropagateUDs body (UD_Union w1 S none) succ0 sp0 st0 = .ok (r0, st0') →
      ∀ k ∈ body.labels, (setUDs st5 l r).use_defs_map k = st0'.use_defs_map k) ∧
    (sp = false → ∀ (x : ID) (la : Nat), readsAtTop x body = true →
      assignsAtBottom x la body = true → handsOn x cond_stmt = true →
      (setUDs st5 l r).successor la = some (some cond_stmt.label) ∧
      ∃ R2, (setUDs st5 l r).use_defs_map cond_stmt.label = some (some R2) ∧ x ∈ R2 ∧
        ∀ b, CheckIfUnused (setUDs st5 l r) la x = .ok b → b = false) := by
  simp only [List.nodup_cons, List.nodup_append, List.mem_cons, List.mem_append, not_or] at hn
  obtain ⟨⟨hlc, hl1, hl2⟩, ⟨hc1, hc2⟩, n1, n2, dj⟩ := hn
  have keep : ∀ k ∈ body.labels, (setUDs st5 l r).use_defs_map k = st5.use_defs_map k := by
    intro k hk
    have : k ≠ l := fun hc => hl2 (hc ▸ hk)
    simp [setUDs_use_defs_map, this]
  refine ⟨keep, ?_, ?_⟩
  · intro succ0 sp0 st0 r0 st0' h0 k hk
    rw [keep k hk]
    exact (PropagateUDs_det body _ _ succ0 true sp0 st4 st0 top2 r0 st5 st0' h2 h0).2 k hk
  · intro hsp x la hr hb hk
    subst hsp
    have m := assignsAtBottom_mem x la body hb
    have s1 := PropagateUDs_bottom x la body S (some cond_stmt.label) st1 body_UDs st2 hb n2 h1
    have f3 := PropagateUDs_frame cond_stmt W _ false _ w1 st4 h3
    have s2 := (PropagateUDs_frame body _ _ true st4 top2 st5 h2).2 rfl
    have hsucc : (setUDs st5 l r).successor la = some (some cond_stmt.label) := by
      rw [setUDs_successor, s2, (f3.1 la (fun hc => dj hc m)).2, setUDs_successor]
      exact s1
    have hx1 := PropagateUDs_readsAtTop x body S _ false st1 body_UDs st2 hr h1
    have hx3 := PropagateUDs_hands_on x cond_stmt W _ false _ w1 st4 hk (hW x hx1) h3
    have hrec := PropagateUDs_records cond_stmt W _ false _ w1 st4 h3
    have f2 := PropagateUDs_frame body _ _ true st4 top2 st5 h2
    have hcl : cond_stmt.label ∉ body.labels :=
      fun hc => dj (label_mem_labels cond_stmt) hc
    have hne : cond_stmt.label ≠ l := fun hc => hl1 (hc ▸ label_mem_labels cond_stmt)
    cases w1 with
    | none => simp at hx3
    | some R2 =>
      have hm : (setUDs st5 l r).use_defs_map cond_stmt.label = some (some R2) := by
        rw [setUDs_use_defs_map, if_neg hne, (f2.1 _ hcl).1]
        exact hrec
      exact ⟨hsucc, R2, hm, hx3, fun b hb' =>
        not_unused_of_live_successor _ la cond_stmt.label x R2 hsucc hm hx3 b hb'⟩

/-- C21: `PropagateUDs` on a `for` loop, a `while` loop, or a `while` loop
with a condition statement, with post-loop live set `S`, when it returns.
It has propagated the body twice: first with exit set `S`, then (second pass)
with exit set the loop-top set united with `S`, the loop-top set being the
identifiers of the loop expression or condition together with the set the
first propagation returned (for a `while` with a condition statement: that
set propagated through the condition statement).  The sets recorded for the
statements of the body are those of the second propagation (they are what any
propagation of the body with that exit set records).  The set returned and
recorded for the loop statement contains `S`.  In a first pass, an identifier
`x` that the body reads at its top, and that an assignment `la` at the bottom
of the body assigns to, is in the set recorded for the recorded successor of
`la` (the body, or the condition statement if there is one and it hands `x`
on), so that `CheckIfUnused` does not find the assignment unused.  The names
of the statements are taken to be distinct. -/
theorem PropagateUDs_loop_twice (l : Nat) (body : Stmt) (S : UDs) (succ_stmt : Option Nat)
    (sp : Bool) (st : State) (r : UDs) (st' : State) :
    (∀ (loop_vars : List ID) (value_var : Option ID) (loop_expr : Expr),
      PropagateUDs (.forS l loop_vars value_var loop_expr body) S succ_stmt sp st =
        .ok (r, st') →
      (Stmt.forS l loop_vars value_var loop_expr body).labels.Nodup →
      ∃ body_UDs st2 e_UDs top2 st3,
        PropagateUDs body S (some body.label) sp
            (setSuccessor2 (noteStmt st (.forS l loop_vars value_var loop_expr body) sp)
              body.label succ_stmt) = .ok (body_UDs, st2) ∧
        ExprUDs loop_expr = .ok e_UDs ∧
        PropagateUDs body (UD_Union (FoldInUDs (some e_UDs) body_UDs none) S none)
            (some body.label) true st2 = .ok (top2, st3) ∧
        (∀ k ∈ body.labels, st'.use_defs_map k = st3.use_defs_map k) ∧
        (∀ (succ0 : Option Nat) (sp0 : Bool) (st0 : State) (r0 : UDs) (st0' : State),
          PropagateUDs body (UD_Union (FoldInUDs (some e_UDs) body_UDs none) S none)
              succ0 sp0 st0 = .ok (r0, st0') →
          ∀ k ∈ body.labels, st'.use_defs_map k = st0'.use_defs_map k) ∧
        (∃ R, r = some R ∧ st'.use_defs_map l = some (some R) ∧ ∀ id ∈ S.getD [], id ∈ R) ∧
        (sp = false → ∀ (x : ID) (la : Nat), readsAtTop x body = true →
          assignsAtBottom x la body = true →
          st'.successor la = some (some body.label) ∧
          ∃ R2, st'.use_defs_map body.label = some (some R2) ∧ x ∈ R2 ∧
            ∀ b, CheckIfUnused st' la x = .ok b → b = false)) ∧
    (∀ (cond : Expr),
      PropagateUDs (.whileS l cond body) S succ_stmt sp st = .ok (r, st') →
      (Stmt.whileS l cond body).labels.Nodup →
      ∃ body_UDs st2 cond_UDs top2 st3,
        PropagateUDs body S (some body.label) sp
            (setSuccessor2 (noteStmt st (.whileS l cond body) sp) body.label succ_stmt) =
          .ok (body_UDs, st2) ∧
        ExprUDs cond = .ok cond_UDs ∧
        PropagateUDs body
            (UD_Union (FoldInUDs (UD_Union (some cond_UDs) body_UDs none) body_UDs none)
              S none)
            (some body.label) true st2 = .ok (top2, st3) ∧
        (∀ k ∈ body.labels, st'.use_defs_map k = st3.use_defs_map k) ∧
        (∀ (succ0 : Option Nat) (sp0 : Bool) (st0 : State) (r0 : UDs) (st0' : State),
          PropagateUDs body
              (UD_Union (FoldInUDs (UD_Union (some cond_UDs) body_UDs none) body_UDs none)
                S none)
              succ0 sp0 st0 = .ok (r0, st0') →
          ∀ k ∈ body.labels, st'.use_defs_map k = st0'.use_defs_map k) ∧
        (∃ R, r = some R ∧ st'.use_defs_map l = some (some R) ∧ ∀ id ∈ S.getD [], id ∈ R) ∧
        (sp = false → ∀ (x : ID) (la : Nat), readsAtTop x body = true →
          assignsAtBottom x la body = true →
          st'.successor la = some (some body.label) ∧
          ∃ R2, st'.use_defs_map body.label = some (some R2) ∧ x ∈ R2 ∧
            ∀ b, CheckIfUnused st' la x = .ok b → b = false)) ∧
    (∀ (cond : Expr) (cond_stmt : Stmt) (c_as_s : Nat),
      PropagateUDs (.whileCond l cond cond_stmt c_as_s body) S succ_stmt sp st =
        .ok (r, st') →
      (Stmt.whileCond l cond cond_stmt c_as_s body).labels.Nodup →
      ∃ body_UDs st2 cond_UDs w_UDs st4 top2 st5,
        PropagateUDs body S (some cond_stmt.label) sp
            (setSuccessor2 (noteStmt st (.whileCond l cond cond_stmt c_as_s body) sp)
              body.label succ_stmt) = .ok (body_UDs, st2) ∧
        ExprUDs cond = .ok cond_UDs ∧
        PropagateUDs cond_stmt
            (FoldInUDs (UD_Union (some cond_UDs) body_UDs none) body_UDs none) (some c_as_s) sp
            (setUDs st2 c_as_s
              (FoldInUDs (UD_Union (some cond_UDs) body_UDs none) body_UDs none)) =
          .ok (w_UDs, st4) ∧
        PropagateUDs body (UD_Union w_UDs S none) (some cond_stmt.label) true st4 =
          .ok (top2, st5) ∧
        (∀ k ∈ body.labels, st'.use_defs_map k = st5.use_defs_map k) ∧
        (∀ (succ0 : Option Nat) (sp0 : Bool) (st0 : State) (r0 : UDs) (st0' : State),
          PropagateUDs body (UD_Union w_UDs S none) succ0 sp0 st0 = .ok (r0, st0') →
          ∀ k ∈ body.labels, st'.use_defs_map k = st0'.use_defs_map k) ∧
        (∃ R, r = some R ∧ st'.use_defs_map l = some (some R) ∧ ∀ id ∈ S.getD [], id ∈ R) ∧
        (sp = false → ∀ (x : ID) (la : Nat), readsAtTop x body = true →
          assignsAtBottom x la body = true → handsOn x cond_stmt = true →
          st'.successor la = some (some cond_stmt.label) ∧
          ∃ R2, st'.use_defs_map cond_stmt.label = some (some R2) ∧ x ∈ R2 ∧
            ∀ b, CheckIfUnused st' la x = .ok b → b = false)) := by
  refine ⟨?_, ?_, ?_⟩
  · intro loop_vars value_var loop_expr h hn
    obtain ⟨b, st2, c, t, st3, h1, hc, h2, rfl, rfl⟩ := PropagateUDs_for_inv h
    simp only [Stmt.labels, List.nodup_cons] at hn
    obtain ⟨p1, p2, p3⟩ := loop_two_passes l body S _ sp _ st2 st3 b t
      (FoldInUDs (removeLoopVars loop_vars value_var (FoldInUDs (some c) b none)) S none)
      hn.1 hn.2 h1 h2
    obtain ⟨R, hR, hS⟩ := FoldInUDs_contains
      (removeLoopVars loop_vars value_var (FoldInUDs (some c) b none)) S
    refine ⟨b, st2, c, t, st3, h1, hc, h2, p1, p2, ⟨R, hR, ?_, hS⟩, p3⟩
    rw [hR]
    simp [setUDs_use_defs_map]
  · intro cond h hn
    obtain ⟨b, st2, c, t, st3, h1, hc, h2, rfl, rfl⟩ := PropagateUDs_while_inv h
    simp only [Stmt.labels, List.nodup_cons] at hn
    obtain ⟨p1, p2, p3⟩ := loop_two_passes l body S _ sp _ st2 st3 b t
      (FoldInUDs (FoldInUDs (UD_Union (some c) b none) b none) S none) hn.1 hn.2 h1 h2
    obtain ⟨R, hR, hS⟩ := FoldInUDs_contains (FoldInUDs (UD_Union (some c) b none) b none) S
    refine ⟨b, st2, c, t, st3, h1, hc, h2, p1, p2, ⟨R, hR, ?_, hS⟩, p3⟩
    rw [hR]
    simp [setUDs_use_defs_map]
  · intro cond cond_stmt c_as_s h hn
    obtain ⟨b, st2, c, w, st4, t, st5, h1, hc, h3, h2, rfl, rfl⟩ :=
      PropagateUDs_whileCond_inv h
    have hW : ∀ x, x ∈ b.getD [] →
        x ∈ (FoldInUDs (UD_Union (some c) b none) b none).getD [] := by
      intro x hx
      rw [mem_FoldInUDs]
      exact Or.inr (Or.inl hx)
    obtain ⟨p1, p2, p3⟩ := whileCond_two_passes l c_as_s cond_stmt body S _ w sp _ st2 st4 st5
      b t (FoldInUDs w S none) hn hW h1 h3 h2
    obtain ⟨R, hR, hS⟩ := FoldInUDs_contains w S
    refine ⟨b, st2, c, w, st4, t, st5, h1, hc, h3, h2, p1, p2, ⟨R, hR, ?_, hS⟩, p3⟩
    rw [hR]
    simp [setUDs_use_defs_map]

end UseDefs

namespace UseDefs

open Zeek Zeek.BroExprTag Zeek.TypeTag

/-- Witness for C21: for `for ( i in v ) { print x; x = 1; }` and for
`while ( t ) { print x; x = 1; }` with the condition statement `t = c`, both
with an empty post-loop live set, the analysis succeeds, the names are
distinct, and `x` is in the set recorded for the successor of `x = 1`
(statement 4): the body (statement 2), respectively the condition statement
(statement 5). -/
theorem PropagateUDs_loop_twice_witness :
    (∃ r st', PropagateUDs forReadThenAssign (some []) (some 9) false State.empty =
        .ok (r, st') ∧
      forReadThenAssign.labels.Nodup ∧
      st'.successor 4 = some (some 2) ∧
      ∃ R2, st'.use_defs_map 2 = some (some R2) ∧ localVar 1 TYPE_COUNT ∈ R2 ∧
        ∀ b, CheckIfUnused st' 4 (localVar 1 TYPE_COUNT) = .ok b → b = false) ∧
    (∃ r st', PropagateUDs whileReadThenAssign (some []) (some 9) false State.empty =
        .ok (r, st') ∧
      whileReadThenAssign.labels.Nodup ∧
      st'.successor 4 = some (some 5) ∧
      ∃ R2, st'.use_defs_map 5 = some (some R2) ∧ localVar 1 TYPE_COUNT ∈ R2 ∧
        ∀ b, CheckIfUnused st' 4 (localVar 1 TYPE_COUNT) = .ok b → b = false) := by
  constructor
  · refine ⟨_, _, rfl, by decide, ?_⟩
    obtain ⟨_, _, _, _, _, -, -, -, -, -, -, p⟩ :=
      (PropagateUDs_loop_twice 1 readThenAssign (some []) (some 9) false State.empty _ _).1
        [localVar 4 TYPE_COUNT] none (.name (localVar 2 TYPE_TABLE)) rfl (by decide)
    exact p rfl (localVar 1 TYPE_COUNT) 4 rfl rfl
  · refine ⟨_, _, rfl, by decide, ?_⟩
    obtain ⟨_, _, _, _, _, _, _, -, -, -, -, -, -, -, p⟩ :=
      (PropagateUDs_loop_twice 1 readThenAssign (some []) (some 9) false State.empty _ _).2.2
        (.name (localVar 3 TYPE_BOOL))
        (assignStmt 5 (localVar 3 TYPE_BOOL) (.name (localVar 5 TYPE_BOOL))) 6 rfl (by decide)
    exact p rfl (localVar 1 TYPE_COUNT) 4 rfl rfl rfl

end UseDefs

namespace UseDefs

open Zeek Zeek.BroExprTag Zeek.TypeTag

/-! ### The statements that the analysis lists -/

theorem noteStmt_stmts (st : State) (s : Stmt) (sp : Bool) (t : Stmt)
    (h : t ∈ (noteStmt st s sp).stmts) : t ∈ st.stmts ∨ t = s := by
  unfold noteStmt at h
  split at h
  · exact Or.inl h
  · simpa using h

theorem lastSucc2_stmts (st1 : State) (l k : Nat) :
    (match st1.successor2 l with
     | some v => setSuccessor2 st1 k v
     | none => st1).stmts = st1.stmts := by
  split <;> rfl

theorem PropagateUDs_stmts_leaf (s : Stmt)
    (hs : match s with
      | .ifS _ _ _ _ | .catchReturn _ _ | .list _ _ | .forS _ _ _ _ _ | .whileS _ _ _
      | .whileCond _ _ _ _ _ => False
      | _ => True)
    (S : UDs) (succ : Option Nat) (sp : Bool) (st : State) (r : UDs) (st' : State)
    (h : PropagateUDs s S succ sp st = .ok (r, st')) :
    st'.stmts = (noteStmt st s sp).stmts := by
  cases s <;> simp only [PropagateUDs, CreateExprUDs] at h <;>
    first
    | exact hs.elim
    | ((repeat' split at h) <;>
        first
        | (cases h; done)
        | (cases h; rfl))

theorem stmts_leaf (s : Stmt)
    (hs : match s with
      | .ifS _ _ _ _ | .catchReturn _ _ | .list _ _ | .forS _ _ _ _ _ | .whileS _ _ _
      | .whileCond _ _ _ _ _ => False
      | _ => True)
    (hl : s.subStmts = [s])
    (S : UDs) (succ : Option Nat) (sp : Bool) (st : State) (r : UDs) (st' : State)
    (h : PropagateUDs s S succ sp st = .ok (r, st')) :
    ∀ t ∈ st'.stmts, t ∈ st.stmts ∨ t ∈ s.subStmts := by
  intro t ht
  rw [PropagateUDs_stmts_leaf s hs S succ sp st r st' h] at ht
  rcases noteStmt_stmts st s sp t ht with h1 | h1
  · exact Or.inl h1
  · right
    rw [hl, h1]
    exact List.mem_singleton_self _

mutual

/-- The statements that `PropagateUDs(s, ...)` adds to `stmts` are `s` and
statements inside `s`. -/
theorem PropagateUDs_stmts : ∀ (s : Stmt) (S : UDs) (succ : Option Nat) (sp : Bool)
    (st : State) (r : UDs) (st' : State), PropagateUDs s S succ sp st = .ok (r, st') →
    ∀ t ∈ st'.stmts, t ∈ st.stmts ∨ t ∈ s.subStmts
  | .null l, S, succ, sp, st, r, st', h => stmts_leaf (Stmt.null l) trivial rfl S succ sp st r st' h
  | .next l, S, succ, sp, st, r, st', h => stmts_leaf (Stmt.next l) trivial rfl S succ sp st r st' h
  | .brk l, S, succ, sp, st, r, st', h => stmts_leaf (Stmt.brk l) trivial rfl S succ sp st r st' h
  | .fallthrough l, S, succ, sp, st, r, st', h =>
    stmts_leaf (Stmt.fallthrough l) trivial rfl S succ sp st r st' h
  | .print l a, S, succ, sp, st, r, st', h =>
    stmts_leaf (Stmt.print l a) trivial rfl S succ sp st r st' h
  | .exprLike l a, S, succ, sp, st, r, st', h =>
    stmts_leaf (Stmt.exprLike l a) trivial rfl S succ sp st r st' h
  | .expr l a, S, succ, sp, st, r, st', h =>
    stmts_leaf (Stmt.expr l a) trivial rfl S succ sp st r st' h
  | .init l a, S, succ, sp, st, r, st', h =>
    stmts_leaf (Stmt.init l a) trivial rfl S succ sp st r st' h
  | .whenS l, S, succ, sp, st, r, st', h =>
    stmts_leaf (Stmt.whenS l) trivial rfl S succ sp st r st' h
  | .switch l, S, succ, sp, st, r, st', h =>
    stmts_leaf (Stmt.switch l) trivial rfl S succ sp st r st' h
  | .other l, S, succ, sp, st, r, st', h =>
    stmts_leaf (Stmt.other l) trivial rfl S succ sp st r st' h
  | .list l ss, S, succ, sp, st, r, st', h => by
    obtain ⟨st1, h1, rfl⟩ := PropagateUDs_list_inv h
    intro t ht
    rcases PropagateList_stmts ss l S succ sp _ r st1 h1 t ht with a | a
    · rcases noteStmt_stmts _ _ _ _ a with b | b
      · exact Or.inl b
      · exact Or.inr (by rw [b, Stmt.subStmts]; exact List.mem_cons_self _ _)
    · exact Or.inr (by rw [Stmt.subStmts]; exact List.mem_cons_of_mem _ a)
  | .catchReturn l block, S, succ, sp, st, r, st', h => by
    obtain ⟨st1, h1, rfl⟩ := PropagateUDs_catchReturn_inv h
    intro t ht
    rcases PropagateUDs_stmts block S succ sp _ r st1 h1 t ht with a | a
    · rcases noteStmt_stmts _ _ _ _ a with b | b
      · exact Or.inl b
      · exact Or.inr (by rw [b, Stmt.subStmts]; exact List.mem_cons_self _ _)
    · exact Or.inr (by rw [Stmt.subStmts]; exact List.mem_cons_of_mem _ a)
  | .ifS l cond s1 s2, S, succ, sp, st, r, st', h => by
    obtain ⟨c, t1, st1, f, st2, -, h1, h2, -, rfl⟩ := PropagateUDs_if_inv h
    intro t ht
    rw [Stmt.subStmts]
    rcases PropagateUDs_stmts s2 S succ sp _ f st2 h2 t ht with a | a
    · rcases PropagateUDs_stmts s1 S succ sp _ t1 st1 h1 t a with a | a
      · rcases noteStmt_stmts _ _ _ _ a with b | b
        · exact Or.inl b
        · exact Or.inr (by rw [b]; exact List.mem_cons_self _ _)
      · exact Or.inr (List.mem_cons_of_mem _ (List.mem_append_left _ a))
    · exact Or.inr (List.mem_cons_of_mem _ (List.mem_append_right _ a))
  | .forS l lv vv le body, S, succ, sp, st, r, st', h => by
    obtain ⟨b, st2, c, t2, st3, h1, -, h2, -, rfl⟩ := PropagateUDs_for_inv h
    intro t ht
    rw [Stmt.subStmts]
    rcases PropagateUDs_stmts body _ _ true _ t2 st3 h2 t ht with a | a
    · rcases PropagateUDs_stmts body S _ sp _ b st2 h1 t a with a | a
      · rcases noteStmt_stmts _ _ _ _ a with b | b
        · exact Or.inl b
        · exact Or.inr (by rw [b]; exact List.mem_cons_self _ _)
      · exact Or.inr (List.mem_cons_of_mem _ a)
    · exact Or.inr (List.mem_cons_of_mem _ a)
  | .whileS l cond body, S, succ, sp, st, r, st', h => by
    obtain ⟨b, st2, c, t2, st3, h1, -, h2, -, rfl⟩ := PropagateUDs_while_inv h
    intro t ht
    rw [Stmt.subStmts]
    rcases PropagateUDs_stmts body _ _ true _ t2 st3 h2 t ht with a | a
    · rcases PropagateUDs_stmts body S _ sp _ b st2 h1 t a with a | a
      · rcases noteStmt_stmts _ _ _ _ a with b | b
        · exact Or.inl b
        · exact Or.inr (by rw [b]; exact List.mem_cons_self _ _)
      · exact Or.inr (List.mem_cons_of_mem _ a)
    · exact Or.inr (List.mem_cons_of_mem _ a)
  | .whileCond l cond cs k body, S, succ, sp, st, r, st', h => by
    obtain ⟨b, st2, c, w, st4, t2, st5, h1, -, h3, h2, -, rfl⟩ := PropagateUDs_whileCond_inv h
    intro t ht
    rw [Stmt.subStmts]
    rcases PropagateUDs_stmts body _ _ true _ t2 st5 h2 t ht with a | a
    · rcases PropagateUDs_stmts cs _ _ sp _ w st4 h3 t a with a | a
      · rcases PropagateUDs_stmts body S _ sp _ b st2 h1 t a with a | a
        · rcases noteStmt_stmts _ _ _ _ a with b | b
          · exact Or.inl b
          · exact Or.inr (by rw [b]; exact List.mem_cons_self _ _)
        · exact Or.inr (List.mem_cons_of_mem _ (List.mem_append_right _ a))
      · exact Or.inr (List.mem_cons_of_mem _ (List.mem_append_left _ a))
    · exact Or.inr (List.mem_cons_of_mem _ (List.mem_append_right _ a))

/-- The same for the loop over the statements of a list. -/
theorem PropagateList_stmts : ∀ (ss : Stmts) (l : Nat) (S : UDs) (succ : Option Nat)
    (sp : Bool) (st : State) (r : UDs) (st' : State),
    PropagateList l succ sp ss S st = .ok (r, st') →
    ∀ t ∈ st'.stmts, t ∈ st.stmts ∨ t ∈ ss.subStmts
  | .nil, l, S, succ, sp, st, r, st', h => by
    rw [PropagateList_nil] at h
    cases h
    exact fun t ht => Or.inl ht
  | .cons s_i rest, l, S, succ, sp, st, r, st', h => by
    obtain ⟨uds, st1, h1, h2⟩ := PropagateList_cons_inv h
    have a := PropagateList_stmts rest l S succ sp st uds st1 h1
    intro t ht
    rw [Stmts.subStmts]
    rcases h2 with ⟨next, -, h2⟩ | ⟨-, h2⟩
    · rcases PropagateUDs_stmts s_i uds _ sp st1 r st' h2 t ht with b | b
      · rcases a t b with c | c
        · exact Or.inl c
        · exact Or.inr (List.mem_append_right _ c)
      · exact Or.inr (List.mem_append_left _ b)
    · rcases PropagateUDs_stmts s_i uds _ sp _ r st' h2 t ht with b | b
      · have b' : t ∈ st1.stmts := by
          cases hs2 : st1.successor2 l <;> simp only [hs2] at b <;> exact b
        rcases a t b' with c | c
        · exact Or.inl c
        · exact Or.inr (List.mem_append_right _ c)
      · exact Or.inr (List.mem_append_left _ b)

end

/-- The statements that `Analyze` lists are statements of the body. -/
theorem Analyze_stmts (body : Stmt) (st : State) (h : Analyze body = .ok st) :
    ∀ t ∈ st.stmts, t ∈ body.subStmts := by
  unfold Analyze at h
  split at h
  · rename_i r st1 h1
    cases h
    intro t ht
    rcases PropagateUDs_stmts body none none false State.empty r _ h1 t ht with a | a
    · simp [State.empty] at a
    · exact a
  · cases h

end UseDefs

namespace UseDefs

open Zeek Zeek.BroExprTag Zeek.TypeTag

/-! ### Omitting statements -/

theorem countP_pos_of_mem {l : List Stmt} {t : Stmt} (ht : t ∈ l) (ha : t.isAssign = true) :
    0 < l.countP Stmt.isAssign :=
  List.countP_pos_iff.2 ⟨t, ht, ha⟩

mutual

/-- Omitting statements does not add assignment statements, and removes one
if an assignment statement of the body is among those to omit. -/
theorem omitStmts_count (om : List Nat) (repl : List (Nat × List ID)) : ∀ (s : Stmt),
    (omitStmts om repl s).subStmts.countP Stmt.isAssign ≤ s.subStmts.countP Stmt.isAssign ∧
    ((∃ t ∈ s.subStmts, t.isAssign = true ∧ t.label ∈ om) →
      (omitStmts om repl s).subStmts.countP Stmt.isAssign < s.subStmts.countP Stmt.isAssign)
  | .expr l e => by
    by_cases hl : l ∈ om
    · simp only [omitStmts, hl, if_true, Stmt.subStmts]
      refine ⟨by simp [Stmt.isAssign], ?_⟩
      rintro ⟨t, ht, ha, -⟩
      simp only [List.mem_singleton] at ht
      subst ht
      have h0 : List.countP Stmt.isAssign [Stmt.null l] = 0 := rfl
      rw [h0]
      exact countP_pos_of_mem (List.mem_singleton_self _) ha
    · simp only [omitStmts, hl, if_false, Stmt.subStmts]
      refine ⟨le_refl _, ?_⟩
      rintro ⟨t, ht, -, hm⟩
      simp only [List.mem_singleton] at ht
      subst ht
      exact absurd hm hl
  | .init l inits => by
    refine ⟨?_, ?_⟩
    · simp only [omitStmts]
      split
      · simp [Stmt.subStmts, Stmt.isAssign]
      · split <;> simp [Stmt.subStmts, Stmt.isAssign]
    · rintro ⟨t, ht, ha, -⟩
      simp only [Stmt.subStmts, List.mem_singleton] at ht
      subst ht
      simp [Stmt.isAssign] at ha
  | .ifS l c s1 s2 => by
    have a1 := omitStmts_count om repl s1
    have a2 := omitStmts_count om repl s2
    simp only [omitStmts, Stmt.subStmts, List.countP_cons, List.countP_append, Stmt.isAssign]
    refine ⟨by have := a1.1; have := a2.1; omega, ?_⟩
    rintro ⟨t, ht, ha, hm⟩
    simp only [List.mem_cons, List.mem_append] at ht
    rcases ht with rfl | ht | ht
    · simp [Stmt.isAssign] at ha
    · have := a1.2 ⟨t, ht, ha, hm⟩; have := a2.1; omega
    · have := a2.2 ⟨t, ht, ha, hm⟩; have := a1.1; omega
  | .catchReturn l block => by
    have a1 := omitStmts_count om repl block
    simp only [omitStmts, Stmt.subStmts, List.countP_cons, Stmt.isAssign]
    refine ⟨by have := a1.1; omega, ?_⟩
    rintro ⟨t, ht, ha, hm⟩
    simp only [List.mem_cons] at ht
    rcases ht with rfl | ht
    · simp [Stmt.isAssign] at ha
    · have := a1.2 ⟨t, ht, ha, hm⟩; omega
  | .list l ss => by
    have a1 := omitStmtsOf_count om repl ss
    simp only [omitStmts, Stmt.subStmts, List.countP_cons, Stmt.isAssign]
    refine ⟨by have := a1.1; omega, ?_⟩
    rintro ⟨t, ht, ha, hm⟩
    simp only [List.mem_cons] at ht
    rcases ht with rfl | ht
    · simp [Stmt.isAssign] at ha
    · have := a1.2 ⟨t, ht, ha, hm⟩; omega
  | .forS l lv vv e body => by
    have a1 := omitStmts_count om repl body
    simp only [omitStmts, Stmt.subStmts, List.countP_cons, Stmt.isAssign]
    refine ⟨by have := a1.1; omega, ?_⟩
    rintro ⟨t, ht, ha, hm⟩
    simp only [List.mem_cons] at ht
    rcases ht with rfl | ht
    · simp [Stmt.isAssign] at ha
    · have := a1.2 ⟨t, ht, ha, hm⟩; omega
  | .whileS l c body => by
    have a1 := omitStmts_count om repl body
    simp only [omitStmts, Stmt.subStmts, List.countP_cons, Stmt.isAssign]
    refine ⟨by have := a1.1; omega, ?_⟩
    rintro ⟨t, ht, ha, hm⟩
    simp only [List.mem_cons] at ht
    rcases ht with rfl | ht
    · simp [Stmt.isAssign] at ha
    · have := a1.2 ⟨t, ht, ha, hm⟩; omega
  | .whileCond l c cs k body => by
    have a1 := omitStmts_count om repl cs
    have a2 := omitStmts_count om repl body
    simp only [omitStmts, Stmt.subStmts, List.countP_cons, List.countP_append, Stmt.isAssign]
    refine ⟨by have := a1.1; have := a2.1; omega, ?_⟩
    rintro ⟨t, ht, ha, hm⟩
    simp only [List.mem_cons, List.mem_append] at ht
    rcases ht with rfl | ht | ht
    · simp [Stmt.isAssign] at ha
    · have := a1.2 ⟨t, ht, ha, hm⟩; have := a2.1; omega
    · have := a2.2 ⟨t, ht, ha, hm⟩; have := a1.1; omega
  | .null l => by
    refine ⟨by simp [omitStmts], ?_⟩
    rintro ⟨t, ht, ha, -⟩
    simp only [Stmt.subStmts, List.mem_singleton] at ht
    subst ht
    simp [Stmt.isAssign] at ha
  | .next l => by
    refine ⟨by simp [omitStmts], ?_⟩
    rintro ⟨t, ht, ha, -⟩
    simp only [Stmt.subStmts, List.mem_singleton] at ht
    subst ht
    simp [Stmt.isAssign] at ha
  | .brk l => by
    refine ⟨by simp [omitStmts], ?_⟩
    rintro ⟨t, ht, ha, -⟩
    simp only [Stmt.subStmts, List.mem_singleton] at ht
    subst ht
    simp [Stmt.isAssign] at ha
  | .fallthrough l => by
    refine ⟨by simp [omitStmts], ?_⟩
    rintro ⟨t, ht, ha, -⟩
    simp only [Stmt.subStmts, List.mem_singleton] at ht
    subst ht
    simp [Stmt.isAssign] at ha
  | .print l _ => by
    refine ⟨by simp [omitStmts], ?_⟩
    rintro ⟨t, ht, ha, -⟩
    simp only [Stmt.subStmts, List.mem_singleton] at ht
    subst ht
    simp [Stmt.isAssign] at ha
  | .exprLike l _ => by
    refine ⟨by simp [omitStmts], ?_⟩
    rintro ⟨t, ht, ha, -⟩
    simp only [Stmt.subStmts, List.mem_singleton] at ht
    subst ht
    simp [Stmt.isAssign] at ha
  | .whenS l => by
    refine ⟨by simp [omitStmts], ?_⟩
    rintro ⟨t, ht, ha, -⟩
    simp only [Stmt.subStmts, List.mem_singleton] at ht
    subst ht
    simp [Stmt.isAssign] at ha
  | .switch l => by
    refine ⟨by simp [omitStmts], ?_⟩
    rintro ⟨t, ht, ha, -⟩
    simp only [Stmt.subStmts, List.mem_singleton] at ht
    subst ht
    simp [Stmt.isAssign] at ha
  | .other l => by
    refine ⟨by simp [omitStmts], ?_⟩
    rintro ⟨t, ht, ha, -⟩
    simp only [Stmt.subStmts, List.mem_singleton] at ht
    subst ht
    simp [Stmt.isAssign] at ha

/-- The same for the statements of a list. -/
theorem omitStmtsOf_count (om : List Nat) (repl : List (Nat × List ID)) : ∀ (ss : Stmts),
    (omitStmtsOf om repl ss).subStmts.countP Stmt.isAssign ≤ ss.subStmts.countP Stmt.isAssign ∧
    ((∃ t ∈ ss.subStmts, t.isAssign = true ∧ t.label ∈ om) →
      (omitStmtsOf om repl ss).subStmts.countP Stmt.isAssign <
        ss.subStmts.countP Stmt.isAssign)
  | .nil => by
    refine ⟨by simp [omitStmtsOf], ?_⟩
    rintro ⟨t, ht, -, -⟩
    simp [Stmts.subStmts] at ht
  | .cons s rest => by
    have a1 := omitStmts_count om repl s
    have a2 := omitStmtsOf_count om repl rest
    simp only [omitStmtsOf, Stmts.subStmts, List.countP_append]
    refine ⟨by have := a1.1; have := a2.1; omega, ?_⟩
    rintro ⟨t, ht, ha, hm⟩
    simp only [List.mem_append] at ht
    rcases ht with ht | ht
    · have := a1.2 ⟨t, ht, ha, hm⟩; have := a2.1; omega
    · have := a2.2 ⟨t, ht, ha, hm⟩; have := a1.1; omega

end

end UseDefs

namespace UseDefs

open Zeek Zeek.BroExprTag Zeek.TypeTag

theorem RemoveUnused_loop_did_omission (st : State) :
    ∀ (ss : List Stmt) (acc alt : Altered), RemoveUnused_loop st ss acc = .ok alt →
      alt.did_omission = true →
      acc.did_omission = true ∨ ∃ t ∈ ss, RemoveUnused_verdict st t = .ok .omitAssign
  | [], acc, alt, h, hd => by
    simp only [RemoveUnused_loop, Except.ok.injEq] at h
    subst h
    exact Or.inl hd
  | s :: ss, acc, alt, h, hd => by
    simp only [RemoveUnused_loop] at h
    rcases hv : RemoveUnused_verdict st s with e | v
    · simp [hv] at h
    · simp only [hv] at h
      rcases RemoveUnused_loop_did_omission st ss (acc.note s v) alt h hd with a | ⟨t, ht, hv'⟩
      · cases v
        · exact Or.inl a
        · exact Or.inl a
        · exact Or.inl a
        · exact Or.inr ⟨s, List.mem_cons_self _ _, hv⟩
      · exact Or.inr ⟨t, List.mem_cons_of_mem _ ht, hv'⟩

theorem omitAssign_isAssign (st : State) (t : Stmt)
    (h : RemoveUnused_verdict st t = .ok .omitAssign) : t.isAssign = true := by
  cases t <;> simp only [RemoveUnused_verdict] at h <;> try (cases h)
  · rename_i l e
    cases e <;> first | rfl | (simp at h)
  · rename_i l inits
    split at h
    · cases h
    · split at h
      · split at h <;> cases h
      · cases h

/-- A call of `RemoveUnused(iter)` that returns true has scheduled an
assignment statement of the analysed statements for omission. -/
theorem RemoveUnused_true_omits (st : State) (alt : Altered) (h : RemoveUnused st = .ok alt)
    (hd : alt.did_omission = true) :
    ∃ t ∈ alt.to_omit, t ∈ st.stmts ∧ t.isAssign = true := by
  rcases RemoveUnused_loop_did_omission st st.stmts _ alt h hd with a | ⟨t, ht, hv⟩
  · cases a
  · refine ⟨t, ?_, ht, omitAssign_isAssign st t hv⟩
    rw [RemoveUnused_loop_to_omit st _ _ _ h]
    exact Or.inr ⟨ht, Or.inr hv⟩

theorem RemoveUnused_all_succ (fuel : Nat) (body : Stmt) (st : State) :
    RemoveUnused_all (fuel + 1) body st =
      (match RemoveUnused st with
       | .error e => some (.error e)
       | .ok alt =>
         if alt.did_omission then
           (match Analyze (omitStmts (alt.to_omit.map Stmt.label)
               (alt.to_replace.map fun p => (p.1.label, p.2)) body) with
            | .error e => some (.error e)
            | .ok st1 => RemoveUnused_all fuel (omitStmts (alt.to_omit.map Stmt.label)
               (alt.to_replace.map fun p => (p.1.label, p.2)) body) st1)
         else some (.ok (body, st))) := by
  rw [RemoveUnused_all]

theorem RemoveUnused_all_returns : ∀ (n : Nat) (body : Stmt) (st : State) (fuel : Nat),
    countAssign body ≤ n → Analyze body = .ok st → countAssign body < fuel →
    ∃ res, RemoveUnused_all fuel body st = some res := by
  intro n
  induction n with
  | zero =>
    intro body st fuel hn ha hf
    cases fuel with
    | zero => omega
    | succ fuel =>
      rw [RemoveUnused_all_succ]
      rcases hr : RemoveUnused st with e | alt
      · exact ⟨_, rfl⟩
      · by_cases hd : alt.did_omission = true
        · obtain ⟨t, ht, hts, hta⟩ := RemoveUnused_true_omits st alt hr hd
          have hb := Analyze_stmts body st ha t hts
          have := countP_pos_of_mem hb hta
          unfold countAssign at hn
          omega
        · simp only [hd]
          exact ⟨_, rfl⟩
  | succ n ih =>
    intro body st fuel hn ha hf
    cases fuel with
    | zero => omega
    | succ fuel =>
      rw [RemoveUnused_all_succ]
      rcases hr : RemoveUnused st with e | alt
      · exact ⟨_, rfl⟩
      · by_cases hd : alt.did_omission = true
        · simp only [hd, if_true]
          obtain ⟨t, ht, hts, hta⟩ := RemoveUnused_true_omits st alt hr hd
          have hb := Analyze_stmts body st ha t hts
          have hlt := (omitStmts_count (alt.to_omit.map Stmt.label)
            (alt.to_replace.map fun p => (p.1.label, p.2)) body).2
            ⟨t, hb, hta, List.mem_map_of_mem _ ht⟩
          rcases ha1 : Analyze (omitStmts (alt.to_omit.map Stmt.label)
            (alt.to_replace.map fun p => (p.1.label, p.2)) body) with e | st1
          · rw [ha1]
            exact ⟨_, rfl⟩
          · rw [ha1]
            apply ih _ st1 fuel _ ha1
            · unfold countAssign at hf ⊢
              omega
            · unfold countAssign at hn ⊢
              omega
        · simp only [hd]
          exact ⟨_, rfl⟩

/-- C23: for a body and the state that `Analyze` left for it.  A call of
`RemoveUnused(iter)` that returns true has scheduled an assignment statement
of the body for omission, and the body without the scheduled statements has
fewer assignment statements; so the loop of `RemoveUnused()` ends within as
many calls of `RemoveUnused(iter)` as the body has assignment statements,
plus one. -/
theorem RemoveUnused_terminates (body : Stmt) (st : State) (h : Analyze body = .ok st) :
    (∀ alt, RemoveUnused st = .ok alt → alt.did_omission = true →
      (∃ t ∈ alt.to_omit, t ∈ body.subStmts ∧ t.isAssign = true) ∧
      countAssign (omitStmts (alt.to_omit.map Stmt.label)
          (alt.to_replace.map fun p => (p.1.label, p.2)) body) < countAssign body) ∧
    ∀ fuel, countAssign body < fuel → ∃ res, RemoveUnused_all fuel body st = some res := by
  refine ⟨fun alt hr hd => ?_, fun fuel hf =>
    RemoveUnused_all_returns (countAssign body) body st fuel (le_refl _) h hf⟩
  obtain ⟨t, ht, hts, hta⟩ := RemoveUnused_true_omits st alt hr hd
  have hb := Analyze_stmts body st h t hts
  exact ⟨⟨t, ht, hb, hta⟩,
    (omitStmts_count _ _ body).2 ⟨t, hb, hta, List.mem_map_of_mem _ ht⟩⟩

/-- Witness for C23: the body `for ( i in v ) { x = 1; if ( c ) break; x = 2; }
print x;` has two assignment statements; the first call of
`RemoveUnused(iter)` schedules `x = 1`, and the loop of `RemoveUnused()` ends
within three calls. -/
theorem RemoveUnused_terminates_witness :
    Analyze breakBody = .ok (analysisOf breakBody) ∧
    countAssign breakBody = 2 ∧
    (∀ alt, RemoveUnused (analysisOf breakBody) = .ok alt → alt.did_omission = true →
      (∃ t ∈ alt.to_omit, t ∈ breakBody.subStmts ∧ t.isAssign = true) ∧
      countAssign (omitStmts (alt.to_omit.map Stmt.label)
          (alt.to_replace.map fun p => (p.1.label, p.2)) breakBody) < countAssign breakBody) ∧
    ∃ res, RemoveUnused_all 3 breakBody (analysisOf breakBody) = some res :=
  ⟨rfl, rfl, (RemoveUnused_terminates breakBody (analysisOf breakBody) rfl).1,
    (RemoveUnused_terminates breakBody (analysisOf breakBody) rfl).2 3 (by decide)⟩

end UseDefs

namespace ZAM

open Zeek (Failure)

/-- C24: the instructions of `deadTail` are live and without labels, and the
initial tally of `OptimizeInsts` makes the label counts exact.  The first
round of the loop prunes the two assignments, which keeps the counts exact.
In the second round `CollapseGoTos` finds that the conditional branch
targets a dead instruction with no live instruction after it: it decrements
the label count of the target but leaves the branch, still live, pointing to
it.  `OptimizeInsts` ends with instruction 2 at `num_labels == 0` although
the live instruction 0 has it as its target. -/
theorem OptimizeInsts_label_count_lost :
    (∀ x ∈ deadTail, x.live = true ∧ x.num_labels = 0) ∧
    LabelsExact [] (tallyTargets deadTail) ∧
    LabelsExact []
      [{ plainInst (.other 5) with target := some 2 },
       { plainInst (.other 3) with op_type := .OP_VC, v1 := 0, live := false },
       { plainInst (.other 3) with op_type := .OP_VC, v1 := 1, live := false,
                                   num_labels := 1 }] ∧
    CollapseGoTos 1
      [{ plainInst (.other 5) with target := some 2 },
       { plainInst (.other 3) with op_type := .OP_VC, v1 := 0, live := false },
       { plainInst (.other 3) with op_type := .OP_VC, v1 := 1, live := false,
                                   num_labels := 1 }] =
      .ok ([{ plainInst (.other 5) with target := some 2 },
            { plainInst (.other 3) with op_type := .OP_VC, v1 := 0, live := false },
            { plainInst (.other 3) with op_type := .OP_VC, v1 := 1, live := false }],
           false) ∧
    ∃ R : Optimized,
      OptimizeInsts lifetimeTables threeLocals [] [] 1 2 deadTail = .ok R ∧
      R.insts1 =
        [{ plainInst (.other 5) with target := some 2 },
         { plainInst (.other 3) with op_type := .OP_VC, v1 := 0, live := false },
         { plainInst (.other 3) with op_type := .OP_VC, v1 := 1, live := false }] ∧
      refs R.insts1 2 = 1 ∧
      ¬ LabelsExact [] R.insts1 := by
  refine ⟨by decide, ?_, ?_, rfl, _, rfl, rfl, rfl, ?_⟩
  · intro m y hm
    match m, hm with
    | 0, hm => cases hm; decide
    | 1, hm => cases hm; decide
    | 2, hm => cases hm; decide
    | m + 3, hm =>
      have e : tallyTargets deadTail =
          [{ plainInst (.other 5) with target := some 2 },
           { plainInst (.other 3) with op_type := .OP_VC, v1 := 0 },
           { plainInst (.other 3) with op_type := .OP_VC, v1 := 1, num_labels := 1 }] := rfl
      rw [e] at hm
      simp at hm
  · intro m y hm
    match m, hm with
    | 0, hm => cases hm; decide
    | 1, hm => cases hm; decide
    | 2, hm => cases hm; decide
    | m + 3, hm => simp at hm
  · intro h
    have := h 2 _ rfl
    revert this
    decide

end ZAM

namespace ZAM

open Zeek (Failure)

theorem collapseChain_selfGoto : ∀ (fuel : Nat), collapseChain fuel selfGoto 0 0 = .error .fuel
  | 0 => rfl
  | fuel + 1 => by
    have step : collapseChain (fuel + 1) selfGoto 0 0 = collapseChain fuel selfGoto 0 0 := rfl
    rw [step]
    exact collapseChain_selfGoto fuel

theorem CollapseGoTos_at_chain_error (fuel : Nat) (insts : List ZInstI) (i t0 : Nat)
    (i0 : ZInstI) (e : Failure) (hi : insts[i]? = some i0) (ht : i0.target = some t0)
    (hl : i0.live = true) (hu : isUncondAt insts t0 = true)
    (hc : collapseChain fuel insts i t0 = .error e) :
    CollapseGoTos_at fuel insts i = .error e := by
  unfold CollapseGoTos_at
  rw [hi]
  simp only [ht, hl, hu, hc, Bool.not_true, Bool.false_eq_true, if_false, if_true]

/-- C26: for the array that holds one live unconditional branch whose target
is itself (its label count being exact), one pass of the `do ... while` loop
of `CollapseGoTos` leaves `t` and the array as they were, so the loop does not
end: whatever the bound on its iterations, `CollapseGoTos` uses it up, and so
does `while ( CollapseGoTos() )`. -/
theorem CollapseGoTos_self_branch_loops :
    LabelsExact [] selfGoto ∧
    (∀ x ∈ selfGoto, x.live = true ∧ x.IsUnconditionalBranch = true ∧ x.target = some 0) ∧
    decLabel selfGoto (some 0) = [{ plainInst .OP_GOTO_V with target := some 0 }] ∧
    incLabel (updAt (fun x => { x with target := some 0 }) (decLabel selfGoto (some 0)) 0) 0 =
      selfGoto ∧
    (∀ fuel, collapseChain fuel selfGoto 0 0 = .error .fuel) ∧
    (∀ fuel, CollapseGoTos fuel selfGoto = .error .fuel) ∧
    (∀ fuel, CollapseGoTos_fix fuel selfGoto = .error .fuel) := by
  have hc : ∀ fuel, CollapseGoTos fuel selfGoto = .error .fuel := by
    intro fuel
    have a := CollapseGoTos_at_chain_error fuel selfGoto 0 0 _ .fuel rfl rfl rfl rfl
      (collapseChain_selfGoto fuel)
    show CollapseGoTos_loop fuel 1 0 selfGoto false = _
    rw [CollapseGoTos_loop, a]
  refine ⟨?_, by decide, rfl, rfl, collapseChain_selfGoto, hc, ?_⟩
  · intro m y hm
    match m, hm with
    | 0, hm => cases hm; decide
    | m + 1, hm => simp [selfGoto] at hm
  · intro fuel
    cases fuel with
    | zero => rfl
    | succ n =>
      rw [CollapseGoTos_fix, hc]

end ZAM

namespace ZAM

open Zeek (Failure)

/-! ### The branch-collapsing loop -/

theorem isUncondAt_of_flow {a b : List ZInstI} {pc : Nat}
    (h : (a[pc]?).map ZInstI.flow = (b[pc]?).map ZInstI.flow) :
    isUncondAt a pc = isUncondAt b pc := by
  unfold isUncondAt
  cases ha : a[pc]? with
  | none =>
    rw [ha] at h
    cases hb : b[pc]? with
    | none => rfl
    | some y => rw [hb] at h; cases h
  | some x =>
    rw [ha] at h
    cases hb : b[pc]? with
    | none => rw [hb] at h; cases h
    | some y =>
      rw [hb] at h
      simp only [Option.map_some', Option.some.injEq, ZInstI.flow, Prod.mk.injEq] at h
      simp [ZInstI.IsUnconditionalBranch, h.2.1]

/-- One retargeting of the branch at `i` from `t` to `t1`: the label counts. -/
theorem retarget_labels (l : List ZInstI) (i t t1 m : Nat) :
    ((incLabel (updAt (fun x => { x with target := some t1 }) (decLabel l (some t)) i)
        t1)[m]?).map (fun y => y.num_labels) =
      (l[m]?).map (fun y =>
        y.num_labels - (if m = t then 1 else 0) + (if m = t1 then 1 else 0)) := by
  simp only [incLabel, getElem?_updAt, getElem?_decLabel]
  cases l[m]? with
  | none => simp
  | some y =>
    have e1 : (m = t) = (t = m) := propext eq_comm
    have e2 : (m = t1) = (t1 = m) := propext eq_comm
    have e3 : (m = i) = (i = m) := propext eq_comm
    simp only [e1, e2, e3, Option.some.injEq]
    by_cases h3 : t = m <;> by_cases h1 : t1 = m <;> by_cases h2 : i = m <;>
      simp only [h1, h2, h3, if_true, if_false, Option.map_some', Option.some.injEq] <;>
      omega

/-- A branch that targets itself: one retargeting leaves the array as it was. -/
theorem retarget_self (l : List ZInstI) (i : Nat) (x : ZInstI) (hx : l[i]? = some x)
    (ht : x.target = some i) :
    incLabel (updAt (fun x => { x with target := some i }) (decLabel l (some i)) i) i = l := by
  apply List.ext_getElem?
  intro m
  unfold incLabel
  rw [getElem?_updAt, getElem?_updAt, getElem?_decLabel]
  by_cases h : m = i
  · subst h
    rw [hx]
    simp only [if_true, Option.map_some', Option.some.injEq]
    cases x
    simp only at ht
    simp [ht]
  · have h' : ¬ (some i = some m) := fun e => h (Option.some.inj e).symm
    simp only [h, h', if_false]
    cases l[m]? <;> rfl

theorem collapseChain_self_no_result : ∀ (fuel : Nat) (insts : List ZInstI) (i : Nat)
    (x : ZInstI) (r : List ZInstI × Nat), insts[i]? = some x → x.target = some i →
    x.IsUnconditionalBranch = true → collapseChain fuel insts i i ≠ .ok r := by
  intro fuel
  induction fuel with
  | zero => intro insts i x r _ _ _ h; cases h
  | succ n ih =>
    intro insts i x r hx ht hu h
    simp only [collapseChain, hx, ht] at h
    by_cases hl : x.live = true
    · simp only [hl, Bool.not_true, Bool.false_eq_true, if_false] at h
      rw [retarget_self insts i x hx ht] at h
      have hui : isUncondAt insts i = true := by simp [isUncondAt, hx, hu]
      simp only [hui, if_true] at h
      exact ih insts i x r hx ht hu h
    · have hl' : x.live = false := by simpa using hl
      simp only [hl', Bool.not_false, if_true] at h
      cases h

theorem Chain_transfer {a b : List ZInstI} {i : Nat}
    (hf : ∀ pc : Nat, pc ≠ i → (a[pc]?).map ZInstI.flow = (b[pc]?).map ZInstI.flow)
    (hu : ∀ pc : Nat, isUncondAt a pc = isUncondAt b pc) {t t' : Nat} {path : List Nat}
    (h : Chain a t path t') (hi : i ∉ path) : Chain b t path t' := by
  induction h with
  | last t t' x hx hl hx1 ht hn =>
    have hti : t ≠ i := fun e => hi (by simp [e])
    have := hf t hti
    rw [hx] at this
    obtain ⟨y, hy, hyf⟩ := flow_get this.symm
    obtain ⟨g1, _, g3, g4, _⟩ := flow_eq hyf
    exact Chain.last t t' y hy (g1.trans hl) (g4.trans hx1) (g3.trans ht) ((hu t').symm.trans hn)
  | more t t1 t' x path hx hl hx1 ht hn _ ih =>
    have hti : t ≠ i := fun e => hi (by simp [e])
    have := hf t hti
    rw [hx] at this
    obtain ⟨y, hy, hyf⟩ := flow_get this.symm
    obtain ⟨g1, _, g3, g4, _⟩ := flow_eq hyf
    exact Chain.more t t1 t' y path hy (g1.trans hl) (g4.trans hx1) (g3.trans ht)
      ((hu t1).symm.trans hn) (ih (fun hc => hi (List.mem_cons_of_mem _ hc)))

/-- The `do ... while` loop of `CollapseGoTos`, when it ends for the branch
at `i`: it has followed a chain of live unconditional branches from `t` to its
end `t'`, which `i` is not part of; the label count of `t` is one less, that
of `t'` one more, and every other label count is as before. -/
theorem collapseChain_labels :
    ∀ (fuel : Nat) (insts : List ZInstI) (i t : Nat) (x : ZInstI) (insts' : List ZInstI)
      (t' : Nat),
      insts[i]? = some x → x.target = some t → isUncondAt insts t = true →
      collapseChain fuel insts i t = .ok (insts', t') →
      ∃ path, Chain insts t path t' ∧ i ∉ path ∧
        ∀ m : Nat, (insts'[m]?).map (fun y => y.num_labels) =
          (insts[m]?).map (fun y =>
            y.num_labels - (if m = t then 1 else 0) + (if m = t' then 1 else 0)) := by
  intro fuel
  induction fuel with
  | zero => intro insts i t x insts' t' _ _ _ h; cases h
  | succ n ih =>
    intro insts i t x insts' t' hx ht hu h
    obtain ⟨ti, hti, htu⟩ := isUncondAt_get hu
    have hne : t ≠ i := by
      intro e
      subst e
      rw [hx] at hti
      cases hti
      exact collapseChain_self_no_result (n + 1) insts t x _ hx ht htu h
    simp only [collapseChain, hti] at h
    by_cases hl : ti.live = true
    · simp only [hl, Bool.not_true, Bool.false_eq_true, if_false] at h
      cases ht1 : ti.target with
      | none => rw [ht1] at h; cases h
      | some t1 =>
        rw [ht1] at h
        simp only [] at h
        have hfl := flow_retargeted insts i t t1
        have hlab := retarget_labels insts i t t1
        generalize incLabel (updAt (fun x => { x with target := some t1 })
          (decLabel insts (some t)) i) t1 = insts3 at h hfl hlab
        have hother : ∀ pc : Nat, pc ≠ i →
            (insts3[pc]?).map ZInstI.flow = (insts[pc]?).map ZInstI.flow := by
          intro pc hp
          rw [hfl pc, if_neg hp]
        have hi3 : (insts3[i]?).map ZInstI.flow = some (x.live, x.op, some t1) := by
          rw [hfl i, if_pos rfl, hx]
          rfl
        have hunc : ∀ pc : Nat, isUncondAt insts3 pc = isUncondAt insts pc := by
          intro pc
          by_cases hp : pc = i
          · subst hp
            obtain ⟨x3, hx3, hx3f⟩ := flow_get hi3
            simp only [ZInstI.flow, Prod.mk.injEq] at hx3f
            simp [isUncondAt, hx3, hx, ZInstI.IsUnconditionalBranch, hx3f.2.1]
          · exact isUncondAt_of_flow (hother pc hp)
        obtain ⟨x3, hx3, hx3f⟩ := flow_get hi3
        simp only [ZInstI.flow, Prod.mk.injEq] at hx3f
        obtain ⟨y1, y2, y3⟩ := hx3f
        by_cases hu3 : isUncondAt insts3 t1 = true
        · simp only [hu3, if_true] at h
          obtain ⟨path, c1, c2, c3⟩ := ih insts3 i t1 x3 insts' t' hx3 y3 hu3 h
          refine ⟨t :: path, ?_, ?_, ?_⟩
          · exact Chain.more t t1 t' ti path hti hl htu ht1 ((hunc t1).symm.trans hu3)
              (Chain_transfer hother hunc c1 c2)
          · intro hc
            rcases List.mem_cons.1 hc with e | e
            · exact hne e.symm
            · exact c2 e
          · intro m
            have e := c3 m
            have e3 := hlab m
            cases h3 : insts3[m]? with
            | none =>
              rw [h3] at e e3
              cases h0 : insts[m]? with
              | none => rw [e]; rfl
              | some y => rw [h0] at e3; cases e3
            | some y3 =>
              rw [h3] at e e3
              cases h0 : insts[m]? with
              | none => rw [h0] at e3; cases e3
              | some y =>
                rw [h0] at e3
                simp only [Option.map_some', Option.some.injEq] at e3
                rw [e]
                simp only [Option.map_some', Option.some.injEq]
                rw [e3]
                omega
        · simp only [hu3, Bool.false_eq_true, if_false] at h
          cases h
          have hu3' : isUncondAt insts t' = false := by
            rw [← hunc t']
            simpa using hu3
          refine ⟨[t], Chain.last t t' ti hti hl htu ht1 hu3', ?_, hlab⟩
          simpa using fun e : i = t => hne e.symm
    · have hl' : ti.live = false := by simpa using hl
      simp only [hl', Bool.not_false, if_true] at h
      cases h

end ZAM

namespace ZAM

open Zeek (Failure)

theorem Chain_end {insts : List ZInstI} {t t' : Nat} {path : List Nat}
    (h : Chain insts t path t') : isUncondAt insts t' = false := by
  induction h with
  | last t t' x hx hl hx1 ht hn => exact hn
  | more t t1 t' x path hx hl hx1 ht hn _ ih => exact ih

/-- C25, counterexample: in `loopBack`, whose label counts are exact, the live
unconditional branch 0 targets the unconditional branch 3, whose chain ends
at instruction 1.  After `CollapseGoTos` the target of instruction 0 is 1 and
the label count of the bypassed branch 3 is decremented, but instruction 1 is
the next live instruction after 0: its label count was incremented and
decremented again, and is what it was; instruction 0 is dead. -/
theorem CollapseGoTos_final_target_not_incremented :
    LabelsExact [] loopBack ∧
    (loopBack[0]?).map (fun x => (x.live, x.target)) = some (true, some 3) ∧
    Chain loopBack 3 [3] 1 ∧
    (loopBack.map fun x => x.num_labels) = [0, 1, 0, 1, 1] ∧
    ∃ b, CollapseGoTos 2 loopBack = .ok (b, true) ∧
      (b[0]?).map (fun x => (x.live, x.target)) = some (false, some 1) ∧
      (b.map fun x => x.num_labels) = [0, 1, 0, 0, 1] := by
  refine ⟨?_, rfl, Chain.last 3 1 _ rfl rfl rfl rfl rfl, rfl, _, rfl, rfl, rfl⟩
  intro m y hm
  match m, hm with
  | 0, hm => cases hm; decide
  | 1, hm => cases hm; decide
  | 2, hm => cases hm; decide
  | 3, hm => cases hm; decide
  | 4, hm => cases hm; decide
  | m + 5, hm => simp [loopBack] at hm

/-- C25 (amended): when the loop body of `CollapseGoTos` is run for a live
instruction `i` whose target `t` is an unconditional branch, and it returns:
it reports a collapse; its `do ... while` loop has ended with the target of
`i` replaced by `t'`, the first instruction that is not an unconditional
branch at the end of the chain of live unconditional branches from `t` (`i`
is not one of them); labels aside, no other instruction has changed; the
label count of `t` is one less, that of `t'` one more, and every other label
count, in particular that of each other bypassed branch, is what it was.
The branch-to-next step that follows leaves this array alone unless `t'` is
the next live instruction after `i`, or a dead instruction before it, or
beyond the end with no live instruction after `i`. -/
theorem CollapseGoTos_at_collapses_chain (fuel : Nat) (insts : List ZInstI) (i t : Nat)
    (x : ZInstI) (r : List ZInstI × Bool) (hx : insts[i]? = some x) (hl : x.live = true)
    (ht : x.target = some t) (hu : isUncondAt insts t = true)
    (h : CollapseGoTos_at fuel insts i = .ok r) :
    r.2 = true ∧
    ∃ insts1 t' path, collapseChain fuel insts i t = .ok (insts1, t') ∧
      Chain insts t path t' ∧ i ∉ path ∧ isUncondAt insts t' = false ∧
      (insts1[i]?).map ZInstI.flow = some (true, x.op, some t') ∧
      (∀ pc : Nat, pc ≠ i → (insts1[pc]?).map ZInstI.flow = (insts[pc]?).map ZInstI.flow) ∧
      (∀ m : Nat, (insts1[m]?).map (fun y => y.num_labels) =
        (insts[m]?).map (fun y =>
          y.num_labels - (if m = t then 1 else 0) + (if m = t' then 1 else 0))) ∧
      (branchesToNext insts1 i t' = false → r.1 = insts1) := by
  unfold CollapseGoTos_at at h
  rw [hx] at h
  simp only [ht, hl, hu, Bool.not_true, Bool.false_eq_true, if_false, if_true] at h
  cases hc : collapseChain fuel insts i t with
  | error e => rw [hc] at h; cases h
  | ok p =>
    obtain ⟨insts1, t'⟩ := p
    rw [hc] at h
    simp only [] at h
    obtain ⟨path, c1, c2, c3⟩ := collapseChain_labels fuel insts i t x insts1 t' hx ht hu hc
    obtain ⟨_, a2, a3, _⟩ := @collapseChain_sound [] fuel insts i t x insts1 t' hx ht hu hc
    have hr2 : r.2 = true := by
      split_ifs at h <;> (simp only [Except.ok.injEq] at h; subst h; rfl)
    refine ⟨hr2, insts1, t', path, rfl, c1, c2, Chain_end c1, by rw [a3, hl], a2, c3, ?_⟩
    intro hb
    unfold branchesToNext at hb
    rw [if_neg (by simpa using hb)] at h
    simp only [Except.ok.injEq] at h
    subst h
    rfl

/-- Witness for C25: in `twoGotos` the conditional branch 0 targets the
unconditional branch 2, which leads over the unconditional branch 4 to
instruction 6. -/
theorem CollapseGoTos_at_collapses_chain_witness :
    (∃ insts1, collapseChain 3 twoGotos 0 2 = .ok (insts1, 6)) ∧ Chain twoGotos 2 [2, 4] 6 ∧
    ∃ r, CollapseGoTos_at 3 twoGotos 0 = .ok r ∧ r.2 = true ∧
      ∃ insts1 t' path, collapseChain 3 twoGotos 0 2 = .ok (insts1, t') ∧
        Chain twoGotos 2 path t' ∧ 0 ∉ path ∧ isUncondAt twoGotos t' = false ∧
        (insts1[0]?).map ZInstI.flow = some (true, ZOp.other 5, some t') ∧
        (∀ pc : Nat, pc ≠ 0 →
          (insts1[pc]?).map ZInstI.flow = (twoGotos[pc]?).map ZInstI.flow) ∧
        (∀ m : Nat, (insts1[m]?).map (fun y => y.num_labels) =
          (twoGotos[m]?).map (fun y =>
            y.num_labels - (if m = 2 then 1 else 0) + (if m = t' then 1 else 0))) ∧
        (branchesToNext insts1 0 t' = false → r.1 = insts1) :=
  ⟨⟨_, rfl⟩,
   Chain.more 2 4 6 _ [4] rfl rfl rfl rfl rfl (Chain.last 4 6 _ rfl rfl rfl rfl rfl),
   _, rfl, CollapseGoTos_at_collapses_chain 3 twoGotos 0 2 _ _ rfl rfl rfl rfl rfl⟩

end ZAM

namespace ZAM

open Zeek (Failure)

/-! ### Branches to the next statement -/

/-- The loop body of `CollapseGoTos` for a live branch whose target is not an
unconditional branch. -/
theorem CollapseGoTos_at_plain (fuel : Nat) (insts : List ZInstI) (i t : Nat) (x : ZInstI)
    (hx : insts[i]? = some x) (hl : x.live = true) (ht : x.target = some t)
    (hu : isUncondAt insts t = false) :
    CollapseGoTos_at fuel insts i =
      .ok (if branchesToNext insts i t then
             if x.IsUnconditionalBranch then
               updAt (fun y => { y with live := false }) (decLabel insts (some t)) i
             else if (firstLiveAfter insts (some t) i).1 < insts.length then
               incLabel (updAt (fun y =>
                 { y with target := some (firstLiveAfter insts (some t) i).1 })
                 (decLabel insts (some t)) i) (firstLiveAfter insts (some t) i).1
             else decLabel insts (some t)
           else insts, false) := by
  unfold CollapseGoTos_at branchesToNext
  rw [hx]
  simp only [ht, hl, hu, Bool.not_true, Bool.false_eq_true, if_false]
  split_ifs <;> rfl

theorem true_ne_false_of {b : Bool} {P : Prop} (h1 : b = true) (h2 : b = false) : P := by
  rw [h1] at h2
  cases h2

/-- What the loop body of `CollapseGoTos` for the instruction `i` leaves as
it was: the length, and, labels aside, every other instruction; the opcode
of `i`; a dead `i`.  A live `i` stays live unless it is an unconditional
branch with a target. -/
theorem CollapseGoTos_at_frame (fuel : Nat) (insts : List ZInstI) (i : Nat)
    (r : List ZInstI × Bool) (h : CollapseGoTos_at fuel insts i = .ok r) :
    r.1.length = insts.length ∧
    (∀ pc : Nat, pc ≠ i → (r.1[pc]?).map ZInstI.flow = (insts[pc]?).map ZInstI.flow) ∧
    (∀ x, insts[i]? = some x → ∃ y, r.1[i]? = some y ∧ y.op = x.op ∧
      (x.live = false → y.live = false) ∧
      (x.live = true → y.live = false → x.IsUnconditionalBranch = true ∧ x.target ≠ none)) := by
  unfold CollapseGoTos_at at h
  cases hi0 : insts[i]? with
  | none =>
    rw [hi0] at h
    cases h
    exact ⟨rfl, fun _ _ => rfl, fun x hx => by cases hx⟩
  | some i0 =>
    rw [hi0] at h
    simp only [] at h
    have same : ∀ x, some i0 = some x → ∃ y, some i0 = some y ∧ y.op = x.op ∧
        (x.live = false → y.live = false) ∧
        (x.live = true → y.live = false → x.IsUnconditionalBranch = true ∧ x.target ≠ none) := by
      intro x hx
      cases hx
      exact ⟨i0, rfl, rfl, fun a => a, fun a b => true_ne_false_of a b⟩
    cases ht0 : i0.target with
    | none =>
      rw [ht0] at h
      cases h
      exact ⟨rfl, fun _ _ => rfl, by rw [hi0]; exact same⟩
    | some t0 =>
      rw [ht0] at h
      simp only [] at h
      by_cases hl0 : i0.live = true
      · simp only [hl0, Bool.not_true, Bool.false_eq_true, if_false] at h
        have hchain : ∀ (insts1 : List ZInstI) (t : Nat),
            (if isUncondAt insts t0 = true then collapseChain fuel insts i t0
              else Except.ok (insts, t0)) = .ok (insts1, t) →
            insts1.length = insts.length ∧
            (∀ pc : Nat, pc ≠ i →
              (insts1[pc]?).map ZInstI.flow = (insts[pc]?).map ZInstI.flow) ∧
            (insts1[i]?).map ZInstI.flow = some (true, i0.op, some t) := by
          intro insts1 t hc
          split at hc
          · rename_i hu
            obtain ⟨_, a2, a3, a4⟩ :=
              @collapseChain_sound [] fuel insts i t0 i0 insts1 t hi0 ht0 hu hc
            exact ⟨a4, a2, by rw [a3, hl0]⟩
          · cases hc
            exact ⟨rfl, fun _ _ => rfl, by rw [hi0]; simp [ZInstI.flow, hl0, ht0]⟩
        cases hc : (if isUncondAt insts t0 = true then collapseChain fuel insts i t0
              else Except.ok (insts, t0)) with
        | error e => rw [hc] at h; cases h
        | ok p =>
          obtain ⟨insts1, t⟩ := p
          rw [hc] at h
          simp only [] at h
          obtain ⟨b1, b2, b3⟩ := hchain insts1 t hc
          obtain ⟨x1, hx1, hx1f⟩ := flow_get b3
          simp only [ZInstI.flow, Prod.mk.injEq] at hx1f
          obtain ⟨f1, f2, f3⟩ := hx1f
          have hunc : x1.IsUnconditionalBranch = i0.IsUnconditionalBranch := by
            simp [ZInstI.IsUnconditionalBranch, f2]
          split_ifs at h with c1 c2 c3
          · -- the branch is marked dead
            simp only [Except.ok.injEq] at h
            subst h
            refine ⟨by simp [updAt_length, decLabel_length, b1], ?_, ?_⟩
            · intro pc hp
              rw [flow_killed, if_neg hp]
              exact b2 pc hp
            · intro x hx
              cases hx
              have := flow_killed insts1 i t i
              rw [if_pos rfl, hx1] at this
              obtain ⟨y, hy, hyf⟩ := flow_get this
              simp only [ZInstI.flow, Prod.mk.injEq] at hyf
              refine ⟨y, hy, hyf.2.1.trans f2, fun _ => hyf.1, fun _ _ => ⟨c2, ?_⟩⟩
              rw [ht0]
              simp
          · -- the branch is retargeted
            simp only [Except.ok.injEq] at h
            subst h
            refine ⟨by simp [incLabel_length, updAt_length, decLabel_length, b1], ?_, ?_⟩
            · intro pc hp
              rw [flow_incLabel, flow_updAt, if_neg hp, flow_decLabel]
              exact b2 pc hp
            · intro x hx
              cases hx
              have : ((incLabel (updAt (fun y =>
                  { y with target := some (firstLiveAfter insts1 (some t) i).1 })
                  (decLabel insts1 (some t)) i) (firstLiveAfter insts1 (some t) i).1)[i]?).map
                  ZInstI.flow = some (true, i0.op, some (firstLiveAfter insts1 (some t) i).1) := by
                rw [flow_incLabel, flow_updAt, if_pos rfl]
                have hd := flow_decLabel insts1 (some t) i
                rw [hx1] at hd
                obtain ⟨z, hz, hzf⟩ := flow_get hd
                simp only [ZInstI.flow, Prod.mk.injEq] at hzf
                rw [hz]
                simp [ZInstI.flow, hzf.1, hzf.2.1, f1, f2]
              obtain ⟨y, hy, hyf⟩ := flow_get this
              simp only [ZInstI.flow, Prod.mk.injEq] at hyf
              exact ⟨y, hy, hyf.2.1, fun a => true_ne_false_of hl0 a,
                fun _ b => true_ne_false_of hyf.1 b⟩
          · -- only the label count of the target changes
            simp only [Except.ok.injEq] at h
            subst h
            refine ⟨by simp [decLabel_length, b1], ?_, ?_⟩
            · intro pc hp
              rw [flow_decLabel]
              exact b2 pc hp
            · intro x hx
              cases hx
              have hd := flow_decLabel insts1 (some t) i
              rw [hx1] at hd
              obtain ⟨z, hz, hzf⟩ := flow_get hd
              simp only [ZInstI.flow, Prod.mk.injEq] at hzf
              exact ⟨z, hz, hzf.2.1.trans f2, fun a => true_ne_false_of hl0 a,
                fun _ b => true_ne_false_of (hzf.1.trans f1) b⟩
          · -- nothing changes
            simp only [Except.ok.injEq] at h
            subst h
            refine ⟨b1, b2, ?_⟩
            intro x hx
            cases hx
            exact ⟨x1, hx1, f2, fun a => true_ne_false_of hl0 a,
              fun _ b => true_ne_false_of f1 b⟩
      · have hl0' : i0.live = false := by simpa using hl0
        simp only [hl0', Bool.not_false, if_true] at h
        cases h
        exact ⟨rfl, fun _ _ => rfl, by rw [hi0]; exact same⟩

end ZAM

namespace ZAM

open Zeek (Failure)

theorem scanDead_congr (target : Option Nat) :
    ∀ (l l' : List ZInstI) (j : Nat) (saw : Bool),
      l.map (fun x => x.live) = l'.map (fun x => x.live) →
      scanDead target l j saw = scanDead target l' j saw := by
  intro l
  induction l with
  | nil =>
    intro l' j saw h
    cases l' with
    | nil => rfl
    | cons y ys => simp at h
  | cons x xs ih =>
    intro l' j saw h
    cases l' with
    | nil => simp at h
    | cons y ys =>
      simp only [List.map_cons, List.cons.injEq] at h
      simp only [scanDead, h.1]
      split
      · rfl
      · exact ih ys _ _ h.2

/-- The first live instruction after `i` is the same in two arrays of the
same length that agree on the liveness of the instructions after `i`. -/
theorem firstLiveAfter_congr (a b : List ZInstI) (target : Option Nat) (i : Nat)
    (h : ∀ pc : Nat, i < pc → (a[pc]?).map (fun x => x.live) = (b[pc]?).map (fun x => x.live)) :
    firstLiveAfter a target i = firstLiveAfter b target i := by
  unfold firstLiveAfter
  apply scanDead_congr
  apply List.ext_getElem?
  intro n
  rw [List.getElem?_map, List.getElem?_map, List.getElem?_drop, List.getElem?_drop]
  exact h _ (by omega)

theorem scanDead_saw (target : Option Nat) :
    ∀ (l : List ZInstI) (j0 : Nat) (saw : Bool),
      (saw = true ∨ ∃ p, j0 ≤ p ∧ p < (scanDead target l j0 saw).1 ∧ target = some p) →
      (scanDead target l j0 saw).2 = true := by
  intro l
  induction l with
  | nil =>
    intro j0 saw h
    simp only [scanDead] at h ⊢
    rcases h with h | ⟨p, h1, h2, _⟩
    · exact h
    · omega
  | cons x xs ih =>
    intro j0 saw h
    simp only [scanDead] at h ⊢
    split
    · rename_i hl
      rw [if_pos hl] at h
      rcases h with h | ⟨p, h1, h2, _⟩
      · exact h
      · simp only at h2; omega
    · rename_i hl
      rw [if_neg hl] at h
      apply ih
      rcases h with h | ⟨p, h1, h2, h3⟩
      · left; simp [h]
      · by_cases hp : p = j0
        · left
          subst hp
          simp [h3]
        · right
          exact ⟨p, by omega, h2, h3⟩

/-- `firstLiveAfter` finds the first live instruction after `i`, and tells
whether the target is among the dead instructions before it. -/
theorem firstLiveAfter_char (insts : List ZInstI) (target : Option Nat) (i j : Nat)
    (hij : i < j) (hdead : ∀ p, i < p → p < j → ∃ x, insts[p]? = some x ∧ x.live = false)
    (hj : (∃ y, insts[j]? = some y ∧ y.live = true) ∨ j = insts.length) :
    (firstLiveAfter insts target i).1 = j ∧
    ((firstLiveAfter insts target i).2 = true ↔ ∃ p, i < p ∧ p < j ∧ target = some p) := by
  obtain ⟨a1, a2, a3, a4⟩ := firstLiveAfter_spec insts target i
  have hle : (firstLiveAfter insts target i).1 ≤ insts.length := by
    obtain ⟨_, b2, _⟩ := scanDead_spec target (insts.drop (i + 1)) (i + 1) false
    unfold firstLiveAfter
    simp only [List.length_drop] at b2
    by_cases hi : i + 1 ≤ insts.length
    · omega
    · have : insts.drop (i + 1) = [] := List.drop_eq_nil_of_le (by omega)
      rw [this]
      simp only [scanDead]
      rcases hj with ⟨y, hy, _⟩ | hj
      · have := (List.getElem?_eq_some.1 hy).1
        omega
      · omega
  have e : (firstLiveAfter insts target i).1 = j := by
    rcases Nat.lt_trichotomy (firstLiveAfter insts target i).1 j with h | h | h
    · obtain ⟨x, hx, hl⟩ := hdead _ a1 h
      have := a3 x hx
      rw [hl] at this
      cases this
    · exact h
    · rcases hj with ⟨y, hy, hl⟩ | hj
      · obtain ⟨x, hx, hl'⟩ := a2 j hij h
        rw [hy] at hx
        cases hx
        rw [hl] at hl'
        cases hl'
      · omega
  refine ⟨e, ?_⟩
  constructor
  · intro h
    obtain ⟨p, h1, h2, h3⟩ := a4 h
    exact ⟨p, h1, by omega, h3⟩
  · rintro ⟨p, h1, h2, h3⟩
    unfold firstLiveAfter at e ⊢
    exact scanDead_saw target _ _ _ (Or.inr ⟨p, by omega, by omega, h3⟩)

end ZAM

namespace ZAM

open Zeek (Failure)

theorem live_of_flow {a b : List ZInstI} {pc : Nat}
    (h : (a[pc]?).map ZInstI.flow = (b[pc]?).map ZInstI.flow) :
    (a[pc]?).map (fun x => x.live) = (b[pc]?).map (fun x => x.live) := by
  have := congrArg (Option.map (fun p : Bool × ZOp × Option Nat => p.1)) h
  simpa [Option.map_map, Function.comp, ZInstI.flow] using this

/-- What the loop of `CollapseGoTos` over the positions `i, ..., i+n-1`
leaves as it was. -/
theorem CollapseGoTos_loop_frame (fuel : Nat) :
    ∀ (n i : Nat) (cur : List ZInstI) (d : Bool) (r : List ZInstI × Bool),
      CollapseGoTos_loop fuel n i cur d = .ok r →
      r.1.length = cur.length ∧
      (∀ pc : Nat, pc < i ∨ i + n ≤ pc →
        (r.1[pc]?).map ZInstI.flow = (cur[pc]?).map ZInstI.flow) ∧
      (∀ (pc : Nat) (x : ZInstI), cur[pc]? = some x → ∃ y, r.1[pc]? = some y ∧ y.op = x.op ∧
        (x.live = false → y.live = false) ∧
        (x.live = true → y.live = false →
          x.IsUnconditionalBranch = true ∧ x.target ≠ none)) := by
  intro n
  induction n with
  | zero =>
    intro i cur d r h
    cases h
    exact ⟨rfl, fun _ _ => rfl, fun pc x hx =>
      ⟨x, hx, rfl, fun a => a, fun a b => true_ne_false_of a b⟩⟩
  | succ n ih =>
    intro i cur d r h
    simp only [CollapseGoTos_loop] at h
    cases h1 : CollapseGoTos_at fuel cur i with
    | error e => rw [h1] at h; cases h
    | ok r1 =>
      rw [h1] at h
      simp only [] at h
      obtain ⟨a1, a2, a3⟩ := CollapseGoTos_at_frame fuel cur i r1 h1
      obtain ⟨b1, b2, b3⟩ := ih (i + 1) r1.1 _ r h
      refine ⟨b1.trans a1, ?_, ?_⟩
      · intro pc hp
        rw [b2 pc (by omega)]
        exact a2 pc (by omega)
      · intro pc x hx
        by_cases hpi : pc = i
        · subst hpi
          obtain ⟨y1, hy1, o1, l1, k1⟩ := a3 x hx
          obtain ⟨y, hy, o2, l2, k2⟩ := b3 pc y1 hy1
          refine ⟨y, hy, o2.trans o1, fun a => l2 (l1 a), fun a b => ?_⟩
          by_cases hl1 : y1.live = true
          · have hf := b2 pc (Or.inl (Nat.lt_succ_self _))
            rw [hy, hy1] at hf
            simp only [Option.map_some', Option.some.injEq, ZInstI.flow, Prod.mk.injEq] at hf
            exact true_ne_false_of (hf.1.trans hl1) b
          · exact k1 a (by simpa using hl1)
        · have hf := a2 pc hpi
          rw [hx] at hf
          obtain ⟨y1, hy1, hyf⟩ := flow_get hf
          simp only [ZInstI.flow, Prod.mk.injEq] at hyf
          obtain ⟨f1, f2, f3⟩ := hyf
          obtain ⟨y, hy, o2, l2, k2⟩ := b3 pc y1 hy1
          refine ⟨y, hy, o2.trans f2, fun a => l2 (f1.trans a), fun a b => ?_⟩
          obtain ⟨u, t⟩ := k2 (f1.trans a) b
          exact ⟨by simpa [ZInstI.IsUnconditionalBranch, f2] using u, by rw [← f3]; exact t⟩

/-- The flow that the loop body of `CollapseGoTos` leaves for a live branch at
`pc` with target `t` that is not an unconditional branch. -/
theorem CollapseGoTos_at_plain_flow (fuel : Nat) (insts : List ZInstI) (pc t : Nat)
    (x : ZInstI) (r : List ZInstI × Bool)
    (hx : insts[pc]? = some x) (hl : x.live = true) (ht : x.target = some t)
    (hu : isUncondAt insts t = false) (h : CollapseGoTos_at fuel insts pc = .ok r) :
    (r.1[pc]?).map ZInstI.flow =
      some (if branchesToNext insts pc t then
              if x.IsUnconditionalBranch then (false, x.op, some t)
              else if (firstLiveAfter insts (some t) pc).1 < insts.length then
                (true, x.op, some (firstLiveAfter insts (some t) pc).1)
              else (true, x.op, some t)
            else (true, x.op, some t)) := by
  rw [CollapseGoTos_at_plain fuel insts pc t x hx hl ht hu] at h
  simp only [Except.ok.injEq] at h
  subst h
  simp only []
  have hd := flow_decLabel insts (some t) pc
  rw [hx] at hd
  obtain ⟨z, hz, hzf⟩ := flow_get hd
  simp only [ZInstI.flow, Prod.mk.injEq] at hzf
  obtain ⟨z1, z2, z3⟩ := hzf
  split_ifs
  · have := flow_killed insts pc t pc
    rw [if_pos rfl, hx] at this
    rw [this]
    simp [ht]
  · rw [flow_incLabel, flow_updAt, if_pos rfl, hz]
    simp [ZInstI.flow, z1, z2, hl]
  · rw [hd]
    simp [ZInstI.flow, hl, ht]
  · rw [hx]
    simp [ZInstI.flow, hl, ht]

/-- The loop of `CollapseGoTos` over the positions `i, ..., i+n-1`: what it
leaves for a live branch at one of these positions whose target is not an
unconditional branch. -/
theorem CollapseGoTos_loop_plain (fuel : Nat) :
    ∀ (n i : Nat) (cur : List ZInstI) (d : Bool) (r : List ZInstI × Bool),
      CollapseGoTos_loop fuel n i cur d = .ok r →
      ∀ (pc t : Nat) (x : ZInstI), i ≤ pc → pc < i + n → cur[pc]? = some x →
        x.live = true → x.target = some t → isUncondAt cur t = false →
        (r.1[pc]?).map ZInstI.flow =
          some (if branchesToNext cur pc t then
                  if x.IsUnconditionalBranch then (false, x.op, some t)
                  else if (firstLiveAfter cur (some t) pc).1 < cur.length then
                    (true, x.op, some (firstLiveAfter cur (some t) pc).1)
                  else (true, x.op, some t)
                else (true, x.op, some t)) := by
  intro n
  induction n with
  | zero => intro i cur d r _ pc t x h1 h2; omega
  | succ n ih =>
    intro i cur d r h pc t x h1 h2 hx hl ht hu
    simp only [CollapseGoTos_loop] at h
    cases hr1 : CollapseGoTos_at fuel cur i with
    | error e => rw [hr1] at h; cases h
    | ok r1 =>
      rw [hr1] at h
      simp only [] at h
      obtain ⟨a1, a2, a3⟩ := CollapseGoTos_at_frame fuel cur i r1 hr1
      by_cases hpi : pc = i
      · subst hpi
        obtain ⟨_, b2, _⟩ := CollapseGoTos_loop_frame fuel n (pc + 1) r1.1 _ r h
        rw [b2 pc (Or.inl (Nat.lt_succ_self _))]
        exact CollapseGoTos_at_plain_flow fuel cur pc t x r1 hx hl ht hu hr1
      · have hf := a2 pc hpi
        rw [hx] at hf
        obtain ⟨y1, hy1, hyf⟩ := flow_get hf
        simp only [ZInstI.flow, Prod.mk.injEq] at hyf
        obtain ⟨f1, f2, f3⟩ := hyf
        have hops : ∀ q : Nat, isUncondAt r1.1 q = isUncondAt cur q := by
          intro q
          by_cases hq : q = i
          · subst hq
            unfold isUncondAt
            cases hc : cur[q]? with
            | none =>
              have : r1.1[q]? = none := by
                apply List.getElem?_eq_none
                rw [a1]
                exact List.getElem?_eq_none_iff.1 hc
              rw [this]
            | some c =>
              obtain ⟨y, hy, o, _, _⟩ := a3 c hc
              rw [hy]
              simp [ZInstI.IsUnconditionalBranch, o]
          · exact isUncondAt_of_flow (a2 q hq)
        have hfl : firstLiveAfter r1.1 (some t) pc = firstLiveAfter cur (some t) pc :=
          firstLiveAfter_congr _ _ _ _ (fun q hq => live_of_flow (a2 q (by omega)))
        have key := ih (i + 1) r1.1 _ r h pc t y1 (by omega) (by omega) hy1 (f1.trans hl)
          (f3.trans ht) ((hops t).trans hu)
        rw [key]
        simp only [branchesToNext, hfl, a1, f2, ZInstI.IsUnconditionalBranch]

end ZAM

namespace ZAM

open Zeek (Failure)

/-- C27, counterexample: in `gotoToGoto`, whose label counts are exact, the
target of the live unconditional branch 0 is instruction 1, the first live
instruction after it.  Instruction 1 is itself an unconditional branch, so
`CollapseGoTos` first retargets instruction 0 to instruction 3, and then does
not find it to be a branch to the next statement: instruction 0 stays live. -/
theorem CollapseGoTos_keeps_branch_to_next_branch :
    LabelsExact [] gotoToGoto ∧
    (gotoToGoto[0]?).map (fun x => (x.live, x.IsUnconditionalBranch, x.target)) =
      some (true, true, some 1) ∧
    (gotoToGoto[1]?).map (fun x => x.live) = some true ∧
    ∃ b, CollapseGoTos 2 gotoToGoto = .ok (b, true) ∧
      (b[0]?).map (fun x => (x.live, x.target)) = some (true, some 3) := by
  refine ⟨?_, rfl, rfl, _, rfl, rfl⟩
  intro m y hm
  match m, hm with
  | 0, hm => cases hm; decide
  | 1, hm => cases hm; decide
  | 2, hm => cases hm; decide
  | 3, hm => cases hm; decide
  | m + 4, hm => simp [gotoToGoto] at hm

/-- C27 (amended): for a call of `CollapseGoTos` that returns.  A live branch
`i` whose target `t` is not an unconditional branch, and is the first live
instruction `j` after `i` or a dead instruction between `i` and `j`: if it is
an unconditional branch it is marked dead, otherwise it stays live and is
retargeted to `j`.  An instruction that loses its liveness is a live
unconditional branch with a target, and if that target is not an
unconditional branch, the branch was a branch to the next statement
(`branchesToNext`); a dead instruction stays dead. -/
theorem CollapseGoTos_branch_to_next (fuel : Nat) (insts b : List ZInstI) (d : Bool)
    (h : CollapseGoTos fuel insts = .ok (b, d)) :
    (∀ (i t j : Nat) (x : ZInstI), insts[i]? = some x → x.live = true → x.target = some t →
      isUncondAt insts t = false → i < j →
      (∀ p, i < p → p < j → ∃ z, insts[p]? = some z ∧ z.live = false) →
      (∃ z, insts[j]? = some z ∧ z.live = true) →
      (t = j ∨ (i < t ∧ t < j)) →
      ∃ y, b[i]? = some y ∧ y.op = x.op ∧
        (x.IsUnconditionalBranch = true → y.live = false) ∧
        (x.IsUnconditionalBranch = false → y.live = true ∧ y.target = some j)) ∧
    (∀ (i : Nat) (x y : ZInstI), insts[i]? = some x → b[i]? = some y → x.live = true →
      y.live = false →
      x.IsUnconditionalBranch = true ∧
      ∃ t, x.target = some t ∧ (isUncondAt insts t = false → branchesToNext insts i t = true)) ∧
    (∀ (i : Nat) (x y : ZInstI), insts[i]? = some x → b[i]? = some y → x.live = false →
      y.live = false) := by
  unfold CollapseGoTos at h
  obtain ⟨a1, a2, a3⟩ := CollapseGoTos_loop_frame fuel _ _ _ _ _ h
  have plain := CollapseGoTos_loop_plain fuel _ _ _ _ _ h
  refine ⟨?_, ?_, ?_⟩
  · intro i t j x hx hl ht hu hij hdead hj hcase
    have hi : i < insts.length := (List.getElem?_eq_some.1 hx).1
    have hfl := plain i t x (Nat.zero_le _) (by omega) hx hl ht hu
    obtain ⟨z, hz, hzl⟩ := hj
    have hjl : j < insts.length := (List.getElem?_eq_some.1 hz).1
    obtain ⟨c1, c2⟩ := firstLiveAfter_char insts (some t) i j hij hdead (Or.inl ⟨z, hz, hzl⟩)
    have hb : branchesToNext insts i t = true := by
      unfold branchesToNext
      rw [c1]
      rcases hcase with e | ⟨e1, e2⟩
      · subst e
        simp [hjl]
      · have := c2.2 ⟨t, e1, e2, rfl⟩
        simp [this]
    rw [hb, c1] at hfl
    simp only [if_true, hjl] at hfl
    obtain ⟨y, hy, hyf⟩ := flow_get hfl
    simp only [ZInstI.flow] at hyf
    refine ⟨y, hy, ?_, ?_, ?_⟩
    · split_ifs at hyf <;> (simp only [Prod.mk.injEq] at hyf; exact hyf.2.1)
    · intro hu'
      rw [if_pos hu'] at hyf
      simp only [Prod.mk.injEq] at hyf
      exact hyf.1
    · intro hu'
      rw [if_neg (by simp [hu'])] at hyf
      simp only [Prod.mk.injEq] at hyf
      exact ⟨hyf.1, hyf.2.2⟩
  · intro i x y hx hy hl hd
    obtain ⟨y', hy', _, _, k⟩ := a3 i x hx
    rw [hy] at hy'
    cases hy'
    obtain ⟨u, tn⟩ := k hl hd
    refine ⟨u, ?_⟩
    cases ht : x.target with
    | none => exact absurd ht tn
    | some t =>
      refine ⟨t, rfl, fun hu => ?_⟩
      have hi : i < insts.length := (List.getElem?_eq_some.1 hx).1
      have hfl := plain i t x (Nat.zero_le _) (by omega) hx hl ht hu
      rw [hy] at hfl
      simp only [Option.map_some', Option.some.injEq, ZInstI.flow] at hfl
      by_contra hb
      rw [if_neg hb] at hfl
      simp only [Prod.mk.injEq] at hfl
      exact true_ne_false_of hfl.1 hd
  · intro i x y hx hy hl
    obtain ⟨y', hy', _, l, _⟩ := a3 i x hx
    rw [hy] at hy'
    cases hy'
    exact l hl

/-- Witness for C27: in `toNext` the unconditional branch 0 targets the
first live instruction after it (2) and is marked dead; the conditional
branch 2 targets the dead instruction 3 before the next live one (4) and is
retargeted to it. -/
theorem CollapseGoTos_branch_to_next_witness :
    ∃ b, CollapseGoTos 1 toNext = .ok (b, false) ∧
      (∃ y, b[0]? = some y ∧ y.op = ZOp.OP_GOTO_V ∧
        ((plainInst ZOp.OP_GOTO_V).IsUnconditionalBranch = true → y.live = false) ∧
        ((plainInst ZOp.OP_GOTO_V).IsUnconditionalBranch = false →
          y.live = true ∧ y.target = some 2)) ∧
      (∃ y, b[2]? = some y ∧ y.op = ZOp.other 5 ∧
        ((plainInst (ZOp.other 5)).IsUnconditionalBranch = true → y.live = false) ∧
        ((plainInst (ZOp.other 5)).IsUnconditionalBranch = false →
          y.live = true ∧ y.target = some 4)) :=
  ⟨_, rfl,
   (CollapseGoTos_branch_to_next 1 toNext _ false rfl).1 0 2 2 _ rfl rfl rfl rfl (by decide)
     (fun p h1 h2 => by
       have p1 : p = 1 := by omega
       subst p1
       exact ⟨_, rfl, rfl⟩)
     ⟨_, rfl, rfl⟩ (Or.inl rfl),
   (CollapseGoTos_branch_to_next 1 toNext _ false rfl).1 2 3 4 _ rfl rfl rfl rfl (by decide)
     (fun p h1 h2 => by
       have p1 : p = 3 := by omega
       subst p1
       exact ⟨_, rfl, rfl⟩)
     ⟨_, rfl, rfl⟩ (Or.inr ⟨by decide, by decide⟩)⟩

end ZAM

namespace ZAM

theorem lowestIndex_some (p : FrameSharingInfo → Bool) :
    ∀ (l : List FrameSharingInfo) (k : Nat), lowestIndex p l = some k →
      (∃ s, l[k]? = some s ∧ p s = true) ∧
      ∀ j s', j < k → l[j]? = some s' → p s' = false := by
  intro l
  induction l with
  | nil => intro k h; cases h
  | cons s rest ih =>
    intro k h
    unfold lowestIndex at h
    by_cases hp : p s = true
    · rw [if_pos hp] at h
      cases h
      exact ⟨⟨s, by simp, hp⟩, fun j s' hj _ => absurd hj (Nat.not_lt_zero j)⟩
    · rw [if_neg hp] at h
      cases hr : lowestIndex p rest with
      | none => rw [hr] at h; cases h
      | some k' =>
        rw [hr] at h
        have hk : k = k' + 1 := by simpa using h.symm
        subst hk
        obtain ⟨⟨s0, hs0, hp0⟩, hmin⟩ := ih k' hr
        refine ⟨⟨s0, by simpa using hs0, hp0⟩, ?_⟩
        intro j s' hj hs'
        cases j with
        | zero =>
          have : s = s' := by simpa using hs'
          subst this
          simpa using hp
        | succ j => exact hmin j s' (by omega) (by simpa using hs')

theorem lowestIndex_none (p : FrameSharingInfo → Bool) :
    ∀ (l : List FrameSharingInfo), lowestIndex p l = none → ∀ s ∈ l, p s = false := by
  intro l
  induction l with
  | nil => intro _ s hs; cases hs
  | cons s rest ih =>
    intro h s' hs'
    unfold lowestIndex at h
    by_cases hp : p s = true
    · rw [if_pos hp] at h; cases h
    · rw [if_neg hp] at h
      cases hr : lowestIndex p rest with
      | some k' => rw [hr] at h; cases h
      | none =>
        rcases List.mem_cons.1 hs' with e | e
        · subst e; simpa using hp
        · exact ih hr s' e

/-- The search loop of `ReMapVar` in closed form: the first slot that ends
right at `inst`, else the candidate it started with, else the first
compatible slot. -/
theorem aptSlotSearch_eq (m : Bool) (inst : Int) :
    ∀ (l : List FrameSharingInfo) (i : Nat) (apt : Option Nat),
      aptSlotSearch m inst l i apt =
        match lowestIndex
            (fun s => decide (s.is_managed = m) && decide (s.scope_end = inst)) l with
        | some k => some (i + k)
        | none =>
          match apt with
          | some a => some a
          | none =>
            (lowestIndex
              (fun s => decide (s.is_managed = m) && decide (s.scope_end ≤ inst)) l).map
              (fun k => i + k) := by
  intro l
  induction l with
  | nil => intro i apt; cases apt <;> rfl
  | cons s rest ih =>
    intro i apt
    unfold aptSlotSearch
    simp only [lowestIndex]
    by_cases hm : s.is_managed = m
    · by_cases he : s.scope_end = inst
      · have hle : s.scope_end ≤ inst := le_of_eq he
        simp [hm, he]
      · by_cases hle : s.scope_end ≤ inst
        · cases apt with
          | none =>
            simp only [hm, he, hle, and_self, if_true, if_false, Option.isNone_none,
              decide_True, decide_False, Bool.and_true, Bool.and_false, Bool.true_and]
            rw [ih]
            cases lowestIndex
              (fun s => decide (s.is_managed = m) && decide (s.scope_end = inst)) rest with
            | none => simp
            | some k => simp; omega
          | some a =>
            simp only [hm, he, hle, and_self, if_true, if_false, Option.isNone_some, Bool.false_eq_true,
              decide_True, decide_False, Bool.and_true, Bool.and_false, Bool.true_and]
            rw [ih]
            cases lowestIndex
              (fun s => decide (s.is_managed = m) && decide (s.scope_end = inst)) rest with
            | none => simp
            | some k => simp; omega
        · simp only [hm, he, hle, and_true, false_and, if_false,
            decide_True, decide_False, Bool.and_true, Bool.and_false, Bool.true_and]
          rw [ih]
          cases lowestIndex
              (fun s => decide (s.is_managed = m) && decide (s.scope_end = inst)) rest with
          | none =>
            cases apt with
            | some a => simp
            | none =>
              cases lowestIndex
                (fun s => decide (s.is_managed = m) && decide (s.scope_end ≤ inst)) rest with
              | none => simp
              | some k => simp; omega
          | some k => simp; omega
    · simp only [hm, and_false, if_false, decide_False, Bool.false_and]
      rw [ih]
      cases lowestIndex
          (fun s => decide (s.is_managed = m) && decide (s.scope_end = inst)) rest with
      | none =>
        cases apt with
        | some a => simp
        | none =>
          cases lowestIndex
            (fun s => decide (s.is_managed = m) && decide (s.scope_end ≤ inst)) rest with
          | none => simp
          | some k => simp; omega
      | some k => simp; omega

theorem recordDenizen_length (id : ID) (inst e : Int) :
    ∀ (l : List FrameSharingInfo) (k : Nat), (recordDenizen id inst e l k).length = l.length := by
  intro l
  induction l with
  | nil => intro k; rfl
  | cons s rest ih =>
    intro k
    cases k with
    | zero => rfl
    | succ k => simp [recordDenizen, ih]

theorem recordDenizen_get (id : ID) (inst e : Int) :
    ∀ (l : List FrameSharingInfo) (k j : Nat),
      (recordDenizen id inst e l k)[j]? =
        if j = k then
          l[k]?.map (fun s => { s with ids := s.ids ++ [id], id_start := s.id_start ++ [inst],
                                       scope_end := e })
        else l[j]? := by
  intro l
  induction l with
  | nil => intro k j; simp [recordDenizen]
  | cons s rest ih =>
    intro k j
    cases k with
    | zero =>
      cases j with
      | zero => simp [recordDenizen]
      | succ j => simp [recordDenizen]
    | succ k =>
      cases j with
      | zero => simp [recordDenizen]
      | succ j => simp [recordDenizen, ih]

end ZAM

namespace ZAM

/-- C29: `ReMapVar`, called for a slot that has a `denizen_ending` entry,
maps the slot to a shared slot `k` and records the identifier there, where
`k` is the lowest position of an existing shared slot of the identifier's
managed-ness whose scope end equals the start instruction if there is one;
otherwise the lowest position of a shared slot of that managed-ness whose
scope end is at or before the start instruction if there is one; otherwise
the position of a newly appended slot.  Every other shared slot is left as
it was. -/
theorem ReMapVar_first_fit (F : FrameInfo) (st : ReMapState) (id : ID) (slot : Nat)
    (inst e : Int) (hend : F.denizen_ending slot = some e)
    (hslot : slot < st.frame1_to_frame2.length) :
    ∃ k : Nat,
      (ReMapVar F st id slot inst).frame1_to_frame2[slot]? = some (k : Int) ∧
      (∀ j, j ≠ k →
        (ReMapVar F st id slot inst).shared_frame_denizens[j]? =
          st.shared_frame_denizens[j]?) ∧
      ((∃ s, st.shared_frame_denizens[k]? = some s ∧
            s.is_managed = F.isManagedType id ∧ s.scope_end = inst ∧
            (∀ j s', j < k → st.shared_frame_denizens[j]? = some s' →
              ¬ (s'.is_managed = F.isManagedType id ∧ s'.scope_end = inst)) ∧
            (ReMapVar F st id slot inst).shared_frame_denizens[k]? =
              some { s with ids := s.ids ++ [id], id_start := s.id_start ++ [inst],
                            scope_end := e }) ∨
       ((∀ s' ∈ st.shared_frame_denizens,
            ¬ (s'.is_managed = F.isManagedType id ∧ s'.scope_end = inst)) ∧
          ∃ s, st.shared_frame_denizens[k]? = some s ∧
            s.is_managed = F.isManagedType id ∧ s.scope_end ≤ inst ∧
            (∀ j s', j < k → st.shared_frame_denizens[j]? = some s' →
              ¬ (s'.is_managed = F.isManagedType id ∧ s'.scope_end ≤ inst)) ∧
            (ReMapVar F st id slot inst).shared_frame_denizens[k]? =
              some { s with ids := s.ids ++ [id], id_start := s.id_start ++ [inst],
                            scope_end := e }) ∨
       ((∀ s' ∈ st.shared_frame_denizens,
            ¬ (s'.is_managed = F.isManagedType id ∧ s'.scope_end ≤ inst)) ∧
          k = st.shared_frame_denizens.length ∧
          (ReMapVar F st id slot inst).shared_frame_denizens.length =
            st.shared_frame_denizens.length + 1 ∧
          (ReMapVar F st id slot inst).shared_frame_denizens[k]? =
            some { ids := [id], id_start := [inst], scope_end := e,
                   is_managed := F.isManagedType id })) := by
  have hsearch := aptSlotSearch_eq (F.isManagedType id) inst st.shared_frame_denizens 0 none
  cases hx : lowestIndex
      (fun s => decide (s.is_managed = F.isManagedType id) && decide (s.scope_end = inst))
      st.shared_frame_denizens with
  | some k =>
    rw [hx] at hsearch
    simp only [Nat.zero_add] at hsearch
    obtain ⟨⟨s, hs, hp⟩, hmin⟩ := lowestIndex_some _ _ _ hx
    simp only [Bool.and_eq_true, decide_eq_true_eq] at hp
    have hnew : ReMapVar F st id slot inst =
        { shared_frame_denizens := recordDenizen id inst e st.shared_frame_denizens k
          managed_slotsI := st.managed_slotsI
          frame1_to_frame2 := st.frame1_to_frame2.set slot (k : Int) } := by
      simp only [ReMapVar, hend, hsearch]
    refine ⟨k, ?_, ?_, Or.inl ⟨s, hs, hp.1, hp.2, ?_, ?_⟩⟩
    · rw [hnew]; simp [hslot]
    · intro j hj
      rw [hnew]
      simp only [recordDenizen_get, if_neg hj]
    · intro j s' hj hs' hc
      have := hmin j s' hj hs'
      simp [hc.1, hc.2] at this
    · rw [hnew]
      simp only [recordDenizen_get, if_true, hs, Option.map_some']
  | none =>
    rw [hx] at hsearch
    have hno := lowestIndex_none _ _ hx
    have hno' : ∀ s' ∈ st.shared_frame_denizens,
        ¬ (s'.is_managed = F.isManagedType id ∧ s'.scope_end = inst) := by
      intro s' hs' hc
      have := hno s' hs'
      simp [hc.1, hc.2] at this
    cases hy : lowestIndex
        (fun s => decide (s.is_managed = F.isManagedType id) && decide (s.scope_end ≤ inst))
        st.shared_frame_denizens with
    | some k =>
      rw [hy] at hsearch
      simp only [Nat.zero_add, Option.map_some'] at hsearch
      obtain ⟨⟨s, hs, hp⟩, hmin⟩ := lowestIndex_some _ _ _ hy
      simp only [Bool.and_eq_true, decide_eq_true_eq] at hp
      have hnew : ReMapVar F st id slot inst =
          { shared_frame_denizens := recordDenizen id inst e st.shared_frame_denizens k
            managed_slotsI := st.managed_slotsI
            frame1_to_frame2 := st.frame1_to_frame2.set slot (k : Int) } := by
        simp only [ReMapVar, hend, hsearch]
      refine ⟨k, ?_, ?_, Or.inr (Or.inl ⟨hno', s, hs, hp.1, hp.2, ?_, ?_⟩)⟩
      · rw [hnew]; simp [hslot]
      · intro j hj
        rw [hnew]
        simp only [recordDenizen_get, if_neg hj]
      · intro j s' hj hs' hc
        have := hmin j s' hj hs'
        simp [hc.1, hc.2] at this
      · rw [hnew]
        simp only [recordDenizen_get, if_true, hs, Option.map_some']
    | none =>
      rw [hy] at hsearch
      simp only [Option.map_none'] at hsearch
      have hnc := lowestIndex_none _ _ hy
      have hnew : ReMapVar F st id slot inst =
          { shared_frame_denizens :=
              recordDenizen id inst e
                (st.shared_frame_denizens ++
                  [{ ids := [], id_start := [], scope_end := -1,
                     is_managed := F.isManagedType id }])
                st.shared_frame_denizens.length
            managed_slotsI :=
              if F.isManagedType id then
                st.managed_slotsI ++ [st.shared_frame_denizens.length]
              else st.managed_slotsI
            frame1_to_frame2 :=
              st.frame1_to_frame2.set slot (st.shared_frame_denizens.length : Int) } := by
        simp only [ReMapVar, hend, hsearch]
      refine ⟨st.shared_frame_denizens.length, ?_, ?_, Or.inr (Or.inr ⟨?_, rfl, ?_, ?_⟩)⟩
      · rw [hnew]; simp [hslot]
      · intro j hj
        rw [hnew]
        simp only [recordDenizen_get, if_neg hj]
        rcases Nat.lt_or_gt_of_ne hj with h | h
        · rw [List.getElem?_append_left h]
        · rw [List.getElem?_eq_none (by simp; omega), List.getElem?_eq_none (by omega)]
      · intro s' hs' hc
        have := hnc s' hs'
        simp [hc.1, hc.2] at this
      · rw [hnew]; simp [recordDenizen_length]
      · rw [hnew]
        simp only [recordDenizen_get, if_true]
        simp

theorem ReMapVar_first_fit_witness :
    (ReMapVar fourthSlotFrame threeShared 13 3 5).frame1_to_frame2 = [0, 1, 2, 2] ∧
    ∃ k : Nat,
      (ReMapVar fourthSlotFrame threeShared 13 3 5).frame1_to_frame2[3]? = some (k : Int) ∧
      (∀ j, j ≠ k →
        (ReMapVar fourthSlotFrame threeShared 13 3 5).shared_frame_denizens[j]? =
          threeShared.shared_frame_denizens[j]?) ∧
      ((∃ s, threeShared.shared_frame_denizens[k]? = some s ∧
            s.is_managed = fourthSlotFrame.isManagedType 13 ∧ s.scope_end = 5 ∧
            (∀ j s', j < k → threeShared.shared_frame_denizens[j]? = some s' →
              ¬ (s'.is_managed = fourthSlotFrame.isManagedType 13 ∧ s'.scope_end = 5)) ∧
            (ReMapVar fourthSlotFrame threeShared 13 3 5).shared_frame_denizens[k]? =
              some { s with ids := s.ids ++ [13], id_start := s.id_start ++ [5],
                            scope_end := 9 }) ∨
       ((∀ s' ∈ threeShared.shared_frame_denizens,
            ¬ (s'.is_managed = fourthSlotFrame.isManagedType 13 ∧ s'.scope_end = 5)) ∧
          ∃ s, threeShared.shared_frame_denizens[k]? = some s ∧
            s.is_managed = fourthSlotFrame.isManagedType 13 ∧ s.scope_end ≤ 5 ∧
            (∀ j s', j < k → threeShared.shared_frame_denizens[j]? = some s' →
              ¬ (s'.is_managed = fourthSlotFrame.isManagedType 13 ∧ s'.scope_end ≤ 5)) ∧
            (ReMapVar fourthSlotFrame threeShared 13 3 5).shared_frame_denizens[k]? =
              some { s with ids := s.ids ++ [13], id_start := s.id_start ++ [5],
                            scope_end := 9 }) ∨
       ((∀ s' ∈ threeShared.shared_frame_denizens,
            ¬ (s'.is_managed = fourthSlotFrame.isManagedType 13 ∧ s'.scope_end ≤ 5)) ∧
          k = threeShared.shared_frame_denizens.length ∧
          (ReMapVar fourthSlotFrame threeShared 13 3 5).shared_frame_denizens.length =
            threeShared.shared_frame_denizens.length + 1 ∧
          (ReMapVar fourthSlotFrame threeShared 13 3 5).shared_frame_denizens[k]? =
            some { ids := [13], id_start := [5], scope_end := 9,
                   is_managed := fourthSlotFrame.isManagedType 13 })) :=
  ⟨by decide, ReMapVar_first_fit fourthSlotFrame threeShared 13 3 5 9 rfl (by decide)⟩

end ZAM

namespace ZAM

open Zeek (Failure)

theorem ReMapVar_MapInRange (F : FrameInfo) (st : ReMapState) (id : ID) (slot : Nat)
    (inst : Int) (h : MapInRange st) : MapInRange (ReMapVar F st id slot inst) := by
  unfold ReMapVar
  cases F.denizen_ending slot with
  | none => exact h
  | some e =>
    simp only
    cases hs : aptSlotSearch (F.isManagedType id) inst st.shared_frame_denizens 0 none with
    | none =>
      intro v hv
      simp only [recordDenizen_length, List.length_append, List.length_singleton] at hv ⊢
      rcases List.mem_or_eq_of_mem_set hv with h1 | h1
      · rcases h v h1 with h2 | h2
        · exact Or.inl h2
        · exact Or.inr ⟨h2.1, by push_cast; omega⟩
      · subst h1
        exact Or.inr ⟨by positivity, by push_cast; omega⟩
    | some k =>
      intro v hv
      simp only [recordDenizen_length] at hv ⊢
      rcases List.mem_or_eq_of_mem_set hv with h1 | h1
      · exact h v h1
      · subst h1
        have hk : k < st.shared_frame_denizens.length := by
          rcases aptSlotSearch_spec _ _ _ _ _ _ hs with h2 | ⟨s, _, hs2, _, _⟩
          · cases h2
          · have := List.getElem?_eq_some.1 hs2
            obtain ⟨hlt, _⟩ := this
            simpa using hlt
        exact Or.inr ⟨by positivity, by exact_mod_cast hk⟩

theorem ReMapFrame_vars_MapInRange (F : FrameInfo) (i : Nat) :
    ∀ (vars : List ID) (st : ReMapState), MapInRange st →
      MapInRange (ReMapFrame_vars F i vars st) := by
  intro vars
  induction vars with
  | nil => intro st h; exact h
  | cons v vs ih =>
    intro st h
    simp only [ReMapFrame_vars]
    split
    · exact ih _ (ReMapVar_MapInRange F st v _ _ h)
    · exact ih _ h

theorem ReMapFrame_assign_MapInRange (F : FrameInfo) (n : Nat) :
    MapInRange (ReMapFrame_assign F n) := by
  induction n with
  | zero =>
    intro v hv
    have : v = -1 := by
      simp only [ReMapFrame_assign, List.range_zero, List.foldl_nil] at hv
      exact List.eq_of_mem_replicate hv
    exact Or.inl this
  | succ n ih =>
    rw [ReMapFrame_assign_succ]
    unfold ReMapFrame_step
    cases F.inst_beginnings n with
    | none => exact ih
    | some vars => exact ReMapFrame_vars_MapInRange F n vars _ ih

theorem slotAt_mem {m : List Int} {s w : Int} (h : slotAt m s = some w) : w ∈ m := by
  unfold slotAt at h
  split at h
  · cases h
  · obtain ⟨hlt, e⟩ := List.getElem?_eq_some.1 h
    rw [← e]
    exact List.getElem_mem _

end ZAM

namespace ZAM

open Zeek (Failure)

theorem remapRead1_spec (T : OpTables) (f : List Int) (i j : ZInstI)
    (h : remapRead1 T f i = .ok j) :
    j.op = i.op ∧ j.op_type = i.op_type ∧ j.aux = i.aux ∧ j.v2 = i.v2 ∧ j.v3 = i.v3 ∧
      j.v4 = i.v4 ∧
      (if T.op1_flavor i.op = ZAMOp1Flavor.OP1_READ then slotAt f i.v1 = some j.v1
       else j.v1 = i.v1) := by
  unfold remapRead1 at h
  by_cases hf : T.op1_flavor i.op = ZAMOp1Flavor.OP1_READ
  · rw [if_pos hf] at h
    cases hs : slotAt f i.v1 with
    | none => rw [hs] at h; cases h
    | some a =>
      rw [hs] at h
      cases h
      simp [hf]
  · rw [if_neg hf] at h
    cases h
    simp [hf]

/-- What `UpdateSlots` does to the four operands: the operands 2 to 4 that
`UsesSlot` looks at are mapped, and operand 1 when `UsesSlot` looks at it and
the opcode's flavor is `OP1_READ`. -/
theorem UpdateSlots_spec (T : OpTables) (f : List Int) (i j : ZInstI)
    (h : i.UpdateSlots T f = .ok j) :
    j.op = i.op ∧ j.op_type = i.op_type ∧ j.aux = i.aux ∧
    ∀ k : Nat, 1 ≤ k → k ≤ 4 →
      if (({ i with v1 := 1, v2 := 2, v3 := 3, v4 := 4 } : ZInstI).UsesSlot T (k : Int) &&
          (decide (k ≠ 1) || decide (T.op1_flavor i.op = ZAMOp1Flavor.OP1_READ))) = true
      then slotAt f (i.field k) = some (j.field k)
      else j.field k = i.field k := by
  unfold ZInstI.UpdateSlots at h
  have key : ∀ (a b c : Int) (uses : Nat → Bool),
      remapRead1 T f { i with v2 := a, v3 := b, v4 := c } = .ok j →
      (if uses 2 then slotAt f i.v2 = some a else a = i.v2) →
      (if uses 3 then slotAt f i.v3 = some b else b = i.v3) →
      (if uses 4 then slotAt f i.v4 = some c else c = i.v4) →
      j.op = i.op ∧ j.op_type = i.op_type ∧ j.aux = i.aux ∧
      ∀ k : Nat, 1 ≤ k → k ≤ 4 →
        if (if k = 1 then decide (T.op1_flavor i.op = ZAMOp1Flavor.OP1_READ) else uses k) = true
        then slotAt f (i.field k) = some (j.field k)
        else j.field k = i.field k := by
    intro a b c uses hr h2 h3 h4
    obtain ⟨e1, e2, e3, e4, e5, e6, e7⟩ := remapRead1_spec T f _ j hr
    refine ⟨e1, e2, e3, ?_⟩
    intro k hk1 hk4
    simp only at e4 e5 e6 e7
    interval_cases k
    · simpa [ZInstI.field] using e7
    · simpa [ZInstI.field, e4] using h2
    · simpa [ZInstI.field, e5] using h3
    · simpa [ZInstI.field, e6] using h4
  have fin : ∀ (uses : Nat → Bool),
      (∀ k : Nat, 1 ≤ k → k ≤ 4 →
        (({ i with v1 := 1, v2 := 2, v3 := 3, v4 := 4 } : ZInstI).UsesSlot T (k : Int) &&
          (decide (k ≠ 1) || decide (T.op1_flavor i.op = ZAMOp1Flavor.OP1_READ))) =
        (if k = 1 then decide (T.op1_flavor i.op = ZAMOp1Flavor.OP1_READ) else uses k)) →
      (j.op = i.op ∧ j.op_type = i.op_type ∧ j.aux = i.aux ∧
        ∀ k : Nat, 1 ≤ k → k ≤ 4 →
          if (if k = 1 then decide (T.op1_flavor i.op = ZAMOp1Flavor.OP1_READ) else uses k) = true
          then slotAt f (i.field k) = some (j.field k)
          else j.field k = i.field k) →
      j.op = i.op ∧ j.op_type = i.op_type ∧ j.aux = i.aux ∧
      ∀ k : Nat, 1 ≤ k → k ≤ 4 →
        if (({ i with v1 := 1, v2 := 2, v3 := 3, v4 := 4 } : ZInstI).UsesSlot T (k : Int) &&
            (decide (k ≠ 1) || decide (T.op1_flavor i.op = ZAMOp1Flavor.OP1_READ))) = true
        then slotAt f (i.field k) = some (j.field k)
        else j.field k = i.field k := by
    intro uses hu ⟨e1, e2, e3, e4⟩
    refine ⟨e1, e2, e3, ?_⟩
    intro k hk1 hk4
    rw [hu k hk1 hk4]
    exact e4 k hk1 hk4
  have useq : ∀ (uses : Nat → Bool) (k : Nat), 1 ≤ k → k ≤ 4 →
      (k = 1 → ({ i with v1 := 1, v2 := 2, v3 := 3, v4 := 4 } : ZInstI).UsesSlot T 1 =
          (decide (T.op1_flavor i.op = ZAMOp1Flavor.OP1_READ) ||
           decide (T.op1_flavor i.op = ZAMOp1Flavor.OP1_READ_WRITE)) ∨
        (({ i with v1 := 1, v2 := 2, v3 := 3, v4 := 4 } : ZInstI).UsesSlot T 1 = false ∧
          T.op1_flavor i.op ≠ ZAMOp1Flavor.OP1_READ)) →
      (k ≠ 1 → ({ i with v1 := 1, v2 := 2, v3 := 3, v4 := 4 } : ZInstI).UsesSlot T (k : Int) =
          uses k) →
      (({ i with v1 := 1, v2 := 2, v3 := 3, v4 := 4 } : ZInstI).UsesSlot T (k : Int) &&
          (decide (k ≠ 1) || decide (T.op1_flavor i.op = ZAMOp1Flavor.OP1_READ))) =
        (if k = 1 then decide (T.op1_flavor i.op = ZAMOp1Flavor.OP1_READ) else uses k) := by
    intro uses k _ _ h1 h2
    by_cases hk : k = 1
    · subst hk
      rcases h1 rfl with e | ⟨e, e'⟩
      · simp only [Nat.cast_one] at e ⊢
        rw [e]
        cases T.op1_flavor i.op <;> simp
      · simp only [Nat.cast_one] at e ⊢
        rw [e]
        simp [e']
    · rw [h2 hk]
      simp [hk]
  have u1 : ∀ k : Nat, k = 1 →
      (i.op_type ≠ ZAMOpType.OP_X ∧ i.op_type ≠ ZAMOpType.OP_C ∧
        i.op_type ≠ ZAMOpType.OP_V_I1 ∧ i.op_type ≠ ZAMOpType.OP_VC_I1 ∧
        i.op_type ≠ ZAMOpType.OP_VV_I1_I2 ∧ i.op_type ≠ ZAMOpType.OP_VVVC_I1_I2_I3) →
      ({ i with v1 := 1, v2 := 2, v3 := 3, v4 := 4 } : ZInstI).UsesSlot T 1 =
        (decide (T.op1_flavor i.op = ZAMOp1Flavor.OP1_READ) ||
         decide (T.op1_flavor i.op = ZAMOp1Flavor.OP1_READ_WRITE)) := by
    intro k _ hne
    cases hto : i.op_type <;> simp [ZInstI.UsesSlot, hto] at hne ⊢
  cases hto : i.op_type <;> simp only [hto] at h
  case OP_X | OP_C | OP_V_I1 | OP_VC_I1 | OP_VV_I1_I2 | OP_VVVC_I1_I2_I3 =>
    cases h
    refine ⟨rfl, hto, rfl, ?_⟩
    intro k hk1 hk4
    simp [ZInstI.UsesSlot]
  case OP_V | OP_VC | OP_VV_FRAME | OP_VV_I2 | OP_VVC_I2 | OP_VVV_I2_I3 | OP_VVVC_I2_I3
      | OP_VVVV_I2_I3_I4 =>
    rw [← hto]
    refine fin (fun _ => false) (fun k a b => useq (fun _ => false) k a b
      (fun hk => Or.inl (u1 k hk (by simp [hto]))) ?_)
      (key i.v2 i.v3 i.v4 (fun _ => false) h (by simp) (by simp) (by simp))
    intro hk
    interval_cases k <;> simp [ZInstI.UsesSlot, hto] at hk ⊢
  case OP_VV | OP_VVC | OP_VVV_I3 | OP_VVVV_I3_I4 | OP_VVVC_I3 =>
    rw [← hto]
    cases h2 : slotAt f i.v2 with
    | none => simp only [h2] at h; cases h
    | some a =>
      simp only [h2] at h
      rw [← hto] at h
      refine fin (fun k => decide (k = 2)) (fun k a b => useq (fun k => decide (k = 2)) k a b
        (fun hk => Or.inl (u1 k hk (by simp [hto]))) ?_)
        (key a i.v3 i.v4 (fun k => decide (k = 2)) h (by simp [h2]) (by simp) (by simp))
      intro hk
      interval_cases k <;> simp [ZInstI.UsesSlot, hto] at hk ⊢
  case OP_VVV | OP_VVVC | OP_VVVV_I4 =>
    rw [← hto]
    cases h2 : slotAt f i.v2 with
    | none => simp only [h2] at h; cases h
    | some a =>
      cases h3 : slotAt f i.v3 with
      | none => simp only [h2, h3] at h; cases h
      | some b =>
        simp only [h2, h3] at h
        rw [← hto] at h
        refine fin (fun k => decide (k = 2 ∨ k = 3))
          (fun k a b => useq (fun k => decide (k = 2 ∨ k = 3)) k a b
            (fun hk => Or.inl (u1 k hk (by simp [hto]))) ?_)
          (key a b i.v4 (fun k => decide (k = 2 ∨ k = 3)) h (by simp [h2]) (by simp [h3]) (by simp))
        intro hk
        interval_cases k <;> simp [ZInstI.UsesSlot, hto] at hk ⊢
  case OP_VVVV =>
    rw [← hto]
    cases h2 : slotAt f i.v2 with
    | none => simp only [h2] at h; cases h
    | some a =>
      cases h3 : slotAt f i.v3 with
      | none => simp only [h2, h3] at h; cases h
      | some b =>
        cases h4 : slotAt f i.v4 with
        | none => simp only [h2, h3, h4] at h; cases h
        | some c =>
          simp only [h2, h3, h4] at h
          rw [← hto] at h
          refine fin (fun k => decide (k = 2 ∨ k = 3 ∨ k = 4))
            (fun k a b => useq (fun k => decide (k = 2 ∨ k = 3 ∨ k = 4)) k a b
              (fun hk => Or.inl (u1 k hk (by simp [hto]))) ?_)
            (key a b c (fun k => decide (k = 2 ∨ k = 3 ∨ k = 4)) h (by simp [h2]) (by simp [h3]) (by simp [h4]))
          intro hk
          interval_cases k <;> simp [ZInstI.UsesSlot, hto] at hk ⊢

end ZAM

namespace ZAM

open Zeek (Failure)

theorem remapLoopVars_spec (f : List Int) :
    ∀ (l ws : List Int), remapLoopVars f l = .ok ws →
      List.Forall₂ (fun v w => slotAt f v = some w) l ws := by
  intro l
  induction l with
  | nil => intro ws h; cases h; exact List.Forall₂.nil
  | cons v rest ih =>
    intro ws h
    unfold remapLoopVars at h
    cases hv : slotAt f v with
    | none => simp only [hv] at h; cases h
    | some w =>
      simp only [hv] at h
      cases hr : remapLoopVars f rest with
      | error e => simp only [hr] at h; cases h
      | ok ws' =>
        simp only [hr] at h
        cases h
        exact List.Forall₂.cons hv (ih ws' hr)

theorem remapAuxSlots_spec (f : List Int) :
    ∀ (l ws : List Int), remapAuxSlots f l = .ok ws →
      List.Forall₂ (fun s w => if s < 0 then w = s else slotAt f s = some w) l ws := by
  intro l
  induction l with
  | nil => intro ws h; cases h; exact List.Forall₂.nil
  | cons v rest ih =>
    intro ws h
    unfold remapAuxSlots at h
    cases hv : (if v < 0 then some v else slotAt f v) with
    | none => simp only [hv] at h; cases h
    | some w =>
      simp only [hv] at h
      cases hr : remapAuxSlots f rest with
      | error e => simp only [hr] at h; cases h
      | ok ws' =>
        simp only [hr] at h
        cases h
        refine List.Forall₂.cons ?_ (ih ws' hr)
        by_cases hneg : v < 0
        · rw [if_pos hneg] at hv ⊢
          exact (Option.some.inj hv).symm
        · rw [if_neg hneg] at hv ⊢
          exact hv

theorem remapGlobalIndex_spec (g : List Int) (v w : Int)
    (h : remapGlobalIndex g v = .ok w) : slotAt g v = some w ∧ 0 ≤ w := by
  unfold remapGlobalIndex at h
  cases hv : slotAt g v with
  | none => simp only [hv] at h; cases h
  | some a =>
    simp only [hv] at h
    by_cases ha : a ≥ 0
    · rw [if_pos ha] at h; cases h; exact ⟨rfl, ha⟩
    · rw [if_neg ha] at h; cases h

/-- What the `switch` of the rewriting loop does. -/
theorem remapSpecial_spec (f g : List Int) (a b : ZInstI) (cont : Bool)
    (h : remapSpecial f g a = .ok (b, cont)) :
    b.op = a.op ∧ b.op_type = a.op_type ∧ b.v2 = a.v2 ∧ b.v3 = a.v3 ∧ b.v4 = a.v4 ∧
    (a.op = ZOp.OP_DIRTY_GLOBAL_V →
      cont = false ∧ slotAt g a.v1 = some b.v1 ∧ b.aux = a.aux) ∧
    (a.op ≠ ZOp.OP_DIRTY_GLOBAL_V →
      cont = true ∧ b.v1 = a.v1 ∧
      (if isTableIter a.op then
         List.Forall₂ (fun v w => slotAt f v = some w) a.loopVars b.loopVars ∧
           b.auxSlots = a.auxSlots
       else
         b.loopVars = a.loopVars ∧
         List.Forall₂ (fun s w => if s < 0 then w = s else slotAt f s = some w)
           a.auxSlots b.auxSlots)) := by
  have iter : isTableIter a.op = true →
      (match a.aux with
       | none => .error .unmodelled
       | some aux =>
         match remapLoopVars f aux.loop_vars with
         | .error e => .error e
         | .ok vs => .ok ({ a with aux := some { aux with loop_vars := vs } }, true) :
        Except Failure (ZInstI × Bool)) = .ok (b, cont) →
      b.op = a.op ∧ b.op_type = a.op_type ∧ b.v2 = a.v2 ∧ b.v3 = a.v3 ∧ b.v4 = a.v4 ∧
      (a.op = ZOp.OP_DIRTY_GLOBAL_V →
        cont = false ∧ slotAt g a.v1 = some b.v1 ∧ b.aux = a.aux) ∧
      (a.op ≠ ZOp.OP_DIRTY_GLOBAL_V →
        cont = true ∧ b.v1 = a.v1 ∧
        (if isTableIter a.op then
           List.Forall₂ (fun v w => slotAt f v = some w) a.loopVars b.loopVars ∧
             b.auxSlots = a.auxSlots
         else
           b.loopVars = a.loopVars ∧
           List.Forall₂ (fun s w => if s < 0 then w = s else slotAt f s = some w)
             a.auxSlots b.auxSlots)) := by
    intro hit h
    have hnd : a.op ≠ ZOp.OP_DIRTY_GLOBAL_V := by
      intro e; rw [e] at hit; simp [isTableIter] at hit
    cases haux : a.aux with
    | none => simp only [haux] at h; cases h
    | some aux =>
      simp only [haux] at h
      cases hr : remapLoopVars f aux.loop_vars with
      | error e => simp only [hr] at h; cases h
      | ok vs =>
        simp only [hr] at h
        cases h
        refine ⟨rfl, rfl, rfl, rfl, rfl, fun e => absurd e hnd, fun _ => ⟨rfl, rfl, ?_⟩⟩
        rw [if_pos hit]
        refine ⟨?_, ?_⟩
        · simpa [ZInstI.loopVars, haux] using remapLoopVars_spec f _ _ hr
        · simp [ZInstI.auxSlots, haux]
  unfold remapSpecial at h
  split at h
  · rename_i hop
    exact iter (by simp [isTableIter, hop]) h
  · rename_i hop
    exact iter (by simp [isTableIter, hop]) h
  · rename_i hop
    cases hr : remapGlobalIndex g a.v1 with
    | error e => simp only [hr] at h; cases h
    | ok w =>
      simp only [hr] at h
      cases h
      exact ⟨rfl, rfl, rfl, rfl, rfl, fun _ => ⟨rfl, (remapGlobalIndex_spec g _ _ hr).1, rfl⟩,
        fun hne => absurd hop hne⟩
  · rename_i hn1 hn2 hn3
    have hit : isTableIter a.op = false := by
      simp only [isTableIter, Bool.or_eq_false_iff, decide_eq_false_iff_not]
      exact ⟨hn1, hn2⟩
    cases haux : a.aux with
    | none =>
      simp only [haux] at h
      cases h
      refine ⟨rfl, rfl, rfl, rfl, rfl, fun e => absurd e hn3, fun _ => ⟨rfl, rfl, ?_⟩⟩
      simp [hit, ZInstI.auxSlots, haux]
    | some aux =>
      simp only [haux] at h
      cases hsl : aux.slots with
      | none =>
        simp only [hsl] at h
        cases h
        refine ⟨rfl, rfl, rfl, rfl, rfl, fun e => absurd e hn3, fun _ => ⟨rfl, rfl, ?_⟩⟩
        simp [hit, ZInstI.auxSlots, haux, hsl]
      | some slots =>
        simp only [hsl] at h
        cases hr : remapAuxSlots f slots with
        | error e => simp only [hr] at h; cases h
        | ok sl =>
          simp only [hr] at h
          cases h
          refine ⟨rfl, rfl, rfl, rfl, rfl, fun e => absurd e hn3, fun _ => ⟨rfl, rfl, ?_⟩⟩
          simp only [hit, Bool.false_eq_true, if_false]
          refine ⟨?_, ?_⟩
          · simp [ZInstI.loopVars, haux]
          · simpa [ZInstI.auxSlots, haux, hsl] using remapAuxSlots_spec f _ _ hr

end ZAM

namespace ZAM

open Zeek (Failure)

/-- An instruction that assigns to its operand 1 does not have the flavor
`OP1_READ`; one that does not, and whose operand 1 `UsesSlot` looks at, has. -/
theorem flavor_of_slot1 (T : OpTables) (i : ZInstI) :
    (i.AssignsToSlot1 T = true → T.op1_flavor i.op ≠ ZAMOp1Flavor.OP1_READ) ∧
    (i.AssignsToSlot1 T = false →
      ({ i with v1 := 1, v2 := 2, v3 := 3, v4 := 4 } : ZInstI).UsesSlot T 1 = true →
      T.op1_flavor i.op = ZAMOp1Flavor.OP1_READ) := by
  obtain ⟨op, ty, v1, v2, v3, v4, live, t1, t2, nl, ld, aux⟩ := i
  cases ty <;> simp [ZInstI.AssignsToSlot1, ZInstI.UsesSlot] <;>
    cases T.op1_flavor op <;> simp

theorem UsesSlot_probe_congr (T : OpTables) (a b : ZInstI) (e1 : b.op = a.op)
    (e2 : b.op_type = a.op_type) (s : Int) :
    ({ b with v1 := 1, v2 := 2, v3 := 3, v4 := 4 } : ZInstI).UsesSlot T s =
      ({ a with v1 := 1, v2 := 2, v3 := 3, v4 := 4 } : ZInstI).UsesSlot T s := by
  simp only [ZInstI.UsesSlot, e1, e2]

/-- The body of the rewriting loop leaves the instruction rewritten. -/
theorem remapInst_spec (T : OpTables) (R : ReMapTables) (f g : List Int) (a b : ZInstI)
    (kill : Bool) (h : remapInst T R f g a = .ok (b, kill)) : Rewritten T R f g a b := by
  unfold remapInst at h
  -- the assignment to operand 1
  obtain ⟨i1, h1, hi1⟩ : ∃ i1 : ZInstI,
      (if a.AssignsToSlot1 T then
           match slotAt f a.v1 with
           | none => .error (.internal "ASSERT(v1 >= 0 && v1 < n1_slots)")
           | some w => .ok { a with v1 := w }
         else .ok a : Except Failure ZInstI) = .ok i1 ∧
      i1.op = a.op ∧ i1.op_type = a.op_type ∧ i1.v2 = a.v2 ∧ i1.v3 = a.v3 ∧ i1.v4 = a.v4 ∧
      i1.aux = a.aux ∧
      (if a.AssignsToSlot1 T then slotAt f a.v1 = some i1.v1 else i1.v1 = a.v1) := by
    by_cases has : a.AssignsToSlot1 T = true
    · simp only [has, if_true] at h ⊢
      cases hs : slotAt f a.v1 with
      | none => simp only [hs] at h; cases h
      | some w => exact ⟨_, rfl, rfl, rfl, rfl, rfl, rfl, rfl, rfl⟩
    · simp only [has, if_false] at h ⊢
      exact ⟨_, rfl, rfl, rfl, rfl, rfl, rfl, rfl, by simp⟩
  rw [h1] at h
  simp only at h
  obtain ⟨o1, t1, e12, e13, e14, eaux1, ev1⟩ := hi1
  cases hsp : remapSpecial f g i1 with
  | error e => simp only [hsp] at h; cases h
  | ok r =>
    obtain ⟨i2, cont⟩ := r
    obtain ⟨o2, t2, e22, e23, e24, hdirty, hplain⟩ := remapSpecial_spec f g i1 i2 cont hsp
    have hlv : i1.loopVars = a.loopVars := by simp [ZInstI.loopVars, eaux1]
    have hax : i1.auxSlots = a.auxSlots := by simp [ZInstI.auxSlots, eaux1]
    by_cases hd : a.op = ZOp.OP_DIRTY_GLOBAL_V
    · obtain ⟨hc, hg, haux2⟩ := hdirty (o1.trans hd)
      subst hc
      simp only [hsp] at h
      cases h
      have hit : isTableIter a.op = false := by rw [hd]; rfl
      refine ⟨o2.trans o1, t2.trans t1, fun hne => absurd hd hne, fun hne => absurd hd hne,
        ?_, ?_, ?_⟩
      · intro _ hna
        rw [hna] at ev1
        simp only [Bool.false_eq_true, if_false] at ev1
        rw [ev1] at hg
        exact ⟨hg, e22.trans e12, e23.trans e13, e24.trans e14⟩
      · rw [hit]
        simp [ZInstI.loopVars, haux2, eaux1]
      · simp [hd, ZInstI.auxSlots, haux2, eaux1]
    · have hd1 : i1.op ≠ ZOp.OP_DIRTY_GLOBAL_V := fun e => hd (o1 ▸ e)
      obtain ⟨hc, hv1, hauxs⟩ := hplain hd1
      subst hc
      simp only [hsp] at h
      rw [o1, hlv, hax] at hauxs
      have auxpart : ∀ c : ZInstI, c.aux = i2.aux →
          (if isTableIter a.op then
             List.Forall₂ (fun v w => slotAt f v = some w) a.loopVars c.loopVars
           else c.loopVars = a.loopVars) ∧
          (if (isTableIter a.op || decide (a.op = ZOp.OP_DIRTY_GLOBAL_V)) = true then
             c.auxSlots = a.auxSlots
           else
             List.Forall₂ (fun s w => if s < 0 then w = s else slotAt f s = some w)
               a.auxSlots c.auxSlots) := by
        intro c hc
        have e1 : c.loopVars = i2.loopVars := by simp [ZInstI.loopVars, hc]
        have e2 : c.auxSlots = i2.auxSlots := by simp [ZInstI.auxSlots, hc]
        rw [e1, e2]
        by_cases hit : isTableIter a.op = true
        · simp only [hit, if_true, Bool.true_or] at hauxs ⊢
          exact hauxs
        · simp only [hit, if_false, Bool.false_or, decide_eq_true_eq, hd] at hauxs ⊢
          exact hauxs
      by_cases hgl : i2.IsGlobalLoad R = true
      · rw [if_pos hgl] at h
        cases hr : remapGlobalIndex g i2.v2 with
        | error e => simp only [hr] at h; cases h
        | ok w =>
          simp only [hr] at h
          cases h
          have hgla : a.IsGlobalLoad R = true := by
            simpa [ZInstI.IsGlobalLoad, o2, o1] using hgl
          refine ⟨o2.trans o1, t2.trans t1, ?_, ?_, fun e => absurd e hd, ?_⟩
          · intro _ hn; rw [hgla] at hn; cases hn
          · intro _ _
            refine ⟨?_, ?_, e23.trans e13, e24.trans e14⟩
            · simp only [hv1]; exact ev1
            · have := (remapGlobalIndex_spec g _ _ hr).1
              rw [e22, e12] at this
              exact this
          · simpa using auxpart _ rfl
      · rw [if_neg hgl] at h
        cases hu : i2.UpdateSlots T f with
        | error e => simp only [hu] at h; cases h
        | ok i3 =>
          simp only [hu] at h
          cases h
          obtain ⟨o3, t3, eaux3, hf⟩ := UpdateSlots_spec T f i2 b hu
          have hgla : a.IsGlobalLoad R = false := by
            have : i2.IsGlobalLoad R = false := by simpa using hgl
            simpa [ZInstI.IsGlobalLoad, o2, o1] using this
          refine ⟨o3.trans (o2.trans o1), t3.trans (t2.trans t1), ?_, ?_,
            fun e => absurd e hd, ?_⟩
          · intro _ _ k hk1 hk4
            have hk := hf k hk1 hk4
            rw [UsesSlot_probe_congr T a i2 (o2.trans o1) (t2.trans t1), o2, o1] at hk
            obtain ⟨fl1, fl2⟩ := flavor_of_slot1 T a
            by_cases hk1' : k = 1
            · subst hk1'
              simp only [ZInstI.field, Nat.cast_one, ne_eq, not_true_eq_false, decide_False,
                Bool.false_or, Bool.and_eq_true, decide_eq_true_eq] at hk
              simp only [ZInstI.isSlotField, decide_True, Bool.true_and, Nat.cast_one,
                ZInstI.field, Bool.or_eq_true]
              by_cases has : a.AssignsToSlot1 T = true
              · rw [if_neg (fun c => fl1 has c.2)] at hk
                rw [if_pos (Or.inl has)]
                rw [has] at ev1
                simp only [if_true] at ev1
                rw [hk, hv1]; exact ev1
              · have has' : a.AssignsToSlot1 T = false := by simpa using has
                rw [has'] at ev1
                simp only [Bool.false_eq_true, if_false] at ev1
                by_cases hus : ({ a with v1 := 1, v2 := 2, v3 := 3, v4 := 4 } : ZInstI).UsesSlot T 1
                    = true
                · rw [if_pos ⟨hus, fl2 has' hus⟩] at hk
                  rw [if_pos (Or.inr hus)]
                  rw [hv1, ev1] at hk; exact hk
                · rw [if_neg (fun c => hus c.1)] at hk
                  rw [if_neg (by rintro (c | c); exact has c; exact hus c)]
                  rw [hk, hv1, ev1]
            · have e : (decide (k = 1) && a.AssignsToSlot1 T) = false := by simp [hk1']
              have e' : (decide (k ≠ 1) || decide (T.op1_flavor a.op = ZAMOp1Flavor.OP1_READ))
                  = true := by simp [hk1']
              simp only [ZInstI.isSlotField, e, Bool.false_or]
              rw [e', Bool.and_true] at hk
              have fe : i2.field k = a.field k := by
                interval_cases k
                · exact absurd rfl hk1'
                · exact e22.trans e12
                · exact e23.trans e13
                · exact e24.trans e14
              rw [fe] at hk
              exact hk
          · intro _ hn; rw [hgla] at hn; cases hn
          · simpa using auxpart _ eaux3

end ZAM

namespace ZAM

open Zeek (Failure)

theorem core_fields {a b : ZInstI} (h : a.core = b.core) :
    a.op = b.op ∧ a.op_type = b.op_type ∧ a.v1 = b.v1 ∧ a.v2 = b.v2 ∧ a.v3 = b.v3 ∧
      a.v4 = b.v4 ∧ a.aux = b.aux ∧ a.live = b.live :=
  ⟨(congrArg ZInstI.op h : _), (congrArg ZInstI.op_type h : _), (congrArg ZInstI.v1 h : _),
   (congrArg ZInstI.v2 h : _), (congrArg ZInstI.v3 h : _), (congrArg ZInstI.v4 h : _),
   (congrArg ZInstI.aux h : _), (congrArg ZInstI.live h : _)⟩

/-- The relation `Rewritten` looks at the opcode, the operand type, the four
operands and the auxiliary block only. -/
theorem Rewritten_congr (T : OpTables) (R : ReMapTables) (f g : List Int)
    {a a' b b' : ZInstI}
    (ha : a'.op = a.op ∧ a'.op_type = a.op_type ∧ a'.v1 = a.v1 ∧ a'.v2 = a.v2 ∧
      a'.v3 = a.v3 ∧ a'.v4 = a.v4 ∧ a'.aux = a.aux)
    (hb : b'.op = b.op ∧ b'.op_type = b.op_type ∧ b'.v1 = b.v1 ∧ b'.v2 = b.v2 ∧
      b'.v3 = b.v3 ∧ b'.v4 = b.v4 ∧ b'.aux = b.aux)
    (h : Rewritten T R f g a b) : Rewritten T R f g a' b' := by
  obtain ⟨op, ty, v1, v2, v3, v4, live, t1, t2, nl, ld, aux⟩ := a
  obtain ⟨op', ty', v1', v2', v3', v4', live', t1', t2', nl', ld', aux'⟩ := a'
  obtain ⟨bop, bty, bv1, bv2, bv3, bv4, blive, bt1, bt2, bnl, bld, baux⟩ := b
  obtain ⟨bop', bty', bv1', bv2', bv3', bv4', blive', bt1', bt2', bnl', bld', baux'⟩ := b'
  simp only at ha hb
  obtain ⟨rfl, rfl, rfl, rfl, rfl, rfl, rfl⟩ := ha
  obtain ⟨rfl, rfl, rfl, rfl, rfl, rfl, rfl⟩ := hb
  exact h

/-- One iteration of the rewriting loop: the instruction at position `i`, if
live, is rewritten; every other instruction keeps all but its label count. -/
theorem ReMapFrame_rewrite_at_spec (T : OpTables) (R : ReMapTables) (f g : List Int)
    (cur mid : List ZInstI) (i : Nat)
    (h : ReMapFrame_rewrite_at T R f g cur i = .ok mid) :
    mid.length = cur.length ∧
    ∀ j x, cur[j]? = some x → ∃ m, mid[j]? = some m ∧
      (if j = i ∧ x.live = true then Rewritten T R f g x m else m.core = x.core) := by
  unfold ReMapFrame_rewrite_at at h
  cases hx : cur[i]? with
  | none =>
    simp only [hx] at h
    cases h
    refine ⟨rfl, fun j x hj => ⟨x, hj, ?_⟩⟩
    rw [if_neg]
    rintro ⟨e, _⟩
    rw [e, hx] at hj; cases hj
  | some inst =>
    simp only [hx] at h
    by_cases hl : inst.live = true
    · simp only [hl, Bool.not_true, Bool.false_eq_true, if_false] at h
      cases hr : remapInst T R f g inst with
      | error e => simp only [hr] at h; cases h
      | ok r =>
        obtain ⟨inst', kill⟩ := r
        simp only [hr] at h
        have hrew := remapInst_spec T R f g inst inst' kill hr
        cases h
        refine ⟨?_, ?_⟩
        · split
          · rw [KillInst_length, updAt_length]
          · rw [updAt_length]
        · intro j x hj
          by_cases hji : j = i
          · subst hji
            rw [hx] at hj
            cases hj
            have hup : (updAt (fun _ => inst') cur j)[j]? = some inst' := by
              rw [getElem?_updAt, if_pos rfl, hx]; rfl
            cases kill with
            | false =>
              refine ⟨inst', by simpa using hup, ?_⟩
              rw [if_pos ⟨rfl, hl⟩]
              exact hrew
            | true =>
              have hk := KillInst_core_self (updAt (fun _ => inst') cur j) j
              rw [hup] at hk
              cases hm : (KillInst (updAt (fun _ => inst') cur j) j)[j]? with
              | none => rw [hm] at hk; cases hk
              | some m =>
                rw [hm] at hk
                simp only [Option.map_some', Option.some.injEq] at hk
                refine ⟨m, by simpa using hm, ?_⟩
                rw [if_pos ⟨rfl, hl⟩]
                refine Rewritten_congr T R f g ⟨rfl, rfl, rfl, rfl, rfl, rfl, rfl⟩ ?_ hrew
                exact ⟨(congrArg ZInstI.op hk : _), (congrArg ZInstI.op_type hk : _), (congrArg ZInstI.v1 hk : _),
                  (congrArg ZInstI.v2 hk : _), (congrArg ZInstI.v3 hk : _), (congrArg ZInstI.v4 hk : _),
                  (congrArg ZInstI.aux hk : _)⟩
          · have hup : (updAt (fun _ => inst') cur i)[j]? = some x := by
              rw [getElem?_updAt, if_neg hji, hj]
            have hno : ¬ (j = i ∧ x.live = true) := fun c => hji c.1
            cases kill with
            | false => exact ⟨x, by simpa using hup, by rw [if_neg hno]⟩
            | true =>
              have hk := KillInst_core_other (updAt (fun _ => inst') cur i) i j hji
              rw [hup] at hk
              cases hm : (KillInst (updAt (fun _ => inst') cur i) i)[j]? with
              | none => rw [hm] at hk; cases hk
              | some m =>
                rw [hm] at hk
                simp only [Option.map_some', Option.some.injEq] at hk
                exact ⟨m, by simpa using hm, by rw [if_neg hno]; exact hk⟩
    · have hl' : inst.live = false := by simpa using hl
      simp only [hl', Bool.not_false, if_true] at h
      cases h
      refine ⟨rfl, fun j x hj => ⟨x, hj, ?_⟩⟩
      rw [if_neg]
      rintro ⟨e, hxl⟩
      rw [e, hx] at hj
      cases hj
      exact hl hxl

/-- The rewriting loop over the positions `i, ..., i+k-1`: the live
instructions at these positions are rewritten, every other instruction keeps
all but its label count. -/
theorem ReMapFrame_rewrite_loop_spec (T : OpTables) (R : ReMapTables) (f g : List Int) :
    ∀ (k i : Nat) (cur out : List ZInstI),
      ReMapFrame_rewrite_loop T R f g k i cur = .ok out →
      out.length = cur.length ∧
      ∀ j x, cur[j]? = some x → ∃ y, out[j]? = some y ∧
        (if (i ≤ j ∧ j < i + k) ∧ x.live = true then Rewritten T R f g x y
         else y.core = x.core) := by
  intro k
  induction k with
  | zero =>
    intro i cur out h
    cases h
    refine ⟨rfl, fun j x hj => ⟨x, hj, ?_⟩⟩
    rw [if_neg]
    rintro ⟨⟨h1, h2⟩, _⟩
    omega
  | succ k ih =>
    intro i cur out h
    unfold ReMapFrame_rewrite_loop at h
    cases hat : ReMapFrame_rewrite_at T R f g cur i with
    | error e => simp only [hat] at h; cases h
    | ok mid =>
      simp only [hat] at h
      obtain ⟨len1, at1⟩ := ReMapFrame_rewrite_at_spec T R f g cur mid i hat
      obtain ⟨len2, at2⟩ := ih (i + 1) mid out h
      refine ⟨len2.trans len1, ?_⟩
      intro j x hj
      obtain ⟨m, hm, hxm⟩ := at1 j x hj
      obtain ⟨y, hy, hmy⟩ := at2 j m hm
      refine ⟨y, hy, ?_⟩
      by_cases hji : j = i
      · subst hji
        rw [if_neg (by rintro ⟨⟨h1, _⟩, _⟩; omega)] at hmy
        by_cases hl : x.live = true
        · rw [if_pos ⟨rfl, hl⟩] at hxm
          rw [if_pos ⟨⟨le_refl _, by omega⟩, hl⟩]
          obtain ⟨c1, c2, c3, c4, c5, c6, c7, _⟩ := core_fields hmy
          exact Rewritten_congr T R f g ⟨rfl, rfl, rfl, rfl, rfl, rfl, rfl⟩
            ⟨c1, c2, c3, c4, c5, c6, c7⟩ hxm
        · rw [if_neg (fun c => hl c.2)] at hxm
          rw [if_neg (fun c => hl c.2)]
          exact hmy.trans hxm
      · rw [if_neg (fun c => hji c.1)] at hxm
        obtain ⟨c1, c2, c3, c4, c5, c6, c7, c8⟩ := core_fields hxm
        by_cases hc : (i + 1 ≤ j ∧ j < i + 1 + k) ∧ m.live = true
        · rw [if_pos hc] at hmy
          rw [if_pos ⟨⟨by omega, by omega⟩, c8 ▸ hc.2⟩]
          exact Rewritten_congr T R f g
            ⟨c1.symm, c2.symm, c3.symm, c4.symm, c5.symm, c6.symm, c7.symm⟩
            ⟨rfl, rfl, rfl, rfl, rfl, rfl, rfl⟩ hmy
        · rw [if_neg hc] at hmy
          rw [if_neg]
          · exact hmy.trans hxm
          · rintro ⟨⟨h1, h2⟩, h3⟩
            exact hc ⟨⟨by omega, by omega⟩, c8 ▸ h3⟩

end ZAM

namespace ZAM

open Zeek (Failure)

/-- C30: in the body `x = f(y); return x` the variable `y` is never set and
gets no shared slot.  `ReMapFrame` returns with one shared slot and with `-1`
as operand 2 of the live instruction 0, a frame-slot operand outside
`[0, frame_sizeI)`. -/
theorem ReMapFrame_operand_out_of_range :
    ∃ (L : Lifetimes) (r : ReMapped) (inst' : ZInstI),
      ComputeFrameLifetimes lifetimeTables threeLocals [] useUnset = .ok L ∧
      ReMapFrame lifetimeTables noReMapOps (L.toFrameInfo 3 (fun _ => false)) [] useUnset =
        .ok r ∧
      r.frame_sizeI = 1 ∧ r.insts1[0]? = some inst' ∧ inst'.live = true ∧
      inst'.isSlotField lifetimeTables 2 = true ∧ inst'.v2 = -1 :=
  ⟨_, _, _, rfl, rfl, rfl, rfl, rfl, by decide, rfl⟩

/-- C30 (amended): when `ReMapFrame` returns, every live instruction has been
rewritten as `Rewritten` says: each frame-slot operand (the operands among
`v1` to `v4` that `AssignsToSlot1` and `UsesSlot` name, the loop variables of
the two table-iteration opcodes, the auxiliary slots that are not negative)
is replaced by its entry in `frame1_to_frame2`, looked up once; operand 2 of
a global load, and operand 1 of an `OP_DIRTY_GLOBAL_V` that does not assign
to it, are replaced by their entry in `remapped_globals` and not looked up in
the frame map; every other operand is as before.  Each entry of the frame
map, hence each frame-slot operand afterwards, is `-1` (no shared slot for
the original slot) or lies in `[0, frame_sizeI)`.  An instruction that is
not live keeps all but its label count. -/
theorem ReMapFrame_rewrites_operands (T : OpTables) (R : ReMapTables) (F : FrameInfo)
    (globalsI : List Int) (insts : List ZInstI) (r : ReMapped)
    (h : ReMapFrame T R F globalsI insts = .ok r) :
    r.insts1.length = insts.length ∧
    r.frame_sizeI = r.shared_frame_denizens.length ∧
    (∀ s w, slotAt r.frame1_to_frame2 s = some w →
      w = -1 ∨ (0 ≤ w ∧ w < (r.frame_sizeI : Int))) ∧
    ∃ used g, remapGlobals r.frame1_to_frame2 globalsI 0 = .ok (used, g) ∧
      ∀ (i : Nat) (inst : ZInstI), insts[i]? = some inst →
        ∃ inst', r.insts1[i]? = some inst' ∧
          (if inst.live = true then Rewritten T R r.frame1_to_frame2 g inst inst'
           else inst'.core = inst.core) := by
  unfold ReMapFrame at h
  simp only at h
  cases hg : remapGlobals (ReMapFrame_assign F insts.length).frame1_to_frame2 globalsI 0 with
  | error e => simp only [hg] at h; cases h
  | ok p =>
    obtain ⟨used, g⟩ := p
    simp only [hg] at h
    cases hl : ReMapFrame_rewrite_loop T R (ReMapFrame_assign F insts.length).frame1_to_frame2 g
        insts.length 0 insts with
    | error e => simp only [hl] at h; cases h
    | ok out =>
      simp only [hl] at h
      cases h
      obtain ⟨len, hall⟩ := ReMapFrame_rewrite_loop_spec T R _ g _ _ _ _ hl
      refine ⟨len, rfl, ?_, used, g, hg, ?_⟩
      · intro s w hs
        exact ReMapFrame_assign_MapInRange F insts.length w (slotAt_mem hs)
      · intro i inst hi
        obtain ⟨y, hy, hxy⟩ := hall i inst hi
        refine ⟨y, hy, ?_⟩
        have hlt : i < insts.length := (List.getElem?_eq_some.1 hi).1
        by_cases hlive : inst.live = true
        · rw [if_pos ⟨⟨Nat.zero_le _, by omega⟩, hlive⟩] at hxy
          rw [if_pos hlive]
          exact hxy
        · rw [if_neg (fun c => hlive c.2)] at hxy
          rw [if_neg hlive]
          exact hxy

/-- C30 on the body `x = c; y = f(x); x = c; z = f(y); return z` with the
lifetimes that `ComputeFrameLifetimes` computes for it: the three variables
share one slot. -/
theorem ReMapFrame_rewrites_operands_witness :
    ∃ r : ReMapped,
      ReMapFrame lifetimeTables noReMapOps (frameInfoOf lifetimeTables threeLocals staleStore)
        [] staleStore = .ok r ∧
      r.frame1_to_frame2 = [0, 0, 0] ∧
      r.insts1.length = staleStore.length ∧
      r.frame_sizeI = r.shared_frame_denizens.length ∧
      (∀ s w, slotAt r.frame1_to_frame2 s = some w →
        w = -1 ∨ (0 ≤ w ∧ w < (r.frame_sizeI : Int))) ∧
      ∃ used g, remapGlobals r.frame1_to_frame2 [] 0 = .ok (used, g) ∧
        ∀ (i : Nat) (inst : ZInstI), staleStore[i]? = some inst →
          ∃ inst', r.insts1[i]? = some inst' ∧
            (if inst.live = true then
               Rewritten lifetimeTables noReMapOps r.frame1_to_frame2 g inst inst'
             else inst'.core = inst.core) := by
  refine ⟨_, rfl, rfl, ?_⟩
  exact ReMapFrame_rewrites_operands lifetimeTables noReMapOps
    (frameInfoOf lifetimeTables threeLocals staleStore) [] staleStore _ rfl

end ZAM

namespace ZAM

open Zeek (Failure)

theorem Extends_refl (L : Lifetimes) : Extends L L :=
  ⟨fun _ _ h => h, fun _ e h => ⟨e, h, le_refl _⟩⟩

theorem Extends_trans {L1 L2 L3 : Lifetimes} (h12 : Extends L1 L2) (h23 : Extends L2 L3) :
    Extends L1 L3 := by
  refine ⟨fun s b h => h23.1 s b (h12.1 s b h), ?_⟩
  intro s e h
  obtain ⟨e', h', le1⟩ := h12.2 s e h
  obtain ⟨e'', h'', le2⟩ := h23.2 s e' h'
  exact ⟨e'', h'', le_trans le1 le2⟩

theorem BeginsBy_mono {L1 L2 : Lifetimes} {i : Nat} {s : Int} (h : BeginsBy L1 i s)
    (hx : Extends L1 L2) : BeginsBy L2 i s := by
  obtain ⟨b, hb, le⟩ := h
  exact ⟨b, hx.1 s b hb, le⟩

theorem EndsFrom_mono {L1 L2 : Lifetimes} {t : Nat} {s : Int} (h : EndsFrom L1 t s)
    (hx : Extends L1 L2) : EndsFrom L2 t s := by
  obtain ⟨e, he, le⟩ := h
  obtain ⟨e', he', le'⟩ := hx.2 s e he
  exact ⟨e', he', le_trans le le'⟩

theorem EndsFrom_weaken {L : Lifetimes} {t t' : Nat} {s : Int} (h : EndsFrom L t s)
    (le : t' ≤ t) : EndsFrom L t' s := by
  obtain ⟨e, he, le1⟩ := h
  exact ⟨e, he, le_trans le le1⟩

theorem BeginsBy_weaken {L : Lifetimes} {i i' : Nat} {s : Int} (h : BeginsBy L i s)
    (le : i ≤ i') : BeginsBy L i' s := by
  obtain ⟨b, hb, le1⟩ := h
  exact ⟨b, hb, le_trans le1 le⟩

/-! ### The bounds of a loop -/

theorem skipDeadFwd_le (insts : List ZInstI) (i0 : Nat) :
    ∀ (k i : Nat), i ≤ i0 → skipDeadFwd insts i0 k i ≤ i0 := by
  intro k
  induction k with
  | zero => intro i h; exact h
  | succ k ih =>
    intro i h
    unfold skipDeadFwd
    split
    · rename_i hc
      have hne : i ≠ i0 := by
        simp only [Bool.and_eq_true, decide_eq_true_eq] at hc
        simpa using hc.1
      exact ih (i + 1) (by omega)
    · exact h

theorem BeginningOfLoop_le (insts : List ZInstI) (i0 : Nat) (depth : Int) :
    BeginningOfLoop insts i0 depth ≤ i0 := by
  unfold BeginningOfLoop
  simp only
  split
  · exact le_refl _
  · rename_i hne
    have hle : ∀ n, scanLoopBack insts depth n ≤ n := by
      intro n
      induction n with
      | zero => simp [scanLoopBack]
      | succ n ih =>
        unfold scanLoopBack
        split
        · omega
        · exact le_refl _
    have := hle (i0 + 1)
    exact skipDeadFwd_le insts i0 _ _ (by omega)

theorem scanLoopFwd_ge (insts : List ZInstI) (depth : Int) :
    ∀ (k i : Nat), i ≤ scanLoopFwd insts depth k i := by
  intro k
  induction k with
  | zero => intro i; exact le_refl _
  | succ k ih =>
    intro i
    unfold scanLoopFwd
    split
    · exact le_trans (Nat.le_succ i) (ih (i + 1))
    · exact le_refl _

theorem skipDeadBack_ge (insts : List ZInstI) (i0 : Nat) :
    ∀ n : Nat, i0 ≤ n → i0 ≤ skipDeadBack insts i0 n := by
  intro n
  induction n with
  | zero => intro h; simpa [skipDeadBack] using h
  | succ n ih =>
    intro h
    unfold skipDeadBack
    split
    · rename_i hc
      have hne : n + 1 ≠ i0 := by
        simp only [Bool.and_eq_true, decide_eq_true_eq] at hc
        simpa using hc.1
      exact ih (by omega)
    · exact h

theorem EndOfLoop_ge (insts : List ZInstI) (i0 : Nat) (depth : Int) :
    i0 ≤ EndOfLoop insts i0 depth := by
  unfold EndOfLoop
  simp only
  split
  · exact le_refl _
  · rename_i hne
    have := scanLoopFwd_ge insts depth (insts.length - i0) i0
    exact skipDeadBack_ge insts i0 _ (by omega)

theorem scanLoopFwd_past (insts : List ZInstI) (depth : Int) :
    ∀ (fuel i k : Nat), i ≤ k → k < i + fuel →
      (∀ m, i ≤ m → m ≤ k → m < insts.length ∧ loopDepthAt insts m ≥ depth) →
      k < scanLoopFwd insts depth fuel i := by
  intro fuel
  induction fuel with
  | zero => intro i k h1 h2 _; omega
  | succ fuel ih =>
    intro i k h1 h2 hall
    unfold scanLoopFwd
    have hi := hall i (le_refl _) h1
    have hc : (decide (i < insts.length) && decide (loopDepthAt insts i ≥ depth)) = true := by
      simp [hi.1, hi.2]
    rw [if_pos hc]
    by_cases hk : k = i
    · subst hk
      exact Nat.lt_of_lt_of_le (Nat.lt_succ_self _) (scanLoopFwd_ge insts depth fuel (k + 1))
    · exact ih (i + 1) k (by omega) (by omega) (fun m hm1 hm2 => hall m (by omega) hm2)

theorem skipDeadBack_live (insts : List ZInstI) (i0 k : Nat) (hk : liveAt insts k = true) :
    ∀ n : Nat, k ≤ n → k ≤ skipDeadBack insts i0 n := by
  intro n
  induction n with
  | zero => intro h; simpa [skipDeadBack] using h
  | succ n ih =>
    intro h
    unfold skipDeadBack
    split
    · rename_i hc
      have hne : n + 1 ≠ k := by
        intro e
        rw [e, hk] at hc
        simp at hc
      exact ih (by omega)
    · exact h

/-- The instruction that `EndOfLoop` returns is at or after every live
instruction that the loop of depth `depth` around position `i0` holds from
`i0` on. -/
theorem EndOfLoop_covers (insts : List ZInstI) (i0 : Nat) (depth : Int) (k : Nat)
    (h1 : i0 ≤ k)
    (hall : ∀ m, i0 ≤ m → m ≤ k → m < insts.length ∧ loopDepthAt insts m ≥ depth)
    (hk : liveAt insts k = true) : k ≤ EndOfLoop insts i0 depth := by
  have hlen := (hall k h1 (le_refl _)).1
  have hp := scanLoopFwd_past insts depth (insts.length - i0) i0 k h1 (by omega) hall
  unfold EndOfLoop
  simp only
  split
  · omega
  · exact skipDeadBack_live insts i0 k hk _ (by omega)

end ZAM

namespace ZAM

open Zeek (Failure)

theorem SetLifetimeStart_spec (L L' : Lifetimes) (s : Int) (i : Nat)
    (h : SetLifetimeStart L s i = .ok L') : Extends L L' ∧ BeginsBy L' i s := by
  unfold SetLifetimeStart at h
  cases hb : L.denizen_beginning s with
  | some b =>
    simp only [hb] at h
    by_cases hle : b ≤ i
    · rw [if_pos hle] at h
      cases h
      exact ⟨Extends_refl _, b, hb, hle⟩
    · rw [if_neg hle] at h; cases h
  | none =>
    simp only [hb] at h
    cases h
    refine ⟨⟨?_, fun s' e he => ⟨e, he, le_refl _⟩⟩, i, by simp, le_refl _⟩
    intro s' b hs'
    by_cases e : s' = s
    · subst e; rw [hb] at hs'; cases hs'
    · simpa [e] using hs'

theorem CheckSlotAssignment_spec (D : FrameDenizens) (insts : List ZInstI) (L L' : Lifetimes)
    (s : Int) (i : Nat) (h : CheckSlotAssignment D insts L s i = .ok L') :
    Extends L L' ∧ BeginsBy L' i s := by
  unfold CheckSlotAssignment at h
  split at h
  · cases h
  · obtain ⟨hx, hb⟩ := SetLifetimeStart_spec L L' s _ h
    refine ⟨hx, BeginsBy_weaken hb ?_⟩
    split
    · exact BeginningOfLoop_le insts i 1
    · exact le_refl _

theorem ExtendLifetime_spec (D : FrameDenizens) (insts : List ZInstI) (L L' : Lifetimes)
    (s : Int) (t : Nat) (h : ExtendLifetime D insts L s t = .ok L') :
    Extends L L' ∧ EndsFrom L' t s := by
  unfold ExtendLifetime at h
  cases he : L.denizen_ending s with
  | some old =>
    simp only [he] at h
    split at h
    · rename_i hc
      cases h
      simp only [Bool.and_eq_true, decide_eq_true_eq] at hc
      exact ⟨Extends_refl _, old, he, hc.2⟩
    · split at h
      · cases h
      · split at h
        · rename_i hlt
          cases h
          refine ⟨⟨fun _ _ hb => hb, ?_⟩, t, by simp, le_refl _⟩
          intro s' e hs'
          by_cases e1 : s' = s
          · subst e1
            rw [he] at hs'
            cases hs'
            exact ⟨t, by simp, le_of_lt hlt⟩
          · exact ⟨e, by simpa [e1] using hs', le_refl _⟩
        · rename_i hnlt
          cases h
          exact ⟨Extends_refl _, old, he, by omega⟩
  | none =>
    simp only [he] at h
    cases h
    refine ⟨⟨fun _ _ hb => hb, ?_⟩, t, by simp, le_refl _⟩
    intro s' e hs'
    by_cases e1 : s' = s
    · subst e1; rw [he] at hs'; cases hs'
    · exact ⟨e, by simpa [e1] using hs', le_refl _⟩

theorem CheckSlotUse_spec (D : FrameDenizens) (insts : List ZInstI) (L L' : Lifetimes)
    (s : Int) (i : Nat) (h : CheckSlotUse D insts L s i = .ok L') :
    Extends L L' ∧ (0 ≤ s → EndsFrom L' i s) := by
  unfold CheckSlotUse at h
  split at h
  · rename_i hneg
    cases h
    exact ⟨Extends_refl _, fun h0 => absurd hneg (by omega)⟩
  · split at h
    · cases h
    · split at h
      · cases hb : L.denizen_beginning s with
        | none => simp only [hb] at h; cases h
        | some b =>
          simp only [hb] at h
          split at h
          · obtain ⟨hx, he⟩ := ExtendLifetime_spec D insts L L' s _ h
            exact ⟨hx, fun _ => EndsFrom_weaken he (EndOfLoop_ge insts i _)⟩
          · obtain ⟨hx, he⟩ := ExtendLifetime_spec D insts L L' s _ h
            exact ⟨hx, fun _ => he⟩
      · obtain ⟨hx, he⟩ := ExtendLifetime_spec D insts L L' s _ h
        exact ⟨hx, fun _ => EndsFrom_weaken he (EndOfLoop_ge insts i _)⟩

/-- A loop over slots whose steps carry the maps on and each establish a
fact that carrying on preserves: the fact holds of every slot at the end. -/
theorem forSlots_spec (f : Lifetimes → Int → Except Failure Lifetimes)
    (Q : Int → Lifetimes → Prop)
    (hQ : ∀ s L1 L2, Extends L1 L2 → Q s L1 → Q s L2)
    (hf : ∀ L1 s L2, f L1 s = .ok L2 → Extends L1 L2 ∧ Q s L2) :
    ∀ (l : List Int) (L L' : Lifetimes), forSlots f l L = .ok L' →
      Extends L L' ∧ ∀ s ∈ l, Q s L' := by
  intro l
  induction l with
  | nil =>
    intro L L' h
    cases h
    exact ⟨Extends_refl _, fun s hs => by cases hs⟩
  | cons s rest ih =>
    intro L L' h
    unfold forSlots at h
    cases h1 : f L s with
    | error e => simp only [h1] at h; cases h
    | ok L1 =>
      simp only [h1] at h
      obtain ⟨x1, q1⟩ := hf L s L1 h1
      obtain ⟨x2, q2⟩ := ih L1 L' h
      refine ⟨Extends_trans x1 x2, ?_⟩
      intro s' hs'
      rcases List.mem_cons.1 hs' with e | e
      · subst e; exact hQ _ _ _ x2 q1
      · exact q2 s' e

end ZAM

namespace ZAM

open Zeek (Failure)

/-- A slot that `UsesSlot` reports is among the four that `UsesSlots`
returns. -/
theorem UsesSlot_mem_UsesSlots (T : OpTables) (inst : ZInstI) (s : Int)
    (h : inst.UsesSlot T s = true) :
    ∃ s1 s2 s3 s4, inst.UsesSlots T = some (s1, s2, s3, s4) ∧
      (s = s1 ∨ s = s2 ∨ s = s3 ∨ s = s4) := by
  obtain ⟨op, ty, v1, v2, v3, v4, live, t1, t2, nl, ld, aux⟩ := inst
  cases ty <;> simp only [ZInstI.UsesSlot, ZInstI.UsesSlots] at h ⊢ <;>
    cases hfl : T.op1_flavor op <;>
    simp [hfl] at h ⊢ <;> exact ⟨_, _, _, _, ⟨rfl, rfl, rfl, rfl⟩, by omega⟩

theorem checkUses_spec (T : OpTables) (D : FrameDenizens) (insts : List ZInstI)
    (L L' : Lifetimes) (i : Nat) (inst : ZInstI)
    (h : checkUses T D insts L i inst = .ok L') :
    Extends L L' ∧ ∀ s, 0 ≤ s → inst.UsesSlot T s = true → EndsFrom L' i s := by
  unfold checkUses at h
  cases hu : inst.UsesSlots T with
  | none =>
    simp only [hu] at h
    cases h
    refine ⟨Extends_refl _, fun s _ hs => ?_⟩
    obtain ⟨_, _, _, _, e, _⟩ := UsesSlot_mem_UsesSlots T inst s hs
    rw [hu] at e; cases e
  | some p =>
    obtain ⟨s1, s2, s3, s4⟩ := p
    simp only [hu] at h
    obtain ⟨hx, hall⟩ := forSlots_spec (fun L1 s => CheckSlotUse D insts L1 s i)
      (fun s L => 0 ≤ s → EndsFrom L i s)
      (fun s L1 L2 x q h0 => EndsFrom_mono (q h0) x)
      (fun L1 s L2 hh => CheckSlotUse_spec D insts L1 L2 s i hh) _ L L' h
    refine ⟨hx, fun s h0 hs => ?_⟩
    obtain ⟨a, b, c, d, e, hm⟩ := UsesSlot_mem_UsesSlots T inst s hs
    rw [hu] at e
    simp only [Option.some.injEq, Prod.mk.injEq] at e
    obtain ⟨rfl, rfl, rfl, rfl⟩ := e
    exact hall s (by simp; tauto) h0

end ZAM

namespace ZAM

open Zeek (Failure)

/-- What the `switch` of `ComputeFrameLifetimes` records. -/
theorem specialCases_spec (D : FrameDenizens) (mg : List Int) (insts : List ZInstI)
    (L L' : Lifetimes) (i : Nat) (inst : ZInstI) (cont : Bool)
    (h : specialCases D mg insts L i inst = .ok (L', cont)) :
    Extends L L' ∧
    (∀ s ∈ inst.iterVars, EndsFrom L' (EndOfLoop insts i inst.loop_depth) s) ∧
    (isTableIter inst.op = true → ∀ s ∈ inst.loopVars, BeginsBy L' i s) ∧
    (isDefaultOp inst.op = true → ∀ s ∈ inst.auxSlots, 0 ≤ s → EndsFrom L' i s) ∧
    (cont = (!isLoopInit inst.op)) ∧
    (isLoopInit inst.op = true → EndsFrom L' i inst.v2) := by
  have iter :
      (match inst.aux with
       | none => .error .unmodelled
       | some aux =>
         match forSlots (fun L1 v =>
             match CheckSlotAssignment D insts L1 v i with
             | .error e => .error e
             | .ok L2 => ExtendLifetime D insts L2 v (EndOfLoop insts i inst.loop_depth))
             aux.loop_vars L with
         | .error e => .error e
         | .ok L1 =>
           if inst.op = .OP_NEXT_TABLE_ITER_VAL_VAR_VVV then
             (match ExtendLifetime D insts L1 inst.v1 (EndOfLoop insts i inst.loop_depth) with
              | .error e => .error e
              | .ok L2 => .ok (L2, true))
           else .ok (L1, true) : Except Failure (Lifetimes × Bool)) = .ok (L', cont) →
      Extends L L' ∧ cont = true ∧
      (∀ s ∈ inst.loopVars, BeginsBy L' i s ∧
        EndsFrom L' (EndOfLoop insts i inst.loop_depth) s) ∧
      (inst.op = .OP_NEXT_TABLE_ITER_VAL_VAR_VVV →
        EndsFrom L' (EndOfLoop insts i inst.loop_depth) inst.v1) := by
    intro h
    cases haux : inst.aux with
    | none => simp only [haux] at h; cases h
    | some aux =>
      simp only [haux] at h
      cases hfs : forSlots (fun L1 v =>
             match CheckSlotAssignment D insts L1 v i with
             | .error e => .error e
             | .ok L2 => ExtendLifetime D insts L2 v (EndOfLoop insts i inst.loop_depth))
             aux.loop_vars L with
      | error e => simp only [hfs] at h; cases h
      | ok L1 =>
        simp only [hfs] at h
        obtain ⟨x1, q1⟩ := forSlots_spec _
          (fun s L => BeginsBy L i s ∧ EndsFrom L (EndOfLoop insts i inst.loop_depth) s)
          (fun s La Lb x q => ⟨BeginsBy_mono q.1 x, EndsFrom_mono q.2 x⟩)
          (by
            intro La s Lb hh
            cases hc : CheckSlotAssignment D insts La s i with
            | error e => simp only [hc] at hh; cases hh
            | ok Lc =>
              simp only [hc] at hh
              obtain ⟨xa, ba⟩ := CheckSlotAssignment_spec D insts La Lc s i hc
              obtain ⟨xb, eb⟩ := ExtendLifetime_spec D insts Lc Lb s _ hh
              exact ⟨Extends_trans xa xb, BeginsBy_mono ba xb, eb⟩)
          _ L L1 hfs
        have lv : inst.loopVars = aux.loop_vars := by simp [ZInstI.loopVars, haux]
        by_cases hop : inst.op = .OP_NEXT_TABLE_ITER_VAL_VAR_VVV
        · rw [if_pos hop] at h
          cases hx : ExtendLifetime D insts L1 inst.v1 (EndOfLoop insts i inst.loop_depth) with
          | error e => simp only [hx] at h; cases h
          | ok L2 =>
            simp only [hx] at h
            cases h
            obtain ⟨x2, e2⟩ := ExtendLifetime_spec D insts L1 L' inst.v1 _ hx
            refine ⟨Extends_trans x1 x2, rfl, ?_, fun _ => e2⟩
            intro s hs
            rw [lv] at hs
            exact ⟨BeginsBy_mono (q1 s hs).1 x2, EndsFrom_mono (q1 s hs).2 x2⟩
        · rw [if_neg hop] at h
          cases h
          refine ⟨x1, rfl, ?_, fun e => absurd e hop⟩
          intro s hs
          rw [lv] at hs
          exact q1 s hs
  have v1only :
      (match ExtendLifetime D insts L inst.v1 (EndOfLoop insts i inst.loop_depth) with
       | .error e => .error e
       | .ok L1 => .ok (L1, true) : Except Failure (Lifetimes × Bool)) = .ok (L', cont) →
      Extends L L' ∧ cont = true ∧
        EndsFrom L' (EndOfLoop insts i inst.loop_depth) inst.v1 := by
    intro h
    cases hx : ExtendLifetime D insts L inst.v1 (EndOfLoop insts i inst.loop_depth) with
    | error e => simp only [hx] at h; cases h
    | ok L2 =>
      simp only [hx] at h
      cases h
      obtain ⟨x2, e2⟩ := ExtendLifetime_spec D insts L L' inst.v1 _ hx
      exact ⟨x2, rfl, e2⟩
  have init :
      (if ¬ (i + 1 < insts.length) then .error (.internal "ASSERT(i < insts1.size() - 1)")
       else if !liveAt insts (i + 1) then .error (.internal "ASSERT(succ->live)")
       else
         (match ExtendLifetime D insts L inst.v2
             (EndOfLoop insts (i + 1) (loopDepthAt insts (i + 1))) with
          | .error e => .error e
          | .ok L1 => .ok (L1, false)) : Except Failure (Lifetimes × Bool)) = .ok (L', cont) →
      Extends L L' ∧ cont = false ∧ EndsFrom L' i inst.v2 := by
    intro h
    split at h
    · cases h
    · split at h
      · cases h
      · cases hx : ExtendLifetime D insts L inst.v2
            (EndOfLoop insts (i + 1) (loopDepthAt insts (i + 1))) with
        | error e => simp only [hx] at h; cases h
        | ok L2 =>
          simp only [hx] at h
          cases h
          obtain ⟨x2, e2⟩ := ExtendLifetime_spec D insts L L' inst.v2 _ hx
          have := EndOfLoop_ge insts (i + 1) (loopDepthAt insts (i + 1))
          exact ⟨x2, rfl, EndsFrom_weaken e2 (by omega)⟩
  unfold specialCases at h
  split at h
  · rename_i hop
    obtain ⟨x, c, lvs, _⟩ := iter h
    refine ⟨x, ?_, fun _ s hs => (lvs s hs).1, ?_, ?_, ?_⟩
    · intro s hs
      simp only [ZInstI.iterVars, hop] at hs
      exact (lvs s hs).2
    · intro hd; simp [isDefaultOp, hop] at hd
    · simp [isLoopInit, hop, c]
    · intro hd; simp [isLoopInit, hop] at hd
  · rename_i hop
    obtain ⟨x, c, lvs, hv1⟩ := iter h
    refine ⟨x, ?_, fun _ s hs => (lvs s hs).1, ?_, ?_, ?_⟩
    · intro s hs
      simp only [ZInstI.iterVars, hop, List.mem_append, List.mem_singleton] at hs
      rcases hs with hs | hs
      · exact (lvs s hs).2
      · rw [hs]; exact hv1 hop
    · intro hd; simp [isDefaultOp, hop] at hd
    · simp [isLoopInit, hop, c]
    · intro hd; simp [isLoopInit, hop] at hd
  · rename_i hop
    cases h
    refine ⟨Extends_refl _, ?_, ?_, ?_, ?_, ?_⟩
    · intro s hs; simp [ZInstI.iterVars, hop] at hs
    · intro hd; simp [isTableIter, hop] at hd
    · intro hd; simp [isDefaultOp, hop] at hd
    · simp [isLoopInit, hop]
    · intro hd; simp [isLoopInit, hop] at hd
  · rename_i hop
    obtain ⟨x, c, e⟩ := v1only h
    refine ⟨x, ?_, ?_, ?_, ?_, ?_⟩
    · intro s hs
      simp only [ZInstI.iterVars, hop, List.mem_singleton] at hs
      rw [hs]; exact e
    · intro hd; simp [isTableIter, hop] at hd
    · intro hd; simp [isDefaultOp, hop] at hd
    · simp [isLoopInit, hop, c]
    · intro hd; simp [isLoopInit, hop] at hd
  · rename_i hop
    obtain ⟨x, c, e⟩ := v1only h
    refine ⟨x, ?_, ?_, ?_, ?_, ?_⟩
    · intro s hs
      simp only [ZInstI.iterVars, hop, List.mem_singleton] at hs
      rw [hs]; exact e
    · intro hd; simp [isTableIter, hop] at hd
    · intro hd; simp [isDefaultOp, hop] at hd
    · simp [isLoopInit, hop, c]
    · intro hd; simp [isLoopInit, hop] at hd
  · rename_i hop
    obtain ⟨x, c, e⟩ := v1only h
    refine ⟨x, ?_, ?_, ?_, ?_, ?_⟩
    · intro s hs
      simp only [ZInstI.iterVars, hop, List.mem_singleton] at hs
      rw [hs]; exact e
    · intro hd; simp [isTableIter, hop] at hd
    · intro hd; simp [isDefaultOp, hop] at hd
    · simp [isLoopInit, hop, c]
    · intro hd; simp [isLoopInit, hop] at hd
  · rename_i hop
    cases hfs : forSlots (fun L1 gs =>
        if (L1.denizen_beginning gs).isNone then .ok L1
        else ExtendLifetime D insts L1 gs (EndOfLoop insts i 1)) mg L with
    | error e => simp only [hfs] at h; cases h
    | ok L1 =>
      simp only [hfs] at h
      cases h
      obtain ⟨x1, _⟩ := forSlots_spec _ (fun _ _ => True) (fun _ _ _ _ _ => trivial)
        (by
          intro La s Lb hh
          split at hh
          · cases hh; exact ⟨Extends_refl _, trivial⟩
          · exact ⟨(ExtendLifetime_spec D insts La Lb s _ hh).1, trivial⟩)
        _ L L' hfs
      refine ⟨x1, ?_, ?_, ?_, ?_, ?_⟩
      · intro s hs; simp [ZInstI.iterVars, hop] at hs
      · intro hd; simp [isTableIter, hop] at hd
      · intro hd; simp [isDefaultOp, hop] at hd
      · simp [isLoopInit, hop]
      · intro hd; simp [isLoopInit, hop] at hd
  · rename_i hop
    obtain ⟨x, c, e⟩ := init h
    refine ⟨x, ?_, ?_, ?_, ?_, fun _ => e⟩
    · intro s hs; simp [ZInstI.iterVars, hop] at hs
    · intro hd; simp [isTableIter, hop] at hd
    · intro hd; simp [isDefaultOp, hop] at hd
    · simp [isLoopInit, hop, c]
  · rename_i hop
    obtain ⟨x, c, e⟩ := init h
    refine ⟨x, ?_, ?_, ?_, ?_, fun _ => e⟩
    · intro s hs; simp [ZInstI.iterVars, hop] at hs
    · intro hd; simp [isTableIter, hop] at hd
    · intro hd; simp [isDefaultOp, hop] at hd
    · simp [isLoopInit, hop, c]
  · rename_i hop
    obtain ⟨x, c, e⟩ := init h
    refine ⟨x, ?_, ?_, ?_, ?_, fun _ => e⟩
    · intro s hs; simp [ZInstI.iterVars, hop] at hs
    · intro hd; simp [isTableIter, hop] at hd
    · intro hd; simp [isDefaultOp, hop] at hd
    · simp [isLoopInit, hop, c]
  · rename_i hop
    obtain ⟨x, c, e⟩ := init h
    refine ⟨x, ?_, ?_, ?_, ?_, fun _ => e⟩
    · intro s hs; simp [ZInstI.iterVars, hop] at hs
    · intro hd; simp [isTableIter, hop] at hd
    · intro hd; simp [isDefaultOp, hop] at hd
    · simp [isLoopInit, hop, c]
  · rename_i n1 n2 n3 n4 n5 n6 n7 n8 n9 n10 n11
    have hiv : inst.iterVars = [] := by
      unfold ZInstI.iterVars
      split <;> first | rfl | contradiction
    have hti : isTableIter inst.op = false := by
      simp only [isTableIter, Bool.or_eq_false_iff, decide_eq_false_iff_not]
      exact ⟨n1, n2⟩
    have hli : isLoopInit inst.op = false := by
      unfold isLoopInit
      split <;> first | rfl | contradiction
    have fin : ∀ L1, Extends L L1 → (∀ s ∈ inst.auxSlots, 0 ≤ s → EndsFrom L1 i s) →
        cont = true →
        Extends L L1 ∧
        (∀ s ∈ inst.iterVars, EndsFrom L1 (EndOfLoop insts i inst.loop_depth) s) ∧
        (isTableIter inst.op = true → ∀ s ∈ inst.loopVars, BeginsBy L1 i s) ∧
        (isDefaultOp inst.op = true → ∀ s ∈ inst.auxSlots, 0 ≤ s → EndsFrom L1 i s) ∧
        (cont = (!isLoopInit inst.op)) ∧
        (isLoopInit inst.op = true → EndsFrom L1 i inst.v2) := by
      intro L1 x hs c
      refine ⟨x, ?_, ?_, fun _ => hs, ?_, ?_⟩
      · intro s hs'; rw [hiv] at hs'; cases hs'
      · intro hd; rw [hti] at hd; cases hd
      · simp [hli, c]
      · intro hd; rw [hli] at hd; cases hd
    cases haux : inst.aux with
    | none =>
      simp only [haux] at h
      cases h
      exact fin _ (Extends_refl _) (fun s hs => by simp [ZInstI.auxSlots, haux] at hs) rfl
    | some aux =>
      simp only [haux] at h
      cases hsl : aux.slots with
      | none =>
        simp only [hsl] at h
        cases h
        exact fin _ (Extends_refl _)
          (fun s hs => by simp [ZInstI.auxSlots, haux, hsl] at hs) rfl
      | some slots =>
        simp only [hsl] at h
        cases hfs : forSlots (fun L1 s =>
             if s < 0 then .ok L1 else ExtendLifetime D insts L1 s (EndOfLoop insts i 1))
             slots L with
        | error e => simp only [hfs] at h; cases h
        | ok L1 =>
          simp only [hfs] at h
          cases h
          obtain ⟨x1, q1⟩ := forSlots_spec _ (fun s La => 0 ≤ s → EndsFrom La i s)
            (fun s La Lb x q h0 => EndsFrom_mono (q h0) x)
            (by
              intro La s Lb hh
              split at hh
              · rename_i hneg
                cases hh
                exact ⟨Extends_refl _, fun h0 => absurd hneg (by omega)⟩
              · obtain ⟨xa, ea⟩ := ExtendLifetime_spec D insts La Lb s _ hh
                exact ⟨xa, fun _ => EndsFrom_weaken ea (EndOfLoop_ge insts i 1)⟩)
            _ L L' hfs
          refine fin _ x1 ?_ rfl
          intro s hs
          have : s ∈ slots := by simpa [ZInstI.auxSlots, haux, hsl] using hs
          exact q1 s this

end ZAM

namespace ZAM

open Zeek (Failure)

theorem RecordedAt_mono {T : OpTables} {insts : List ZInstI} {L1 L2 : Lifetimes} {i : Nat}
    {inst : ZInstI} (h : RecordedAt T insts L1 i inst) (x : Extends L1 L2) :
    RecordedAt T insts L2 i inst :=
  ⟨fun s hs => BeginsBy_mono (h.1 s hs) x,
   fun s h0 hs hi => EndsFrom_mono (h.2.1 s h0 hs hi) x,
   fun s hs => EndsFrom_mono (h.2.2 s hs) x⟩

/-- The body of the loop of `ComputeFrameLifetimes` carries the maps on and
records the instruction it looks at. -/
theorem ComputeFrameLifetimes_at_spec (T : OpTables) (D : FrameDenizens) (mg : List Int)
    (insts : List ZInstI) (L L' : Lifetimes) (i : Nat)
    (h : ComputeFrameLifetimes_at T D mg insts L i = .ok L') :
    Extends L L' ∧
    ∀ inst, insts[i]? = some inst → inst.live = true → RecordedAt T insts L' i inst := by
  unfold ComputeFrameLifetimes_at at h
  cases hi : insts[i]? with
  | none =>
    simp only [hi] at h
    cases h
    exact ⟨Extends_refl _, fun inst hc => by cases hc⟩
  | some inst =>
    simp only [hi] at h
    by_cases hl : inst.live = true
    · simp only [hl, Bool.not_true, Bool.false_eq_true, if_false] at h
      -- the assignment to operand 1
      obtain ⟨L1, h1, x1, b1⟩ : ∃ L1,
          (if inst.AssignsToSlot1 T = true then CheckSlotAssignment D insts L inst.v1 i
           else .ok L) = .ok L1 ∧ Extends L L1 ∧
          (inst.AssignsToSlot1 T = true → BeginsBy L1 i inst.v1) := by
        by_cases ha : inst.AssignsToSlot1 T = true
        · simp only [ha, if_true] at h ⊢
          cases hc : CheckSlotAssignment D insts L inst.v1 i with
          | error e => simp only [hc] at h; cases h
          | ok L1 =>
            obtain ⟨x, b⟩ := CheckSlotAssignment_spec D insts L L1 inst.v1 i hc
            exact ⟨L1, rfl, x, fun _ => b⟩
        · simp only [ha, if_false] at h ⊢
          exact ⟨L, rfl, Extends_refl _, fun c => absurd c (by simp)⟩
      rw [h1] at h
      simp only at h
      cases hs : specialCases D mg insts L1 i inst with
      | error e => simp only [hs] at h; cases h
      | ok p =>
        obtain ⟨L2, cont⟩ := p
        obtain ⟨x2, iv, lvb, auxe, hcont, hv2⟩ := specialCases_spec D mg insts L1 L2 i inst cont hs
        have fin : ∀ L3, Extends L2 L3 →
            (isLoopInit inst.op = false →
              ∀ s, 0 ≤ s → inst.UsesSlot T s = true → EndsFrom L3 i s) →
            Extends L L3 ∧
            ∀ inst', some inst = some inst' → inst'.live = true →
              RecordedAt T insts L3 i inst' := by
          intro L3 x3 huse
          refine ⟨Extends_trans x1 (Extends_trans x2 x3), ?_⟩
          intro inst' e _
          cases e
          refine ⟨?_, ?_, fun s hs => EndsFrom_mono (iv s hs) x3⟩
          · intro s hs
            simp only [ZInstI.assignsSlot, Bool.or_eq_true, Bool.and_eq_true,
              decide_eq_true_eq, List.contains_eq_any_beq, List.any_eq_true, beq_iff_eq] at hs
            rcases hs with ⟨ha, e⟩ | ⟨ht, y, hm, rfl⟩
            · rw [← e]
              exact BeginsBy_mono (b1 ha) (Extends_trans x2 x3)
            · exact BeginsBy_mono (lvb ht s hm) x3
          · intro s h0 hs hin
            by_cases hli : isLoopInit inst.op = true
            · rw [hin hli]
              exact EndsFrom_mono (hv2 hli) x3
            · have hli' : isLoopInit inst.op = false := by simpa using hli
              simp only [ZInstI.usesSlot, Bool.or_eq_true, Bool.and_eq_true,
                List.contains_eq_any_beq, List.any_eq_true, beq_iff_eq] at hs
              rcases hs with hu | ⟨hd, y, hm, rfl⟩
              · exact huse hli' s h0 hu
              · exact EndsFrom_mono (auxe hd s hm h0) x3
        cases cont with
        | true =>
          simp only [hs] at h
          obtain ⟨x3, u3⟩ := checkUses_spec T D insts L2 L' i inst h
          exact fin L' x3 (fun _ => u3)
        | false =>
          simp only [hs] at h
          cases h
          refine fin _ (Extends_refl _) ?_
          intro hli
          rw [hli] at hcont
          cases hcont
    · have hl' : inst.live = false := by simpa using hl
      simp only [hl', Bool.not_false, if_true] at h
      cases h
      exact ⟨Extends_refl _, fun inst' e hc => by cases e; exact absurd hc hl⟩

theorem ComputeFrameLifetimes_loop_spec (T : OpTables) (D : FrameDenizens) (mg : List Int)
    (insts : List ZInstI) :
    ∀ (k i : Nat) (L L' : Lifetimes),
      ComputeFrameLifetimes_loop T D mg insts k i L = .ok L' →
      Extends L L' ∧
      ∀ j inst, i ≤ j → j < i + k → insts[j]? = some inst → inst.live = true →
        RecordedAt T insts L' j inst := by
  intro k
  induction k with
  | zero =>
    intro i L L' h
    cases h
    exact ⟨Extends_refl _, fun j _ h1 h2 => by omega⟩
  | succ k ih =>
    intro i L L' h
    unfold ComputeFrameLifetimes_loop at h
    cases hat : ComputeFrameLifetimes_at T D mg insts L i with
    | error e => simp only [hat] at h; cases h
    | ok L1 =>
      simp only [hat] at h
      obtain ⟨x1, r1⟩ := ComputeFrameLifetimes_at_spec T D mg insts L L1 i hat
      obtain ⟨x2, r2⟩ := ih (i + 1) L1 L' h
      refine ⟨Extends_trans x1 x2, ?_⟩
      intro j inst h1 h2 hj hl
      by_cases e : j = i
      · subst e
        exact RecordedAt_mono (r1 inst hj hl) x2
      · exact r2 j inst (by omega) (by omega) hj hl

end ZAM

namespace ZAM

open Zeek (Failure)

theorem vectorLoop_noUseBeforeSet : NoUseBeforeSet lifetimeTables vectorLoop := by
  intro i inst s hi hl h0 hu
  match i, hi with
  | 0, hi =>
    simp only [vectorLoop, List.getElem?_cons_zero, Option.some.injEq] at hi
    subst hi
    simp [ZInstI.usesSlot, ZInstI.UsesSlot, lifetimeTables, plainInst, isDefaultOp,
      ZInstI.auxSlots] at hu
  | 1, hi =>
    simp only [vectorLoop, List.getElem?_cons_succ, List.getElem?_cons_zero,
      Option.some.injEq] at hi
    subst hi
    have e : s = 0 := by
      simpa [ZInstI.usesSlot, ZInstI.UsesSlot, lifetimeTables, plainInst, isDefaultOp,
        ZInstI.auxSlots, eq_comm] using hu
    subst e
    exact ⟨0, _, by omega, rfl, rfl, by decide⟩
  | 2, hi =>
    simp only [vectorLoop, List.getElem?_cons_succ, List.getElem?_cons_zero,
      Option.some.injEq] at hi
    subst hi
    have e : s = 1 := by
      simpa [ZInstI.usesSlot, ZInstI.UsesSlot, lifetimeTables, plainInst, isDefaultOp,
        ZInstI.auxSlots, eq_comm] using hu
    subst e
    exact ⟨1, _, by omega, rfl, rfl, by decide⟩
  | 3, hi =>
    simp only [vectorLoop, List.getElem?_cons_succ, List.getElem?_cons_zero,
      Option.some.injEq] at hi
    subst hi
    have e : s = 2 := by
      simpa [ZInstI.usesSlot, ZInstI.UsesSlot, lifetimeTables, plainInst, isDefaultOp,
        ZInstI.auxSlots, eq_comm] using hu
    subst e
    exact ⟨2, _, by omega, rfl, rfl, by decide⟩
  | 4, hi =>
    simp only [vectorLoop, List.getElem?_cons_succ, List.getElem?_cons_zero,
      Option.some.injEq] at hi
    subst hi
    simp [ZInstI.usesSlot, ZInstI.UsesSlot, lifetimeTables, plainInst, isDefaultOp,
      ZInstI.auxSlots] at hu
  | 5, hi =>
    simp only [vectorLoop, List.getElem?_cons_succ, List.getElem?_cons_zero,
      Option.some.injEq] at hi
    subst hi
    have e : s = 0 := by
      simpa [ZInstI.usesSlot, ZInstI.UsesSlot, lifetimeTables, plainInst, isDefaultOp,
        ZInstI.auxSlots, eq_comm] using hu
    subst e
    exact ⟨0, _, by omega, rfl, rfl, by decide⟩
  | n + 6, hi => simp [vectorLoop] at hi

theorem vectorLoop_initReadsAggregate : InitReadsAggregate lifetimeTables vectorLoop := by
  intro i inst s hi hl hinit hu
  match i, hi with
  | 0, hi =>
    simp only [vectorLoop, List.getElem?_cons_zero, Option.some.injEq] at hi
    subst hi
    simp [isLoopInit, plainInst] at hinit
  | 1, hi =>
    simp only [vectorLoop, List.getElem?_cons_succ, List.getElem?_cons_zero,
      Option.some.injEq] at hi
    subst hi
    simpa [ZInstI.UsesSlot, lifetimeTables, plainInst, eq_comm] using hu
  | 2, hi =>
    simp only [vectorLoop, List.getElem?_cons_succ, List.getElem?_cons_zero,
      Option.some.injEq] at hi
    subst hi
    simp [isLoopInit, plainInst] at hinit
  | 3, hi =>
    simp only [vectorLoop, List.getElem?_cons_succ, List.getElem?_cons_zero,
      Option.some.injEq] at hi
    subst hi
    simp [isLoopInit, plainInst] at hinit
  | 4, hi =>
    simp only [vectorLoop, List.getElem?_cons_succ, List.getElem?_cons_zero,
      Option.some.injEq] at hi
    subst hi
    simp [isLoopInit, plainInst] at hinit
  | 5, hi =>
    simp only [vectorLoop, List.getElem?_cons_succ, List.getElem?_cons_zero,
      Option.some.injEq] at hi
    subst hi
    simp [isLoopInit, plainInst] at hinit
  | n + 6, hi => simp [vectorLoop] at hi

/-- C28: when `ComputeFrameLifetimes` returns on a stream with no use before
set (and whose loop initializers read only their aggregate), then for every
live instruction `i` and every slot `s`: if `i` assigns `s`, the lifetime of
`s` begins at or before `i`; if `i` uses `s`, the lifetime of `s` begins at or
before `i` and ends at or after `i`; and if `s` is an iteration variable of
the loop that `i` iterates, the lifetime of `s` ends at or after every live
instruction `k` of that loop (the positions from `i` to `k` all being at the
loop depth of `i` or deeper). -/
theorem ComputeFrameLifetimes_lifetimes_cover (T : OpTables) (D : FrameDenizens)
    (modified_globals : List Int) (insts : List ZInstI) (L : Lifetimes)
    (h : ComputeFrameLifetimes T D modified_globals insts = .ok L)
    (hset : NoUseBeforeSet T insts) (hinit : InitReadsAggregate T insts)
    (i : Nat) (inst : ZInstI) (hi : insts[i]? = some inst) (hlive : inst.live = true) :
    (∀ s, inst.assignsSlot T s = true →
      ∃ b, L.denizen_beginning s = some b ∧ b ≤ i) ∧
    (∀ s, 0 ≤ s → inst.usesSlot T s = true →
      ∃ b e, L.denizen_beginning s = some b ∧ L.denizen_ending s = some e ∧ b ≤ i ∧ i ≤ e) ∧
    (∀ s ∈ inst.iterVars,
      ∃ e, L.denizen_ending s = some e ∧
        ∀ k, i ≤ k →
          (∀ m, i ≤ m → m ≤ k → m < insts.length ∧ loopDepthAt insts m ≥ inst.loop_depth) →
          liveAt insts k = true → k ≤ e) := by
  unfold ComputeFrameLifetimes at h
  obtain ⟨_, rec⟩ := ComputeFrameLifetimes_loop_spec T D modified_globals insts _ _ _ _ h
  have hlt : i < insts.length := (List.getElem?_eq_some.1 hi).1
  have ri := rec i inst (Nat.zero_le _) (by omega) hi hlive
  refine ⟨ri.1, ?_, ?_⟩
  · intro s h0 hu
    obtain ⟨j, inst', hj, hij, hl', ha⟩ := hset i inst s hi hlive h0 hu
    have hjlt : j < insts.length := (List.getElem?_eq_some.1 hij).1
    obtain ⟨b, hb, hbj⟩ := (rec j inst' (Nat.zero_le _) (by omega) hij hl').1 s ha
    have hv2 : isLoopInit inst.op = true → s = inst.v2 := by
      intro hli
      have hd : isDefaultOp inst.op = false := by
        cases hop : inst.op <;> simp_all [isLoopInit, isDefaultOp]
      have hus : inst.UsesSlot T s = true := by
        simpa [ZInstI.usesSlot, hd] using hu
      exact hinit i inst s hi hlive hli hus
    obtain ⟨e, he, hie⟩ := ri.2.1 s h0 hu hv2
    exact ⟨b, e, hb, he, le_trans hbj hj, hie⟩
  · intro s hs
    obtain ⟨e, he, hle⟩ := ri.2.2 s hs
    refine ⟨e, he, ?_⟩
    intro k hk hall hkl
    exact le_trans (EndOfLoop_covers insts i inst.loop_depth k hk hall hkl) hle

/-- C28 on the loop `x = c; for ( z in x ) x = f(z); return x`: the
lifetimes are `x` from 0 to 5, the iteration information from 1 to 4 and
`z` from 2 to 4, the last instruction of the loop. -/
theorem ComputeFrameLifetimes_lifetimes_cover_witness :
    ∃ L : Lifetimes,
      ComputeFrameLifetimes lifetimeTables threeLocals [] vectorLoop = .ok L ∧
      (L.denizen_beginning 2, L.denizen_ending 2) = (some 2, some 4) ∧
      ∀ (i : Nat) (inst : ZInstI), vectorLoop[i]? = some inst → inst.live = true →
        (∀ s, inst.assignsSlot lifetimeTables s = true →
          ∃ b, L.denizen_beginning s = some b ∧ b ≤ i) ∧
        (∀ s, 0 ≤ s → inst.usesSlot lifetimeTables s = true →
          ∃ b e, L.denizen_beginning s = some b ∧ L.denizen_ending s = some e ∧
            b ≤ i ∧ i ≤ e) ∧
        (∀ s ∈ inst.iterVars,
          ∃ e, L.denizen_ending s = some e ∧
            ∀ k, i ≤ k →
              (∀ m, i ≤ m → m ≤ k →
                m < vectorLoop.length ∧ loopDepthAt vectorLoop m ≥ inst.loop_depth) →
              liveAt vectorLoop k = true → k ≤ e) := by
  refine ⟨_, rfl, rfl, ?_⟩
  intro i inst hi hlive
  exact ComputeFrameLifetimes_lifetimes_cover lifetimeTables threeLocals [] vectorLoop _ rfl
    vectorLoop_noUseBeforeSet vectorLoop_initReadsAggregate i inst hi hlive

end ZAM

namespace Zeek

open TypeTag InternalTypeTag BroExprTag

theorem vector_bool_select_loop_length {α : Type} (v1 : List (Option α)) (bs : List Bool) :
    ∀ (n i : Nat) (r : List (Option α)), i + n = bs.length →
      (vector_bool_select_loop v1 (bs.map some) n i r).map List.length =
        .ok (r.length + 2 * (bs.drop i).count true) := by
  intro n
  induction n with
  | zero =>
    intro i r h
    have : bs.drop i = [] := List.drop_eq_nil_of_le (by omega)
    simp [vector_bool_select_loop, this, Except.map]
  | succ n ih =>
    intro i r h
    have hi : i < bs.length := by omega
    have hd : bs.drop i = bs[i] :: bs.drop (i + 1) := List.drop_eq_getElem_cons hi
    have hl : VectorVal_Lookup (bs.map some) i = some bs[i] := by
      simp [VectorVal_Lookup, List.getElem?_eq_getElem hi]
    unfold vector_bool_select_loop
    rw [hl, hd]
    cases hb : bs[i] with
    | true =>
      simp only []
      rw [ih (i + 1) _ (by omega)]
      have : (VectorVal_Assign r (r.length + 1) (VectorVal_Lookup v1 i)).length = r.length + 2 := by
        simp [VectorVal_Assign]
      rw [this]
      simp [List.count_cons]
      omega
    | false =>
      simp only []
      rw [ih (i + 1) _ (by omega)]
      simp [List.count_cons]

/-- C37: `vector_bool_select` does not pack the selected elements: it assigns
each one at position `Size() + 1`, so a null element precedes every selected
element and the result is twice as long as the number of true entries. -/
theorem vector_bool_select_leaves_holes :
    vector_bool_select [some 10, some 20, some 30] [some true, some false, some true] =
      .ok [none, some 10, none, some 30] ∧
    ∀ (v1 : List (Option Nat)) (bs : List Bool),
      (vector_bool_select v1 (bs.map some)).map List.length = .ok (2 * bs.count true) := by
  refine ⟨rfl, ?_⟩
  intro v1 bs
  have h := vector_bool_select_loop_length v1 bs bs.length 0 [] (by simp)
  simpa [vector_bool_select] using h

theorem wrapInt_def (i : Int) : wrapInt i = (i + 9223372036854775808) % 18446744073709551616 - 9223372036854775808 := by
  unfold wrapInt; norm_num

theorem wrapUInt_def (i : Int) : wrapUInt i = (i % 18446744073709551616).toNat := by
  unfold wrapUInt; norm_num

theorem decr_count (u : Nat) (hlt : u < 18446744073709551616) :
    IncrExpr_DoSingleEval EXPR_DECR (base_type TYPE_COUNT) (.uintv .count u) =
      if u = 0 ∨ 9223372036854775808 < u then .error (.runtime "count underflow")
      else .ok (.uintv .count (u - 1)) := by
  have hty : (Val.uintv .count u).Type.InternalType = TYPE_INTERNAL_UNSIGNED := rfl
  have hk : CoerceToInt (.uintv .count u) = some (wrapInt u) := rfl
  have key1 : wrapInt (wrapInt ↑u - 1) < 0 ↔ (u = 0 ∨ 9223372036854775808 < u) := by
    rw [wrapInt_def, wrapInt_def]; omega
  have key2 : ¬ (u = 0 ∨ 9223372036854775808 < u) → wrapUInt (wrapInt (wrapInt ↑u - 1)) = u - 1 := by
    intro h
    rw [wrapUInt_def, wrapInt_def, wrapInt_def]; omega
  unfold IncrExpr_DoSingleEval
  rw [hk]
  simp only [hty]
  have h1 : (EXPR_DECR = EXPR_INCR) = False := by simp
  have h2 : (EXPR_DECR != EXPR_INCR) = true := by decide
  have h3 : IsVector (base_type TYPE_COUNT).Tag = false := rfl
  have h4 : ((base_type TYPE_COUNT).Tag = TYPE_INT) = False := by simp [base_type, BroType.Tag]
  simp only [h1, h2, h3, h4, if_false, Bool.true_and, Bool.false_eq_true, beq_self_eq_true, Bool.and_true, decide_eq_true_eq, decide_True]
  by_cases hc : u = 0 ∨ 9223372036854775808 < u
  · rw [if_pos hc, if_pos (key1.2 hc)]
  · rw [if_neg hc, if_neg (fun h => hc (key1.1 h))]
    simp only [GetCount, key2 hc]

theorem incr_count (u : Nat) :
    IncrExpr_DoSingleEval EXPR_INCR (base_type TYPE_COUNT) (.uintv .count u) =
      .ok (.uintv .count ((u + 1) % 18446744073709551616)) := by
  have hk : CoerceToInt (.uintv .count u) = some (wrapInt u) := rfl
  have key : wrapUInt (wrapInt (wrapInt ↑u + 1)) = (u + 1) % 18446744073709551616 := by
    rw [wrapUInt_def, wrapInt_def, wrapInt_def]; omega
  unfold IncrExpr_DoSingleEval
  rw [hk]
  have h2 : (EXPR_INCR != EXPR_INCR) = false := by decide
  have h3 : IsVector (base_type TYPE_COUNT).Tag = false := rfl
  have h4 : ((base_type TYPE_COUNT).Tag = TYPE_INT) = False := by simp [base_type, BroType.Tag]
  simp only [h2, h3, h4, if_false, if_true, Bool.false_and, Bool.false_eq_true, GetCount, key]

/-- C38: decrementing a count above 2^63 raises `count underflow` although
the value is not zero: for every count `v`, `IncrExpr::DoSingleEval` of a
decrement raises the error exactly when `v = 0` or `v > 2^63`, and returns
`v - 1` otherwise; an increment returns `v + 1` modulo 2^64. -/
theorem IncrExpr_DoSingleEval_decrement_large_count :
    IncrExpr_DoSingleEval EXPR_DECR (base_type TYPE_COUNT)
        (.uintv .count 9223372036854775809) = .error (.runtime "count underflow") ∧
    (∀ v : Nat, IncrExpr_DoSingleEval EXPR_DECR (base_type TYPE_COUNT)
        (.uintv .count (v % 18446744073709551616)) =
      if v % 18446744073709551616 = 0 ∨ 9223372036854775808 < v % 18446744073709551616 then
        .error (.runtime "count underflow")
      else .ok (.uintv .count (v % 18446744073709551616 - 1))) ∧
    (∀ v : Nat, IncrExpr_DoSingleEval EXPR_INCR (base_type TYPE_COUNT) (.uintv .count v) =
      .ok (.uintv .count ((v + 1) % 18446744073709551616))) := by
  refine ⟨rfl, fun v => decr_count _ (Nat.mod_lt _ (by norm_num)), fun v => incr_count v⟩

/-- C39: on the least `int` `get_slice_index` returns a negative value. -/
theorem get_slice_index_least_int :
    get_slice_index (-2147483648) 5 = -2147483643 ∧
    get_slice_index (-2147483648) 0 = -2147483648 ∧
    ¬ (0 ≤ get_slice_index (-2147483648) 5) := by
  decide

/-- C34: the constructors of the two any-coercion nodes overwrite the error
sentinel that `UnaryExpr::UnaryExpr` has set from the operand, while
`SetType` keeps it and the other constructors hand it on. -/
theorem CoerceToAnyExpr_drops_error_sentinel :
    (∀ t : BroType, SetType (some error_type) t = some error_type) ∧
    countPlusBool.IsError = true ∧
    (mkRefExpr countPlusBool).IsError = true ∧
    (mkArithCoerceExpr countPlusBool TYPE_INT).IsError = true ∧
    (mkAddExpr countPlusBool (countConst 1)).IsError = true ∧
    (∀ op : Expr, (mkCoerceToAnyExpr op).IsError = false) ∧
    (∀ op : Expr, (mkCoerceFromAnyExpr op (base_type TYPE_COUNT)).IsError = false) := by
  refine ⟨fun t => rfl, rfl, rfl, rfl, rfl, fun op => rfl, fun op => rfl⟩

end Zeek

namespace Zeek

theorem wrapInt32_def (i : Int) : wrapInt32 i = (i + 2147483648) % 4294967296 - 2147483648 := by
  unfold wrapInt32; norm_num

theorem get_slice_index_in_range (idx len : Int) (hidx : -2147483648 < idx ∧ idx < 2147483648)
    (hlen : 0 ≤ len ∧ len < 2147483648) :
    0 ≤ get_slice_index idx len ∧ get_slice_index idx len ≤ len ∧
    (0 ≤ idx ∧ idx ≤ len → get_slice_index idx len = idx) ∧
    (-len ≤ idx ∧ idx < 0 → get_slice_index idx len = idx + len) ∧
    (len < idx → get_slice_index idx len = len) ∧
    (idx < -len → get_slice_index idx len = 0) := by
  have habs : wrapInt32 (Int.natAbs idx) = |idx| := by
    rw [wrapInt32_def, Int.natCast_natAbs]
    have := abs_nonneg idx
    have h2 : |idx| < 2147483648 := abs_lt.mpr ⟨by omega, by omega⟩
    omega
  unfold get_slice_index
  rw [habs]
  rcases abs_cases idx with ⟨h, h0⟩ | ⟨h, h0⟩
  · rw [h]
    by_cases hc : idx > len
    · rw [if_pos hc]
      by_cases hp : idx > 0
      · rw [if_pos hp]; omega
      · omega
    · rw [if_neg hc, if_neg (by omega)]; omega
  · rw [h]
    by_cases hc : -idx > len
    · rw [if_pos hc, if_neg (by omega)]; omega
    · rw [if_neg hc, if_pos h0, wrapInt32_def]; omega

end Zeek

namespace Zeek

open TypeTag InternalTypeTag BroExprTag

theorem mkBitExpr_count_name_zero (tag : BroExprTag) (id : ID)
    (hty : id.type = base_type TYPE_COUNT) :
    mkBitExpr tag (.name id) (countConst 0) =
      .binary tag (.name id) (countConst 0) (base_type TYPE_COUNT) := by
  simp [mkBitExpr, Expr.IsError, Expr.Type, hty, countConst, Val.Type, base_type, BroType.Tag,
    baseTag, IsVector, is_vector, vecOrBase]

theorem mkBitExpr_count_name_self (tag : BroExprTag) (id : ID)
    (hty : id.type = base_type TYPE_COUNT) :
    mkBitExpr tag (.name id) (.name id) =
      .binary tag (.name id) (.name id) (base_type TYPE_COUNT) := by
  simp [mkBitExpr, Expr.IsError, Expr.Type, hty, base_type, BroType.Tag,
    baseTag, IsVector, is_vector, vecOrBase]

theorem mkEqExpr_count_name_self (tag : BroExprTag) (id : ID)
    (hty : id.type = base_type TYPE_COUNT) :
    mkEqExpr tag (.name id) (.name id) =
      .binary tag (.name id) (.name id) (base_type TYPE_BOOL) := by
  simp [mkEqExpr, Expr.IsError, Expr.Type, hty, base_type, BroType.Tag,
    baseTag, IsVector, is_vector, vecOrBase, expr_greater, BothArithmetic, IsArithmetic,
    IsIntegral, PromoteOps, max_type]

theorem mkRelExpr_count_name_self (tag : BroExprTag) (id : ID)
    (hty : id.type = base_type TYPE_COUNT) :
    mkRelExpr tag (.name id) (.name id) =
      .binary (if tag = EXPR_GT then EXPR_LT else if tag = EXPR_GE then EXPR_LE else tag)
        (.name id) (.name id) (base_type TYPE_BOOL) := by
  simp [mkRelExpr, Expr.IsError, Expr.Type, hty, base_type, BroType.Tag,
    baseTag, IsVector, is_vector, vecOrBase, BothArithmetic, IsArithmetic,
    IsIntegral, PromoteOps, max_type]

end Zeek

namespace Zeek

open TypeTag InternalTypeTag BroExprTag

theorem Eval_count_binary (f : Option (ID → Option Val)) (tag : BroExprTag) (a b : Expr)
    (type : BroType) (u1 u2 : Nat) (htag : isPlainBinary tag = true)
    (hty : type.Tag ≠ TYPE_ERROR)
    (ha : Eval f a = .ok (some (.uintv .count u1)))
    (hb : Eval f b = .ok (some (.uintv .count u2))) :
    Eval f (.binary tag a b type) =
      evaluatedTo (Fold tag type (.uintv .count u1) (.uintv .count u2)) := by
  have h1 : (tag = EXPR_AND_AND || tag = EXPR_OR_OR) = false := by
    cases tag <;> simp_all [isPlainBinary]
  have hv1 : ∀ u : Nat, decide ((Val.uintv .count u).Type.Tag = TYPE_VECTOR) = false := fun _ => rfl
  simp only [Eval, h1, htag, ha, hb, if_true, Bool.false_eq_true, if_false, if_neg hty, hv1,
    Bool.or_self, evaluatedTo]

/-- C36: for a count-typed name `x`, the simplifications of `BitExpr::Reduce`,
`EqExpr::Reduce` and `RelExpr::Reduce` return a constant or the reduction of
`x`, and the node evaluates to that constant resp. to the value of `x` on
every frame that gives `x` a count value. -/
theorem Reduce_count_name_identities (n : Nat) (c : Reducer) (id : ID)
    (hty : id.type = base_type TYPE_COUNT)
    (f : Option (ID → Option Val)) (v : Nat) (hv : v < 2 ^ 64)
    (hx : Eval f (.name id) = .ok (some (.uintv .count v))) :
    (Reduce (n + 3) c (mkBitExpr EXPR_AND (.name id) (countConst 0)) =
        .ok (countConst 0, none, c) ∧
      Eval f (mkBitExpr EXPR_AND (.name id) (countConst 0)) = Eval f (countConst 0)) ∧
    (Reduce (n + 1) c (mkBitExpr EXPR_OR (.name id) (countConst 0)) =
        ReduceToSingleton n c (.name id) ∧
      Eval f (mkBitExpr EXPR_OR (.name id) (countConst 0)) = Eval f (.name id)) ∧
    (Reduce (n + 1) c (mkBitExpr EXPR_XOR (.name id) (countConst 0)) =
        ReduceToSingleton n c (.name id) ∧
      Eval f (mkBitExpr EXPR_XOR (.name id) (countConst 0)) = Eval f (.name id)) ∧
    (Reduce (n + 1) c (mkBitExpr EXPR_XOR (.name id) (.name id)) =
        .ok (countConst 0, none, c) ∧
      Eval f (mkBitExpr EXPR_XOR (.name id) (.name id)) = Eval f (countConst 0)) ∧
    (Reduce (n + 1) c (mkBitExpr EXPR_AND (.name id) (.name id)) =
        ReduceToSingleton n c (.name id) ∧
      Eval f (mkBitExpr EXPR_AND (.name id) (.name id)) = Eval f (.name id)) ∧
    (Reduce (n + 1) c (mkBitExpr EXPR_OR (.name id) (.name id)) =
        ReduceToSingleton n c (.name id) ∧
      Eval f (mkBitExpr EXPR_OR (.name id) (.name id)) = Eval f (.name id)) ∧
    (Reduce (n + 1) c (mkEqExpr EXPR_EQ (.name id) (.name id)) =
        .ok (boolConst true, none, c) ∧
      Eval f (mkEqExpr EXPR_EQ (.name id) (.name id)) = Eval f (boolConst true)) ∧
    (Reduce (n + 1) c (mkEqExpr EXPR_NE (.name id) (.name id)) =
        .ok (boolConst false, none, c) ∧
      Eval f (mkEqExpr EXPR_NE (.name id) (.name id)) = Eval f (boolConst false)) ∧
    (Reduce (n + 1) c (mkRelExpr EXPR_LE (.name id) (.name id)) =
        .ok (boolConst true, none, c) ∧
      Eval f (mkRelExpr EXPR_LE (.name id) (.name id)) = Eval f (boolConst true)) ∧
    (Reduce (n + 1) c (mkRelExpr EXPR_GE (.name id) (.name id)) =
        .ok (boolConst true, none, c) ∧
      Eval f (mkRelExpr EXPR_GE (.name id) (.name id)) = Eval f (boolConst true)) ∧
    (Reduce (n + 1) c (mkRelExpr EXPR_LT (.name id) (.name id)) =
        .ok (boolConst false, none, c) ∧
      Eval f (mkRelExpr EXPR_LT (.name id) (.name id)) = Eval f (boolConst false)) ∧
    (Reduce (n + 1) c (mkRelExpr EXPR_GT (.name id) (.name id)) =
        .ok (boolConst false, none, c) ∧
      Eval f (mkRelExpr EXPR_GT (.name id) (.name id)) = Eval f (boolConst false)) := by
  have hz : Eval f (countConst 0) = .ok (some (.uintv .count 0)) := rfl
  have hw : wrapUInt (v : Int) = v := wrapUInt_eq hv
  have hcount : (base_type TYPE_COUNT).Tag ≠ TYPE_ERROR := by decide
  have hbool : (base_type TYPE_BOOL).Tag ≠ TYPE_ERROR := by decide
  have hss : same_singletons (.name id) (.name id) = true := by simp [same_singletons]
  have hnz : (Expr.name id).IsZero = false := rfl
  have hcz : (countConst 0).IsZero = true := rfl
  rw [mkBitExpr_count_name_zero _ id hty, mkBitExpr_count_name_zero _ id hty,
    mkBitExpr_count_name_zero _ id hty, mkBitExpr_count_name_self _ id hty,
    mkBitExpr_count_name_self _ id hty, mkBitExpr_count_name_self _ id hty,
    mkEqExpr_count_name_self _ id hty, mkEqExpr_count_name_self _ id hty,
    mkRelExpr_count_name_self _ id hty, mkRelExpr_count_name_self _ id hty,
    mkRelExpr_count_name_self _ id hty, mkRelExpr_count_name_self _ id hty]
  refine ⟨⟨?_, ?_⟩, ⟨?_, ?_⟩, ⟨?_, ?_⟩, ⟨?_, ?_⟩, ⟨?_, ?_⟩, ⟨?_, ?_⟩, ⟨?_, ?_⟩, ⟨?_, ?_⟩,
    ⟨?_, ?_⟩, ⟨?_, ?_⟩, ⟨?_, ?_⟩, ⟨?_, ?_⟩⟩
  · show red (n + 3) .reduce c _ = _
    rw [red_reduce_binary]
    simp only [BitExpr_Reduce, hnz, hcz]
    simp only [base_type, BroType.Tag]
    simpa using red_toSingleton_const n c (.uintv .count 0)
  · rw [Eval_count_binary f EXPR_AND _ _ _ v 0 rfl hcount hx hz, hz]
    simp [Fold, foldUInt, foldResult, evaluatedTo, base_type, BroType.Tag, IsVector,
      BroType.InternalType, InternalTypeOf, GetCount, wrapUInt]
  · show red (n + 1) .reduce c _ = _
    rw [red_reduce_binary]
    simp only [BitExpr_Reduce, hnz, hcz]
    simp [base_type, BroType.Tag, ReduceToSingleton]
  · rw [Eval_count_binary f EXPR_OR _ _ _ v 0 rfl hcount hx hz, hx]
    simp [Fold, foldUInt, foldResult, evaluatedTo, base_type, BroType.Tag, IsVector,
      BroType.InternalType, InternalTypeOf, GetCount, hw]
  · show red (n + 1) .reduce c _ = _
    rw [red_reduce_binary]
    simp only [BitExpr_Reduce, hnz, hcz]
    simp [base_type, BroType.Tag, ReduceToSingleton]
  · rw [Eval_count_binary f EXPR_XOR _ _ _ v 0 rfl hcount hx hz, hx]
    simp [Fold, foldUInt, foldResult, evaluatedTo, base_type, BroType.Tag, IsVector,
      BroType.InternalType, InternalTypeOf, GetCount, hw]
  · show red (n + 1) .reduce c _ = _
    rw [red_reduce_binary]
    simp only [BitExpr_Reduce, hnz, hss]
    simp [base_type, BroType.Tag, Expr.Tag, countConst, GetCount, wrapUInt]
  · rw [Eval_count_binary f EXPR_XOR _ _ _ v v rfl hcount hx hx, hz]
    simp [Fold, foldUInt, foldResult, evaluatedTo, base_type, BroType.Tag, IsVector,
      BroType.InternalType, InternalTypeOf, GetCount, wrapUInt]
  · show red (n + 1) .reduce c _ = _
    rw [red_reduce_binary]
    simp only [BitExpr_Reduce, hnz, hss]
    simp [base_type, BroType.Tag, Expr.Tag, ReduceToSingleton]
  · rw [Eval_count_binary f EXPR_AND _ _ _ v v rfl hcount hx hx, hx]
    simp [Fold, foldUInt, foldResult, evaluatedTo, base_type, BroType.Tag, IsVector,
      BroType.InternalType, InternalTypeOf, GetCount, hw]
  · show red (n + 1) .reduce c _ = _
    rw [red_reduce_binary]
    simp only [BitExpr_Reduce, hnz, hss]
    simp [base_type, BroType.Tag, Expr.Tag, ReduceToSingleton]
  · rw [Eval_count_binary f EXPR_OR _ _ _ v v rfl hcount hx hx, hx]
    simp [Fold, foldUInt, foldResult, evaluatedTo, base_type, BroType.Tag, IsVector,
      BroType.InternalType, InternalTypeOf, GetCount, hw]
  · show red (n + 1) .reduce c _ = _
    rw [red_reduce_binary]
    simp [EqExpr_Reduce, hss, base_type, BroType.Tag, boolConst]
  · rw [Eval_count_binary f EXPR_EQ _ _ _ v v rfl hbool hx hx]
    simp [Fold, foldUInt, foldResult, evaluatedTo, base_type, BroType.Tag, IsVector,
      BroType.InternalType, InternalTypeOf, GetBool, boolConst, Eval]
  · show red (n + 1) .reduce c _ = _
    rw [red_reduce_binary]
    simp [EqExpr_Reduce, hss, base_type, BroType.Tag, boolConst]
  · rw [Eval_count_binary f EXPR_NE _ _ _ v v rfl hbool hx hx]
    simp [Fold, foldUInt, foldResult, evaluatedTo, base_type, BroType.Tag, IsVector,
      BroType.InternalType, InternalTypeOf, GetBool, boolConst, Eval]
  · show red (n + 1) .reduce c _ = _
    rw [red_reduce_binary]
    simp [RelExpr_Reduce, hss, base_type, BroType.Tag, boolConst]
  · simp only [show (EXPR_LE = EXPR_GT) = False by simp, show (EXPR_LE = EXPR_GE) = False by simp,
      if_false]
    rw [Eval_count_binary f EXPR_LE _ _ _ v v rfl hbool hx hx]
    simp [Fold, foldUInt, foldResult, evaluatedTo, base_type, BroType.Tag, IsVector,
      BroType.InternalType, InternalTypeOf, GetBool, boolConst, Eval]
  · show red (n + 1) .reduce c _ = _
    rw [red_reduce_binary]
    simp [RelExpr_Reduce, hss, base_type, BroType.Tag, boolConst]
  · simp only [show (EXPR_GE = EXPR_GT) = False by simp, if_true, if_false]
    rw [Eval_count_binary f EXPR_LE _ _ _ v v rfl hbool hx hx]
    simp [Fold, foldUInt, foldResult, evaluatedTo, base_type, BroType.Tag, IsVector,
      BroType.InternalType, InternalTypeOf, GetBool, boolConst, Eval]
  · show red (n + 1) .reduce c _ = _
    rw [red_reduce_binary]
    simp [RelExpr_Reduce, hss, base_type, BroType.Tag, boolConst]
  · simp only [show (EXPR_LT = EXPR_GT) = False by simp, show (EXPR_LT = EXPR_GE) = False by simp,
      if_false]
    rw [Eval_count_binary f EXPR_LT _ _ _ v v rfl hbool hx hx]
    simp [Fold, foldUInt, foldResult, evaluatedTo, base_type, BroType.Tag, IsVector,
      BroType.InternalType, InternalTypeOf, GetBool, boolConst, Eval]
  · show red (n + 1) .reduce c _ = _
    rw [red_reduce_binary]
    simp [RelExpr_Reduce, hss, base_type, BroType.Tag, boolConst]
  · simp only [if_true]
    rw [Eval_count_binary f EXPR_LT _ _ _ v v rfl hbool hx hx]
    simp [Fold, foldUInt, foldResult, evaluatedTo, base_type, BroType.Tag, IsVector,
      BroType.InternalType, InternalTypeOf, GetBool, boolConst, Eval]

/-- The identities for the local `x` of type count on a frame where `x` is 5:
`x & 0` reduces to the constant 0, which is also its value. -/
theorem Reduce_count_name_identities_witness :
    Reduce 3 plainReducer (mkBitExpr EXPR_AND (.name (localVar 1 TYPE_COUNT)) (countConst 0)) =
        .ok (countConst 0, none, plainReducer) ∧
      Eval (some fun _ => some (.uintv .count 5))
          (mkBitExpr EXPR_AND (.name (localVar 1 TYPE_COUNT)) (countConst 0)) =
        Eval (some fun _ => some (.uintv .count 5)) (countConst 0) :=
  (Reduce_count_name_identities 0 plainReducer (localVar 1 TYPE_COUNT) rfl
    (some fun _ => some (.uintv .count 5)) 5 (by norm_num) rfl).1

end Zeek

namespace Zeek

open TypeTag InternalTypeTag BroExprTag

theorem same_singletons_count_zero {x : Expr} (hty : x.Type = base_type TYPE_COUNT)
    (hnz : x.IsZero = false) :
    same_singletons x (countConst 0) = false ∧ same_singletons (countConst 0) x = false := by
  cases x with
  | const v =>
    rcases v with ⟨k, i⟩ | ⟨k, u⟩ | s | a | ⟨a, w⟩ | fv | ⟨t, h⟩ <;>
      simp_all [same_singletons, countConst, is_atomic_val, same_atomic_val, Expr.IsZero,
        Val.IsZero, Expr.Type, Val.Type, eq_comm]
  | _ => simp [same_singletons, countConst]

theorem mkRelExpr_count (tag : BroExprTag) (a b : Expr)
    (ha : a.Type = base_type TYPE_COUNT) (hb : b.Type = base_type TYPE_COUNT) :
    mkRelExpr tag a b =
      .binary (if tag = EXPR_GT then EXPR_LT else if tag = EXPR_GE then EXPR_LE else tag)
        (if tag = EXPR_GT ∨ tag = EXPR_GE then b else a)
        (if tag = EXPR_GT ∨ tag = EXPR_GE then a else b) (base_type TYPE_BOOL) := by
  by_cases h : tag = EXPR_GT ∨ tag = EXPR_GE
  · rcases h with h | h <;> subst h <;>
    simp [mkRelExpr, Expr.IsError, ha, hb, base_type, BroType.Tag,
      baseTag, IsVector, is_vector, vecOrBase, BothArithmetic, IsArithmetic,
      IsIntegral, PromoteOps, max_type]
  · have h1 : tag ≠ EXPR_GT := fun e => h (Or.inl e)
    have h2 : tag ≠ EXPR_GE := fun e => h (Or.inr e)
    simp [mkRelExpr, Expr.IsError, ha, hb, base_type, BroType.Tag,
      baseTag, IsVector, is_vector, vecOrBase, BothArithmetic, IsArithmetic,
      IsIntegral, PromoteOps, max_type, h1, h2]

/-- C35: for a count-typed operand `x` that is not itself the constant zero,
the four degenerate comparisons with the constant zero are the nodes
`x < 0` and `0 <= x`; on each `RelExpr::Reduce` warns once, the node keeps the
type bool, and the result is that of `BinaryExpr::Reduce`. -/
theorem RelExpr_Reduce_degenerate (n : Nat) (c : Reducer) (x : Expr)
    (hty : x.Type = base_type TYPE_COUNT) (hnz : x.IsZero = false) :
    (mkRelExpr EXPR_LT x (countConst 0) =
        .binary EXPR_LT x (countConst 0) (base_type TYPE_BOOL) ∧
      mkRelExpr EXPR_GT (countConst 0) x =
        .binary EXPR_LT x (countConst 0) (base_type TYPE_BOOL) ∧
      mkRelExpr EXPR_GE x (countConst 0) =
        .binary EXPR_LE (countConst 0) x (base_type TYPE_BOOL) ∧
      mkRelExpr EXPR_LE (countConst 0) x =
        .binary EXPR_LE (countConst 0) x (base_type TYPE_BOOL)) ∧
    (RelExpr_Reduce_warnings EXPR_LT x (countConst 0) (base_type TYPE_BOOL) =
        ["degenerate comparison"] ∧
      RelExpr_Reduce_warnings EXPR_LE (countConst 0) x (base_type TYPE_BOOL) =
        ["degenerate comparison"]) ∧
    ((Expr.binary EXPR_LT x (countConst 0) (base_type TYPE_BOOL)).IsError = false ∧
      (Expr.binary EXPR_LE (countConst 0) x (base_type TYPE_BOOL)).IsError = false) ∧
    (Reduce (n + 1) c (.binary EXPR_LT x (countConst 0) (base_type TYPE_BOOL)) =
        BinaryExpr_Reduce (ReduceToSingleton n) c EXPR_LT x (countConst 0)
          (base_type TYPE_BOOL) ∧
      Reduce (n + 1) c (.binary EXPR_LE (countConst 0) x (base_type TYPE_BOOL)) =
        BinaryExpr_Reduce (ReduceToSingleton n) c EXPR_LE (countConst 0) x
          (base_type TYPE_BOOL)) := by
  obtain ⟨hs1, hs2⟩ := same_singletons_count_zero hty hnz
  have hz : (countConst 0).Type = base_type TYPE_COUNT := rfl
  refine ⟨⟨?_, ?_, ?_, ?_⟩, ⟨?_, ?_⟩, ⟨rfl, rfl⟩, ⟨?_, ?_⟩⟩
  · rw [mkRelExpr_count _ _ _ hty hz]; simp
  · rw [mkRelExpr_count _ _ _ hz hty]; simp
  · rw [mkRelExpr_count _ _ _ hty hz]; simp
  · rw [mkRelExpr_count _ _ _ hz hty]; simp
  · have hcz : (countConst 0).IsZero = true := rfl
    simp [RelExpr_Reduce_warnings, hs1, hty, hnz, hcz, base_type, BroType.Tag]
  · have hcz : (countConst 0).IsZero = true := rfl
    simp [RelExpr_Reduce_warnings, hs2, hty, hnz, hcz, base_type, BroType.Tag]
  · show red (n + 1) .reduce c _ = _
    rw [red_reduce_binary]
    simp only [RelExpr_Reduce, hs1, Bool.and_false, Bool.false_eq_true, if_false]
    rfl
  · show red (n + 1) .reduce c _ = _
    rw [red_reduce_binary]
    simp only [RelExpr_Reduce, hs2, Bool.and_false, Bool.false_eq_true, if_false]
    rfl

/-- The comparisons of the local `x` of type count with zero. -/
theorem RelExpr_Reduce_degenerate_witness :
    RelExpr_Reduce_warnings EXPR_LT (.name (localVar 1 TYPE_COUNT)) (countConst 0)
        (base_type TYPE_BOOL) = ["degenerate comparison"] ∧
      RelExpr_Reduce_warnings EXPR_LE (countConst 0) (.name (localVar 1 TYPE_COUNT))
        (base_type TYPE_BOOL) = ["degenerate comparison"] :=
  (RelExpr_Reduce_degenerate 0 plainReducer (.name (localVar 1 TYPE_COUNT)) rfl rfl).2.1

/-- C35, counterexample: `0 < 0` and `0 <= 0` compare a count-typed operand
with the constant zero, and `RelExpr::Reduce` returns the constant without
a warning. -/
theorem RelExpr_Reduce_zero_zero_silent :
    mkRelExpr EXPR_LT (countConst 0) (countConst 0) =
      .binary EXPR_LT (countConst 0) (countConst 0) (base_type TYPE_BOOL) ∧
    RelExpr_Reduce_warnings EXPR_LT (countConst 0) (countConst 0) (base_type TYPE_BOOL) = [] ∧
    Reduce 1 plainReducer (mkRelExpr EXPR_LT (countConst 0) (countConst 0)) =
      .ok (boolConst false, none, plainReducer) ∧
    mkRelExpr EXPR_GE (countConst 0) (countConst 0) =
      .binary EXPR_LE (countConst 0) (countConst 0) (base_type TYPE_BOOL) ∧
    RelExpr_Reduce_warnings EXPR_LE (countConst 0) (countConst 0) (base_type TYPE_BOOL) = [] := by
  refine ⟨rfl, rfl, rfl, rfl, rfl⟩

end Zeek

namespace Zeek

open TypeTag InternalTypeTag BroExprTag

theorem red_reduce_eq_Reduce_or (n : Nat) (c : Reducer) (tag : BroExprTag) (op1 op2 : Expr)
    (type : BroType) (htag : isSimplifiable tag = true) :
    red (n + 1) .reduce c (.binary tag op1 op2 type) =
      Reduce_or (fun a b => BinaryExpr_Reduce (red n .toSingleton) c tag a b type)
        (red n .toSingleton) (red n .reduce) c tag op1 op2 type := by
  rw [red_reduce_binary]
  cases tag <;> first | (exact absurd htag (by decide)) | rfl

end Zeek

namespace Zeek

open TypeTag InternalTypeTag BroExprTag

theorem SubExpr_Reduce_or_cases (toS red : Reducer → Expr → Red) (c : Reducer)
    (op1 op2 : Expr) (type : BroType) (hopt : c.optimizing = false) :
    (WillTransform c (.binary EXPR_SUB op1 op2 type) = true →
      ∀ g g' : Expr → Expr → Red,
        SubExpr_Reduce_or g toS red c op1 op2 type =
          SubExpr_Reduce_or g' toS red c op1 op2 type) ∧
    (WillTransform c (.binary EXPR_SUB op1 op2 type) = false →
      ∀ g : Expr → Expr → Red, SubExpr_Reduce_or g toS red c op1 op2 type = g op1 op2) := by
  have hwt : WillTransform c (.binary EXPR_SUB op1 op2 type) =
      (op2.IsZero || op2.Tag = EXPR_NEGATE ||
        (type.Tag != TYPE_VECTOR && type.Tag != TYPE_TABLE &&
          (match op1, op2 with
           | .name i1, .name i2 => decide (i1 = i2)
           | _, _ => false))) := rfl
  rw [hwt]
  unfold SubExpr_Reduce_or
  simp only [Reducer.Optimizing, hopt, Bool.false_eq_true, if_false]
  constructor
  · intro h g g'
    split_ifs with h1 h2 h3
    · rfl
    · rfl
    · rfl
    · exfalso
      simp only [Bool.or_eq_true, decide_eq_true_eq] at h
      rcases h with (h | h) | h
      exacts [h1 h, h2 h, h3 h]
  · intro h g
    simp only [Bool.or_eq_false_iff, decide_eq_false_iff_not] at h
    obtain ⟨⟨h1, h2⟩, h3⟩ := h
    rw [if_neg (by simp [h1]), if_neg h2, if_neg (by rw [h3]; simp)]

theorem Reduce_or_cases (toS red : Reducer → Expr → Red) (c : Reducer) (tag : BroExprTag)
    (op1 op2 : Expr) (type : BroType) (htag : isSimplifiable tag = true)
    (hsub : tag = EXPR_SUB → c.optimizing = false)
    (htimes : tag = EXPR_TIMES → type.Tag = TYPE_DOUBLE →
      (op1.IsZero || op2.IsZero) = true → (op1.IsOne || op2.IsOne) = true) :
    (WillTransform c (.binary tag op1 op2 type) = true →
      ∀ g g' : Expr → Expr → Red,
        Reduce_or g toS red c tag op1 op2 type = Reduce_or g' toS red c tag op1 op2 type) ∧
    (WillTransform c (.binary tag op1 op2 type) = false →
      ∀ g : Expr → Expr → Red, Reduce_or g toS red c tag op1 op2 type = g op1 op2) := by
  cases tag <;> first
    | (exact absurd htag (by decide))
    | (exact SubExpr_Reduce_or_cases toS red c op1 op2 type (hsub rfl))
    | (constructor
       · intro h g g'
         simp only [WillTransform] at h
         simp only [Reduce_or, AddExpr_Reduce_or, SubExpr_Reduce_or, TimesExpr_Reduce_or,
           DivideExpr_Reduce_or, BitExpr_Reduce_or, EqExpr_Reduce_or, RelExpr_Reduce_or,
           Reducer.Optimizing]
         try simp only [hsub rfl, Bool.false_eq_true, if_false]
         split_ifs <;> first | rfl | (exfalso; simp_all)
       · intro h g
         simp only [WillTransform] at h
         simp only [Reduce_or, AddExpr_Reduce_or, SubExpr_Reduce_or, TimesExpr_Reduce_or,
           DivideExpr_Reduce_or, BitExpr_Reduce_or, EqExpr_Reduce_or, RelExpr_Reduce_or,
           Reducer.Optimizing]
         try simp only [hsub rfl, Bool.false_eq_true, if_false]
         split_ifs <;> first | rfl | (exfalso; simp_all))

end Zeek

namespace Zeek

open TypeTag InternalTypeTag BroExprTag

/-- C31: for a node of `AddExpr`, `SubExpr`, `TimesExpr`, `DivideExpr`,
`BitExpr`, `EqExpr` or `RelExpr` — a `SubExpr` outside optimizing mode, a
`TimesExpr` of type double only without a zero operand or with an operand
one — `WillTransform` is true exactly when `Reduce` returns a result that
does not depend on `BinaryExpr::Reduce`, and false exactly when `Reduce`
returns what `BinaryExpr::Reduce` returns. -/
theorem WillTransform_iff_Simplifies (n : Nat) (c : Reducer) (tag : BroExprTag)
    (op1 op2 : Expr) (type : BroType) (htag : isSimplifiable tag = true)
    (hsub : tag = EXPR_SUB → c.optimizing = false)
    (htimes : tag = EXPR_TIMES → type.Tag = TYPE_DOUBLE →
      (op1.IsZero || op2.IsZero) = true → (op1.IsOne || op2.IsOne) = true) :
    Reduce (n + 1) c (.binary tag op1 op2 type) =
      Reduce_or (fun a b => BinaryExpr_Reduce (ReduceToSingleton n) c tag a b type)
        (ReduceToSingleton n) (Reduce n) c tag op1 op2 type ∧
    (WillTransform c (.binary tag op1 op2 type) = true ↔
      Simplifies (ReduceToSingleton n) (Reduce n) c tag op1 op2 type) ∧
    (WillTransform c (.binary tag op1 op2 type) = false ↔
      FallsThrough (ReduceToSingleton n) (Reduce n) c tag op1 op2 type) := by
  obtain ⟨ht, hf⟩ :=
    Reduce_or_cases (ReduceToSingleton n) (Reduce n) c tag op1 op2 type htag hsub htimes
  have hne : (Except.error Failure.fuel : Red) ≠ Except.error Failure.unmodelled := by
    intro h; cases h
  refine ⟨red_reduce_eq_Reduce_or n c tag op1 op2 type htag, ⟨ht, ?_⟩, ⟨?_, ?_⟩⟩
  · intro hs
    cases hw : WillTransform c (.binary tag op1 op2 type) with
    | true => rfl
    | false =>
      have h := hs (fun _ _ => .error .fuel) (fun _ _ => .error .unmodelled)
      rw [hf hw, hf hw] at h
      exact absurd h hne
  · intro hw
    exact ⟨op1, op2, hf hw⟩
  · rintro ⟨a1, a2, hft⟩
    cases hw : WillTransform c (.binary tag op1 op2 type) with
    | false => rfl
    | true =>
      have h := ht hw (fun _ _ => .error .fuel) (fun _ _ => .error .unmodelled)
      rw [hft, hft] at h
      exact absurd h hne

/-- The sum `0 + x` over a local `x` of type count: `WillTransform` holds and
`AddExpr::Reduce` does not reach `BinaryExpr::Reduce`. -/
theorem WillTransform_iff_Simplifies_witness :
    WillTransform plainReducer
        (.binary EXPR_ADD (countConst 0) (.name (localVar 1 TYPE_COUNT))
          (base_type TYPE_COUNT)) = true ↔
      Simplifies (ReduceToSingleton 1) (Reduce 1) plainReducer EXPR_ADD (countConst 0)
        (.name (localVar 1 TYPE_COUNT)) (base_type TYPE_COUNT) :=
  (WillTransform_iff_Simplifies 1 plainReducer EXPR_ADD (countConst 0)
    (.name (localVar 1 TYPE_COUNT)) (base_type TYPE_COUNT) rfl
    (fun h => absurd h (by decide)) (fun h => absurd h (by decide))).2.1

/-- C31, counterexample: in optimizing mode with `y` an alias of `x`,
`WillTransform` is false for `x - y` but `SubExpr::Reduce` folds it to zero
without reaching `BinaryExpr::Reduce`; and for a product of type double with
a zero operand `WillTransform` is true but `TimesExpr::Reduce` returns what
`BinaryExpr::Reduce` returns. -/
theorem WillTransform_Reduce_disagree :
    (mkSubExpr (.name (localVar 1 TYPE_COUNT)) (.name (localVar 2 TYPE_COUNT)) =
        .binary EXPR_SUB (.name (localVar 1 TYPE_COUNT)) (.name (localVar 2 TYPE_COUNT))
          (base_type TYPE_COUNT) ∧
      WillTransform aliasReducer
        (.binary EXPR_SUB (.name (localVar 1 TYPE_COUNT)) (.name (localVar 2 TYPE_COUNT))
          (base_type TYPE_COUNT)) = false ∧
      Simplifies (ReduceToSingleton 1) (Reduce 1) aliasReducer EXPR_SUB
        (.name (localVar 1 TYPE_COUNT)) (.name (localVar 2 TYPE_COUNT)) (base_type TYPE_COUNT) ∧
      Reduce 2 aliasReducer
        (.binary EXPR_SUB (.name (localVar 1 TYPE_COUNT)) (.name (localVar 2 TYPE_COUNT))
          (base_type TYPE_COUNT)) = .ok (countConst 0, none, aliasReducer)) ∧
    (WillTransform plainReducer
        (.binary EXPR_TIMES (countConst 0) (.name (localVar 1 TYPE_DOUBLE))
          (base_type TYPE_DOUBLE)) = true ∧
      FallsThrough (ReduceToSingleton 1) (Reduce 1) plainReducer EXPR_TIMES (countConst 0)
        (.name (localVar 1 TYPE_DOUBLE)) (base_type TYPE_DOUBLE)) := by
  refine ⟨⟨?_, ?_, ?_, ?_⟩, ⟨rfl, ⟨_, _, fun g => rfl⟩⟩⟩
  · rfl
  · rfl
  · intro g g'; rfl
  · rfl

end Zeek

namespace Zeek

open TypeTag InternalTypeTag BroExprTag

theorem MergeStmts_right_none (x : Option Stmt) : MergeStmts x none none = x := by
  cases x <;> rfl

theorem NameExpr_Reduce_not_foldable (c : Reducer) (id : ID) (hopt : c.optimizing = false)
    (hfg : FoldableGlobal id = false) :
    NameExpr_Reduce c id = .ok (c.UpdateName id, none, c) := by
  simp [NameExpr_Reduce, Reducer.Optimizing, hopt, hfg]

/-- C32: outside optimizing mode, for an assignment to a name that is not a
temporary assignment and whose sides disagree on being of type `any`, when
the singleton reduction `r` of the right-hand side is not a constant,
`AssignExpr::Reduce` returns the assignment with `CoerceToAnyExpr(r)` as its
right-hand side if the left side is `any`, and with
`CoerceFromAnyExpr(r, type of the left side)` if the right side is `any`;
the companion statement is that of the singleton reduction. -/
theorem AssignExpr_Reduce_any_coercion (n : Nat) (c : Reducer) (lhs_id : ID)
    (ref_type : BroType) (op2 : Expr) (type : BroType)
    (r : Expr) (s : Option Stmt) (c1 : Reducer)
    (hopt : c.optimizing = false)
    (hany : decide (ref_type.Tag = TYPE_ANY) ≠ decide (op2.Type.Tag = TYPE_ANY))
    (hr : ReduceToSingleton (n + 1) c op2 = .ok (r, s, c1))
    (hsing : IsSingleton c1 r = true) (hnc : r.Tag ≠ EXPR_CONST)
    (hfg : FoldableGlobal lhs_id = false) :
    Reduce (n + 2) c (.assign (.unary EXPR_REF (.name lhs_id) ref_type) op2 false type) =
      .ok (.assign (.unary EXPR_REF (c1.UpdateName lhs_id) ref_type)
            (if ref_type.Tag = TYPE_ANY then mkCoerceToAnyExpr r
             else mkCoerceFromAnyExpr r ref_type) false type, s, c1) := by
  have hc1 : c1.optimizing = false := by
    have := (red_sound (n + 1)).2.1 c op2 (r, s, c1) hr
    exact this.1.trans hopt
  have hrc : r.IsConst = false := by
    simpa [Expr.IsConst] using hnc
  have hne : (decide (ref_type.Tag = TYPE_ANY) != decide (op2.Type.Tag = TYPE_ANY)) = true := by
    cases h1 : decide (ref_type.Tag = TYPE_ANY) <;>
      cases h2 : decide (op2.Type.Tag = TYPE_ANY) <;> simp_all
  have hname := NameExpr_Reduce_not_foldable c1 lhs_id hc1 hfg
  have hr' : red (n + 1) .toSingleton c op2 = .ok (r, s, c1) := hr
  have hfix : ∀ tag ty, tag ≠ EXPR_REF →
      red (n + 1) .toSingletons c1 (.unary tag r ty) = .ok (.unary tag r ty, none, c1) := by
    intro tag ty ht
    apply red_toSingletons_fixed n c1 _ (Or.inr (Or.inr (Or.inr ⟨tag, r, ty, rfl, ht⟩)))
    simp [HasReducedOps, ht, hsing]
  have hty1 : (Expr.unary EXPR_REF (.name lhs_id) ref_type).Type = ref_type := rfl
  have htag : ∀ tag ty, (Expr.unary tag r ty).Tag = tag := fun _ _ => rfl
  have hop1 : ∀ tag ty, (Expr.unary tag r ty).GetOp1 = some r := fun _ _ => rfl
  have hop2 : ∀ tag ty, (Expr.unary tag r ty).GetOp2 = none := fun _ _ => rfl
  show red (n + 2) .reduce c _ = _
  rw [red_reduce_assign]
  by_cases hl : ref_type.Tag = TYPE_ANY
  · have h2 : ¬ op2.Type.Tag = TYPE_ANY := by
      intro h; simp [hl, h] at hany
    simp [AssignExpr_Reduce, Reducer.Optimizing, hopt, hty1, hl, h2, hr', hnc,
      mkCoerceToAnyExpr, WillTransform, hfix, Expr.HasConstantOps, hop1, hop2,
      hrc, htag, red_reduce_name, hname, MergeStmts_right_none,
      bind, Except.bind, pure, Except.pure]
  · have h2 : op2.Type.Tag = TYPE_ANY := by
      by_contra h; simp [hl, h] at hany
    simp [AssignExpr_Reduce, Reducer.Optimizing, hopt, hty1, hl, h2, hr',
      mkCoerceFromAnyExpr, WillTransform, hfix, Expr.HasConstantOps, hop1, hop2,
      hrc, htag, red_reduce_name, hname, MergeStmts_right_none,
      bind, Except.bind, pure, Except.pure]

/-- The assignment `a = x` of a count local `x` to a local `a` of type `any`
reduces to `a = CoerceToAnyExpr(x)`. -/
theorem AssignExpr_Reduce_any_coercion_witness :
    Reduce 3 plainReducer
        (.assign (.unary EXPR_REF (.name (localVar 3 TYPE_ANY)) (base_type TYPE_ANY))
          (.name (localVar 1 TYPE_COUNT)) false (base_type TYPE_ANY)) =
      .ok (.assign (.unary EXPR_REF (.name (localVar 3 TYPE_ANY)) (base_type TYPE_ANY))
            (mkCoerceToAnyExpr (.name (localVar 1 TYPE_COUNT))) false (base_type TYPE_ANY),
          none, plainReducer) :=
  AssignExpr_Reduce_any_coercion 1 plainReducer (localVar 3 TYPE_ANY) (base_type TYPE_ANY)
    (.name (localVar 1 TYPE_COUNT)) (base_type TYPE_ANY) (.name (localVar 1 TYPE_COUNT)) none
    plainReducer rfl (by decide) rfl rfl (by decide) rfl

/-- C32, counterexample: in `a = 5` with `a` of type `any` the sides disagree
on being of type `any`, and `AssignExpr::Reduce` keeps the constant as the
right-hand side, without a coercion node. -/
theorem AssignExpr_Reduce_any_constant_unwrapped :
    (mkRefExpr (.name (localVar 3 TYPE_ANY))).Type.Tag = TYPE_ANY ∧
    (countConst 5).Type.Tag ≠ TYPE_ANY ∧
    Reduce 3 plainReducer
        (.assign (mkRefExpr (.name (localVar 3 TYPE_ANY))) (countConst 5) false
          (base_type TYPE_ANY)) =
      .ok (.assign (mkRefExpr (.name (localVar 3 TYPE_ANY))) (countConst 5) false
          (base_type TYPE_ANY), none, plainReducer) := by
  refine ⟨rfl, by decide, rfl⟩

end Zeek

namespace Zeek

open TypeTag InternalTypeTag BroExprTag

theorem flatCompanions_MergeStmts (s1 s2 s3 : Option Stmt) :
    flatCompanions (MergeStmts s1 s2 s3) =
      flatCompanions s1 ++ flatCompanions s2 ++ flatCompanions s3 := by
  cases s1 <;> cases s2 <;> cases s3 <;>
    simp [MergeStmts, flatCompanions, Stmt.flat, Stmt.flatList]

theorem elems_ofElems_names (ids : List ID) :
    (Expr.ofElems (ids.map Expr.name)).elems = ids.map Expr.name := by
  induction ids with
  | nil => rfl
  | cons id rest ih => simp [Expr.ofElems, Expr.elems, ih]

theorem Tag_ofElems (l : List Expr) : (Expr.ofElems l).Tag = EXPR_LIST := by
  cases l <;> rfl

theorem assignListElems_names (rhs_e : Expr) :
    ∀ (ids : List ID) (i : Nat) (acc : Option Stmt),
      (∀ id ∈ ids, id.is_const = false) →
      ∃ r, assignListElems rhs_e (ids.map Expr.name) i acc = .ok r ∧
        (acc.isSome = true → r.isSome = true) ∧
        flatCompanions r = flatCompanions acc ++
          (ids.enumFrom i).map
            (fun p => Stmt.expr (mkAssignExpr (.name p.2) (mkAnyIndexExpr rhs_e p.1))) := by
  intro ids
  induction ids with
  | nil =>
    intro i acc _
    exact ⟨acc, rfl, id, by simp⟩
  | cons id rest ih =>
    intro i acc h
    have hid : id.is_const = false := h id (List.mem_cons_self _ _)
    obtain ⟨r, hr, hsome, hflat⟩ := ih (i + 1)
      (MergeStmts acc (some (Stmt.expr (mkAssignExpr (.name id) (mkAnyIndexExpr rhs_e i)))) none)
      (fun x hx => h x (List.mem_cons_of_mem _ hx))
    refine ⟨r, ?_, ?_, ?_⟩
    · simp only [List.map_cons, assignListElems, hid, Bool.false_eq_true, if_false]
      exact hr
    · intro ha
      apply hsome
      cases acc <;> simp [MergeStmts] at ha ⊢
    · rw [hflat, flatCompanions_MergeStmts]
      simp [flatCompanions, Stmt.flat, List.enumFrom_cons]

end Zeek

namespace Zeek

open TypeTag InternalTypeTag BroExprTag

/-- C33: outside optimizing mode, for an assignment (not a temporary
assignment) whose left-hand side is a list of `n` identifiers, none of them
a constant, `AssignExpr::Reduce` returns a `NopExpr`, and its companion
statement executes, in this order: the statements of the reduction of the
right-hand side (to a singleton under the any-coercion where the sides
disagree on `any`, then by `Reduce` to `rhs_e`), one `CheckAnyLenStmt` of
`rhs_e` against `n`, and `n` assignments, the `i`-th one assigning
`AnyIndexExpr(rhs_e, i)` to the `i`-th identifier. -/
theorem AssignExpr_Reduce_list_companions (red toS : Reducer → Expr → Red) (c : Reducer)
    (ids : List ID) (ref_type : BroType) (op2 : Expr) (type : BroType)
    (rhs rhs_e : Expr) (rhs_reduce rhs_stmt : Option Stmt) (c1 c2 : Reducer)
    (hopt : c.optimizing = false)
    (hids : ∀ id ∈ ids, id.is_const = false)
    (hany : AssignExpr_coerceAny toS c
        (.unary EXPR_REF (Expr.ofElems (ids.map Expr.name)) ref_type) op2 =
      .ok (rhs, rhs_reduce, c1))
    (hred : red c1 rhs = .ok (rhs_e, rhs_stmt, c2)) :
    ∃ red_stmt : Stmt,
      AssignExpr_Reduce_list red toS c
          (.unary EXPR_REF (Expr.ofElems (ids.map Expr.name)) ref_type) op2 false type =
        .ok (.nop, some red_stmt, c2) ∧
      red_stmt.flat =
        flatCompanions rhs_reduce ++ flatCompanions rhs_stmt ++
          [Stmt.checkAnyLen rhs_e ids.length] ++
          ids.enum.map
            (fun p => Stmt.expr (mkAssignExpr (.name p.2) (mkAnyIndexExpr rhs_e p.1))) := by
  obtain ⟨r, hr, hsome, hflat⟩ := assignListElems_names rhs_e ids 0
    (MergeStmts rhs_reduce rhs_stmt (some (Stmt.checkAnyLen rhs_e ids.length))) hids
  have hs : r.isSome = true := by
    apply hsome
    cases rhs_reduce <;> cases rhs_stmt <;> simp [MergeStmts]
  obtain ⟨red_stmt, rfl⟩ := Option.isSome_iff_exists.mp hs
  refine ⟨red_stmt, ?_, ?_⟩
  · have hlen : (ids.map Expr.name).length = ids.length := List.length_map _ _
    simp only [AssignExpr_Reduce_list, Reducer.Optimizing, hopt, Bool.false_eq_true, if_false,
      hany, Tag_ofElems, elems_ofElems_names, hred, hlen, hr, if_true,
      bind, Except.bind, pure, Except.pure]
  · have h := hflat
    rw [flatCompanions_MergeStmts] at h
    simpa [flatCompanions, Stmt.flat, List.enum] using h

/-- The list assignment `[a, b] = x` with `x` of type `any`: the companion
statements are `tmp = CoerceFromAnyExpr(x)`, the length check of `tmp`
against 2, `a = tmp[0]` and `b = tmp[1]`. -/
theorem AssignExpr_Reduce_list_companions_witness :
    ∃ red_stmt : Stmt,
      AssignExpr_Reduce_list (Reduce_coercion 2) (ReduceToSingleton 2) plainReducer
          (.unary EXPR_REF
            (Expr.ofElems ([localVar 1 TYPE_COUNT, localVar 2 TYPE_STRING].map Expr.name))
            (base_type TYPE_LIST))
          (.name (localVar 3 TYPE_ANY)) false (base_type TYPE_LIST) =
        .ok (.nop, some red_stmt, { plainReducer with num_temps := 1 }) ∧
      red_stmt.flat =
        flatCompanions none ++
          flatCompanions (some (firstTempAssign
            (mkCoerceFromAnyExpr (.name (localVar 3 TYPE_ANY)) (base_type TYPE_LIST)))) ++
          [Stmt.checkAnyLen
            (plainReducer.GenTemporaryExpr (base_type TYPE_LIST)).1
            [localVar 1 TYPE_COUNT, localVar 2 TYPE_STRING].length] ++
          [localVar 1 TYPE_COUNT, localVar 2 TYPE_STRING].enum.map
            (fun p => Stmt.expr (mkAssignExpr (.name p.2)
              (mkAnyIndexExpr (plainReducer.GenTemporaryExpr (base_type TYPE_LIST)).1 p.1))) :=
  AssignExpr_Reduce_list_companions (Reduce_coercion 2) (ReduceToSingleton 2) plainReducer
    [localVar 1 TYPE_COUNT, localVar 2 TYPE_STRING] (base_type TYPE_LIST)
    (.name (localVar 3 TYPE_ANY)) (base_type TYPE_LIST)
    (mkCoerceFromAnyExpr (.name (localVar 3 TYPE_ANY)) (base_type TYPE_LIST))
    (plainReducer.GenTemporaryExpr (base_type TYPE_LIST)).1 none
    (some (firstTempAssign
      (mkCoerceFromAnyExpr (.name (localVar 3 TYPE_ANY)) (base_type TYPE_LIST))))
    plainReducer { plainReducer with num_temps := 1 } rfl (by decide) rfl rfl

/-- C33, counterexample: in optimizing mode `AssignExpr::Reduce` returns the
list assignment `[a, b] = x` itself, with its right-hand side updated and no
companion statement. -/
theorem AssignExpr_Reduce_list_optimizing :
    AssignExpr_Reduce_list (Reduce_coercion 2) (ReduceToSingleton 2) optimizingReducer
        (.unary EXPR_REF
          (Expr.ofElems [.name (localVar 1 TYPE_COUNT), .name (localVar 2 TYPE_STRING)])
          (base_type TYPE_LIST))
        (.name (localVar 3 TYPE_ANY)) false (base_type TYPE_LIST) =
      .ok (listAssign, none, optimizingReducer) := by
  rfl

end Zeek

namespace Zeek

open TypeTag InternalTypeTag BroExprTag

/-- The constructors of the model other than those of the any-coercion nodes
hand the error sentinel of an operand on to the node. -/
theorem constructors_hand_on_error (op1 op2 : Expr)
    (h : (op1.IsError || op2.IsError) = true) :
    (∀ tag, (mkBinaryExpr tag op1 op2).IsError = true) ∧
    (∀ tag, (mkBoolExpr tag op1 op2).IsError = true) ∧
    (op1.IsError = true → (mkRefExpr op1).IsError = true) ∧
    (op1.IsError = true → ∀ t, (mkArithCoerceExpr op1 t).IsError = true) ∧
    (op1.IsError = true → ∀ i, (mkAnyIndexExpr op1 i).IsError = true) ∧
    (mkAssignExpr op1 op2).IsError = true := by
  refine ⟨?_, ?_, ?_, ?_, ?_, ?_⟩
  · intro tag
    cases tag <;>
      simp [mkBinaryExpr, mkAddExpr, mkSubExpr, mkTimesExpr, mkDivideExpr, mkModExpr, mkBitExpr,
        mkEqExpr, mkRelExpr, h] <;> rfl
  · intro tag
    simp [mkBoolExpr, h]; rfl
  · intro h1
    simp [mkRefExpr, h1]; rfl
  · intro h1 t
    simp [mkArithCoerceExpr, h1]; rfl
  · intro h1 i
    simpa [mkAnyIndexExpr, Expr.IsError, Expr.Type] using h1
  · rcases Bool.or_eq_true _ _ |>.mp h with h1 | h2
    · have : (mkRefExpr op1).IsError = true := by simp [mkRefExpr, h1]; rfl
      simp [mkAssignExpr, this]; rfl
    · simp [mkAssignExpr, h2]; rfl

end Zeek

namespace Zeek

open TypeTag InternalTypeTag BroExprTag

/-! ## `BoolExpr::Reduce` with one constant operand -/

/-- What `CallExpr::Reduce` returns outside optimizing mode for a call of
non-void type: a temporary, assigned the call of the reduced function on the
reduced arguments. -/
theorem CallExpr_Reduce_inv (toS : Reducer → Expr → Red) (c : Reducer) (func args : Expr)
    (ty : BroType) (hopt : c.Optimizing = false) (hvoid : ty.Tag ≠ TYPE_VOID)
    (r : Expr × Option Stmt × Reducer) (h : CallExpr_Reduce toS c func args ty = .ok r) :
    ∃ f1 sf cf a1 sa ca, reduceOperand toS c func = .ok (f1, sf, cf) ∧
      ListExpr_Reduce toS cf args = .ok (a1, sa, ca) ∧
      r = AssignToTemporary ca (.call f1 a1 ty) (.call f1 a1 ty) (MergeStmts sf sa none) := by
  simp only [CallExpr_Reduce, hopt, Bool.false_eq_true, if_false] at h
  obtain ⟨⟨f1, sf, cf⟩, h1, h⟩ := bind_ok _ _ _ h
  obtain ⟨⟨a1, sa, ca⟩, h2, h⟩ := bind_ok _ _ _ h
  simp only [hvoid, if_false] at h
  cases h
  exact ⟨f1, sf, cf, a1, sa, ca, h1, h2, rfl⟩

/-- The temporary of `AssignToTemporary` is a singleton that is not a
constant, and the assignment is the last of the statements. -/
theorem AssignToTemporary_spec (c : Reducer) (this e : Expr) (s0 : Option Stmt) :
    (AssignToTemporary c this e s0).1.IsConst = false ∧
    (∀ c1 : Reducer, IsSingleton c1 (AssignToTemporary c this e s0).1 = true) ∧
    (AssignToTemporary c this e s0).2.2.optimizing = c.optimizing ∧
    ∃ lhs ty', flatCompanions (AssignToTemporary c this e s0).2.1 =
      flatCompanions s0 ++ [Stmt.expr (.assign lhs e true ty')] := by
  refine ⟨rfl, fun c1 => rfl, rfl,
    mkRefExpr (c.GenTemporaryExpr this.Type).1,
    (if (mkRefExpr (c.GenTemporaryExpr this.Type).1).IsError || e.IsError then error_type
     else (mkRefExpr (c.GenTemporaryExpr this.Type).1).Type), ?_⟩
  simp only [AssignToTemporary, flatCompanions_MergeStmts]
  simp [flatCompanions, Stmt.flat]

theorem same_singletons_boolConst (x y : Bool) :
    same_singletons (boolConst x) (boolConst y) = decide (x = y) := by
  cases x <;> cases y <;> rfl

/-- `CondExpr::Reduce` outside optimizing mode of `op1 ? x : y`, for boolean
constants `x` and `y`, when `op1` reduces to a singleton that is not a
constant: the reduction returns, and the statements of reducing `op1` are
among its companion statements. -/
theorem CondExpr_Reduce_keeps_first (toS : Reducer → Expr → Red) (c : Reducer)
    (op1 : Expr) (x y : Bool) (ty : BroType) (hopt : c.Optimizing = false)
    (b1 : Expr) (s1 : Option Stmt) (c1 : Reducer) (hr1 : toS c op1 = .ok (b1, s1, c1))
    (hb1 : b1.IsConst = false) (hs1 : IsSingleton c1 b1 = true)
    (hopt1 : c1.Optimizing = false) :
    ∃ r s c', CondExpr_Reduce toS c op1 (boolConst x) (boolConst y) ty = .ok (r, s, c') ∧
      ∀ st ∈ flatCompanions s1, st ∈ flatCompanions s := by
  by_cases hxy : x = y
  · subst hxy
    have hsame := same_singletons_boolConst x x
    simp only [decide_True] at hsame
    have hname : ∃ id, b1 = .name id := by
      cases b1 <;> simp_all [IsSingleton, Expr.IsConst, Expr.Tag]
    obtain ⟨id, rfl⟩ := hname
    refine ⟨boolConst x, MergeStmts s1 none none, c1, ?_, ?_⟩
    · simp [CondExpr_Reduce, hopt, hr1, hsame, bind, Except.bind, pure, Except.pure,
        Expr.HasNoSideEffects, Expr.Tag]
    · intro st hst
      rw [flatCompanions_MergeStmts]
      simp [hst]
  · have hsame : same_singletons (boolConst x) (boolConst y) = false := by
      rw [same_singletons_boolConst]; simpa using hxy
    have h := CondExpr_Reduce_general toS c op1 (boolConst x) (boolConst y) ty hopt b1 s1 c1
      hr1 hb1 hs1 hopt1 hsame (boolConst x) none c1 (reduceOperand_const toS c1 _)
      (boolConst y) none c1 (reduceOperand_const toS c1 _)
    refine ⟨_, _, _, h, ?_⟩
    intro st hst
    rw [flatCompanions_MergeStmts]
    simp [hst]

/-- C6, counterexample: in optimizing mode the node `f() && T`, with `f` an
impure built-in, reduces to the conditional `f() ? T : F` with a null
companion statement: the call stays in the returned expression and no
statement retains it. -/
theorem BoolExpr_Reduce_optimizing_null_companion :
    impureCall.IsConst = false ∧ impureCall.HasNoSideEffects = false ∧
    optimizingReducer.Optimizing = true ∧
    Reduce 5 optimizingReducer
        (.binary EXPR_AND_AND impureCall (boolConst true) (base_type TYPE_BOOL)) =
      .ok (.cond impureCall (boolConst true) (boolConst false) (base_type TYPE_BOOL), none,
           optimizingReducer) ∧
    companions (none : Option Stmt) = [] :=
  ⟨rfl, rfl, rfl, rfl, rfl⟩

/-- C6 (amended): a `&&` / `||` node with exactly one constant boolean operand
`b`, the other operand `e` not being a constant.  With the constant first,
`BoolExpr::Reduce` returns the constant itself, `e` not being reduced
(`F && e`, `T || e`), or the reduction of `e` to a singleton (`T && e`,
`F || e`).  With the constant second and `e` free of side effects it returns
the reduction of `e` (`e && T`, `e || F`) or the constant (`e && F`,
`e || T`).  With the constant second and `e` having side effects the node is
lowered to the conditional `e ? b : F` (resp. `e ? T : b`).  Outside
optimizing mode, when `e` is a call (of non-void type, as an operand of
`&&` / `||` is) and the reduction of the call by itself returns, the
reduction of the node returns as well and retains the call in the companion
statements: they hold every companion statement of the reduction of `e`,
among them the assignment to a temporary of the call of the reduced function
on the reduced arguments.  When the function and the arguments of the call
are singletons the reduction of the call does return, and the assignment of
`e` itself to a temporary is among the companion statements of the node. -/
theorem BoolExpr_Reduce_one_constant (n : Nat) (c : Reducer) (tag : BroExprTag) (e : Expr)
    (b : Bool) (type : BroType) (htag : tag = EXPR_AND_AND ∨ tag = EXPR_OR_OR)
    (he : e.IsConst = false) :
    (Reduce (n + 3) c (.binary tag (boolConst b) e type) =
      if decide (tag = EXPR_AND_AND) = b then ReduceToSingleton (n + 2) c e
      else .ok (boolConst b, none, c)) ∧
    (e.HasNoSideEffects = true →
      Reduce (n + 3) c (.binary tag e (boolConst b) type) =
        if decide (tag = EXPR_AND_AND) = b then ReduceToSingleton (n + 2) c e
        else .ok (boolConst b, none, c)) ∧
    (e.HasNoSideEffects = false →
      Reduce (n + 2) c (.binary tag e (boolConst b) type) =
        ReduceToSingleton (n + 1) c
          (if tag = EXPR_AND_AND then mkCondExpr e (boolConst b) (boolConst false)
           else mkCondExpr e (boolConst true) (boolConst b))) ∧
    (e.HasNoSideEffects = false → c.Optimizing = false →
      ∀ func args ty, e = .call func args ty → ty.Tag ≠ TYPE_VOID →
        ∀ r1 s1 c1, Reduce (n + 1) c e = .ok (r1, s1, c1) →
          ∃ r s c' f1 a1 lhs ty',
            Reduce (n + 5) c (.binary tag e (boolConst b) type) = .ok (r, s, c') ∧
            (∀ st ∈ flatCompanions s1, st ∈ flatCompanions s) ∧
            Stmt.expr (.assign lhs (.call f1 a1 ty) true ty') ∈ flatCompanions s1 ∧
            (∃ sf cf sa ca, reduceOperand (ReduceToSingleton n) c func = .ok (f1, sf, cf) ∧
              ListExpr_Reduce (ReduceToSingleton n) cf args = .ok (a1, sa, ca))) ∧
    (e.HasNoSideEffects = false → c.Optimizing = false →
      ∀ func args ty, e = .call func args ty → IsSingleton c func = true →
        (∀ a ∈ args.elems, IsSingleton c a = true) → Expr.ofElems args.elems = args →
        ty.Tag ≠ TYPE_VOID →
        ∃ r s c' lhs ty',
          Reduce (n + 5) c (.binary tag e (boolConst b) type) = .ok (r, s, c') ∧
          Stmt.expr (.assign lhs e true ty') ∈ companions s) := by
  refine ⟨BoolExpr_Reduce_const_first n c tag e b type htag,
    BoolExpr_Reduce_const_second n c tag e b type htag he,
    BoolExpr_Reduce_effects_first n c tag e b type htag he, ?_, ?_⟩
  · intro heff hopt func args ty hcall hvoid r1 s1 c1 hr
    rw [BoolExpr_Reduce_effects_first (n + 3) c tag e b type htag he heff]
    subst hcall
    have hr' : CallExpr_Reduce (red n .toSingleton) c func args ty = .ok (r1, s1, c1) := by
      rw [← red_reduce_call]; exact hr
    obtain ⟨f1, sf, cf, a1, sa, ca, hf, ha, hres⟩ :=
      CallExpr_Reduce_inv (red n .toSingleton) c func args ty hopt hvoid _ hr'
    obtain ⟨k1, k2, _, lhs, ty', k4⟩ :=
      AssignToTemporary_spec ca (.call f1 a1 ty) (.call f1 a1 ty) (MergeStmts sf sa none)
    rw [← hres] at k1 k2 k4
    have hmode : c1.Optimizing = false := by
      have := ((red_sound (n + 1)).1 c (.call func args ty) (r1, s1, c1) hr).1
      simp only [Reducer.Optimizing] at hopt ⊢
      rw [← hopt]; exact this
    have htoS : red (n + 2) .toSingleton c (.call func args ty) = .ok (r1, s1, c1) := by
      rw [red_toSingleton_call]; exact hr
    have hmem : Stmt.expr (.assign lhs (.call f1 a1 ty) true ty') ∈ flatCompanions s1 := by
      rw [k4]; simp
    have key : ∀ (x y : Bool) (ty1 : BroType),
        ∃ r s c', ReduceToSingleton (n + 4) c
            (.cond (.call func args ty) (boolConst x) (boolConst y) ty1) = .ok (r, s, c') ∧
          ∀ st ∈ flatCompanions s1, st ∈ flatCompanions s := by
      intro x y ty1
      rw [ReduceToSingleton, red_toSingleton_cond, red_reduce_cond]
      exact CondExpr_Reduce_keeps_first (red (n + 2) .toSingleton) c (.call func args ty) x y
        ty1 hopt r1 s1 c1 htoS k1 (k2 c1) hmode
    by_cases hand : tag = EXPR_AND_AND
    · rw [if_pos hand]
      obtain ⟨ty1, h1⟩ := mkCondExpr_boolConst (.call func args ty) b false
      rw [h1]
      obtain ⟨r, s, c', hk, hsub⟩ := key b false ty1
      exact ⟨r, s, c', f1, a1, lhs, ty', hk, hsub, hmem, sf, cf, sa, ca, hf, ha⟩
    · rw [if_neg hand]
      obtain ⟨ty1, h1⟩ := mkCondExpr_boolConst (.call func args ty) true b
      rw [h1]
      obtain ⟨r, s, c', hk, hsub⟩ := key true b ty1
      exact ⟨r, s, c', f1, a1, lhs, ty', hk, hsub, hmem, sf, cf, sa, ca, hf, ha⟩
  · intro heff hopt func args ty hcall hf hargs hlist hvoid
    rw [BoolExpr_Reduce_effects_first (n + 3) c tag e b type htag he heff]
    subst hcall
    by_cases hand : tag = EXPR_AND_AND
    · rw [if_pos hand]
      obtain ⟨ty1, h1⟩ := mkCondExpr_boolConst (.call func args ty) b false
      rw [h1, ReduceToSingleton, red_toSingleton_cond]
      exact CondExpr_Reduce_call n c func args ty ty1 b false hopt hf hargs hlist hvoid
    · rw [if_neg hand]
      obtain ⟨ty1, h1⟩ := mkCondExpr_boolConst (.call func args ty) true b
      rw [h1, ReduceToSingleton, red_toSingleton_cond]
      exact CondExpr_Reduce_call n c func args ty ty1 true b hopt hf hargs hlist hvoid

/-- The node `f() && T` for the impure built-in `f`, outside optimizing mode:
the reduction keeps the assignment `tmp = f()` among its companion
statements. -/
theorem BoolExpr_Reduce_one_constant_witness :
    (∃ r s c' f1 a1 lhs ty',
      Reduce 5 plainReducer (.binary EXPR_AND_AND impureCall (boolConst true)
        (base_type TYPE_BOOL)) = .ok (r, s, c') ∧
      (∀ st ∈ flatCompanions (some (firstTempAssign impureCall)), st ∈ flatCompanions s) ∧
      Stmt.expr (.assign lhs (.call f1 a1 (base_type TYPE_BOOL)) true ty') ∈
        flatCompanions (some (firstTempAssign impureCall)) ∧
      (∃ sf cf sa ca,
        reduceOperand (ReduceToSingleton 0) plainReducer (.name impureBuiltin) =
          .ok (f1, sf, cf) ∧
        ListExpr_Reduce (ReduceToSingleton 0) cf .listNil = .ok (a1, sa, ca))) ∧
    (∃ r s c' lhs ty',
      Reduce 5 plainReducer (.binary EXPR_AND_AND impureCall (boolConst true)
        (base_type TYPE_BOOL)) = .ok (r, s, c') ∧
      Stmt.expr (.assign lhs impureCall true ty') ∈ companions s) :=
  ⟨(BoolExpr_Reduce_one_constant 0 plainReducer EXPR_AND_AND impureCall true
      (base_type TYPE_BOOL) (Or.inl rfl) rfl).2.2.2.1 rfl rfl _ _ _ rfl (by decide)
      _ _ _ rfl,
   (BoolExpr_Reduce_one_constant 0 plainReducer EXPR_AND_AND impureCall true
      (base_type TYPE_BOOL) (Or.inl rfl) rfl).2.2.2.2 rfl rfl _ _ _ rfl rfl
      (by simp [impureCall, Expr.elems]) rfl (by decide)⟩

end Zeek
